import Mathlib

/-!
# SimpleFS: a shallow embedding of the on-disk metadata layer

The C++ sources (`include/simplefs.h`, `src/utils.cpp`, `src/disk_io.cpp`,
`src/metadata.cpp`, `src/fuse_ops.cpp`) are embedded as Lean functions.

Conventions of the embedding:

* A byte buffer (`std::vector<uint8_t>`, a packed struct in memory, a device
  block) is a function `Nat → Nat` from byte offset to byte value. Multi-byte
  fields are read and written little-endian through `getLE` / `setLE`, at the
  offsets the packed struct layout of `simplefs.h` gives them.
* Machine integers are `Nat`; every place where the C++ narrows a value
  (`uint16_t`, `uint32_t`, `int`) is marked with an explicit `% 2^w`.
* Stateful code passes the mount context explicitly. The context carries the
  device, the in-memory superblock and group-descriptor table and, because the
  C++ reads it back for control flow, the thread's `errno`.
* Device I/O can fail: a device carries, per block number, whether `pread` and
  `pwrite` succeed.
-/

namespace SimpleFS

/-! ## Constants (`include/simplefs.h`, `<errno.h>`, `<sys/stat.h>`) -/

def SIMPLEFS_MAGIC : Nat := 0x5350
def SIMPLEFS_BLOCK_SIZE : Nat := 4096
def SIMPLEFS_ROOT_INODE_NUM : Nat := 2
def SIMPLEFS_INODE_SIZE : Nat := 128
def SIMPLEFS_NUM_DIRECT_BLOCKS : Nat := 12
def SIMPLEFS_INODE_BLOCK_PTRS : Nat := 15
def SIMPLEFS_MAX_FILENAME_LEN : Nat := 255
def FUSE_SYMLINK_MAX : Nat := 40

def EPERM : Nat := 1
def ENOENT : Nat := 2
def EIO : Nat := 5
def ENOMEM : Nat := 12
def EACCES : Nat := 13
def EEXIST : Nat := 17
def ENOTDIR : Nat := 20
def EISDIR : Nat := 21
def EINVAL : Nat := 22
def EFBIG : Nat := 27
def ENOSPC : Nat := 28
def ENAMETOOLONG : Nat := 36
def ENOTEMPTY : Nat := 39
def ELOOP : Nat := 40

def S_IFMT : Nat := 0xF000
def S_IFLNK : Nat := 0xA000
def S_IFREG : Nat := 0x8000
def S_IFDIR : Nat := 0x4000
def S_IFIFO : Nat := 0x1000
def S_ISUID : Nat := 0o4000
def S_ISGID : Nat := 0o2000
def S_ISVTX : Nat := 0o1000

def R_OK : Nat := 4
def W_OK : Nat := 2
def X_OK : Nat := 1

/-- Narrowing to `uint32_t`. -/
def u32 (x : Nat) : Nat := x % 4294967296

/-- Narrowing to `uint16_t`. -/
def u16 (x : Nat) : Nat := x % 65536

/-- Type test `S_ISDIR(m)`. -/
def S_ISDIR (m : Nat) : Bool := decide (Nat.land m S_IFMT = S_IFDIR)

/-- Type test `S_ISREG(m)`. -/
def S_ISREG (m : Nat) : Bool := decide (Nat.land m S_IFMT = S_IFREG)

/-- Type test `S_ISLNK(m)`. -/
def S_ISLNK (m : Nat) : Bool := decide (Nat.land m S_IFMT = S_IFLNK)

/-- Type test `S_ISFIFO(m)`. -/
def S_ISFIFO (m : Nat) : Bool := decide (Nat.land m S_IFMT = S_IFIFO)

/-! ## Byte buffers -/

/-- Byte buffer: offset to byte value. -/
abbrev Buf := Nat → Nat

/-- The all-zero buffer (`std::vector<uint8_t>(n, 0)`, `memset(p, 0, n)`). -/
def zeroBuf : Buf := fun _ => 0

/-- Little-endian read of a `w`-byte unsigned field at byte offset `off`. -/
def getLE (m : Buf) (off : Nat) : Nat → Nat
  | 0 => 0
  | w + 1 => m off % 256 + 256 * getLE m (off + 1) w

/-- Little-endian store of the low `w` bytes of `v` at byte offset `off`. -/
def setLE (m : Buf) (off w v : Nat) : Buf :=
  fun i => if off ≤ i ∧ i < off + w then (v / 256 ^ (i - off)) % 256 else m i

/-- The call `memcpy(dst + doff, src + soff, len)`. -/
def blit (dst : Buf) (doff : Nat) (src : Buf) (soff len : Nat) : Buf :=
  fun i => if doff ≤ i ∧ i < doff + len then src (soff + (i - doff)) else dst i

/-- Copy of a byte string (a `std::string`, given as the list of its bytes)
to offset `doff` of a buffer. -/
def blitList (dst : Buf) (doff : Nat) (s : List Nat) : Buf :=
  fun i => if doff ≤ i ∧ i < doff + s.length then s.getD (i - doff) 0 else dst i

/-- The `len` bytes of a buffer from offset `off`, as a list. -/
def bytesOf (m : Buf) (off len : Nat) : List Nat :=
  (List.range len).map (fun i => m (off + i))

/-- Element `i` of a block viewed as `std::vector<uint32_t>`. -/
def ptrAt (blk : Buf) (i : Nat) : Nat := getLE blk (4 * i) 4

/-- Assignment to element `i` of a block viewed as `std::vector<uint32_t>`. -/
def setPtr (blk : Buf) (i v : Nat) : Buf := setLE blk (4 * i) 4 v

/-! ## Block device (`src/disk_io.cpp`) -/

/-- The device behind `DeviceFd`: block contents, and for each block number
whether a full-block `pread` / `pwrite` succeeds. -/
structure Device where
  data : Nat → Buf
  readable : Nat → Bool
  writable : Nat → Bool

/-- Source function `read_block`: `none` is the return value `-1`. -/
def read_block (fd : Device) (block_num : Nat) : Option Buf :=
  if fd.readable block_num then some (fd.data block_num) else none

/-- Source function `write_block`: `none` is the return value `-1`. -/
def write_block (fd : Device) (block_num : Nat) (buffer : Buf) : Option Device :=
  if fd.writable block_num then
    some { fd with data := fun b => if b = block_num then buffer else fd.data b }
  else none

/-! ## On-disk structures (`include/simplefs.h`) -/

/-- In-memory `SimpleFS_SuperBlock`. -/
structure SimpleFS_SuperBlock where
  s_magic : Nat
  s_inodes_count : Nat
  s_blocks_count : Nat
  s_free_blocks_count : Nat
  s_free_inodes_count : Nat
  s_first_data_block : Nat
  s_log_block_size : Nat
  s_blocks_per_group : Nat
  s_inodes_per_group : Nat
  s_mtime : Nat
  s_wtime : Nat
  s_mnt_count : Nat
  s_max_mnt_count : Nat
  s_state : Nat
  s_errors : Nat
  s_first_ino : Nat
  s_inode_size : Nat
  s_block_group_nr : Nat
  s_root_inode : Nat

/-- In-memory `SimpleFS_GroupDesc`. -/
structure SimpleFS_GroupDesc where
  bg_block_bitmap : Nat
  bg_inode_bitmap : Nat
  bg_inode_table : Nat
  bg_free_blocks_count : Nat
  bg_free_inodes_count : Nat
  bg_used_dirs_count : Nat
  deriving Inhabited

/-- The mount context `SimpleFS_Context`, together with the two pieces of
process state the code reads: the thread's `errno` and the value `now` that
`time(nullptr)` returns. -/
structure SimpleFS_Context where
  device_fd : Device
  sb : SimpleFS_SuperBlock
  gdt : List SimpleFS_GroupDesc
  errno : Nat
  now : Nat

/-- Identity data of one request: `fuse_get_context()->uid` and `->gid` of the
caller, and the answer of `getgroups` in the file-system process, which is the
group list of that process and not of the caller; `none` when a `getgroups`
call fails. The value `errno` takes from a failing `getgroups` is not
modelled. -/
structure fuse_context where
  uid : Nat
  gid : Nat
  getgroups : Option (List Nat)

/-- The gids that `getgroups` delivers, the group list of the file-system
process; no gid when the call fails. -/
def fuse_context.process_groups (caller_context : fuse_context) : List Nat :=
  match caller_context.getgroups with
  | some supp_group_list => supp_group_list
  | none => []

/-- Assignment `errno = e`. -/
def setErrno (context : SimpleFS_Context) (e : Nat) : SimpleFS_Context :=
  { context with errno := e }

/-! ### `SimpleFS_Inode`: a packed 128-byte record -/

def i_mode (ino : Buf) : Nat := getLE ino 0 2
def i_uid (ino : Buf) : Nat := getLE ino 2 2
def i_size (ino : Buf) : Nat := getLE ino 4 4
def i_atime (ino : Buf) : Nat := getLE ino 8 4
def i_ctime (ino : Buf) : Nat := getLE ino 12 4
def i_mtime (ino : Buf) : Nat := getLE ino 16 4
def i_dtime (ino : Buf) : Nat := getLE ino 20 4
def i_gid (ino : Buf) : Nat := getLE ino 24 2
def i_links_count (ino : Buf) : Nat := getLE ino 26 2
def i_blocks (ino : Buf) : Nat := getLE ino 28 4
def i_flags (ino : Buf) : Nat := getLE ino 32 4
/-- Field `i_block[k]`. -/
def i_block (ino : Buf) (k : Nat) : Nat := getLE ino (36 + 4 * k) 4

def set_i_mode (ino : Buf) (v : Nat) : Buf := setLE ino 0 2 v
def set_i_uid (ino : Buf) (v : Nat) : Buf := setLE ino 2 2 v
def set_i_size (ino : Buf) (v : Nat) : Buf := setLE ino 4 4 v
def set_i_atime (ino : Buf) (v : Nat) : Buf := setLE ino 8 4 v
def set_i_ctime (ino : Buf) (v : Nat) : Buf := setLE ino 12 4 v
def set_i_mtime (ino : Buf) (v : Nat) : Buf := setLE ino 16 4 v
def set_i_dtime (ino : Buf) (v : Nat) : Buf := setLE ino 20 4 v
def set_i_gid (ino : Buf) (v : Nat) : Buf := setLE ino 24 2 v
def set_i_links_count (ino : Buf) (v : Nat) : Buf := setLE ino 26 2 v
def set_i_blocks (ino : Buf) (v : Nat) : Buf := setLE ino 28 4 v
def set_i_block (ino : Buf) (k v : Nat) : Buf := setLE ino (36 + 4 * k) 4 v

/-- Byte offset of `i_block` inside the inode and its size `sizeof(i_block)`. -/
def I_BLOCK_OFF : Nat := 36
def I_BLOCK_BYTES : Nat := 60

/-! ## Block map, read-only walk (`src/metadata.cpp`) -/

/-- Source function `map_logical_to_physical_block`. The result pairs the
returned block number with the context, in which only `errno` can differ. -/
def map_logical_to_physical_block (context : SimpleFS_Context) (inode : Buf)
    (logical_block_idx : Nat) : Nat × SimpleFS_Context :=
  if logical_block_idx < SIMPLEFS_NUM_DIRECT_BLOCKS then
    (i_block inode logical_block_idx, context)
  else
  let pointers_per_block := SIMPLEFS_BLOCK_SIZE / 4
  let single_indirect_start_idx := SIMPLEFS_NUM_DIRECT_BLOCKS
  let single_indirect_end_idx := single_indirect_start_idx + pointers_per_block
  if logical_block_idx < single_indirect_end_idx then
    let single_indirect_block_num := i_block inode SIMPLEFS_NUM_DIRECT_BLOCKS
    if single_indirect_block_num = 0 then (0, setErrno context 0) else
    match read_block context.device_fd single_indirect_block_num with
    | none => (0, setErrno context EIO)
    | some indirect_block_buffer =>
      let idx_in_indirect := logical_block_idx - single_indirect_start_idx
      (ptrAt indirect_block_buffer idx_in_indirect, context)
  else
  let double_indirect_start_idx := single_indirect_end_idx
  let double_indirect_max_entries := pointers_per_block * pointers_per_block
  let double_indirect_end_idx := double_indirect_start_idx + double_indirect_max_entries
  if logical_block_idx < double_indirect_end_idx then
    let dbl_indirect_block_num := i_block inode (SIMPLEFS_NUM_DIRECT_BLOCKS + 1)
    if dbl_indirect_block_num = 0 then (0, setErrno context 0) else
    match read_block context.device_fd dbl_indirect_block_num with
    | none => (0, setErrno context EIO)
    | some indirect_block_buffer =>
      let logical_offset_in_dbl := logical_block_idx - double_indirect_start_idx
      let idx_in_dbl_indirect_block := logical_offset_in_dbl / pointers_per_block
      let single_indirect_block_to_read := ptrAt indirect_block_buffer idx_in_dbl_indirect_block
      if single_indirect_block_to_read = 0 then (0, setErrno context 0) else
      match read_block context.device_fd single_indirect_block_to_read with
      | none => (0, setErrno context EIO)
      | some indirect_block_buffer =>
        let idx_in_single_indirect_block := logical_offset_in_dbl % pointers_per_block
        (ptrAt indirect_block_buffer idx_in_single_indirect_block, context)
  else
  let triple_indirect_start_idx := double_indirect_end_idx
  let triple_indirect_max_logical_blocks := pointers_per_block * pointers_per_block * pointers_per_block
  let triple_indirect_end_idx := triple_indirect_start_idx + triple_indirect_max_logical_blocks
  if logical_block_idx < triple_indirect_end_idx then
    let tpl_indirect_block_num := i_block inode (SIMPLEFS_NUM_DIRECT_BLOCKS + 2)
    if tpl_indirect_block_num = 0 then (0, setErrno context 0) else
    match read_block context.device_fd tpl_indirect_block_num with
    | none => (0, setErrno context EIO)
    | some indirect_block_buffer =>
      let logical_offset_in_tpl := logical_block_idx - triple_indirect_start_idx
      let idx_in_tpl_indirect_block := logical_offset_in_tpl / (pointers_per_block * pointers_per_block)
      let dbl_indirect_block_to_read := ptrAt indirect_block_buffer idx_in_tpl_indirect_block
      if dbl_indirect_block_to_read = 0 then (0, setErrno context 0) else
      match read_block context.device_fd dbl_indirect_block_to_read with
      | none => (0, setErrno context EIO)
      | some indirect_block_buffer =>
        let logical_offset_in_dbl_from_tpl := logical_offset_in_tpl % (pointers_per_block * pointers_per_block)
        let idx_in_dbl_from_tpl := logical_offset_in_dbl_from_tpl / pointers_per_block
        let sgl_indirect_block_to_read := ptrAt indirect_block_buffer idx_in_dbl_from_tpl
        if sgl_indirect_block_to_read = 0 then (0, setErrno context 0) else
        match read_block context.device_fd sgl_indirect_block_to_read with
        | none => (0, setErrno context EIO)
        | some indirect_block_buffer =>
          let idx_in_sgl_final := logical_offset_in_dbl_from_tpl % pointers_per_block
          (ptrAt indirect_block_buffer idx_in_sgl_final, context)
  else
    (0, setErrno context EFBIG)

/-! ## Bitmap primitive (`src/utils.cpp`) -/

/-- Assignment `buf[i] = v` on a byte buffer. -/
def setByte (m : Buf) (i v : Nat) : Buf := fun j => if j = i then v else m j

/-- Source function `set_bitmap_bit`; `size` is `bitmap_data.size()`. -/
def set_bitmap_bit (bitmap_data : Buf) (size : Nat) (bit_index : Nat) : Buf :=
  let byte_index := bit_index / 8
  let bit_offset := bit_index % 8
  if bit_index < size * 8 then
    setByte bitmap_data byte_index
      (Nat.lor (bitmap_data byte_index % 256) (Nat.shiftLeft 1 bit_offset) % 256)
  else bitmap_data

/-- Source function `clear_bitmap_bit`; `size` is `bitmap_data.size()`. The
byte-wide complement `~(1 << bit_offset)` is `255 - (1 << bit_offset)`. -/
def clear_bitmap_bit (bitmap_data : Buf) (size : Nat) (bit_index : Nat) : Buf :=
  let byte_index := bit_index / 8
  let bit_offset := bit_index % 8
  if bit_index < size * 8 then
    setByte bitmap_data byte_index
      (Nat.land (bitmap_data byte_index % 256) (255 - Nat.shiftLeft 1 bit_offset))
  else bitmap_data

/-- Source function `is_bitmap_bit_set`; `size` is `bitmap_data.size()`. -/
def is_bitmap_bit_set (bitmap_data : Buf) (size : Nat) (bit_index : Nat) : Bool :=
  let byte_index := bit_index / 8
  let bit_offset := bit_index % 8
  if bit_index < size * 8 then
    decide (Nat.land (bitmap_data byte_index % 256) (Nat.shiftLeft 1 bit_offset) ≠ 0)
  else true

/-- Source function `calculate_dir_entry_len` (`include/utils.h`): the argument
is narrowed to `uint8_t`, the result is `(8 + name_len + 3) & ~3`. -/
def calculate_dir_entry_len (name_len : Nat) : Nat :=
  ((8 + name_len % 256 + 3) / 4) * 4

/-- Source function `is_backup_group`, first loop shape: `while (n % d == 0) n /= d`,
run for at most `fuel` iterations. -/
def strip_factor (d : Nat) : Nat → Nat → Nat
  | 0, n => n
  | fuel + 1, n => if n % d = 0 then strip_factor d fuel (n / d) else n

/-- Source function `is_backup_group`. Each loop runs at most 32 times on a
non-zero 32-bit value. -/
def is_backup_group (group_index : Nat) : Bool :=
  if group_index = 0 ∨ group_index = 1 then true
  else
    let n := group_index
    let n := strip_factor 3 32 n
    let n := strip_factor 5 32 n
    let n := strip_factor 7 32 n
    decide (n = 1)

/-! ## Loops with an early exit -/

/-- The loop `for (i = start; i < start + n; ++i) if (p i) return i;`: the
first index from `start`, among `n` candidates, at which `p` holds. -/
def firstIdx (p : Nat → Bool) : Nat → Nat → Option Nat
  | 0, _ => none
  | n + 1, start => if p start then some start else firstIdx p n (start + 1)

/-! ## Allocator (`src/metadata.cpp`) -/

/-- Decrement of a `uint16_t`. -/
def dec16 (x : Nat) : Nat := if x = 0 then 65535 else (x - 1) % 65536
/-- Increment of a `uint16_t`. -/
def inc16 (x : Nat) : Nat := (x + 1) % 65536
/-- Decrement of a `uint32_t`. -/
def dec32 (x : Nat) : Nat := if x = 0 then 4294967295 else (x - 1) % 4294967296
/-- Increment of a `uint32_t`. -/
def inc32 (x : Nat) : Nat := (x + 1) % 4294967296
/-- Subtraction of `uint32_t` values, `a - b` modulo `2^32`. -/
def sub32 (a b : Nat) : Nat :=
  if b ≤ a then (a - b) % 4294967296
  else (4294967296 - (b - a) % 4294967296) % 4294967296

/-- Groups loop of `alloc_inode`, from `group_idx` for `remaining` groups. -/
def alloc_inode_loop (context : SimpleFS_Context) (mode : Nat) :
    Nat → Nat → Nat × SimpleFS_Context
  | 0, _ => (0, setErrno context ENOSPC)
  | remaining + 1, group_idx =>
    let gd := context.gdt.getD group_idx default
    if gd.bg_free_inodes_count > 0 then
      match read_block context.device_fd gd.bg_inode_bitmap with
      | none => alloc_inode_loop context mode remaining (group_idx + 1)
      | some inode_bitmap_data =>
        -- first bit that is clear and whose inode number is not skipped
        match firstIdx (fun bit_idx =>
            !is_bitmap_bit_set inode_bitmap_data SIMPLEFS_BLOCK_SIZE bit_idx &&
            (let inode_num := u32 (group_idx * context.sb.s_inodes_per_group + bit_idx + 1)
             !(decide (inode_num = 0) || decide (inode_num > context.sb.s_inodes_count))))
            context.sb.s_inodes_per_group 0 with
        | none => alloc_inode_loop context mode remaining (group_idx + 1)
        | some bit_idx =>
          let inode_num := u32 (group_idx * context.sb.s_inodes_per_group + bit_idx + 1)
          let inode_bitmap_data := set_bitmap_bit inode_bitmap_data SIMPLEFS_BLOCK_SIZE bit_idx
          match write_block context.device_fd gd.bg_inode_bitmap inode_bitmap_data with
          | none => (0, setErrno context EIO)
          | some dev =>
            let gd := { gd with bg_free_inodes_count := dec16 gd.bg_free_inodes_count }
            let gd := if S_ISDIR mode then
                { gd with bg_used_dirs_count := inc16 gd.bg_used_dirs_count } else gd
            (inode_num,
              { context with
                device_fd := dev
                gdt := context.gdt.set group_idx gd
                sb := { context.sb with
                  s_free_inodes_count := dec32 context.sb.s_free_inodes_count } })
    else alloc_inode_loop context mode remaining (group_idx + 1)

/-- Source function `alloc_inode`; the result `0` is failure. -/
def alloc_inode (context : SimpleFS_Context) (mode : Nat) : Nat × SimpleFS_Context :=
  if context.sb.s_free_inodes_count = 0 then (0, setErrno context ENOSPC)
  else alloc_inode_loop context mode context.gdt.length 0

/-- Source function `free_inode`. -/
def free_inode (context : SimpleFS_Context) (inode_num : Nat)
    (mode_of_freed_inode : Nat) : SimpleFS_Context :=
  if inode_num = 0 ∨ inode_num > context.sb.s_inodes_count then context
  else if inode_num < context.sb.s_first_ino ∧ inode_num ≠ 0 then context
  else
    let group_idx := (inode_num - 1) / context.sb.s_inodes_per_group
    if group_idx ≥ context.gdt.length then context
    else
      let gd := context.gdt.getD group_idx default
      let bit_idx := (inode_num - 1) % context.sb.s_inodes_per_group
      match read_block context.device_fd gd.bg_inode_bitmap with
      | none => context
      | some inode_bitmap_data =>
        let inode_bitmap_data := clear_bitmap_bit inode_bitmap_data SIMPLEFS_BLOCK_SIZE bit_idx
        match write_block context.device_fd gd.bg_inode_bitmap inode_bitmap_data with
        | none => context
        | some dev =>
          let gd := { gd with bg_free_inodes_count := inc16 gd.bg_free_inodes_count }
          let gd := if S_ISDIR mode_of_freed_inode then
              (if gd.bg_used_dirs_count > 0 then
                { gd with bg_used_dirs_count := dec16 gd.bg_used_dirs_count } else gd)
            else gd
          { context with
            device_fd := dev
            gdt := context.gdt.set group_idx gd
            sb := { context.sb with
              s_free_inodes_count := inc32 context.sb.s_free_inodes_count } }

/-- The constant `static_cast<uint32_t>(-1)`. -/
def NO_GROUP : Nat := 4294967295

/-- The group selection at the head of `alloc_block`: the preferred group when
it is valid and has a free block, else the first group with a free block, else
`NO_GROUP`. -/
def alloc_block_target_group (context : SimpleFS_Context)
    (preferred_group_for_inode : Nat) : Nat :=
  let num_groups := context.gdt.length
  let target_group_idx :=
    if preferred_group_for_inode < num_groups ∧
        (context.gdt.getD preferred_group_for_inode default).bg_free_blocks_count > 0
    then preferred_group_for_inode else NO_GROUP
  if target_group_idx = NO_GROUP then
    match firstIdx (fun i => decide ((context.gdt.getD i default).bg_free_blocks_count > 0))
        num_groups 0 with
    | some i => i
    | none => NO_GROUP
  else target_group_idx

/-- Source function `alloc_block`; the result `0` is failure. -/
def alloc_block (context : SimpleFS_Context) (preferred_group_for_inode : Nat) :
    Nat × SimpleFS_Context :=
  if context.sb.s_free_blocks_count = 0 then (0, setErrno context ENOSPC)
  else
    let target_group_idx := alloc_block_target_group context preferred_group_for_inode
    if target_group_idx = NO_GROUP then (0, setErrno context ENOSPC)
    else
      let gd := context.gdt.getD target_group_idx default
      match read_block context.device_fd gd.bg_block_bitmap with
      | none => (0, setErrno context EIO)
      | some block_bitmap_data =>
        match firstIdx (fun bit_idx =>
            !is_bitmap_bit_set block_bitmap_data SIMPLEFS_BLOCK_SIZE bit_idx &&
            (let block_num := u32 (target_group_idx * context.sb.s_blocks_per_group + bit_idx)
             !(decide (block_num = 0 ∧ target_group_idx = 0 ∧ bit_idx = 0)) &&
             !(decide (block_num ≥ context.sb.s_blocks_count))))
            context.sb.s_blocks_per_group 0 with
        | none => (0, setErrno context ENOSPC)
        | some bit_idx =>
          let block_num := u32 (target_group_idx * context.sb.s_blocks_per_group + bit_idx)
          let block_bitmap_data := set_bitmap_bit block_bitmap_data SIMPLEFS_BLOCK_SIZE bit_idx
          match write_block context.device_fd gd.bg_block_bitmap block_bitmap_data with
          | none => (0, setErrno context EIO)
          | some dev =>
            let gd := { gd with bg_free_blocks_count := dec16 gd.bg_free_blocks_count }
            (block_num,
              { context with
                device_fd := dev
                gdt := context.gdt.set target_group_idx gd
                sb := { context.sb with
                  s_free_blocks_count := dec32 context.sb.s_free_blocks_count } })

/-- Source function `free_block`. -/
def free_block (context : SimpleFS_Context) (block_num : Nat) : SimpleFS_Context :=
  if block_num = 0 ∨ block_num ≥ context.sb.s_blocks_count then context
  else
    let group_idx := block_num / context.sb.s_blocks_per_group
    if group_idx ≥ context.gdt.length then context
    else
      let gd := context.gdt.getD group_idx default
      let bit_idx := block_num % context.sb.s_blocks_per_group
      match read_block context.device_fd gd.bg_block_bitmap with
      | none => context
      | some block_bitmap_data =>
        let block_bitmap_data := clear_bitmap_bit block_bitmap_data SIMPLEFS_BLOCK_SIZE bit_idx
        match write_block context.device_fd gd.bg_block_bitmap block_bitmap_data with
        | none => context
        | some dev =>
          let gd := { gd with bg_free_blocks_count := inc16 gd.bg_free_blocks_count }
          { context with
            device_fd := dev
            gdt := context.gdt.set group_idx gd
            sb := { context.sb with
              s_free_blocks_count := inc32 context.sb.s_free_blocks_count } }

/-! ## Inode I/O (`src/metadata.cpp`) -/

/-- The address computation shared by `write_inode_to_disk` and
`read_inode_from_disk`: the inode-table block and the byte offset of the slot,
or the error code the function returns with the `errno` it sets. -/
def inode_location (context : SimpleFS_Context) (inode_num : Nat) :
    Except (Int × SimpleFS_Context) (Nat × Nat) :=
  if inode_num = 0 ∨ inode_num > context.sb.s_inodes_count then
    .error (-(EINVAL : Int), setErrno context EINVAL)
  else
    let group_idx := (inode_num - 1) / context.sb.s_inodes_per_group
    if group_idx ≥ context.gdt.length then .error (-( EIO : Int), setErrno context EIO)
    else
      let gd := context.gdt.getD group_idx default
      let inode_offset_in_group := (inode_num - 1) % context.sb.s_inodes_per_group
      let inodes_per_block := SIMPLEFS_BLOCK_SIZE / SIMPLEFS_INODE_SIZE
      let block_num_in_table := inode_offset_in_group / inodes_per_block
      let offset_within_block := (inode_offset_in_group % inodes_per_block) * SIMPLEFS_INODE_SIZE
      let absolute_block_rw := u32 (gd.bg_inode_table + block_num_in_table)
      if absolute_block_rw = 0 ∨ absolute_block_rw ≥ context.sb.s_blocks_count then
        .error (-( EIO : Int), setErrno context EIO)
      else .ok (absolute_block_rw, offset_within_block)

/-- Source function `write_inode_to_disk`; the first component is the return
value (`0` or a negated error code). -/
def write_inode_to_disk (context : SimpleFS_Context) (inode_num : Nat) (inode_data : Buf) :
    Int × SimpleFS_Context :=
  match inode_location context inode_num with
  | .error e => e
  | .ok (absolute_block_rw, offset_within_block) =>
    match read_block context.device_fd absolute_block_rw with
    | none => (-( EIO : Int), context)
    | some block_buffer =>
      let block_buffer := blit block_buffer offset_within_block inode_data 0 SIMPLEFS_INODE_SIZE
      match write_block context.device_fd absolute_block_rw block_buffer with
      | none => (-( EIO : Int), context)
      | some dev => (0, { context with device_fd := dev })

/-- Source function `read_inode_from_disk`: `.ok` carries the 128 bytes copied
into `*inode_struct` (return value `0`), `.error` the negated error code. -/
def read_inode_from_disk (context : SimpleFS_Context) (inode_num : Nat) :
    Except Int Buf × SimpleFS_Context :=
  match inode_location context inode_num with
  | .error e => (.error e.1, e.2)
  | .ok (absolute_block_to_read, offset_within_block) =>
    match read_block context.device_fd absolute_block_to_read with
    | none => (.error (-( EIO : Int)), context)
    | some block_buffer =>
      (.ok (blit zeroBuf 0 block_buffer offset_within_block SIMPLEFS_INODE_SIZE), context)

/-! ## Directory records (`SimpleFS_DirEntry`, packed) -/

def de_inode (blk : Buf) (off : Nat) : Nat := getLE blk off 4
def de_rec_len (blk : Buf) (off : Nat) : Nat := getLE blk (off + 4) 2
def de_name_len (blk : Buf) (off : Nat) : Nat := getLE blk (off + 6) 1
def de_file_type (blk : Buf) (off : Nat) : Nat := getLE blk (off + 7) 1
/-- The `name_len` bytes of `name` of the record at `off`. -/
def de_name (blk : Buf) (off : Nat) : List Nat := bytesOf blk (off + 8) (de_name_len blk off)

def set_de_inode (blk : Buf) (off v : Nat) : Buf := setLE blk off 4 v
def set_de_rec_len (blk : Buf) (off v : Nat) : Buf := setLE blk (off + 4) 2 v
def set_de_name_len (blk : Buf) (off v : Nat) : Buf := setLE blk (off + 6) 1 v
def set_de_file_type (blk : Buf) (off v : Nat) : Buf := setLE blk (off + 7) 1 v

/-- The five assignments that fill a record in `add_dir_entry`, in source
order: `inode`, `name_len`, `file_type`, `strncpy(name, ...)`, `rec_len`.
Names are path components of C strings and hold no NUL byte, so `strncpy`
copies all `entry_name.length()` bytes. -/
def fill_dir_entry (blk : Buf) (off child_inode_num : Nat) (entry_name : List Nat)
    (file_type rec_len : Nat) : Buf :=
  let blk := set_de_inode blk off child_inode_num
  let blk := set_de_name_len blk off entry_name.length
  let blk := set_de_file_type blk off file_type
  let blk := blitList blk (off + 8) entry_name
  set_de_rec_len blk off rec_len

/-- The four assignments that write a free record (`inode = 0`, `name_len = 0`,
`file_type = 0`, `rec_len`) in `add_dir_entry`. -/
def fill_free_entry (blk : Buf) (off rec_len : Nat) : Buf :=
  let blk := set_de_inode blk off 0
  let blk := set_de_name_len blk off 0
  let blk := set_de_file_type blk off 0
  set_de_rec_len blk off rec_len

/-- The test `name_len == s.length() && strncmp(entry->name, s, name_len) == 0`
against a name `s` without NUL byte. -/
def de_name_matches (blk : Buf) (off : Nat) (s : List Nat) : Bool :=
  decide (de_name_len blk off = s.length) && decide (de_name blk off = s)

/-! ## Metadata flush (`src/metadata.cpp`) -/

/-- Bytes of the packed `SimpleFS_SuperBlock` (padding zero). -/
def encode_sb (sb : SimpleFS_SuperBlock) : Buf :=
  let b := setLE zeroBuf 0 2 sb.s_magic
  let b := setLE b 2 4 sb.s_inodes_count
  let b := setLE b 6 4 sb.s_blocks_count
  let b := setLE b 10 4 sb.s_free_blocks_count
  let b := setLE b 14 4 sb.s_free_inodes_count
  let b := setLE b 18 4 sb.s_first_data_block
  let b := setLE b 22 4 sb.s_log_block_size
  let b := setLE b 26 4 sb.s_blocks_per_group
  let b := setLE b 30 4 sb.s_inodes_per_group
  let b := setLE b 34 4 sb.s_mtime
  let b := setLE b 38 4 sb.s_wtime
  let b := setLE b 42 2 sb.s_mnt_count
  let b := setLE b 44 2 sb.s_max_mnt_count
  let b := setLE b 46 2 sb.s_state
  let b := setLE b 48 2 sb.s_errors
  let b := setLE b 50 4 sb.s_first_ino
  let b := setLE b 54 2 sb.s_inode_size
  let b := setLE b 56 2 sb.s_block_group_nr
  setLE b 58 4 sb.s_root_inode

/-- Bytes of one packed `SimpleFS_GroupDesc` (padding zero). -/
def encode_gd (gd : SimpleFS_GroupDesc) : Buf :=
  let b := setLE zeroBuf 0 4 gd.bg_block_bitmap
  let b := setLE b 4 4 gd.bg_inode_bitmap
  let b := setLE b 8 4 gd.bg_inode_table
  let b := setLE b 12 2 gd.bg_free_blocks_count
  let b := setLE b 14 2 gd.bg_free_inodes_count
  setLE b 16 2 gd.bg_used_dirs_count

/-- Bytes of `context.gdt.data()`: the descriptors back to back, 32 bytes each. -/
def gdt_bytes (gdt : List SimpleFS_GroupDesc) : Buf :=
  fun i => if i / 32 < gdt.length then encode_gd (gdt.getD (i / 32) default) (i % 32) else 0

/-- The block that the GDT loops of `sync_fs_metadata` build for index `i`:
zero-filled, then `bytes_to_copy_this_block` bytes of the table. -/
def gdt_block (gdt : List SimpleFS_GroupDesc) (i : Nat) : Buf :=
  let gdt_size_bytes := u32 (gdt.length * 32)
  let offset_in_gdt_data := u32 (i * SIMPLEFS_BLOCK_SIZE)
  let bytes_to_copy_this_block :=
    if u32 (offset_in_gdt_data + SIMPLEFS_BLOCK_SIZE) > gdt_size_bytes
    then gdt_size_bytes - offset_in_gdt_data else SIMPLEFS_BLOCK_SIZE
  if bytes_to_copy_this_block > 0 then
    blit zeroBuf 0 (gdt_bytes gdt) offset_in_gdt_data bytes_to_copy_this_block
  else zeroBuf

/-- A `write_block` whose result the caller ignores. -/
def write_block_ignore (fd : Device) (block_num : Nat) (buffer : Buf) : Device :=
  match write_block fd block_num buffer with
  | some d => d
  | none => fd

/-- One GDT loop of `sync_fs_metadata`: blocks `first + i` for `i` below
`gdt_blocks_count`, stopping at the first `i` whose offset is past the table. -/
def write_gdt_blocks (gdt : List SimpleFS_GroupDesc) (first gdt_blocks_count : Nat)
    (fd : Device) : Device :=
  (List.range gdt_blocks_count).foldl (fun d i =>
    if u32 (i * SIMPLEFS_BLOCK_SIZE) ≥ u32 (gdt.length * 32) then d
    else write_block_ignore d (u32 (first + i)) (gdt_block gdt i)) fd

/-- Source function `sync_fs_metadata`. The double-precision `ceil` of
`gdt_size_bytes / 4096` is the integer ceiling. -/
def sync_fs_metadata (context : SimpleFS_Context) : SimpleFS_Context :=
  let sb_block_buffer := blit zeroBuf 0 (encode_sb context.sb) 0 1024
  match write_block context.device_fd 1 sb_block_buffer with
  | none => context
  | some dev =>
    if context.gdt.length = 0 then { context with device_fd := dev }
    else
      let gdt_size_bytes := u32 (context.gdt.length * 32)
      let gdt_blocks_count := (gdt_size_bytes + SIMPLEFS_BLOCK_SIZE - 1) / SIMPLEFS_BLOCK_SIZE
      let gdt_start_block := 1 + 1
      let dev := write_gdt_blocks context.gdt gdt_start_block gdt_blocks_count dev
      let num_groups := context.gdt.length
      let dev := (List.range (num_groups - 1)).foldl (fun d k =>
        let grp := k + 1
        if !is_backup_group grp then d
        else
          let grp_start := u32 (grp * context.sb.s_blocks_per_group)
          let d := write_block_ignore d grp_start sb_block_buffer
          write_gdt_blocks context.gdt (grp_start + 1) gdt_blocks_count d) dev
      { context with device_fd := dev }

/-! ## Permission check (`src/metadata.cpp`) -/

/-- Source function `check_access` for non-null arguments: the return value
(`0` or `-EACCES`) and the context, in which only `errno` can differ. The group
test walks the list of `getgroups`, the groups of the file-system process; when
`getgroups` fails the list is not walked. -/
def check_access (context : SimpleFS_Context) (caller_context : fuse_context)
    (inode : Buf) (requested_perm : Nat) : Int × SimpleFS_Context :=
  if caller_context.uid = 0 then (0, context)
  else
    let mode := i_mode inode
    let perms_to_check :=
      if caller_context.uid = i_uid inode then Nat.land mode 0o700 / 64
      else
        let in_group :=
          if caller_context.gid = i_gid inode then true
          else caller_context.process_groups.any (fun supp_gid => decide (supp_gid = i_gid inode))
        if in_group then Nat.land mode 0o070 / 8 else Nat.land mode 0o007
    if Nat.land requested_perm R_OK ≠ 0 ∧ Nat.land perms_to_check 4 = 0 then
      (-(EACCES : Int), setErrno context EACCES)
    else if Nat.land requested_perm W_OK ≠ 0 ∧ Nat.land perms_to_check 2 = 0 then
      (-(EACCES : Int), setErrno context EACCES)
    else if Nat.land requested_perm X_OK ≠ 0 ∧ Nat.land perms_to_check 1 = 0 then
      (-(EACCES : Int), setErrno context EACCES)
    else (0, context)

/-! ## Releasing blocks (`src/metadata.cpp`) -/

/-- Source function `free_block_tree_recursive`; `level` is the first argument
so that the recursion is structural in it. -/
def free_block_tree_recursive : Nat → SimpleFS_Context → Nat → SimpleFS_Context
  | level, context, block_num =>
    if block_num = 0 then context
    else
      match level with
      | 0 => free_block context block_num
      | level' + 1 =>
        match read_block context.device_fd block_num with
        | none => context
        | some indirect_block_content =>
          let context := (List.range (SIMPLEFS_BLOCK_SIZE / 4)).foldl (fun ctx k =>
            let child_block_num := ptrAt indirect_block_content k
            if child_block_num ≠ 0 then free_block_tree_recursive level' ctx child_block_num
            else ctx) context
          free_block context block_num

/-- Source function `free_all_inode_blocks`: the context and the inode after
the call. -/
def free_all_inode_blocks (context : SimpleFS_Context) (inode : Buf) :
    SimpleFS_Context × Buf :=
  let context := (List.range SIMPLEFS_NUM_DIRECT_BLOCKS).foldl (fun ctx i =>
    if i_block inode i ≠ 0 then free_block ctx (i_block inode i) else ctx) context
  let context := free_block_tree_recursive 1 context (i_block inode SIMPLEFS_NUM_DIRECT_BLOCKS)
  let context := free_block_tree_recursive 2 context (i_block inode (SIMPLEFS_NUM_DIRECT_BLOCKS + 1))
  let context := free_block_tree_recursive 3 context (i_block inode (SIMPLEFS_NUM_DIRECT_BLOCKS + 2))
  let inode := blit inode I_BLOCK_OFF zeroBuf 0 (4 * SIMPLEFS_INODE_BLOCK_PTRS)
  let inode := set_i_blocks inode 0
  (context, inode)

/-- Source function `release_logical_block_range`: the context and the inode
after the call. -/
def release_logical_block_range (context : SimpleFS_Context) (inode : Buf)
    (start_lbn end_lbn : Nat) : SimpleFS_Context × Buf :=
  if start_lbn ≥ end_lbn then (context, inode)
  else
    let context := (List.range (end_lbn - start_lbn)).foldl (fun ctx k =>
      let lbn_to_free := start_lbn + k
      let r := map_logical_to_physical_block ctx inode lbn_to_free
      if r.1 ≠ 0 then free_block r.2 r.1 else r.2) context
    (context, set_i_blocks inode (u32 (i_size inode + 511) / 512))

/-! ## Block map, allocating walks

`get_or_alloc_dir_block` (`src/metadata.cpp`) and `allocate_block_for_write`
(`src/fuse_ops.cpp`) repeat three code shapes in each of their indirect
regions. Each shape is embedded once; a failure (`return 0`) is `.error` and
carries the inode and the context as the call leaves them. -/

/-- Subtraction `inode->i_blocks -= 8` on a `uint32_t`. -/
def sub8 (x : Nat) : Nat := if 8 ≤ x then x - 8 else x + 4294967296 - 8

/-- Shape "top-level indirect pointer" (`if (*p == 0) { ... *p = new; }` on
`inode->i_block[slot]`, slot 12, 13 or 14): allocate, charge 8 sectors, write a
zero block, store the pointer; a failed write frees the block and uncharges. -/
def ensure_top_indirect (context : SimpleFS_Context) (inode : Buf) (slot : Nat)
    (preferred_group : Nat) : Except (Buf × SimpleFS_Context) (Buf × SimpleFS_Context) :=
  if i_block inode slot = 0 then
    let r := alloc_block context preferred_group
    if r.1 = 0 then .error (inode, setErrno r.2 ENOSPC)
    else
      let inode := set_i_blocks inode (i_blocks inode + 8)
      match write_block r.2.device_fd r.1 zeroBuf with
      | none =>
        let context := free_block r.2 r.1
        let inode := set_i_blocks inode (sub8 (i_blocks inode))
        .error (inode, setErrno context EIO)
      | some dev => .ok (set_i_block inode slot r.1, { r.2 with device_fd := dev })
  else .ok (inode, context)

/-- Shape "indirect pointer inside an indirect block" (`if (*p_child == 0)
{ ... }` on entry `idx` of `parent_buffer`, which was read from block
`parent_block_num`): allocate, charge, write a zero block, store the pointer in
the buffer and write the buffer back; each failed write frees the block and
uncharges. The result is the inode, the parent buffer and the context. -/
def ensure_child_indirect (context : SimpleFS_Context) (inode : Buf)
    (parent_block_num : Nat) (parent_buffer : Buf) (idx : Nat) (preferred_group : Nat) :
    Except (Buf × SimpleFS_Context) (Buf × Buf × SimpleFS_Context) :=
  if ptrAt parent_buffer idx = 0 then
    let r := alloc_block context preferred_group
    if r.1 = 0 then .error (inode, setErrno r.2 ENOSPC)
    else
      let inode := set_i_blocks inode (i_blocks inode + 8)
      match write_block r.2.device_fd r.1 zeroBuf with
      | none =>
        let context := free_block r.2 r.1
        let inode := set_i_blocks inode (sub8 (i_blocks inode))
        .error (inode, setErrno context EIO)
      | some dev =>
        let parent_buffer := setPtr parent_buffer idx r.1
        match write_block dev parent_block_num parent_buffer with
        | none =>
          let context := free_block { r.2 with device_fd := dev } r.1
          let inode := set_i_blocks inode (sub8 (i_blocks inode))
          .error (inode, setErrno context EIO)
        | some dev => .ok (inode, parent_buffer, { r.2 with device_fd := dev })
  else .ok (inode, parent_buffer, context)

/-- Shape "leaf pointer" of `get_or_alloc_dir_block` (`if (buf[i] == 0) { ... }
return buf[i];`): allocate, write a zero data block (a failure frees it),
store the pointer, charge, write the indirect block back (a failure frees the
block and uncharges). The result is the returned block and the inode. -/
def ensure_dir_leaf (context : SimpleFS_Context) (inode : Buf)
    (parent_block_num : Nat) (parent_buffer : Buf) (idx : Nat) (preferred_group : Nat) :
    Except (Buf × SimpleFS_Context) (Nat × Buf × SimpleFS_Context) :=
  if ptrAt parent_buffer idx = 0 then
    let r := alloc_block context preferred_group
    if r.1 = 0 then .error (inode, setErrno r.2 ENOSPC)
    else
      match write_block r.2.device_fd r.1 zeroBuf with
      | none => .error (inode, setErrno (free_block r.2 r.1) EIO)
      | some dev =>
        let parent_buffer := setPtr parent_buffer idx r.1
        let inode := set_i_blocks inode (i_blocks inode + 8)
        match write_block dev parent_block_num parent_buffer with
        | none =>
          let context := free_block { r.2 with device_fd := dev } r.1
          let inode := set_i_blocks inode (sub8 (i_blocks inode))
          .error (inode, setErrno context EIO)
        | some dev => .ok (ptrAt parent_buffer idx, inode, { r.2 with device_fd := dev })
  else .ok (ptrAt parent_buffer idx, inode, context)

/-- Shape "leaf pointer" of `allocate_block_for_write`: allocate, store the
pointer, charge, raise the newly-allocated flag, write the indirect block back
(a failure frees the block and uncharges). The result is the returned block,
the flag and the inode; a failure carries the flag too. -/
def ensure_write_leaf (context : SimpleFS_Context) (inode : Buf)
    (parent_block_num : Nat) (parent_buffer : Buf) (idx : Nat) (preferred_group : Nat) :
    Except (Bool × Buf × SimpleFS_Context) (Nat × Bool × Buf × SimpleFS_Context) :=
  if ptrAt parent_buffer idx = 0 then
    let r := alloc_block context preferred_group
    if r.1 = 0 then .error (false, inode, setErrno r.2 ENOSPC)
    else
      let parent_buffer := setPtr parent_buffer idx r.1
      let inode := set_i_blocks inode (i_blocks inode + 8)
      match write_block r.2.device_fd parent_block_num parent_buffer with
      | none =>
        let context := free_block r.2 r.1
        let inode := set_i_blocks inode (sub8 (i_blocks inode))
        .error (true, inode, setErrno context EIO)
      | some dev => .ok (ptrAt parent_buffer idx, true, inode, { r.2 with device_fd := dev })
  else .ok (ptrAt parent_buffer idx, false, inode, context)

/-- Source function `get_or_alloc_dir_block`: the returned block (`0` is
failure), the directory inode and the context after the call. -/
def get_or_alloc_dir_block (context : SimpleFS_Context) (dir_inode : Buf)
    (dir_inode_num : Nat) (logical_block_idx : Nat) : Nat × Buf × SimpleFS_Context :=
  let preferred_group := dec32 dir_inode_num / context.sb.s_inodes_per_group
  let pointers_per_block := SIMPLEFS_BLOCK_SIZE / 4
  if logical_block_idx < SIMPLEFS_NUM_DIRECT_BLOCKS then
    if i_block dir_inode logical_block_idx = 0 then
      let r := alloc_block context preferred_group
      if r.1 = 0 then (0, dir_inode, r.2)
      else
        match write_block r.2.device_fd r.1 zeroBuf with
        | none => (0, dir_inode, setErrno r.2 EIO)
        | some dev =>
          let dir_inode := set_i_block dir_inode logical_block_idx r.1
          let dir_inode := set_i_blocks dir_inode (i_blocks dir_inode + 8)
          (i_block dir_inode logical_block_idx, dir_inode, { r.2 with device_fd := dev })
    else (i_block dir_inode logical_block_idx, dir_inode, context)
  else
  let single_indirect_start_idx := SIMPLEFS_NUM_DIRECT_BLOCKS
  let single_indirect_end_idx := single_indirect_start_idx + pointers_per_block
  if logical_block_idx < single_indirect_end_idx then
    match ensure_top_indirect context dir_inode SIMPLEFS_NUM_DIRECT_BLOCKS preferred_group with
    | .error e => (0, e.1, e.2)
    | .ok (dir_inode, context) =>
      let single := i_block dir_inode SIMPLEFS_NUM_DIRECT_BLOCKS
      match read_block context.device_fd single with
      | none => (0, dir_inode, setErrno context EIO)
      | some indirect_block_content =>
        let idx_in_indirect := logical_block_idx - single_indirect_start_idx
        match ensure_dir_leaf context dir_inode single indirect_block_content idx_in_indirect
            preferred_group with
        | .error e => (0, e.1, e.2)
        | .ok r => r
  else
  let double_indirect_start_idx := single_indirect_end_idx
  let double_indirect_max_logical_blocks := pointers_per_block * pointers_per_block
  let double_indirect_end_idx := double_indirect_start_idx + double_indirect_max_logical_blocks
  if logical_block_idx < double_indirect_end_idx then
    match ensure_top_indirect context dir_inode (SIMPLEFS_NUM_DIRECT_BLOCKS + 1) preferred_group with
    | .error e => (0, e.1, e.2)
    | .ok (dir_inode, context) =>
      let dbl := i_block dir_inode (SIMPLEFS_NUM_DIRECT_BLOCKS + 1)
      match read_block context.device_fd dbl with
      | none => (0, dir_inode, setErrno context EIO)
      | some l2_buffer =>
        let logical_offset_in_dbl_range := logical_block_idx - double_indirect_start_idx
        let idx_in_l2_block := logical_offset_in_dbl_range / pointers_per_block
        match ensure_child_indirect context dir_inode dbl l2_buffer idx_in_l2_block
            preferred_group with
        | .error e => (0, e.1, e.2)
        | .ok (dir_inode, l2_buffer, context) =>
          let l1 := ptrAt l2_buffer idx_in_l2_block
          match read_block context.device_fd l1 with
          | none => (0, dir_inode, setErrno context EIO)
          | some l1_buffer =>
            let idx_in_l1_block := logical_offset_in_dbl_range % pointers_per_block
            match ensure_dir_leaf context dir_inode l1 l1_buffer idx_in_l1_block
                preferred_group with
            | .error e => (0, e.1, e.2)
            | .ok r => r
  else
  let triple_indirect_start_idx := double_indirect_end_idx
  let triple_indirect_max_logical_blocks :=
    pointers_per_block * pointers_per_block * pointers_per_block
  let triple_indirect_end_idx := triple_indirect_start_idx + triple_indirect_max_logical_blocks
  if logical_block_idx < triple_indirect_end_idx then
    match ensure_top_indirect context dir_inode (SIMPLEFS_NUM_DIRECT_BLOCKS + 2) preferred_group with
    | .error e => (0, e.1, e.2)
    | .ok (dir_inode, context) =>
      let tpl := i_block dir_inode (SIMPLEFS_NUM_DIRECT_BLOCKS + 2)
      match read_block context.device_fd tpl with
      | none => (0, dir_inode, setErrno context EIO)
      | some l3_buffer =>
        let logical_offset_in_tpl_range := logical_block_idx - triple_indirect_start_idx
        let idx_in_l3_block :=
          logical_offset_in_tpl_range / (pointers_per_block * pointers_per_block)
        match ensure_child_indirect context dir_inode tpl l3_buffer idx_in_l3_block
            preferred_group with
        | .error e => (0, e.1, e.2)
        | .ok (dir_inode, l3_buffer, context) =>
          let l2 := ptrAt l3_buffer idx_in_l3_block
          match read_block context.device_fd l2 with
          | none => (0, dir_inode, setErrno context EIO)
          | some l2_buffer =>
            let logical_offset_in_l2_from_tpl :=
              logical_offset_in_tpl_range % (pointers_per_block * pointers_per_block)
            let idx_in_l2_from_tpl := logical_offset_in_l2_from_tpl / pointers_per_block
            match ensure_child_indirect context dir_inode l2 l2_buffer idx_in_l2_from_tpl
                preferred_group with
            | .error e => (0, e.1, e.2)
            | .ok (dir_inode, l2_buffer, context) =>
              let l1 := ptrAt l2_buffer idx_in_l2_from_tpl
              match read_block context.device_fd l1 with
              | none => (0, dir_inode, setErrno context EIO)
              | some l1_buffer =>
                let idx_in_l1_final := logical_offset_in_l2_from_tpl % pointers_per_block
                match ensure_dir_leaf context dir_inode l1 l1_buffer idx_in_l1_final
                    preferred_group with
                | .error e => (0, e.1, e.2)
                | .ok r => r
  else (0, dir_inode, setErrno context EFBIG)

/-- Source function `allocate_block_for_write` (`src/fuse_ops.cpp`): the
returned block (`0` is failure), `*p_was_newly_allocated`, the inode and the
context after the call. -/
def allocate_block_for_write (context : SimpleFS_Context) (inode : Buf)
    (inode_num : Nat) (logical_block_idx : Nat) : Nat × Bool × Buf × SimpleFS_Context :=
  let preferred_group := dec32 inode_num / context.sb.s_inodes_per_group
  let pointers_per_block := SIMPLEFS_BLOCK_SIZE / 4
  if logical_block_idx < SIMPLEFS_NUM_DIRECT_BLOCKS then
    if i_block inode logical_block_idx = 0 then
      let r := alloc_block context preferred_group
      if r.1 = 0 then (0, false, inode, r.2)
      else
        let inode := set_i_block inode logical_block_idx r.1
        let inode := set_i_blocks inode (i_blocks inode + 8)
        (i_block inode logical_block_idx, true, inode, r.2)
    else (i_block inode logical_block_idx, false, inode, context)
  else
  let single_indirect_start_idx := SIMPLEFS_NUM_DIRECT_BLOCKS
  let single_indirect_end_idx := single_indirect_start_idx + pointers_per_block
  if logical_block_idx < single_indirect_end_idx then
    match ensure_top_indirect context inode SIMPLEFS_NUM_DIRECT_BLOCKS preferred_group with
    | .error e => (0, false, e.1, e.2)
    | .ok (inode, context) =>
      let single := i_block inode SIMPLEFS_NUM_DIRECT_BLOCKS
      match read_block context.device_fd single with
      | none => (0, false, inode, setErrno context EIO)
      | some indirect_block_buffer =>
        let idx_in_indirect := logical_block_idx - single_indirect_start_idx
        match ensure_write_leaf context inode single indirect_block_buffer idx_in_indirect
            preferred_group with
        | .error e => (0, e.1, e.2.1, e.2.2)
        | .ok r => r
  else
  let double_indirect_start_idx := single_indirect_end_idx
  let double_indirect_max_logical_blocks := pointers_per_block * pointers_per_block
  let double_indirect_end_idx := double_indirect_start_idx + double_indirect_max_logical_blocks
  if logical_block_idx < double_indirect_end_idx then
    match ensure_top_indirect context inode (SIMPLEFS_NUM_DIRECT_BLOCKS + 1) preferred_group with
    | .error e => (0, false, e.1, e.2)
    | .ok (inode, context) =>
      let dbl := i_block inode (SIMPLEFS_NUM_DIRECT_BLOCKS + 1)
      match read_block context.device_fd dbl with
      | none => (0, false, inode, setErrno context EIO)
      | some l2_buffer =>
        let logical_offset_in_dbl_range := logical_block_idx - double_indirect_start_idx
        let idx_in_l2_block := logical_offset_in_dbl_range / pointers_per_block
        match ensure_child_indirect context inode dbl l2_buffer idx_in_l2_block
            preferred_group with
        | .error e => (0, false, e.1, e.2)
        | .ok (inode, l2_buffer, context) =>
          let l1 := ptrAt l2_buffer idx_in_l2_block
          match read_block context.device_fd l1 with
          | none => (0, false, inode, setErrno context EIO)
          | some l1_buffer =>
            let idx_in_l1_block := logical_offset_in_dbl_range % pointers_per_block
            match ensure_write_leaf context inode l1 l1_buffer idx_in_l1_block
                preferred_group with
            | .error e => (0, e.1, e.2.1, e.2.2)
            | .ok r => r
  else
  let triple_indirect_start_idx := double_indirect_end_idx
  let triple_indirect_max_logical_blocks :=
    pointers_per_block * pointers_per_block * pointers_per_block
  let triple_indirect_end_idx := triple_indirect_start_idx + triple_indirect_max_logical_blocks
  if logical_block_idx < triple_indirect_end_idx then
    match ensure_top_indirect context inode (SIMPLEFS_NUM_DIRECT_BLOCKS + 2) preferred_group with
    | .error e => (0, false, e.1, e.2)
    | .ok (inode, context) =>
      let tpl := i_block inode (SIMPLEFS_NUM_DIRECT_BLOCKS + 2)
      match read_block context.device_fd tpl with
      | none => (0, false, inode, setErrno context EIO)
      | some l3_buffer =>
        let logical_offset_in_tpl_range := logical_block_idx - triple_indirect_start_idx
        let idx_in_l3_block :=
          logical_offset_in_tpl_range / (pointers_per_block * pointers_per_block)
        match ensure_child_indirect context inode tpl l3_buffer idx_in_l3_block
            preferred_group with
        | .error e => (0, false, e.1, e.2)
        | .ok (inode, l3_buffer, context) =>
          let l2 := ptrAt l3_buffer idx_in_l3_block
          match read_block context.device_fd l2 with
          | none => (0, false, inode, setErrno context EIO)
          | some l2_buffer =>
            let logical_offset_in_l2_from_tpl :=
              logical_offset_in_tpl_range % (pointers_per_block * pointers_per_block)
            let idx_in_l2_from_tpl := logical_offset_in_l2_from_tpl / pointers_per_block
            match ensure_child_indirect context inode l2 l2_buffer idx_in_l2_from_tpl
                preferred_group with
            | .error e => (0, false, e.1, e.2)
            | .ok (inode, l2_buffer, context) =>
              let l1 := ptrAt l2_buffer idx_in_l2_from_tpl
              match read_block context.device_fd l1 with
              | none => (0, false, inode, setErrno context EIO)
              | some l1_buffer =>
                let idx_in_l1_final := logical_offset_in_l2_from_tpl % pointers_per_block
                match ensure_write_leaf context inode l1 l1_buffer idx_in_l1_final
                    preferred_group with
                | .error e => (0, e.1, e.2.1, e.2.2)
                | .ok r => r
  else (0, false, inode, setErrno context EFBIG)

/-! ## Directory engine (`src/metadata.cpp`) -/

/-- The `while (current_offset < SIMPLEFS_BLOCK_SIZE)` loop of `add_dir_entry`
over one directory block, from `current_offset`, for at most `fuel` records:
`some buf` is the block with the entry placed (`entry_placed == true`), `none`
is every exit without placing it (`goto next_block` or `break`). The signed
test `rec_len - actual_len >= needed` is written `actual_len + needed ≤ rec_len`. -/
def add_dir_entry_scan (entry_name : List Nat) (child_inode_num file_type : Nat) :
    Nat → Buf → Nat → Option Buf
  | 0, _, _ => none
  | fuel + 1, buf, current_offset =>
    let needed_len_for_new_entry := calculate_dir_entry_len entry_name.length
    let min_rec_len_for_empty := calculate_dir_entry_len 0
    if ¬ current_offset < SIMPLEFS_BLOCK_SIZE then none
    else if de_rec_len buf current_offset = 0 then
      if current_offset = 0 ∧ SIMPLEFS_BLOCK_SIZE ≥ needed_len_for_new_entry then
        some (fill_dir_entry buf current_offset child_inode_num entry_name file_type
          (u16 SIMPLEFS_BLOCK_SIZE))
      else none
    else
      let actual_len_of_current_entry :=
        calculate_dir_entry_len (de_name_len buf current_offset)
      if de_inode buf current_offset = 0 ∧
          de_rec_len buf current_offset ≥ needed_len_for_new_entry then
        let original_empty_rec_len := de_rec_len buf current_offset
        let buf := fill_dir_entry buf current_offset child_inode_num entry_name file_type
          needed_len_for_new_entry
        let space_left_after_new_entry := original_empty_rec_len - needed_len_for_new_entry
        if space_left_after_new_entry > 0 then
          if space_left_after_new_entry < min_rec_len_for_empty then
            some (set_de_rec_len buf current_offset
              (de_rec_len buf current_offset + space_left_after_new_entry))
          else
            some (fill_free_entry buf (current_offset + needed_len_for_new_entry)
              space_left_after_new_entry)
        else some buf
      else
        let original_rec_len_of_active_entry := de_rec_len buf current_offset
        if de_inode buf current_offset ≠ 0 ∧
            actual_len_of_current_entry + needed_len_for_new_entry ≤
              original_rec_len_of_active_entry then
          let padding_available := original_rec_len_of_active_entry - actual_len_of_current_entry
          let buf := set_de_rec_len buf current_offset actual_len_of_current_entry
          let new_entry_spot := current_offset + actual_len_of_current_entry
          let buf := fill_dir_entry buf new_entry_spot child_inode_num entry_name file_type
            needed_len_for_new_entry
          let space_left_for_final_empty := padding_available - needed_len_for_new_entry
          if space_left_for_final_empty > 0 then
            if space_left_for_final_empty < min_rec_len_for_empty then
              some (set_de_rec_len buf new_entry_spot
                (de_rec_len buf new_entry_spot + space_left_for_final_empty))
            else
              some (fill_free_entry buf (new_entry_spot + needed_len_for_new_entry)
                space_left_for_final_empty)
          else some buf
        else if current_offset + de_rec_len buf current_offset ≥ SIMPLEFS_BLOCK_SIZE then
          if de_inode buf current_offset ≠ 0 ∧
              current_offset + actual_len_of_current_entry + needed_len_for_new_entry ≤
                SIMPLEFS_BLOCK_SIZE then
            let buf := set_de_rec_len buf current_offset actual_len_of_current_entry
            some (fill_dir_entry buf (current_offset + actual_len_of_current_entry)
              child_inode_num entry_name file_type
              (SIMPLEFS_BLOCK_SIZE - (current_offset + actual_len_of_current_entry)))
          else none
        else
          add_dir_entry_scan entry_name child_inode_num file_type fuel buf
            (current_offset + de_rec_len buf current_offset)

/-- The `for (logical_block_idx ...)` loop of `add_dir_entry`, from
`logical_block_idx` for `remaining` blocks: return value, parent inode and
context. -/
def add_dir_entry_loop (parent_inode_num : Nat) (entry_name : List Nat)
    (child_inode_num file_type : Nat) :
    Nat → SimpleFS_Context → Buf → Nat → Int × Buf × SimpleFS_Context
  | 0, context, parent_inode, _ => (-(ENOSPC : Int), parent_inode, setErrno context ENOSPC)
  | remaining + 1, context, parent_inode, logical_block_idx =>
    let r := get_or_alloc_dir_block context parent_inode parent_inode_num logical_block_idx
    let current_physical_block := r.1
    let parent_inode := r.2.1
    let context := r.2.2
    if current_physical_block = 0 then
      let context := if context.errno = 0 then setErrno context ENOSPC else context
      (-(context.errno : Int), parent_inode, context)
    else
      match read_block context.device_fd current_physical_block with
      | none => (-( EIO : Int), parent_inode, setErrno context EIO)
      | some dir_block_data_buffer =>
        match add_dir_entry_scan entry_name child_inode_num file_type SIMPLEFS_BLOCK_SIZE
            dir_block_data_buffer 0 with
        | some dir_block_data_buffer =>
          match write_block context.device_fd current_physical_block dir_block_data_buffer with
          | none => (-( EIO : Int), parent_inode, setErrno context EIO)
          | some dev =>
            let context := { context with device_fd := dev }
            let size_if_this_block_is_last := u32 ((logical_block_idx + 1) * SIMPLEFS_BLOCK_SIZE)
            let parent_inode :=
              if i_size parent_inode < size_if_this_block_is_last then
                set_i_size parent_inode size_if_this_block_is_last
              else parent_inode
            let parent_inode := set_i_ctime parent_inode context.now
            let parent_inode := set_i_mtime parent_inode context.now
            let w := write_inode_to_disk context parent_inode_num parent_inode
            if w.1 ≠ 0 then (-( EIO : Int), parent_inode, w.2)
            else (0, parent_inode, w.2)
        | none =>
          add_dir_entry_loop parent_inode_num entry_name child_inode_num file_type
            remaining context parent_inode (logical_block_idx + 1)

/-- Source function `add_dir_entry`: return value, `*parent_inode` and the
context after the call. -/
def add_dir_entry (context : SimpleFS_Context) (parent_inode : Buf) (parent_inode_num : Nat)
    (entry_name : List Nat) (child_inode_num file_type : Nat) :
    Int × Buf × SimpleFS_Context :=
  if entry_name.length > SIMPLEFS_MAX_FILENAME_LEN then
    (-(ENAMETOOLONG : Int), parent_inode, setErrno context ENAMETOOLONG)
  else
    let pointers_per_block := SIMPLEFS_BLOCK_SIZE / 4
    let max_logical_blocks := SIMPLEFS_NUM_DIRECT_BLOCKS + pointers_per_block +
      pointers_per_block * pointers_per_block +
      pointers_per_block * pointers_per_block * pointers_per_block
    add_dir_entry_loop parent_inode_num entry_name child_inode_num file_type
      max_logical_blocks context parent_inode 0

/-- Addition `a + b` on `uint32_t`. The sum is written `b + a`: with a literal
second operand the term then reduces no further than the variable. -/
def add32 (a b : Nat) : Nat := (b + a) % 4294967296

/-- Outcome of the record loop of `remove_dir_entry` over one block. -/
inductive RemoveScan where
  | removed (buf : Buf)
  | absent
  | corrupt

/-- The `while (current_offset < max_offset_in_block)` loop of
`remove_dir_entry`, from `current_offset` with `prev_entry` (the offset of the
previous record, if any), for at most `fuel` records. -/
def remove_dir_entry_scan (entry_name_to_remove : List Nat) (max_offset_in_block : Nat) :
    Nat → Buf → Nat → Option Nat → RemoveScan
  | 0, _, _, _ => .absent
  | fuel + 1, buf, current_offset, prev_entry =>
    if ¬ current_offset < max_offset_in_block then .absent
    else if de_rec_len buf current_offset = 0 then .absent
    else
      let min_possible_rec_len :=
        if de_inode buf current_offset ≠ 0 ∧ de_name_len buf current_offset > 0 then
          calculate_dir_entry_len (de_name_len buf current_offset)
        else calculate_dir_entry_len 0
      if de_rec_len buf current_offset < min_possible_rec_len ∨
          current_offset + de_rec_len buf current_offset > SIMPLEFS_BLOCK_SIZE then .corrupt
      else if de_inode buf current_offset ≠ 0 ∧
          de_name_matches buf current_offset entry_name_to_remove = true then
        match prev_entry with
        | some prev =>
          .removed (set_de_rec_len buf prev
            (de_rec_len buf prev + de_rec_len buf current_offset))
        | none => .removed (set_de_inode buf current_offset 0)
      else
        remove_dir_entry_scan entry_name_to_remove max_offset_in_block fuel buf
          (current_offset + de_rec_len buf current_offset) (some current_offset)

/-- The `for (logical_block_idx ...)` loop of `remove_dir_entry`, from
`logical_block_idx` for `remaining` blocks. -/
def remove_dir_entry_loop (parent_inode_num : Nat) (entry_name_to_remove : List Nat) :
    Nat → SimpleFS_Context → Buf → Nat → Int × Buf × SimpleFS_Context
  | 0, context, parent_inode, _ => (-(ENOENT : Int), parent_inode, setErrno context ENOENT)
  | remaining + 1, context, parent_inode, logical_block_idx =>
    let m := map_logical_to_physical_block context parent_inode logical_block_idx
    let current_physical_block := m.1
    let context := m.2
    if current_physical_block = 0 then
      remove_dir_entry_loop parent_inode_num entry_name_to_remove remaining context
        parent_inode (logical_block_idx + 1)
    else
      match read_block context.device_fd current_physical_block with
      | none => (-( EIO : Int), parent_inode, setErrno context EIO)
      | some dir_block_data_buffer =>
        let block_start_byte_offset := u32 (logical_block_idx * SIMPLEFS_BLOCK_SIZE)
        let max_offset_in_block :=
          if add32 block_start_byte_offset SIMPLEFS_BLOCK_SIZE > i_size parent_inode then
            (if i_size parent_inode % SIMPLEFS_BLOCK_SIZE = 0 ∧ i_size parent_inode > 0
              then SIMPLEFS_BLOCK_SIZE else i_size parent_inode % SIMPLEFS_BLOCK_SIZE)
          else SIMPLEFS_BLOCK_SIZE
        match remove_dir_entry_scan entry_name_to_remove max_offset_in_block
            SIMPLEFS_BLOCK_SIZE dir_block_data_buffer 0 none with
        | .corrupt => (-( EIO : Int), parent_inode, setErrno context EIO)
        | .removed dir_block_data_buffer =>
          match write_block context.device_fd current_physical_block dir_block_data_buffer with
          | none => (-( EIO : Int), parent_inode, setErrno context EIO)
          | some dev =>
            let context := { context with device_fd := dev }
            let parent_inode := set_i_ctime parent_inode context.now
            let parent_inode := set_i_mtime parent_inode context.now
            let w := write_inode_to_disk context parent_inode_num parent_inode
            if w.1 ≠ 0 then (-( EIO : Int), parent_inode, w.2)
            else (0, parent_inode, w.2)
        | .absent =>
          remove_dir_entry_loop parent_inode_num entry_name_to_remove remaining context
            parent_inode (logical_block_idx + 1)

/-- Bytes of the names `"."` and `".."`. -/
def DOT : List Nat := [46]
def DOTDOT : List Nat := [46, 46]
/-- Byte of the separator `'/'`. -/
def SLASH : Nat := 47

/-- Source function `remove_dir_entry`: return value, `*parent_inode` and the
context after the call. -/
def remove_dir_entry (context : SimpleFS_Context) (parent_inode : Buf) (parent_inode_num : Nat)
    (entry_name_to_remove : List Nat) : Int × Buf × SimpleFS_Context :=
  if entry_name_to_remove = [] ∨ entry_name_to_remove = DOT ∨ entry_name_to_remove = DOTDOT then
    (-(EINVAL : Int), parent_inode, setErrno context EINVAL)
  else
    let num_data_blocks_in_dir :=
      if i_size parent_inode = 0 then 0
      else u32 (i_size parent_inode + SIMPLEFS_BLOCK_SIZE - 1) / SIMPLEFS_BLOCK_SIZE
    remove_dir_entry_loop parent_inode_num entry_name_to_remove num_data_blocks_in_dir
      context parent_inode 0

/-! ## Paths (`src/utils.cpp`, `src/fuse_ops.cpp`)

A `std::string` is the list of its bytes. Paths arrive as C strings and hold
no NUL byte. -/

/-- Source function `parse_path`: the pair `(dirname, basename)`. -/
def parse_path (path : List Nat) : List Nat × List Nat :=
  if path = [] then (DOT, [])
  else
    let p_normalized : List Nat := if path.head? = some SLASH then [SLASH] else []
    let p_normalized := path.foldl (fun acc c =>
      if c = SLASH then
        (if acc ≠ [] ∧ acc.getLast? ≠ some SLASH then acc ++ [SLASH] else acc)
      else acc ++ [c]) p_normalized
    let p_normalized :=
      if p_normalized.length > 1 ∧ p_normalized.getLast? = some SLASH then p_normalized.dropLast
      else p_normalized
    let p_normalized :=
      if p_normalized = [] ∧ path.head? = some SLASH then [SLASH] else p_normalized
    if p_normalized = [SLASH] then ([SLASH], [SLASH])
    else
      -- `find_last_of('/')`
      match (List.range p_normalized.length).reverse.find?
          (fun i => decide (p_normalized.getD i 0 = SLASH)) with
      | none => (DOT, p_normalized)
      | some last_slash =>
        let basename := p_normalized.drop (last_slash + 1)
        if last_slash = 0 then ([SLASH], basename)
        else (p_normalized.take last_slash, basename)

/-- The tokenizer loop of `resolve_path_recursive`: the non-empty pieces of
the path between separators. -/
def path_components (path : List Nat) : List (List Nat) :=
  let path_to_tokenize := if path.head? = some SLASH then path.drop 1 else path
  (path_to_tokenize.splitOn SLASH).filter (fun c => decide (c ≠ []))

/-- Outcome of a directory lookup in `resolve_path_recursive`: the inode number
of the entry, no entry, or a failed read of a data block (`errno = EIO`). -/
inductive Lookup where
  | found (inode_num : Nat)
  | absent
  | ioerr

/-- The record loop `while (entry_offset < effective_size_in_this_block)` of
the lookup, from `entry_offset`, for at most `fuel` records. -/
def lookup_scan (component : List Nat) (effective_size_in_this_block : Nat) :
    Nat → Buf → Nat → Option Nat
  | 0, _, _ => none
  | fuel + 1, buf, entry_offset =>
    if ¬ entry_offset < effective_size_in_this_block then none
    else if de_rec_len buf entry_offset = 0 ∨
        calculate_dir_entry_len (de_name_len buf entry_offset) > de_rec_len buf entry_offset ∨
        entry_offset + de_rec_len buf entry_offset > effective_size_in_this_block then none
    else if de_inode buf entry_offset ≠ 0 ∧ de_name_matches buf entry_offset component = true then
      some (de_inode buf entry_offset)
    else lookup_scan component effective_size_in_this_block fuel buf
      (entry_offset + de_rec_len buf entry_offset)

/-- The body run for one non-zero data-block pointer of the directory, at
logical block `logical_block_idx`: read the block and scan the part of it that
lies below `i_size`. The `continue` the source takes when that part is empty
skips a scan that would find nothing. -/
def lookup_data_block (fd : Device) (dir_inode : Buf) (component : List Nat)
    (logical_block_idx data_block_ptr : Nat) : Lookup :=
  match read_block fd data_block_ptr with
  | none => .ioerr
  | some dir_data_block_buffer =>
    let block_start_offset_in_file := u32 (logical_block_idx * SIMPLEFS_BLOCK_SIZE)
    let effective_size_in_this_block :=
      if i_size dir_inode > block_start_offset_in_file then
        min SIMPLEFS_BLOCK_SIZE (i_size dir_inode - block_start_offset_in_file)
      else 0
    match lookup_scan component effective_size_in_this_block SIMPLEFS_BLOCK_SIZE
        dir_data_block_buffer 0 with
    | some n => .found n
    | none => .absent

/-- A loop `for (k = start; k < start + n && !found; ++k)` over pointers
`ptr k` to data blocks whose logical index is `lbn k`; zero pointers are
skipped. -/
def lookup_ptrs (fd : Device) (dir_inode : Buf) (component : List Nat)
    (ptr lbn : Nat → Nat) : Nat → Nat → Lookup
  | 0, _ => .absent
  | n + 1, k =>
    if ptr k = 0 then lookup_ptrs fd dir_inode component ptr lbn n (k + 1)
    else
      match lookup_data_block fd dir_inode component (lbn k) (ptr k) with
      | .absent => lookup_ptrs fd dir_inode component ptr lbn n (k + 1)
      | r => r

/-- A loop over the entries `k` of an indirect block whose children are
single-indirect blocks: a zero pointer or an unreadable child is skipped, the
entries of a readable child are searched with `lookup_ptrs`; `base k` is the
logical index of the first block under child `k`. -/
def lookup_l1s (fd : Device) (dir_inode : Buf) (component : List Nat)
    (content : Buf) (base : Nat → Nat) : Nat → Nat → Lookup
  | 0, _ => .absent
  | n + 1, k =>
    if ptrAt content k = 0 then lookup_l1s fd dir_inode component content base n (k + 1)
    else
      match read_block fd (ptrAt content k) with
      | none => lookup_l1s fd dir_inode component content base n (k + 1)
      | some single_indirect_content =>
        match lookup_ptrs fd dir_inode component (ptrAt single_indirect_content)
            (fun l2_idx => u32 (base k + l2_idx)) (SIMPLEFS_BLOCK_SIZE / 4) 0 with
        | .absent => lookup_l1s fd dir_inode component content base n (k + 1)
        | r => r

/-- The triple-indirect loop over the entries `l0_idx` of the top block. -/
def lookup_l2s (fd : Device) (dir_inode : Buf) (component : List Nat)
    (tpl_indirect_content : Buf) : Nat → Nat → Lookup
  | 0, _ => .absent
  | n + 1, l0_idx =>
    if ptrAt tpl_indirect_content l0_idx = 0 then
      lookup_l2s fd dir_inode component tpl_indirect_content n (l0_idx + 1)
    else
      match read_block fd (ptrAt tpl_indirect_content l0_idx) with
      | none => lookup_l2s fd dir_inode component tpl_indirect_content n (l0_idx + 1)
      | some dbl_indirect_content_via_tpl =>
        match lookup_l1s fd dir_inode component dbl_indirect_content_via_tpl
            (fun l1_idx => 12 + 1024 + 1024 * 1024 + l0_idx * 1024 * 1024 + l1_idx * 1024)
            (SIMPLEFS_BLOCK_SIZE / 4) 0 with
        | .absent => lookup_l2s fd dir_inode component tpl_indirect_content n (l0_idx + 1)
        | r => r

/-- The four searches of `resolve_path_recursive` for `component` in the
directory `current_dir_inode_data`: direct blocks, then the single-, double-
and triple-indirect trees, each entered only while nothing was found. -/
def lookup_component (fd : Device) (current_dir_inode_data : Buf) (component : List Nat) :
    Lookup :=
  match lookup_ptrs fd current_dir_inode_data component (i_block current_dir_inode_data)
      (fun i => i) SIMPLEFS_NUM_DIRECT_BLOCKS 0 with
  | .absent =>
    let single :=
      if i_block current_dir_inode_data 12 = 0 then Lookup.absent
      else match read_block fd (i_block current_dir_inode_data 12) with
        | none => Lookup.absent
        | some indirect_block_content =>
          lookup_ptrs fd current_dir_inode_data component (ptrAt indirect_block_content)
            (fun k => 12 + k) (SIMPLEFS_BLOCK_SIZE / 4) 0
    match single with
    | .absent =>
      let dbl :=
        if i_block current_dir_inode_data 13 = 0 then Lookup.absent
        else match read_block fd (i_block current_dir_inode_data 13) with
          | none => Lookup.absent
          | some dbl_indirect_content =>
            lookup_l1s fd current_dir_inode_data component dbl_indirect_content
              (fun l1_idx => 12 + 1024 + l1_idx * 1024) (SIMPLEFS_BLOCK_SIZE / 4) 0
      match dbl with
      | .absent =>
        if i_block current_dir_inode_data 14 = 0 then Lookup.absent
        else match read_block fd (i_block current_dir_inode_data 14) with
          | none => Lookup.absent
          | some tpl_indirect_content =>
            lookup_l2s fd current_dir_inode_data component tpl_indirect_content
              (SIMPLEFS_BLOCK_SIZE / 4) 0
      | r => r
    | r => r
  | r => r

/-- The conversion `std::string(char_buffer)`: the bytes before the first NUL. -/
def cstr (bytes : List Nat) : List Nat := bytes.takeWhile (fun c => decide (c ≠ 0))

/-- The call `s.rfind(pat)`: the last position at which `pat` occurs in `s`. -/
def rfind (s pat : List Nat) : Option Nat :=
  if pat.length > s.length then none
  else (List.range (s.length - pat.length + 1)).reverse.find?
    (fun pos => decide ((s.drop pos).take pat.length = pat))

/-- The update of `current_path_for_symlink_resolution` for one component. -/
def advance_current_path (current_path : List Nat) (component : List Nat) : List Nat :=
  if component = DOTDOT then
    if current_path.length > 1 then
      match (List.range current_path.length).reverse.find?
          (fun i => decide (current_path.getD i 0 = SLASH)) with
      | some 0 => [SLASH]
      | some last_slash => current_path.take last_slash
      | none => current_path
    else current_path
  else if component ≠ DOT then
    (if current_path.length > 1 then current_path ++ [SLASH] else current_path) ++ component
  else current_path

/-- The target string of the symlink inode `component_inode_data`, as
`resolve_path_recursive` reads it; `none` is the `errno = EIO; return 0` exits. -/
def read_symlink_target (fd : Device) (component_inode_data : Buf) : Option (List Nat) :=
  if i_blocks component_inode_data = 0 then
    if i_size component_inode_data > I_BLOCK_BYTES then none
    else some (cstr (bytesOf component_inode_data I_BLOCK_OFF (i_size component_inode_data)))
  else
    if i_size component_inode_data = 0 ∨ i_block component_inode_data 0 = 0 then none
    else match read_block fd (i_block component_inode_data 0) with
      | none => none
      | some target_path_buf =>
        some (cstr (bytesOf target_path_buf 0
          (min (SIMPLEFS_BLOCK_SIZE - 1) (i_size component_inode_data))))

/-- The path `next_resolve_path_str` that replaces a symlink component: the
target made absolute against the directory of the link, followed by the
remaining components. -/
def next_resolve_path (current_path component target_path_str : List Nat)
    (remaining : List (List Nat)) : List Nat :=
  let next_resolve_path_str :=
    if target_path_str.head? = some SLASH then target_path_str
    else
      let base_dir := current_path
      let base_dir :=
        if base_dir.length > component.length then
          match rfind base_dir component with
          | some pos =>
            if pos > 0 ∧ base_dir.getD (pos - 1) 0 = SLASH then base_dir.take (pos - 1)
            else if pos = 0 ∧ base_dir = SLASH :: component then [SLASH]
            else base_dir
          | none => base_dir
        else base_dir
      let base_dir := if base_dir = [] then [SLASH] else base_dir
      if base_dir.length > 1 ∧ base_dir.getLast? = some SLASH then base_dir ++ target_path_str
      else if base_dir = [SLASH] then SLASH :: target_path_str
      else base_dir ++ [SLASH] ++ target_path_str
  let remaining_path_components := (remaining.map (fun c => SLASH :: c)).flatten
  if remaining_path_components ≠ [] then
    (if next_resolve_path_str.getLast? = some SLASH then next_resolve_path_str.dropLast
      else next_resolve_path_str) ++ remaining_path_components
  else next_resolve_path_str

/-- The component loop of `resolve_path_recursive` over the components still
to walk; `recurse` is the recursive call at `depth + 1`. The result is the
inode number (`0` is failure) and the context. -/
def resolve_walk (caller : fuse_context) (follow_last_symlink : Bool)
    (recurse : SimpleFS_Context → List Nat → Nat × SimpleFS_Context) :
    List (List Nat) → SimpleFS_Context → Nat → List Nat → Nat × SimpleFS_Context
  | [], context, current_inode_num, _ => (current_inode_num, context)
  | component :: rest, context, current_inode_num, current_path =>
    let is_last_component := decide (rest = [])
    if component = [] ∨ component = DOT then
      resolve_walk caller follow_last_symlink recurse rest context current_inode_num current_path
    else
      match read_inode_from_disk context current_inode_num with
      | (.error _, context) => (0, context)
      | (.ok current_dir_inode_data, context) =>
        if ¬ S_ISDIR (i_mode current_dir_inode_data) = true then (0, setErrno context ENOTDIR)
        else
          let a := check_access context caller current_dir_inode_data X_OK
          if a.1 ≠ 0 then (0, setErrno a.2 (-a.1).toNat)
          else
            let context := a.2
            match lookup_component context.device_fd current_dir_inode_data component with
            | .ioerr => (0, setErrno context EIO)
            | .absent => (0, setErrno context ENOENT)
            | .found next_inode_num_candidate =>
              match read_inode_from_disk context next_inode_num_candidate with
              | (.error _, context) => (0, context)
              | (.ok component_inode_data, context) =>
                let current_path := advance_current_path current_path component
                if S_ISLNK (i_mode component_inode_data) then
                  if is_last_component ∧ ¬ follow_last_symlink = true then
                    (next_inode_num_candidate, context)
                  else
                    match read_symlink_target context.device_fd component_inode_data with
                    | none => (0, setErrno context EIO)
                    | some target_path_str =>
                      recurse context
                        (next_resolve_path current_path component target_path_str rest)
                else if is_last_component then (next_inode_num_candidate, context)
                else
                  resolve_walk caller follow_last_symlink recurse rest context
                    next_inode_num_candidate current_path

/-- Source function `resolve_path_recursive`, by recursion on the number
`budget = FUSE_SYMLINK_MAX + 1 - depth` of depths still allowed: `budget = 0`
is the test `depth > FUSE_SYMLINK_MAX`. -/
def resolve_path_budget (caller : fuse_context) (follow_last_symlink : Bool) :
    Nat → SimpleFS_Context → List Nat → Nat × SimpleFS_Context
  | 0, context, _ => (0, setErrno context ELOOP)
  | budget + 1, context, path =>
    if path = [] then (0, setErrno context EINVAL)
    else if path = [SLASH] then (context.sb.s_root_inode, context)
    else
      let components := path_components path
      if components = [] ∧ path.head? = some SLASH then (context.sb.s_root_inode, context)
      else if components = [] then (0, setErrno context EINVAL)
      else
        resolve_walk caller follow_last_symlink
          (fun ctx p => resolve_path_budget caller follow_last_symlink budget ctx p)
          components context context.sb.s_root_inode [SLASH]

/-- Source function `resolve_path_recursive`. -/
def resolve_path_recursive (context : SimpleFS_Context) (caller : fuse_context)
    (path : List Nat) (depth : Nat) (follow_last_symlink : Bool) : Nat × SimpleFS_Context :=
  resolve_path_budget caller follow_last_symlink (FUSE_SYMLINK_MAX + 1 - depth) context path

/-- Source function `path_to_inode_num`. -/
def path_to_inode_num (context : SimpleFS_Context) (caller : fuse_context)
    (path : List Nat) : Nat × SimpleFS_Context :=
  resolve_path_recursive context caller path 0 true

/-! ## Operation layer (`src/fuse_ops.cpp`)

Every operation returns its `int` result first; the caller identity that
`fuse_get_context()` delivers is the argument `caller`. -/

/-- Conversion of a `size_t` count to the `int` an operation returns. -/
def toInt32 (n : Nat) : Int :=
  if n % 4294967296 < 2147483648 then ((n % 4294967296 : Nat) : Int)
  else ((n % 4294967296 : Nat) : Int) - 4294967296

/-- The check on `basename_str` that opens `mknod`, `mkdir`, `unlink`, `rmdir`,
`symlink` and `link`. -/
def bad_basename (basename_str : List Nat) : Bool :=
  decide (basename_str = [] ∨ basename_str = DOT ∨ basename_str = DOTDOT ∨
    basename_str = [SLASH])

/-- The steps shared by the operations that change a directory: resolve the
parent `dirname_str`, read its inode, require a directory and `W_OK | X_OK`.
`.error` carries the operation result. -/
def open_parent (context : SimpleFS_Context) (caller : fuse_context) (dirname_str : List Nat) :
    Except (Int × SimpleFS_Context) (Nat × Buf × SimpleFS_Context) :=
  let context := setErrno context 0
  let r := path_to_inode_num context caller dirname_str
  if r.1 = 0 then .error (-(r.2.errno : Int), r.2)
  else
    match read_inode_from_disk r.2 r.1 with
    | (.error _, context) => .error (-(context.errno : Int), context)
    | (.ok parent_inode_data, context) =>
      if ¬ S_ISDIR (i_mode parent_inode_data) = true then .error (-(ENOTDIR : Int), context)
      else
        let a := check_access context caller parent_inode_data (Nat.lor W_OK X_OK)
        if a.1 ≠ 0 then .error a
        else .ok (r.1, parent_inode_data, a.2)

/-- The existence check shared by `mknod`, `mkdir`, `symlink` and `link`:
`errno = 0`, resolve the path without following a final symlink, fail with
`-EEXIST` if it resolves and with `-errno` on an error other than `ENOENT`. -/
def check_absent (context : SimpleFS_Context) (caller : fuse_context) (path_str : List Nat) :
    Except (Int × SimpleFS_Context) SimpleFS_Context :=
  let context := setErrno context 0
  let r := resolve_path_recursive context caller path_str 0 false
  if r.1 ≠ 0 then .error (-(EEXIST : Int), r.2)
  else if r.2.errno ≠ 0 ∧ r.2.errno ≠ ENOENT then .error (-(r.2.errno : Int), r.2)
  else .ok r.2

/-- A fresh inode record: `memset` to zero, then mode, owner, link count and
the three timestamps. -/
def new_inode_record (mode uid gid links_count now : Nat) : Buf :=
  let ino := set_i_mode zeroBuf mode
  let ino := set_i_uid ino uid
  let ino := set_i_gid ino gid
  let ino := set_i_links_count ino links_count
  let ino := set_i_size ino 0
  let ino := set_i_ctime ino now
  let ino := set_i_mtime ino now
  let ino := set_i_atime ino now
  set_i_blocks ino 0

/-- Source function `simplefs_mknod`. -/
def simplefs_mknod (context : SimpleFS_Context) (caller : fuse_context) (path : List Nat)
    (mode : Nat) : Int × SimpleFS_Context :=
  if ¬ S_ISREG mode = true ∧ ¬ S_ISFIFO mode = true then (-(EPERM : Int), context)
  else
    let (dirname_str, basename_str) := parse_path path
    if bad_basename basename_str then (-(EINVAL : Int), context)
    else if basename_str.length > SIMPLEFS_MAX_FILENAME_LEN then (-(ENAMETOOLONG : Int), context)
    else
      match open_parent context caller dirname_str with
      | .error e => e
      | .ok (parent_inode_num, parent_inode_data, context) =>
        match check_absent context caller path with
        | .error e => e
        | .ok context =>
          let r := alloc_inode context mode
          if r.1 = 0 then (-(r.2.errno : Int), r.2)
          else
            let new_inode_num := r.1
            let context := r.2
            let new_inode := new_inode_record mode caller.uid caller.gid 1 context.now
            let w := write_inode_to_disk context new_inode_num new_inode
            if w.1 ≠ 0 then
              let context := free_inode w.2 new_inode_num (i_mode new_inode)
              (-(context.errno : Int), context)
            else
              let dentry_file_type := Nat.land mode S_IFMT / 4096
              let a := add_dir_entry w.2 parent_inode_data parent_inode_num basename_str
                new_inode_num dentry_file_type
              if a.1 ≠ 0 then
                let new_inode := set_i_dtime new_inode a.2.2.now
                let new_inode := set_i_links_count new_inode 0
                let w := write_inode_to_disk a.2.2 new_inode_num new_inode
                (a.1, free_inode w.2 new_inode_num (i_mode new_inode))
              else (0, sync_fs_metadata a.2.2)

/-- The directory block that `simplefs_mkdir` prepares: `"."` for the new
inode with `rec_len = 12`, then `".."` for the parent up to the block end. -/
def mkdir_block (new_dir_inode_num parent_inode_num : Nat) : Buf :=
  let dot_file_type := Nat.land S_IFDIR S_IFMT / 4096
  let buf := fill_dir_entry zeroBuf 0 new_dir_inode_num DOT dot_file_type
    (calculate_dir_entry_len 1)
  let current_offset := calculate_dir_entry_len 1
  fill_dir_entry buf current_offset parent_inode_num DOTDOT dot_file_type
    (SIMPLEFS_BLOCK_SIZE - current_offset)

/-- Source function `simplefs_mkdir`. -/
def simplefs_mkdir (context : SimpleFS_Context) (caller : fuse_context) (path : List Nat)
    (mode : Nat) : Int × SimpleFS_Context :=
  let (dirname_str, basename_str) := parse_path path
  if bad_basename basename_str then (-(EINVAL : Int), context)
  else if basename_str.length > SIMPLEFS_MAX_FILENAME_LEN then (-(ENAMETOOLONG : Int), context)
  else
    match open_parent context caller dirname_str with
    | .error e => e
    | .ok (parent_inode_num, parent_inode_data, context) =>
      match check_absent context caller path with
      | .error e => e
      | .ok context =>
        let dir_mode := Nat.lor S_IFDIR (Nat.land mode 0o7777)
        let r := alloc_inode context dir_mode
        if r.1 = 0 then (-(r.2.errno : Int), r.2)
        else
          let new_dir_inode_num := r.1
          let b := alloc_block r.2
            (dec32 new_dir_inode_num / r.2.sb.s_inodes_per_group)
          if b.1 = 0 then
            let context := free_inode b.2 new_dir_inode_num dir_mode
            (-(context.errno : Int), context)
          else
            let new_dir_data_block := b.1
            let context := b.2
            let new_dir_inode := new_inode_record dir_mode caller.uid caller.gid 2 context.now
            let dir_block_buffer := mkdir_block new_dir_inode_num parent_inode_num
            let current_offset := u16 (calculate_dir_entry_len 1 +
              (SIMPLEFS_BLOCK_SIZE - calculate_dir_entry_len 1))
            match write_block context.device_fd new_dir_data_block dir_block_buffer with
            | none =>
              let context := free_block context new_dir_data_block
              (-( EIO : Int), free_inode context new_dir_inode_num (i_mode new_dir_inode))
            | some dev =>
              let context := { context with device_fd := dev }
              let new_dir_inode := set_i_block new_dir_inode 0 new_dir_data_block
              let new_dir_inode := set_i_blocks new_dir_inode (SIMPLEFS_BLOCK_SIZE / 512)
              let new_dir_inode := set_i_size new_dir_inode current_offset
              let w := write_inode_to_disk context new_dir_inode_num new_dir_inode
              if w.1 ≠ 0 then
                let context := w.2
                let dev := write_block_ignore context.device_fd new_dir_data_block zeroBuf
                let context := { context with device_fd := dev }
                let context := free_block context new_dir_data_block
                let new_dir_inode := set_i_dtime new_dir_inode context.now
                let new_dir_inode := set_i_links_count new_dir_inode 0
                let w := write_inode_to_disk context new_dir_inode_num new_dir_inode
                let context := free_inode w.2 new_dir_inode_num (i_mode new_dir_inode)
                (-(context.errno : Int), context)
              else
                let dentry_file_type_for_parent := Nat.land S_IFDIR S_IFMT / 4096
                let a := add_dir_entry w.2 parent_inode_data parent_inode_num basename_str
                  new_dir_inode_num dentry_file_type_for_parent
                if a.1 ≠ 0 then
                  let context := a.2.2
                  let dev := write_block_ignore context.device_fd new_dir_data_block zeroBuf
                  let context := { context with device_fd := dev }
                  let context := free_block context new_dir_data_block
                  let new_dir_inode := set_i_dtime new_dir_inode context.now
                  let new_dir_inode := set_i_links_count new_dir_inode 0
                  let w := write_inode_to_disk context new_dir_inode_num new_dir_inode
                  (a.1, free_inode w.2 new_dir_inode_num dir_mode)
                else
                  let context := a.2.2
                  let parent_inode_data := set_i_links_count a.2.1 (i_links_count a.2.1 + 1)
                  let parent_inode_data := set_i_ctime parent_inode_data context.now
                  let parent_inode_data := set_i_mtime parent_inode_data context.now
                  let w := write_inode_to_disk context parent_inode_num parent_inode_data
                  (0, sync_fs_metadata w.2)

/-- Source function `simplefs_unlink`. -/
def simplefs_unlink (context : SimpleFS_Context) (caller : fuse_context) (path : List Nat) :
    Int × SimpleFS_Context :=
  let (dirname_str, basename_str) := parse_path path
  if bad_basename basename_str then (-(EINVAL : Int), context)
  else
    match open_parent context caller dirname_str with
    | .error e => e
    | .ok (parent_inode_num, parent_inode_data, context) =>
      let context := setErrno context 0
      let r := resolve_path_recursive context caller path 0 false
      if r.1 = 0 then (-(r.2.errno : Int), r.2)
      else
        let target_inode_num := r.1
        match read_inode_from_disk r.2 target_inode_num with
        | (.error _, context) => (-(context.errno : Int), context)
        | (.ok target_inode_data, context) =>
          if Nat.land (i_mode parent_inode_data) S_ISVTX ≠ 0 ∧
              ¬ S_ISDIR (i_mode target_inode_data) = true ∧
              caller.uid ≠ 0 ∧ caller.uid ≠ i_uid parent_inode_data ∧
              caller.uid ≠ i_uid target_inode_data then (-(EACCES : Int), context)
          else if S_ISDIR (i_mode target_inode_data) then (-(EISDIR : Int), context)
          else
            let rm := remove_dir_entry context parent_inode_data parent_inode_num basename_str
            if rm.1 ≠ 0 then (rm.1, rm.2.2)
            else
              let context := rm.2.2
              let target_inode_data := set_i_links_count target_inode_data
                (dec16 (i_links_count target_inode_data))
              let target_inode_data := set_i_ctime target_inode_data context.now
              if i_links_count target_inode_data = 0 then
                let fr :=
                  if ¬ (S_ISLNK (i_mode target_inode_data) = true ∧
                      i_blocks target_inode_data = 0) then
                    free_all_inode_blocks context target_inode_data
                  else (context, target_inode_data)
                let context := fr.1
                let target_inode_data := set_i_size fr.2 0
                let target_inode_data := set_i_dtime target_inode_data context.now
                let w := write_inode_to_disk context target_inode_num target_inode_data
                let context := free_inode w.2 target_inode_num (i_mode target_inode_data)
                (0, sync_fs_metadata context)
              else
                let w := write_inode_to_disk context target_inode_num target_inode_data
                if w.1 ≠ 0 then (-( EIO : Int), w.2)
                else (0, sync_fs_metadata w.2)

/-- The record loop of the emptiness check in `simplefs_rmdir` over one block:
whether a record other than `"."` and `".."` was met (`non_dot_entries > 0`),
and `total_dir_bytes_iterated` after the loop. -/
def rmdir_scan (dir_size : Nat) : Nat → Buf → Nat → Nat → Nat → Bool × Nat
  | 0, _, _, _, total => (false, total)
  | fuel + 1, buf, entry_offset, processed, total =>
    if ¬ (total < dir_size ∧ processed < SIMPLEFS_BLOCK_SIZE) then (false, total)
    else if de_rec_len buf entry_offset = 0 ∨
        calculate_dir_entry_len (de_name_len buf entry_offset) > de_rec_len buf entry_offset ∨
        entry_offset + de_rec_len buf entry_offset > SIMPLEFS_BLOCK_SIZE then (false, total)
    else if de_inode buf entry_offset ≠ 0 ∧ de_name_len buf entry_offset > 0 ∧
        de_name buf entry_offset ≠ DOT ∧ de_name buf entry_offset ≠ DOTDOT then (true, total)
    else
      let rec_len := de_rec_len buf entry_offset
      if entry_offset + rec_len ≥ SIMPLEFS_BLOCK_SIZE then (false, u32 (total + rec_len))
      else rmdir_scan dir_size fuel buf (entry_offset + rec_len) (processed + rec_len)
        (u32 (total + rec_len))

/-- The block loop of the emptiness check in `simplefs_rmdir`, from block
`dir_lbn` with `total` bytes iterated, for at most `fuel` iterations: `none`
when the iterations run out before the loop ends, else `.ok is_empty` or the
error result of the operation. -/
def rmdir_check_loop (target_inode_data : Buf) :
    Nat → SimpleFS_Context → Nat → Nat → Option (Except Int Bool × SimpleFS_Context)
  | 0, _, _, _ => none
  | fuel + 1, context, dir_lbn, total =>
    if ¬ total < i_size target_inode_data then some (.ok true, context)
    else
      let m := map_logical_to_physical_block context target_inode_data dir_lbn
      let context := m.2
      if m.1 = 0 then rmdir_check_loop target_inode_data fuel context (u32 (dir_lbn + 1)) total
      else
        match read_block context.device_fd m.1 with
        | none => some (.error (-( EIO : Int)), context)
        | some block_buffer =>
          let sc := rmdir_scan (i_size target_inode_data) SIMPLEFS_BLOCK_SIZE block_buffer 0 0 total
          if sc.1 then some (.ok false, context)
          else
            let dir_lbn := u32 (dir_lbn + 1)
            if dir_lbn > i_size target_inode_data / SIMPLEFS_BLOCK_SIZE +
                SIMPLEFS_INODE_BLOCK_PTRS * 1024 * 1024 then
              some (.error (-( EIO : Int)), context)
            else rmdir_check_loop target_inode_data fuel context dir_lbn sc.2

/-- Source function `simplefs_rmdir`; `fuel` bounds the iterations of the
emptiness loop and `none` is a run that needs more. -/
def simplefs_rmdir (fuel : Nat) (context : SimpleFS_Context) (caller : fuse_context)
    (path : List Nat) : Option (Int × SimpleFS_Context) :=
  let (dirname_str, basename_str) := parse_path path
  if bad_basename basename_str then some (-(EINVAL : Int), context)
  else
    match open_parent context caller dirname_str with
    | .error e => some e
    | .ok (parent_inode_num, parent_inode_data, context) =>
      let context := setErrno context 0
      let r := resolve_path_recursive context caller path 0 false
      if r.1 = 0 then some (-(r.2.errno : Int), r.2)
      else
        let target_inode_num := r.1
        match read_inode_from_disk r.2 target_inode_num with
        | (.error _, context) => some (-(context.errno : Int), context)
        | (.ok target_inode_data, context) =>
          if Nat.land (i_mode parent_inode_data) S_ISVTX ≠ 0 ∧
              caller.uid ≠ 0 ∧ caller.uid ≠ i_uid parent_inode_data ∧
              caller.uid ≠ i_uid target_inode_data then some (-(EACCES : Int), context)
          else if ¬ S_ISDIR (i_mode target_inode_data) = true then some (-(ENOTDIR : Int), context)
          else
            let chk :=
              if i_size target_inode_data > 0 then
                rmdir_check_loop target_inode_data fuel context 0 0
              else some (.ok true, context)
            match chk with
            | none => none
            | some (.error e, context) => some (e, context)
            | some (.ok false, context) => some (-(ENOTEMPTY : Int), context)
            | some (.ok true, context) =>
              let rm := remove_dir_entry context parent_inode_data parent_inode_num basename_str
              if rm.1 ≠ 0 then some (rm.1, rm.2.2)
              else
                let context := rm.2.2
                let parent_inode_data := set_i_links_count rm.2.1 (dec16 (i_links_count rm.2.1))
                let parent_inode_data := set_i_ctime parent_inode_data context.now
                let parent_inode_data := set_i_mtime parent_inode_data context.now
                let w := write_inode_to_disk context parent_inode_num parent_inode_data
                let fr := free_all_inode_blocks w.2 target_inode_data
                let context := fr.1
                let target_inode_data := set_i_links_count fr.2 0
                let target_inode_data := set_i_dtime target_inode_data context.now
                let target_inode_data := set_i_size target_inode_data 0
                let mode_of_target := i_mode target_inode_data
                let w := write_inode_to_disk context target_inode_num target_inode_data
                let context := free_inode w.2 target_inode_num mode_of_target
                some (0, sync_fs_metadata context)

/-- Outcome of the block loop of `simplefs_read`: the loop ended (`done`) with
the bytes stored in the caller's buffer, or the operation returned an error
from inside the loop. -/
inductive ReadLoop where
  | done (bytes : List Nat) (context : SimpleFS_Context)
  | fail (result : Int) (context : SimpleFS_Context)

/-- The loop `while (total_bytes_read < size)` of `simplefs_read`; `acc` is
the part of the caller's buffer filled so far, of length `total_bytes_read`. -/
def read_loop (inode_data : Buf) (offset size : Nat) :
    Nat → SimpleFS_Context → List Nat → ReadLoop
  | 0, context, acc => .done acc context
  | fuel + 1, context, acc =>
    let total_bytes_read := acc.length
    if ¬ total_bytes_read < size then .done acc context
    else
      let current_offset_in_file := u32 (offset + total_bytes_read)
      let logical_block_idx := current_offset_in_file / SIMPLEFS_BLOCK_SIZE
      let offset_in_block := current_offset_in_file % SIMPLEFS_BLOCK_SIZE
      let m := map_logical_to_physical_block context inode_data logical_block_idx
      let context := m.2
      if m.1 = 0 then
        let bytes_to_zero_in_this_block :=
          min (SIMPLEFS_BLOCK_SIZE - offset_in_block) (size - total_bytes_read)
        let acc := acc ++ List.replicate bytes_to_zero_in_this_block 0
        if context.errno ≠ 0 ∧ context.errno ≠ ENOENT then
          (if acc.length > 0 then .done acc context else .fail (-(context.errno : Int)) context)
        else read_loop inode_data offset size fuel (setErrno context 0) acc
      else
        match read_block context.device_fd m.1 with
        | none =>
          if total_bytes_read > 0 then .done acc context else .fail (-( EIO : Int)) context
        | some block_buffer =>
          let bytes_to_read_from_this_block :=
            min (SIMPLEFS_BLOCK_SIZE - offset_in_block) (size - total_bytes_read)
          read_loop inode_data offset size fuel context
            (acc ++ bytesOf block_buffer offset_in_block bytes_to_read_from_this_block)

/-- Source function `simplefs_read` for `offset ≥ 0`: the `int` result, the
bytes stored in the caller's buffer, and the context. Every iteration of the
loop stores at least one byte, so `size` iterations are enough. -/
def simplefs_read (context : SimpleFS_Context) (caller : fuse_context) (path : List Nat)
    (size offset : Nat) : Int × List Nat × SimpleFS_Context :=
  let context := setErrno context 0
  let r := path_to_inode_num context caller path
  if r.1 = 0 then (-(r.2.errno : Int), [], r.2)
  else
    let inode_num := r.1
    match read_inode_from_disk r.2 inode_num with
    | (.error _, context) => (-(context.errno : Int), [], context)
    | (.ok inode_data, context) =>
      if S_ISDIR (i_mode inode_data) then (-(EISDIR : Int), [], context)
      else
        let a := check_access context caller inode_data R_OK
        if a.1 ≠ 0 then (a.1, [], a.2)
        else
          let context := a.2
          if offset ≥ i_size inode_data then (0, [], context)
          else
            let size := if offset + size > i_size inode_data
              then i_size inode_data - offset else size
            match read_loop inode_data offset size size context [] with
            | .fail e context => (e, [], context)
            | .done bytes context =>
              let inode_data := set_i_atime inode_data context.now
              let w := write_inode_to_disk context inode_num inode_data
              (toInt32 bytes.length, bytes, w.2)

/-- Outcome of the block loop of `simplefs_write`. -/
inductive WriteLoop where
  | done (total_bytes_written : Nat) (inode_data : Buf) (context : SimpleFS_Context)
  | fail (result : Int) (context : SimpleFS_Context)

/-- The loop `while (total_bytes_written < size)` of `simplefs_write`;
`block_rw_buffer` is the block buffer, which lives across iterations. -/
def write_loop (inode_num : Nat) (buf : List Nat) (offset : Nat) :
    Nat → SimpleFS_Context → Buf → Buf → Nat → WriteLoop
  | 0, context, inode_data, _, total_bytes_written =>
    .done total_bytes_written inode_data context
  | fuel + 1, context, inode_data, block_rw_buffer, total_bytes_written =>
    let size := buf.length
    if ¬ total_bytes_written < size then .done total_bytes_written inode_data context
    else
      let current_offset_in_file := u32 (offset + total_bytes_written)
      let logical_block_idx := current_offset_in_file / SIMPLEFS_BLOCK_SIZE
      let offset_in_block := current_offset_in_file % SIMPLEFS_BLOCK_SIZE
      let al := allocate_block_for_write context inode_data inode_num logical_block_idx
      let physical_block_num := al.1
      let block_was_newly_allocated := al.2.1
      let inode_data := al.2.2.1
      let context := al.2.2.2
      if physical_block_num = 0 then
        (if total_bytes_written > 0 then .done total_bytes_written inode_data context
          else .fail (-(context.errno : Int)) context)
      else
        let bytes_to_write_in_this_block :=
          min (SIMPLEFS_BLOCK_SIZE - offset_in_block) (size - total_bytes_written)
        let is_partial_block_overwrite :=
          decide (offset_in_block ≠ 0 ∨ bytes_to_write_in_this_block < SIMPLEFS_BLOCK_SIZE)
        let prepared : Option Buf :=
          if is_partial_block_overwrite ∧ ¬ block_was_newly_allocated then
            read_block context.device_fd physical_block_num
          else if is_partial_block_overwrite ∧ block_was_newly_allocated then some zeroBuf
          else some block_rw_buffer
        match prepared with
        | none =>
          if total_bytes_written > 0 then .done total_bytes_written inode_data context
          else .fail (-( EIO : Int)) context
        | some block_rw_buffer =>
          let block_rw_buffer := blit block_rw_buffer offset_in_block
            (fun i => buf.getD i 0) total_bytes_written bytes_to_write_in_this_block
          match write_block context.device_fd physical_block_num block_rw_buffer with
          | none =>
            if total_bytes_written > 0 then .done total_bytes_written inode_data context
            else .fail (-( EIO : Int)) context
          | some dev =>
            write_loop inode_num buf offset fuel { context with device_fd := dev } inode_data
              block_rw_buffer (total_bytes_written + bytes_to_write_in_this_block)

/-- Source function `simplefs_write` for `offset ≥ 0`; `buf` holds the `size`
bytes to write. Every iteration of the loop writes at least one byte, so
`size` iterations are enough. -/
def simplefs_write (context : SimpleFS_Context) (caller : fuse_context) (path : List Nat)
    (buf : List Nat) (offset : Nat) : Int × SimpleFS_Context :=
  let size := buf.length
  let context := setErrno context 0
  let r := path_to_inode_num context caller path
  if r.1 = 0 then (-(r.2.errno : Int), r.2)
  else
    let inode_num := r.1
    match read_inode_from_disk r.2 inode_num with
    | (.error _, context) => (-(context.errno : Int), context)
    | (.ok inode_data, context) =>
      if S_ISDIR (i_mode inode_data) then (-(EISDIR : Int), context)
      else
        let a := check_access context caller inode_data W_OK
        if a.1 ≠ 0 then a
        else
          match write_loop inode_num buf offset size a.2 inode_data zeroBuf 0 with
          | .fail e context => (e, context)
          | .done total_bytes_written inode_data context =>
            let inode_data :=
              if offset + total_bytes_written > i_size inode_data then
                set_i_size inode_data (offset + total_bytes_written)
              else inode_data
            let inode_data := set_i_ctime inode_data context.now
            let inode_data := set_i_mtime inode_data context.now
            let w := write_inode_to_disk context inode_num inode_data
            if w.1 ≠ 0 ∧ total_bytes_written = 0 ∧ size > 0 then (-( EIO : Int), w.2)
            else (toInt32 total_bytes_written, sync_fs_metadata w.2)

/-- The tail of `simplefs_truncate` after the size-specific branch: stamp
`mtime` and `ctime`, write the inode, flush the metadata when the file shrank
or was emptied. -/
def truncate_finish (context : SimpleFS_Context) (inode_num : Nat) (inode_data : Buf)
    (size old_size : Nat) : Int × SimpleFS_Context :=
  let inode_data := set_i_mtime inode_data context.now
  let inode_data := set_i_ctime inode_data context.now
  let w := write_inode_to_disk context inode_num inode_data
  if w.1 ≠ 0 then (-(w.2.errno : Int), w.2)
  else if size < old_size ∨ size = 0 then (0, sync_fs_metadata w.2)
  else (0, w.2)

/-- Source function `simplefs_truncate` for `size ≥ 0`. The shrink branch is
embedded as the source has it: after `old_num_fs_blocks` it tests
`inode_data.i_size == (uint32_t)size` and returns `0`, and the statements that
follow (a second `old_size`, the assignment of `i_size`, the release of the
blocks) come after that test. -/
def simplefs_truncate (context : SimpleFS_Context) (caller : fuse_context) (path : List Nat)
    (size : Nat) : Int × SimpleFS_Context :=
  let context := setErrno context 0
  let r := path_to_inode_num context caller path
  if r.1 = 0 then (-(r.2.errno : Int), r.2)
  else
    let inode_num := r.1
    match read_inode_from_disk r.2 inode_num with
    | (.error _, context) => (-(context.errno : Int), context)
    | (.ok inode_data, context) =>
      if S_ISDIR (i_mode inode_data) then (-(EISDIR : Int), context)
      else
        let a := check_access context caller inode_data W_OK
        if a.1 ≠ 0 then a
        else
          let context := a.2
          if i_size inode_data = u32 size then
            let inode_data := set_i_ctime inode_data context.now
            let w := write_inode_to_disk context inode_num inode_data
            if w.1 ≠ 0 then (-(w.2.errno : Int), w.2) else (0, w.2)
          else
            let old_size := i_size inode_data
            let inode_data := set_i_size inode_data size
            if size = 0 then
              let fr := free_all_inode_blocks context inode_data
              truncate_finish fr.1 inode_num fr.2 size old_size
            else if size < old_size then
              let old_num_fs_blocks := u32 (old_size + SIMPLEFS_BLOCK_SIZE - 1) / SIMPLEFS_BLOCK_SIZE
              if i_size inode_data = u32 size then (0, context)
              else
                let inode_data := set_i_size inode_data size
                let new_num_fs_blocks :=
                  if size = 0 then 0 else u32 ((size + SIMPLEFS_BLOCK_SIZE - 1) / SIMPLEFS_BLOCK_SIZE)
                let rel :=
                  if new_num_fs_blocks < old_num_fs_blocks then
                    release_logical_block_range context inode_data new_num_fs_blocks
                      old_num_fs_blocks
                  else (context, inode_data)
                truncate_finish rel.1 inode_num rel.2 size old_size
            else truncate_finish context inode_num inode_data size old_size

/-- Source function `simplefs_symlink`; `target` and `linkpath` are the
strings `target_str` and `linkpath_str`. -/
def simplefs_symlink (context : SimpleFS_Context) (caller : fuse_context)
    (target linkpath : List Nat) : Int × SimpleFS_Context :=
  if target = [] then (-(EINVAL : Int), context)
  else
    let (dirname_str, basename_str) := parse_path linkpath
    if bad_basename basename_str then (-(EINVAL : Int), context)
    else if basename_str.length > SIMPLEFS_MAX_FILENAME_LEN then (-(ENAMETOOLONG : Int), context)
    else
      match open_parent context caller dirname_str with
      | .error e => e
      | .ok (parent_inode_num, parent_inode_data, context) =>
        match check_absent context caller linkpath with
        | .error e => e
        | .ok context =>
          let link_mode := Nat.lor S_IFLNK 0o777
          let r := alloc_inode context link_mode
          if r.1 = 0 then (-(r.2.errno : Int), r.2)
          else
            let symlink_inode_num := r.1
            let context := r.2
            let symlink_inode := new_inode_record link_mode caller.uid caller.gid 1 context.now
            let symlink_inode := set_i_size symlink_inode target.length
            -- the fast / slow storage branch
            let stored : Except (Int × SimpleFS_Context) (Buf × SimpleFS_Context) :=
              if target.length < I_BLOCK_BYTES then
                .ok (set_i_blocks (blitList symlink_inode I_BLOCK_OFF target) 0, context)
              else if target.length ≥ SIMPLEFS_BLOCK_SIZE then
                .error (-(ENAMETOOLONG : Int),
                  free_inode context symlink_inode_num (i_mode symlink_inode))
              else
                let b := alloc_block context
                  (dec32 symlink_inode_num / context.sb.s_inodes_per_group)
                if b.1 = 0 then
                  let context := free_inode b.2 symlink_inode_num (i_mode symlink_inode)
                  .error (-(context.errno : Int), context)
                else
                  match write_block b.2.device_fd b.1 (blitList zeroBuf 0 target) with
                  | none =>
                    let context := free_block b.2 b.1
                    .error (-( EIO : Int),
                      free_inode context symlink_inode_num (i_mode symlink_inode))
                  | some dev =>
                    let symlink_inode := set_i_block symlink_inode 0 b.1
                    .ok (set_i_blocks symlink_inode (SIMPLEFS_BLOCK_SIZE / 512),
                      { b.2 with device_fd := dev })
            match stored with
            | .error e => e
            | .ok (symlink_inode, context) =>
              let w := write_inode_to_disk context symlink_inode_num symlink_inode
              if w.1 ≠ 0 then
                let context :=
                  if i_blocks symlink_inode > 0 ∧ i_block symlink_inode 0 ≠ 0 then
                    free_block w.2 (i_block symlink_inode 0)
                  else w.2
                let context := free_inode context symlink_inode_num (i_mode symlink_inode)
                (-(context.errno : Int), context)
              else
                let dentry_file_type := Nat.land S_IFLNK S_IFMT / 4096
                let a := add_dir_entry w.2 parent_inode_data parent_inode_num basename_str
                  symlink_inode_num dentry_file_type
                if a.1 ≠ 0 then
                  let context :=
                    if i_blocks symlink_inode > 0 ∧ i_block symlink_inode 0 ≠ 0 then
                      free_block a.2.2 (i_block symlink_inode 0)
                    else a.2.2
                  let symlink_inode := set_i_dtime symlink_inode context.now
                  let symlink_inode := set_i_links_count symlink_inode 0
                  let w := write_inode_to_disk context symlink_inode_num symlink_inode
                  (a.1, free_inode w.2 symlink_inode_num (i_mode symlink_inode))
                else (0, sync_fs_metadata a.2.2)

/-- Source function `simplefs_readlink` for `size ≥ 1`: the `int` result, the
bytes stored in the caller's buffer (the copied bytes and the terminating
NUL; nothing on the paths that return before the copy), and the context. -/
def simplefs_readlink (context : SimpleFS_Context) (caller : fuse_context) (path : List Nat)
    (size : Nat) : Int × List Nat × SimpleFS_Context :=
  let context := setErrno context 0
  let r := resolve_path_recursive context caller path 0 false
  if r.1 = 0 then (-(r.2.errno : Int), [], r.2)
  else
    let inode_num := r.1
    match read_inode_from_disk r.2 inode_num with
    | (.error _, context) => (-(context.errno : Int), [], context)
    | (.ok inode_data, context) =>
      if ¬ S_ISLNK (i_mode inode_data) = true then (-(EINVAL : Int), [], context)
      else if i_size inode_data = 0 then (0, [], context)
      else
        let copied : Option (List Nat) :=
          if i_blocks inode_data = 0 then
            let symlink_target_len := i_size inode_data
            let actual_bytes_copied := min (size - 1) symlink_target_len
            some (bytesOf inode_data I_BLOCK_OFF actual_bytes_copied)
          else if i_block inode_data 0 = 0 then none
          else
            match read_block context.device_fd (i_block inode_data 0) with
            | none => none
            | some block_buffer_vec =>
              let symlink_target_len := i_size inode_data
              let actual_bytes_copied := min (size - 1) symlink_target_len
              some (bytesOf block_buffer_vec 0 actual_bytes_copied)
        match copied with
        | none => (-( EIO : Int), [], context)
        | some bytes =>
          let inode_data := set_i_atime inode_data context.now
          let w := write_inode_to_disk context inode_num inode_data
          (0, bytes ++ [0], w.2)

/-- Source function `simplefs_link`. -/
def simplefs_link (context : SimpleFS_Context) (caller : fuse_context)
    (oldpath newpath : List Nat) : Int × SimpleFS_Context :=
  let context := setErrno context 0
  let r := path_to_inode_num context caller oldpath
  if r.1 = 0 then (-(r.2.errno : Int), r.2)
  else
    let target_inode_num := r.1
    match read_inode_from_disk r.2 target_inode_num with
    | (.error _, context) => (-(context.errno : Int), context)
    | (.ok target_inode_data, context) =>
      if S_ISDIR (i_mode target_inode_data) then (-(EPERM : Int), context)
      else
        let (new_dirname_str, new_basename_str) := parse_path newpath
        if bad_basename new_basename_str then (-(EINVAL : Int), context)
        else if new_basename_str.length > SIMPLEFS_MAX_FILENAME_LEN then
          (-(ENAMETOOLONG : Int), context)
        else
          match open_parent context caller new_dirname_str with
          | .error e => e
          | .ok (parent_inode_num, parent_inode_data, context) =>
            match check_absent context caller newpath with
            | .error e => e
            | .ok context =>
              let dentry_file_type := Nat.land (i_mode target_inode_data) S_IFMT / 4096
              let a := add_dir_entry context parent_inode_data parent_inode_num
                new_basename_str target_inode_num dentry_file_type
              if a.1 ≠ 0 then (a.1, a.2.2)
              else
                let context := a.2.2
                let target_inode_data := set_i_links_count target_inode_data
                  (i_links_count target_inode_data + 1)
                let target_inode_data := set_i_ctime target_inode_data context.now
                let w := write_inode_to_disk context target_inode_num target_inode_data
                if w.1 ≠ 0 then
                  let rm := remove_dir_entry w.2 a.2.1 parent_inode_num new_basename_str
                  (-(rm.2.2.errno : Int), rm.2.2)
                else (0, sync_fs_metadata w.2)

/-- The fields of `struct stat` that `simplefs_getattr` fills. -/
structure stat where
  st_ino : Nat
  st_mode : Nat
  st_nlink : Nat
  st_uid : Nat
  st_gid : Nat
  st_size : Nat
  st_blocks : Nat
  st_atime : Nat
  st_mtime : Nat
  st_ctime : Nat
  deriving DecidableEq

/-- Source function `simplefs_getattr`: the result and, on success, `*stbuf`. -/
def simplefs_getattr (context : SimpleFS_Context) (caller : fuse_context) (path : List Nat) :
    Int × Option stat × SimpleFS_Context :=
  let context := setErrno context 0
  let r := resolve_path_recursive context caller path 0 false
  if r.1 = 0 then (-(r.2.errno : Int), none, r.2)
  else
    match read_inode_from_disk r.2 r.1 with
    | (.error _, context) => (-(context.errno : Int), none, context)
    | (.ok inode, context) =>
      (0, some
        { st_ino := r.1
          st_mode := i_mode inode
          st_nlink := i_links_count inode
          st_uid := i_uid inode
          st_gid := i_gid inode
          st_size := i_size inode
          st_blocks := i_blocks inode
          st_atime := i_atime inode
          st_mtime := i_mtime inode
          st_ctime := i_ctime inode }, context)

/-! ## Formatter (`tools/mkfs.cpp`) -/

def DEFAULT_BLOCKS_PER_GROUP : Nat := SIMPLEFS_BLOCK_SIZE * 8
def DEFAULT_INODES_PER_GROUP : Nat := 1024

/-- The block the formatter builds for index `i` of the GDT: zero-filled, then
`bytes_to_copy_this_block` bytes of the table, with the formatter's own
computation of that count. -/
def mkfs_gdt_block (gdt : List SimpleFS_GroupDesc) (i : Nat) : Buf :=
  let gdt_size_bytes := u32 (gdt.length * 32)
  let bytes_to_copy_this_block :=
    if sub32 gdt_size_bytes (u32 (i * SIMPLEFS_BLOCK_SIZE)) < SIMPLEFS_BLOCK_SIZE then
      (if gdt_size_bytes % SIMPLEFS_BLOCK_SIZE = 0 ∧ gdt_size_bytes > 0 then SIMPLEFS_BLOCK_SIZE
        else gdt_size_bytes % SIMPLEFS_BLOCK_SIZE)
    else SIMPLEFS_BLOCK_SIZE
  let bytes_to_copy_this_block :=
    if gdt_size_bytes = 0 ∧ i = 0 then 0 else bytes_to_copy_this_block
  blit zeroBuf 0 (gdt_bytes gdt) (i * SIMPLEFS_BLOCK_SIZE) bytes_to_copy_this_block

/-- A GDT write loop of the formatter: blocks `first + i` for `i` below
`gdt_blocks`; `none` when a write fails (the formatter exits). -/
def mkfs_write_gdt (gdt : List SimpleFS_GroupDesc) (first : Nat) : Nat → Nat → Device → Option Device
  | 0, _, fd => some fd
  | n + 1, i, fd =>
    match write_block fd (u32 (first + i)) (mkfs_gdt_block gdt i) with
    | none => none
    | some fd => mkfs_write_gdt gdt first n (i + 1) fd

/-- Source function `write_zero_blocks` (`src/disk_io.cpp`). -/
def write_zero_blocks (fd : Device) (start_block_num : Nat) : Nat → Nat → Option Device
  | 0, _ => some fd
  | count + 1, i =>
    match write_block fd (u32 (start_block_num + i)) zeroBuf with
    | none => none
    | some fd => write_zero_blocks fd start_block_num count (i + 1)

/-- The number of blocks of one group's inode table,
`ceil(inodes_per_group * 128 / 4096)`. -/
def inode_table_size_blocks (sb_inodes_per_group : Nat) : Nat :=
  (sb_inodes_per_group * SIMPLEFS_INODE_SIZE + SIMPLEFS_BLOCK_SIZE - 1) / SIMPLEFS_BLOCK_SIZE

/-- The first group loop of the formatter (layout and counts), from group `i`
for `n` groups: the table so far, `running_total_free_blocks` and
`sb.s_first_data_block`; `none` when a group's metadata does not fit. -/
def mkfs_layout (total_blocks_on_device num_block_groups gdt_blocks : Nat) :
    Nat → Nat → List SimpleFS_GroupDesc → Nat → Nat → Option (List SimpleFS_GroupDesc × Nat × Nat)
  | 0, _, gdt, running, first_data => some (gdt, running, first_data)
  | n + 1, i, gdt, running_total_free_blocks, first_data =>
    let sb_blocks_per_group := DEFAULT_BLOCKS_PER_GROUP
    let group_abs_start_block_for_data := u32 (i * sb_blocks_per_group)
    let itsb := inode_table_size_blocks DEFAULT_INODES_PER_GROUP
    let backup_here := is_backup_group i
    let bg_block_bitmap :=
      if i = 0 then 2 + gdt_blocks
      else if backup_here then u32 (group_abs_start_block_for_data + 1 + gdt_blocks)
      else group_abs_start_block_for_data
    let bg_inode_bitmap := u32 (bg_block_bitmap + 1)
    let bg_inode_table := u32 (bg_inode_bitmap + 1)
    let first_data := if i = 0 then u32 (bg_inode_table + itsb) else first_data
    let last_meta_block_for_group := dec32 (bg_inode_table + itsb)
    if last_meta_block_for_group ≥ total_blocks_on_device ∨
        bg_block_bitmap ≥ total_blocks_on_device then none
    else
      let running := sub32 running_total_free_blocks (2 + itsb)
      let running :=
        if backup_here ∧ i ≠ 0 then sub32 running (1 + gdt_blocks) else running
      let blocks_in_this_group_range :=
        if i = num_block_groups - 1 then
          u32 (total_blocks_on_device - group_abs_start_block_for_data)
        else sb_blocks_per_group
      let free := u16 (u16 blocks_in_this_group_range + 65536 - 1 - 1 - itsb)
      let free :=
        if i = 0 ∨ backup_here then u16 (free + 65536 - 1 - gdt_blocks) else free
      let gd : SimpleFS_GroupDesc :=
        { bg_block_bitmap := bg_block_bitmap
          bg_inode_bitmap := bg_inode_bitmap
          bg_inode_table := bg_inode_table
          bg_free_blocks_count := free
          bg_free_inodes_count := u16 DEFAULT_INODES_PER_GROUP
          bg_used_dirs_count := 0 }
      mkfs_layout total_blocks_on_device num_block_groups gdt_blocks n (i + 1)
        (gdt ++ [gd]) running first_data

/-- The block bitmap the formatter builds for group `i`, before the extra bit
for block 0 in group 0. -/
def mkfs_block_bitmap (gd : SimpleFS_GroupDesc) (i gdt_blocks : Nat) : Buf :=
  let start := u32 (i * DEFAULT_BLOCKS_PER_GROUP)
  let rel := fun (b : Nat) => sub32 b start
  let bm := set_bitmap_bit zeroBuf SIMPLEFS_BLOCK_SIZE (rel gd.bg_block_bitmap)
  let bm := set_bitmap_bit bm SIMPLEFS_BLOCK_SIZE (rel gd.bg_inode_bitmap)
  let bm := (List.range (inode_table_size_blocks DEFAULT_INODES_PER_GROUP)).foldl
    (fun m j => set_bitmap_bit m SIMPLEFS_BLOCK_SIZE (rel (u32 (gd.bg_inode_table + j)))) bm
  if is_backup_group i then
    let sb_blk := if i = 0 then 1 else start
    let bm := set_bitmap_bit bm SIMPLEFS_BLOCK_SIZE (rel sb_blk)
    (List.range gdt_blocks).foldl (fun m gdt_idx =>
      let abs_gdt_block := if i = 0 then 2 + gdt_idx else u32 (start + 1 + gdt_idx)
      set_bitmap_bit m SIMPLEFS_BLOCK_SIZE (rel abs_gdt_block)) bm
  else bm

/-- The second group loop of the formatter (bitmaps and inode tables), from
group `i` for `n` groups, on the device, the superblock and the table. -/
def mkfs_init_groups (gdt_blocks : Nat) :
    Nat → Nat → Device → SimpleFS_SuperBlock → List SimpleFS_GroupDesc →
      Option (Device × SimpleFS_SuperBlock × List SimpleFS_GroupDesc)
  | 0, _, fd, sb, gdt => some (fd, sb, gdt)
  | n + 1, i, fd, sb, gdt =>
    let gd := gdt.getD i default
    let bm := mkfs_block_bitmap gd i gdt_blocks
    let ibm := zeroBuf
    -- group 0: block 0, and inodes 1 and 2
    let world : Buf × Buf × SimpleFS_GroupDesc × SimpleFS_SuperBlock :=
      if i = 0 then
        let r : Buf × SimpleFS_GroupDesc × SimpleFS_SuperBlock :=
          if ¬ is_bitmap_bit_set bm SIMPLEFS_BLOCK_SIZE 0 = true then
            let bm := set_bitmap_bit bm SIMPLEFS_BLOCK_SIZE 0
            if ¬ (gd.bg_block_bitmap = 0 ∨ gd.bg_inode_bitmap = 0 ∨ gd.bg_inode_table = 0) then
              (bm,
               (if gd.bg_free_blocks_count > 0 then
                  { gd with bg_free_blocks_count := dec16 gd.bg_free_blocks_count } else gd),
               (if sb.s_free_blocks_count > 0 then
                  { sb with s_free_blocks_count := dec32 sb.s_free_blocks_count } else sb))
            else (bm, gd, sb)
          else (bm, gd, sb)
        let ibm := set_bitmap_bit ibm SIMPLEFS_BLOCK_SIZE 0
        let ibm := set_bitmap_bit ibm SIMPLEFS_BLOCK_SIZE 1
        let gd := r.2.1
        let sb := r.2.2
        let gd := { gd with bg_free_inodes_count :=
          if gd.bg_free_inodes_count ≥ 2 then gd.bg_free_inodes_count - 2 else 0 }
        let sb := { sb with s_free_inodes_count :=
          if sb.s_free_inodes_count ≥ 2 then sb.s_free_inodes_count - 2 else 0 }
        (r.1, ibm, gd, sb)
      else (bm, ibm, gd, sb)
    let gd := world.2.2.1
    match write_block fd gd.bg_block_bitmap world.1 with
    | none => none
    | some fd =>
      match write_block fd gd.bg_inode_bitmap world.2.1 with
      | none => none
      | some fd =>
        match write_zero_blocks fd gd.bg_inode_table
            (inode_table_size_blocks DEFAULT_INODES_PER_GROUP) 0 with
        | none => none
        | some fd => mkfs_init_groups gdt_blocks n (i + 1) fd world.2.2.2 (gdt.set i gd)

/-- The contents of `fs_block_buffer` after a GDT write loop of the formatter.
Every iteration clears the buffer and builds one block in it, so the buffer
holds the last block of the loop; a loop without iteration leaves it as it
was. -/
def mkfs_gdt_buffer (gdt : List SimpleFS_GroupDesc) (gdt_blocks : Nat) (fs_block_buffer : Buf) :
    Buf :=
  if gdt_blocks = 0 then fs_block_buffer else mkfs_gdt_block gdt (gdt_blocks - 1)

/-- The loop of the formatter that writes the backup copies of the superblock
and of the GDT, for the groups `grp ≥ 1`, with the contents of
`fs_block_buffer`. The superblock is copied over the first bytes of the buffer
as the preceding GDT loop left it: the buffer is not cleared before the
`memcpy`. -/
def mkfs_write_backups (sb : SimpleFS_SuperBlock) (gdt : List SimpleFS_GroupDesc)
    (gdt_blocks : Nat) : Nat → Nat → Device → Buf → Option (Device × Buf)
  | 0, _, fd, fs_block_buffer => some (fd, fs_block_buffer)
  | n + 1, grp, fd, fs_block_buffer =>
    if ¬ is_backup_group grp = true then
      mkfs_write_backups sb gdt gdt_blocks n (grp + 1) fd fs_block_buffer
    else
      let grp_start := u32 (grp * sb.s_blocks_per_group)
      let fs_block_buffer := blit fs_block_buffer 0 (encode_sb sb) 0 1024
      match write_block fd grp_start fs_block_buffer with
      | none => none
      | some fd =>
        match mkfs_write_gdt gdt (grp_start + 1) gdt_blocks 0 fd with
        | none => none
        | some fd =>
          mkfs_write_backups sb gdt gdt_blocks n (grp + 1) fd
            (mkfs_gdt_buffer gdt gdt_blocks fs_block_buffer)

/-- The root directory block of the formatter: `"."` and `".."`, both for
inode 2. -/
def mkfs_root_block : Buf :=
  let buf := fill_dir_entry zeroBuf 0 SIMPLEFS_ROOT_INODE_NUM DOT (S_IFDIR / 4096)
    (calculate_dir_entry_len 1)
  fill_dir_entry buf (calculate_dir_entry_len 1) SIMPLEFS_ROOT_INODE_NUM DOTDOT (S_IFDIR / 4096)
    (SIMPLEFS_BLOCK_SIZE - calculate_dir_entry_len 1)

/-- The formatting part of `main` in `tools/mkfs.cpp`, from the point where
`total_blocks_on_device` is known: the device after formatting with the final
in-memory superblock and table, or `none` when the formatter exits with an
error. The double-precision `ceil` of a quotient is the integer ceiling.
`fs_block_buffer` is the one buffer of all superblock and GDT writes: each
superblock write copies the 1024 bytes of the superblock over its start and
leaves the rest as the last GDT block built left it. -/
def mkfs (fd : Device) (total_blocks_on_device now : Nat) :
    Option (Device × SimpleFS_SuperBlock × List SimpleFS_GroupDesc) :=
  if total_blocks_on_device < 64 then none
  else
    let sb_blocks_per_group := DEFAULT_BLOCKS_PER_GROUP
    let sb_inodes_per_group := DEFAULT_INODES_PER_GROUP
    let num_block_groups :=
      u32 ((total_blocks_on_device + sb_blocks_per_group - 1) / sb_blocks_per_group)
    let num_block_groups := if num_block_groups = 0 then 1 else num_block_groups
    let total_inodes_fs := min (num_block_groups * sb_inodes_per_group) 4294967295
    let sb : SimpleFS_SuperBlock :=
      { s_magic := SIMPLEFS_MAGIC
        s_inodes_count := u32 total_inodes_fs
        s_blocks_count := u32 total_blocks_on_device
        s_free_blocks_count := 0
        s_free_inodes_count := 0
        s_first_data_block := 0
        s_log_block_size := 2
        s_blocks_per_group := sb_blocks_per_group
        s_inodes_per_group := sb_inodes_per_group
        s_mtime := 0
        s_wtime := u32 now
        s_mnt_count := 0
        s_max_mnt_count := 20
        s_state := 1
        s_errors := 1
        s_first_ino := 11
        s_inode_size := SIMPLEFS_INODE_SIZE
        s_block_group_nr := 0
        s_root_inode := SIMPLEFS_ROOT_INODE_NUM }
    let gdt_size_bytes := u32 (num_block_groups * 32)
    let gdt_blocks := (gdt_size_bytes + SIMPLEFS_BLOCK_SIZE - 1) / SIMPLEFS_BLOCK_SIZE
    let superblock_location_block := 1
    let gdt_start_block := superblock_location_block + 1
    -- the superblock and every GDT block must lie on the device
    if ¬ gdt_start_block + gdt_blocks ≤ total_blocks_on_device then none
    else
      let running_total_free_blocks := sub32 (u32 total_blocks_on_device) (1 + gdt_blocks)
      match mkfs_layout total_blocks_on_device num_block_groups gdt_blocks num_block_groups 0 []
          running_total_free_blocks 0 with
      | none => none
      | some (gdt, running, first_data) =>
        let sb := { sb with
          s_first_data_block := first_data
          s_free_blocks_count := running
          s_free_inodes_count := sb.s_inodes_count }
        if gdt_start_block + gdt_blocks > (gdt.getD 0 default).bg_block_bitmap then none
        else
        -- fs_block_buffer is created zero-filled; it is cleared in the GDT loops only
        let fs_block_buffer := blit zeroBuf 0 (encode_sb sb) 0 1024
        match write_block fd superblock_location_block fs_block_buffer with
        | none => none
        | some fd =>
        match mkfs_write_gdt gdt gdt_start_block gdt_blocks 0 fd with
        | none => none
        | some fd =>
        let fs_block_buffer := mkfs_gdt_buffer gdt gdt_blocks fs_block_buffer
        match mkfs_init_groups gdt_blocks num_block_groups 0 fd sb gdt with
        | none => none
        | some (fd, sb, gdt) =>
        let fs_block_buffer := blit fs_block_buffer 0 (encode_sb sb) 0 1024
        match write_block fd superblock_location_block fs_block_buffer with
        | none => none
        | some fd =>
        match mkfs_write_gdt gdt gdt_start_block gdt_blocks 0 fd with
        | none => none
        | some fd =>
        let fs_block_buffer := mkfs_gdt_buffer gdt gdt_blocks fs_block_buffer
        match mkfs_write_backups sb gdt gdt_blocks (num_block_groups - 1) 1 fd fs_block_buffer with
        | none => none
        | some (fd, fs_block_buffer) =>
        -- the root directory
        let group0_gd := gdt.getD 0 default
        let group0_gd := { group0_gd with bg_used_dirs_count := inc16 group0_gd.bg_used_dirs_count }
        match read_block fd group0_gd.bg_block_bitmap with
        | none => none
        | some group_block_bitmap_buffer =>
        let search_start_offset_in_group0 :=
          if sb.s_first_data_block < sb.s_blocks_per_group then sb.s_first_data_block else 0
        match firstIdx (fun o => !is_bitmap_bit_set group_block_bitmap_buffer SIMPLEFS_BLOCK_SIZE o)
            (sb.s_blocks_per_group - search_start_offset_in_group0)
            search_start_offset_in_group0 with
        | none => none
        | some block_offset_in_group =>
        let root_dir_data_block_num := block_offset_in_group
        let group_block_bitmap_buffer :=
          set_bitmap_bit group_block_bitmap_buffer SIMPLEFS_BLOCK_SIZE block_offset_in_group
        let group0_gd := { group0_gd with
          bg_free_blocks_count := dec16 group0_gd.bg_free_blocks_count }
        let sb := { sb with s_free_blocks_count := dec32 sb.s_free_blocks_count }
        let gdt := gdt.set 0 group0_gd
        if root_dir_data_block_num = 0 then none
        else
        match write_block fd group0_gd.bg_block_bitmap group_block_bitmap_buffer with
        | none => none
        | some fd =>
        match write_block fd root_dir_data_block_num mkfs_root_block with
        | none => none
        | some fd =>
        let root_inode := new_inode_record (Nat.lor S_IFDIR 0o777) 0 0 2 now
        let root_inode := set_i_size root_inode SIMPLEFS_BLOCK_SIZE
        let root_inode := set_i_blocks root_inode (SIMPLEFS_BLOCK_SIZE / 512)
        let root_inode := set_i_block root_inode 0 root_dir_data_block_num
        let inodes_per_block := SIMPLEFS_BLOCK_SIZE / SIMPLEFS_INODE_SIZE
        let root_inode_idx_in_group := SIMPLEFS_ROOT_INODE_NUM - 1
        let root_inode_block_in_table :=
          u32 (group0_gd.bg_inode_table + root_inode_idx_in_group / inodes_per_block)
        let root_inode_offset_in_block :=
          (root_inode_idx_in_group % inodes_per_block) * SIMPLEFS_INODE_SIZE
        match read_block fd root_inode_block_in_table with
        | none => none
        | some inode_table_block_buffer =>
        let inode_table_block_buffer := blit inode_table_block_buffer root_inode_offset_in_block
          root_inode 0 SIMPLEFS_INODE_SIZE
        match write_block fd root_inode_block_in_table inode_table_block_buffer with
        | none => none
        | some fd =>
        let fs_block_buffer := blit fs_block_buffer 0 (encode_sb sb) 0 1024
        match write_block fd superblock_location_block fs_block_buffer with
        | none => none
        | some fd =>
        match mkfs_write_gdt gdt gdt_start_block gdt_blocks 0 fd with
        | none => none
        | some fd => some (fd, sb, gdt)

/-! ## Mount (`src/main.cpp`) -/

/-- The `memcpy` of a block into `fs_context.sb`. -/
def decode_sb (b : Buf) : SimpleFS_SuperBlock :=
  { s_magic := getLE b 0 2
    s_inodes_count := getLE b 2 4
    s_blocks_count := getLE b 6 4
    s_free_blocks_count := getLE b 10 4
    s_free_inodes_count := getLE b 14 4
    s_first_data_block := getLE b 18 4
    s_log_block_size := getLE b 22 4
    s_blocks_per_group := getLE b 26 4
    s_inodes_per_group := getLE b 30 4
    s_mtime := getLE b 34 4
    s_wtime := getLE b 38 4
    s_mnt_count := getLE b 42 2
    s_max_mnt_count := getLE b 44 2
    s_state := getLE b 46 2
    s_errors := getLE b 48 2
    s_first_ino := getLE b 50 4
    s_inode_size := getLE b 54 2
    s_block_group_nr := getLE b 56 2
    s_root_inode := getLE b 58 4 }

/-- One descriptor of the table read at mount: group `g` of the GDT whose
block `i` is `blocks i`. -/
def decode_gd (blocks : Nat → Buf) (g : Nat) : SimpleFS_GroupDesc :=
  let b : Buf := fun j => blocks ((32 * g + j) / SIMPLEFS_BLOCK_SIZE) ((32 * g + j) % SIMPLEFS_BLOCK_SIZE)
  { bg_block_bitmap := getLE b 0 4
    bg_inode_bitmap := getLE b 4 4
    bg_inode_table := getLE b 8 4
    bg_free_blocks_count := getLE b 12 2
    bg_free_inodes_count := getLE b 14 2
    bg_used_dirs_count := getLE b 16 2 }

/-- The part of `main` in `src/main.cpp` that loads the context from the
device, for a superblock with `s_blocks_per_group > 0`; `none` when it exits
with an error. -/
def mount (fd : Device) (now : Nat) : Option SimpleFS_Context :=
  match read_block fd 1 with
  | none => none
  | some sb_buffer =>
    let sb := decode_sb sb_buffer
    if sb.s_magic ≠ SIMPLEFS_MAGIC then none
    else
      let num_block_groups :=
        u32 ((sb.s_blocks_count + sb.s_blocks_per_group - 1) / sb.s_blocks_per_group)
      let num_block_groups :=
        if num_block_groups = 0 ∧ sb.s_blocks_count > 0 then 1 else num_block_groups
      let gdt_size_bytes := u32 (num_block_groups * 32)
      let gdt_blocks_count := (gdt_size_bytes + SIMPLEFS_BLOCK_SIZE - 1) / SIMPLEFS_BLOCK_SIZE
      if (List.range gdt_blocks_count).all (fun i => (read_block fd (2 + i)).isSome) then
        some
          { device_fd := fd
            sb := sb
            gdt := (List.range num_block_groups).map (decode_gd (fun i => fd.data (2 + i)))
            errno := 0
            now := now }
      else none

/-! ## Specification-side definitions -/

/-- The walk the specification describes for the block map: follow the
entries `idxs`, one per level, from block `blk`, and give `0` as soon as a
pointer on the path is `0`. -/
def walk_tree (data : Nat → Buf) : List Nat → Nat → Nat
  | [], blk => blk
  | i :: rest, blk => if blk = 0 then 0 else walk_tree data rest (ptrAt (data blk) i)

/-! ## Concrete states used by the witnesses -/

/-- A blank device of 64 blocks. -/
def dev64 : Device :=
  { data := fun _ => zeroBuf
    readable := fun b => decide (b < 64)
    writable := fun b => decide (b < 64) }

/-- A device that reads everywhere: block 5 holds the pointer 6 in entry 0,
block 6 holds the pointer 77 in entry 1, every other block is zero. -/
def devWalk : Device :=
  { data := fun b => if b = 5 then setPtr zeroBuf 0 6 else if b = 6 then setPtr zeroBuf 1 77
      else zeroBuf
    readable := fun _ => true
    writable := fun _ => true }

/-- A context on `devWalk`; the block map reads only its device. -/
def ctxWalk : SimpleFS_Context :=
  { device_fd := devWalk
    sb := decode_sb zeroBuf
    gdt := []
    errno := 0
    now := 0 }

/-- An inode whose double-indirect pointer `i_block[13]` is block 5. -/
def inodeWalk : Buf := set_i_block zeroBuf 13 5

/-- The context of a freshly formatted and mounted 64-block image. -/
def fresh64 : Option SimpleFS_Context := (mkfs dev64 64 7).bind (fun r => mount r.1 9)

/-- The caller with uid 0. -/
def rootCaller : fuse_context := { uid := 0, gid := 0, getgroups := some [] }

/-- The path `"/f"`. -/
def PATH_F : List Nat := [47, 102]

/-- The path `"/a"`. -/
def PATH_A : List Nat := [47, 97]

/-- Probe for the scenarios: the inode record a path names (final symlink not
followed), read from the device. -/
def inode_at (context : SimpleFS_Context) (path : List Nat) : Option Buf :=
  let r := resolve_path_recursive (setErrno context 0) rootCaller path 0 false
  if r.1 = 0 then none
  else match read_inode_from_disk r.2 r.1 with
    | (.ok ino, _) => some ino
    | _ => none

/-- Probe for the scenarios: whether inode `inode_num` is marked in use in the
inode bitmap of its group. -/
def inode_bit_set (context : SimpleFS_Context) (inode_num : Nat) : Bool :=
  let gd := context.gdt.getD ((inode_num - 1) / context.sb.s_inodes_per_group) default
  is_bitmap_bit_set (context.device_fd.data gd.bg_inode_bitmap) SIMPLEFS_BLOCK_SIZE
    ((inode_num - 1) % context.sb.s_inodes_per_group)

/-- Probe for the scenarios: whether block `block_num` is marked in use in the
block bitmap of its group. -/
def block_bit_set (context : SimpleFS_Context) (block_num : Nat) : Bool :=
  let gd := context.gdt.getD (block_num / context.sb.s_blocks_per_group) default
  is_bitmap_bit_set (context.device_fd.data gd.bg_block_bitmap) SIMPLEFS_BLOCK_SIZE
    (block_num % context.sb.s_blocks_per_group)

/-- Scenario E2E-4 on the code: on a fresh image create `/f`, write one byte at
offsets 0, 4096 and 12287 (three mapped blocks, size 12288), then truncate to
4097. The result lists the results of the last write and of the truncate, the
size before and after the truncate, and whether after the truncate logical
block 2 is still mapped and `free_blocks_count` is what it was before. -/
def scenario_truncate_shrink : Option (Int × Int × List Nat × Bool × Bool) :=
  fresh64.bind fun c =>
    let c1 := (simplefs_mknod c rootCaller PATH_F (Nat.lor S_IFREG 0o644)).2
    let w0 := simplefs_write c1 rootCaller PATH_F [170] 0
    let w1 := simplefs_write w0.2 rootCaller PATH_F [170] 4096
    let w := simplefs_write w1.2 rootCaller PATH_F [170] 12287
    let t := simplefs_truncate w.2 rootCaller PATH_F 4097
    (inode_at w.2 PATH_F).bind fun i1 => (inode_at t.2 PATH_F).map fun i2 =>
      (w.1, t.1, [i_size i1, i_size i2],
        decide ((map_logical_to_physical_block t.2 i2 2).1 ≠ 0),
        decide (t.2.sb.s_free_blocks_count = w.2.sb.s_free_blocks_count))

/-- The link-count scenario on a fresh 64-block image: create `/f`, stat it,
unlink it. The result lists the three return values; the inode number of `/f`,
its link count before the unlink and in the inode record after it, and
`s_free_inodes_count` before the create, after it and after the unlink; and
whether the bit of the inode is still set in the inode bitmap after the
unlink. -/
def scenario_unlink_last_link : Option (List Int × List Nat × Bool) :=
  fresh64.bind fun c =>
    let m := simplefs_mknod c rootCaller PATH_F (Nat.lor S_IFREG 0o644)
    let g := simplefs_getattr m.2 rootCaller PATH_F
    let u := simplefs_unlink g.2.2 rootCaller PATH_F
    g.2.1.bind fun st =>
      match read_inode_from_disk u.2 st.st_ino with
      | (.ok ino, _) =>
        some ([m.1, g.1, u.1],
          [st.st_ino, st.st_nlink, i_links_count ino, c.sb.s_free_inodes_count,
            m.2.sb.s_free_inodes_count, u.2.sb.s_free_inodes_count],
          inode_bit_set u.2 st.st_ino)
      | _ => none

/-- The device after a successful write of `buffer` to `block_num`. -/
def Device.put (fd : Device) (block_num : Nat) (buffer : Buf) : Device :=
  { fd with data := fun b => if b = block_num then buffer else fd.data b }

/-- The state after `alloc_block` took bit `bit` of group `g`. -/
def block_taken (context : SimpleFS_Context) (g bit : Nat) : SimpleFS_Context :=
  let gd := context.gdt.getD g default
  { context with
    device_fd := context.device_fd.put gd.bg_block_bitmap
      (set_bitmap_bit (context.device_fd.data gd.bg_block_bitmap) SIMPLEFS_BLOCK_SIZE bit)
    gdt := context.gdt.set g { gd with bg_free_blocks_count := dec16 gd.bg_free_blocks_count }
    sb := { context.sb with s_free_blocks_count := dec32 context.sb.s_free_blocks_count } }

/-- The state after `free_block` released bit `bit` of group `g`. -/
def block_given (context : SimpleFS_Context) (g bit : Nat) : SimpleFS_Context :=
  let gd := context.gdt.getD g default
  { context with
    device_fd := context.device_fd.put gd.bg_block_bitmap
      (clear_bitmap_bit (context.device_fd.data gd.bg_block_bitmap) SIMPLEFS_BLOCK_SIZE bit)
    gdt := context.gdt.set g { gd with bg_free_blocks_count := inc16 gd.bg_free_blocks_count }
    sb := { context.sb with s_free_blocks_count := inc32 context.sb.s_free_blocks_count } }

/-- The state after `alloc_inode` took bit `bit` of group `g` for a file of
mode `mode`. -/
def inode_taken (context : SimpleFS_Context) (mode g bit : Nat) : SimpleFS_Context :=
  let gd := context.gdt.getD g default
  { context with
    device_fd := context.device_fd.put gd.bg_inode_bitmap
      (set_bitmap_bit (context.device_fd.data gd.bg_inode_bitmap) SIMPLEFS_BLOCK_SIZE bit)
    gdt := context.gdt.set g
      { gd with
        bg_free_inodes_count := dec16 gd.bg_free_inodes_count
        bg_used_dirs_count :=
          if S_ISDIR mode then inc16 gd.bg_used_dirs_count else gd.bg_used_dirs_count }
    sb := { context.sb with s_free_inodes_count := dec32 context.sb.s_free_inodes_count } }

/-- The state after `free_inode` released bit `bit` of group `g`, the inode
having had mode `mode`. -/
def inode_given (context : SimpleFS_Context) (mode g bit : Nat) : SimpleFS_Context :=
  let gd := context.gdt.getD g default
  { context with
    device_fd := context.device_fd.put gd.bg_inode_bitmap
      (clear_bitmap_bit (context.device_fd.data gd.bg_inode_bitmap) SIMPLEFS_BLOCK_SIZE bit)
    gdt := context.gdt.set g
      { gd with
        bg_free_inodes_count := inc16 gd.bg_free_inodes_count
        bg_used_dirs_count :=
          if S_ISDIR mode ∧ gd.bg_used_dirs_count > 0 then dec16 gd.bg_used_dirs_count
          else gd.bg_used_dirs_count }
    sb := { context.sb with s_free_inodes_count := inc32 context.sb.s_free_inodes_count } }

/-- The number of clear block-bitmap bits over the blocks `[0, s_blocks_count)`. -/
def free_block_bits (context : SimpleFS_Context) : Nat :=
  (List.range context.sb.s_blocks_count).countP (fun b => !block_bit_set context b)

/-- The number of clear inode-bitmap bits over the inodes `[1, s_inodes_count]`. -/
def free_inode_bits (context : SimpleFS_Context) : Nat :=
  (List.range context.sb.s_inodes_count).countP (fun i => !inode_bit_set context (i + 1))

/-- The sum of `bg_free_blocks_count` over the group descriptors. -/
def gdt_free_blocks (context : SimpleFS_Context) : Nat :=
  (context.gdt.map (fun gd => gd.bg_free_blocks_count)).sum

/-- The sum of `bg_free_inodes_count` over the group descriptors. -/
def gdt_free_inodes (context : SimpleFS_Context) : Nat :=
  (context.gdt.map (fun gd => gd.bg_free_inodes_count)).sum

/-- The block half of the bookkeeping invariant: the superblock count equals
the sum over the groups and the number of clear bits. -/
def blocks_consistent (context : SimpleFS_Context) : Prop :=
  context.sb.s_free_blocks_count = gdt_free_blocks context ∧
  context.sb.s_free_blocks_count = free_block_bits context

/-- The inode half of the bookkeeping invariant. -/
def inodes_consistent (context : SimpleFS_Context) : Prop :=
  context.sb.s_free_inodes_count = gdt_free_inodes context ∧
  context.sb.s_free_inodes_count = free_inode_bits context

/-- Layout conditions on the block side: a group fits its one-block bitmap, the
groups cover the blocks without 32-bit wrap, the block bitmaps of different
groups are different blocks, and no group claims more free blocks than a group
has. -/
def block_layout_ok (context : SimpleFS_Context) : Prop :=
  context.sb.s_blocks_per_group ≤ 32768 ∧
  context.sb.s_blocks_count ≤ context.gdt.length * context.sb.s_blocks_per_group ∧
  context.gdt.length * context.sb.s_blocks_per_group ≤ 4294967296 ∧
  context.sb.s_blocks_count < 4294967296 ∧
  (∀ a, a < context.gdt.length → ∀ b, b < context.gdt.length →
    (context.gdt.getD a default).bg_block_bitmap = (context.gdt.getD b default).bg_block_bitmap →
    a = b) ∧
  (∀ g, g < context.gdt.length →
    (context.gdt.getD g default).bg_free_blocks_count ≤ context.sb.s_blocks_per_group)

/-- Layout conditions on the inode side. -/
def inode_layout_ok (context : SimpleFS_Context) : Prop :=
  context.sb.s_inodes_per_group ≤ 32768 ∧
  context.sb.s_inodes_count ≤ context.gdt.length * context.sb.s_inodes_per_group ∧
  context.gdt.length * context.sb.s_inodes_per_group < 4294967296 ∧
  context.sb.s_inodes_count < 4294967296 ∧
  (∀ a, a < context.gdt.length → ∀ b, b < context.gdt.length →
    (context.gdt.getD a default).bg_inode_bitmap = (context.gdt.getD b default).bg_inode_bitmap →
    a = b) ∧
  (∀ g, g < context.gdt.length →
    (context.gdt.getD g default).bg_free_inodes_count ≤ context.sb.s_inodes_per_group)

instance (context : SimpleFS_Context) : Decidable (blocks_consistent context) := by
  unfold blocks_consistent; infer_instance

instance (context : SimpleFS_Context) : Decidable (inodes_consistent context) := by
  unfold inodes_consistent; infer_instance

instance (context : SimpleFS_Context) : Decidable (block_layout_ok context) := by
  unfold block_layout_ok; infer_instance

instance (context : SimpleFS_Context) : Decidable (inode_layout_ok context) := by
  unfold inode_layout_ok; infer_instance

/-- A device for the allocator examples: block 1 is a block bitmap with bits
0..3 set, block 2 an inode bitmap with bits 0..10 set, every other block is
zero; all blocks read and write. -/
def devAlloc : Device :=
  { data := fun b => if b = 1 then setByte zeroBuf 0 15
      else if b = 2 then setByte (setByte zeroBuf 0 255) 1 7 else zeroBuf
    readable := fun _ => true
    writable := fun _ => true }

/-- A one-group filesystem of 16 blocks and 16 inodes on `devAlloc`: blocks
0..3 and inodes 1..11 are in use, so 12 blocks and 5 inodes are free. -/
def ctxAlloc : SimpleFS_Context :=
  { device_fd := devAlloc
    sb := { decode_sb zeroBuf with
      s_inodes_count := 16, s_blocks_count := 16, s_free_blocks_count := 12,
      s_free_inodes_count := 5, s_first_data_block := 4, s_blocks_per_group := 16,
      s_inodes_per_group := 16, s_first_ino := 11, s_inode_size := 128, s_root_inode := 2 }
    gdt := [{ bg_block_bitmap := 1, bg_inode_bitmap := 2, bg_inode_table := 3,
              bg_free_blocks_count := 12, bg_free_inodes_count := 5, bg_used_dirs_count := 1 }]
    errno := 0
    now := 0 }

/-- The permission triad `check_access` selects: mode bits 6..8 for the owner,
else bits 3..5 when the caller's gid or one of the gids of `getgroups` (the
groups of the file-system process) is the inode's gid, else bits 0..2. -/
def selected_triad (caller_context : fuse_context) (inode : Buf) : Nat :=
  if caller_context.uid = i_uid inode then (i_mode inode / 64) % 8
  else if caller_context.gid = i_gid inode ∨ i_gid inode ∈ caller_context.process_groups then
    (i_mode inode / 8) % 8
  else i_mode inode % 8

/-- A request of uid 1000 and gid 100, served while `getgroups` delivers the
one gid 5. -/
def callerU : fuse_context := { uid := 1000, gid := 100, getgroups := some [5] }

/-- A request of uid 1000 and gid 100, served while `getgroups` delivers no
gid: the file-system process has no supplementary group. -/
def callerNoGroups : fuse_context := { uid := 1000, gid := 100, getgroups := some [] }

/-- Specification side (C17): the permission triad the claim selects from the
caller's identity, `supp` being the caller's supplementary gids: mode bits 6..8
when the caller's uid is the inode's uid, else bits 3..5 when the caller's gid
or one of `supp` is the inode's gid, else bits 0..2. -/
def spec_triad (uid gid : Nat) (supp : List Nat) (inode : Buf) : Nat :=
  if uid = i_uid inode then (i_mode inode / 64) % 8
  else if gid = i_gid inode ∨ i_gid inode ∈ supp then (i_mode inode / 8) % 8
  else i_mode inode % 8

/-- A regular-file inode of mode 0077 owned by uid 1000, gid 100: the owner
triad is empty, the group and other triads are full. -/
def inodeOwnerNone : Buf := set_i_gid (set_i_uid (set_i_mode zeroBuf (Nat.lor S_IFREG 0o077)) 1000) 100

/-- A regular-file inode of mode 0640 owned by uid 7, gid 5. -/
def inodeGroupRead : Buf := set_i_gid (set_i_uid (set_i_mode zeroBuf (Nat.lor S_IFREG 0o640)) 7) 5

/-- The count fields hold values of their C types: `uint32_t` in the
superblock, `uint16_t` in the group descriptors. -/
def counts_in_range (context : SimpleFS_Context) : Prop :=
  context.sb.s_free_blocks_count < 4294967296 ∧ context.sb.s_free_inodes_count < 4294967296 ∧
  ∀ g, g < context.gdt.length →
    (context.gdt.getD g default).bg_free_blocks_count < 65536 ∧
    (context.gdt.getD g default).bg_free_inodes_count < 65536 ∧
    (context.gdt.getD g default).bg_used_dirs_count < 65535

instance (context : SimpleFS_Context) : Decidable (counts_in_range context) := by
  unfold counts_in_range; infer_instance

/-- The bit search of `alloc_block` in group `g`. -/
def alloc_block_bit (context : SimpleFS_Context) (g : Nat) : Option Nat :=
  firstIdx (fun bit_idx =>
    !is_bitmap_bit_set (context.device_fd.data (context.gdt.getD g default).bg_block_bitmap)
      SIMPLEFS_BLOCK_SIZE bit_idx &&
    (!(decide (u32 (g * context.sb.s_blocks_per_group + bit_idx) = 0 ∧ g = 0 ∧ bit_idx = 0)) &&
     !(decide (u32 (g * context.sb.s_blocks_per_group + bit_idx) ≥ context.sb.s_blocks_count))))
    context.sb.s_blocks_per_group 0

/-- Group `g` is consistent on the inode side: its `bg_free_inodes_count` is
the number of clear bits of its inode bitmap that stand for inodes of the
filesystem. -/
def inode_group_consistent (context : SimpleFS_Context) (g : Nat) : Prop :=
  (context.gdt.getD g default).bg_free_inodes_count =
    (List.range context.sb.s_inodes_per_group).countP (fun bit =>
      !is_bitmap_bit_set (context.device_fd.data (context.gdt.getD g default).bg_inode_bitmap)
        SIMPLEFS_BLOCK_SIZE bit &&
      decide (g * context.sb.s_inodes_per_group + bit + 1 ≤ context.sb.s_inodes_count))

instance (context : SimpleFS_Context) (g : Nat) : Decidable (inode_group_consistent context g) := by
  unfold inode_group_consistent; infer_instance

/-- Two contexts hold the same filesystem: only `errno` may differ. -/
def same_fs (c c' : SimpleFS_Context) : Prop :=
  c'.device_fd = c.device_fd ∧ c'.sb = c.sb ∧ c'.gdt = c.gdt ∧ c'.now = c.now

/-- Outcome of one iteration of the component loop of
`resolve_path_recursive`: the function returns (`done`), the loop goes on to
the next component (`next`, with the context, `current_inode_num` and
`current_path_for_symlink_resolution`), or the function ends in the recursive
call on a new path (`link`). -/
inductive WalkStep where
  | done (r : Nat × SimpleFS_Context)
  | next (context : SimpleFS_Context) (current_inode_num : Nat) (current_path : List Nat)
  | link (context : SimpleFS_Context) (next_resolve_path_str : List Nat)

/-- One iteration of the component loop of `resolve_path_recursive`, for the
component `component` followed by the components `rest`. -/
def walk_step (caller : fuse_context) (follow_last_symlink : Bool)
    (component : List Nat) (rest : List (List Nat)) (context : SimpleFS_Context)
    (current_inode_num : Nat) (current_path : List Nat) : WalkStep :=
  let is_last_component := decide (rest = [])
  if component = [] ∨ component = DOT then .next context current_inode_num current_path
  else
    match read_inode_from_disk context current_inode_num with
    | (.error _, context) => .done (0, context)
    | (.ok current_dir_inode_data, context) =>
      if ¬ S_ISDIR (i_mode current_dir_inode_data) = true then
        .done (0, setErrno context ENOTDIR)
      else
        let a := check_access context caller current_dir_inode_data X_OK
        if a.1 ≠ 0 then .done (0, setErrno a.2 (-a.1).toNat)
        else
          let context := a.2
          match lookup_component context.device_fd current_dir_inode_data component with
          | .ioerr => .done (0, setErrno context EIO)
          | .absent => .done (0, setErrno context ENOENT)
          | .found next_inode_num_candidate =>
            match read_inode_from_disk context next_inode_num_candidate with
            | (.error _, context) => .done (0, context)
            | (.ok component_inode_data, context) =>
              let current_path := advance_current_path current_path component
              if S_ISLNK (i_mode component_inode_data) then
                if is_last_component ∧ ¬ follow_last_symlink = true then
                  .done (next_inode_num_candidate, context)
                else
                  match read_symlink_target context.device_fd component_inode_data with
                  | none => .done (0, setErrno context EIO)
                  | some target_path_str =>
                    .link context
                      (next_resolve_path current_path component target_path_str rest)
              else if is_last_component then .done (next_inode_num_candidate, context)
              else .next context next_inode_num_candidate current_path

/-- The component loop of `resolve_path_recursive` up to its return or its
recursive call: the iteration of `walk_step` over the components. -/
def walk_outcome (caller : fuse_context) (follow_last_symlink : Bool) :
    List (List Nat) → SimpleFS_Context → Nat → List Nat → WalkStep
  | [], context, current_inode_num, _ => .done (current_inode_num, context)
  | component :: rest, context, current_inode_num, current_path =>
    match walk_step caller follow_last_symlink component rest context current_inode_num
        current_path with
    | .next context current_inode_num current_path =>
      walk_outcome caller follow_last_symlink rest context current_inode_num current_path
    | o => o

/-- The result of the function for an outcome of the loop, `recurse` being the
recursive call. -/
def WalkStep.result (recurse : SimpleFS_Context → List Nat → Nat × SimpleFS_Context) :
    WalkStep → Nat × SimpleFS_Context
  | .done r => r
  | .next context current_inode_num _ => (current_inode_num, context)
  | .link context p => recurse context p

/-- The path of the recursive call, when the loop ends in one. -/
def WalkStep.link_path : WalkStep → Option (List Nat)
  | .link _ p => some p
  | _ => none

/-- The inode number and `errno` an outcome returns with, when the loop ends
in a return. -/
def WalkStep.returned : WalkStep → Option (Nat × Nat)
  | .done r => some (r.1, r.2.errno)
  | _ => none

/-- Two outcomes of the loop agree up to `errno`, their contexts holding the
filesystem of `c`. -/
def WalkStep.same (c : SimpleFS_Context) : WalkStep → WalkStep → Prop
  | .done r, .done r' => r'.1 = r.1 ∧ same_fs c r'.2 ∧ same_fs c r.2
  | .next k n p, .next k' n' p' => n' = n ∧ p' = p ∧ same_fs c k' ∧ same_fs c k
  | .link k p, .link k' p' => p' = p ∧ same_fs c k' ∧ same_fs c k
  | _, _ => False

/-- A state of the component loop of `resolve_path_recursive`: the number
`budget` of further recursion depths allowed (`FUSE_SYMLINK_MAX - depth`), the
components still to walk, the context, `current_inode_num` and
`current_path_for_symlink_resolution`. -/
structure WalkState where
  budget : Nat
  comps : List (List Nat)
  ctx : SimpleFS_Context
  cur : Nat
  path : List Nat

/-- The value the function returns when its loop is in state `s`. -/
def WalkState.result (caller : fuse_context) (follow_last_symlink : Bool) (s : WalkState) :
    Nat × SimpleFS_Context :=
  resolve_walk caller follow_last_symlink
    (fun ctx p => resolve_path_budget caller follow_last_symlink s.budget ctx p)
    s.comps s.ctx s.cur s.path

/-- The loop state after `n` further iterations, entering the recursive call
when a link is followed to a path with components; the state stays where it
is once the function returns from it. -/
def walk_run (caller : fuse_context) (follow_last_symlink : Bool) : Nat → WalkState → WalkState
  | 0, s => s
  | n + 1, s =>
    match s.comps with
    | [] => s
    | component :: rest =>
      match walk_step caller follow_last_symlink component rest s.ctx s.cur s.path with
      | .done _ => s
      | .next c cur path =>
        walk_run caller follow_last_symlink n
          { budget := s.budget, comps := rest, ctx := c, cur := cur, path := path }
      | .link c p =>
        match s.budget with
        | 0 => s
        | b + 1 =>
          if p = [] ∨ p = [SLASH] ∨ path_components p = [] then s
          else
            walk_run caller follow_last_symlink n
              { budget := b, comps := path_components p, ctx := c,
                cur := c.sb.s_root_inode, path := [SLASH] }

/-- Whether the directory `current_inode_num` can be read, is a directory and
refuses `X_OK` to the caller. -/
def dir_unsearchable (context : SimpleFS_Context) (caller : fuse_context)
    (current_inode_num : Nat) : Bool :=
  match (read_inode_from_disk context current_inode_num).1 with
  | .ok d => S_ISDIR (i_mode d) && decide ((check_access context caller d X_OK).1 ≠ 0)
  | .error _ => false

/-- The root inode of `ctxTree`: a sticky directory of mode 1777 owned by uid
0, with its one data block 5. -/
def treeRoot : Buf :=
  set_i_block (set_i_blocks (set_i_size
    (new_inode_record (Nat.lor S_IFDIR 0o1777) 0 0 4 7) 4096) 8) 0 5

/-- Inode 12 of `ctxTree`: the regular file `/f`, mode 0644, owned by uid 7. -/
def treeFile : Buf := new_inode_record (Nat.lor S_IFREG 0o644) 7 7 1 7

/-- Inode 13 of `ctxTree`: the directory `/d`, mode 0755, owned by uid 7,
with its data block 6. -/
def treeDir : Buf :=
  set_i_block (set_i_blocks (set_i_size
    (new_inode_record (Nat.lor S_IFDIR 0o755) 7 7 2 7) 4096) 8) 0 6

/-- Inode 14 of `ctxTree`: the directory `/x`, mode 0700, owned by uid 7,
with its data block 7. -/
def treePrivate : Buf :=
  set_i_block (set_i_blocks (set_i_size
    (new_inode_record (Nat.lor S_IFDIR 0o700) 7 7 2 7) 4096) 8) 0 7

/-- A fast symlink inode with the target `target` stored in `i_block`. -/
def treeLink (target : List Nat) : Buf :=
  blitList (set_i_size (new_inode_record (Nat.lor S_IFLNK 0o777) 7 7 1 7) target.length)
    I_BLOCK_OFF target

/-- The data block of the root directory of `ctxTree`: `.`, `..`, `f` (inode
12), `d` (13), `x` (14), `a` (15) and `b` (16). -/
def treeRootBlock : Buf :=
  fill_dir_entry (fill_dir_entry (fill_dir_entry (fill_dir_entry (fill_dir_entry
    (fill_dir_entry (fill_dir_entry zeroBuf 0 2 DOT 2 12) 12 2 DOTDOT 2 12)
      24 12 [102] 1 12) 36 13 [100] 2 12) 48 14 [120] 2 12) 60 15 [97] 7 12)
      72 16 [98] 7 4024

/-- A directory block holding only `.` (inode `self`) and `..` (inode 2). -/
def treeEmptyBlock (self : Nat) : Buf :=
  fill_dir_entry (fill_dir_entry zeroBuf 0 self DOT 2 12) 12 2 DOTDOT 2 4084

/-- A hand-built one-group filesystem of 16 blocks and 32 inodes: the root
directory (inode 2, sticky, mode 1777) holds the file `f`, the directories `d`
and `x` (mode 0700) and the symlinks `a -> /b` and `b -> /a`, all owned by
uid 7. -/
def ctxTree : SimpleFS_Context :=
  { device_fd :=
      { data := fun b =>
          if b = 1 then setByte zeroBuf 0 255
          else if b = 2 then setByte (setByte zeroBuf 0 255) 1 255
          else if b = 3 then
            blit (blit (blit (blit (blit (blit zeroBuf 128 treeRoot 0 128)
              1408 treeFile 0 128) 1536 treeDir 0 128) 1664 treePrivate 0 128)
              1792 (treeLink [47, 98]) 0 128) 1920 (treeLink [47, 97]) 0 128
          else if b = 5 then treeRootBlock
          else if b = 6 then treeEmptyBlock 13
          else if b = 7 then treeEmptyBlock 14
          else zeroBuf
        readable := fun b => decide (b < 16)
        writable := fun b => decide (b < 16) }
    sb := { decode_sb zeroBuf with
      s_magic := SIMPLEFS_MAGIC, s_inodes_count := 32, s_blocks_count := 16,
      s_free_blocks_count := 8, s_free_inodes_count := 16, s_first_data_block := 5,
      s_log_block_size := 2, s_blocks_per_group := 16, s_inodes_per_group := 32,
      s_first_ino := 11, s_inode_size := 128, s_root_inode := 2 }
    gdt := [{ bg_block_bitmap := 1, bg_inode_bitmap := 2, bg_inode_table := 3,
              bg_free_blocks_count := 8, bg_free_inodes_count := 16, bg_used_dirs_count := 3 }]
    errno := 0
    now := 9 }

/-- The inode number and `errno` that `resolve_path_recursive` returns with. -/
def resolve_report (context : SimpleFS_Context) (caller : fuse_context) (path : List Nat)
    (depth : Nat) (follow_last_symlink : Bool) : Nat × Nat :=
  let r := resolve_path_recursive context caller path depth follow_last_symlink
  (r.1, r.2.errno)

/-- The inode record `read_inode_from_disk` delivers for `inode_num` (the zero
record when it fails). -/
def inode_of (context : SimpleFS_Context) (inode_num : Nat) : Buf :=
  match (read_inode_from_disk context inode_num).1 with
  | .ok b => b
  | .error _ => zeroBuf

/-- Whether `read_inode_from_disk` succeeds for `inode_num`. -/
def inode_readable (context : SimpleFS_Context) (inode_num : Nat) : Bool :=
  match (read_inode_from_disk context inode_num).1 with
  | .ok _ => true
  | .error _ => false



/-- The records of a directory block tile it from `off` to the end of the
block: `offs` lists their offsets, every `rec_len` is a multiple of 4, at
least `calculate_dir_entry_len name_len`, and leads to the next record or to
the end of the block. -/
inductive Tiles (blk : Buf) : Nat → List Nat → Prop
  | done : Tiles blk SIMPLEFS_BLOCK_SIZE []
  | step (off : Nat) (offs : List Nat) :
      off < SIMPLEFS_BLOCK_SIZE → de_rec_len blk off % 4 = 0 →
      calculate_dir_entry_len (de_name_len blk off) ≤ de_rec_len blk off →
      off + de_rec_len blk off ≤ SIMPLEFS_BLOCK_SIZE →
      Tiles blk (off + de_rec_len blk off) offs → Tiles blk off (off :: offs)

/-- The `(name, inode)` pairs of the active records (`inode != 0`) among the
records at the offsets `offs`. -/
def active_entries (blk : Buf) (offs : List Nat) : List (List Nat × Nat) :=
  offs.filterMap (fun o =>
    if de_inode blk o ≠ 0 then some (de_name blk o, de_inode blk o) else none)

/-- The last element of `l`, or `d` when `l` is empty. -/
def lastOr (l : List Nat) (d : Option Nat) : Option Nat :=
  match l.getLast? with
  | some x => some x
  | none => d

/-- The block `remove_dir_entry` writes when it removes the record at `cur`
whose predecessor in the block is `prev`. -/
def removed_block (blk : Buf) (prev : Option Nat) (cur : Nat) : Buf :=
  match prev with
  | some p => set_de_rec_len blk p (de_rec_len blk p + de_rec_len blk cur)
  | none => set_de_inode blk cur 0

/-- Number of logical blocks an inode can address: direct, single, double and
triple indirect ranges. -/
def MAX_LOGICAL_BLOCKS : Nat := 12 + 1024 + 1024 * 1024 + 1024 * 1024 * 1024

/-- Levels of indirection below slot `slot` of `i_block`: none for the twelve
direct slots, one, two and three for slots 12, 13 and 14. -/
def tree_depth (slot : Nat) : Nat := slot - 11

/-- The block reached from slot `slot` of `i_block` by following the entries
`idxs`, one per level (`0` as soon as a pointer on the way is `0`). -/
def tree_node (data : Nat → Buf) (inode : Buf) (slot : Nat) (idxs : List Nat) : Nat :=
  walk_tree data idxs (i_block inode slot)

/-- A position in the block tree of an inode: a slot of `i_block` and at most
as many entry indices as the slot has levels. -/
def tree_path_ok (slot : Nat) (idxs : List Nat) : Prop :=
  slot < SIMPLEFS_INODE_BLOCK_PTRS ∧ idxs.length ≤ tree_depth slot ∧ ∀ i, i ∈ idxs → i < 1024

/-- The slot of `i_block` under which logical block `lbn` lies. -/
def lbn_slot (lbn : Nat) : Nat :=
  if lbn < 12 then lbn
  else if lbn < 12 + 1024 then 12
  else if lbn < 12 + 1024 + 1024 * 1024 then 13
  else 14

/-- The entry indices that lead from the slot to logical block `lbn`. -/
def lbn_idxs (lbn : Nat) : List Nat :=
  if lbn < 12 then []
  else if lbn < 12 + 1024 then [lbn - 12]
  else if lbn < 12 + 1024 + 1024 * 1024 then
    [(lbn - 12 - 1024) / 1024, (lbn - 12 - 1024) % 1024]
  else
    [(lbn - 12 - 1024 - 1024 * 1024) / (1024 * 1024),
     (lbn - 12 - 1024 - 1024 * 1024) % (1024 * 1024) / 1024,
     (lbn - 12 - 1024 - 1024 * 1024) % (1024 * 1024) % 1024]

/-- The physical block of logical block `k` of an inode, as the read-only walk
`map_logical_to_physical_block` returns it. -/
def dir_block (context : SimpleFS_Context) (inode : Buf) (k : Nat) : Nat :=
  (map_logical_to_physical_block context inode k).1

/-- Every read and every write of the device succeeds. -/
def io_ok (context : SimpleFS_Context) : Prop :=
  ∀ b, context.device_fd.readable b = true ∧ context.device_fd.writable b = true

/-- The non-zero blocks of the tree are pairwise different: each is reached at
one position only. -/
def tree_distinct (data : Nat → Buf) (inode : Buf) : Prop :=
  ∀ s idxs s' idxs', tree_path_ok s idxs → tree_path_ok s' idxs' →
    tree_node data inode s idxs ≠ 0 →
    tree_node data inode s idxs = tree_node data inode s' idxs' →
    s = s' ∧ idxs = idxs'

/-- The block tree of an inode in a sound allocation state. `R` holds the
blocks that belong to the filesystem's own structures (the block bitmaps at
least): they are marked in use, every block of the tree is marked in use and is
none of them, no block occurs twice in the tree, and the device has no I/O
failure. -/
structure tree_ok (context : SimpleFS_Context) (inode : Buf) (R : Nat → Prop) : Prop where
  io : io_ok context
  layout : block_layout_ok context
  counts : counts_in_range context
  bitmaps : ∀ g, g < context.gdt.length → R (context.gdt.getD g default).bg_block_bitmap
  reserved : ∀ b, R b → b < context.sb.s_blocks_count ∧ block_bit_set context b = true
  nodes : ∀ s idxs, tree_path_ok s idxs →
    tree_node context.device_fd.data inode s idxs ≠ 0 →
    tree_node context.device_fd.data inode s idxs < context.sb.s_blocks_count ∧
    block_bit_set context (tree_node context.device_fd.data inode s idxs) = true ∧
    ¬ R (tree_node context.device_fd.data inode s idxs)
  distinct : tree_distinct context.device_fd.data inode

/-- Two contexts with the same layout: the device fails nowhere new, and the
sizes and the locations of bitmaps and inode tables are the same. Block
contents, free counts and `errno` may differ. -/
def same_layout (c c' : SimpleFS_Context) : Prop :=
  c'.device_fd.readable = c.device_fd.readable ∧
  c'.device_fd.writable = c.device_fd.writable ∧
  c'.sb.s_blocks_count = c.sb.s_blocks_count ∧
  c'.sb.s_blocks_per_group = c.sb.s_blocks_per_group ∧
  c'.sb.s_inodes_count = c.sb.s_inodes_count ∧
  c'.sb.s_inodes_per_group = c.sb.s_inodes_per_group ∧
  c'.gdt.length = c.gdt.length ∧
  (∀ g, (c'.gdt.getD g default).bg_block_bitmap = (c.gdt.getD g default).bg_block_bitmap ∧
    (c'.gdt.getD g default).bg_inode_bitmap = (c.gdt.getD g default).bg_inode_bitmap ∧
    (c'.gdt.getD g default).bg_inode_table = (c.gdt.getD g default).bg_inode_table) ∧
  c'.now = c.now

/-- The tree of `(c', inode')` is the tree of `(c, inode)` grown by new blocks
along the path `(s, idxs)`: what was mapped stays, positions off the path are
unchanged, new blocks were free before, and blocks in use that are no indirect
block of the tree keep their content. -/
structure tree_grow (c : SimpleFS_Context) (inode : Buf) (R : Nat → Prop)
    (c' : SimpleFS_Context) (inode' : Buf) (s : Nat) (idxs : List Nat) : Prop where
  ok : tree_ok c' inode' R
  layout : same_layout c c'
  keep : ∀ s' idxs', tree_path_ok s' idxs' →
    tree_node c.device_fd.data inode s' idxs' ≠ 0 →
    tree_node c'.device_fd.data inode' s' idxs' = tree_node c.device_fd.data inode s' idxs'
  off_path : ∀ s' idxs', tree_path_ok s' idxs' → ¬ (s' = s ∧ idxs' <+: idxs) →
    tree_node c'.device_fd.data inode' s' idxs' = tree_node c.device_fd.data inode s' idxs'
  fresh : ∀ s' idxs', tree_path_ok s' idxs' →
    tree_node c.device_fd.data inode s' idxs' = 0 →
    tree_node c'.device_fd.data inode' s' idxs' ≠ 0 →
    block_bit_set c (tree_node c'.device_fd.data inode' s' idxs') = false
  data_keep : ∀ x, x < c.sb.s_blocks_count → block_bit_set c x = true → ¬ R x →
    (∀ s' idxs', tree_path_ok s' idxs' → idxs'.length < tree_depth s' →
      tree_node c.device_fd.data inode s' idxs' ≠ x) →
    c'.device_fd.data x = c.device_fd.data x
  bits : ∀ x, x < c.sb.s_blocks_count → block_bit_set c x = true → block_bit_set c' x = true
  size : i_size inode' = i_size inode

/-- Enumeration of one directory block as the specification states it: the
offsets of the records followed from `off` by `rec_len` while they start below
`limit`, stopping at a malformed record (`rec_len == 0`, a slot shorter than
`name_len` implies, or a slot that runs past the block). -/
def record_offsets (blk : Buf) (limit : Nat) : Nat → Nat → List Nat
  | 0, _ => []
  | fuel + 1, off =>
    if off < limit ∧ de_rec_len blk off ≠ 0 ∧
        calculate_dir_entry_len (de_name_len blk off) ≤ de_rec_len blk off ∧
        off + de_rec_len blk off ≤ SIMPLEFS_BLOCK_SIZE then
      off :: record_offsets blk limit fuel (off + de_rec_len blk off)
    else []

/-- The `(name, inode)` pairs enumeration yields in logical block `k` of a
directory: the records with non-zero `inode` that start below the directory's
size. -/
def dir_block_listing (context : SimpleFS_Context) (inode : Buf) (k : Nat) :
    List (List Nat × Nat) :=
  if dir_block context inode k = 0 then []
  else
    active_entries (context.device_fd.data (dir_block context inode k))
      (record_offsets (context.device_fd.data (dir_block context inode k))
        (i_size inode - k * SIMPLEFS_BLOCK_SIZE) SIMPLEFS_BLOCK_SIZE 0)

/-- Enumeration of a directory as the specification states it: every record
in `[0, size)` whose `inode` is non-zero, block after block. -/
def dir_listing (context : SimpleFS_Context) (inode : Buf) : List (List Nat × Nat) :=
  (List.range ((i_size inode + SIMPLEFS_BLOCK_SIZE - 1) / SIMPLEFS_BLOCK_SIZE)).flatMap
    (dir_block_listing context inode)

/-- The blocks of the filesystem's own structures that the directory engine
writes: the block bitmaps of the groups and the inode-table block that holds
inode `num`. -/
def fs_reserved (context : SimpleFS_Context) (num : Nat) (b : Nat) : Prop :=
  (∃ g, g < context.gdt.length ∧ b = (context.gdt.getD g default).bg_block_bitmap) ∨
  (∃ o, inode_location context num = .ok (b, o))

/-- A well-formed directory `inode` with number `num`: its size is a whole
number of blocks, exactly the logical blocks below the size are backed, no
block occurs twice in its block tree, every block is tiled by its records, the
inode has a slot in the inode table outside the tree, and the device has no I/O
failure. -/
structure dir_ok (context : SimpleFS_Context) (inode : Buf) (num : Nat) : Prop where
  io : io_ok context
  size_whole : i_size inode % SIMPLEFS_BLOCK_SIZE = 0
  backed : ∀ k, k < i_size inode / SIMPLEFS_BLOCK_SIZE → dir_block context inode k ≠ 0
  beyond : ∀ k, i_size inode / SIMPLEFS_BLOCK_SIZE ≤ k → dir_block context inode k = 0
  tiled : ∀ k, k < i_size inode / SIMPLEFS_BLOCK_SIZE →
    ∃ offs, Tiles (context.device_fd.data (dir_block context inode k)) 0 offs
  distinct : tree_distinct context.device_fd.data inode
  located : ∃ T o, inode_location context num = .ok (T, o) ∧
    ∀ s idxs, tree_path_ok s idxs → tree_node context.device_fd.data inode s idxs ≠ T

/-- The inode `add_dir_entry` writes back after it placed the record in
logical block `k`: the size raised to cover the block, the times set. -/
def add_dir_entry_inode (inode : Buf) (k now : Nat) : Buf :=
  set_i_mtime (set_i_ctime
    (if i_size inode < u32 ((k + 1) * SIMPLEFS_BLOCK_SIZE) then
      set_i_size inode (u32 ((k + 1) * SIMPLEFS_BLOCK_SIZE))
    else inode) now) now

/-- Directory-block well-formedness as the specification states it: in every
backed block of the directory the records, followed from offset 0 by `rec_len`,
tile the block exactly, every `rec_len` is a multiple of 4 and at least
`calculate_dir_entry_len name_len`. -/
def dir_tiled (context : SimpleFS_Context) (inode : Buf) : Prop :=
  ∀ k, dir_block context inode k ≠ 0 →
    ∃ offs, Tiles (context.device_fd.data (dir_block context inode k)) 0 offs

/-- The filesystem `ctxTree` on a device without I/O failure. -/
def ctxDir : SimpleFS_Context :=
  { ctxTree with
    device_fd := { ctxTree.device_fd with readable := fun _ => true, writable := fun _ => true } }

/-- Decidable form of `Tiles`: the records at the offsets `offs` tile the
block from `off`. -/
def tiles_check (blk : Buf) : Nat → List Nat → Bool
  | off, [] => decide (off = SIMPLEFS_BLOCK_SIZE)
  | off, o :: rest =>
    decide (o = off ∧ off < SIMPLEFS_BLOCK_SIZE ∧ de_rec_len blk off % 4 = 0 ∧
      calculate_dir_entry_len (de_name_len blk off) ≤ de_rec_len blk off ∧
      off + de_rec_len blk off ≤ SIMPLEFS_BLOCK_SIZE) &&
    tiles_check blk (off + de_rec_len blk off) rest



/-- An entry as `simplefs_readdir` hands it to the filler: the name
(`filename.c_str()`), `st_entry.st_ino` and `st_entry.st_mode`. -/
structure DirItem where
  name : List Nat
  st_ino : Nat
  st_mode : Nat
  deriving DecidableEq

/-- The lambda `process_dir_block` of `simplefs_readdir` after the block was
read: the `while` loop over the records of `block_buffer`, for at most `fuel`
records. The filler accepts `room` entries and returns non-zero from then on.
The result is the lambda's return value (`0` or `-ENOMEM`),
`total_bytes_iterated`, the entries the filler accepted so far, and the
context. -/
def readdir_scan (dir_size room : Nat) :
    Nat → SimpleFS_Context → Buf → Nat → Nat → Nat → List DirItem →
      Int × Nat × List DirItem × SimpleFS_Context
  | 0, context, _, _, _, total, acc => (0, total, acc, context)
  | fuel + 1, context, buf, entry_offset, processed, total, acc =>
    if ¬ (total < dir_size ∧ processed < SIMPLEFS_BLOCK_SIZE) then (0, total, acc, context)
    else if de_rec_len buf entry_offset = 0 ∨
        calculate_dir_entry_len (de_name_len buf entry_offset) > de_rec_len buf entry_offset ∨
        entry_offset + de_rec_len buf entry_offset > SIMPLEFS_BLOCK_SIZE then
      (0, total, acc, context)
    else
      let filled : Option (List DirItem) × SimpleFS_Context :=
        if de_inode buf entry_offset ≠ 0 ∧ de_name_len buf entry_offset > 0 then
          let r := read_inode_from_disk context (de_inode buf entry_offset)
          let st_mode :=
            match r.1 with
            | .ok temp_inode_for_type => i_mode temp_inode_for_type
            | .error _ => de_file_type buf entry_offset * 4096
          if acc.length < room then
            (some (acc ++ [{ name := cstr (de_name buf entry_offset)
                             st_ino := de_inode buf entry_offset
                             st_mode := st_mode }]), r.2)
          else (none, r.2)
        else (some acc, context)
      match filled with
      | (none, context) => (-(ENOMEM : Int), total, acc, context)
      | (some acc, context) =>
        let rec_len := de_rec_len buf entry_offset
        if entry_offset + rec_len ≥ SIMPLEFS_BLOCK_SIZE then
          (0, u32 (total + rec_len), acc, context)
        else readdir_scan dir_size room fuel context buf (entry_offset + rec_len)
          (processed + rec_len) (u32 (total + rec_len)) acc

/-- The loop `while (total_bytes_iterated < dir_inode.i_size)` of
`simplefs_readdir`, from block `lbn`, for at most `fuel` iterations: `none`
when the iterations run out before the loop ends, else the result of the
operation, the entries the filler accepted and the context. -/
def readdir_loop (dir_inode : Buf) (room : Nat) :
    Nat → SimpleFS_Context → Nat → Nat → List DirItem →
      Option (Int × List DirItem × SimpleFS_Context)
  | 0, _, _, _, _ => none
  | fuel + 1, context, lbn, total, acc =>
    if ¬ total < i_size dir_inode then some (0, acc, context)
    else
      let m := map_logical_to_physical_block context dir_inode lbn
      let context := m.2
      if m.1 = 0 then
        if total ≥ i_size dir_inode then some (0, acc, context)
        else readdir_loop dir_inode room fuel context (u32 (lbn + 1)) total acc
      else
        match read_block context.device_fd m.1 with
        | none => some (-( EIO : Int), acc, context)
        | some block_buffer =>
          let sc := readdir_scan (i_size dir_inode) room SIMPLEFS_BLOCK_SIZE context
            block_buffer 0 0 total acc
          if sc.1 ≠ 0 then some (sc.1, sc.2.2.1, sc.2.2.2)
          else if sc.2.1 ≥ i_size dir_inode then some (0, sc.2.2.1, sc.2.2.2)
          else
            let lbn := u32 (lbn + 1)
            if lbn > i_size dir_inode / SIMPLEFS_BLOCK_SIZE +
                SIMPLEFS_INODE_BLOCK_PTRS * 1024 * 1024 then
              some (-( EIO : Int), sc.2.2.1, sc.2.2.2)
            else readdir_loop dir_inode room fuel sc.2.2.2 lbn sc.2.1 sc.2.2.1

/-- Source function `simplefs_readdir`; `fuel` bounds the iterations of the
block loop and `none` is a run that needs more; the filler accepts `room`
entries. The result is the `int` result, the entries the filler accepted, and
the context. -/
def simplefs_readdir (fuel : Nat) (context : SimpleFS_Context) (caller : fuse_context)
    (path : List Nat) (room : Nat) : Option (Int × List DirItem × SimpleFS_Context) :=
  let context := setErrno context 0
  let r := path_to_inode_num context caller path
  if r.1 = 0 then some (-(r.2.errno : Int), [], r.2)
  else
    let dir_inode_num := r.1
    match read_inode_from_disk r.2 dir_inode_num with
    | (.error _, context) => some (-(context.errno : Int), [], context)
    | (.ok dir_inode, context) =>
      if ¬ S_ISDIR (i_mode dir_inode) = true then some (-(ENOTDIR : Int), [], context)
      else readdir_loop dir_inode room fuel context 0 0 []

/-- The value `(uid_t)-1`, `(gid_t)-1`: "leave unchanged". -/
def NO_ID : Nat := 4294967295

/-- Source function `simplefs_chown`; `uid` and `gid` are values of `uid_t` and
`gid_t`. The new gid is looked up in the list of `getgroups`, the groups of the
file-system process; a failing `getgroups` ends the call with `-EIO`. -/
def simplefs_chown (context : SimpleFS_Context) (caller : fuse_context) (path : List Nat)
    (uid gid : Nat) : Int × SimpleFS_Context :=
  let context := setErrno context 0
  let r := resolve_path_recursive context caller path 0 false
  if r.1 = 0 then (-(r.2.errno : Int), r.2)
  else
    let inode_num := r.1
    match read_inode_from_disk r.2 inode_num with
    | (.error _, context) => (-(context.errno : Int), context)
    | (.ok inode_data, context) =>
      let uid_changing := decide (uid ≠ NO_ID ∧ uid ≠ i_uid inode_data)
      let gid_changing := decide (gid ≠ NO_ID ∧ gid ≠ i_gid inode_data)
      let new_gid_is_valid_for_user :=
        if gid = caller.gid then true
        else caller.process_groups.any (fun supp_gid => decide (gid = supp_gid))
      if caller.uid ≠ 0 ∧ uid_changing = true then (-(EPERM : Int), context)
      else if caller.uid ≠ 0 ∧ gid_changing = true ∧ caller.uid ≠ i_uid inode_data then
        (-(EPERM : Int), context)
      else if caller.uid ≠ 0 ∧ gid_changing = true ∧ gid ≠ caller.gid ∧
          caller.getgroups = none then (-( EIO : Int), context)
      else if caller.uid ≠ 0 ∧ gid_changing = true ∧ new_gid_is_valid_for_user = false then
        (-(EPERM : Int), context)
      else
        let changed_uid := decide (uid ≠ NO_ID ∧ i_uid inode_data ≠ uid)
        let inode_data := if changed_uid then set_i_uid inode_data uid else inode_data
        let changed_gid := decide (gid ≠ NO_ID ∧ i_gid inode_data ≠ gid)
        let inode_data := if changed_gid then set_i_gid inode_data gid else inode_data
        if changed_uid ∨ changed_gid then
          let inode_data :=
            if caller.uid ≠ 0 then
              set_i_mode inode_data
                (Nat.land (i_mode inode_data) (65535 - Nat.lor S_ISUID S_ISGID))
            else inode_data
          let inode_data := set_i_ctime inode_data context.now
          let w := write_inode_to_disk context inode_num inode_data
          if w.1 ≠ 0 then (-(w.2.errno : Int), w.2) else (0, w.2)
        else (0, context)

/-- A `struct timespec`. -/
structure timespec where
  tv_sec : Nat
  tv_nsec : Nat

def UTIME_NOW : Nat := 2 ^ 30 - 1
def UTIME_OMIT : Nat := 2 ^ 30 - 2

/-- The flag `specific_times_given` of `simplefs_utimens` once it is set: false
for a null `tv` and when both `tv_nsec` are `UTIME_NOW` or `UTIME_OMIT` and not
both are `UTIME_OMIT`. -/
def utimens_specific_times_given (tv : Option (timespec × timespec)) : Bool :=
  match tv with
  | none => false
  | some (tv0, tv1) =>
    if (tv0.tv_nsec = UTIME_NOW ∨ tv0.tv_nsec = UTIME_OMIT) ∧
        (tv1.tv_nsec = UTIME_NOW ∨ tv1.tv_nsec = UTIME_OMIT) then
      (if tv0.tv_nsec = UTIME_OMIT ∧ tv1.tv_nsec = UTIME_OMIT then true else false)
    else true

/-- The times `simplefs_utimens` stores in the inode, `i_ctime` included. -/
def utimens_stamp (inode_data : Buf) (tv : Option (timespec × timespec))
    (current_time : Nat) : Buf :=
  let inode_data :=
    match tv with
    | none => set_i_mtime (set_i_atime inode_data current_time) current_time
    | some (tv0, tv1) =>
      let inode_data :=
        if tv0.tv_nsec ≠ UTIME_OMIT then
          set_i_atime inode_data
            (if tv0.tv_nsec = UTIME_NOW then current_time else tv0.tv_sec)
        else inode_data
      if tv1.tv_nsec ≠ UTIME_OMIT then
        set_i_mtime inode_data
          (if tv1.tv_nsec = UTIME_NOW then current_time else tv1.tv_sec)
      else inode_data
  set_i_ctime inode_data current_time

/-- Source function `simplefs_utimens`; `tv` is `none` for a null pointer and
`some (tv[0], tv[1])` otherwise. -/
def simplefs_utimens (context : SimpleFS_Context) (caller : fuse_context) (path : List Nat)
    (tv : Option (timespec × timespec)) : Int × SimpleFS_Context :=
  let context := setErrno context 0
  let r := path_to_inode_num context caller path
  if r.1 = 0 then (-(r.2.errno : Int), r.2)
  else
    let inode_num := r.1
    match read_inode_from_disk r.2 inode_num with
    | (.error _, context) => (-(context.errno : Int), context)
    | (.ok inode_data, context) =>
      let checked : Int × SimpleFS_Context :=
        if utimens_specific_times_given tv then
          (if caller.uid ≠ 0 ∧ caller.uid ≠ i_uid inode_data then (-(EPERM : Int), context)
            else (0, context))
        else check_access context caller inode_data W_OK
      if checked.1 ≠ 0 then checked
      else
        let context := checked.2
        let inode_data := utimens_stamp inode_data tv context.now
        let w := write_inode_to_disk context inode_num inode_data
        if w.1 ≠ 0 then (-(w.2.errno : Int), w.2) else (0, w.2)

/-- A caller with uid 7 and gid 7, the owner of the files of `ctxTree`. -/
def callerOwner : fuse_context := { uid := 7, gid := 7, getgroups := some [] }

/-- A request of uid 7 and gid 7, served while `getgroups` delivers the one
gid 50: the file-system process is a member of group 50. -/
def callerProcess50 : fuse_context := { uid := 7, gid := 7, getgroups := some [50] }

/-- A request of uid 7 and gid 7, served while `getgroups` fails. -/
def callerGroupsFail : fuse_context := { uid := 7, gid := 7, getgroups := none }

/-- The filesystem `ctxDir` with the mode of `/f` (inode 12, owned by uid 7)
set to 04555: set-uid, and no write permission for anyone. -/
def ctxSuid : SimpleFS_Context :=
  { ctxDir with
    device_fd := ctxDir.device_fd.put 3
      (blit (ctxDir.device_fd.data 3) 1408
        (set_i_mode treeFile (Nat.lor S_IFREG 0o4555)) 0 128) }

/-- The listing scenario on `ctxTree`: the caller with uid 1000 lists the
directory `/x` (inode 14, mode 0700, owned by uid 7). The result holds the
triad `check_access` would select for the caller on that directory, the return
value of `simplefs_readdir`, and the entries the filler accepted. -/
def scenario_readdir_unreadable : Option (Nat × Int × List DirItem) :=
  (simplefs_readdir 4 ctxTree callerU [47, 120] 16).map fun r =>
    (selected_triad callerU (inode_of ctxTree 14), r.1, r.2.1)

/-- A blank device without I/O failure. -/
def devBlank : Device :=
  { data := fun _ => zeroBuf
    readable := fun _ => true
    writable := fun _ => true }

/-- The backup scenario: format a blank device of 32832 blocks (two groups;
group 1 is a backup group and starts at block 32768). The result lists, as the
finished image holds them, `s_free_blocks_count` in the primary superblock
(block 1) and in its backup (block 32768), and `bg_free_blocks_count` and
`bg_used_dirs_count` of group 0 in the primary GDT (block 2) and in its backup
(block 32769). -/
def scenario_mkfs_backups : Option (List Nat) :=
  (mkfs devBlank 32832 7).map fun r =>
    [getLE (r.1.data 1) 10 4, getLE (r.1.data 32768) 10 4,
     getLE (r.1.data 2) 12 2, getLE (r.1.data 32769) 12 2,
     getLE (r.1.data 2) 16 2, getLE (r.1.data 32769) 16 2]

/-- Specification side: the number of groups of a device of `n` blocks,
`ceil(n / 32768)`. -/
def spec_groups (n : Nat) : Nat := (n + 32767) / 32768

/-- Specification side: the number of GDT blocks, `ceil(groups × 32 / 4096)`. -/
def spec_gdt_blocks (n : Nat) : Nat := (spec_groups n * 32 + 4095) / 4096

/-- Specification side: the block bitmap of group `g` when the GDT has `G`
blocks. -/
def spec_block_bitmap (G g : Nat) : Nat :=
  if g = 0 then 2 + G
  else if is_backup_group g = true then g * 32768 + 1 + G
  else g * 32768

/-- Specification side: the number of blocks of group `g` that lie on a device
of `n` blocks with `NG` groups. -/
def spec_group_range (n NG g : Nat) : Nat :=
  if g = NG - 1 then n - g * 32768 else 32768

/-- Specification side: the number of metadata blocks of group `g`: two
bitmaps and 32 blocks of inode table, and in a backup group the superblock and
the `G` blocks of the GDT. -/
def spec_group_meta (G g : Nat) : Nat :=
  if is_backup_group g = true then 1 + G + 34 else 34

/-- Specification side: what the layout loop subtracts from the running total
for group `g` (the primary superblock and GDT are subtracted before the loop). -/
def spec_group_dec (G g : Nat) : Nat :=
  34 + (if is_backup_group g = true ∧ g ≠ 0 then 1 + G else 0)

/-- Specification side: the descriptor of group `g` after the layout loop. -/
def spec_layout_gd (n NG G g : Nat) : SimpleFS_GroupDesc :=
  { bg_block_bitmap := spec_block_bitmap G g
    bg_inode_bitmap := spec_block_bitmap G g + 1
    bg_inode_table := spec_block_bitmap G g + 2
    bg_free_blocks_count := spec_group_range n NG g - spec_group_meta G g
    bg_free_inodes_count := 1024
    bg_used_dirs_count := 0 }

/-- Specification side: the blocks of group `j` as the formatter leaves them:
the block bitmap marks exactly the group's metadata (and block 0 in group 0),
the inode bitmap marks exactly inodes 1 and 2 of group 0, and the 32 blocks of
the inode table are zero. -/
def group_blocks_ok (data : Nat → Buf) (G j : Nat) : Prop :=
  (∀ x, x < 32768 →
    (is_bitmap_bit_set (data (spec_block_bitmap G j)) SIMPLEFS_BLOCK_SIZE x = true ↔
      x < spec_group_meta G j + (if j = 0 then 1 else 0))) ∧
  (∀ x, x < 32768 →
    (is_bitmap_bit_set (data (spec_block_bitmap G j + 1)) SIMPLEFS_BLOCK_SIZE x = true ↔
      j = 0 ∧ x < 2)) ∧
  (∀ t, t < 32 → data (spec_block_bitmap G j + 2 + t) = zeroBuf)

/-- Specification side: the descriptor of group `g` after the second group
loop: group 0 has lost one block (block 0) and two inodes (1 and 2). -/
def spec_init_gd (n NG G g : Nat) : SimpleFS_GroupDesc :=
  if g = 0 then
    { spec_layout_gd n NG G 0 with
      bg_free_blocks_count := spec_group_range n NG 0 - spec_group_meta G 0 - 1
      bg_free_inodes_count := 1022 }
  else spec_layout_gd n NG G g

/-- The changes of the second group loop to the superblock counts (block 0 and
inodes 1 and 2). -/
def spec_init_sb (sb : SimpleFS_SuperBlock) : SimpleFS_SuperBlock :=
  { sb with
    s_free_blocks_count :=
      if sb.s_free_blocks_count > 0 then dec32 sb.s_free_blocks_count else sb.s_free_blocks_count
    s_free_inodes_count := if sb.s_free_inodes_count ≥ 2 then sb.s_free_inodes_count - 2 else 0 }

/-- Specification side: the number of marked bits of group `g` in the final
image: its metadata, and in group 0 block 0 and the root directory block. -/
def spec_group_used (G g : Nat) : Nat :=
  spec_group_meta G g + (if g = 0 then 2 else 0)

/-- The last part of the formatter, as a function of the state it starts from:
the root directory (its data block, its inode) and the final flush of the
superblock and of the primary GDT. -/
def mkfs_root (fd : Device) (sb : SimpleFS_SuperBlock) (gdt : List SimpleFS_GroupDesc)
    (gdt_blocks now : Nat) (fs_block_buffer : Buf) :
    Option (Device × SimpleFS_SuperBlock × List SimpleFS_GroupDesc) :=
  let superblock_location_block := 1
  let gdt_start_block := superblock_location_block + 1
  let group0_gd := gdt.getD 0 default
  let group0_gd := { group0_gd with bg_used_dirs_count := inc16 group0_gd.bg_used_dirs_count }
  match read_block fd group0_gd.bg_block_bitmap with
  | none => none
  | some group_block_bitmap_buffer =>
  let search_start_offset_in_group0 :=
    if sb.s_first_data_block < sb.s_blocks_per_group then sb.s_first_data_block else 0
  match firstIdx (fun o => !is_bitmap_bit_set group_block_bitmap_buffer SIMPLEFS_BLOCK_SIZE o)
      (sb.s_blocks_per_group - search_start_offset_in_group0)
      search_start_offset_in_group0 with
  | none => none
  | some block_offset_in_group =>
  let root_dir_data_block_num := block_offset_in_group
  let group_block_bitmap_buffer :=
    set_bitmap_bit group_block_bitmap_buffer SIMPLEFS_BLOCK_SIZE block_offset_in_group
  let group0_gd := { group0_gd with
    bg_free_blocks_count := dec16 group0_gd.bg_free_blocks_count }
  let sb := { sb with s_free_blocks_count := dec32 sb.s_free_blocks_count }
  let gdt := gdt.set 0 group0_gd
  if root_dir_data_block_num = 0 then none
  else
  match write_block fd group0_gd.bg_block_bitmap group_block_bitmap_buffer with
  | none => none
  | some fd =>
  match write_block fd root_dir_data_block_num mkfs_root_block with
  | none => none
  | some fd =>
  let root_inode := new_inode_record (Nat.lor S_IFDIR 0o777) 0 0 2 now
  let root_inode := set_i_size root_inode SIMPLEFS_BLOCK_SIZE
  let root_inode := set_i_blocks root_inode (SIMPLEFS_BLOCK_SIZE / 512)
  let root_inode := set_i_block root_inode 0 root_dir_data_block_num
  let inodes_per_block := SIMPLEFS_BLOCK_SIZE / SIMPLEFS_INODE_SIZE
  let root_inode_idx_in_group := SIMPLEFS_ROOT_INODE_NUM - 1
  let root_inode_block_in_table :=
    u32 (group0_gd.bg_inode_table + root_inode_idx_in_group / inodes_per_block)
  let root_inode_offset_in_block :=
    (root_inode_idx_in_group % inodes_per_block) * SIMPLEFS_INODE_SIZE
  match read_block fd root_inode_block_in_table with
  | none => none
  | some inode_table_block_buffer =>
  let inode_table_block_buffer := blit inode_table_block_buffer root_inode_offset_in_block
    root_inode 0 SIMPLEFS_INODE_SIZE
  match write_block fd root_inode_block_in_table inode_table_block_buffer with
  | none => none
  | some fd =>
  let fs_block_buffer := blit fs_block_buffer 0 (encode_sb sb) 0 1024
  match write_block fd superblock_location_block fs_block_buffer with
  | none => none
  | some fd =>
  match mkfs_write_gdt gdt gdt_start_block gdt_blocks 0 fd with
  | none => none
  | some fd => some (fd, sb, gdt)

/-- The part of the formatter between the group loop and the root directory,
followed by the root directory: the flush of the superblock and of the primary
GDT, and the backup copies. -/
def mkfs_flush (fd : Device) (sb : SimpleFS_SuperBlock) (gdt : List SimpleFS_GroupDesc)
    (gdt_blocks num_block_groups now : Nat) (fs_block_buffer : Buf) :
    Option (Device × SimpleFS_SuperBlock × List SimpleFS_GroupDesc) :=
  let superblock_location_block := 1
  let gdt_start_block := superblock_location_block + 1
  let fs_block_buffer := blit fs_block_buffer 0 (encode_sb sb) 0 1024
  match write_block fd superblock_location_block fs_block_buffer with
  | none => none
  | some fd =>
  match mkfs_write_gdt gdt gdt_start_block gdt_blocks 0 fd with
  | none => none
  | some fd =>
  let fs_block_buffer := mkfs_gdt_buffer gdt gdt_blocks fs_block_buffer
  match mkfs_write_backups sb gdt gdt_blocks (num_block_groups - 1) 1 fd fs_block_buffer with
  | none => none
  | some (fd, fs_block_buffer) => mkfs_root fd sb gdt gdt_blocks now fs_block_buffer

/-- The first part of the formatter, up to the group loop, followed by
`mkfs_flush`. -/
def mkfs_staged (fd : Device) (total_blocks_on_device now : Nat) :
    Option (Device × SimpleFS_SuperBlock × List SimpleFS_GroupDesc) :=
  if total_blocks_on_device < 64 then none
  else
    let sb_blocks_per_group := DEFAULT_BLOCKS_PER_GROUP
    let sb_inodes_per_group := DEFAULT_INODES_PER_GROUP
    let num_block_groups :=
      u32 ((total_blocks_on_device + sb_blocks_per_group - 1) / sb_blocks_per_group)
    let num_block_groups := if num_block_groups = 0 then 1 else num_block_groups
    let total_inodes_fs := min (num_block_groups * sb_inodes_per_group) 4294967295
    let sb : SimpleFS_SuperBlock :=
      { s_magic := SIMPLEFS_MAGIC
        s_inodes_count := u32 total_inodes_fs
        s_blocks_count := u32 total_blocks_on_device
        s_free_blocks_count := 0
        s_free_inodes_count := 0
        s_first_data_block := 0
        s_log_block_size := 2
        s_blocks_per_group := sb_blocks_per_group
        s_inodes_per_group := sb_inodes_per_group
        s_mtime := 0
        s_wtime := u32 now
        s_mnt_count := 0
        s_max_mnt_count := 20
        s_state := 1
        s_errors := 1
        s_first_ino := 11
        s_inode_size := SIMPLEFS_INODE_SIZE
        s_block_group_nr := 0
        s_root_inode := SIMPLEFS_ROOT_INODE_NUM }
    let gdt_size_bytes := u32 (num_block_groups * 32)
    let gdt_blocks := (gdt_size_bytes + SIMPLEFS_BLOCK_SIZE - 1) / SIMPLEFS_BLOCK_SIZE
    let superblock_location_block := 1
    let gdt_start_block := superblock_location_block + 1
    if ¬ gdt_start_block + gdt_blocks ≤ total_blocks_on_device then none
    else
      let running_total_free_blocks := sub32 (u32 total_blocks_on_device) (1 + gdt_blocks)
      match mkfs_layout total_blocks_on_device num_block_groups gdt_blocks num_block_groups 0 []
          running_total_free_blocks 0 with
      | none => none
      | some (gdt, running, first_data) =>
        let sb := { sb with
          s_first_data_block := first_data
          s_free_blocks_count := running
          s_free_inodes_count := sb.s_inodes_count }
        if gdt_start_block + gdt_blocks > (gdt.getD 0 default).bg_block_bitmap then none
        else
        -- fs_block_buffer is created zero-filled; it is cleared in the GDT loops only
        let fs_block_buffer := blit zeroBuf 0 (encode_sb sb) 0 1024
        match write_block fd superblock_location_block fs_block_buffer with
        | none => none
        | some fd =>
        match mkfs_write_gdt gdt gdt_start_block gdt_blocks 0 fd with
        | none => none
        | some fd =>
        let fs_block_buffer := mkfs_gdt_buffer gdt gdt_blocks fs_block_buffer
        match mkfs_init_groups gdt_blocks num_block_groups 0 fd sb gdt with
        | none => none
        | some (fd, sb, gdt) =>
          mkfs_flush fd sb gdt gdt_blocks num_block_groups now fs_block_buffer

/-- Specification side: the descriptor of group `g` in the final image. -/
def spec_final_gd (n NG G g : Nat) : SimpleFS_GroupDesc :=
  { bg_block_bitmap := spec_block_bitmap G g
    bg_inode_bitmap := spec_block_bitmap G g + 1
    bg_inode_table := spec_block_bitmap G g + 2
    bg_free_blocks_count := spec_group_range n NG g - spec_group_used G g
    bg_free_inodes_count := if g = 0 then 1022 else 1024
    bg_used_dirs_count := if g = 0 then 1 else 0 }

/-- Specification side: the number of free blocks of the final image, summed
over the groups. -/
def spec_free_blocks (n : Nat) : Nat :=
  ((List.range (spec_groups n)).map
    (fun j => spec_group_range n (spec_groups n) j -
      spec_group_used (spec_gdt_blocks n) j)).sum

/-- Specification side: the superblock of the formatter with the given free
counts. -/
def spec_sb (n now free_blocks free_inodes : Nat) : SimpleFS_SuperBlock :=
  { s_magic := SIMPLEFS_MAGIC
    s_inodes_count := spec_groups n * 1024
    s_blocks_count := n
    s_free_blocks_count := free_blocks
    s_free_inodes_count := free_inodes
    s_first_data_block := 2 + spec_gdt_blocks n + 34
    s_log_block_size := 2
    s_blocks_per_group := DEFAULT_BLOCKS_PER_GROUP
    s_inodes_per_group := DEFAULT_INODES_PER_GROUP
    s_mtime := 0
    s_wtime := u32 now
    s_mnt_count := 0
    s_max_mnt_count := 20
    s_state := 1
    s_errors := 1
    s_first_ino := 11
    s_inode_size := SIMPLEFS_INODE_SIZE
    s_block_group_nr := 0
    s_root_inode := SIMPLEFS_ROOT_INODE_NUM }

/-- The metadata regions of a formatted image as `(first block, length)`, by
group `g` and kind `k`: 0 the superblock copy of the group (the primary
superblock for group 0), 1 its GDT copy (`G` blocks), 2 the block bitmap,
3 the inode bitmap, 4 (and above) the inode table; kinds 0 and 1 exist in
backup groups only. The bitmaps and the table are read from the group
descriptors. -/
def mkfs_region (gdt : List SimpleFS_GroupDesc) (G g k : Nat) : Nat × Nat :=
  match k with
  | 0 => (if g = 0 then 1 else g * 32768, 1)
  | 1 => (if g = 0 then 2 else g * 32768 + 1, G)
  | 2 => ((gdt.getD g default).bg_block_bitmap, 1)
  | 3 => ((gdt.getD g default).bg_inode_bitmap, 1)
  | _ => ((gdt.getD g default).bg_inode_table, 32)

/-- The context a mount would work with on the formatter's result: the device,
and the superblock and table the formatter wrote last. -/
def mkfs_context (r : Device × SimpleFS_SuperBlock × List SimpleFS_GroupDesc) (now : Nat) :
    SimpleFS_Context :=
  { device_fd := r.1, sb := r.2.1, gdt := r.2.2, errno := 0, now := now }

/-- Specification side: the blocks the claim lists as in use on an image of `n`
blocks whose table is `gdt` and whose first data block is `fdb`: block 0, the
superblock, the GDT, every group's bitmaps and inode table, the backup copies,
and the root directory block. -/
def spec_block_in_use (n : Nat) (gdt : List SimpleFS_GroupDesc) (fdb b : Nat) : Prop :=
  b = 0 ∨ b = 1 ∨ (2 ≤ b ∧ b < 2 + spec_gdt_blocks n) ∨
  (∃ g, g < spec_groups n ∧
    ((gdt.getD g default).bg_block_bitmap = b ∨ (gdt.getD g default).bg_inode_bitmap = b ∨
     ((gdt.getD g default).bg_inode_table ≤ b ∧ b < (gdt.getD g default).bg_inode_table + 32))) ∨
  (∃ g, 1 ≤ g ∧ g < spec_groups n ∧ is_backup_group g = true ∧
    g * 32768 ≤ b ∧ b ≤ g * 32768 + spec_gdt_blocks n) ∨
  b = fdb

/-- The scenario of a write past 4 GiB: on a fresh image create `/f` and write
the one byte `X` at offset `2^32`; then read one byte at offset `2^32` and one
byte at offset 0. The result lists the results of the write and of the two
reads, the bytes the two reads store, and `i_size` of `/f` at the end. -/
def scenario_write_past_4g : Option (List Int × List Nat × List Nat × Option Nat) :=
  fresh64.map fun c =>
    let c1 := (simplefs_mknod c rootCaller PATH_F (Nat.lor S_IFREG 0o644)).2
    let w := simplefs_write c1 rootCaller PATH_F [88] 4294967296
    let r := simplefs_read w.2 rootCaller PATH_F 1 4294967296
    let r0 := simplefs_read r.2.2 rootCaller PATH_F 1 0
    ([w.1, r.1, r0.1], r.2.1, r0.2.1, (inode_at r0.2.2 PATH_F).map i_size)

/-- Scenario E2E-1 on the code: on a fresh image `mkdir /a`, `mkdir /a/b`,
`rmdir /a/b`, `rmdir /a`. The result lists the four return values, and
`s_free_blocks_count` and `s_free_inodes_count` before the first and after the
last call. -/
def scenario_mkdir_rmdir : Option (List Int × List Nat) :=
  fresh64.bind fun c =>
    let m1 := simplefs_mkdir c rootCaller PATH_A 0o755
    let m2 := simplefs_mkdir m1.2 rootCaller (PATH_A ++ [47, 98]) 0o755
    (simplefs_rmdir 64 m2.2 rootCaller (PATH_A ++ [47, 98])).bind fun r1 =>
    (simplefs_rmdir 64 r1.2 rootCaller PATH_A).map fun r2 =>
      ([m1.1, m2.1, r1.1, r2.1],
        [c.sb.s_free_blocks_count, r2.2.sb.s_free_blocks_count,
         c.sb.s_free_inodes_count, r2.2.sb.s_free_inodes_count])

/-- The scenario of a parent with 65535 links: on a fresh image the root
inode's `i_links_count` is set to 65535 (the value a directory has once it
holds 65533 subdirectories; `simplefs_mkdir` reads nothing else of that
history), then `mkdir /a`. The result lists the return value, the root's
`i_links_count` before and after the call, and of the new directory's inode the
mode, `i_links_count`, `i_size` and `i_blocks`. -/
def scenario_mkdir_links_wrap : Option (Int × List Nat × List Nat) :=
  fresh64.bind fun c =>
    match read_inode_from_disk c 2 with
    | (.error _, _) => none
    | (.ok root, c) =>
      let c := (write_inode_to_disk c 2 (set_i_links_count root 65535)).2
      let m := simplefs_mkdir c rootCaller PATH_A 0o755
      match read_inode_from_disk c 2, read_inode_from_disk m.2 2 with
      | (.ok before, _), (.ok after, _) =>
        (inode_at m.2 PATH_A).map fun a =>
          (m.1, [i_links_count before, i_links_count after],
            [i_mode a, i_links_count a, i_size a, i_blocks a])
      | _, _ => none

/-- The blocks of a tree of `level` levels of indirection below the pointer
`blk`, as the specification counts them: nothing for a zero pointer, the data
block itself at level 0, else the blocks below the 1024 entries of the
indirect block followed by the indirect block. -/
def subtree_blocks (data : Nat → Buf) : Nat → Nat → List Nat
  | 0, blk => if blk = 0 then [] else [blk]
  | level + 1, blk =>
    if blk = 0 then []
    else
      (List.range 1024).flatMap (fun k => subtree_blocks data level (ptrAt (data blk) k)) ++ [blk]

/-- The blocks a file holds: the data blocks and the single, double and triple
indirect blocks below the fifteen slots of `i_block`. -/
def inode_blocks (data : Nat → Buf) (inode : Buf) : List Nat :=
  (List.range SIMPLEFS_INODE_BLOCK_PTRS).flatMap
    (fun s => subtree_blocks data (tree_depth s) (i_block inode s))

/-- What the release of blocks leaves in place, seen from the state `c0` before
it: the layout, and the content of every block outside the set `R` (which
holds the block bitmaps). -/
def release_frame (c0 ctx : SimpleFS_Context) (R : Nat → Prop) : Prop :=
  same_layout c0 ctx ∧ ∀ x, ¬ R x → ctx.device_fd.data x = c0.device_fd.data x

/-- The blocks `sync_fs_metadata` writes: block 1, the blocks of the primary
group descriptor table from block 2, and in every backup group after group 0
the first block and the table blocks after it. -/
def sync_target (context : SimpleFS_Context) (b : Nat) : Prop :=
  b = 1 ∨
  (∃ i, i < (u32 (context.gdt.length * 32) + SIMPLEFS_BLOCK_SIZE - 1) / SIMPLEFS_BLOCK_SIZE ∧
    b = u32 (1 + 1 + i)) ∨
  ∃ grp, 1 ≤ grp ∧ grp < context.gdt.length ∧ is_backup_group grp = true ∧
    (b = u32 (grp * context.sb.s_blocks_per_group) ∨
      ∃ i, i < (u32 (context.gdt.length * 32) + SIMPLEFS_BLOCK_SIZE - 1) / SIMPLEFS_BLOCK_SIZE ∧
        b = u32 (u32 (grp * context.sb.s_blocks_per_group) + 1 + i))

/-- Inode 12 of `ctxFile`: the regular file `/f` with logical blocks 0 and 12
mapped, block 8 in slot 0 and the single indirect block 9 in slot 12. -/
def fileInode : Buf :=
  set_i_block (set_i_block (set_i_blocks (set_i_size treeFile 53248) 24) 0 8) 12 9

/-- The filesystem `ctxDir` with data in `/f`: the data block 8, the single
indirect block 9 and, in its entry 0, the data block 10; the three blocks are
marked in use and the counts are lowered by 3. -/
def ctxFile : SimpleFS_Context :=
  { ctxDir with
    device_fd := ((ctxDir.device_fd.put 1 (setByte (setByte zeroBuf 0 255) 1 7)).put 3
      (blit (ctxDir.device_fd.data 3) 1408 fileInode 0 128)).put 9 (setPtr zeroBuf 0 10)
    sb := { ctxDir.sb with s_free_blocks_count := 5 }
    gdt := [{ bg_block_bitmap := 1, bg_inode_bitmap := 2, bg_inode_table := 3,
              bg_free_blocks_count := 5, bg_free_inodes_count := 16, bg_used_dirs_count := 3 }] }

/-- What `resolve_path_recursive` reads of an inode, compared between two
states: the type, permission and owner fields are the same, a directory answers
in the second state every lookup as in the first unless the first finds no
entry, and a symlink has the same target. -/
structure inode_view_le (fd fd' : Device) (a a' : Buf) : Prop where
  mode : i_mode a' = i_mode a
  uid : i_uid a' = i_uid a
  gid : i_gid a' = i_gid a
  look : S_ISDIR (i_mode a) = true → ∀ comp, lookup_component fd a comp ≠ .absent →
    lookup_component fd' a' comp = lookup_component fd a comp
  link : S_ISLNK (i_mode a) = true → read_symlink_target fd' a' = read_symlink_target fd a

/-- The state `c'` extends the state `c` as far as path resolution can see:
the root inode is the same and every inode that can be read in `c` can be read
in `c'` with the same view. -/
def resolve_extends (c c' : SimpleFS_Context) : Prop :=
  c'.sb.s_root_inode = c.sb.s_root_inode ∧
  ∀ m a, (read_inode_from_disk c m).1 = .ok a →
    ∃ a', (read_inode_from_disk c' m).1 = .ok a' ∧
      inode_view_le c.device_fd c'.device_fd a a'

/-- The blocks path resolution reads on behalf of an inode: every block of the
tree of a directory, and the target block of a symlink that is not stored in
the inode. -/
def resolve_reads (data : Nat → Buf) (a : Buf) (b : Nat) : Prop :=
  b ≠ 0 ∧
  ((S_ISDIR (i_mode a) = true ∧ ∃ s idxs, tree_path_ok s idxs ∧ tree_node data a s idxs = b) ∨
    (S_ISLNK (i_mode a) = true ∧ i_blocks a ≠ 0 ∧ b = i_block a 0))

/-- Two inode records agree on the fields before `i_blocks`: mode, uid, size,
the times, gid and the link count. -/
def inode_head_eq (a b : Buf) : Prop := ∀ i, i < 28 → a i = b i

/-- Byte `j` of a file that was empty before the first `total` bytes of `buf`
were written at offset `o`. -/
def file_byte (o : Nat) (buf : List Nat) (total j : Nat) : Nat :=
  if o ≤ j ∧ j < o + total then buf.getD (j - o) 0 else 0

/-- The state of the block loop of `simplefs_write` on a file that was empty
in the state `c0`, after `total` bytes: the tree is sound, blocks that were in
use in `c0` outside `R` hold what they held, every block of the tree was free in
`c0`, exactly the logical blocks that meet `[o, o + total)` are mapped, and the
mapped blocks hold the bytes written so far and zeros elsewhere. -/
structure write_inv (c0 : SimpleFS_Context) (inode0 : Buf) (R : Nat → Prop) (o : Nat)
    (buf : List Nat) (ctx : SimpleFS_Context) (inode : Buf) (total : Nat) : Prop where
  ok : tree_ok ctx inode R
  layout : same_layout c0 ctx
  head : inode_head_eq inode inode0
  keep : ∀ x, x ≠ 0 → x < c0.sb.s_blocks_count → block_bit_set c0 x = true → ¬ R x →
    ctx.device_fd.data x = c0.device_fd.data x
  bits : ∀ x, x < c0.sb.s_blocks_count → block_bit_set c0 x = true →
    block_bit_set ctx x = true
  fresh : ∀ s idxs, tree_path_ok s idxs → tree_node ctx.device_fd.data inode s idxs ≠ 0 →
    block_bit_set c0 (tree_node ctx.device_fd.data inode s idxs) = false
  mapped : ∀ k, k < MAX_LOGICAL_BLOCKS →
    (tree_node ctx.device_fd.data inode (lbn_slot k) (lbn_idxs k) ≠ 0 ↔
      (total ≠ 0 ∧ o / 4096 ≤ k ∧ k * 4096 < o + total))
  content : ∀ k, k < MAX_LOGICAL_BLOCKS →
    tree_node ctx.device_fd.data inode (lbn_slot k) (lbn_idxs k) ≠ 0 → ∀ t, t < 4096 →
    ctx.device_fd.data (tree_node ctx.device_fd.data inode (lbn_slot k) (lbn_idxs k)) t =
      file_byte o buf total (k * 4096 + t)

/-- The block bitmaps of the groups. -/
def block_bitmaps (c : SimpleFS_Context) (b : Nat) : Prop :=
  ∃ g, g < c.gdt.length ∧ b = (c.gdt.getD g default).bg_block_bitmap

/-- A block that is marked in use and that neither the block allocator nor the
metadata flush writes: it is no block bitmap and no superblock or descriptor
copy. -/
def kept_block (c : SimpleFS_Context) (b : Nat) : Prop :=
  b ≠ 0 ∧ b < c.sb.s_blocks_count ∧ block_bit_set c b = true ∧ ¬ block_bitmaps c b ∧
    ¬ sync_target c b

/-- A state in which the file with inode `n` can be written: no I/O failure,
a sound block layout, the blocks of the filesystem's own structures marked in
use, the inode-table blocks and the blocks that path resolution reads for the
other inodes kept apart from the blocks that the allocator and the flush write,
and the record of inode `n` apart from the records of the other inodes. -/
structure write_ready (c : SimpleFS_Context) (n : Nat) : Prop where
  io : io_ok c
  layout : block_layout_ok c
  counts : counts_in_range c
  bitmaps : ∀ b, block_bitmaps c b → b < c.sb.s_blocks_count ∧ block_bit_set c b = true
  flush : ∀ b, sync_target c b → b < c.sb.s_blocks_count → block_bit_set c b = true
  table : ∀ m T o, inode_location c m = .ok (T, o) → kept_block c T
  slots : ∀ m T o o', m ≠ n → inode_location c m = .ok (T, o) →
    inode_location c n = .ok (T, o') → o + SIMPLEFS_INODE_SIZE ≤ o' ∨ o' + SIMPLEFS_INODE_SIZE ≤ o
  reads : ∀ m a, m ≠ n → (read_inode_from_disk c m).1 = .ok a →
    ∀ b, resolve_reads c.device_fd.data a b →
      kept_block c b ∧ ∀ T o, inode_location c n = .ok (T, o) → b ≠ T

/-- The value of `total_bytes_written` with which the block loop of
`simplefs_write` ends (0 when the operation returns from inside the loop). -/
def WriteLoop.written : WriteLoop → Nat
  | .done total_bytes_written _ _ => total_bytes_written
  | .fail _ _ => 0

/-- Relative to the state `c` and the inode `inode`, the state `c'` and the
inode `inode'` have `k` more blocks charged: `s_free_blocks_count` is `k`
lower and `i_blocks` is `8·k` higher (in `uint32_t` arithmetic). -/
def blocks_charged (c : SimpleFS_Context) (inode : Buf) (c' : SimpleFS_Context) (inode' : Buf)
    (k : Nat) : Prop :=
  c'.sb.s_free_blocks_count + k = c.sb.s_free_blocks_count ∧
  i_blocks inode' = u32 (i_blocks inode + 8 * k)

/-- The filesystem `ctxDir` with one free block left: blocks 8 to 14 are marked
in use as well, block 15 is free, and the counts are 1. -/
def ctxLast : SimpleFS_Context :=
  { ctxDir with
    device_fd := ctxDir.device_fd.put 1 (setByte (setByte zeroBuf 0 255) 1 127)
    sb := { ctxDir.sb with s_free_blocks_count := 1 }
    gdt := [{ bg_block_bitmap := 1, bg_inode_bitmap := 2, bg_inode_table := 3,
              bg_free_blocks_count := 1, bg_free_inodes_count := 16, bg_used_dirs_count := 3 }] }

/-- The filesystem `ctxDir` on a device that fails every write to block 8, the
first free block. -/
def ctxWriteFail : SimpleFS_Context :=
  { ctxDir with
    device_fd := { ctxDir.device_fd with writable := fun b => decide (b ≠ 8) } }

/-- The filesystem `ctxDir` with a damaged root directory: `rec_len` of the
first record of the directory's block (block 5) is 0. -/
def ctxBadDir : SimpleFS_Context :=
  { ctxDir with
    device_fd := ctxDir.device_fd.put 5 (set_de_rec_len (ctxDir.device_fd.data 5) 0 0) }

/-- The freshly formatted and mounted 64-block image of `fresh64` as a
context (`fresh64` is `some`). -/
def ctxFresh64 : SimpleFS_Context := fresh64.getD ctxAlloc

/-- Specification side: the layout the formatter gives a device of `n`
blocks, as a property of a context: groups of 32768 blocks with 1024 inodes
each, and in every group the block bitmap, the inode bitmap and the 32 blocks
of the inode table at the places the formatter computes, all on the device. -/
def formatter_layout (n : Nat) (c : SimpleFS_Context) : Prop :=
  64 ≤ n ∧ n < 4294967296 ∧
  c.sb.s_blocks_count = n ∧ c.sb.s_blocks_per_group = 32768 ∧
  c.sb.s_inodes_per_group = 1024 ∧ c.sb.s_inodes_count = spec_groups n * 1024 ∧
  c.gdt.length = spec_groups n ∧
  ∀ g, g < spec_groups n →
    (c.gdt.getD g default).bg_block_bitmap = spec_block_bitmap (spec_gdt_blocks n) g ∧
    (c.gdt.getD g default).bg_inode_bitmap = spec_block_bitmap (spec_gdt_blocks n) g + 1 ∧
    (c.gdt.getD g default).bg_inode_table = spec_block_bitmap (spec_gdt_blocks n) g + 2 ∧
    spec_block_bitmap (spec_gdt_blocks n) g + 34 ≤ n

instance (n : Nat) (c : SimpleFS_Context) : Decidable (formatter_layout n c) := by
  unfold formatter_layout; infer_instance

/-- Specification side: the blocks a metadata flush writes on the formatter's
layout of a device of `n` blocks: block 1, the blocks of the primary GDT, and
in every backup group from 1 on the first block and the GDT blocks behind it. -/
def spec_flush_target (n : Nat) (x : Nat) : Prop :=
  x = 1 ∨ (2 ≤ x ∧ x < 2 + spec_gdt_blocks n) ∨
  ∃ g, 1 ≤ g ∧ g < spec_groups n ∧ is_backup_group g = true ∧
    g * 32768 ≤ x ∧ x ≤ g * 32768 + spec_gdt_blocks n

/-- Specification side: what a flush target holds after the flush: the
superblock, padded with zeros, in block 1 and in the first block of a backup
group, and the blocks of the GDT behind it. -/
def spec_flush_image (c : SimpleFS_Context) (x : Nat) : Buf :=
  if x = 1 ∨ (x ≠ 0 ∧ x % 32768 = 0) then blit zeroBuf 0 (encode_sb c.sb) 0 1024
  else if x < 32768 then gdt_block c.gdt (x - 2)
  else gdt_block c.gdt (x % 32768 - 1)

/-- The block bitmaps mark the metadata blocks of every group as in use: the
bits below the number of metadata blocks of the group (in group 0 this counts
block 0 too). -/
def metadata_marked (n : Nat) (c : SimpleFS_Context) : Prop :=
  ∀ g, g < spec_groups n →
    ∀ x, x < spec_group_meta (spec_gdt_blocks n) g + (if g = 0 then 1 else 0) →
      is_bitmap_bit_set (c.device_fd.data (spec_block_bitmap (spec_gdt_blocks n) g))
        SIMPLEFS_BLOCK_SIZE x = true

instance (n : Nat) (c : SimpleFS_Context) : Decidable (metadata_marked n c) := by
  unfold metadata_marked; infer_instance

/-- Specification side: the blocks the metadata flush may write: block 1, the
blocks 2 … 1+G with G = ceil(32 · groups / 4096), and for every backup group
g ≥ 1 the blocks g·blocks_per_group … g·blocks_per_group+G. -/
def spec_flush_block (c : SimpleFS_Context) (x : Nat) : Prop :=
  x = 1 ∨ (2 ≤ x ∧ x ≤ 1 + (c.gdt.length * 32 + 4095) / 4096) ∨
  ∃ g, 1 ≤ g ∧ g < c.gdt.length ∧ is_backup_group g = true ∧
    g * c.sb.s_blocks_per_group ≤ x ∧
    x ≤ g * c.sb.s_blocks_per_group + (c.gdt.length * 32 + 4095) / 4096

/-- The formatted two-group image: 32832 blocks on a blank device, group 1
starting at block 32768 with a backup copy. -/
def image2 : Device × SimpleFS_SuperBlock × List SimpleFS_GroupDesc :=
  (mkfs devBlank 32832 7).getD (devBlank, ctxAlloc.sb, [])

/-- The two-group image on a device that reads and writes every block. -/
def ctxFresh2 : SimpleFS_Context :=
  { device_fd :=
      { data := image2.1.data, readable := fun _ => true, writable := fun _ => true }
    sb := image2.2.1, gdt := image2.2.2, errno := 0, now := 9 }

/-- Specification side: a path with every run of `'/'` collapsed to one. -/
def collapse_slashes : List Nat → List Nat
  | [] => []
  | [a] => [a]
  | a :: b :: l =>
    if a = SLASH ∧ b = SLASH then collapse_slashes (b :: l)
    else a :: collapse_slashes (b :: l)

/-- Specification side: the path `q` of the claim: runs of `'/'` collapsed and
a trailing `'/'` removed from a path of more than one character. -/
def spec_normal_path (p : List Nat) : List Nat :=
  if (collapse_slashes p).length > 1 ∧ (collapse_slashes p).getLast? = some SLASH then
    (collapse_slashes p).dropLast
  else collapse_slashes p

/-- The characters the normalising loop of `parse_path` appends for the rest
`l` of the path when the last character of the result so far is `prev`. -/
def normalize_tail (prev : Nat) : List Nat → List Nat
  | [] => []
  | c :: l =>
    if c = SLASH then (if prev ≠ SLASH then SLASH :: normalize_tail SLASH l
      else normalize_tail prev l)
    else c :: normalize_tail c l

/-- The state `c'` extends the state `c` on the inodes in `I` as far as path
resolution can see: the root inode is the same and lies in `I`, every inode of
`I` that can be read in `c` can be read in `c'` with the same view, and the
entries of the directories in `I` lead to inodes in `I`. -/
structure resolve_extends_on (I : Nat → Prop) (c c' : SimpleFS_Context) : Prop where
  root : c'.sb.s_root_inode = c.sb.s_root_inode
  root_in : I c.sb.s_root_inode
  view : ∀ m a, I m → (read_inode_from_disk c m).1 = .ok a →
    ∃ a', (read_inode_from_disk c' m).1 = .ok a' ∧
      inode_view_le c.device_fd c'.device_fd a a'
  closed : ∀ m a comp m', I m → (read_inode_from_disk c m).1 = .ok a →
    S_ISDIR (i_mode a) = true → lookup_component c.device_fd a comp = .found m' → I m'

/-- The last step of a resolution that does not follow a final symlink: the
lookup of `name` in the directory with inode number `dir`. -/
def final_step (caller : fuse_context) (c : SimpleFS_Context) (dir : Nat) (name : List Nat) :
    Nat × SimpleFS_Context :=
  resolve_walk caller false (fun ctx _ => (0, ctx)) [name] c dir []

/-- No name of the listing stands for two inodes. -/
def names_unique (l : List (List Nat × Nat)) : Prop :=
  ∀ e, e ∈ l → ∀ e', e' ∈ l → e.1 = e'.1 → e.2 = e'.2

instance (l : List (List Nat × Nat)) : Decidable (names_unique l) := by
  unfold names_unique; infer_instance

/-- The inode bitmaps of the groups. -/
def inode_bitmaps (c : SimpleFS_Context) (b : Nat) : Prop :=
  ∃ g, g < c.gdt.length ∧ b = (c.gdt.getD g default).bg_inode_bitmap

/-- A block that is marked in use and that neither an allocator nor the
metadata flush writes: it is no bitmap and no superblock or descriptor copy. -/
def quiet_block (c : SimpleFS_Context) (b : Nat) : Prop :=
  kept_block c b ∧ ¬ inode_bitmaps c b

/-- A state in which a link can be created below the inodes in `I`: no I/O
failure, a sound layout, every inode number with a slot in the inode table, the
slots apart from each other, the blocks of the metadata flush marked in use, the
inode-table blocks and the blocks that path
resolution reads for the inodes of `I` marked in use and kept apart from the
bitmaps, from the blocks the metadata flush writes, from the inode table and
from each other, the inodes of `I` marked in use and closed under the entries
of their directories, and every directory of `I` well formed, without a name
for two inodes, and short of the last block a 32-bit size can cover. -/
structure link_ready (I : Nat → Prop) (c : SimpleFS_Context) : Prop where
  io : io_ok c
  layout : block_layout_ok c
  counts : counts_in_range c
  ifit : c.gdt.length * c.sb.s_inodes_per_group < 4294967296
  bitmaps : ∀ b, block_bitmaps c b → b < c.sb.s_blocks_count ∧ block_bit_set c b = true
  ibitmaps : ∀ b, inode_bitmaps c b → ¬ block_bitmaps c b
  located : ∀ m, m ≠ 0 → m ≤ c.sb.s_inodes_count → ∃ T o, inode_location c m = .ok (T, o)
  table : ∀ m T o, inode_location c m = .ok (T, o) → quiet_block c T
  slots : ∀ m m' T o o', m ≠ m' → inode_location c m = .ok (T, o) →
    inode_location c m' = .ok (T, o') →
    o + SIMPLEFS_INODE_SIZE ≤ o' ∨ o' + SIMPLEFS_INODE_SIZE ≤ o
  synced : ∀ b, sync_target c b → b < c.sb.s_blocks_count → block_bit_set c b = true
  root_in : I c.sb.s_root_inode
  valid : ∀ m, I m → m ≠ 0 ∧ m ≤ c.sb.s_inodes_count
  used : ∀ m, I m → inode_bit_set c m = true
  closed : ∀ m a comp m', I m → (read_inode_from_disk c m).1 = .ok a →
    S_ISDIR (i_mode a) = true → lookup_component c.device_fd a comp = .found m' → I m'
  reads : ∀ m a, I m → (read_inode_from_disk c m).1 = .ok a →
    ∀ b, resolve_reads c.device_fd.data a b →
      quiet_block c b ∧ ∀ m' T o, inode_location c m' = .ok (T, o) → b ≠ T
  apart : ∀ m m' a a', I m → I m' → m ≠ m' → (read_inode_from_disk c m).1 = .ok a →
    (read_inode_from_disk c m').1 = .ok a' →
    ∀ b, resolve_reads c.device_fd.data a b → ¬ resolve_reads c.device_fd.data a' b
  dirs : ∀ m a, I m → (read_inode_from_disk c m).1 = .ok a → S_ISDIR (i_mode a) = true →
    dir_ok c a m ∧ names_unique (dir_listing c a) ∧
    (i_size a / SIMPLEFS_BLOCK_SIZE + 1) * SIMPLEFS_BLOCK_SIZE < 4294967296

/-- The part of `simplefs_symlink` that follows the checks on the link path:
allocation of the inode, storage of the target, the inode record, the
directory entry and the metadata flush, for the parent directory
`parent_inode_num` with record `parent_inode_data` and the name
`basename_str`. -/
def symlink_create (context : SimpleFS_Context) (caller : fuse_context)
    (target : List Nat) (parent_inode_num : Nat) (parent_inode_data : Buf)
    (basename_str : List Nat) : Int × SimpleFS_Context :=
  let link_mode := Nat.lor S_IFLNK 0o777
  let r := alloc_inode context link_mode
  if r.1 = 0 then (-(r.2.errno : Int), r.2)
  else
    let symlink_inode_num := r.1
    let context := r.2
    let symlink_inode := new_inode_record link_mode caller.uid caller.gid 1 context.now
    let symlink_inode := set_i_size symlink_inode target.length
    -- the fast / slow storage branch
    let stored : Except (Int × SimpleFS_Context) (Buf × SimpleFS_Context) :=
      if target.length < I_BLOCK_BYTES then
        .ok (set_i_blocks (blitList symlink_inode I_BLOCK_OFF target) 0, context)
      else if target.length ≥ SIMPLEFS_BLOCK_SIZE then
        .error (-(ENAMETOOLONG : Int),
          free_inode context symlink_inode_num (i_mode symlink_inode))
      else
        let b := alloc_block context
          (dec32 symlink_inode_num / context.sb.s_inodes_per_group)
        if b.1 = 0 then
          let context := free_inode b.2 symlink_inode_num (i_mode symlink_inode)
          .error (-(context.errno : Int), context)
        else
          match write_block b.2.device_fd b.1 (blitList zeroBuf 0 target) with
          | none =>
            let context := free_block b.2 b.1
            .error (-( EIO : Int),
              free_inode context symlink_inode_num (i_mode symlink_inode))
          | some dev =>
            let symlink_inode := set_i_block symlink_inode 0 b.1
            .ok (set_i_blocks symlink_inode (SIMPLEFS_BLOCK_SIZE / 512),
              { b.2 with device_fd := dev })
    match stored with
    | .error e => e
    | .ok (symlink_inode, context) =>
      let w := write_inode_to_disk context symlink_inode_num symlink_inode
      if w.1 ≠ 0 then
        let context :=
          if i_blocks symlink_inode > 0 ∧ i_block symlink_inode 0 ≠ 0 then
            free_block w.2 (i_block symlink_inode 0)
          else w.2
        let context := free_inode context symlink_inode_num (i_mode symlink_inode)
        (-(context.errno : Int), context)
      else
        let dentry_file_type := Nat.land S_IFLNK S_IFMT / 4096
        let a := add_dir_entry w.2 parent_inode_data parent_inode_num basename_str
          symlink_inode_num dentry_file_type
        if a.1 ≠ 0 then
          let context :=
            if i_blocks symlink_inode > 0 ∧ i_block symlink_inode 0 ≠ 0 then
              free_block a.2.2 (i_block symlink_inode 0)
            else a.2.2
          let symlink_inode := set_i_dtime symlink_inode context.now
          let symlink_inode := set_i_links_count symlink_inode 0
          let w := write_inode_to_disk context symlink_inode_num symlink_inode
          (a.1, free_inode w.2 symlink_inode_num (i_mode symlink_inode))
        else (0, sync_fs_metadata a.2.2)

/-- What a step of link creation keeps of the state `c`: the layout, the root
inode number, the absence of I/O failures, the soundness of the block layout and of the counts,
the block bitmap bits that were set, and the content of every block in use
that is no bitmap and no block of the metadata flush, the blocks in `W`
excepted. -/
structure link_frame (c c' : SimpleFS_Context) (W : Nat → Prop) : Prop where
  layout : same_layout c c'
  root : c'.sb.s_root_inode = c.sb.s_root_inode
  io : io_ok c'
  blocks : block_layout_ok c'
  counts : counts_in_range c'
  bits : ∀ x, x < c.sb.s_blocks_count → block_bit_set c x = true → block_bit_set c' x = true
  keep : ∀ x, quiet_block c x → ¬ W x → c'.device_fd.data x = c.device_fd.data x

/-- The path `"/b"`. -/
def PATH_B : List Nat := [47, 98]

/-- The target `"x" * 200` of the specification's example. -/
def TARGET_200 : List Nat := List.replicate 200 120

theorem getLE_congr (m m' : Buf) (w off : Nat)
    (h : ∀ i, off ≤ i → i < off + w → m i = m' i) : getLE m off w = getLE m' off w := by
  induction w generalizing off with
  | zero => rfl
  | succ w ih =>
    simp only [getLE]
    rw [h off (le_refl _) (by omega), ih (off + 1) (fun i h1 h2 => h i (by omega) (by omega))]

theorem getLE_lt (m : Buf) (off w : Nat) : getLE m off w < 256 ^ w := by
  induction w generalizing off with
  | zero => simp [getLE]
  | succ w ih =>
    simp only [getLE]
    have := ih (off + 1)
    have h2 : m off % 256 < 256 := Nat.mod_lt _ (by norm_num)
    rw [pow_succ]
    omega

theorem getLE_setLE_same (m : Buf) (off w v : Nat) :
    getLE (setLE m off w v) off w = v % 256 ^ w := by
  induction w generalizing off v m with
  | zero => simp [getLE, Nat.mod_one]
  | succ w ih =>
    simp only [getLE]
    have h1 : setLE m off (w + 1) v off = v % 256 := by
      simp [setLE]
    have h2 : getLE (setLE m off (w + 1) v) (off + 1) w =
        getLE (setLE m (off + 1) w (v / 256)) (off + 1) w := by
      apply getLE_congr
      intro i hi1 hi2
      have c1 : off ≤ i ∧ i < off + (w + 1) := by omega
      have c2 : off + 1 ≤ i ∧ i < off + 1 + w := by omega
      simp only [setLE, c1, c2, and_self, if_true]
      have : i - off = (i - (off + 1)) + 1 := by omega
      rw [this, pow_succ, ← Nat.div_div_eq_div_mul, Nat.div_div_eq_div_mul, mul_comm,
        ← Nat.div_div_eq_div_mul]
    rw [h1, h2, ih, Nat.mod_mod]
    rw [pow_succ, mul_comm (256 ^ w) 256, Nat.mod_mul]

theorem getLE_setLE_disjoint (m : Buf) (off1 w1 v off2 w2 : Nat)
    (h : off2 + w2 ≤ off1 ∨ off1 + w1 ≤ off2) :
    getLE (setLE m off1 w1 v) off2 w2 = getLE m off2 w2 := by
  apply getLE_congr
  intro i h1 h2
  have : ¬ (off1 ≤ i ∧ i < off1 + w1) := by omega
  simp [setLE, this]

theorem setLE_outside (m : Buf) (off w v i : Nat) (h : i < off ∨ off + w ≤ i) :
    setLE m off w v i = m i := by
  have : ¬ (off ≤ i ∧ i < off + w) := by omega
  simp [setLE, this]

theorem getLE_blit_inside (dst src : Buf) (doff soff len off w : Nat)
    (h : doff ≤ off ∧ off + w ≤ doff + len) :
    getLE (blit dst doff src soff len) off w = getLE src (soff + (off - doff)) w := by
  induction w generalizing off with
  | zero => rfl
  | succ w ih =>
    simp only [getLE]
    have c : doff ≤ off ∧ off < doff + len := by omega
    rw [ih (off + 1) (by omega)]
    have e : soff + (off + 1 - doff) = soff + (off - doff) + 1 := by omega
    simp [blit, c, e]

theorem getLE_blit_outside (dst src : Buf) (doff soff len off w : Nat)
    (h : off + w ≤ doff ∨ doff + len ≤ off) :
    getLE (blit dst doff src soff len) off w = getLE dst off w := by
  apply getLE_congr
  intro i h1 h2
  have : ¬ (doff ≤ i ∧ i < doff + len) := by omega
  simp [blit, this]

theorem getLE_zeroBuf (off w : Nat) : getLE zeroBuf off w = 0 := by
  induction w generalizing off with
  | zero => rfl
  | succ w ih => simp [getLE, ih, zeroBuf]


theorem land_two_pow_ne_zero (x k : Nat) : (Nat.land x (Nat.shiftLeft 1 k) ≠ 0) ↔ x.testBit k = true := by
  have h1 : Nat.shiftLeft 1 k = 2 ^ k := Nat.one_shiftLeft k
  have h2 : Nat.land x (2 ^ k) = x &&& 2 ^ k := rfl
  rw [h1, h2, Nat.and_two_pow]
  cases h : x.testBit k <;> simp [Bool.toNat]

theorem is_bitmap_bit_set_eq (m : Buf) (size i : Nat) :
    is_bitmap_bit_set m size i =
      if i < size * 8 then (m (i / 8) % 256).testBit (i % 8) else true := by
  unfold is_bitmap_bit_set
  by_cases h : i < size * 8
  · simp only [h, if_true]
    by_cases hb : (m (i / 8) % 256).testBit (i % 8) = true
    · rw [hb]; exact decide_eq_true ((land_two_pow_ne_zero _ _).2 hb)
    · have hb' : (m (i / 8) % 256).testBit (i % 8) = false := by simpa using hb
      rw [hb']; apply decide_eq_false
      intro hc; exact hb ((land_two_pow_ne_zero _ _).1 hc)
  · simp [h]

theorem div_mod_eq_iff (i j : Nat) : (j / 8 = i / 8 ∧ j % 8 = i % 8) ↔ j = i := by
  constructor
  · rintro ⟨h1, h2⟩; omega
  · rintro rfl; exact ⟨rfl, rfl⟩

theorem is_bitmap_bit_set_set (m : Buf) (size i j : Nat) (hi : i < size * 8) :
    is_bitmap_bit_set (set_bitmap_bit m size i) size j =
      (decide (j = i) || is_bitmap_bit_set m size j) := by
  rw [is_bitmap_bit_set_eq, is_bitmap_bit_set_eq]
  by_cases hj : j < size * 8
  · simp only [hj, if_true, set_bitmap_bit, hi, setByte]
    by_cases hb : j / 8 = i / 8
    · simp only [hb, if_true]
      have h1 : Nat.shiftLeft 1 (i % 8) = 2 ^ (i % 8) := Nat.one_shiftLeft _
      have h2 : ∀ a b, Nat.lor a b = a ||| b := fun _ _ => rfl
      rw [h1, h2, Nat.mod_mod]
      have e256 : (256:Nat) = 2 ^ 8 := by norm_num
      rw [e256, Nat.testBit_mod_two_pow, Nat.testBit_or, Nat.testBit_mod_two_pow, Nat.testBit_two_pow]
      have hlt : j % 8 < 8 := Nat.mod_lt _ (by norm_num)
      have : decide (i % 8 = j % 8) = decide (j = i) := by
        apply decide_eq_decide.2
        constructor
        · intro h; omega
        · intro h; rw [h]
      rw [this]
      simp [hlt, Bool.or_comm]
    · have : ¬ j = i := fun h => hb (by rw [h])
      simp [hb, this]
  · have : ¬ j = i := by omega
    simp [hj, this]

theorem is_bitmap_bit_set_clear (m : Buf) (size i j : Nat) (hi : i < size * 8)
    (hj : j < size * 8) :
    is_bitmap_bit_set (clear_bitmap_bit m size i) size j =
      (!decide (j = i) && is_bitmap_bit_set m size j) := by
  rw [is_bitmap_bit_set_eq, is_bitmap_bit_set_eq]
  simp only [hj, if_true, clear_bitmap_bit, hi, setByte]
  by_cases hb : j / 8 = i / 8
  · simp only [hb, if_true]
    have h1 : Nat.shiftLeft 1 (i % 8) = 2 ^ (i % 8) := Nat.one_shiftLeft _
    have h2 : ∀ a b, Nat.land a b = a &&& b := fun _ _ => rfl
    have hk : i % 8 < 8 := Nat.mod_lt _ (by norm_num)
    have hp : 2 ^ (i % 8) < 2 ^ 8 := Nat.pow_lt_pow_right (by norm_num) hk
    have e : 255 - 2 ^ (i % 8) = 2 ^ 8 - (2 ^ (i % 8) + 1) := by
      have : (2:Nat) ^ 8 = 256 := by norm_num
      omega
    have hlt2 : (m (i / 8) % 256 &&& (255 - 2 ^ (i % 8))) < 2 ^ 8 := by
      apply Nat.and_lt_two_pow
      have : (2:Nat) ^ 8 = 256 := by norm_num
      omega
    rw [h1, h2, Nat.mod_eq_of_lt (by simpa using hlt2), Nat.testBit_and, e,
      Nat.testBit_two_pow_sub_succ hp, Nat.testBit_two_pow]
    have hlt : j % 8 < 8 := Nat.mod_lt _ (by norm_num)
    have : decide (i % 8 = j % 8) = decide (j = i) := by
      apply decide_eq_decide.2
      constructor
      · intro h; omega
      · intro h; rw [h]
    rw [this]
    simp [hlt, Bool.and_comm]
  · have : ¬ j = i := fun h => hb (by rw [h])
    simp [hb, this]

theorem firstIdx_some (p : Nat → Bool) (n start k : Nat) (h : firstIdx p n start = some k) :
    start ≤ k ∧ k < start + n ∧ p k = true ∧ ∀ j, start ≤ j → j < k → p j = false := by
  induction n generalizing start with
  | zero => simp [firstIdx] at h
  | succ n ih =>
    simp only [firstIdx] at h
    by_cases hp : p start = true
    · simp only [hp, if_true, Option.some.injEq] at h
      subst h
      exact ⟨le_refl _, by omega, hp, fun j h1 h2 => by omega⟩
    · simp only [hp] at h
      obtain ⟨h1, h2, h3, h4⟩ := ih (start + 1) h
      refine ⟨by omega, by omega, h3, fun j hj1 hj2 => ?_⟩
      by_cases e : j = start
      · subst e; simpa using hp
      · exact h4 j (by omega) hj2

theorem firstIdx_none (p : Nat → Bool) (n start : Nat) (h : firstIdx p n start = none) :
    ∀ j, start ≤ j → j < start + n → p j = false := by
  induction n generalizing start with
  | zero => intro j h1 h2; omega
  | succ n ih =>
    simp only [firstIdx] at h
    by_cases hp : p start = true
    · simp [hp] at h
    · simp only [hp] at h
      intro j h1 h2
      by_cases e : j = start
      · subst e; simpa using hp
      · exact ih (start + 1) h j (by omega) (by omega)



/-! ## Block device -/

theorem read_block_of_readable (fd : Device) (b : Nat) (h : fd.readable b = true) :
    read_block fd b = some (fd.data b) := by
  simp [read_block, h]

/-! ## The read-only block map -/

theorem map_logical_to_physical_block_frame (context : SimpleFS_Context) (inode : Buf)
    (lbn : Nat) :
    (map_logical_to_physical_block context inode lbn).2.device_fd = context.device_fd ∧
    (map_logical_to_physical_block context inode lbn).2.sb = context.sb ∧
    (map_logical_to_physical_block context inode lbn).2.gdt = context.gdt ∧
    (map_logical_to_physical_block context inode lbn).2.now = context.now := by
  unfold map_logical_to_physical_block
  simp only [setErrno]
  split_ifs <;> (repeat' split) <;> simp

theorem map_logical_to_physical_block_walk (context : SimpleFS_Context) (inode : Buf) (lbn : Nat)
    (hr : ∀ b, context.device_fd.readable b = true) :
    (lbn < 12 → (map_logical_to_physical_block context inode lbn).1 = i_block inode lbn) ∧
    (12 ≤ lbn → lbn < 12 + 1024 →
      (map_logical_to_physical_block context inode lbn).1 =
        walk_tree context.device_fd.data [lbn - 12] (i_block inode 12)) ∧
    (12 + 1024 ≤ lbn → lbn < 12 + 1024 + 1024 * 1024 →
      (map_logical_to_physical_block context inode lbn).1 =
        walk_tree context.device_fd.data
          [(lbn - 12 - 1024) / 1024, (lbn - 12 - 1024) % 1024] (i_block inode 13)) ∧
    (12 + 1024 + 1024 * 1024 ≤ lbn → lbn < 12 + 1024 + 1024 * 1024 + 1024 * 1024 * 1024 →
      (map_logical_to_physical_block context inode lbn).1 =
        walk_tree context.device_fd.data
          [(lbn - 12 - 1024 - 1024 * 1024) / (1024 * 1024),
           (lbn - 12 - 1024 - 1024 * 1024) % (1024 * 1024) / 1024,
           (lbn - 12 - 1024 - 1024 * 1024) % (1024 * 1024) % 1024] (i_block inode 14)) ∧
    (12 + 1024 + 1024 * 1024 + 1024 * 1024 * 1024 ≤ lbn →
      (map_logical_to_physical_block context inode lbn).1 = 0 ∧
      (map_logical_to_physical_block context inode lbn).2.errno = EFBIG) := by
  have hrd : ∀ b, read_block context.device_fd b = some (context.device_fd.data b) :=
    fun b => read_block_of_readable _ _ (hr b)
  refine ⟨?_, ?_, ?_, ?_, ?_⟩
  · intro h
    simp [map_logical_to_physical_block, SIMPLEFS_NUM_DIRECT_BLOCKS, h]
  · intro h1 h2
    have : ¬ lbn < 12 := by omega
    simp only [map_logical_to_physical_block, SIMPLEFS_NUM_DIRECT_BLOCKS, SIMPLEFS_BLOCK_SIZE,
      this, if_false, hrd, walk_tree]
    norm_num
    simp only [h2, if_true]
    split_ifs <;> omega
  · intro h1 h2
    have a1 : ¬ lbn < 12 := by omega
    have a2 : ¬ lbn < 12 + 1024 := by omega
    simp only [map_logical_to_physical_block, SIMPLEFS_NUM_DIRECT_BLOCKS, SIMPLEFS_BLOCK_SIZE,
      a1, if_false, hrd, walk_tree]
    norm_num
    simp only [a2, h2, if_true, if_false]
    have e : lbn - 12 - 1024 = lbn - 1036 := by omega
    rw [e]
    split_ifs <;> omega
  · intro h1 h2
    have a1 : ¬ lbn < 12 := by omega
    have a2 : ¬ lbn < 12 + 1024 := by omega
    have a3 : ¬ lbn < 12 + 1024 + 1024 * 1024 := by omega
    simp only [map_logical_to_physical_block, SIMPLEFS_NUM_DIRECT_BLOCKS, SIMPLEFS_BLOCK_SIZE,
      a1, if_false, hrd, walk_tree]
    norm_num
    norm_num at a3 h2
    simp only [a2, a3, h2, if_true, if_false]
    have e : lbn - 12 - 1024 - 1048576 = lbn - 1049612 := by omega
    rw [e]
    split_ifs <;> omega
  · intro h1
    have a1 : ¬ lbn < 12 := by omega
    have a2 : ¬ lbn < 12 + 1024 := by omega
    simp only [map_logical_to_physical_block, SIMPLEFS_NUM_DIRECT_BLOCKS, SIMPLEFS_BLOCK_SIZE,
      a1, if_false]
    norm_num
    have b3 : ¬ lbn < 1049612 := by omega
    have b4 : ¬ lbn < 1074791436 := by omega
    simp [a2, b3, b4, setErrno]

/-- Claim C10. `map_logical_to_physical_block` leaves the device, the
superblock and the group table as they are (the inode is a read-only argument)
and, on a device whose reads succeed, with P = 1024: it returns `i_block[lbn]`
for `lbn < 12`; the entry `lbn - 12` of the block at `i_block[12]` for `lbn` in
`[12, 12+P)`; the two-level entry under `i_block[13]` for `lbn` in
`[12+P, 12+P+P²)`; the three-level entry under `i_block[14]` for `lbn` in
`[12+P+P², 12+P+P²+P³)`; `0` as soon as a pointer on the path is `0` (that is
what `walk_tree` gives); and `0` with `errno = EFBIG` for every larger `lbn`. -/
theorem C10_map_logical_to_physical_block (context : SimpleFS_Context) (inode : Buf)
    (lbn : Nat) :
    ((map_logical_to_physical_block context inode lbn).2.device_fd = context.device_fd ∧
     (map_logical_to_physical_block context inode lbn).2.sb = context.sb ∧
     (map_logical_to_physical_block context inode lbn).2.gdt = context.gdt) ∧
    ((∀ b, context.device_fd.readable b = true) →
      (lbn < 12 → (map_logical_to_physical_block context inode lbn).1 = i_block inode lbn) ∧
      (12 ≤ lbn → lbn < 12 + 1024 →
        (map_logical_to_physical_block context inode lbn).1 =
          walk_tree context.device_fd.data [lbn - 12] (i_block inode 12)) ∧
      (12 + 1024 ≤ lbn → lbn < 12 + 1024 + 1024 * 1024 →
        (map_logical_to_physical_block context inode lbn).1 =
          walk_tree context.device_fd.data
            [(lbn - 12 - 1024) / 1024, (lbn - 12 - 1024) % 1024] (i_block inode 13)) ∧
      (12 + 1024 + 1024 * 1024 ≤ lbn →
        lbn < 12 + 1024 + 1024 * 1024 + 1024 * 1024 * 1024 →
        (map_logical_to_physical_block context inode lbn).1 =
          walk_tree context.device_fd.data
            [(lbn - 12 - 1024 - 1024 * 1024) / (1024 * 1024),
             (lbn - 12 - 1024 - 1024 * 1024) % (1024 * 1024) / 1024,
             (lbn - 12 - 1024 - 1024 * 1024) % (1024 * 1024) % 1024] (i_block inode 14)) ∧
      (12 + 1024 + 1024 * 1024 + 1024 * 1024 * 1024 ≤ lbn →
        (map_logical_to_physical_block context inode lbn).1 = 0 ∧
        (map_logical_to_physical_block context inode lbn).2.errno = EFBIG)) :=
  ⟨⟨(map_logical_to_physical_block_frame context inode lbn).1,
    (map_logical_to_physical_block_frame context inode lbn).2.1,
    (map_logical_to_physical_block_frame context inode lbn).2.2.1⟩,
   map_logical_to_physical_block_walk context inode lbn⟩

/-- Witness of C10 at logical block 1037 = 12 + 1024 + 1 of `inodeWalk` on
`devWalk`: every read succeeds, and the walk through blocks 5 and 6 ends at
block 77. -/
theorem C10_map_logical_to_physical_block_witness :
    (∀ b, ctxWalk.device_fd.readable b = true) ∧
    (map_logical_to_physical_block ctxWalk inodeWalk 1037).1 =
      walk_tree ctxWalk.device_fd.data [(1037 - 12 - 1024) / 1024, (1037 - 12 - 1024) % 1024]
        (i_block inodeWalk 13) ∧
    walk_tree ctxWalk.device_fd.data [(1037 - 12 - 1024) / 1024, (1037 - 12 - 1024) % 1024]
        (i_block inodeWalk 13) = 77 :=
  ⟨fun _ => rfl,
   ((C10_map_logical_to_physical_block ctxWalk inodeWalk 1037).2 (fun _ => rfl)).2.2.1
     (by decide) (by decide),
   by decide⟩

/-! ## Truncate -/

/-- Claim C3, the code at the spec's own example. The file has size 12288 and
three mapped blocks; `simplefs_truncate(path, 4097)` returns 0 and changes
nothing: the size read back is still 12288, logical block 2 is still mapped
and `free_blocks_count` is unchanged, where the claim requires size 4097,
block 2 unmapped and one block freed. -/
theorem C3_truncate_shrink_changes_nothing :
    scenario_truncate_shrink = some (1, 0, [12288, 12288], true, true) := by
  decide!

/-! ## Unlink of the last link -/

/-- C6: on a fresh 64-block image `simplefs_mknod` of `/f` succeeds and gives
inode 3 with one link; `simplefs_unlink` of `/f` succeeds and brings
`i_links_count` to 0, yet `s_free_inodes_count` stays at 1021 (it was 1022
before the create) and the bit of inode 3 is still set in the inode bitmap:
`free_inode` returns early for every inode number below `s_first_ino`, while
`alloc_inode` hands those numbers out. -/
theorem C6_unlink_last_link_keeps_inode :
    scenario_unlink_last_link = some ([0, 0, 0], [3, 1, 0, 1022, 1021, 1021], true) := by
  decide!

theorem write_block_some (fd : Device) (b : Nat) (buf : Buf) (d : Device)
    (h : write_block fd b buf = some d) : fd.writable b = true ∧ d = fd.put b buf := by
  unfold write_block at h
  by_cases hw : fd.writable b = true
  · simp only [hw, if_true, Option.some.injEq] at h
    exact ⟨hw, h.symm⟩
  · simp [hw] at h

theorem read_block_some (fd : Device) (b : Nat) (buf : Buf)
    (h : read_block fd b = some buf) : fd.readable b = true ∧ buf = fd.data b := by
  unfold read_block at h
  by_cases hr : fd.readable b = true
  · simp only [hr, if_true, Option.some.injEq] at h
    exact ⟨hr, h.symm⟩
  · simp [hr] at h

theorem alloc_block_target_group_spec (context : SimpleFS_Context) (pref : Nat)
    (hN : alloc_block_target_group context pref ≠ NO_GROUP) :
    alloc_block_target_group context pref < context.gdt.length ∧
    (context.gdt.getD (alloc_block_target_group context pref) default).bg_free_blocks_count > 0 := by
  unfold alloc_block_target_group at hN ⊢
  dsimp only at hN ⊢
  by_cases hp : pref < context.gdt.length ∧
      (context.gdt.getD pref default).bg_free_blocks_count > 0
  · rw [if_pos hp] at hN ⊢
    by_cases hpn : pref = NO_GROUP
    · rw [if_pos hpn] at hN ⊢
      cases hf : firstIdx (fun i => decide ((context.gdt.getD i default).bg_free_blocks_count > 0))
          context.gdt.length 0 with
      | none => rw [hf] at hN; exact absurd rfl hN
      | some i =>
        obtain ⟨_, h2, h3, _⟩ := firstIdx_some _ _ _ _ hf
        exact ⟨by simpa using h2, by simpa using h3⟩
    · rw [if_neg hpn]; exact hp
  · rw [if_neg hp, if_pos rfl] at hN ⊢
    cases hf : firstIdx (fun i => decide ((context.gdt.getD i default).bg_free_blocks_count > 0))
        context.gdt.length 0 with
    | none => rw [hf] at hN; exact absurd rfl hN
    | some i =>
      obtain ⟨_, h2, h3, _⟩ := firstIdx_some _ _ _ _ hf
      exact ⟨by simpa using h2, by simpa using h3⟩

theorem alloc_block_cases (context : SimpleFS_Context) (pref : Nat) :
    (∃ e, alloc_block context pref = (0, setErrno context e)) ∨
    (∃ g bit, g < context.gdt.length ∧ bit < context.sb.s_blocks_per_group ∧
      context.sb.s_free_blocks_count ≠ 0 ∧
      (context.gdt.getD g default).bg_free_blocks_count > 0 ∧
      context.device_fd.readable (context.gdt.getD g default).bg_block_bitmap = true ∧
      context.device_fd.writable (context.gdt.getD g default).bg_block_bitmap = true ∧
      is_bitmap_bit_set (context.device_fd.data (context.gdt.getD g default).bg_block_bitmap)
        SIMPLEFS_BLOCK_SIZE bit = false ∧
      ¬ (u32 (g * context.sb.s_blocks_per_group + bit) = 0 ∧ g = 0 ∧ bit = 0) ∧
      u32 (g * context.sb.s_blocks_per_group + bit) < context.sb.s_blocks_count ∧
      alloc_block context pref =
        (u32 (g * context.sb.s_blocks_per_group + bit), block_taken context g bit)) := by
  unfold alloc_block
  by_cases h0 : context.sb.s_free_blocks_count = 0
  · left; exact ⟨ENOSPC, by rw [if_pos h0]⟩
  rw [if_neg h0]
  dsimp only
  by_cases hN : alloc_block_target_group context pref = NO_GROUP
  · left; exact ⟨ENOSPC, by rw [if_pos hN]⟩
  rw [if_neg hN]
  have hT2 := alloc_block_target_group_spec context pref hN
  generalize alloc_block_target_group context pref = T at hT2 ⊢
  cases hr : read_block context.device_fd (context.gdt.getD T default).bg_block_bitmap with
  | none => left; exact ⟨ EIO, rfl⟩
  | some bm =>
    obtain ⟨hr1, hr2⟩ := read_block_some _ _ _ hr
    dsimp only
    cases hf : firstIdx (fun bit_idx =>
        !is_bitmap_bit_set bm SIMPLEFS_BLOCK_SIZE bit_idx &&
        (!(decide (u32 (T * context.sb.s_blocks_per_group + bit_idx) = 0 ∧ T = 0 ∧ bit_idx = 0)) &&
         !(decide (u32 (T * context.sb.s_blocks_per_group + bit_idx) ≥ context.sb.s_blocks_count))))
        context.sb.s_blocks_per_group 0 with
    | none => left; exact ⟨ENOSPC, rfl⟩
    | some bit =>
      obtain ⟨_, f2, f3, _⟩ := firstIdx_some _ _ _ _ hf
      simp only [Bool.and_eq_true, Bool.not_eq_true', decide_eq_false_iff_not] at f3
      dsimp only
      cases hw : write_block context.device_fd (context.gdt.getD T default).bg_block_bitmap
          (set_bitmap_bit bm SIMPLEFS_BLOCK_SIZE bit) with
      | none => left; exact ⟨ EIO, rfl⟩
      | some dev =>
        obtain ⟨hw1, hw2⟩ := write_block_some _ _ _ _ hw
        right
        refine ⟨T, bit, hT2.1, by omega, h0, hT2.2, hr1, hw1, by rw [← hr2]; exact f3.1,
          f3.2.1, by have := f3.2.2; omega, ?_⟩
        simp only [block_taken, hw2, hr2]

theorem countP_range_congr (p q : Nat → Bool) (n : Nat)
    (h : ∀ x, x < n → q x = p x) : (List.range n).countP q = (List.range n).countP p := by
  apply List.countP_congr
  intro x hx
  rw [h x (List.mem_range.mp hx)]

theorem countP_range_flip (p q : Nat → Bool) (n b : Nat) (hb : b < n)
    (hne : ∀ x, x < n → x ≠ b → q x = p x) (hp : p b = false) (hq : q b = true) :
    (List.range n).countP q = (List.range n).countP p + 1 := by
  induction n with
  | zero => omega
  | succ n ih =>
    rw [List.range_succ, List.countP_append, List.countP_append]
    by_cases hbn : b = n
    · subst hbn
      rw [countP_range_congr p q b (fun x hx => hne x (by omega) (by omega))]
      simp [List.countP_cons, hp, hq]
    · have := ih (by omega) (fun x hx hxb => hne x (by omega) hxb)
      have hn : q n = p n := hne n (by omega) (fun h => hbn h.symm)
      simp only [List.countP_cons, List.countP_nil, hn]
      omega

theorem countP_range_lt (p : Nat → Bool) (n b : Nat) (hb : b < n) (hp : p b = false) :
    (List.range n).countP p < n := by
  have h := countP_range_flip p (fun x => if x = b then true else p x) n b hb
    (fun x _ hx => by simp [hx]) hp (by simp)
  have h2 := List.countP_le_length (fun x => if x = b then true else p x) (l := List.range n)
  rw [List.length_range] at h2
  omega

theorem sum_map_set {α : Type} [Inhabited α] (f : α → Nat) (l : List α) (g : Nat) (x : α)
    (hg : g < l.length) :
    ((l.set g x).map f).sum + f (l.getD g default) = (l.map f).sum + f x := by
  induction l generalizing g with
  | nil => simp at hg
  | cons a l ih =>
    cases g with
    | zero => simp; omega
    | succ g =>
      have := ih g (by simpa using hg)
      simp only [List.set_cons_succ, List.map_cons, List.sum_cons, List.getD_cons_succ]
      omega

theorem getD_set {α : Type} (l : List α) (g g' : Nat) (x d : α) :
    (l.set g x).getD g' d = if g = g' ∧ g < l.length then x else l.getD g' d := by
  simp only [List.getD_eq_getElem?_getD, List.getElem?_set]
  by_cases h : g = g'
  · subst h
    by_cases h2 : g < l.length
    · simp [h2]
    · simp [h2, List.getElem?_eq_none (not_lt.mp h2)]
  · simp [h]

/-- Setting bit `bit` of the bitmap of group `g`, seen through the map from an
index to its group and bit. -/
theorem family_set (data : Nat → Buf) (bm : Nat → Nat) (per N L g bit idx : Nat)
    (hinj : ∀ a b, a < L → b < L → bm a = bm b → a = b)
    (hN : N ≤ L * per) (hg : g < L) (hbit : bit < per) (hper : per ≤ 32768) (hidx : idx < N) :
    is_bitmap_bit_set
      ((fun b => if b = bm g then set_bitmap_bit (data (bm g)) SIMPLEFS_BLOCK_SIZE bit
        else data b) (bm (idx / per))) SIMPLEFS_BLOCK_SIZE (idx % per)
      = (decide (idx = g * per + bit) ||
          is_bitmap_bit_set (data (bm (idx / per))) SIMPLEFS_BLOCK_SIZE (idx % per)) := by
  have hp : 0 < per := by omega
  have hidxg : idx / per < L := by
    apply Nat.div_lt_of_lt_mul
    calc idx < N := hidx
      _ ≤ L * per := hN
      _ = per * L := Nat.mul_comm _ _
  dsimp only
  by_cases hgg : idx / per = g
  · rw [hgg, if_pos rfl, is_bitmap_bit_set_set _ _ _ _ (by simp [SIMPLEFS_BLOCK_SIZE]; omega)]
    congr 1
    have := Nat.div_add_mod idx per
    rw [hgg] at this
    apply decide_eq_decide.mpr
    constructor
    · intro h; rw [Nat.mul_comm]; omega
    · intro h; rw [h, Nat.mul_comm, Nat.mul_add_mod, Nat.mod_eq_of_lt hbit]
  · have hne : bm (idx / per) ≠ bm g := fun h => hgg (hinj _ _ hidxg hg h)
    rw [if_neg hne]
    have : idx ≠ g * per + bit := by
      intro h; apply hgg; rw [h, Nat.mul_comm, Nat.mul_add_div hp, Nat.div_eq_of_lt hbit]; rfl
    simp [this]

theorem family_clear (data : Nat → Buf) (bm : Nat → Nat) (per N L g bit idx : Nat)
    (hinj : ∀ a b, a < L → b < L → bm a = bm b → a = b)
    (hN : N ≤ L * per) (hg : g < L) (hbit : bit < per) (hper : per ≤ 32768) (hidx : idx < N) :
    is_bitmap_bit_set
      ((fun b => if b = bm g then clear_bitmap_bit (data (bm g)) SIMPLEFS_BLOCK_SIZE bit
        else data b) (bm (idx / per))) SIMPLEFS_BLOCK_SIZE (idx % per)
      = (!decide (idx = g * per + bit) &&
          is_bitmap_bit_set (data (bm (idx / per))) SIMPLEFS_BLOCK_SIZE (idx % per)) := by
  have hp : 0 < per := by omega
  have hidxg : idx / per < L := by
    apply Nat.div_lt_of_lt_mul
    calc idx < N := hidx
      _ ≤ L * per := hN
      _ = per * L := Nat.mul_comm _ _
  have hm : idx % per < per := Nat.mod_lt _ hp
  dsimp only
  by_cases hgg : idx / per = g
  · rw [hgg, if_pos rfl, is_bitmap_bit_set_clear _ _ _ _ (by simp [SIMPLEFS_BLOCK_SIZE]; omega)
      (by simp [SIMPLEFS_BLOCK_SIZE]; omega)]
    congr 2
    have := Nat.div_add_mod idx per
    rw [hgg] at this
    apply decide_eq_decide.mpr
    constructor
    · intro h; rw [Nat.mul_comm]; omega
    · intro h; rw [h, Nat.mul_comm, Nat.mul_add_mod, Nat.mod_eq_of_lt hbit]
  · have hne : bm (idx / per) ≠ bm g := fun h => hgg (hinj _ _ hidxg hg h)
    rw [if_neg hne]
    have : idx ≠ g * per + bit := by
      intro h; apply hgg; rw [h, Nat.mul_comm, Nat.mul_add_div hp, Nat.div_eq_of_lt hbit]; rfl
    simp [this]

theorem free_block_cases (context : SimpleFS_Context) (b : Nat) :
    free_block context b = context ∨
    (b ≠ 0 ∧ b < context.sb.s_blocks_count ∧
      b / context.sb.s_blocks_per_group < context.gdt.length ∧
      context.device_fd.readable
        (context.gdt.getD (b / context.sb.s_blocks_per_group) default).bg_block_bitmap = true ∧
      context.device_fd.writable
        (context.gdt.getD (b / context.sb.s_blocks_per_group) default).bg_block_bitmap = true ∧
      free_block context b = block_given context (b / context.sb.s_blocks_per_group)
        (b % context.sb.s_blocks_per_group)) := by
  unfold free_block
  by_cases h0 : b = 0 ∨ b ≥ context.sb.s_blocks_count
  · left; rw [if_pos h0]
  rw [if_neg h0]
  dsimp only
  by_cases hg : b / context.sb.s_blocks_per_group ≥ context.gdt.length
  · left; rw [if_pos hg]
  rw [if_neg hg]
  cases hr : read_block context.device_fd
      (context.gdt.getD (b / context.sb.s_blocks_per_group) default).bg_block_bitmap with
  | none => left; rfl
  | some bm =>
    obtain ⟨hr1, hr2⟩ := read_block_some _ _ _ hr
    dsimp only
    cases hw : write_block context.device_fd
        (context.gdt.getD (b / context.sb.s_blocks_per_group) default).bg_block_bitmap
        (clear_bitmap_bit bm SIMPLEFS_BLOCK_SIZE (b % context.sb.s_blocks_per_group)) with
    | none => left; rfl
    | some dev =>
      obtain ⟨hw1, hw2⟩ := write_block_some _ _ _ _ hw
      right
      refine ⟨by omega, by omega, by omega, hr1, hw1, ?_⟩
      simp only [block_given, hw2, hr2]

theorem free_inode_cases (context : SimpleFS_Context) (n mode : Nat) :
    free_inode context n mode = context ∨
    (n ≠ 0 ∧ n ≤ context.sb.s_inodes_count ∧ context.sb.s_first_ino ≤ n ∧
      (n - 1) / context.sb.s_inodes_per_group < context.gdt.length ∧
      context.device_fd.readable
        (context.gdt.getD ((n - 1) / context.sb.s_inodes_per_group) default).bg_inode_bitmap
          = true ∧
      context.device_fd.writable
        (context.gdt.getD ((n - 1) / context.sb.s_inodes_per_group) default).bg_inode_bitmap
          = true ∧
      free_inode context n mode = inode_given context mode
        ((n - 1) / context.sb.s_inodes_per_group) ((n - 1) % context.sb.s_inodes_per_group)) := by
  unfold free_inode
  by_cases h0 : n = 0 ∨ n > context.sb.s_inodes_count
  · left; rw [if_pos h0]
  rw [if_neg h0]
  by_cases h1 : n < context.sb.s_first_ino ∧ n ≠ 0
  · left; rw [if_pos h1]
  rw [if_neg h1]
  dsimp only
  by_cases hg : (n - 1) / context.sb.s_inodes_per_group ≥ context.gdt.length
  · left; rw [if_pos hg]
  rw [if_neg hg]
  cases hr : read_block context.device_fd
      (context.gdt.getD ((n - 1) / context.sb.s_inodes_per_group) default).bg_inode_bitmap with
  | none => left; rfl
  | some bm =>
    obtain ⟨hr1, hr2⟩ := read_block_some _ _ _ hr
    dsimp only
    cases hw : write_block context.device_fd
        (context.gdt.getD ((n - 1) / context.sb.s_inodes_per_group) default).bg_inode_bitmap
        (clear_bitmap_bit bm SIMPLEFS_BLOCK_SIZE ((n - 1) % context.sb.s_inodes_per_group)) with
    | none => left; rfl
    | some dev =>
      obtain ⟨hw1, hw2⟩ := write_block_some _ _ _ _ hw
      right
      refine ⟨by omega, by omega, by omega, by omega, hr1, hw1, ?_⟩
      simp only [inode_given, hw2, hr2]
      generalize context.gdt.getD ((n - 1) / context.sb.s_inodes_per_group) default = gd
      by_cases hd : S_ISDIR mode = true
      · by_cases hu : gd.bg_used_dirs_count > 0
        · simp [hd, hu]
        · simp [hd, hu]
      · simp [hd]

theorem alloc_inode_loop_cases (context : SimpleFS_Context) (mode : Nat)
    (h0 : context.sb.s_free_inodes_count ≠ 0) (remaining start : Nat)
    (hs : start + remaining ≤ context.gdt.length) :
    (∃ e, alloc_inode_loop context mode remaining start = (0, setErrno context e)) ∨
    (∃ g bit, g < context.gdt.length ∧ bit < context.sb.s_inodes_per_group ∧
      context.sb.s_free_inodes_count ≠ 0 ∧
      (context.gdt.getD g default).bg_free_inodes_count > 0 ∧
      context.device_fd.readable (context.gdt.getD g default).bg_inode_bitmap = true ∧
      context.device_fd.writable (context.gdt.getD g default).bg_inode_bitmap = true ∧
      is_bitmap_bit_set (context.device_fd.data (context.gdt.getD g default).bg_inode_bitmap)
        SIMPLEFS_BLOCK_SIZE bit = false ∧
      u32 (g * context.sb.s_inodes_per_group + bit + 1) ≠ 0 ∧
      u32 (g * context.sb.s_inodes_per_group + bit + 1) ≤ context.sb.s_inodes_count ∧
      alloc_inode_loop context mode remaining start =
        (u32 (g * context.sb.s_inodes_per_group + bit + 1), inode_taken context mode g bit)) := by
  induction remaining generalizing start with
  | zero => left; exact ⟨ENOSPC, rfl⟩
  | succ r ih =>
    have ih2 := ih (start + 1) (by omega)
    unfold alloc_inode_loop
    dsimp only
    by_cases hf : (context.gdt.getD start default).bg_free_inodes_count > 0
    · rw [if_pos hf]
      cases hr : read_block context.device_fd (context.gdt.getD start default).bg_inode_bitmap with
      | none => exact ih2
      | some bm =>
        obtain ⟨hr1, hr2⟩ := read_block_some _ _ _ hr
        dsimp only
        cases hfi : firstIdx (fun bit_idx =>
            !is_bitmap_bit_set bm SIMPLEFS_BLOCK_SIZE bit_idx &&
            !(decide (u32 (start * context.sb.s_inodes_per_group + bit_idx + 1) = 0) ||
              decide (u32 (start * context.sb.s_inodes_per_group + bit_idx + 1) >
                context.sb.s_inodes_count)))
            context.sb.s_inodes_per_group 0 with
        | none => exact ih2
        | some bit =>
          obtain ⟨_, f2, f3, _⟩ := firstIdx_some _ _ _ _ hfi
          simp only [Bool.and_eq_true, Bool.not_eq_true', decide_eq_false_iff_not,
            Bool.or_eq_false_iff] at f3
          dsimp only
          cases hw : write_block context.device_fd (context.gdt.getD start default).bg_inode_bitmap
              (set_bitmap_bit bm SIMPLEFS_BLOCK_SIZE bit) with
          | none => left; exact ⟨ EIO, rfl⟩
          | some dev =>
            obtain ⟨hw1, hw2⟩ := write_block_some _ _ _ _ hw
            right
            refine ⟨start, bit, by omega, by omega, h0, hf, hr1, hw1, by rw [← hr2]; exact f3.1,
              f3.2.1, by have := f3.2.2; omega, ?_⟩
            simp only [inode_taken, hw2, hr2]
            generalize context.gdt.getD start default = gd
            by_cases hd : S_ISDIR mode = true
            · simp [hd]
            · simp [hd]
    · rw [if_neg hf]; exact ih2

theorem alloc_inode_cases (context : SimpleFS_Context) (mode : Nat) :
    (∃ e, alloc_inode context mode = (0, setErrno context e)) ∨
    (∃ g bit, g < context.gdt.length ∧ bit < context.sb.s_inodes_per_group ∧
      context.sb.s_free_inodes_count ≠ 0 ∧
      (context.gdt.getD g default).bg_free_inodes_count > 0 ∧
      context.device_fd.readable (context.gdt.getD g default).bg_inode_bitmap = true ∧
      context.device_fd.writable (context.gdt.getD g default).bg_inode_bitmap = true ∧
      is_bitmap_bit_set (context.device_fd.data (context.gdt.getD g default).bg_inode_bitmap)
        SIMPLEFS_BLOCK_SIZE bit = false ∧
      u32 (g * context.sb.s_inodes_per_group + bit + 1) ≠ 0 ∧
      u32 (g * context.sb.s_inodes_per_group + bit + 1) ≤ context.sb.s_inodes_count ∧
      alloc_inode context mode =
        (u32 (g * context.sb.s_inodes_per_group + bit + 1), inode_taken context mode g bit)) := by
  unfold alloc_inode
  by_cases h0 : context.sb.s_free_inodes_count = 0
  · left; exact ⟨ENOSPC, by rw [if_pos h0]⟩
  rw [if_neg h0]
  exact alloc_inode_loop_cases context mode h0 _ 0 (by omega)

theorem dec32_of_pos (x : Nat) (h : 0 < x) (h2 : x ≤ 4294967296) : dec32 x = x - 1 := by
  unfold dec32
  rw [if_neg (by omega), Nat.mod_eq_of_lt (by omega)]

theorem dec16_of_pos (x : Nat) (h : 0 < x) (h2 : x ≤ 65536) : dec16 x = x - 1 := by
  unfold dec16
  rw [if_neg (by omega), Nat.mod_eq_of_lt (by omega)]

theorem inc32_of_lt (x : Nat) (h : x + 1 < 4294967296) : inc32 x = x + 1 := by
  unfold inc32
  rw [Nat.mod_eq_of_lt h]

theorem inc16_of_lt (x : Nat) (h : x + 1 < 65536) : inc16 x = x + 1 := by
  unfold inc16
  rw [Nat.mod_eq_of_lt h]

theorem block_bit_set_eq (context : SimpleFS_Context) (b : Nat) :
    block_bit_set context b =
      is_bitmap_bit_set (context.device_fd.data
        (context.gdt.getD (b / context.sb.s_blocks_per_group) default).bg_block_bitmap)
        SIMPLEFS_BLOCK_SIZE (b % context.sb.s_blocks_per_group) := rfl

theorem block_taken_bpg (context : SimpleFS_Context) (g bit : Nat) :
    (block_taken context g bit).sb.s_blocks_per_group = context.sb.s_blocks_per_group := rfl

theorem block_taken_blocks_count (context : SimpleFS_Context) (g bit : Nat) :
    (block_taken context g bit).sb.s_blocks_count = context.sb.s_blocks_count := rfl

theorem block_taken_free (context : SimpleFS_Context) (g bit : Nat) :
    (block_taken context g bit).sb.s_free_blocks_count =
      dec32 context.sb.s_free_blocks_count := rfl

theorem block_taken_gdt (context : SimpleFS_Context) (g bit : Nat) :
    (block_taken context g bit).gdt = context.gdt.set g
      { context.gdt.getD g default with
        bg_free_blocks_count := dec16 (context.gdt.getD g default).bg_free_blocks_count } := rfl

theorem block_taken_data (context : SimpleFS_Context) (g bit x : Nat) :
    (block_taken context g bit).device_fd.data x =
      if x = (context.gdt.getD g default).bg_block_bitmap then
        set_bitmap_bit (context.device_fd.data (context.gdt.getD g default).bg_block_bitmap)
          SIMPLEFS_BLOCK_SIZE bit
      else context.device_fd.data x := rfl

theorem block_given_bpg (context : SimpleFS_Context) (g bit : Nat) :
    (block_given context g bit).sb.s_blocks_per_group = context.sb.s_blocks_per_group := rfl

theorem block_given_blocks_count (context : SimpleFS_Context) (g bit : Nat) :
    (block_given context g bit).sb.s_blocks_count = context.sb.s_blocks_count := rfl

theorem block_given_free (context : SimpleFS_Context) (g bit : Nat) :
    (block_given context g bit).sb.s_free_blocks_count =
      inc32 context.sb.s_free_blocks_count := rfl

theorem block_given_gdt (context : SimpleFS_Context) (g bit : Nat) :
    (block_given context g bit).gdt = context.gdt.set g
      { context.gdt.getD g default with
        bg_free_blocks_count := inc16 (context.gdt.getD g default).bg_free_blocks_count } := rfl

theorem block_given_data (context : SimpleFS_Context) (g bit x : Nat) :
    (block_given context g bit).device_fd.data x =
      if x = (context.gdt.getD g default).bg_block_bitmap then
        clear_bitmap_bit (context.device_fd.data (context.gdt.getD g default).bg_block_bitmap)
          SIMPLEFS_BLOCK_SIZE bit
      else context.device_fd.data x := rfl

theorem block_bit_set_block_taken (context : SimpleFS_Context) (hl : block_layout_ok context)
    (g bit b : Nat) (hg : g < context.gdt.length) (hbit : bit < context.sb.s_blocks_per_group)
    (hb : b < context.sb.s_blocks_count) :
    block_bit_set (block_taken context g bit) b =
      (decide (b = g * context.sb.s_blocks_per_group + bit) || block_bit_set context b) := by
  obtain ⟨h1, h2, _, _, h5, _⟩ := hl
  have := family_set context.device_fd.data
    (fun a => (context.gdt.getD a default).bg_block_bitmap) context.sb.s_blocks_per_group
    context.sb.s_blocks_count context.gdt.length g bit b
    (fun x y hx hy h => h5 x hx y hy h) h2 hg hbit h1 hb
  rw [block_bit_set_eq, block_bit_set_eq, block_taken_bpg, block_taken_gdt, block_taken_data,
    getD_set]
  rw [← this]
  by_cases hgg : g = b / context.sb.s_blocks_per_group ∧ g < context.gdt.length
  · rw [if_pos hgg, ← hgg.1]
  · rw [if_neg hgg]

theorem block_bit_set_block_given (context : SimpleFS_Context) (hl : block_layout_ok context)
    (g bit b : Nat) (hg : g < context.gdt.length) (hbit : bit < context.sb.s_blocks_per_group)
    (hb : b < context.sb.s_blocks_count) :
    block_bit_set (block_given context g bit) b =
      (!decide (b = g * context.sb.s_blocks_per_group + bit) && block_bit_set context b) := by
  obtain ⟨h1, h2, _, _, h5, _⟩ := hl
  have := family_clear context.device_fd.data
    (fun a => (context.gdt.getD a default).bg_block_bitmap) context.sb.s_blocks_per_group
    context.sb.s_blocks_count context.gdt.length g bit b
    (fun x y hx hy h => h5 x hx y hy h) h2 hg hbit h1 hb
  rw [block_bit_set_eq, block_bit_set_eq, block_given_bpg, block_given_gdt, block_given_data,
    getD_set]
  rw [← this]
  by_cases hgg : g = b / context.sb.s_blocks_per_group ∧ g < context.gdt.length
  · rw [if_pos hgg, ← hgg.1]
  · rw [if_neg hgg]

theorem blocks_consistent_alloc_block (context : SimpleFS_Context) (pref : Nat)
    (hl : block_layout_ok context) (hc : blocks_consistent context) :
    blocks_consistent (alloc_block context pref).2 := by
  rcases alloc_block_cases context pref with ⟨e, he⟩ | ⟨g, bit, hg, hbit, h0, hgd, _, _, hclr, _, hlt, he⟩
  · rw [he]; exact hc
  rw [he]
  have hl2 := hl
  obtain ⟨h1, h2, h3, h4, h5, h6⟩ := hl
  have hb : g * context.sb.s_blocks_per_group + bit < context.sb.s_blocks_count := by
    have : g * context.sb.s_blocks_per_group + bit <
        context.gdt.length * context.sb.s_blocks_per_group := by
      calc g * context.sb.s_blocks_per_group + bit
          < g * context.sb.s_blocks_per_group + context.sb.s_blocks_per_group := by omega
        _ = (g + 1) * context.sb.s_blocks_per_group := by ring
        _ ≤ context.gdt.length * context.sb.s_blocks_per_group :=
          Nat.mul_le_mul_right _ (by omega)
    rw [u32, Nat.mod_eq_of_lt (by omega)] at hlt
    exact hlt
  have hbits : free_block_bits context = free_block_bits (block_taken context g bit) + 1 := by
    unfold free_block_bits
    show List.countP _ (List.range context.sb.s_blocks_count) =
      List.countP _ (List.range context.sb.s_blocks_count) + 1
    apply countP_range_flip _ _ _ (g * context.sb.s_blocks_per_group + bit) hb
    · intro x hx hne
      rw [block_bit_set_block_taken context hl2 g bit x hg hbit hx]
      simp [hne]
    · rw [block_bit_set_block_taken context hl2 g bit _ hg hbit hb]
      simp
    · have : block_bit_set context (g * context.sb.s_blocks_per_group + bit) = false := by
        have hp : 0 < context.sb.s_blocks_per_group := by omega
        simp only [block_bit_set]
        rw [Nat.mul_comm, Nat.mul_add_div hp, Nat.div_eq_of_lt hbit, Nat.mul_add_mod,
          Nat.mod_eq_of_lt hbit]
        exact hclr
      simp [this]
  have hsum := sum_map_set (fun gd => gd.bg_free_blocks_count) context.gdt g
    { context.gdt.getD g default with
      bg_free_blocks_count := dec16 (context.gdt.getD g default).bg_free_blocks_count } hg
  have hgb := h6 g hg
  have hbl := List.countP_le_length (fun b => !block_bit_set context b)
    (l := List.range context.sb.s_blocks_count)
  rw [List.length_range] at hbl
  obtain ⟨c1, c2⟩ := hc
  unfold free_block_bits at c2 hbits
  unfold gdt_free_blocks at c1
  refine ⟨?_, ?_⟩
  · show dec32 context.sb.s_free_blocks_count = (List.map _ (context.gdt.set g _)).sum
    rw [dec32_of_pos _ (by omega) (by omega)]
    have hd := dec16_of_pos _ hgd (show (context.gdt.getD g default).bg_free_blocks_count ≤ 65536 by omega)
    simp only [] at hsum
    omega
  · show dec32 context.sb.s_free_blocks_count = free_block_bits (block_taken context g bit)
    unfold free_block_bits
    rw [dec32_of_pos _ (by omega) (by omega)]
    omega

theorem blocks_consistent_free_block (context : SimpleFS_Context) (b : Nat)
    (hl : block_layout_ok context) (hc : blocks_consistent context)
    (hset : block_bit_set context b = true ∨ free_block context b = context) :
    blocks_consistent (free_block context b) := by
  rcases free_block_cases context b with he | ⟨hb0, hb, hg, _, _, he⟩
  · rw [he]; exact hc
  rcases hset with hset | hset
  swap
  · rw [hset]; exact hc
  rw [he]
  have hl2 := hl
  obtain ⟨h1, h2, h3, h4, h5, h6⟩ := hl
  have hp : 0 < context.sb.s_blocks_per_group := by
    rcases Nat.eq_zero_or_pos context.sb.s_blocks_per_group with h | h
    · rw [h] at h2; omega
    · exact h
  have hbit : b % context.sb.s_blocks_per_group < context.sb.s_blocks_per_group :=
    Nat.mod_lt _ hp
  have hbeq : b / context.sb.s_blocks_per_group * context.sb.s_blocks_per_group +
      b % context.sb.s_blocks_per_group = b := by
    rw [Nat.mul_comm]; exact Nat.div_add_mod b _
  have hbits : free_block_bits (block_given context (b / context.sb.s_blocks_per_group)
      (b % context.sb.s_blocks_per_group)) = free_block_bits context + 1 := by
    unfold free_block_bits
    show List.countP _ (List.range context.sb.s_blocks_count) =
      List.countP _ (List.range context.sb.s_blocks_count) + 1
    apply countP_range_flip _ _ _ b hb
    · intro x hx hne
      rw [block_bit_set_block_given context hl2 _ _ x hg hbit hx, hbeq]
      simp [hne]
    · simp [hset]
    · rw [block_bit_set_block_given context hl2 _ _ b hg hbit hb, hbeq]
      simp
  have hsum := sum_map_set (fun gd => gd.bg_free_blocks_count) context.gdt
    (b / context.sb.s_blocks_per_group)
    { context.gdt.getD (b / context.sb.s_blocks_per_group) default with
      bg_free_blocks_count :=
        inc16 (context.gdt.getD (b / context.sb.s_blocks_per_group) default).bg_free_blocks_count }
    hg
  have hgb := h6 _ hg
  have hbl := countP_range_lt (fun b => !block_bit_set context b) context.sb.s_blocks_count b hb
    (by simp [hset])
  obtain ⟨c1, c2⟩ := hc
  unfold free_block_bits at c2 hbits
  unfold gdt_free_blocks at c1
  refine ⟨?_, ?_⟩
  · show inc32 context.sb.s_free_blocks_count = (List.map _ (context.gdt.set _ _)).sum
    rw [inc32_of_lt _ (by omega)]
    have hd := inc16_of_lt (context.gdt.getD (b / context.sb.s_blocks_per_group) default).bg_free_blocks_count (by omega)
    simp only [] at hsum
    omega
  · show inc32 context.sb.s_free_blocks_count = free_block_bits (block_given context _ _)
    unfold free_block_bits
    rw [inc32_of_lt _ (by omega)]
    omega

theorem inode_bit_set_succ (context : SimpleFS_Context) (i : Nat) :
    inode_bit_set context (i + 1) =
      is_bitmap_bit_set (context.device_fd.data
        (context.gdt.getD (i / context.sb.s_inodes_per_group) default).bg_inode_bitmap)
        SIMPLEFS_BLOCK_SIZE (i % context.sb.s_inodes_per_group) := by
  unfold inode_bit_set
  rw [Nat.add_sub_cancel]

theorem inode_taken_ipg (context : SimpleFS_Context) (mode g bit : Nat) :
    (inode_taken context mode g bit).sb.s_inodes_per_group = context.sb.s_inodes_per_group := rfl

theorem inode_taken_inodes_count (context : SimpleFS_Context) (mode g bit : Nat) :
    (inode_taken context mode g bit).sb.s_inodes_count = context.sb.s_inodes_count := rfl

theorem inode_taken_free (context : SimpleFS_Context) (mode g bit : Nat) :
    (inode_taken context mode g bit).sb.s_free_inodes_count =
      dec32 context.sb.s_free_inodes_count := rfl

theorem inode_taken_gdt (context : SimpleFS_Context) (mode g bit : Nat) :
    (inode_taken context mode g bit).gdt = context.gdt.set g
      { context.gdt.getD g default with
        bg_free_inodes_count := dec16 (context.gdt.getD g default).bg_free_inodes_count
        bg_used_dirs_count :=
          if S_ISDIR mode then inc16 (context.gdt.getD g default).bg_used_dirs_count
          else (context.gdt.getD g default).bg_used_dirs_count } := rfl

theorem inode_taken_data (context : SimpleFS_Context) (mode g bit x : Nat) :
    (inode_taken context mode g bit).device_fd.data x =
      if x = (context.gdt.getD g default).bg_inode_bitmap then
        set_bitmap_bit (context.device_fd.data (context.gdt.getD g default).bg_inode_bitmap)
          SIMPLEFS_BLOCK_SIZE bit
      else context.device_fd.data x := rfl

theorem inode_given_ipg (context : SimpleFS_Context) (mode g bit : Nat) :
    (inode_given context mode g bit).sb.s_inodes_per_group = context.sb.s_inodes_per_group := rfl

theorem inode_given_inodes_count (context : SimpleFS_Context) (mode g bit : Nat) :
    (inode_given context mode g bit).sb.s_inodes_count = context.sb.s_inodes_count := rfl

theorem inode_given_free (context : SimpleFS_Context) (mode g bit : Nat) :
    (inode_given context mode g bit).sb.s_free_inodes_count =
      inc32 context.sb.s_free_inodes_count := rfl

theorem inode_given_gdt (context : SimpleFS_Context) (mode g bit : Nat) :
    (inode_given context mode g bit).gdt = context.gdt.set g
      { context.gdt.getD g default with
        bg_free_inodes_count := inc16 (context.gdt.getD g default).bg_free_inodes_count
        bg_used_dirs_count :=
          if S_ISDIR mode ∧ (context.gdt.getD g default).bg_used_dirs_count > 0 then
            dec16 (context.gdt.getD g default).bg_used_dirs_count
          else (context.gdt.getD g default).bg_used_dirs_count } := rfl

theorem inode_given_data (context : SimpleFS_Context) (mode g bit x : Nat) :
    (inode_given context mode g bit).device_fd.data x =
      if x = (context.gdt.getD g default).bg_inode_bitmap then
        clear_bitmap_bit (context.device_fd.data (context.gdt.getD g default).bg_inode_bitmap)
          SIMPLEFS_BLOCK_SIZE bit
      else context.device_fd.data x := rfl

theorem inode_bit_set_inode_taken (context : SimpleFS_Context) (hl : inode_layout_ok context)
    (mode g bit i : Nat) (hg : g < context.gdt.length)
    (hbit : bit < context.sb.s_inodes_per_group) (hi : i < context.sb.s_inodes_count) :
    inode_bit_set (inode_taken context mode g bit) (i + 1) =
      (decide (i = g * context.sb.s_inodes_per_group + bit) ||
        inode_bit_set context (i + 1)) := by
  obtain ⟨h1, h2, _, _, h5, _⟩ := hl
  have := family_set context.device_fd.data
    (fun a => (context.gdt.getD a default).bg_inode_bitmap) context.sb.s_inodes_per_group
    context.sb.s_inodes_count context.gdt.length g bit i
    (fun x y hx hy h => h5 x hx y hy h) h2 hg hbit h1 hi
  rw [inode_bit_set_succ, inode_bit_set_succ, inode_taken_ipg, inode_taken_gdt,
    inode_taken_data, getD_set]
  rw [← this]
  by_cases hgg : g = i / context.sb.s_inodes_per_group ∧ g < context.gdt.length
  · rw [if_pos hgg, ← hgg.1]
  · rw [if_neg hgg]

theorem inode_bit_set_inode_given (context : SimpleFS_Context) (hl : inode_layout_ok context)
    (mode g bit i : Nat) (hg : g < context.gdt.length)
    (hbit : bit < context.sb.s_inodes_per_group) (hi : i < context.sb.s_inodes_count) :
    inode_bit_set (inode_given context mode g bit) (i + 1) =
      (!decide (i = g * context.sb.s_inodes_per_group + bit) &&
        inode_bit_set context (i + 1)) := by
  obtain ⟨h1, h2, _, _, h5, _⟩ := hl
  have := family_clear context.device_fd.data
    (fun a => (context.gdt.getD a default).bg_inode_bitmap) context.sb.s_inodes_per_group
    context.sb.s_inodes_count context.gdt.length g bit i
    (fun x y hx hy h => h5 x hx y hy h) h2 hg hbit h1 hi
  rw [inode_bit_set_succ, inode_bit_set_succ, inode_given_ipg, inode_given_gdt,
    inode_given_data, getD_set]
  rw [← this]
  by_cases hgg : g = i / context.sb.s_inodes_per_group ∧ g < context.gdt.length
  · rw [if_pos hgg, ← hgg.1]
  · rw [if_neg hgg]

theorem inodes_consistent_alloc_inode (context : SimpleFS_Context) (mode : Nat)
    (hl : inode_layout_ok context) (hc : inodes_consistent context) :
    inodes_consistent (alloc_inode context mode).2 := by
  rcases alloc_inode_cases context mode with
    ⟨e, he⟩ | ⟨g, bit, hg, hbit, h0, hgd, _, _, hclr, hne, hle, he⟩
  · rw [he]; exact hc
  rw [he]
  have hl2 := hl
  obtain ⟨h1, h2, h3, h4, h5, h6⟩ := hl
  have hb : g * context.sb.s_inodes_per_group + bit < context.sb.s_inodes_count := by
    have : g * context.sb.s_inodes_per_group + bit <
        context.gdt.length * context.sb.s_inodes_per_group := by
      calc g * context.sb.s_inodes_per_group + bit
          < g * context.sb.s_inodes_per_group + context.sb.s_inodes_per_group := by omega
        _ = (g + 1) * context.sb.s_inodes_per_group := by ring
        _ ≤ context.gdt.length * context.sb.s_inodes_per_group :=
          Nat.mul_le_mul_right _ (by omega)
    rw [u32, Nat.mod_eq_of_lt (by omega)] at hle
    omega
  have hbits : free_inode_bits context = free_inode_bits (inode_taken context mode g bit) + 1 := by
    unfold free_inode_bits
    show List.countP _ (List.range context.sb.s_inodes_count) =
      List.countP _ (List.range context.sb.s_inodes_count) + 1
    apply countP_range_flip _ _ _ (g * context.sb.s_inodes_per_group + bit) hb
    · intro x hx hne
      rw [inode_bit_set_inode_taken context hl2 mode g bit x hg hbit hx]
      simp [hne]
    · rw [inode_bit_set_inode_taken context hl2 mode g bit _ hg hbit hb]
      simp
    · have : inode_bit_set context (g * context.sb.s_inodes_per_group + bit + 1) = false := by
        have hp : 0 < context.sb.s_inodes_per_group := by omega
        rw [inode_bit_set_succ]
        rw [Nat.mul_comm, Nat.mul_add_div hp, Nat.div_eq_of_lt hbit, Nat.mul_add_mod,
          Nat.mod_eq_of_lt hbit]
        exact hclr
      simp [this]
  have hsum := sum_map_set (fun gd => gd.bg_free_inodes_count) context.gdt g
    { context.gdt.getD g default with
      bg_free_inodes_count := dec16 (context.gdt.getD g default).bg_free_inodes_count
      bg_used_dirs_count :=
        if S_ISDIR mode then inc16 (context.gdt.getD g default).bg_used_dirs_count
        else (context.gdt.getD g default).bg_used_dirs_count } hg
  have hgb := h6 g hg
  have hbl := List.countP_le_length (fun i => !inode_bit_set context (i + 1))
    (l := List.range context.sb.s_inodes_count)
  rw [List.length_range] at hbl
  obtain ⟨c1, c2⟩ := hc
  unfold free_inode_bits at c2 hbits
  unfold gdt_free_inodes at c1
  refine ⟨?_, ?_⟩
  · show dec32 context.sb.s_free_inodes_count = (List.map _ (context.gdt.set g _)).sum
    rw [dec32_of_pos _ (by omega) (by omega)]
    have hd := dec16_of_pos _ hgd
      (show (context.gdt.getD g default).bg_free_inodes_count ≤ 65536 by omega)
    simp only [] at hsum
    omega
  · show dec32 context.sb.s_free_inodes_count = free_inode_bits (inode_taken context mode g bit)
    unfold free_inode_bits
    rw [dec32_of_pos _ (by omega) (by omega)]
    omega

theorem inodes_consistent_free_inode (context : SimpleFS_Context) (n mode : Nat)
    (hl : inode_layout_ok context) (hc : inodes_consistent context)
    (hset : inode_bit_set context n = true ∨ free_inode context n mode = context) :
    inodes_consistent (free_inode context n mode) := by
  rcases free_inode_cases context n mode with he | ⟨hn0, hn, _, hg, _, _, he⟩
  · rw [he]; exact hc
  rcases hset with hset | hset
  swap
  · rw [hset]; exact hc
  rw [he]
  have hl2 := hl
  obtain ⟨h1, h2, h3, h4, h5, h6⟩ := hl
  have hp : 0 < context.sb.s_inodes_per_group := by
    rcases Nat.eq_zero_or_pos context.sb.s_inodes_per_group with h | h
    · rw [h] at h2; omega
    · exact h
  have hbit : (n - 1) % context.sb.s_inodes_per_group < context.sb.s_inodes_per_group :=
    Nat.mod_lt _ hp
  have hbeq : (n - 1) / context.sb.s_inodes_per_group * context.sb.s_inodes_per_group +
      (n - 1) % context.sb.s_inodes_per_group = n - 1 := by
    rw [Nat.mul_comm]; exact Nat.div_add_mod (n - 1) _
  have hn1 : n - 1 + 1 = n := by omega
  have hi : n - 1 < context.sb.s_inodes_count := by omega
  have hset2 : inode_bit_set context (n - 1 + 1) = true := by rw [hn1]; exact hset
  have hbits : free_inode_bits (inode_given context mode
      ((n - 1) / context.sb.s_inodes_per_group) ((n - 1) % context.sb.s_inodes_per_group)) =
      free_inode_bits context + 1 := by
    unfold free_inode_bits
    show List.countP _ (List.range context.sb.s_inodes_count) =
      List.countP _ (List.range context.sb.s_inodes_count) + 1
    apply countP_range_flip _ _ _ (n - 1) hi
    · intro x hx hne
      rw [inode_bit_set_inode_given context hl2 mode _ _ x hg hbit hx, hbeq]
      simp [hne]
    · simp [hset2]
    · rw [inode_bit_set_inode_given context hl2 mode _ _ (n - 1) hg hbit hi, hbeq]
      simp
  have hsum := sum_map_set (fun gd => gd.bg_free_inodes_count) context.gdt
    ((n - 1) / context.sb.s_inodes_per_group)
    { context.gdt.getD ((n - 1) / context.sb.s_inodes_per_group) default with
      bg_free_inodes_count :=
        inc16 (context.gdt.getD ((n - 1) / context.sb.s_inodes_per_group) default).bg_free_inodes_count
      bg_used_dirs_count :=
        if S_ISDIR mode ∧
            (context.gdt.getD ((n - 1) / context.sb.s_inodes_per_group) default).bg_used_dirs_count > 0
        then dec16
          (context.gdt.getD ((n - 1) / context.sb.s_inodes_per_group) default).bg_used_dirs_count
        else (context.gdt.getD ((n - 1) / context.sb.s_inodes_per_group) default).bg_used_dirs_count }
    hg
  have hgb := h6 _ hg
  have hbl := countP_range_lt (fun i => !inode_bit_set context (i + 1))
    context.sb.s_inodes_count (n - 1) hi (by simp [hset2])
  obtain ⟨c1, c2⟩ := hc
  unfold free_inode_bits at c2 hbits
  unfold gdt_free_inodes at c1
  refine ⟨?_, ?_⟩
  · show inc32 context.sb.s_free_inodes_count = (List.map _ (context.gdt.set _ _)).sum
    rw [inc32_of_lt _ (by omega)]
    have hd := inc16_of_lt
      (context.gdt.getD ((n - 1) / context.sb.s_inodes_per_group) default).bg_free_inodes_count
      (by omega)
    simp only [] at hsum
    omega
  · show inc32 context.sb.s_free_inodes_count = free_inode_bits (inode_given context mode _ _)
    unfold free_inode_bits
    rw [inc32_of_lt _ (by omega)]
    omega

/-! ## Allocator bookkeeping -/

/-- C8: the bookkeeping equalities are preserved by `alloc_block` for every
preferred group and by `alloc_inode` for every mode, and by `free_block` and
`free_inode` whenever the block or inode freed is marked in use (or the call
changes nothing), on every layout in which a group fits its one-block bitmap,
the groups cover the blocks and inodes without 32-bit wrap, the bitmaps of
different groups are different blocks and no group count exceeds the group
size. -/
theorem C8_allocator_bookkeeping (context : SimpleFS_Context) :
    (block_layout_ok context → blocks_consistent context →
      (∀ g, blocks_consistent (alloc_block context g).2) ∧
      (∀ b, block_bit_set context b = true ∨ free_block context b = context →
        blocks_consistent (free_block context b))) ∧
    (inode_layout_ok context → inodes_consistent context →
      (∀ mode, inodes_consistent (alloc_inode context mode).2) ∧
      (∀ n mode, inode_bit_set context n = true ∨ free_inode context n mode = context →
        inodes_consistent (free_inode context n mode))) :=
  ⟨fun hl hc => ⟨fun g => blocks_consistent_alloc_block context g hl hc,
      fun b hb => blocks_consistent_free_block context b hl hc hb⟩,
   fun hl hc => ⟨fun mode => inodes_consistent_alloc_inode context mode hl hc,
      fun n mode hn => inodes_consistent_free_inode context n mode hl hc hn⟩⟩

/-- Witness for C8 on `ctxAlloc`: the layout conditions and both halves of the
invariant hold there, block 2 and inode 11 are marked in use, and the
invariant holds after each of the four allocator calls. -/
theorem C8_allocator_bookkeeping_witness :
    (block_layout_ok ctxAlloc ∧ blocks_consistent ctxAlloc ∧ block_bit_set ctxAlloc 2 = true ∧
      inode_layout_ok ctxAlloc ∧ inodes_consistent ctxAlloc ∧
      inode_bit_set ctxAlloc 11 = true) ∧
    blocks_consistent (alloc_block ctxAlloc 0).2 ∧
    blocks_consistent (free_block ctxAlloc 2) ∧
    inodes_consistent (alloc_inode ctxAlloc S_IFREG).2 ∧
    inodes_consistent (free_inode ctxAlloc 11 S_IFREG) :=
  ⟨by decide!,
    ((C8_allocator_bookkeeping ctxAlloc).1 (by decide!) (by decide!)).1 0,
    ((C8_allocator_bookkeeping ctxAlloc).1 (by decide!) (by decide!)).2 2 (Or.inl (by decide!)),
    ((C8_allocator_bookkeeping ctxAlloc).2 (by decide!) (by decide!)).1 S_IFREG,
    ((C8_allocator_bookkeeping ctxAlloc).2 (by decide!) (by decide!)).2 11 S_IFREG
      (Or.inl (by decide!))⟩

/-- C8, the claim as stated fails: on `ctxAlloc` both halves of the invariant
hold, block 5 and inode 12 are free, and after `free_block 5` and after
`free_inode 12` the superblock count no longer equals the number of clear
bits (the counts are raised although no bit changed). -/
theorem C8_free_of_a_free_block_breaks_bookkeeping :
    ¬ (∀ (context : SimpleFS_Context) (b : Nat), blocks_consistent context →
        blocks_consistent (free_block context b)) ∧
    ¬ (∀ (context : SimpleFS_Context) (n mode : Nat), inodes_consistent context →
        inodes_consistent (free_inode context n mode)) :=
  ⟨fun h => absurd (h ctxAlloc 5 (by decide!)) (by decide!),
   fun h => absurd (h ctxAlloc 12 S_IFREG (by decide!)) (by decide!)⟩

/-! ## Permission check -/

theorem land_pow_eq_zero_iff (x k : Nat) : Nat.land x (2 ^ k) = 0 ↔ x.testBit k = false := by
  have h := land_two_pow_ne_zero x k
  rw [show Nat.shiftLeft 1 k = 2 ^ k from Nat.one_shiftLeft k] at h
  constructor
  · intro h0
    by_contra hc
    exact (h.mpr (by simpa using hc)) h0
  · intro hf
    by_contra hc
    rw [h.mp hc] at hf
    exact Bool.noConfusion hf

theorem land_pow_ne_zero_iff (x k : Nat) : Nat.land x (2 ^ k) ≠ 0 ↔ x.testBit k = true := by
  have h := land_two_pow_ne_zero x k
  rw [show Nat.shiftLeft 1 k = 2 ^ k from Nat.one_shiftLeft k] at h
  exact h

theorem testBit_land_div (mode k : Nat) (hk : k < 3) :
    (Nat.land mode 0o700 / 64).testBit k = ((mode / 64) % 8).testBit k ∧
    (Nat.land mode 0o070 / 8).testBit k = ((mode / 8) % 8).testBit k ∧
    (Nat.land mode 0o007).testBit k = (mode % 8).testBit k := by
  have e1 : Nat.land mode 0o700 / 64 = (mode &&& 448) >>> 6 := by
    rw [Nat.shiftRight_eq_div_pow]; rfl
  have e2 : Nat.land mode 0o070 / 8 = (mode &&& 56) >>> 3 := by
    rw [Nat.shiftRight_eq_div_pow]; rfl
  have e3 : Nat.land mode 0o007 = mode &&& 7 := rfl
  have d1 : mode / 64 = mode >>> 6 := by rw [Nat.shiftRight_eq_div_pow]
  have d2 : mode / 8 = mode >>> 3 := by rw [Nat.shiftRight_eq_div_pow]
  rw [e1, e2, e3, d1, d2]
  rw [show (8 : Nat) = 2 ^ 3 from rfl]
  simp only [Nat.testBit_shiftRight, Nat.testBit_and, Nat.testBit_mod_two_pow, hk, decide_True,
    Bool.true_and]
  interval_cases k <;> simp <;> (repeat' constructor) <;> intro _ <;> decide

/-- The three refusal tests of `check_access`, against the bits of the mask and
of the triad. -/
theorem check_access_tests (mask perms : Nat) :
    (¬ (Nat.land mask R_OK ≠ 0 ∧ Nat.land perms 4 = 0) ∧
     ¬ (Nat.land mask W_OK ≠ 0 ∧ Nat.land perms 2 = 0) ∧
     ¬ (Nat.land mask X_OK ≠ 0 ∧ Nat.land perms 1 = 0)) ↔
    ∀ k, k < 3 → mask.testBit k = true → perms.testBit k = true := by
  have a1 : Nat.land mask R_OK ≠ 0 ↔ mask.testBit 2 = true := land_pow_ne_zero_iff mask 2
  have a2 : Nat.land mask W_OK ≠ 0 ↔ mask.testBit 1 = true := land_pow_ne_zero_iff mask 1
  have a3 : Nat.land mask X_OK ≠ 0 ↔ mask.testBit 0 = true := land_pow_ne_zero_iff mask 0
  have b1 : Nat.land perms 4 = 0 ↔ perms.testBit 2 = false := land_pow_eq_zero_iff perms 2
  have b2 : Nat.land perms 2 = 0 ↔ perms.testBit 1 = false := land_pow_eq_zero_iff perms 1
  have b3 : Nat.land perms 1 = 0 ↔ perms.testBit 0 = false := land_pow_eq_zero_iff perms 0
  rw [a1, a2, a3, b1, b2, b3]
  constructor
  · rintro ⟨h2, h1, h0⟩ k hk hm
    interval_cases k
    · by_contra hc; exact h0 ⟨hm, by simpa using hc⟩
    · by_contra hc; exact h1 ⟨hm, by simpa using hc⟩
    · by_contra hc; exact h2 ⟨hm, by simpa using hc⟩
  · intro h
    refine ⟨?_, ?_, ?_⟩
    · rintro ⟨hm, hp⟩; rw [h 2 (by omega) hm] at hp; exact Bool.noConfusion hp
    · rintro ⟨hm, hp⟩; rw [h 1 (by omega) hm] at hp; exact Bool.noConfusion hp
    · rintro ⟨hm, hp⟩; rw [h 0 (by omega) hm] at hp; exact Bool.noConfusion hp

/-- The triad `check_access` computes has the bits of the selected triad. -/
theorem check_access_perms (caller_context : fuse_context) (inode : Buf) (k : Nat) (hk : k < 3) :
    (if caller_context.uid = i_uid inode then Nat.land (i_mode inode) 0o700 / 64
      else
        if (if caller_context.gid = i_gid inode then true
            else caller_context.process_groups.any (fun supp_gid => decide (supp_gid = i_gid inode)))
            = true
        then Nat.land (i_mode inode) 0o070 / 8 else Nat.land (i_mode inode) 0o007).testBit k
      = (selected_triad caller_context inode).testBit k := by
  obtain ⟨t1, t2, t3⟩ := testBit_land_div (i_mode inode) k hk
  unfold selected_triad
  by_cases hu : caller_context.uid = i_uid inode
  · rw [if_pos hu, if_pos hu, t1]
  · rw [if_neg hu, if_neg hu]
    by_cases hg : caller_context.gid = i_gid inode
    · rw [if_pos hg, if_pos rfl, if_pos (Or.inl hg), t2]
    · rw [if_neg hg]
      by_cases hs : i_gid inode ∈ caller_context.process_groups
      · have : caller_context.process_groups.any (fun supp_gid => decide (supp_gid = i_gid inode))
            = true := by
          rw [List.any_eq_true]; exact ⟨_, hs, by simp⟩
        rw [if_pos this, if_pos (Or.inr hs), t2]
      · have : ¬ caller_context.process_groups.any
            (fun supp_gid => decide (supp_gid = i_gid inode)) = true := by
          rw [List.any_eq_true]
          rintro ⟨x, hx, hx2⟩
          have : x = i_gid inode := by simpa using hx2
          exact hs (this ▸ hx)
        rw [if_neg this, if_neg (by rintro (h | h); exact hg h; exact hs h), t3]

/-! ## alloc_block -/

theorem alloc_block_target_group_policy (context : SimpleFS_Context) (pref : Nat)
    (hlen : context.gdt.length ≤ 4294967295) :
    ((pref < context.gdt.length ∧ (context.gdt.getD pref default).bg_free_blocks_count > 0) →
      alloc_block_target_group context pref = pref) ∧
    (¬ (pref < context.gdt.length ∧ (context.gdt.getD pref default).bg_free_blocks_count > 0) →
      alloc_block_target_group context pref ≠ NO_GROUP →
      ∀ g, g < alloc_block_target_group context pref →
        (context.gdt.getD g default).bg_free_blocks_count = 0) ∧
    ((∃ g, g < context.gdt.length ∧ (context.gdt.getD g default).bg_free_blocks_count > 0) →
      alloc_block_target_group context pref ≠ NO_GROUP) := by
  unfold alloc_block_target_group
  dsimp only
  by_cases hp : pref < context.gdt.length ∧
      (context.gdt.getD pref default).bg_free_blocks_count > 0
  · have hpn : pref ≠ NO_GROUP := by unfold NO_GROUP; omega
    rw [if_pos hp, if_neg hpn]
    exact ⟨fun _ => rfl, fun h => absurd hp h, fun _ => hpn⟩
  · rw [if_neg hp, if_pos rfl]
    refine ⟨fun h => absurd h hp, fun _ => ?_, ?_⟩
    · cases hf : firstIdx (fun i => decide ((context.gdt.getD i default).bg_free_blocks_count > 0))
          context.gdt.length 0 with
      | none => intro h; exact absurd rfl h
      | some i =>
        intro _ g hg
        obtain ⟨_, _, _, h4⟩ := firstIdx_some _ _ _ _ hf
        have := h4 g (Nat.zero_le _) hg
        rw [decide_eq_false_iff_not] at this
        omega
    · rintro ⟨g, hg, hfree⟩
      cases hf : firstIdx (fun i => decide ((context.gdt.getD i default).bg_free_blocks_count > 0))
          context.gdt.length 0 with
      | none =>
        have := firstIdx_none _ _ _ hf g (Nat.zero_le _) (by omega)
        rw [decide_eq_false_iff_not] at this
        exact absurd hfree this
      | some i =>
        obtain ⟨_, h2, _, _⟩ := firstIdx_some _ _ _ _ hf
        show i ≠ NO_GROUP
        unfold NO_GROUP; omega

/-- The result of `alloc_block` in terms of its group choice and bit search. -/
theorem alloc_block_eq (context : SimpleFS_Context) (pref : Nat) :
    alloc_block context pref =
      if context.sb.s_free_blocks_count = 0 then (0, setErrno context ENOSPC)
      else if alloc_block_target_group context pref = NO_GROUP then (0, setErrno context ENOSPC)
      else if context.device_fd.readable
          (context.gdt.getD (alloc_block_target_group context pref) default).bg_block_bitmap
          ≠ true then (0, setErrno context EIO)
      else match alloc_block_bit context (alloc_block_target_group context pref) with
        | none => (0, setErrno context ENOSPC)
        | some bit =>
          if context.device_fd.writable
              (context.gdt.getD (alloc_block_target_group context pref) default).bg_block_bitmap
              ≠ true then (0, setErrno context EIO)
          else (u32 (alloc_block_target_group context pref * context.sb.s_blocks_per_group + bit),
            block_taken context (alloc_block_target_group context pref) bit) := by
  unfold alloc_block
  by_cases h0 : context.sb.s_free_blocks_count = 0
  · rw [if_pos h0, if_pos h0]
  rw [if_neg h0, if_neg h0]
  dsimp only
  by_cases hN : alloc_block_target_group context pref = NO_GROUP
  · rw [if_pos hN, if_pos hN]
  rw [if_neg hN, if_neg hN]
  generalize alloc_block_target_group context pref = T
  unfold alloc_block_bit read_block
  by_cases hr : context.device_fd.readable (context.gdt.getD T default).bg_block_bitmap = true
  · rw [if_pos hr, if_neg (not_not.mpr hr)]
    dsimp only
    cases firstIdx (fun bit_idx =>
        !is_bitmap_bit_set (context.device_fd.data (context.gdt.getD T default).bg_block_bitmap)
          SIMPLEFS_BLOCK_SIZE bit_idx &&
        (!(decide (u32 (T * context.sb.s_blocks_per_group + bit_idx) = 0 ∧ T = 0 ∧ bit_idx = 0)) &&
         !(decide (u32 (T * context.sb.s_blocks_per_group + bit_idx) ≥
            context.sb.s_blocks_count))))
        context.sb.s_blocks_per_group 0 with
    | none => rfl
    | some bit =>
      dsimp only
      unfold write_block
      by_cases hw : context.device_fd.writable (context.gdt.getD T default).bg_block_bitmap = true
      · rw [if_pos hw, if_neg (not_not.mpr hw)]
        rfl
      · rw [if_neg hw, if_pos hw]
  · rw [if_neg hr, if_pos hr]

theorem alloc_block_success (context : SimpleFS_Context) (pref : Nat)
    (h : (alloc_block context pref).1 ≠ 0) :
    context.sb.s_free_blocks_count ≠ 0 ∧
    alloc_block_target_group context pref ≠ NO_GROUP ∧
    ∃ bit, alloc_block_bit context (alloc_block_target_group context pref) = some bit ∧
      alloc_block context pref =
        (u32 (alloc_block_target_group context pref * context.sb.s_blocks_per_group + bit),
          block_taken context (alloc_block_target_group context pref) bit) := by
  rw [alloc_block_eq] at h ⊢
  by_cases h0 : context.sb.s_free_blocks_count = 0
  · rw [if_pos h0] at h; exact absurd rfl h
  rw [if_neg h0] at h ⊢
  by_cases hN : alloc_block_target_group context pref = NO_GROUP
  · rw [if_pos hN] at h; exact absurd rfl h
  rw [if_neg hN] at h ⊢
  by_cases hr : context.device_fd.readable
      (context.gdt.getD (alloc_block_target_group context pref) default).bg_block_bitmap ≠ true
  · rw [if_pos hr] at h; exact absurd rfl h
  rw [if_neg hr] at h ⊢
  cases hb : alloc_block_bit context (alloc_block_target_group context pref) with
  | none => rw [hb] at h; exact absurd rfl h
  | some bit =>
    rw [hb] at h
    dsimp only at h ⊢
    by_cases hw : context.device_fd.writable
        (context.gdt.getD (alloc_block_target_group context pref) default).bg_block_bitmap ≠ true
    · rw [if_pos hw] at h; exact absurd rfl h
    rw [if_neg hw]
    exact ⟨h0, hN, bit, rfl, rfl⟩

theorem alloc_block_bit_some (context : SimpleFS_Context) (g bit : Nat)
    (hw : context.gdt.length * context.sb.s_blocks_per_group ≤ 4294967296)
    (hg : g < context.gdt.length)
    (h : alloc_block_bit context g = some bit) :
    bit < context.sb.s_blocks_per_group ∧
    u32 (g * context.sb.s_blocks_per_group + bit) = g * context.sb.s_blocks_per_group + bit ∧
    is_bitmap_bit_set (context.device_fd.data (context.gdt.getD g default).bg_block_bitmap)
      SIMPLEFS_BLOCK_SIZE bit = false ∧
    g * context.sb.s_blocks_per_group + bit ≠ 0 ∧
    g * context.sb.s_blocks_per_group + bit < context.sb.s_blocks_count ∧
    (∀ j, j < bit →
      is_bitmap_bit_set (context.device_fd.data (context.gdt.getD g default).bg_block_bitmap)
        SIMPLEFS_BLOCK_SIZE j = true ∨
      g * context.sb.s_blocks_per_group + j = 0 ∨
      context.sb.s_blocks_count ≤ g * context.sb.s_blocks_per_group + j) := by
  unfold alloc_block_bit at h
  obtain ⟨_, f2, f3, f4⟩ := firstIdx_some _ _ _ _ h
  have nw : ∀ j, j < context.sb.s_blocks_per_group →
      u32 (g * context.sb.s_blocks_per_group + j) = g * context.sb.s_blocks_per_group + j := by
    intro j hj
    have : g * context.sb.s_blocks_per_group + j <
        context.gdt.length * context.sb.s_blocks_per_group := by
      calc g * context.sb.s_blocks_per_group + j
          < g * context.sb.s_blocks_per_group + context.sb.s_blocks_per_group := by omega
        _ = (g + 1) * context.sb.s_blocks_per_group := by ring
        _ ≤ context.gdt.length * context.sb.s_blocks_per_group :=
          Nat.mul_le_mul_right _ (by omega)
    unfold u32
    exact Nat.mod_eq_of_lt (by omega)
  have hbit : bit < context.sb.s_blocks_per_group := by omega
  simp only [Bool.and_eq_true, Bool.not_eq_true', decide_eq_false_iff_not] at f3
  rw [nw bit hbit] at f3
  refine ⟨hbit, nw bit hbit, f3.1, ?_, by have := f3.2.2; omega, ?_⟩
  · intro h0
    apply f3.2.1
    have hp : 0 < context.sb.s_blocks_per_group := by omega
    refine ⟨h0, ?_, by omega⟩
    rcases Nat.eq_zero_or_pos g with hg0 | hg0
    · exact hg0
    · have : context.sb.s_blocks_per_group ≤ g * context.sb.s_blocks_per_group :=
        Nat.le_mul_of_pos_left _ hg0
      omega
  · intro j hj
    have hjb : j < context.sb.s_blocks_per_group := by omega
    have := f4 j (Nat.zero_le _) hj
    rw [nw j hjb] at this
    by_cases hs : is_bitmap_bit_set
        (context.device_fd.data (context.gdt.getD g default).bg_block_bitmap)
        SIMPLEFS_BLOCK_SIZE j = true
    · exact Or.inl hs
    · right
      have hs2 : is_bitmap_bit_set
        (context.device_fd.data (context.gdt.getD g default).bg_block_bitmap)
        SIMPLEFS_BLOCK_SIZE j = false := by simpa using hs
      rw [hs2] at this
      simp only [Bool.not_false, Bool.true_and, Bool.and_eq_false_iff, Bool.not_eq_false',
        decide_eq_true_eq] at this
      rcases this with h1 | h1
      · exact Or.inl h1.1
      · exact Or.inr h1

theorem is_bitmap_bit_set_false_lt (m : Buf) (size i : Nat)
    (h : is_bitmap_bit_set m size i = false) : i < size * 8 := by
  rw [is_bitmap_bit_set_eq] at h
  by_contra hc
  rw [if_neg hc] at h
  exact Bool.noConfusion h

/-- The effect of taking bit `bit` of group `g`: in the group's bitmap block
exactly that bit becomes set, every other block of the device is unchanged,
and the superblock's and the group's `free_blocks_count` drop by one while the
other descriptors stay as they are. -/
theorem block_taken_effect (context : SimpleFS_Context) (g bit : Nat)
    (hr : counts_in_range context) (hg : g < context.gdt.length)
    (h0 : context.sb.s_free_blocks_count ≠ 0)
    (hgd : (context.gdt.getD g default).bg_free_blocks_count > 0)
    (hclr : is_bitmap_bit_set
      (context.device_fd.data (context.gdt.getD g default).bg_block_bitmap)
      SIMPLEFS_BLOCK_SIZE bit = false) :
    (∀ j, is_bitmap_bit_set ((block_taken context g bit).device_fd.data
        (context.gdt.getD g default).bg_block_bitmap) SIMPLEFS_BLOCK_SIZE j =
      (decide (j = bit) || is_bitmap_bit_set
        (context.device_fd.data (context.gdt.getD g default).bg_block_bitmap)
        SIMPLEFS_BLOCK_SIZE j)) ∧
    (∀ x, x ≠ (context.gdt.getD g default).bg_block_bitmap →
      (block_taken context g bit).device_fd.data x = context.device_fd.data x) ∧
    (block_taken context g bit).sb.s_free_blocks_count + 1 = context.sb.s_free_blocks_count ∧
    ((block_taken context g bit).gdt.getD g default).bg_free_blocks_count + 1 =
      (context.gdt.getD g default).bg_free_blocks_count ∧
    (∀ g', g' ≠ g → (block_taken context g bit).gdt.getD g' default =
      context.gdt.getD g' default) := by
  obtain ⟨r1, _, r3⟩ := hr
  refine ⟨fun j => ?_, fun x hx => ?_, ?_, ?_, fun g' hg' => ?_⟩
  · rw [block_taken_data, if_pos rfl,
      is_bitmap_bit_set_set _ _ _ _ (is_bitmap_bit_set_false_lt _ _ _ hclr)]
  · rw [block_taken_data, if_neg hx]
  · rw [block_taken_free, dec32_of_pos _ (by omega) (by omega)]; omega
  · rw [block_taken_gdt, getD_set, if_pos ⟨rfl, hg⟩]
    show dec16 _ + 1 = _
    rw [dec16_of_pos _ hgd (by have := (r3 g hg).1; omega)]; omega
  · rw [block_taken_gdt, getD_set, if_neg (fun h => hg' h.1.symm)]

/-- C15: `alloc_block` fails with `ENOSPC` and changes nothing when the
superblock count is 0; its group is the preferred one when that is valid and
has a free block, else the lowest-index group with a free block; on success it
returns `group * blocks_per_group + bit` for the lowest clear bit of that
group's bitmap whose block number is neither 0 nor beyond `blocks_count`, the
result lies in `[1, blocks_count)` and was free, exactly that bit becomes set
and both counts drop by one; and it succeeds whenever such a group and bit
exist and the bitmap block can be read and written. -/
theorem C15_alloc_block (context : SimpleFS_Context) (pref : Nat) :
    (context.sb.s_free_blocks_count = 0 →
      alloc_block context pref = (0, setErrno context ENOSPC)) ∧
    (context.gdt.length ≤ 4294967295 →
      ((pref < context.gdt.length ∧
          (context.gdt.getD pref default).bg_free_blocks_count > 0) →
        alloc_block_target_group context pref = pref) ∧
      (¬ (pref < context.gdt.length ∧
          (context.gdt.getD pref default).bg_free_blocks_count > 0) →
        alloc_block_target_group context pref ≠ NO_GROUP →
        ∀ g, g < alloc_block_target_group context pref →
          (context.gdt.getD g default).bg_free_blocks_count = 0) ∧
      ((∃ g, g < context.gdt.length ∧ (context.gdt.getD g default).bg_free_blocks_count > 0) →
        alloc_block_target_group context pref ≠ NO_GROUP)) ∧
    (context.gdt.length * context.sb.s_blocks_per_group ≤ 4294967296 →
      counts_in_range context →
      (alloc_block context pref).1 ≠ 0 →
      ∃ g bit, g = alloc_block_target_group context pref ∧ g < context.gdt.length ∧
        (context.gdt.getD g default).bg_free_blocks_count > 0 ∧
        bit < context.sb.s_blocks_per_group ∧
        (alloc_block context pref).1 = g * context.sb.s_blocks_per_group + bit ∧
        (∀ j, j < bit →
          is_bitmap_bit_set (context.device_fd.data (context.gdt.getD g default).bg_block_bitmap)
            SIMPLEFS_BLOCK_SIZE j = true ∨
          g * context.sb.s_blocks_per_group + j = 0 ∨
          context.sb.s_blocks_count ≤ g * context.sb.s_blocks_per_group + j) ∧
        1 ≤ (alloc_block context pref).1 ∧
        (alloc_block context pref).1 < context.sb.s_blocks_count ∧
        block_bit_set context (alloc_block context pref).1 = false ∧
        (alloc_block context pref).2 = block_taken context g bit ∧
        (∀ j, is_bitmap_bit_set ((alloc_block context pref).2.device_fd.data
            (context.gdt.getD g default).bg_block_bitmap) SIMPLEFS_BLOCK_SIZE j =
          (decide (j = bit) || is_bitmap_bit_set
            (context.device_fd.data (context.gdt.getD g default).bg_block_bitmap)
            SIMPLEFS_BLOCK_SIZE j)) ∧
        (∀ x, x ≠ (context.gdt.getD g default).bg_block_bitmap →
          (alloc_block context pref).2.device_fd.data x = context.device_fd.data x) ∧
        (alloc_block context pref).2.sb.s_free_blocks_count + 1 =
          context.sb.s_free_blocks_count ∧
        ((alloc_block context pref).2.gdt.getD g default).bg_free_blocks_count + 1 =
          (context.gdt.getD g default).bg_free_blocks_count ∧
        (∀ g', g' ≠ g → (alloc_block context pref).2.gdt.getD g' default =
          context.gdt.getD g' default)) ∧
    (context.gdt.length * context.sb.s_blocks_per_group ≤ 4294967296 →
      context.sb.s_free_blocks_count ≠ 0 →
      alloc_block_target_group context pref ≠ NO_GROUP →
      context.device_fd.readable
        (context.gdt.getD (alloc_block_target_group context pref) default).bg_block_bitmap
          = true →
      context.device_fd.writable
        (context.gdt.getD (alloc_block_target_group context pref) default).bg_block_bitmap
          = true →
      (∃ bit, bit < context.sb.s_blocks_per_group ∧
        is_bitmap_bit_set (context.device_fd.data
          (context.gdt.getD (alloc_block_target_group context pref) default).bg_block_bitmap)
          SIMPLEFS_BLOCK_SIZE bit = false ∧
        alloc_block_target_group context pref * context.sb.s_blocks_per_group + bit ≠ 0 ∧
        alloc_block_target_group context pref * context.sb.s_blocks_per_group + bit <
          context.sb.s_blocks_count) →
      (alloc_block context pref).1 ≠ 0) := by
  refine ⟨fun h0 => ?_, fun hlen => alloc_block_target_group_policy context pref hlen, ?_, ?_⟩
  · rw [alloc_block_eq, if_pos h0]
  · intro hw hr hne
    obtain ⟨h0, hN, bit, hbit, heq⟩ := alloc_block_success context pref hne
    obtain ⟨hg, hgd⟩ := alloc_block_target_group_spec context pref hN
    obtain ⟨b1, b2, b3, b4, b5, b6⟩ := alloc_block_bit_some context _ bit hw hg hbit
    have hp : 0 < context.sb.s_blocks_per_group := by omega
    have e := block_taken_effect context _ bit hr hg h0 hgd b3
    rw [heq, b2]
    refine ⟨_, bit, rfl, hg, hgd, b1, rfl, b6, by dsimp only; omega, b5, ?_, rfl, e⟩
    rw [block_bit_set_eq]
    dsimp only
    rw [Nat.mul_comm, Nat.mul_add_div hp, Nat.div_eq_of_lt b1, Nat.mul_add_mod,
      Nat.mod_eq_of_lt b1]
    exact b3
  · intro hw h0 hN hr hwr ⟨bit, hb1, hb2, hb3, hb4⟩
    obtain ⟨hg, _⟩ := alloc_block_target_group_spec context pref hN
    have nw : u32 (alloc_block_target_group context pref * context.sb.s_blocks_per_group + bit) =
        alloc_block_target_group context pref * context.sb.s_blocks_per_group + bit := by
      have : alloc_block_target_group context pref * context.sb.s_blocks_per_group + bit <
          context.gdt.length * context.sb.s_blocks_per_group := by
        calc alloc_block_target_group context pref * context.sb.s_blocks_per_group + bit
            < alloc_block_target_group context pref * context.sb.s_blocks_per_group +
                context.sb.s_blocks_per_group := by omega
          _ = (alloc_block_target_group context pref + 1) * context.sb.s_blocks_per_group := by
            ring
          _ ≤ context.gdt.length * context.sb.s_blocks_per_group :=
            Nat.mul_le_mul_right _ (by omega)
      unfold u32
      exact Nat.mod_eq_of_lt (by omega)
    rw [alloc_block_eq, if_neg h0, if_neg hN, if_neg (not_not.mpr hr)]
    cases hb : alloc_block_bit context (alloc_block_target_group context pref) with
    | none =>
      exfalso
      unfold alloc_block_bit at hb
      have := firstIdx_none _ _ _ hb bit (Nat.zero_le _) (by omega)
      rw [nw, hb2] at this
      simp only [Bool.not_false, Bool.true_and, Bool.and_eq_false_iff, Bool.not_eq_false',
        decide_eq_true_eq] at this
      rcases this with h1 | h1
      · exact hb3 h1.1
      · omega
    | some bit2 =>
      dsimp only
      rw [if_neg (not_not.mpr hwr)]
      obtain ⟨_, c2, _, c4, _, _⟩ := alloc_block_bit_some context _ bit2 hw hg hb
      dsimp only
      rw [c2]
      exact c4

/-- Witness for C15 on `ctxAlloc` (blocks 0..3 in use, 12 free): the call with
preferred group 0 succeeds and returns block 4, the lowest free block. -/
theorem C15_alloc_block_witness :
    (ctxAlloc.gdt.length * ctxAlloc.sb.s_blocks_per_group ≤ 4294967296 ∧
      counts_in_range ctxAlloc ∧ (alloc_block ctxAlloc 0).1 ≠ 0) ∧
    ∃ g bit, g = alloc_block_target_group ctxAlloc 0 ∧ g < ctxAlloc.gdt.length ∧
      (ctxAlloc.gdt.getD g default).bg_free_blocks_count > 0 ∧
      bit < ctxAlloc.sb.s_blocks_per_group ∧
      (alloc_block ctxAlloc 0).1 = g * ctxAlloc.sb.s_blocks_per_group + bit ∧
      (∀ j, j < bit →
        is_bitmap_bit_set (ctxAlloc.device_fd.data (ctxAlloc.gdt.getD g default).bg_block_bitmap)
          SIMPLEFS_BLOCK_SIZE j = true ∨
        g * ctxAlloc.sb.s_blocks_per_group + j = 0 ∨
        ctxAlloc.sb.s_blocks_count ≤ g * ctxAlloc.sb.s_blocks_per_group + j) ∧
      1 ≤ (alloc_block ctxAlloc 0).1 ∧
      (alloc_block ctxAlloc 0).1 < ctxAlloc.sb.s_blocks_count ∧
      block_bit_set ctxAlloc (alloc_block ctxAlloc 0).1 = false ∧
      (alloc_block ctxAlloc 0).2 = block_taken ctxAlloc g bit ∧
      (∀ j, is_bitmap_bit_set ((alloc_block ctxAlloc 0).2.device_fd.data
          (ctxAlloc.gdt.getD g default).bg_block_bitmap) SIMPLEFS_BLOCK_SIZE j =
        (decide (j = bit) || is_bitmap_bit_set
          (ctxAlloc.device_fd.data (ctxAlloc.gdt.getD g default).bg_block_bitmap)
          SIMPLEFS_BLOCK_SIZE j)) ∧
      (∀ x, x ≠ (ctxAlloc.gdt.getD g default).bg_block_bitmap →
        (alloc_block ctxAlloc 0).2.device_fd.data x = ctxAlloc.device_fd.data x) ∧
      (alloc_block ctxAlloc 0).2.sb.s_free_blocks_count + 1 =
        ctxAlloc.sb.s_free_blocks_count ∧
      ((alloc_block ctxAlloc 0).2.gdt.getD g default).bg_free_blocks_count + 1 =
        (ctxAlloc.gdt.getD g default).bg_free_blocks_count ∧
      (∀ g', g' ≠ g → (alloc_block ctxAlloc 0).2.gdt.getD g' default =
        ctxAlloc.gdt.getD g' default) :=
  ⟨⟨by decide, by decide!, by decide!⟩,
    (C15_alloc_block ctxAlloc 0).2.2.1 (by decide) (by decide!) (by decide!)⟩

/-! ## alloc_inode -/

theorem firstIdx_of_least (p : Nat → Bool) (n k : Nat) (hk : k < n) (hp : p k = true)
    (hl : ∀ j, j < k → p j = false) : firstIdx p n 0 = some k := by
  cases hf : firstIdx p n 0 with
  | none =>
    have := firstIdx_none p n 0 hf k (Nat.zero_le _) (by omega)
    rw [hp] at this
    exact Bool.noConfusion this
  | some k' =>
    obtain ⟨_, h2, h3, h4⟩ := firstIdx_some p n 0 k' hf
    rcases Nat.lt_trichotomy k' k with h | h | h
    · rw [hl k' h] at h3; exact Bool.noConfusion h3
    · rw [h]
    · rw [h4 k (Nat.zero_le _) h] at hp; exact Bool.noConfusion hp

/-- The groups loop of `alloc_inode` skips the groups whose count is 0 and
takes, in the first group `g` with a free inode, the bit its search finds. -/
theorem alloc_inode_loop_at (context : SimpleFS_Context) (mode g bit : Nat)
    (hlow : ∀ g', g' < g → (context.gdt.getD g' default).bg_free_inodes_count = 0)
    (hgd : (context.gdt.getD g default).bg_free_inodes_count > 0)
    (hr : context.device_fd.readable (context.gdt.getD g default).bg_inode_bitmap = true)
    (hw : context.device_fd.writable (context.gdt.getD g default).bg_inode_bitmap = true)
    (hf : firstIdx (fun bit_idx =>
        !is_bitmap_bit_set (context.device_fd.data (context.gdt.getD g default).bg_inode_bitmap)
          SIMPLEFS_BLOCK_SIZE bit_idx &&
        !(decide (u32 (g * context.sb.s_inodes_per_group + bit_idx + 1) = 0) ||
          decide (u32 (g * context.sb.s_inodes_per_group + bit_idx + 1) >
            context.sb.s_inodes_count)))
        context.sb.s_inodes_per_group 0 = some bit)
    (remaining start : Nat) (hs : start ≤ g) (hrem : g < start + remaining) :
    alloc_inode_loop context mode remaining start =
      (u32 (g * context.sb.s_inodes_per_group + bit + 1), inode_taken context mode g bit) := by
  induction remaining generalizing start with
  | zero => omega
  | succ r ih =>
    unfold alloc_inode_loop
    dsimp only
    by_cases hsg : start = g
    · subst hsg
      rw [if_pos hgd]
      unfold read_block
      rw [if_pos hr]
      dsimp only
      rw [hf]
      dsimp only
      unfold write_block
      rw [if_pos hw]
      dsimp only
      rw [inode_taken]
      generalize context.gdt.getD start default = gd
      by_cases hd : S_ISDIR mode = true
      · simp [hd, Device.put]
      · simp [hd, Device.put]
    · have h0 := hlow start (by omega)
      rw [if_neg (by omega)]
      exact ih (start + 1) (by omega) (by omega)

theorem exists_lowest (p : Nat → Bool) (n e : Nat) (he : e < n) (hp : p e = true) :
    ∃ b, b ≤ e ∧ p b = true ∧ ∀ j, j < b → p j = false := by
  induction e using Nat.strong_induction_on with
  | _ e ih =>
    by_cases h : ∃ j, j < e ∧ p j = true
    · obtain ⟨j, hj, hpj⟩ := h
      obtain ⟨b, hb1, hb2, hb3⟩ := ih j hj (by omega) hpj
      exact ⟨b, by omega, hb2, hb3⟩
    · refine ⟨e, le_refl _, hp, fun j hj => ?_⟩
      by_contra hc
      exact h ⟨j, hj, by simpa using hc⟩

/-- The effect of taking inode bit `bit` of group `g`. -/
theorem inode_taken_effect (context : SimpleFS_Context) (mode g bit : Nat)
    (hr : counts_in_range context) (hg : g < context.gdt.length)
    (h0 : context.sb.s_free_inodes_count ≠ 0)
    (hgd : (context.gdt.getD g default).bg_free_inodes_count > 0)
    (hclr : is_bitmap_bit_set
      (context.device_fd.data (context.gdt.getD g default).bg_inode_bitmap)
      SIMPLEFS_BLOCK_SIZE bit = false) :
    (∀ j, is_bitmap_bit_set ((inode_taken context mode g bit).device_fd.data
        (context.gdt.getD g default).bg_inode_bitmap) SIMPLEFS_BLOCK_SIZE j =
      (decide (j = bit) || is_bitmap_bit_set
        (context.device_fd.data (context.gdt.getD g default).bg_inode_bitmap)
        SIMPLEFS_BLOCK_SIZE j)) ∧
    (∀ x, x ≠ (context.gdt.getD g default).bg_inode_bitmap →
      (inode_taken context mode g bit).device_fd.data x = context.device_fd.data x) ∧
    (inode_taken context mode g bit).sb.s_free_inodes_count + 1 =
      context.sb.s_free_inodes_count ∧
    ((inode_taken context mode g bit).gdt.getD g default).bg_free_inodes_count + 1 =
      (context.gdt.getD g default).bg_free_inodes_count ∧
    ((inode_taken context mode g bit).gdt.getD g default).bg_used_dirs_count =
      (if S_ISDIR mode = true then (context.gdt.getD g default).bg_used_dirs_count + 1
        else (context.gdt.getD g default).bg_used_dirs_count) ∧
    (∀ g', g' ≠ g → (inode_taken context mode g bit).gdt.getD g' default =
      context.gdt.getD g' default) := by
  obtain ⟨_, r2, r3⟩ := hr
  refine ⟨fun j => ?_, fun x hx => ?_, ?_, ?_, ?_, fun g' hg' => ?_⟩
  · rw [inode_taken_data, if_pos rfl,
      is_bitmap_bit_set_set _ _ _ _ (is_bitmap_bit_set_false_lt _ _ _ hclr)]
  · rw [inode_taken_data, if_neg hx]
  · rw [inode_taken_free, dec32_of_pos _ (by omega) (by omega)]; omega
  · rw [inode_taken_gdt, getD_set, if_pos ⟨rfl, hg⟩]
    show dec16 _ + 1 = _
    rw [dec16_of_pos _ hgd (by have := (r3 g hg).2.1; omega)]; omega
  · rw [inode_taken_gdt, getD_set, if_pos ⟨rfl, hg⟩]
    by_cases hd : S_ISDIR mode = true
    · rw [if_pos hd]
      show inc16 _ = _
      rw [inc16_of_lt _ (by have := (r3 g hg).2.2; omega), if_pos hd]
    · rw [if_neg hd, if_neg hd]
  · rw [inode_taken_gdt, getD_set, if_neg (fun h => hg' h.1.symm)]

/-- C14: `alloc_inode` fails with `ENOSPC` and changes nothing when the
superblock count is 0; otherwise, when `g` is the lowest-index group with
`bg_free_inodes_count > 0`, that group is consistent and its bitmap block can
be read and written, there is a lowest clear bit `b` in the group's bitmap and
the call returns `g * inodes_per_group + b + 1`, a number in
`[1, inodes_count]`; afterwards exactly that bit is set, the group's and the
superblock's `free_inodes_count` are one lower, and the group's
`used_dirs_count` is one higher exactly for a directory mode. -/
theorem C14_alloc_inode (context : SimpleFS_Context) (mode : Nat) :
    (context.sb.s_free_inodes_count = 0 →
      alloc_inode context mode = (0, setErrno context ENOSPC)) ∧
    (∀ g, context.sb.s_free_inodes_count ≠ 0 →
      context.gdt.length * context.sb.s_inodes_per_group < 4294967296 →
      counts_in_range context →
      g < context.gdt.length →
      (context.gdt.getD g default).bg_free_inodes_count > 0 →
      (∀ g', g' < g → (context.gdt.getD g' default).bg_free_inodes_count = 0) →
      inode_group_consistent context g →
      context.device_fd.readable (context.gdt.getD g default).bg_inode_bitmap = true →
      context.device_fd.writable (context.gdt.getD g default).bg_inode_bitmap = true →
      ∃ b, b < context.sb.s_inodes_per_group ∧
        is_bitmap_bit_set (context.device_fd.data (context.gdt.getD g default).bg_inode_bitmap)
          SIMPLEFS_BLOCK_SIZE b = false ∧
        (∀ j, j < b →
          is_bitmap_bit_set (context.device_fd.data (context.gdt.getD g default).bg_inode_bitmap)
            SIMPLEFS_BLOCK_SIZE j = true) ∧
        (alloc_inode context mode).1 = g * context.sb.s_inodes_per_group + b + 1 ∧
        1 ≤ (alloc_inode context mode).1 ∧
        (alloc_inode context mode).1 ≤ context.sb.s_inodes_count ∧
        (alloc_inode context mode).2 = inode_taken context mode g b ∧
        (∀ j, is_bitmap_bit_set ((alloc_inode context mode).2.device_fd.data
            (context.gdt.getD g default).bg_inode_bitmap) SIMPLEFS_BLOCK_SIZE j =
          (decide (j = b) || is_bitmap_bit_set
            (context.device_fd.data (context.gdt.getD g default).bg_inode_bitmap)
            SIMPLEFS_BLOCK_SIZE j)) ∧
        (∀ x, x ≠ (context.gdt.getD g default).bg_inode_bitmap →
          (alloc_inode context mode).2.device_fd.data x = context.device_fd.data x) ∧
        (alloc_inode context mode).2.sb.s_free_inodes_count + 1 =
          context.sb.s_free_inodes_count ∧
        ((alloc_inode context mode).2.gdt.getD g default).bg_free_inodes_count + 1 =
          (context.gdt.getD g default).bg_free_inodes_count ∧
        ((alloc_inode context mode).2.gdt.getD g default).bg_used_dirs_count =
          (if S_ISDIR mode = true then (context.gdt.getD g default).bg_used_dirs_count + 1
            else (context.gdt.getD g default).bg_used_dirs_count) ∧
        (∀ g', g' ≠ g → (alloc_inode context mode).2.gdt.getD g' default =
          context.gdt.getD g' default)) := by
  refine ⟨fun h0 => ?_, ?_⟩
  · unfold alloc_inode; rw [if_pos h0]
  intro g h0 hw hr hg hgd hlow hcons hrd hwr
  -- a clear bit of an inode of the filesystem exists, so a lowest clear bit does
  have hpos : 0 < (List.range context.sb.s_inodes_per_group).countP (fun bit =>
      !is_bitmap_bit_set (context.device_fd.data (context.gdt.getD g default).bg_inode_bitmap)
        SIMPLEFS_BLOCK_SIZE bit &&
      decide (g * context.sb.s_inodes_per_group + bit + 1 ≤ context.sb.s_inodes_count)) := by
    unfold inode_group_consistent at hcons
    omega
  obtain ⟨e, he, hpe⟩ := List.countP_pos_iff.mp hpos
  rw [List.mem_range] at he
  simp only [Bool.and_eq_true, Bool.not_eq_true', decide_eq_true_eq] at hpe
  obtain ⟨b, hbe, hb2, hb3⟩ := exists_lowest (fun bit =>
      !is_bitmap_bit_set (context.device_fd.data (context.gdt.getD g default).bg_inode_bitmap)
        SIMPLEFS_BLOCK_SIZE bit) context.sb.s_inodes_per_group e he (by show (!is_bitmap_bit_set _ _ e) = true; rw [hpe.1]; rfl)
  have hbclr : is_bitmap_bit_set
      (context.device_fd.data (context.gdt.getD g default).bg_inode_bitmap)
      SIMPLEFS_BLOCK_SIZE b = false := by simpa using hb2
  have hbset : ∀ j, j < b → is_bitmap_bit_set
      (context.device_fd.data (context.gdt.getD g default).bg_inode_bitmap)
      SIMPLEFS_BLOCK_SIZE j = true := by
    intro j hj; have := hb3 j hj; simpa using this
  have hbn : b < context.sb.s_inodes_per_group := by omega
  have nw : ∀ j, j < context.sb.s_inodes_per_group →
      u32 (g * context.sb.s_inodes_per_group + j + 1) =
        g * context.sb.s_inodes_per_group + j + 1 := by
    intro j hj
    have : g * context.sb.s_inodes_per_group + j <
        context.gdt.length * context.sb.s_inodes_per_group := by
      calc g * context.sb.s_inodes_per_group + j
          < g * context.sb.s_inodes_per_group + context.sb.s_inodes_per_group := by omega
        _ = (g + 1) * context.sb.s_inodes_per_group := by ring
        _ ≤ context.gdt.length * context.sb.s_inodes_per_group :=
          Nat.mul_le_mul_right _ (by omega)
    unfold u32
    exact Nat.mod_eq_of_lt (by omega)
  have hf : firstIdx (fun bit_idx =>
        !is_bitmap_bit_set (context.device_fd.data (context.gdt.getD g default).bg_inode_bitmap)
          SIMPLEFS_BLOCK_SIZE bit_idx &&
        !(decide (u32 (g * context.sb.s_inodes_per_group + bit_idx + 1) = 0) ||
          decide (u32 (g * context.sb.s_inodes_per_group + bit_idx + 1) >
            context.sb.s_inodes_count)))
        context.sb.s_inodes_per_group 0 = some b := by
    apply firstIdx_of_least _ _ _ hbn
    · rw [nw b hbn, hbclr]
      simp only [Bool.not_false, Bool.true_and, Bool.not_eq_true', Bool.or_eq_false_iff,
        decide_eq_false_iff_not]
      exact ⟨by omega, by have := hpe.2; omega⟩
    · intro j hj
      rw [hbset j hj]
      rfl
  have heq : alloc_inode context mode =
      (g * context.sb.s_inodes_per_group + b + 1, inode_taken context mode g b) := by
    unfold alloc_inode
    rw [if_neg h0, alloc_inode_loop_at context mode g b hlow hgd hrd hwr hf _ 0
      (Nat.zero_le _) (by omega), nw b hbn]
  have e := inode_taken_effect context mode g b hr hg h0 hgd hbclr
  rw [heq]
  exact ⟨b, hbn, hbclr, hbset, rfl, by dsimp only; omega,
    by dsimp only; have := hpe.2; omega, rfl, e⟩

/-- Witness for C14 on `ctxAlloc` (inodes 1..11 in use, 5 free): the call for
a directory succeeds in group 0 and returns inode 12. -/
theorem C14_alloc_inode_witness :
    (alloc_inode ctxAlloc S_IFDIR).1 = 12 ∧
    ∃ b, b < ctxAlloc.sb.s_inodes_per_group ∧
      is_bitmap_bit_set (ctxAlloc.device_fd.data (ctxAlloc.gdt.getD 0 default).bg_inode_bitmap)
        SIMPLEFS_BLOCK_SIZE b = false ∧
      (∀ j, j < b →
        is_bitmap_bit_set (ctxAlloc.device_fd.data (ctxAlloc.gdt.getD 0 default).bg_inode_bitmap)
          SIMPLEFS_BLOCK_SIZE j = true) ∧
      (alloc_inode ctxAlloc S_IFDIR).1 = 0 * ctxAlloc.sb.s_inodes_per_group + b + 1 ∧
      1 ≤ (alloc_inode ctxAlloc S_IFDIR).1 ∧
      (alloc_inode ctxAlloc S_IFDIR).1 ≤ ctxAlloc.sb.s_inodes_count ∧
      (alloc_inode ctxAlloc S_IFDIR).2 = inode_taken ctxAlloc S_IFDIR 0 b ∧
      (∀ j, is_bitmap_bit_set ((alloc_inode ctxAlloc S_IFDIR).2.device_fd.data
          (ctxAlloc.gdt.getD 0 default).bg_inode_bitmap) SIMPLEFS_BLOCK_SIZE j =
        (decide (j = b) || is_bitmap_bit_set
          (ctxAlloc.device_fd.data (ctxAlloc.gdt.getD 0 default).bg_inode_bitmap)
          SIMPLEFS_BLOCK_SIZE j)) ∧
      (∀ x, x ≠ (ctxAlloc.gdt.getD 0 default).bg_inode_bitmap →
        (alloc_inode ctxAlloc S_IFDIR).2.device_fd.data x = ctxAlloc.device_fd.data x) ∧
      (alloc_inode ctxAlloc S_IFDIR).2.sb.s_free_inodes_count + 1 =
        ctxAlloc.sb.s_free_inodes_count ∧
      ((alloc_inode ctxAlloc S_IFDIR).2.gdt.getD 0 default).bg_free_inodes_count + 1 =
        (ctxAlloc.gdt.getD 0 default).bg_free_inodes_count ∧
      ((alloc_inode ctxAlloc S_IFDIR).2.gdt.getD 0 default).bg_used_dirs_count =
        (if S_ISDIR S_IFDIR = true then (ctxAlloc.gdt.getD 0 default).bg_used_dirs_count + 1
          else (ctxAlloc.gdt.getD 0 default).bg_used_dirs_count) ∧
      (∀ g', g' ≠ 0 → (alloc_inode ctxAlloc S_IFDIR).2.gdt.getD g' default =
        ctxAlloc.gdt.getD g' default) :=
  ⟨by decide!,
    (C14_alloc_inode ctxAlloc S_IFDIR).2 0 (by decide) (by decide) (by decide!) (by decide)
      (by decide) (fun g' h => absurd h (Nat.not_lt_zero g')) (by decide!) (by decide)
      (by decide)⟩

/-! ## Path resolution reads only: the errno frame -/

theorem same_fs_refl (c : SimpleFS_Context) : same_fs c c := ⟨rfl, rfl, rfl, rfl⟩

theorem same_fs_trans {a b c : SimpleFS_Context} (h1 : same_fs a b) (h2 : same_fs b c) :
    same_fs a c :=
  ⟨h2.1.trans h1.1, h2.2.1.trans h1.2.1, h2.2.2.1.trans h1.2.2.1, h2.2.2.2.trans h1.2.2.2⟩

theorem same_fs_symm {a b : SimpleFS_Context} (h : same_fs a b) : same_fs b a :=
  ⟨h.1.symm, h.2.1.symm, h.2.2.1.symm, h.2.2.2.symm⟩

theorem same_fs_setErrno (c : SimpleFS_Context) (e : Nat) : same_fs c (setErrno c e) :=
  ⟨rfl, rfl, rfl, rfl⟩

theorem same_fs_setErrno_right {c c' : SimpleFS_Context} (h : same_fs c c') (e : Nat) :
    same_fs c (setErrno c' e) := same_fs_trans h (same_fs_setErrno c' e)

theorem same_fs_setErrno_left {c c' : SimpleFS_Context} (h : same_fs c c') (e : Nat) :
    same_fs (setErrno c e) c' := same_fs_trans (same_fs_symm (same_fs_setErrno c e)) h

theorem inode_location_same (c c' : SimpleFS_Context) (n : Nat) (h : same_fs c c') :
    (match inode_location c' n with
      | .error e => (match inode_location c n with
          | .error e0 => e.1 = e0.1 ∧ same_fs c e.2 ∧ e.2.errno = e0.2.errno
          | .ok _ => False)
      | .ok loc => inode_location c n = .ok loc) := by
  obtain ⟨hd, hs, hg, hn⟩ := h
  unfold inode_location
  rw [hs, hg]
  by_cases h1 : n = 0 ∨ n > c.sb.s_inodes_count
  · rw [if_pos h1, if_pos h1]
    exact ⟨rfl, ⟨hd, hs, hg, hn⟩, rfl⟩
  rw [if_neg h1, if_neg h1]
  dsimp only
  by_cases h2 : (n - 1) / c.sb.s_inodes_per_group ≥ c.gdt.length
  · rw [if_pos h2, if_pos h2]
    exact ⟨rfl, ⟨hd, hs, hg, hn⟩, rfl⟩
  rw [if_neg h2, if_neg h2]
  split_ifs
  · exact ⟨rfl, ⟨hd, hs, hg, hn⟩, rfl⟩
  · rfl

theorem read_inode_from_disk_same (c c' : SimpleFS_Context) (n : Nat) (h : same_fs c c') :
    (read_inode_from_disk c' n).1 = (read_inode_from_disk c n).1 ∧
    same_fs c (read_inode_from_disk c' n).2 ∧
    (∀ e, (read_inode_from_disk c n).1 = .error e →
      (read_inode_from_disk c' n).2.errno = (read_inode_from_disk c n).2.errno ∨
      ((read_inode_from_disk c' n).2 = c' ∧ (read_inode_from_disk c n).2 = c)) := by
  have hl := inode_location_same c c' n h
  unfold read_inode_from_disk
  cases h1 : inode_location c' n with
  | error e =>
    rw [h1] at hl
    cases h2 : inode_location c n with
    | ok loc => rw [h2] at hl; exact absurd hl id
    | error e0 =>
      rw [h2] at hl
      dsimp only at hl ⊢
      exact ⟨by rw [hl.1], hl.2.1, fun _ _ => Or.inl hl.2.2⟩
  | ok loc =>
    rw [h1] at hl
    dsimp only at hl
    rw [hl]
    obtain ⟨b, o⟩ := loc
    dsimp only
    rw [h.1]
    cases read_block c.device_fd b with
    | none => exact ⟨rfl, h, fun _ _ => Or.inr ⟨rfl, rfl⟩⟩
    | some buf => exact ⟨rfl, h, fun _ _ => Or.inr ⟨rfl, rfl⟩⟩

theorem check_access_same (c c' : SimpleFS_Context) (caller : fuse_context) (inode : Buf)
    (perm : Nat) (h : same_fs c c') :
    (check_access c' caller inode perm).1 = (check_access c caller inode perm).1 ∧
    same_fs c (check_access c' caller inode perm).2 := by
  unfold check_access
  dsimp only
  split_ifs <;> exact ⟨rfl, h⟩

theorem resolve_walk_same (caller : fuse_context) (follow : Bool)
    (recurse : SimpleFS_Context → List Nat → Nat × SimpleFS_Context)
    (hrec : ∀ c c' p, same_fs c c' →
      (recurse c' p).1 = (recurse c p).1 ∧ same_fs c (recurse c' p).2) :
    ∀ (comps : List (List Nat)) (c c' : SimpleFS_Context) (cur : Nat) (path : List Nat),
      same_fs c c' →
      (resolve_walk caller follow recurse comps c' cur path).1 =
        (resolve_walk caller follow recurse comps c cur path).1 ∧
      same_fs c (resolve_walk caller follow recurse comps c' cur path).2 := by
  intro comps
  induction comps with
  | nil => intro c c' cur path h; exact ⟨rfl, h⟩
  | cons component rest ih =>
    intro c c' cur path h
    rw [resolve_walk, resolve_walk]
    dsimp only
    by_cases hskip : component = [] ∨ component = DOT
    · rw [if_pos hskip, if_pos hskip]
      exact ih c c' cur path h
    rw [if_neg hskip, if_neg hskip]
    have hr2 := read_inode_from_disk_same c c' cur h
    have hr1 := read_inode_from_disk_same c c cur (same_fs_refl c)
    generalize read_inode_from_disk c' cur = r2 at hr2 ⊢
    generalize read_inode_from_disk c cur = r1 at hr1 hr2 ⊢
    obtain ⟨v2, k2⟩ := r2
    obtain ⟨v1, k1⟩ := r1
    obtain ⟨hv, hk2, _⟩ := hr2
    obtain ⟨_, hk1, _⟩ := hr1
    dsimp only at hv hk2 hk1
    subst hv
    cases v2 with
    | error e => exact ⟨rfl, hk2⟩
    | ok d =>
      dsimp only
      by_cases hdir : ¬ S_ISDIR (i_mode d) = true
      · rw [if_pos hdir, if_pos hdir]; exact ⟨rfl, same_fs_setErrno_right hk2 _⟩
      rw [if_neg hdir, if_neg hdir]
      have hk12 : same_fs k1 k2 := same_fs_trans (same_fs_symm hk1) hk2
      have ha2 := check_access_same k1 k2 caller d X_OK hk12
      have ha1 := check_access_same k1 k1 caller d X_OK (same_fs_refl k1)
      generalize check_access k2 caller d X_OK = a2 at ha2 ⊢
      generalize check_access k1 caller d X_OK = a1 at ha1 ha2 ⊢
      obtain ⟨x2, m2⟩ := a2
      obtain ⟨x1, m1⟩ := a1
      obtain ⟨hx, hm2⟩ := ha2
      obtain ⟨_, hm1⟩ := ha1
      dsimp only at hx hm2 hm1 ⊢
      subst hx
      have hcm1 : same_fs c m1 := same_fs_trans hk1 hm1
      have hcm2 : same_fs c m2 := same_fs_trans hk1 hm2
      by_cases hx : x2 ≠ 0
      · rw [if_pos hx, if_pos hx]; exact ⟨rfl, same_fs_setErrno_right hcm2 _⟩
      rw [if_neg hx, if_neg hx]
      rw [hcm2.1, hcm1.1]
      cases lookup_component c.device_fd d component with
      | ioerr => exact ⟨rfl, same_fs_setErrno_right hcm2 _⟩
      | absent => exact ⟨rfl, same_fs_setErrno_right hcm2 _⟩
      | found nxt =>
        dsimp only
        have hm12 : same_fs m1 m2 := same_fs_trans (same_fs_symm hcm1) hcm2
        have hq2 := read_inode_from_disk_same m1 m2 nxt hm12
        have hq1 := read_inode_from_disk_same m1 m1 nxt (same_fs_refl m1)
        generalize read_inode_from_disk m2 nxt = q2 at hq2 ⊢
        generalize read_inode_from_disk m1 nxt = q1 at hq1 hq2 ⊢
        obtain ⟨w2, n2⟩ := q2
        obtain ⟨w1, n1⟩ := q1
        obtain ⟨hw, hn2, _⟩ := hq2
        obtain ⟨_, hn1, _⟩ := hq1
        dsimp only at hw hn2 hn1
        subst hw
        have hcn1 : same_fs c n1 := same_fs_trans hcm1 hn1
        have hcn2 : same_fs c n2 := same_fs_trans hcm1 hn2
        have hn12 : same_fs n1 n2 := same_fs_trans (same_fs_symm hcn1) hcn2
        cases w2 with
        | error e => exact ⟨rfl, hcn2⟩
        | ok t =>
          dsimp only
          by_cases hl : S_ISLNK (i_mode t) = true
          · rw [if_pos hl, if_pos hl]
            by_cases hlast : decide (rest = []) = true ∧ ¬ follow = true
            · rw [if_pos hlast, if_pos hlast]; exact ⟨rfl, hcn2⟩
            rw [if_neg hlast, if_neg hlast]
            rw [hcn2.1, hcn1.1]
            cases read_symlink_target c.device_fd t with
            | none => exact ⟨rfl, same_fs_setErrno_right hcn2 _⟩
            | some target =>
              dsimp only
              have := hrec n1 n2 (next_resolve_path (advance_current_path path component)
                component target rest) hn12
              exact ⟨this.1, same_fs_trans hcn1 this.2⟩
          · rw [if_neg hl, if_neg hl]
            by_cases hlast : decide (rest = []) = true
            · rw [if_pos hlast, if_pos hlast]; exact ⟨rfl, hcn2⟩
            rw [if_neg hlast, if_neg hlast]
            have := ih n1 n2 nxt (advance_current_path path component) hn12
            exact ⟨this.1, same_fs_trans hcn1 this.2⟩

theorem resolve_path_budget_same (caller : fuse_context) (follow : Bool) :
    ∀ (budget : Nat) (c c' : SimpleFS_Context) (p : List Nat), same_fs c c' →
      (resolve_path_budget caller follow budget c' p).1 =
        (resolve_path_budget caller follow budget c p).1 ∧
      same_fs c (resolve_path_budget caller follow budget c' p).2 := by
  intro budget
  induction budget with
  | zero => intro c c' p h; exact ⟨rfl, same_fs_setErrno_right h _⟩
  | succ b ih =>
    intro c c' p h
    rw [resolve_path_budget, resolve_path_budget]
    rw [h.2.1]
    by_cases h1 : p = []
    · rw [if_pos h1, if_pos h1]; exact ⟨rfl, same_fs_setErrno_right h _⟩
    rw [if_neg h1, if_neg h1]
    by_cases h2 : p = [SLASH]
    · rw [if_pos h2, if_pos h2]; exact ⟨rfl, h⟩
    rw [if_neg h2, if_neg h2]
    dsimp only
    by_cases h3 : path_components p = [] ∧ p.head? = some SLASH
    · rw [if_pos h3, if_pos h3]; exact ⟨rfl, h⟩
    rw [if_neg h3, if_neg h3]
    by_cases h4 : path_components p = []
    · rw [if_pos h4, if_pos h4]; exact ⟨rfl, same_fs_setErrno_right h _⟩
    rw [if_neg h4, if_neg h4]
    exact resolve_walk_same caller follow _ (fun c c' p h => ih c c' p h) _ c c' _ _ h

theorem resolve_path_recursive_same (caller : fuse_context) (follow : Bool) (depth : Nat)
    (c c' : SimpleFS_Context) (p : List Nat) (h : same_fs c c') :
    (resolve_path_recursive c' caller p depth follow).1 =
      (resolve_path_recursive c caller p depth follow).1 ∧
    same_fs c (resolve_path_recursive c' caller p depth follow).2 :=
  resolve_path_budget_same caller follow _ c c' p h

/-! ## The component loop as the iteration of one step -/

/-- The component loop is the iteration of `walk_step`. -/
theorem resolve_walk_cons (caller : fuse_context) (follow : Bool)
    (recurse : SimpleFS_Context → List Nat → Nat × SimpleFS_Context)
    (component : List Nat) (rest : List (List Nat)) (c : SimpleFS_Context) (cur : Nat)
    (path : List Nat) :
    resolve_walk caller follow recurse (component :: rest) c cur path =
      match walk_step caller follow component rest c cur path with
      | .done r => r
      | .next c' cur' path' => resolve_walk caller follow recurse rest c' cur' path'
      | .link c' p => recurse c' p := by
  rw [resolve_walk, walk_step]
  dsimp only
  by_cases hskip : component = [] ∨ component = DOT
  · rw [if_pos hskip, if_pos hskip]
  rw [if_neg hskip, if_neg hskip]
  generalize read_inode_from_disk c cur = r1
  obtain ⟨v1, k1⟩ := r1
  cases v1 with
  | error e => rfl
  | ok d =>
    dsimp only
    by_cases hdir : ¬ S_ISDIR (i_mode d) = true
    · rw [if_pos hdir, if_pos hdir]
    rw [if_neg hdir, if_neg hdir]
    generalize check_access k1 caller d X_OK = a1
    obtain ⟨x1, m1⟩ := a1
    dsimp only
    by_cases hx : x1 ≠ 0
    · rw [if_pos hx, if_pos hx]
    rw [if_neg hx, if_neg hx]
    cases lookup_component m1.device_fd d component with
    | ioerr => rfl
    | absent => rfl
    | found nxt =>
      dsimp only
      generalize read_inode_from_disk m1 nxt = q1
      obtain ⟨w1, n1⟩ := q1
      cases w1 with
      | error e => rfl
      | ok t =>
        dsimp only
        by_cases hl : S_ISLNK (i_mode t) = true
        · rw [if_pos hl, if_pos hl]
          by_cases hlast : decide (rest = []) = true ∧ ¬ follow = true
          · rw [if_pos hlast, if_pos hlast]
          rw [if_neg hlast, if_neg hlast]
          cases read_symlink_target n1.device_fd t with
          | none => rfl
          | some target => rfl
        · rw [if_neg hl, if_neg hl]
          by_cases hlast : decide (rest = []) = true
          · rw [if_pos hlast, if_pos hlast]
          rw [if_neg hlast, if_neg hlast]

/-- The component loop returns what its outcome says. -/
theorem resolve_walk_eq_outcome (caller : fuse_context) (follow : Bool)
    (recurse : SimpleFS_Context → List Nat → Nat × SimpleFS_Context) :
    ∀ (comps : List (List Nat)) (c : SimpleFS_Context) (cur : Nat) (path : List Nat),
      resolve_walk caller follow recurse comps c cur path =
        (walk_outcome caller follow comps c cur path).result recurse := by
  intro comps
  induction comps with
  | nil => intro c cur path; rfl
  | cons component rest ih =>
    intro c cur path
    rw [resolve_walk_cons, walk_outcome]
    cases walk_step caller follow component rest c cur path with
    | done r => rfl
    | next c' cur' path' => exact ih c' cur' path'
    | link c' p => rfl

/-! ## Sticky directories -/

theorem check_access_cases (c : SimpleFS_Context) (caller : fuse_context) (inode : Buf)
    (perm : Nat) :
    check_access c caller inode perm = (0, c) ∨
    check_access c caller inode perm = (-(EACCES : Int), setErrno c EACCES) := by
  unfold check_access
  dsimp only
  split_ifs <;> first | exact Or.inl rfl | exact Or.inr rfl

/-- The outcome of `open_parent` when the parent path resolves to a directory
inode that can be read: the write-and-search check refuses with `-EACCES`, or
the parent is delivered; the filesystem is untouched either way. -/
theorem open_parent_cases (context : SimpleFS_Context) (caller : fuse_context)
    (dirname_str : List Nat) (parent_num : Nat) (parent : Buf)
    (hp : (path_to_inode_num context caller dirname_str).1 = parent_num)
    (hp0 : parent_num ≠ 0)
    (hpi : (read_inode_from_disk context parent_num).1 = .ok parent)
    (hpd : S_ISDIR (i_mode parent) = true) :
    (∃ c', same_fs context c' ∧
      open_parent context caller dirname_str = .error (-(EACCES : Int), c')) ∨
    (∃ c', same_fs context c' ∧
      open_parent context caller dirname_str = .ok (parent_num, parent, c')) := by
  unfold open_parent
  dsimp only
  have h0 : same_fs context (setErrno context 0) := same_fs_setErrno context 0
  have hr := resolve_path_recursive_same caller true 0 context (setErrno context 0)
    dirname_str h0
  unfold path_to_inode_num at hp ⊢
  generalize resolve_path_recursive (setErrno context 0) caller dirname_str 0 true = r at hr ⊢
  obtain ⟨n, c1⟩ := r
  obtain ⟨hn, hc1⟩ := hr
  dsimp only at hn hc1 ⊢
  rw [hp] at hn
  subst hn
  rw [if_neg hp0]
  have hq := read_inode_from_disk_same context c1 n hc1
  generalize read_inode_from_disk c1 n = q at hq ⊢
  obtain ⟨v, c2⟩ := q
  obtain ⟨hv, hc2, _⟩ := hq
  dsimp only at hv hc2
  rw [hpi] at hv
  subst hv
  dsimp only
  rw [if_neg (not_not.mpr hpd)]
  rcases check_access_cases c2 caller parent (Nat.lor W_OK X_OK) with ha | ha
  · right
    rw [ha]
    exact ⟨c2, hc2, by simp⟩
  · left
    rw [ha]
    refine ⟨setErrno c2 EACCES, same_fs_setErrno_right hc2 _, ?_⟩
    have hE : (-(EACCES : Int)) ≠ 0 := by decide
    rw [if_pos (show (-(EACCES : Int), setErrno c2 EACCES).1 ≠ 0 from hE)]

/-- C18: with a sticky parent directory and a caller who is neither uid 0 nor
the owner of the parent nor the owner of the target, `simplefs_unlink` of a
non-directory and `simplefs_rmdir` (with any fuel, whatever the target) return
`-EACCES` and leave the device, the superblock and the group descriptors as
they were. -/
theorem C18_sticky_refuses_removal (context : SimpleFS_Context) (caller : fuse_context)
    (path : List Nat) (parent_num target_num : Nat) (parent target : Buf)
    (hb : bad_basename (parse_path path).2 = false)
    (hp : (path_to_inode_num context caller (parse_path path).1).1 = parent_num)
    (hp0 : parent_num ≠ 0)
    (hpi : (read_inode_from_disk context parent_num).1 = .ok parent)
    (hpd : S_ISDIR (i_mode parent) = true)
    (hst : Nat.land (i_mode parent) S_ISVTX ≠ 0)
    (ht : (resolve_path_recursive context caller path 0 false).1 = target_num)
    (ht0 : target_num ≠ 0)
    (hti : (read_inode_from_disk context target_num).1 = .ok target)
    (hu0 : caller.uid ≠ 0) (hup : caller.uid ≠ i_uid parent)
    (hut : caller.uid ≠ i_uid target) :
    (¬ S_ISDIR (i_mode target) = true →
      (simplefs_unlink context caller path).1 = -(EACCES : Int) ∧
      same_fs context (simplefs_unlink context caller path).2) ∧
    (∀ fuel, ∃ c', simplefs_rmdir fuel context caller path = some (-(EACCES : Int), c') ∧
      same_fs context c') := by
  have hop := open_parent_cases context caller (parse_path path).1 parent_num parent hp hp0 hpi hpd
  have key : ∀ c1, same_fs context c1 →
      ∃ c3, same_fs context c3 ∧
        resolve_path_recursive (setErrno c1 0) caller path 0 false = (target_num, (resolve_path_recursive (setErrno c1 0) caller path 0 false).2) ∧
        read_inode_from_disk (resolve_path_recursive (setErrno c1 0) caller path 0 false).2
          target_num = (.ok target, c3) := by
    intro c1 h1
    have hr := resolve_path_recursive_same caller false 0 context (setErrno c1 0) path
      (same_fs_setErrno_right h1 0)
    rw [ht] at hr
    have hq := read_inode_from_disk_same context _ target_num hr.2
    rw [hti] at hq
    refine ⟨_, hq.2.1, ?_, ?_⟩
    · exact Prod.ext hr.1 rfl
    · exact Prod.ext hq.1 rfl
  constructor
  · intro hnd
    unfold simplefs_unlink
    generalize parse_path path = pp at hb hop
    obtain ⟨d, b⟩ := pp
    dsimp only at hb hop ⊢
    rw [hb]
    rw [if_neg (by decide)]
    rcases hop with ⟨c', hc', he⟩ | ⟨c', hc', he⟩
    · rw [he]; exact ⟨rfl, hc'⟩
    · rw [he]
      dsimp only
      obtain ⟨c3, hc3, e1, e2⟩ := key c' hc'
      rw [e1]
      dsimp only
      rw [if_neg ht0, e2]
      dsimp only
      rw [if_pos ⟨hst, hnd, hu0, hup, hut⟩]
      exact ⟨rfl, hc3⟩
  · intro fuel
    unfold simplefs_rmdir
    generalize parse_path path = pp at hb hop
    obtain ⟨d, b⟩ := pp
    dsimp only at hb hop ⊢
    rw [hb]
    rw [if_neg (by decide)]
    rcases hop with ⟨c', hc', he⟩ | ⟨c', hc', he⟩
    · rw [he]; exact ⟨c', rfl, hc'⟩
    · rw [he]
      dsimp only
      obtain ⟨c3, hc3, e1, e2⟩ := key c' hc'
      rw [e1]
      dsimp only
      rw [if_neg ht0, e2]
      dsimp only
      rw [if_pos ⟨hst, hu0, hup, hut⟩]
      exact ⟨c3, rfl, hc3⟩

theorem walk_step_same (caller : fuse_context) (follow : Bool) (component : List Nat)
    (rest : List (List Nat)) (c c' : SimpleFS_Context) (cur : Nat) (path : List Nat)
    (h : same_fs c c') :
    WalkStep.same c (walk_step caller follow component rest c cur path)
      (walk_step caller follow component rest c' cur path) := by
  rw [walk_step, walk_step]
  dsimp only
  by_cases hskip : component = [] ∨ component = DOT
  · rw [if_pos hskip, if_pos hskip]
    exact ⟨rfl, rfl, h, same_fs_refl c⟩
  rw [if_neg hskip, if_neg hskip]
  have hr2 := read_inode_from_disk_same c c' cur h
  have hr1 := read_inode_from_disk_same c c cur (same_fs_refl c)
  generalize read_inode_from_disk c' cur = r2 at hr2 ⊢
  generalize read_inode_from_disk c cur = r1 at hr1 hr2 ⊢
  obtain ⟨v2, k2⟩ := r2
  obtain ⟨v1, k1⟩ := r1
  obtain ⟨hv, hk2, _⟩ := hr2
  obtain ⟨_, hk1, _⟩ := hr1
  dsimp only at hv hk2 hk1
  subst hv
  cases v2 with
  | error e => exact ⟨rfl, hk2, hk1⟩
  | ok d =>
    dsimp only
    by_cases hdir : ¬ S_ISDIR (i_mode d) = true
    · rw [if_pos hdir, if_pos hdir]
      exact ⟨rfl, same_fs_setErrno_right hk2 _, same_fs_setErrno_right hk1 _⟩
    rw [if_neg hdir, if_neg hdir]
    have hk12 : same_fs k1 k2 := same_fs_trans (same_fs_symm hk1) hk2
    have ha2 := check_access_same k1 k2 caller d X_OK hk12
    have ha1 := check_access_same k1 k1 caller d X_OK (same_fs_refl k1)
    generalize check_access k2 caller d X_OK = a2 at ha2 ⊢
    generalize check_access k1 caller d X_OK = a1 at ha1 ha2 ⊢
    obtain ⟨x2, m2⟩ := a2
    obtain ⟨x1, m1⟩ := a1
    obtain ⟨hx, hm2⟩ := ha2
    obtain ⟨_, hm1⟩ := ha1
    dsimp only at hx hm2 hm1 ⊢
    subst hx
    have hcm1 : same_fs c m1 := same_fs_trans hk1 hm1
    have hcm2 : same_fs c m2 := same_fs_trans hk1 hm2
    by_cases hx : x2 ≠ 0
    · rw [if_pos hx, if_pos hx]
      exact ⟨rfl, same_fs_setErrno_right hcm2 _, same_fs_setErrno_right hcm1 _⟩
    rw [if_neg hx, if_neg hx]
    rw [hcm2.1, hcm1.1]
    cases lookup_component c.device_fd d component with
    | ioerr => exact ⟨rfl, same_fs_setErrno_right hcm2 _, same_fs_setErrno_right hcm1 _⟩
    | absent => exact ⟨rfl, same_fs_setErrno_right hcm2 _, same_fs_setErrno_right hcm1 _⟩
    | found nxt =>
      dsimp only
      have hm12 : same_fs m1 m2 := same_fs_trans (same_fs_symm hcm1) hcm2
      have hq2 := read_inode_from_disk_same m1 m2 nxt hm12
      have hq1 := read_inode_from_disk_same m1 m1 nxt (same_fs_refl m1)
      generalize read_inode_from_disk m2 nxt = q2 at hq2 ⊢
      generalize read_inode_from_disk m1 nxt = q1 at hq1 hq2 ⊢
      obtain ⟨w2, n2⟩ := q2
      obtain ⟨w1, n1⟩ := q1
      obtain ⟨hw, hn2, _⟩ := hq2
      obtain ⟨_, hn1, _⟩ := hq1
      dsimp only at hw hn2 hn1
      subst hw
      have hcn1 : same_fs c n1 := same_fs_trans hcm1 hn1
      have hcn2 : same_fs c n2 := same_fs_trans hcm1 hn2
      cases w2 with
      | error e => exact ⟨rfl, hcn2, hcn1⟩
      | ok t =>
        dsimp only
        by_cases hl : S_ISLNK (i_mode t) = true
        · rw [if_pos hl, if_pos hl]
          by_cases hlast : decide (rest = []) = true ∧ ¬ follow = true
          · rw [if_pos hlast, if_pos hlast]; exact ⟨rfl, hcn2, hcn1⟩
          rw [if_neg hlast, if_neg hlast]
          rw [hcn2.1, hcn1.1]
          cases read_symlink_target c.device_fd t with
          | none => exact ⟨rfl, same_fs_setErrno_right hcn2 _, same_fs_setErrno_right hcn1 _⟩
          | some target => exact ⟨rfl, hcn2, hcn1⟩
        · rw [if_neg hl, if_neg hl]
          by_cases hlast : decide (rest = []) = true
          · rw [if_pos hlast, if_pos hlast]; exact ⟨rfl, hcn2, hcn1⟩
          rw [if_neg hlast, if_neg hlast]
          exact ⟨rfl, rfl, hcn2, hcn1⟩

theorem walk_outcome_same (caller : fuse_context) (follow : Bool) :
    ∀ (comps : List (List Nat)) (c0 c c' : SimpleFS_Context) (cur : Nat) (path : List Nat),
      same_fs c0 c → same_fs c0 c' →
      WalkStep.same c0 (walk_outcome caller follow comps c cur path)
        (walk_outcome caller follow comps c' cur path) := by
  intro comps
  induction comps with
  | nil => intro c0 c c' cur path h h'; exact ⟨rfl, h', h⟩
  | cons component rest ih =>
    intro c0 c c' cur path h h'
    rw [walk_outcome, walk_outcome]
    have hs := walk_step_same caller follow component rest c c' cur path
      (same_fs_trans (same_fs_symm h) h')
    generalize walk_step caller follow component rest c' cur path = o' at hs ⊢
    generalize walk_step caller follow component rest c cur path = o at hs ⊢
    cases o with
    | done r =>
      cases o' with
      | done r' => exact ⟨hs.1, same_fs_trans h hs.2.1, same_fs_trans h hs.2.2⟩
      | next _ _ _ => exact absurd hs id
      | link _ _ => exact absurd hs id
    | next k n p =>
      cases o' with
      | done _ => exact absurd hs id
      | next k' n' p' =>
        obtain ⟨rfl, rfl, hk', hk⟩ := hs
        exact ih c0 k k' _ _ (same_fs_trans h hk) (same_fs_trans h hk')
      | link _ _ => exact absurd hs id
    | link k p =>
      cases o' with
      | done _ => exact absurd hs id
      | next _ _ _ => exact absurd hs id
      | link k' p' => exact ⟨hs.1, same_fs_trans h hs.2.1, same_fs_trans h hs.2.2⟩

/-- Running the loop further does not change what the function returns. -/
theorem walk_run_result (caller : fuse_context) (follow : Bool) :
    ∀ (n : Nat) (s : WalkState),
      (walk_run caller follow n s).result caller follow = s.result caller follow := by
  intro n
  induction n with
  | zero => intro s; rfl
  | succ n ih =>
    intro s
    obtain ⟨b, comps, c, cur, path⟩ := s
    cases comps with
    | nil => rfl
    | cons component rest =>
      rw [walk_run]
      dsimp only
      cases hw : walk_step caller follow component rest c cur path with
      | done r => rfl
      | next c' cur' path' =>
        dsimp only
        rw [ih]
        unfold WalkState.result
        dsimp only
        rw [resolve_walk_cons, hw]
      | link c' p =>
        dsimp only
        cases b with
        | zero => rfl
        | succ b =>
          dsimp only
          by_cases hp : p = [] ∨ p = [SLASH] ∨ path_components p = []
          · rw [if_pos hp]
          rw [if_neg hp, ih]
          unfold WalkState.result
          dsimp only
          rw [resolve_walk_cons caller follow
            (fun ctx p => resolve_path_budget caller follow (b + 1) ctx p), hw]
          dsimp only
          rw [resolve_path_budget]
          rw [if_neg (fun h => hp (Or.inl h)), if_neg (fun h => hp (Or.inr (Or.inl h)))]
          dsimp only
          rw [if_neg (fun h => hp (Or.inr (Or.inr h.1))),
            if_neg (fun h => hp (Or.inr (Or.inr h)))]

/-- A loop iteration on a directory that refuses `X_OK` returns 0 with
`errno = EACCES`, whether or not the component exists in it. -/
theorem walk_step_unsearchable (caller : fuse_context) (follow : Bool) (component : List Nat)
    (rest : List (List Nat)) (c : SimpleFS_Context) (cur : Nat) (path : List Nat)
    (hc : ¬ (component = [] ∨ component = DOT))
    (hu : dir_unsearchable c caller cur = true) :
    ∃ c', walk_step caller follow component rest c cur path = .done (0, c') ∧
      c'.errno = EACCES ∧ same_fs c c' := by
  unfold dir_unsearchable at hu
  rw [walk_step]
  dsimp only
  rw [if_neg hc]
  have hr1 := read_inode_from_disk_same c c cur (same_fs_refl c)
  generalize read_inode_from_disk c cur = r1 at hr1 hu ⊢
  obtain ⟨v1, k1⟩ := r1
  obtain ⟨_, hk1, _⟩ := hr1
  dsimp only at hu hk1
  cases v1 with
  | error e => exact absurd hu (by simp)
  | ok d =>
    dsimp only at hu ⊢
    rw [Bool.and_eq_true, decide_eq_true_eq] at hu
    rw [if_neg (not_not.mpr hu.1)]
    have ha := check_access_same c k1 caller d X_OK hk1
    rcases check_access_cases k1 caller d X_OK with h0 | h1
    · exact absurd (by rw [← ha.1, h0]) hu.2
    · rw [h1]
      dsimp only
      have hE : (-(EACCES : Int)) ≠ 0 := by decide
      rw [if_pos hE]
      exact ⟨_, rfl, rfl, same_fs_setErrno_right (same_fs_setErrno_right hk1 _) _⟩

/-! ## Search permission during resolution -/

theorem inode_of_spec (context : SimpleFS_Context) (inode_num : Nat)
    (h : inode_readable context inode_num = true) :
    (read_inode_from_disk context inode_num).1 = .ok (inode_of context inode_num) := by
  unfold inode_readable at h
  unfold inode_of
  cases hr : (read_inode_from_disk context inode_num).1 with
  | ok b => rfl
  | error e => rw [hr] at h; exact absurd h (by simp)

theorem walk_run_nil (caller : fuse_context) (follow : Bool) (n : Nat) (s : WalkState)
    (h : s.comps = []) : walk_run caller follow n s = s := by
  obtain ⟨b, comps, c, cur, path⟩ := s
  dsimp only at h
  subst h
  cases n <;> rfl

/-- C19: when the component loop of a resolution started at a depth of at most
40 comes, after any number of iterations and followed links, to look up a
component in a directory that refuses `X_OK` to the caller, the resolution
returns 0 with `errno = EACCES`, whether or not that component or a later one
exists, and the filesystem is untouched. -/
theorem C19_unsearchable_directory_denies (context : SimpleFS_Context) (caller : fuse_context)
    (path : List Nat) (depth : Nat) (follow : Bool) (n : Nat) (component : List Nat)
    (rest : List (List Nat))
    (hdepth : depth ≤ FUSE_SYMLINK_MAX)
    (ht : (walk_run caller follow n
      { budget := FUSE_SYMLINK_MAX - depth, comps := path_components path, ctx := context,
        cur := context.sb.s_root_inode, path := [SLASH] }).comps = component :: rest)
    (hc : ¬ (component = [] ∨ component = DOT))
    (hu : dir_unsearchable
      (walk_run caller follow n
        { budget := FUSE_SYMLINK_MAX - depth, comps := path_components path, ctx := context,
          cur := context.sb.s_root_inode, path := [SLASH] }).ctx caller
      (walk_run caller follow n
        { budget := FUSE_SYMLINK_MAX - depth, comps := path_components path, ctx := context,
          cur := context.sb.s_root_inode, path := [SLASH] }).cur = true) :
    (resolve_path_recursive context caller path depth follow).1 = 0 ∧
    (resolve_path_recursive context caller path depth follow).2.errno = EACCES ∧
    same_fs context (resolve_path_recursive context caller path depth follow).2 := by
  have hsame := (resolve_path_recursive_same caller follow depth context context path
    (same_fs_refl context)).2
  refine ⟨?_, ?_, hsame⟩ <;>
  · have hne : path_components path ≠ [] := by
      intro h0
      rw [walk_run_nil caller follow n _ h0] at ht
      dsimp only at ht
      rw [h0] at ht
      exact List.noConfusion ht
    have hp1 : path ≠ [] := by
      intro h; apply hne; rw [h]; decide
    have hp2 : path ≠ [SLASH] := by
      intro h; apply hne; rw [h]; decide
    have hb : FUSE_SYMLINK_MAX + 1 - depth = (FUSE_SYMLINK_MAX - depth) + 1 := by omega
    have hres := walk_run_result caller follow n
      { budget := FUSE_SYMLINK_MAX - depth, comps := path_components path, ctx := context,
        cur := context.sb.s_root_inode, path := [SLASH] }
    have htop : resolve_path_recursive context caller path depth follow =
        WalkState.result caller follow
          { budget := FUSE_SYMLINK_MAX - depth, comps := path_components path, ctx := context,
            cur := context.sb.s_root_inode, path := [SLASH] } := by
      unfold resolve_path_recursive WalkState.result
      rw [hb, resolve_path_budget, if_neg hp1, if_neg hp2]
      dsimp only
      rw [if_neg (fun h => hne h.1), if_neg hne]
    rw [htop, ← hres]
    generalize walk_run caller follow n
      { budget := FUSE_SYMLINK_MAX - depth, comps := path_components path, ctx := context,
        cur := context.sb.s_root_inode, path := [SLASH] } = t at ht hu
    obtain ⟨b, comps, c, cur, p⟩ := t
    dsimp only at ht hu
    subst ht
    obtain ⟨c', hstep, herr, _⟩ := walk_step_unsearchable caller follow component rest c cur p hc hu
    unfold WalkState.result
    dsimp only
    rw [resolve_walk_cons, hstep]
    try exact herr

/-- Witness for C19 on `ctxTree`: for the caller with uid 1000 the loop of
`/x/n` comes after one iteration to the directory `/x` (inode 14, mode 0700,
owner 7) with the component `n` to look up, and the resolution fails with
`EACCES` although `/x` holds no entry `n`. -/
theorem C19_unsearchable_directory_denies_witness :
    (resolve_path_recursive ctxTree callerU [47, 120, 47, 110] 0 true).1 = 0 ∧
    (resolve_path_recursive ctxTree callerU [47, 120, 47, 110] 0 true).2.errno = EACCES ∧
    same_fs ctxTree (resolve_path_recursive ctxTree callerU [47, 120, 47, 110] 0 true).2 :=
  C19_unsearchable_directory_denies ctxTree callerU [47, 120, 47, 110] 0 true 1 [110] []
    (by decide) (by decide!) (by decide) (by decide!)

/-! ## Symbolic-link cycles -/

theorem link_path_some (o : WalkStep) (p : List Nat) (h : o.link_path = some p) :
    ∃ c, o = .link c p := by
  cases o with
  | done r => exact absurd h (by simp [WalkStep.link_path])
  | next c n q => exact absurd h (by simp [WalkStep.link_path])
  | link c q =>
    simp only [WalkStep.link_path, Option.some.injEq] at h
    exact ⟨c, by rw [h]⟩

/-- With no recursion depth left the function fails at once. -/
theorem resolve_path_budget_zero (caller : fuse_context) (follow : Bool)
    (c : SimpleFS_Context) (p : List Nat) :
    resolve_path_budget caller follow 0 c p = (0, setErrno c ELOOP) := by
  rw [resolve_path_budget]

theorem resolve_cycle_budget (context : SimpleFS_Context) (caller : fuse_context)
    (follow : Bool) (K : List Nat → Prop)
    (hK : ∀ p, K p → p ≠ [] ∧ p ≠ [SLASH] ∧ path_components p ≠ [] ∧
      ∃ p', K p' ∧
        (walk_outcome caller follow (path_components p) context context.sb.s_root_inode
          [SLASH]).link_path = some p') :
    ∀ (budget : Nat) (c : SimpleFS_Context) (p : List Nat), K p → same_fs context c →
      (resolve_path_budget caller follow budget c p).1 = 0 ∧
      (resolve_path_budget caller follow budget c p).2.errno = ELOOP ∧
      same_fs context (resolve_path_budget caller follow budget c p).2 := by
  intro budget
  induction budget with
  | zero =>
    intro c p _ hc
    rw [resolve_path_budget_zero]
    exact ⟨rfl, rfl, same_fs_setErrno_right hc _⟩
  | succ b ih =>
    intro c p hp hc
    obtain ⟨h1, h2, h3, p', hp', hl⟩ := hK p hp
    obtain ⟨k, hk⟩ := link_path_some _ _ hl
    have hs := walk_outcome_same caller follow (path_components p) context context c
      context.sb.s_root_inode [SLASH] (same_fs_refl context) hc
    rw [hk] at hs
    rw [resolve_path_budget, if_neg h1, if_neg h2]
    dsimp only
    rw [if_neg (fun h => h3 h.1), if_neg h3, resolve_walk_eq_outcome, hc.2.1]
    cases ho : walk_outcome caller follow (path_components p) c context.sb.s_root_inode
        [SLASH] with
    | done r => rw [ho] at hs; exact absurd hs id
    | next _ _ _ => rw [ho] at hs; exact absurd hs id
    | link k' q =>
      rw [ho] at hs
      obtain ⟨hq, hk', _⟩ := hs
      subst hq
      exact ih k' q hp' hk'

/-- C20: a call at a depth above 40 fails at once with `ELOOP`; and for every
set of paths each of whose component loops ends by following a link to a path
of the set again (symbolic links that form a cycle), the resolution of each of
them, started at any depth and with either value of `follow_last_symlink`,
returns 0 with `errno = ELOOP` and leaves the filesystem untouched. -/
theorem C20_symlink_cycle_fails (context : SimpleFS_Context) (caller : fuse_context)
    (follow : Bool) (K : List Nat → Prop)
    (hK : ∀ p, K p → p ≠ [] ∧ p ≠ [SLASH] ∧ path_components p ≠ [] ∧
      ∃ p', K p' ∧
        (walk_outcome caller follow (path_components p) context context.sb.s_root_inode
          [SLASH]).link_path = some p') :
    (∀ (c : SimpleFS_Context) (p : List Nat) (depth : Nat), depth > FUSE_SYMLINK_MAX →
      resolve_path_recursive c caller p depth follow = (0, setErrno c ELOOP)) ∧
    (∀ (p : List Nat) (depth : Nat), K p →
      (resolve_path_recursive context caller p depth follow).1 = 0 ∧
      (resolve_path_recursive context caller p depth follow).2.errno = ELOOP ∧
      same_fs context (resolve_path_recursive context caller p depth follow).2) := by
  constructor
  · intro c p depth hd
    unfold resolve_path_recursive
    have : FUSE_SYMLINK_MAX + 1 - depth = 0 := by omega
    rw [this, resolve_path_budget_zero]
  · intro p depth hp
    exact resolve_cycle_budget context caller follow K hK _ context p hp (same_fs_refl context)

/-- Witness for C20 on `ctxTree`, where `/a` is a link to `/b` and `/b` a link
to `/a`: resolving `/a` with the final link followed, and resolving `/a/y`
(the cycle entered through a non-final component) without following a final
link, both fail with `ELOOP`. -/
theorem C20_symlink_cycle_fails_witness :
    ((resolve_path_recursive ctxTree callerU [47, 97] 0 true).1 = 0 ∧
      (resolve_path_recursive ctxTree callerU [47, 97] 0 true).2.errno = ELOOP ∧
      same_fs ctxTree (resolve_path_recursive ctxTree callerU [47, 97] 0 true).2) ∧
    ((resolve_path_recursive ctxTree callerU [47, 97, 47, 121] 0 false).1 = 0 ∧
      (resolve_path_recursive ctxTree callerU [47, 97, 47, 121] 0 false).2.errno = ELOOP ∧
      same_fs ctxTree (resolve_path_recursive ctxTree callerU [47, 97, 47, 121] 0 false).2) :=
  ⟨(C20_symlink_cycle_fails ctxTree callerU true (fun p => p = [47, 97] ∨ p = [47, 98])
      (fun p hp => by
        rcases hp with rfl | rfl
        · exact ⟨by decide, by decide, by decide, [47, 98], Or.inr rfl, by decide!⟩
        · exact ⟨by decide, by decide, by decide, [47, 97], Or.inl rfl, by decide!⟩)).2
      [47, 97] 0 (Or.inl rfl),
   (C20_symlink_cycle_fails ctxTree callerU false
      (fun p => p = [47, 97, 47, 121] ∨ p = [47, 98, 47, 121])
      (fun p hp => by
        rcases hp with rfl | rfl
        · exact ⟨by decide, by decide, by decide, [47, 98, 47, 121], Or.inr rfl, by decide!⟩
        · exact ⟨by decide, by decide, by decide, [47, 97, 47, 121], Or.inl rfl, by decide!⟩)).2
      [47, 97, 47, 121] 0 (Or.inl rfl)⟩

/-- Witness for C18 on `ctxTree`, whose root directory is sticky (mode 1777,
owner 0): the caller with uid 1000 can write and search the root, yet
`simplefs_unlink` of `/f` and `simplefs_rmdir` of `/d` (both owned by uid 7)
return `-EACCES` and change nothing. -/
theorem C18_sticky_refuses_removal_witness :
    ((simplefs_unlink ctxTree callerU [47, 102]).1 = -(EACCES : Int) ∧
      same_fs ctxTree (simplefs_unlink ctxTree callerU [47, 102]).2) ∧
    (∃ c', simplefs_rmdir 8 ctxTree callerU [47, 100] = some (-(EACCES : Int), c') ∧
      same_fs ctxTree c') :=
  ⟨(C18_sticky_refuses_removal ctxTree callerU [47, 102] 2 12 (inode_of ctxTree 2)
      (inode_of ctxTree 12) (by decide) (by decide!) (by decide)
      (inode_of_spec ctxTree 2 (by decide!)) (by decide!) (by decide!) (by decide!) (by decide)
      (inode_of_spec ctxTree 12 (by decide!)) (by decide) (by decide!) (by decide!)).1
      (by decide!),
   (C18_sticky_refuses_removal ctxTree callerU [47, 100] 2 13 (inode_of ctxTree 2)
      (inode_of ctxTree 13) (by decide) (by decide!) (by decide)
      (inode_of_spec ctxTree 2 (by decide!)) (by decide!) (by decide!) (by decide!) (by decide)
      (inode_of_spec ctxTree 13 (by decide!)) (by decide) (by decide!) (by decide!)).2 8⟩

/-! ## Directory records -/

theorem blitList_outside (m : Buf) (doff : Nat) (s : List Nat) (i : Nat)
    (h : i < doff ∨ doff + s.length ≤ i) : blitList m doff s i = m i := by
  have : ¬ (doff ≤ i ∧ i < doff + s.length) := by omega
  simp [blitList, this]

theorem bytesOf_congr (m m' : Buf) (off len : Nat)
    (h : ∀ i, off ≤ i → i < off + len → m i = m' i) : bytesOf m off len = bytesOf m' off len := by
  unfold bytesOf
  apply List.map_congr_left
  intro i hi
  rw [List.mem_range] at hi
  exact h (off + i) (by omega) (by omega)

theorem bytesOf_blitList (m : Buf) (off : Nat) (s : List Nat) :
    bytesOf (blitList m off s) off s.length = s := by
  unfold bytesOf blitList
  apply List.ext_getElem
  · simp
  · intro i h1 h2
    simp only [List.length_map, List.length_range] at h1
    simp only [List.getElem_map, List.getElem_range]
    rw [if_pos ⟨by omega, by omega⟩, Nat.add_sub_cancel_left]
    simp [List.getD_eq_getElem?_getD, List.getElem?_eq_getElem h1]

/-- The header fields and the name of the record at `off` are read from the
bytes `[off, off + 8 + name_len)`. -/
theorem de_fields_congr (m m' : Buf) (off : Nat)
    (h : ∀ i, off ≤ i → i < off + 8 → m i = m' i) :
    de_inode m off = de_inode m' off ∧ de_rec_len m off = de_rec_len m' off ∧
    de_name_len m off = de_name_len m' off := by
  refine ⟨?_, ?_, ?_⟩
  · exact getLE_congr _ _ _ _ (fun i h1 h2 => h i h1 (by omega))
  · exact getLE_congr _ _ _ _ (fun i h1 h2 => h i (by omega) (by omega))
  · exact getLE_congr _ _ _ _ (fun i h1 h2 => h i (by omega) (by omega))

theorem de_name_congr (m m' : Buf) (off : Nat)
    (h : ∀ i, off ≤ i → i < off + 8 + de_name_len m off → m i = m' i) :
    de_name m off = de_name m' off := by
  have hl : de_name_len m off = de_name_len m' off :=
    getLE_congr _ _ _ _ (fun i h1 h2 => h i (by omega) (by omega))
  unfold de_name
  rw [← hl]
  exact bytesOf_congr _ _ _ _ (fun i h1 h2 => h i (by omega) (by omega))

/-- What `fill_dir_entry` leaves at `off` and elsewhere. -/
theorem fill_dir_entry_spec (blk : Buf) (off child : Nat) (name : List Nat) (ft rl : Nat)
    (hn : name.length ≤ 255) (hc : child < 4294967296) (hr : rl < 65536) :
    de_inode (fill_dir_entry blk off child name ft rl) off = child ∧
    de_rec_len (fill_dir_entry blk off child name ft rl) off = rl ∧
    de_name_len (fill_dir_entry blk off child name ft rl) off = name.length ∧
    de_name (fill_dir_entry blk off child name ft rl) off = name ∧
    (∀ i, i < off ∨ off + 8 + name.length ≤ i →
      fill_dir_entry blk off child name ft rl i = blk i) := by
  have hnl : de_name_len (fill_dir_entry blk off child name ft rl) off = name.length := by
    unfold fill_dir_entry de_name_len set_de_rec_len set_de_file_type set_de_name_len set_de_inode
    dsimp only
    rw [getLE_setLE_disjoint _ _ _ _ _ _ (by omega)]
    rw [getLE_congr _ (setLE (setLE (setLE blk off 4 child) (off + 6) 1 name.length) (off + 7) 1 ft)
      1 (off + 6) (fun i h1 h2 => blitList_outside _ _ _ _ (by omega))]
    rw [getLE_setLE_disjoint _ _ _ _ _ _ (by omega), getLE_setLE_same]
    exact Nat.mod_eq_of_lt (by norm_num; omega)
  refine ⟨?_, ?_, hnl, ?_, ?_⟩
  · unfold fill_dir_entry de_inode set_de_rec_len set_de_file_type set_de_name_len set_de_inode
    dsimp only
    rw [getLE_setLE_disjoint _ _ _ _ _ _ (by omega)]
    rw [getLE_congr _ (setLE (setLE (setLE blk off 4 child) (off + 6) 1 name.length) (off + 7) 1 ft)
      4 off (fun i h1 h2 => blitList_outside _ _ _ _ (by omega))]
    rw [getLE_setLE_disjoint _ _ _ _ _ _ (by omega),
      getLE_setLE_disjoint _ _ _ _ _ _ (by omega), getLE_setLE_same]
    exact Nat.mod_eq_of_lt (by norm_num; omega)
  · unfold fill_dir_entry de_rec_len set_de_rec_len
    dsimp only
    rw [getLE_setLE_same]
    exact Nat.mod_eq_of_lt (by norm_num; omega)
  · unfold de_name
    rw [hnl]
    unfold fill_dir_entry set_de_rec_len
    dsimp only
    rw [bytesOf_congr _ (blitList (set_de_file_type (set_de_name_len (set_de_inode blk off child)
      off name.length) off ft) (off + 8) name) (off + 8) name.length
      (fun i h1 h2 => setLE_outside _ _ _ _ _ (by omega))]
    exact bytesOf_blitList _ _ _
  · intro i hi
    unfold fill_dir_entry set_de_rec_len set_de_file_type set_de_name_len set_de_inode
    rw [setLE_outside _ _ _ _ _ (by omega), blitList_outside _ _ _ _ (by omega),
      setLE_outside _ _ _ _ _ (by omega), setLE_outside _ _ _ _ _ (by omega),
      setLE_outside _ _ _ _ _ (by omega)]

/-- What `fill_free_entry` leaves at `off` and elsewhere. -/
theorem fill_free_entry_spec (blk : Buf) (off rl : Nat) (hr : rl < 65536) :
    de_inode (fill_free_entry blk off rl) off = 0 ∧
    de_rec_len (fill_free_entry blk off rl) off = rl ∧
    de_name_len (fill_free_entry blk off rl) off = 0 ∧
    (∀ i, i < off ∨ off + 8 ≤ i → fill_free_entry blk off rl i = blk i) := by
  refine ⟨?_, ?_, ?_, ?_⟩
  · unfold fill_free_entry de_inode set_de_rec_len set_de_file_type set_de_name_len set_de_inode
    dsimp only
    rw [getLE_setLE_disjoint _ _ _ _ _ _ (by omega),
      getLE_setLE_disjoint _ _ _ _ _ _ (by omega),
      getLE_setLE_disjoint _ _ _ _ _ _ (by omega), getLE_setLE_same]
    rfl
  · unfold fill_free_entry de_rec_len set_de_rec_len
    dsimp only
    rw [getLE_setLE_same]
    exact Nat.mod_eq_of_lt (by norm_num; omega)
  · unfold fill_free_entry de_name_len set_de_rec_len set_de_file_type set_de_name_len
    dsimp only
    rw [getLE_setLE_disjoint _ _ _ _ _ _ (by omega),
      getLE_setLE_disjoint _ _ _ _ _ _ (by omega), getLE_setLE_same]
    rfl
  · intro i hi
    unfold fill_free_entry set_de_rec_len set_de_file_type set_de_name_len set_de_inode
    rw [setLE_outside _ _ _ _ _ (by omega), setLE_outside _ _ _ _ _ (by omega),
      setLE_outside _ _ _ _ _ (by omega), setLE_outside _ _ _ _ _ (by omega)]

/-- What `set_de_rec_len` leaves at `off` and elsewhere. -/
theorem set_de_rec_len_spec (blk : Buf) (off rl : Nat) (hr : rl < 65536) :
    de_inode (set_de_rec_len blk off rl) off = de_inode blk off ∧
    de_rec_len (set_de_rec_len blk off rl) off = rl ∧
    de_name_len (set_de_rec_len blk off rl) off = de_name_len blk off ∧
    de_name (set_de_rec_len blk off rl) off = de_name blk off ∧
    (∀ i, i < off + 4 ∨ off + 6 ≤ i → set_de_rec_len blk off rl i = blk i) := by
  have hout : ∀ i, i < off + 4 ∨ off + 6 ≤ i → set_de_rec_len blk off rl i = blk i := by
    intro i hi
    unfold set_de_rec_len
    exact setLE_outside _ _ _ _ _ (by omega)
  refine ⟨?_, ?_, ?_, ?_, hout⟩
  · exact getLE_congr _ _ _ _ (fun i h1 h2 => hout i (by omega))
  · unfold de_rec_len set_de_rec_len
    rw [getLE_setLE_same]
    exact Nat.mod_eq_of_lt (by norm_num; omega)
  · exact getLE_congr _ _ _ _ (fun i h1 h2 => hout i (by omega))
  · have hl : de_name_len (set_de_rec_len blk off rl) off = de_name_len blk off :=
      getLE_congr _ _ _ _ (fun i h1 h2 => hout i (by omega))
    unfold de_name
    rw [hl]
    exact bytesOf_congr _ _ _ _ (fun i h1 h2 => hout i (by omega))

/-- What `set_de_inode` leaves at `off` and elsewhere. -/
theorem set_de_inode_spec (blk : Buf) (off v : Nat) (hv : v < 4294967296) :
    de_inode (set_de_inode blk off v) off = v ∧
    de_rec_len (set_de_inode blk off v) off = de_rec_len blk off ∧
    de_name_len (set_de_inode blk off v) off = de_name_len blk off ∧
    de_name (set_de_inode blk off v) off = de_name blk off ∧
    (∀ i, i < off ∨ off + 4 ≤ i → set_de_inode blk off v i = blk i) := by
  have hout : ∀ i, i < off ∨ off + 4 ≤ i → set_de_inode blk off v i = blk i := by
    intro i hi
    unfold set_de_inode
    exact setLE_outside _ _ _ _ _ (by omega)
  refine ⟨?_, ?_, ?_, ?_, hout⟩
  · unfold de_inode set_de_inode
    rw [getLE_setLE_same]
    exact Nat.mod_eq_of_lt (by norm_num; omega)
  · exact getLE_congr _ _ _ _ (fun i h1 h2 => hout i (by omega))
  · exact getLE_congr _ _ _ _ (fun i h1 h2 => hout i (by omega))
  · have hl : de_name_len (set_de_inode blk off v) off = de_name_len blk off :=
      getLE_congr _ _ _ _ (fun i h1 h2 => hout i (by omega))
    unfold de_name
    rw [hl]
    exact bytesOf_congr _ _ _ _ (fun i h1 h2 => hout i (by omega))

theorem calculate_dir_entry_len_bounds (n : Nat) (h : n ≤ 255) :
    8 + n ≤ calculate_dir_entry_len n ∧ calculate_dir_entry_len n ≤ 8 + n + 3 ∧
    calculate_dir_entry_len n % 4 = 0 := by
  unfold calculate_dir_entry_len
  rw [Nat.mod_eq_of_lt (by omega)]
  omega

theorem de_name_len_le (blk : Buf) (off : Nat) : de_name_len blk off ≤ 255 := by
  have := getLE_lt blk (off + 6) 1
  unfold de_name_len
  omega

theorem de_rec_len_lt (blk : Buf) (off : Nat) : de_rec_len blk off < 65536 := by
  have := getLE_lt blk (off + 4) 2
  unfold de_rec_len
  norm_num at this
  exact this

theorem active_entries_cons (blk : Buf) (o : Nat) (offs : List Nat) :
    active_entries blk (o :: offs) =
      (if de_inode blk o ≠ 0 then [(de_name blk o, de_inode blk o)] else []) ++
        active_entries blk offs := by
  unfold active_entries
  by_cases h : de_inode blk o ≠ 0
  · rw [List.filterMap_cons_some (by rw [if_pos h]), if_pos h]; rfl
  · rw [List.filterMap_cons_none (by rw [if_neg h]), if_neg h]; rfl

theorem Tiles.intro_len (blk : Buf) (off rl : Nat) (offs : List Nat)
    (h : de_rec_len blk off = rl) (h1 : off < SIMPLEFS_BLOCK_SIZE) (h2 : rl % 4 = 0)
    (h3 : calculate_dir_entry_len (de_name_len blk off) ≤ rl)
    (h4 : off + rl ≤ SIMPLEFS_BLOCK_SIZE) (h5 : Tiles blk (off + rl) offs) :
    Tiles blk off (off :: offs) := by
  subst h
  exact Tiles.step off offs h1 h2 h3 h4 h5

theorem calculate_dir_entry_len_ge (n : Nat) : 8 ≤ calculate_dir_entry_len n := by
  unfold calculate_dir_entry_len
  omega

theorem calculate_dir_entry_len_name (blk : Buf) (off : Nat) :
    8 + de_name_len blk off ≤ calculate_dir_entry_len (de_name_len blk off) :=
  (calculate_dir_entry_len_bounds _ (de_name_len_le blk off)).1

/-- Tiling and the active entries from `a` on depend only on the bytes from
`a` on. -/
theorem Tiles.congr (blk blk' : Buf) (a : Nat) (offs : List Nat)
    (h : ∀ i, a ≤ i → blk' i = blk i) (ht : Tiles blk a offs) :
    Tiles blk' a offs ∧ active_entries blk' offs = active_entries blk offs := by
  induction ht with
  | done => exact ⟨Tiles.done, rfl⟩
  | step off offs h1 h2 h3 h4 _ ih =>
    obtain ⟨f1, f2, f3⟩ := de_fields_congr blk' blk off (fun i hi _ => h i hi)
    have f4 : de_name blk' off = de_name blk off :=
      de_name_congr blk' blk off (fun i hi _ => h i hi)
    obtain ⟨t, e⟩ := ih (fun i hi => h i (by omega))
    refine ⟨Tiles.intro_len blk' off _ offs f2 h1 h2 (by rw [f3]; exact h3) h4 t, ?_⟩
    rw [active_entries_cons, active_entries_cons, f1, f4, e]

/-- A record at `off` whose bytes are kept can be put in front of a tiling of
the rest. -/
theorem Tiles.keep_head (blk blk' : Buf) (off : Nat) (offs' : List Nat)
    (h1 : off < SIMPLEFS_BLOCK_SIZE) (h2 : de_rec_len blk off % 4 = 0)
    (h3 : calculate_dir_entry_len (de_name_len blk off) ≤ de_rec_len blk off)
    (h4 : off + de_rec_len blk off ≤ SIMPLEFS_BLOCK_SIZE)
    (hk : ∀ i, off ≤ i → i < off + de_rec_len blk off → blk' i = blk i)
    (ht : Tiles blk' (off + de_rec_len blk off) offs') :
    Tiles blk' off (off :: offs') ∧
    de_inode blk' off = de_inode blk off ∧ de_name blk' off = de_name blk off := by
  have hn := calculate_dir_entry_len_name blk off
  obtain ⟨f1, f2, f3⟩ := de_fields_congr blk' blk off (fun i hi hi2 => hk i hi (by omega))
  have f4 : de_name blk' off = de_name blk off :=
    de_name_congr blk' blk off (fun i hi hi2 => hk i hi (by rw [f3] at hi2; omega))
  exact ⟨Tiles.intro_len blk' off _ offs' f2 h1 h2 (by rw [f3]; exact h3) h4 ht, f1, f4⟩

theorem de_record_congr (m m' : Buf) (off : Nat)
    (h : ∀ i, off ≤ i → i < off + 8 + de_name_len m off → m' i = m i) :
    de_inode m' off = de_inode m off ∧ de_rec_len m' off = de_rec_len m off ∧
    de_name_len m' off = de_name_len m off ∧ de_name m' off = de_name m off := by
  obtain ⟨f1, f2, f3⟩ := de_fields_congr m' m off (fun i hi hi2 => h i hi (by omega))
  exact ⟨f1, f2, f3, de_name_congr m' m off (fun i hi hi2 => h i hi (by rw [f3] at hi2; exact hi2))⟩

theorem add_dir_entry_scan_spec (name : List Nat) (child ft : Nat)
    (hn : name.length ≤ 255) (hc0 : child ≠ 0) (hc : child < 4294967296) :
    ∀ (fuel : Nat) (blk : Buf) (off : Nat) (offs : List Nat) (blk' : Buf),
      Tiles blk off offs →
      add_dir_entry_scan name child ft fuel blk off = some blk' →
      ∃ offs', Tiles blk' off offs' ∧ (∀ i, i < off → blk' i = blk i) ∧
        (∀ i, SIMPLEFS_BLOCK_SIZE ≤ i → blk' i = blk i) ∧
        List.Perm (active_entries blk' offs') ((name, child) :: active_entries blk offs) := by
  obtain ⟨n1, n2, n3⟩ := calculate_dir_entry_len_bounds name.length hn
  have hmin : calculate_dir_entry_len 0 = 8 := by decide
  intro fuel
  induction fuel with
  | zero => intro blk off offs blk' _ hs; rw [add_dir_entry_scan] at hs; exact absurd hs (by simp)
  | succ fuel ih =>
    intro blk off offs blk' ht hs
    rw [add_dir_entry_scan] at hs
    dsimp only at hs
    cases ht with
    | done => rw [if_pos (by decide)] at hs; exact absurd hs (by simp)
    | step _ offs h1 h2 h3 h4 htail =>
      have hA := calculate_dir_entry_len_name blk off
      have hA4 := (calculate_dir_entry_len_bounds _ (de_name_len_le blk off)).2.2
      have hR := de_rec_len_lt blk off
      have h8 := calculate_dir_entry_len_ge (de_name_len blk off)
      rw [if_neg (not_not.mpr h1), if_neg (by omega)] at hs
      by_cases c2 : de_inode blk off = 0 ∧
          de_rec_len blk off ≥ calculate_dir_entry_len name.length
      · -- a free record is reused
        rw [if_pos c2] at hs
        obtain ⟨g1, g2, g3, g4, g5⟩ := fill_dir_entry_spec blk off child name ft
          (calculate_dir_entry_len name.length) hn hc (by omega)
        by_cases c2a : de_rec_len blk off - calculate_dir_entry_len name.length > 0
        · rw [if_pos c2a] at hs
          by_cases c2b : de_rec_len blk off - calculate_dir_entry_len name.length <
              calculate_dir_entry_len 0
          · -- the remainder is absorbed
            rw [if_pos c2b, g2] at hs
            have hlen : calculate_dir_entry_len name.length +
                (de_rec_len blk off - calculate_dir_entry_len name.length) =
                de_rec_len blk off := by omega
            rw [hlen] at hs
            injection hs with hs
            subst hs
            obtain ⟨s1, s2, s3, s4, s5⟩ := set_de_rec_len_spec
              (fill_dir_entry blk off child name ft (calculate_dir_entry_len name.length)) off
              (de_rec_len blk off) (by omega)
            have hout : ∀ i, i < off ∨ off + de_rec_len blk off ≤ i →
                set_de_rec_len (fill_dir_entry blk off child name ft
                  (calculate_dir_entry_len name.length)) off (de_rec_len blk off) i = blk i := by
              intro i hi
              rw [s5 i (by omega), g5 i (by omega)]
            obtain ⟨t, e⟩ := Tiles.congr blk _ (off + de_rec_len blk off) offs
              (fun i hi => hout i (Or.inr hi)) htail
            refine ⟨off :: offs, Tiles.intro_len _ off _ offs s2 h1 h2
              (by rw [s3, g3]; omega) h4 t, fun i hi => hout i (Or.inl hi),
              fun i hi => hout i (Or.inr (by omega)), ?_⟩
            rw [active_entries_cons, active_entries_cons, s1, g1, s4, g4, if_pos hc0,
              if_neg (not_not.mpr c2.1), e]
            exact List.Perm.refl _
          · -- a free record follows the new one
            rw [if_neg c2b] at hs
            injection hs with hs
            subst hs
            obtain ⟨q1, q2, q3, q5⟩ := fill_free_entry_spec
              (fill_dir_entry blk off child name ft (calculate_dir_entry_len name.length))
              (off + calculate_dir_entry_len name.length)
              (de_rec_len blk off - calculate_dir_entry_len name.length) (by omega)
            have hout : ∀ i, i < off ∨ off + de_rec_len blk off ≤ i →
                fill_free_entry (fill_dir_entry blk off child name ft
                  (calculate_dir_entry_len name.length))
                  (off + calculate_dir_entry_len name.length)
                  (de_rec_len blk off - calculate_dir_entry_len name.length) i = blk i := by
              intro i hi
              rw [q5 i (by omega), g5 i (by omega)]
            obtain ⟨t, e⟩ := Tiles.congr blk _ (off + de_rec_len blk off) offs
              (fun i hi => hout i (Or.inr hi)) htail
            have hsum : off + calculate_dir_entry_len name.length +
                (de_rec_len blk off - calculate_dir_entry_len name.length) =
                off + de_rec_len blk off := by omega
            have t2 : Tiles _ (off + calculate_dir_entry_len name.length)
                ((off + calculate_dir_entry_len name.length) :: offs) :=
              Tiles.intro_len _ _ _ offs q2 (by omega) (by omega) (by rw [q3]; omega)
                (by omega) (by rw [hsum]; exact t)
            obtain ⟨k1, k2, k3⟩ := de_fields_congr
              (fill_free_entry (fill_dir_entry blk off child name ft
                (calculate_dir_entry_len name.length))
                (off + calculate_dir_entry_len name.length)
                (de_rec_len blk off - calculate_dir_entry_len name.length))
              (fill_dir_entry blk off child name ft (calculate_dir_entry_len name.length)) off
              (fun i hi hi2 => q5 i (by omega))
            have k4 := de_name_congr
              (fill_free_entry (fill_dir_entry blk off child name ft
                (calculate_dir_entry_len name.length))
                (off + calculate_dir_entry_len name.length)
                (de_rec_len blk off - calculate_dir_entry_len name.length))
              (fill_dir_entry blk off child name ft (calculate_dir_entry_len name.length)) off
              (fun i hi hi2 => q5 i (by rw [k3, g3] at hi2; omega))
            refine ⟨off :: (off + calculate_dir_entry_len name.length) :: offs,
              Tiles.intro_len _ off _ _ (by rw [k2, g2]) h1 n3 (by rw [k3, g3])
                (by omega) t2, fun i hi => hout i (Or.inl hi),
              fun i hi => hout i (Or.inr (by omega)), ?_⟩
            rw [active_entries_cons, active_entries_cons, active_entries_cons, k1, g1, k4, g4,
              q1, if_pos hc0, if_neg (not_not.mpr c2.1), if_neg (by simp), e]
            exact List.Perm.refl _
        · -- the record fits exactly
          rw [if_neg c2a] at hs
          injection hs with hs
          subst hs
          have hlen : calculate_dir_entry_len name.length = de_rec_len blk off := by omega
          have hout : ∀ i, i < off ∨ off + de_rec_len blk off ≤ i →
              fill_dir_entry blk off child name ft (calculate_dir_entry_len name.length) i
                = blk i := by
            intro i hi
            rw [g5 i (by omega)]
          obtain ⟨t, e⟩ := Tiles.congr blk _ (off + de_rec_len blk off) offs
            (fun i hi => hout i (Or.inr hi)) htail
          refine ⟨off :: offs, Tiles.intro_len _ off _ offs (by rw [g2]; exact hlen) h1 h2
            (by rw [g3]; omega) h4 t, fun i hi => hout i (Or.inl hi),
            fun i hi => hout i (Or.inr (by omega)), ?_⟩
          rw [active_entries_cons, active_entries_cons, g1, g4, if_pos hc0,
            if_neg (not_not.mpr c2.1), e]
          exact List.Perm.refl _
      · rw [if_neg c2] at hs
        by_cases c3 : de_inode blk off ≠ 0 ∧
            calculate_dir_entry_len (de_name_len blk off) + calculate_dir_entry_len name.length ≤
              de_rec_len blk off
        · -- the padding of an active record is used
          rw [if_pos c3] at hs
          obtain ⟨s1, s2, s3, s4, s5⟩ := set_de_rec_len_spec blk off
            (calculate_dir_entry_len (de_name_len blk off)) (by omega)
          obtain ⟨g1, g2, g3, g4, g5⟩ := fill_dir_entry_spec
            (set_de_rec_len blk off (calculate_dir_entry_len (de_name_len blk off)))
            (off + calculate_dir_entry_len (de_name_len blk off)) child name ft
            (calculate_dir_entry_len name.length) hn hc (by omega)
          -- the bytes outside the old record, and the old record's own bytes, in `buf2`
          have hout2 : ∀ i, i < off ∨ off + de_rec_len blk off ≤ i →
              fill_dir_entry
                (set_de_rec_len blk off (calculate_dir_entry_len (de_name_len blk off)))
                (off + calculate_dir_entry_len (de_name_len blk off)) child name ft
                (calculate_dir_entry_len name.length) i = blk i := by
            intro i hi
            rw [g5 i (by omega), s5 i (by omega)]
          obtain ⟨r1, r2, r3, r4⟩ := de_record_congr
            (set_de_rec_len blk off (calculate_dir_entry_len (de_name_len blk off)))
            (fill_dir_entry
              (set_de_rec_len blk off (calculate_dir_entry_len (de_name_len blk off)))
              (off + calculate_dir_entry_len (de_name_len blk off)) child name ft
              (calculate_dir_entry_len name.length)) off
            (fun i hi hi2 => g5 i (by rw [s3] at hi2; omega))
          rw [s1] at r1
          rw [s2] at r2
          rw [s3] at r3
          rw [s4] at r4
          by_cases c3a : de_rec_len blk off - calculate_dir_entry_len (de_name_len blk off) -
              calculate_dir_entry_len name.length > 0
          · rw [if_pos c3a] at hs
            by_cases c3b : de_rec_len blk off - calculate_dir_entry_len (de_name_len blk off) -
                calculate_dir_entry_len name.length < calculate_dir_entry_len 0
            · -- the remainder is absorbed by the new record
              rw [if_pos c3b, g2] at hs
              have hlen : calculate_dir_entry_len name.length +
                  (de_rec_len blk off - calculate_dir_entry_len (de_name_len blk off) -
                    calculate_dir_entry_len name.length) =
                  de_rec_len blk off - calculate_dir_entry_len (de_name_len blk off) := by omega
              rw [hlen] at hs
              injection hs with hs
              subst hs
              obtain ⟨u1, u2, u3, u4, u5⟩ := set_de_rec_len_spec
                (fill_dir_entry
                  (set_de_rec_len blk off (calculate_dir_entry_len (de_name_len blk off)))
                  (off + calculate_dir_entry_len (de_name_len blk off)) child name ft
                  (calculate_dir_entry_len name.length))
                (off + calculate_dir_entry_len (de_name_len blk off))
                (de_rec_len blk off - calculate_dir_entry_len (de_name_len blk off)) (by omega)
              have hout : ∀ i, i < off ∨ off + de_rec_len blk off ≤ i →
                  set_de_rec_len (fill_dir_entry
                  (set_de_rec_len blk off (calculate_dir_entry_len (de_name_len blk off)))
                  (off + calculate_dir_entry_len (de_name_len blk off)) child name ft
                  (calculate_dir_entry_len name.length))
                    (off + calculate_dir_entry_len (de_name_len blk off))
                    (de_rec_len blk off - calculate_dir_entry_len (de_name_len blk off)) i
                    = blk i := by
                intro i hi
                rw [u5 i (by omega), hout2 i hi]
              obtain ⟨t, e⟩ := Tiles.congr blk _ (off + de_rec_len blk off) offs
                (fun i hi => hout i (Or.inr hi)) htail
              obtain ⟨v1, v2, v3, v4⟩ := de_record_congr
                (fill_dir_entry
                  (set_de_rec_len blk off (calculate_dir_entry_len (de_name_len blk off)))
                  (off + calculate_dir_entry_len (de_name_len blk off)) child name ft
                  (calculate_dir_entry_len name.length))
                (set_de_rec_len (fill_dir_entry
                  (set_de_rec_len blk off (calculate_dir_entry_len (de_name_len blk off)))
                  (off + calculate_dir_entry_len (de_name_len blk off)) child name ft
                  (calculate_dir_entry_len name.length))
                  (off + calculate_dir_entry_len (de_name_len blk off))
                  (de_rec_len blk off - calculate_dir_entry_len (de_name_len blk off))) off
                (fun i hi hi2 => u5 i (by rw [r3] at hi2; omega))
              have hsum : off + calculate_dir_entry_len (de_name_len blk off) +
                  (de_rec_len blk off - calculate_dir_entry_len (de_name_len blk off)) =
                  off + de_rec_len blk off := by omega
              have t2 : Tiles _ (off + calculate_dir_entry_len (de_name_len blk off))
                  ((off + calculate_dir_entry_len (de_name_len blk off)) :: offs) :=
                Tiles.intro_len _ _ _ offs u2 (by omega) (by omega) (by rw [u3, g3]; omega)
                  (by omega) (by rw [hsum]; exact t)
              refine ⟨off :: (off + calculate_dir_entry_len (de_name_len blk off)) :: offs,
                Tiles.intro_len _ off _ _ (by rw [v2, r2]) h1 hA4 (by rw [v3, r3])
                  (by omega) t2,
                fun i hi => hout i (Or.inl hi), fun i hi => hout i (Or.inr (by omega)), ?_⟩
              rw [active_entries_cons, active_entries_cons, active_entries_cons, v1, r1, v4, r4,
                u1, g1, u4, g4, if_pos hc0, if_pos c3.1, e]
              exact List.Perm.swap _ _ _
            · -- a free record follows the new one
              rw [if_neg c3b] at hs
              injection hs with hs
              subst hs
              obtain ⟨q1, q2, q3, q5⟩ := fill_free_entry_spec
                (fill_dir_entry
                  (set_de_rec_len blk off (calculate_dir_entry_len (de_name_len blk off)))
                  (off + calculate_dir_entry_len (de_name_len blk off)) child name ft
                  (calculate_dir_entry_len name.length))
                (off + calculate_dir_entry_len (de_name_len blk off) +
                  calculate_dir_entry_len name.length)
                (de_rec_len blk off - calculate_dir_entry_len (de_name_len blk off) -
                  calculate_dir_entry_len name.length) (by omega)
              have hout : ∀ i, i < off ∨ off + de_rec_len blk off ≤ i →
                  fill_free_entry (fill_dir_entry
                  (set_de_rec_len blk off (calculate_dir_entry_len (de_name_len blk off)))
                  (off + calculate_dir_entry_len (de_name_len blk off)) child name ft
                  (calculate_dir_entry_len name.length))
                    (off + calculate_dir_entry_len (de_name_len blk off) +
                      calculate_dir_entry_len name.length)
                    (de_rec_len blk off - calculate_dir_entry_len (de_name_len blk off) -
                      calculate_dir_entry_len name.length) i = blk i := by
                intro i hi
                rw [q5 i (by omega), hout2 i hi]
              obtain ⟨t, e⟩ := Tiles.congr blk _ (off + de_rec_len blk off) offs
                (fun i hi => hout i (Or.inr hi)) htail
              obtain ⟨v1, v2, v3, v4⟩ := de_record_congr
                (fill_dir_entry
                  (set_de_rec_len blk off (calculate_dir_entry_len (de_name_len blk off)))
                  (off + calculate_dir_entry_len (de_name_len blk off)) child name ft
                  (calculate_dir_entry_len name.length))
                (fill_free_entry (fill_dir_entry
                  (set_de_rec_len blk off (calculate_dir_entry_len (de_name_len blk off)))
                  (off + calculate_dir_entry_len (de_name_len blk off)) child name ft
                  (calculate_dir_entry_len name.length))
                  (off + calculate_dir_entry_len (de_name_len blk off) +
                    calculate_dir_entry_len name.length)
                  (de_rec_len blk off - calculate_dir_entry_len (de_name_len blk off) -
                    calculate_dir_entry_len name.length)) off
                (fun i hi hi2 => q5 i (by rw [r3] at hi2; omega))
              obtain ⟨w1, w2, w3, w4⟩ := de_record_congr
                (fill_dir_entry
                  (set_de_rec_len blk off (calculate_dir_entry_len (de_name_len blk off)))
                  (off + calculate_dir_entry_len (de_name_len blk off)) child name ft
                  (calculate_dir_entry_len name.length))
                (fill_free_entry (fill_dir_entry
                  (set_de_rec_len blk off (calculate_dir_entry_len (de_name_len blk off)))
                  (off + calculate_dir_entry_len (de_name_len blk off)) child name ft
                  (calculate_dir_entry_len name.length))
                  (off + calculate_dir_entry_len (de_name_len blk off) +
                    calculate_dir_entry_len name.length)
                  (de_rec_len blk off - calculate_dir_entry_len (de_name_len blk off) -
                    calculate_dir_entry_len name.length))
                (off + calculate_dir_entry_len (de_name_len blk off))
                (fun i hi hi2 => q5 i (by rw [g3] at hi2; omega))
              have hsum : off + calculate_dir_entry_len (de_name_len blk off) +
                  calculate_dir_entry_len name.length +
                  (de_rec_len blk off - calculate_dir_entry_len (de_name_len blk off) -
                    calculate_dir_entry_len name.length) = off + de_rec_len blk off := by omega
              have t3 : Tiles _ (off + calculate_dir_entry_len (de_name_len blk off) +
                    calculate_dir_entry_len name.length)
                  ((off + calculate_dir_entry_len (de_name_len blk off) +
                    calculate_dir_entry_len name.length) :: offs) :=
                Tiles.intro_len _ _ _ offs q2 (by omega) (by omega) (by rw [q3]; omega)
                  (by omega) (by rw [hsum]; exact t)
              have t2 : Tiles _ (off + calculate_dir_entry_len (de_name_len blk off))
                  ((off + calculate_dir_entry_len (de_name_len blk off)) ::
                    (off + calculate_dir_entry_len (de_name_len blk off) +
                      calculate_dir_entry_len name.length) :: offs) :=
                Tiles.intro_len _ _ _ _ (by rw [w2, g2]) (by omega) n3 (by rw [w3, g3])
                  (by omega) t3
              refine ⟨off :: (off + calculate_dir_entry_len (de_name_len blk off)) ::
                  (off + calculate_dir_entry_len (de_name_len blk off) +
                    calculate_dir_entry_len name.length) :: offs,
                Tiles.intro_len _ off _ _ (by rw [v2, r2]) h1 hA4 (by rw [v3, r3])
                  (by omega) t2,
                fun i hi => hout i (Or.inl hi), fun i hi => hout i (Or.inr (by omega)), ?_⟩
              rw [active_entries_cons, active_entries_cons, active_entries_cons,
                active_entries_cons, v1, r1, v4, r4, w1, g1, w4, g4, q1, if_pos hc0,
                if_pos c3.1, if_neg (by simp), e]
              exact List.Perm.swap _ _ _
          · -- the new record fills the padding exactly
            rw [if_neg c3a] at hs
            injection hs with hs
            subst hs
            obtain ⟨t, e⟩ := Tiles.congr blk _ (off + de_rec_len blk off) offs
              (fun i hi => hout2 i (Or.inr hi)) htail
            have hsum : off + calculate_dir_entry_len (de_name_len blk off) +
                calculate_dir_entry_len name.length = off + de_rec_len blk off := by omega
            have t2 : Tiles _ (off + calculate_dir_entry_len (de_name_len blk off))
                ((off + calculate_dir_entry_len (de_name_len blk off)) :: offs) :=
              Tiles.intro_len _ _ _ offs g2 (by omega) n3 (by rw [g3])
                (by omega) (by rw [hsum]; exact t)
            refine ⟨off :: (off + calculate_dir_entry_len (de_name_len blk off)) :: offs,
              Tiles.intro_len _ off _ _ r2 h1 hA4 (by rw [r3]) (by omega) t2,
              fun i hi => hout2 i (Or.inl hi), fun i hi => hout2 i (Or.inr (by omega)), ?_⟩
            rw [active_entries_cons, active_entries_cons, active_entries_cons, r1, r4, g1, g4,
              if_pos hc0, if_pos c3.1, e]
            exact List.Perm.swap _ _ _
        · rw [if_neg c3] at hs
          by_cases c4 : off + de_rec_len blk off ≥ SIMPLEFS_BLOCK_SIZE
          · rw [if_pos c4] at hs
            have c4a : ¬ (de_inode blk off ≠ 0 ∧
                off + calculate_dir_entry_len (de_name_len blk off) +
                  calculate_dir_entry_len name.length ≤ SIMPLEFS_BLOCK_SIZE) := by
              intro hh
              exact c3 ⟨hh.1, by omega⟩
            rw [if_neg c4a] at hs
            exact absurd hs (by simp)
          · -- on to the next record
            rw [if_neg c4] at hs
            obtain ⟨offs', t, b1, b2, p⟩ := ih blk (off + de_rec_len blk off) offs blk' htail hs
            obtain ⟨t2, k1, k4⟩ := Tiles.keep_head blk blk' off offs' h1 h2 h3 h4
              (fun i hi hi2 => b1 i hi2) t
            refine ⟨off :: offs', t2, fun i hi => b1 i (by omega), b2, ?_⟩
            rw [active_entries_cons, active_entries_cons, k1, k4]
            by_cases hi : de_inode blk off ≠ 0
            · rw [if_pos hi]
              exact (List.Perm.cons _ p).trans (List.Perm.swap _ _ _)
            · rw [if_neg hi]
              exact p

theorem lastOr_cons (x : Nat) (l : List Nat) (d : Option Nat) :
    lastOr (x :: l) d = lastOr l (some x) := by
  unfold lastOr
  cases l with
  | nil => rfl
  | cons y ys =>
    rw [List.getLast?_cons_cons]
    have h : (y :: ys).getLast? = some ((y :: ys).getLast (by simp)) :=
      List.getLast?_eq_getLast _ _
    rw [h]

theorem remove_dir_entry_scan_succ (name : List Nat) (max_offset fuel : Nat) (blk : Buf)
    (off : Nat) (prev : Option Nat) :
    remove_dir_entry_scan name max_offset (fuel + 1) blk off prev =
      if ¬ off < max_offset then .absent
      else if de_rec_len blk off = 0 then .absent
      else if de_rec_len blk off <
          (if de_inode blk off ≠ 0 ∧ de_name_len blk off > 0 then
            calculate_dir_entry_len (de_name_len blk off)
          else calculate_dir_entry_len 0) ∨
          off + de_rec_len blk off > SIMPLEFS_BLOCK_SIZE then .corrupt
      else if de_inode blk off ≠ 0 ∧ de_name_matches blk off name = true then
        .removed (removed_block blk prev off)
      else remove_dir_entry_scan name max_offset fuel blk (off + de_rec_len blk off) (some off) := by
  cases prev <;> rw [remove_dir_entry_scan] <;> rfl

theorem set_de_rec_len_spec_out (blk : Buf) (off rl i : Nat) (h : i < off + 4 ∨ off + 6 ≤ i) :
    set_de_rec_len blk off rl i = blk i := by
  unfold set_de_rec_len
  exact setLE_outside _ _ _ _ _ (by omega)

theorem de_name_matches_iff (blk : Buf) (off : Nat) (s : List Nat) :
    de_name_matches blk off s = true ↔ de_name blk off = s := by
  unfold de_name_matches
  rw [Bool.and_eq_true, decide_eq_true_eq, decide_eq_true_eq]
  constructor
  · exact fun h => h.2
  · intro h
    refine ⟨?_, h⟩
    rw [← h]
    unfold de_name bytesOf
    simp

theorem Tiles.length_le (blk : Buf) (off : Nat) (offs : List Nat) (ht : Tiles blk off offs) :
    off + 8 * offs.length ≤ SIMPLEFS_BLOCK_SIZE := by
  induction ht with
  | done => simp
  | step off offs h1 h2 h3 h4 _ ih =>
    have := calculate_dir_entry_len_ge (de_name_len blk off)
    simp only [List.length_cons]
    omega

theorem Tiles.mem_ge (blk : Buf) (off : Nat) (offs : List Nat) (ht : Tiles blk off offs) :
    ∀ o, o ∈ offs → off ≤ o := by
  induction ht with
  | done => intro o ho; exact absurd ho (List.not_mem_nil o)
  | step off offs h1 h2 h3 h4 _ ih =>
    intro o ho
    rcases List.mem_cons.mp ho with h | h
    · omega
    · have := ih o h; omega

/-- The record loop of `remove_dir_entry` over a tiled block: it never reports
corruption; it reports absence only when no active record from `off` on bears
the name; and it removes the first active record that bears the name. -/
theorem remove_dir_entry_scan_spec (name : List Nat) :
    ∀ (fuel : Nat) (blk : Buf) (off : Nat) (offs : List Nat) (prev : Option Nat),
      Tiles blk off offs →
      (remove_dir_entry_scan name SIMPLEFS_BLOCK_SIZE fuel blk off prev = .absent ∧
        (offs.length ≤ fuel →
          ∀ o, o ∈ offs → ¬ (de_inode blk o ≠ 0 ∧ de_name blk o = name))) ∨
      (∃ before cur after, offs = before ++ cur :: after ∧
        (∀ o, o ∈ before → ¬ (de_inode blk o ≠ 0 ∧ de_name blk o = name)) ∧
        de_inode blk cur ≠ 0 ∧ de_name blk cur = name ∧
        remove_dir_entry_scan name SIMPLEFS_BLOCK_SIZE fuel blk off prev =
          .removed (removed_block blk (lastOr before prev) cur)) := by
  intro fuel
  induction fuel with
  | zero =>
    intro blk off offs prev ht
    left
    refine ⟨rfl, fun hl o ho => ?_⟩
    have : offs = [] := List.eq_nil_of_length_eq_zero (by omega)
    rw [this] at ho
    exact absurd ho (List.not_mem_nil o)
  | succ fuel ih =>
    intro blk off offs prev ht
    rw [remove_dir_entry_scan_succ]
    cases ht with
    | done =>
      left
      rw [if_pos (by decide)]
      exact ⟨rfl, fun _ o ho => absurd ho (List.not_mem_nil o)⟩
    | step _ offs h1 h2 h3 h4 htail =>
      have h8 := calculate_dir_entry_len_ge (de_name_len blk off)
      have hmin : calculate_dir_entry_len 0 = 8 := by decide
      rw [if_neg (not_not.mpr h1), if_neg (by omega)]
      have hnc : ¬ (de_rec_len blk off <
          (if de_inode blk off ≠ 0 ∧ de_name_len blk off > 0 then
            calculate_dir_entry_len (de_name_len blk off)
          else calculate_dir_entry_len 0) ∨
          off + de_rec_len blk off > SIMPLEFS_BLOCK_SIZE) := by
        split_ifs <;> omega
      rw [if_neg hnc]
      by_cases hm : de_inode blk off ≠ 0 ∧ de_name_matches blk off name = true
      · rw [if_pos hm]
        right
        exact ⟨[], off, offs, rfl, fun o ho => absurd ho (List.not_mem_nil o), hm.1,
          (de_name_matches_iff blk off name).mp hm.2, rfl⟩
      · rw [if_neg hm]
        have hm2 : ¬ (de_inode blk off ≠ 0 ∧ de_name blk off = name) := by
          rw [← de_name_matches_iff]; exact hm
        rcases ih blk (off + de_rec_len blk off) offs (some off) htail with
          ⟨ha, hb⟩ | ⟨before, cur, after, e1, e2, e3, e4, e5⟩
        · left
          refine ⟨ha, fun hl o ho => ?_⟩
          rcases List.mem_cons.mp ho with h | h
          · rw [h]; exact hm2
          · exact hb (by simp only [List.length_cons] at hl; omega) o h
        · right
          refine ⟨off :: before, cur, after, by rw [e1]; rfl, fun o ho => ?_, e3, e4, ?_⟩
          · rcases List.mem_cons.mp ho with h | h
            · rw [h]; exact hm2
            · exact e2 o h
          · rw [e5, lastOr_cons]

theorem Tiles.inv_cons (blk : Buf) (a o : Nat) (offs : List Nat) (h : Tiles blk a (o :: offs)) :
    o = a ∧ a < SIMPLEFS_BLOCK_SIZE ∧ de_rec_len blk a % 4 = 0 ∧
    calculate_dir_entry_len (de_name_len blk a) ≤ de_rec_len blk a ∧
    a + de_rec_len blk a ≤ SIMPLEFS_BLOCK_SIZE ∧ Tiles blk (a + de_rec_len blk a) offs := by
  generalize hl : o :: offs = l at h
  cases h with
  | done => exact List.noConfusion hl
  | step _ offs' h1 h2 h3 h4 htail =>
    injection hl with e1 e2
    subst e1 e2
    exact ⟨rfl, h1, h2, h3, h4, htail⟩

theorem active_entries_append (blk : Buf) (xs ys : List Nat) :
    active_entries blk (xs ++ ys) = active_entries blk xs ++ active_entries blk ys := by
  unfold active_entries
  exact List.filterMap_append _ _ _

/-- Removal of the first record of a block: only its inode field is cleared,
the tiling stays and the record leaves the active entries. -/
theorem removed_first_spec (blk : Buf) (a cur : Nat) (after : List Nat)
    (ht : Tiles blk a (cur :: after)) :
    Tiles (set_de_inode blk cur 0) a (cur :: after) ∧
    active_entries (set_de_inode blk cur 0) (cur :: after) = active_entries blk after ∧
    de_rec_len (set_de_inode blk cur 0) cur = de_rec_len blk cur := by
  obtain ⟨e, h1, h2, h3, h4, htail⟩ := Tiles.inv_cons blk a cur after ht
  subst e
  have h8 := calculate_dir_entry_len_ge (de_name_len blk cur)
  obtain ⟨s1, s2, s3, s4, s5⟩ := set_de_inode_spec blk cur 0 (by norm_num)
  obtain ⟨t, e⟩ := Tiles.congr blk (set_de_inode blk cur 0) (cur + de_rec_len blk cur) after
    (fun i hi => s5 i (by omega)) htail
  refine ⟨Tiles.intro_len _ cur _ after s2 h1 h2 (by rw [s3]; exact h3) h4 t, ?_, s2⟩
  rw [active_entries_cons, s1, if_neg (by simp), e]
  rfl

/-- Removal of a record that has a predecessor in its block: the predecessor's
`rec_len` grows by the record's, the tiling skips the record and the other
entries stay. -/
theorem removed_merge_spec (blk : Buf) (p cur : Nat) (after : List Nat) :
    ∀ (xs : List Nat) (a : Nat), Tiles blk a (xs ++ p :: cur :: after) →
      Tiles (set_de_rec_len blk p (de_rec_len blk p + de_rec_len blk cur)) a
        (xs ++ p :: after) ∧
      active_entries (set_de_rec_len blk p (de_rec_len blk p + de_rec_len blk cur))
        (xs ++ p :: after) = active_entries blk (xs ++ p :: after) := by
  intro xs
  induction xs with
  | nil =>
    intro a ht
    rw [List.nil_append] at ht ⊢
    obtain ⟨e, h1, h2, h3, h4, htail⟩ := Tiles.inv_cons blk a p _ ht
    subst e
    obtain ⟨e, k1, k2, k3, k4, ktail⟩ := Tiles.inv_cons blk _ cur after htail
    subst e
    have h8 := calculate_dir_entry_len_ge (de_name_len blk p)
    have k8 := calculate_dir_entry_len_ge (de_name_len blk (p + de_rec_len blk p))
    have hB : SIMPLEFS_BLOCK_SIZE = 4096 := rfl
    obtain ⟨s1, s2, s3, s4, s5⟩ := set_de_rec_len_spec blk p
      (de_rec_len blk p + de_rec_len blk (p + de_rec_len blk p)) (by omega)
    obtain ⟨t, e⟩ := Tiles.congr blk
      (set_de_rec_len blk p (de_rec_len blk p + de_rec_len blk (p + de_rec_len blk p)))
      (p + de_rec_len blk p + de_rec_len blk (p + de_rec_len blk p)) after
      (fun i hi => s5 i (by omega)) ktail
    refine ⟨Tiles.intro_len _ p _ after s2 h1 (by omega) (by rw [s3]; omega) (by omega)
      (by rw [← Nat.add_assoc]; exact t), ?_⟩
    rw [active_entries_cons, active_entries_cons, s1, s4, e]
  | cons x xs ih =>
    intro a ht
    rw [List.cons_append] at ht ⊢
    obtain ⟨e, h1, h2, h3, h4, htail⟩ := Tiles.inv_cons blk a x _ ht
    subst e
    have h8 := calculate_dir_entry_len_ge (de_name_len blk x)
    obtain ⟨t, e⟩ := ih (x + de_rec_len blk x) htail
    have hp : x + de_rec_len blk x ≤ p :=
      Tiles.mem_ge blk _ _ htail p (List.mem_append_right _ (List.mem_cons_self _ _))
    obtain ⟨t2, k1, k4⟩ := Tiles.keep_head blk
      (set_de_rec_len blk p (de_rec_len blk p + de_rec_len blk cur)) x _ h1 h2 h3 h4
      (fun i hi hi2 => (set_de_rec_len_spec_out blk p _ i (by omega))) t
    refine ⟨t2, ?_⟩
    rw [active_entries_cons, active_entries_cons, k1, k4, e]

theorem Tiles.mem_bound (blk : Buf) (off : Nat) (offs : List Nat) (ht : Tiles blk off offs) :
    ∀ o, o ∈ offs → o + 8 ≤ SIMPLEFS_BLOCK_SIZE := by
  induction ht with
  | done => intro o ho; exact absurd ho (List.not_mem_nil o)
  | step off offs h1 h2 h3 h4 _ ih =>
    intro o ho
    have h8 := calculate_dir_entry_len_ge (de_name_len blk off)
    rcases List.mem_cons.mp ho with h | h
    · omega
    · exact ih o h

theorem lastOr_none (l : List Nat) : lastOr l none = l.getLast? := by
  unfold lastOr
  cases l.getLast? <;> rfl

theorem removed_block_outside (blk : Buf) (prev : Option Nat) (cur i : Nat)
    (hp : ∀ p, prev = some p → p + 6 ≤ SIMPLEFS_BLOCK_SIZE) (hc : cur + 4 ≤ SIMPLEFS_BLOCK_SIZE)
    (hi : SIMPLEFS_BLOCK_SIZE ≤ i) : removed_block blk prev cur i = blk i := by
  cases prev with
  | none =>
    unfold removed_block set_de_inode
    exact setLE_outside _ _ _ _ _ (by omega)
  | some p =>
    have := hp p rfl
    exact set_de_rec_len_spec_out blk p _ i (by omega)

/-- The record loop of `remove_dir_entry` over a whole tiled block: either no
active record bears the name and the loop reports absence, or the first active
record that bears it is removed, the block stays tiled and its other active
entries stay. -/
theorem remove_block_spec (name : List Nat) (blk : Buf) (offs : List Nat)
    (ht : Tiles blk 0 offs) :
    (remove_dir_entry_scan name SIMPLEFS_BLOCK_SIZE SIMPLEFS_BLOCK_SIZE blk 0 none = .absent ∧
      ∀ e, e ∈ active_entries blk offs → e.1 ≠ name) ∨
    (∃ before cur after offs', offs = before ++ cur :: after ∧
      (∀ e, e ∈ active_entries blk before → e.1 ≠ name) ∧
      de_inode blk cur ≠ 0 ∧ de_name blk cur = name ∧
      remove_dir_entry_scan name SIMPLEFS_BLOCK_SIZE SIMPLEFS_BLOCK_SIZE blk 0 none =
        .removed (removed_block blk before.getLast? cur) ∧
      Tiles (removed_block blk before.getLast? cur) 0 offs' ∧
      active_entries (removed_block blk before.getLast? cur) offs' =
        active_entries blk before ++ active_entries blk after ∧
      (∀ i, SIMPLEFS_BLOCK_SIZE ≤ i → removed_block blk before.getLast? cur i = blk i)) := by
  have hlen := Tiles.length_le blk 0 offs ht
  have hact : ∀ (l : List Nat), (∀ o, o ∈ l → ¬ (de_inode blk o ≠ 0 ∧ de_name blk o = name)) →
      ∀ e, e ∈ active_entries blk l → e.1 ≠ name := by
    intro l hl e he
    unfold active_entries at he
    rw [List.mem_filterMap] at he
    obtain ⟨o, ho, h⟩ := he
    by_cases hi : de_inode blk o ≠ 0
    · rw [if_pos hi] at h
      injection h with h
      rw [← h]
      exact fun hn => hl o ho ⟨hi, hn⟩
    · rw [if_neg hi] at h
      exact Option.noConfusion h
  rcases remove_dir_entry_scan_spec name SIMPLEFS_BLOCK_SIZE blk 0 offs none ht with
    ⟨ha, hb⟩ | ⟨before, cur, after, e1, e2, e3, e4, e5⟩
  · left
    exact ⟨ha, hact offs (hb (by omega))⟩
  · right
    rw [lastOr_none] at e5
    subst e1
    rcases List.eq_nil_or_concat before with hb | ⟨xs, p, hb⟩
    · subst hb
      rw [List.nil_append] at ht
      obtain ⟨t1, t2, t3⟩ := removed_first_spec blk 0 cur after ht
      obtain ⟨ec, c1, _, _, _, _⟩ := Tiles.inv_cons blk 0 cur after ht
      refine ⟨[], cur, after, cur :: after, rfl, hact [] e2, e3, e4, e5, t1, ?_, ?_⟩
      · exact t2
      · intro i hi
        have hB : SIMPLEFS_BLOCK_SIZE = 4096 := rfl
        exact removed_block_outside blk _ cur i (fun p hp => Option.noConfusion hp)
          (by omega) hi
    · subst hb
      have ht2 : Tiles blk 0 (xs ++ p :: cur :: after) := by
        rw [List.concat_eq_append, List.append_assoc] at ht
        exact ht
      obtain ⟨t1, t2⟩ := removed_merge_spec blk p cur after xs 0 ht2
      have hl : (xs.concat p).getLast? = some p := by
        rw [List.concat_eq_append, List.getLast?_append]
        rfl
      have hB : SIMPLEFS_BLOCK_SIZE = 4096 := rfl
      have hpb := Tiles.mem_bound blk 0 _ ht2 p
        (List.mem_append_right _ (List.mem_cons_self _ _))
      refine ⟨xs.concat p, cur, after, xs ++ p :: after, rfl, hact _ e2, e3, e4, e5, ?_, ?_, ?_⟩
      · rw [hl]; exact t1
      · rw [hl]
        show active_entries (set_de_rec_len blk p (de_rec_len blk p + de_rec_len blk cur))
          (xs ++ p :: after) = _
        rw [t2, List.concat_eq_append, active_entries_append, active_entries_append,
          List.append_assoc]
        congr 1
        exact active_entries_append blk [p] after
      · intro i hi
        rw [hl]
        exact set_de_rec_len_spec_out blk p _ i (by omega)

theorem walk_tree_zero (data : Nat → Buf) (idxs : List Nat) : walk_tree data idxs 0 = 0 := by
  cases idxs with
  | nil => rfl
  | cons i rest => simp [walk_tree]

theorem walk_tree_cons_ne (data : Nat → Buf) (i : Nat) (rest : List Nat) (blk : Nat)
    (h : blk ≠ 0) :
    walk_tree data (i :: rest) blk = walk_tree data rest (ptrAt (data blk) i) := by
  simp [walk_tree, h]

theorem walk_tree_append (data : Nat → Buf) (pre rest : List Nat) (blk : Nat) :
    walk_tree data (pre ++ rest) blk = walk_tree data rest (walk_tree data pre blk) := by
  induction pre generalizing blk with
  | nil => rfl
  | cons i pre ih =>
    rw [List.cons_append]
    by_cases h : blk = 0
    · rw [h, walk_tree_zero, walk_tree_zero, walk_tree_zero]
    · rw [walk_tree_cons_ne _ _ _ _ h, walk_tree_cons_ne _ _ _ _ h, ih]

/-- The walk reads only the entries on its way: two devices that agree on
those entries give the same walk. -/
theorem walk_tree_congr (data data' : Nat → Buf) (idxs : List Nat) (blk : Nat)
    (h : ∀ pre i rest, idxs = pre ++ i :: rest → walk_tree data pre blk ≠ 0 →
      ptrAt (data' (walk_tree data pre blk)) i = ptrAt (data (walk_tree data pre blk)) i) :
    walk_tree data' idxs blk = walk_tree data idxs blk := by
  induction idxs generalizing blk with
  | nil => rfl
  | cons i rest ih =>
    by_cases hb : blk = 0
    · rw [hb, walk_tree_zero, walk_tree_zero]
    · rw [walk_tree_cons_ne _ _ _ _ hb, walk_tree_cons_ne _ _ _ _ hb]
      have h0 := h [] i rest rfl hb
      simp only [walk_tree] at h0
      rw [h0]
      apply ih
      intro pre j rest' e hne
      have := h (i :: pre) j rest' (by rw [e]; rfl)
      rw [walk_tree_cons_ne _ _ _ _ hb] at this
      exact this hne

theorem ptrAt_setPtr_same (blk : Buf) (i v : Nat) (hv : v < 4294967296) :
    ptrAt (setPtr blk i v) i = v := by
  unfold ptrAt setPtr
  rw [getLE_setLE_same]
  exact Nat.mod_eq_of_lt (by norm_num; exact hv)

theorem ptrAt_setPtr_ne (blk : Buf) (i j v : Nat) (h : j ≠ i) :
    ptrAt (setPtr blk i v) j = ptrAt blk j := by
  unfold ptrAt setPtr
  exact getLE_setLE_disjoint _ _ _ _ _ _ (by omega)

theorem ptrAt_zeroBuf (i : Nat) : ptrAt zeroBuf i = 0 := getLE_zeroBuf _ _

theorem i_block_set_i_block_same (inode : Buf) (s v : Nat) (hv : v < 4294967296) :
    i_block (set_i_block inode s v) s = v := by
  unfold i_block set_i_block
  rw [getLE_setLE_same]
  exact Nat.mod_eq_of_lt (by norm_num; exact hv)

theorem i_block_set_i_block_ne (inode : Buf) (s t v : Nat) (h : t ≠ s) :
    i_block (set_i_block inode s v) t = i_block inode t := by
  unfold i_block set_i_block
  exact getLE_setLE_disjoint _ _ _ _ _ _ (by omega)

theorem i_block_set_i_blocks (inode : Buf) (t v : Nat) :
    i_block (set_i_blocks inode v) t = i_block inode t := by
  unfold i_block set_i_blocks
  exact getLE_setLE_disjoint _ _ _ _ _ _ (by omega)

theorem i_size_set_i_block (inode : Buf) (s v : Nat) :
    i_size (set_i_block inode s v) = i_size inode := by
  unfold i_size set_i_block
  exact getLE_setLE_disjoint _ _ _ _ _ _ (by omega)

theorem i_size_set_i_blocks (inode : Buf) (v : Nat) :
    i_size (set_i_blocks inode v) = i_size inode := by
  unfold i_size set_i_blocks
  exact getLE_setLE_disjoint _ _ _ _ _ _ (by omega)

theorem lbn_path_ok (lbn : Nat) (h : lbn < MAX_LOGICAL_BLOCKS) :
    tree_path_ok (lbn_slot lbn) (lbn_idxs lbn) ∧
    (lbn_idxs lbn).length = tree_depth (lbn_slot lbn) := by
  unfold MAX_LOGICAL_BLOCKS at h
  unfold tree_path_ok lbn_slot lbn_idxs tree_depth SIMPLEFS_INODE_BLOCK_PTRS
  split_ifs with h1 h2 h3
  · simp; omega
  · simp; omega
  · simp
    refine ⟨Nat.div_lt_of_lt_mul (by omega), Nat.mod_lt _ (by norm_num)⟩
  · simp
    refine ⟨Nat.div_lt_of_lt_mul (by omega), Nat.div_lt_of_lt_mul ?_, Nat.mod_lt _ (by norm_num)⟩
    exact Nat.mod_lt _ (by norm_num)

theorem lbn_path_inj (j k : Nat) (hj : j < MAX_LOGICAL_BLOCKS) (hk : k < MAX_LOGICAL_BLOCKS)
    (hs : lbn_slot j = lbn_slot k) (hi : lbn_idxs j = lbn_idxs k) : j = k := by
  unfold MAX_LOGICAL_BLOCKS at hj hk
  unfold lbn_slot at hs
  unfold lbn_idxs at hi
  split_ifs at hs hi with a1 a2 a3 a4 a5 a6 <;> try omega
  · simp only [List.cons.injEq, and_true] at hi
    omega
  · simp only [List.cons.injEq, and_true] at hi
    obtain ⟨e1, e2⟩ := hi
    have := Nat.div_add_mod (j - 12 - 1024) 1024
    have := Nat.div_add_mod (k - 12 - 1024) 1024
    omega
  · simp only [List.cons.injEq, and_true] at hi
    obtain ⟨e1, e2, e3⟩ := hi
    have := Nat.div_add_mod (j - 12 - 1024 - 1024 * 1024) (1024 * 1024)
    have := Nat.div_add_mod (k - 12 - 1024 - 1024 * 1024) (1024 * 1024)
    have := Nat.div_add_mod ((j - 12 - 1024 - 1024 * 1024) % (1024 * 1024)) 1024
    have := Nat.div_add_mod ((k - 12 - 1024 - 1024 * 1024) % (1024 * 1024)) 1024
    omega

/-- On a device whose reads succeed the read-only walk is the walk of the tree
along the path of the logical block. -/
theorem dir_block_eq_node (context : SimpleFS_Context) (inode : Buf) (k : Nat)
    (hr : ∀ b, context.device_fd.readable b = true) (hk : k < MAX_LOGICAL_BLOCKS) :
    dir_block context inode k =
      tree_node context.device_fd.data inode (lbn_slot k) (lbn_idxs k) := by
  obtain ⟨h1, h2, h3, h4, _⟩ := map_logical_to_physical_block_walk context inode k hr
  unfold MAX_LOGICAL_BLOCKS at hk
  unfold dir_block tree_node lbn_slot lbn_idxs
  split_ifs with a1 a2 a3
  · exact h1 a1
  · exact h2 (by omega) a2
  · exact h3 (by omega) a3
  · exact h4 (by omega) hk

theorem dir_block_beyond (context : SimpleFS_Context) (inode : Buf) (k : Nat)
    (hr : ∀ b, context.device_fd.readable b = true) (hk : MAX_LOGICAL_BLOCKS ≤ k) :
    dir_block context inode k = 0 := by
  obtain ⟨_, _, _, _, h5⟩ := map_logical_to_physical_block_walk context inode k hr
  exact (h5 hk).1

theorem tree_path_ok_prefix (s : Nat) (pre rest : List Nat) (h : tree_path_ok s (pre ++ rest)) :
    tree_path_ok s pre := by
  obtain ⟨h1, h2, h3⟩ := h
  refine ⟨h1, ?_, fun i hi => h3 i (List.mem_append_left _ hi)⟩
  rw [List.length_append] at h2
  omega

theorem tree_path_ok_snoc (s : Nat) (pre : List Nat) (i : Nat) (rest : List Nat)
    (h : tree_path_ok s (pre ++ i :: rest)) : tree_path_ok s (pre ++ [i]) := by
  have : pre ++ i :: rest = (pre ++ [i]) ++ rest := by simp
  rw [this] at h
  exact tree_path_ok_prefix s _ rest h

theorem tree_node_append (data : Nat → Buf) (inode : Buf) (s : Nat) (pre rest : List Nat) :
    tree_node data inode s (pre ++ rest) = walk_tree data rest (tree_node data inode s pre) := by
  unfold tree_node
  exact walk_tree_append data pre rest _

/-- A device that differs from `data` on no block of the tree gives the same
tree, under any inode with the same slots. -/
theorem tree_node_congr (data data' : Nat → Buf) (inode inode' : Buf) (s : Nat) (idxs : List Nat)
    (hs : i_block inode' s = i_block inode s)
    (h : ∀ pre i rest, idxs = pre ++ i :: rest → tree_node data inode s pre ≠ 0 →
      ptrAt (data' (tree_node data inode s pre)) i = ptrAt (data (tree_node data inode s pre)) i) :
    tree_node data' inode' s idxs = tree_node data inode s idxs := by
  unfold tree_node
  rw [hs]
  exact walk_tree_congr data data' idxs _ h

/-- The tree after entry `i` of the tree block at `(s, pre)` went from `0` to a
new block `b`: the position `(s, pre ++ [i])` holds `b`, every other position
holds what it held. A new block that is not at the last level is zero. -/
theorem tree_node_ext_block (data data' : Nat → Buf) (inode inode' : Buf) (s : Nat)
    (pre : List Nat) (i b : Nat)
    (hd : tree_distinct data inode)
    (hslots : ∀ t, i_block inode' t = i_block inode t)
    (hp : tree_path_ok s (pre ++ [i]))
    (hp0 : tree_node data inode s pre ≠ 0)
    (hz : ptrAt (data (tree_node data inode s pre)) i = 0)
    (hb0 : b ≠ 0) (hb : b < 4294967296)
    (hdp : data' (tree_node data inode s pre) = setPtr (data (tree_node data inode s pre)) i b)
    (hdb : pre.length + 1 < tree_depth s → data' b = zeroBuf)
    (hsame : ∀ s' idxs', tree_path_ok s' idxs' → tree_node data inode s' idxs' ≠ 0 →
      tree_node data inode s' idxs' ≠ tree_node data inode s pre →
      data' (tree_node data inode s' idxs') = data (tree_node data inode s' idxs')) :
    ∀ s' idxs', tree_path_ok s' idxs' →
      tree_node data' inode' s' idxs' =
        if s' = s ∧ idxs' = pre ++ [i] then b else tree_node data inode s' idxs' := by
  intro s' idxs' hok
  have hpre : tree_path_ok s pre := tree_path_ok_prefix s pre [i] hp
  -- the walk to the parent is unchanged
  have hwalk_pre : tree_node data' inode' s pre = tree_node data inode s pre := by
    apply tree_node_congr data data' inode inode' s pre (hslots s)
    intro a j r e hne
    have hok_a : tree_path_ok s a := by
      rw [e] at hpre
      exact tree_path_ok_prefix s a _ hpre
    have hne2 : tree_node data inode s a ≠ tree_node data inode s pre := by
      intro heq
      have := (hd s a s pre hok_a hpre hne heq).2
      rw [e] at this
      have hl := congrArg List.length this
      simp at hl
    rw [hsame s a hok_a hne hne2]
  by_cases hA : s' = s ∧ ∃ rest, idxs' = pre ++ i :: rest
  · obtain ⟨hs, rest, hi⟩ := hA
    subst hs
    subst hi
    have e1 : pre ++ i :: rest = pre ++ ([i] ++ rest) := by simp
    rw [tree_node_append, hwalk_pre, walk_tree_cons_ne _ _ _ _ hp0, hdp,
      ptrAt_setPtr_same _ _ _ hb, tree_node_append, walk_tree_cons_ne _ _ _ _ hp0, hz]
    cases rest with
    | nil => simp [walk_tree]
    | cons j r =>
      have hlen : pre.length + 1 < tree_depth s' := by
        have := hok.2.1
        simp at this
        omega
      rw [walk_tree_cons_ne _ _ _ _ hb0, hdb hlen, ptrAt_zeroBuf, walk_tree_zero, walk_tree_zero]
      rw [if_neg]
      intro h
      have hl := congrArg List.length h.2
      simp at hl
  · have hne : ¬ (s' = s ∧ idxs' = pre ++ [i]) := by
      intro h
      exact hA ⟨h.1, [], h.2⟩
    rw [if_neg hne]
    apply tree_node_congr data data' inode inode' s' idxs' (hslots s')
    intro a j r e hq
    have hok_a : tree_path_ok s' a := by
      rw [e] at hok
      exact tree_path_ok_prefix s' a _ hok
    by_cases hqp : tree_node data inode s' a = tree_node data inode s pre
    · obtain ⟨es, ea⟩ := hd s' a s pre hok_a hpre hq hqp
      subst es
      subst ea
      have hji : j ≠ i := by
        intro hji
        subst hji
        exact hA ⟨rfl, r, e⟩
      rw [hdp, ptrAt_setPtr_ne _ _ _ _ hji]
    · rw [hsame s' a hok_a hq hqp]

/-- The tree after slot `s` of `i_block` went from `0` to a new block `b`. -/
theorem tree_node_ext_slot (data data' : Nat → Buf) (inode inode' : Buf) (s b : Nat)
    (hz : i_block inode s = 0) (hs : i_block inode' s = b)
    (hslots : ∀ t, t ≠ s → i_block inode' t = i_block inode t)
    (hb0 : b ≠ 0)
    (hdb : 0 < tree_depth s → data' b = zeroBuf)
    (hsame : ∀ s' idxs', tree_path_ok s' idxs' → tree_node data inode s' idxs' ≠ 0 →
      data' (tree_node data inode s' idxs') = data (tree_node data inode s' idxs')) :
    ∀ s' idxs', tree_path_ok s' idxs' →
      tree_node data' inode' s' idxs' =
        if s' = s ∧ idxs' = [] then b else tree_node data inode s' idxs' := by
  intro s' idxs' hok
  by_cases hss : s' = s
  · subst hss
    cases idxs' with
    | nil =>
      rw [if_pos ⟨rfl, rfl⟩]
      exact hs
    | cons j r =>
      rw [if_neg (by simp)]
      have hlen : 0 < tree_depth s' := by
        have := hok.2.1
        simp at this
        omega
      unfold tree_node
      rw [hs, hz, walk_tree_cons_ne _ _ _ _ hb0, hdb hlen, ptrAt_zeroBuf, walk_tree_zero,
        walk_tree_zero]
  · rw [if_neg (fun h => hss h.1)]
    apply tree_node_congr data data' inode inode' s' idxs' (hslots s' hss)
    intro a j r e hq
    have hok_a : tree_path_ok s' a := by
      rw [e] at hok
      exact tree_path_ok_prefix s' a _ hok
    rw [hsame s' a hok_a hq]

/-- Distinctness survives the addition of one new block. -/
theorem tree_distinct_ext (data data' : Nat → Buf) (inode inode' : Buf) (s : Nat)
    (idxs : List Nat) (b : Nat) (hd : tree_distinct data inode)
    (hnew : ∀ s' idxs', tree_path_ok s' idxs' →
      tree_node data' inode' s' idxs' =
        if s' = s ∧ idxs' = idxs then b else tree_node data inode s' idxs')
    (hfresh : ∀ s' idxs', tree_path_ok s' idxs' → tree_node data inode s' idxs' ≠ b) :
    tree_distinct data' inode' := by
  intro s1 i1 s2 i2 h1 h2 hne heq
  rw [hnew s1 i1 h1] at hne heq
  rw [hnew s2 i2 h2] at heq
  by_cases c1 : s1 = s ∧ i1 = idxs
  · by_cases c2 : s2 = s ∧ i2 = idxs
    · exact ⟨c1.1.trans c2.1.symm, c1.2.trans c2.2.symm⟩
    · rw [if_pos c1, if_neg c2] at heq
      exact absurd heq.symm (hfresh s2 i2 h2)
  · by_cases c2 : s2 = s ∧ i2 = idxs
    · rw [if_neg c1, if_pos c2] at heq
      exact absurd heq (hfresh s1 i1 h1)
    · rw [if_neg c1] at hne
      rw [if_neg c1, if_neg c2] at heq
      exact hd s1 i1 s2 i2 h1 h2 hne heq

theorem same_layout_refl (c : SimpleFS_Context) : same_layout c c :=
  ⟨rfl, rfl, rfl, rfl, rfl, rfl, rfl, fun _ => ⟨rfl, rfl, rfl⟩, rfl⟩

theorem same_layout_trans (a b c : SimpleFS_Context) (h1 : same_layout a b)
    (h2 : same_layout b c) : same_layout a c := by
  obtain ⟨a1, a2, a3, a4, a5, a6, a7, a8, a9⟩ := h1
  obtain ⟨b1, b2, b3, b4, b5, b6, b7, b8, b9⟩ := h2
  refine ⟨b1.trans a1, b2.trans a2, b3.trans a3, b4.trans a4, b5.trans a5, b6.trans a6,
    b7.trans a7, fun g => ⟨(b8 g).1.trans (a8 g).1, (b8 g).2.1.trans (a8 g).2.1,
      (b8 g).2.2.trans (a8 g).2.2⟩, b9.trans a9⟩

theorem same_layout_setErrno (c : SimpleFS_Context) (e : Nat) : same_layout c (setErrno c e) :=
  ⟨rfl, rfl, rfl, rfl, rfl, rfl, rfl, fun _ => ⟨rfl, rfl, rfl⟩, rfl⟩

theorem block_taken_getD (c : SimpleFS_Context) (g bit g' : Nat) :
    ((block_taken c g bit).gdt.getD g' default).bg_block_bitmap =
      (c.gdt.getD g' default).bg_block_bitmap ∧
    ((block_taken c g bit).gdt.getD g' default).bg_inode_bitmap =
      (c.gdt.getD g' default).bg_inode_bitmap ∧
    ((block_taken c g bit).gdt.getD g' default).bg_inode_table =
      (c.gdt.getD g' default).bg_inode_table ∧
    ((block_taken c g bit).gdt.getD g' default).bg_free_blocks_count ≤
      max (c.gdt.getD g' default).bg_free_blocks_count
        (dec16 (c.gdt.getD g' default).bg_free_blocks_count) ∧
    ((block_taken c g bit).gdt.getD g' default).bg_free_inodes_count =
      (c.gdt.getD g' default).bg_free_inodes_count ∧
    ((block_taken c g bit).gdt.getD g' default).bg_used_dirs_count =
      (c.gdt.getD g' default).bg_used_dirs_count := by
  rw [block_taken_gdt, getD_set]
  by_cases h : g = g' ∧ g < c.gdt.length
  · rw [if_pos h]
    obtain ⟨h1, _⟩ := h
    subst h1
    exact ⟨rfl, rfl, rfl, le_max_right _ _, rfl, rfl⟩
  · rw [if_neg h]
    exact ⟨rfl, rfl, rfl, le_max_left _ _, rfl, rfl⟩

theorem block_taken_length (c : SimpleFS_Context) (g bit : Nat) :
    (block_taken c g bit).gdt.length = c.gdt.length := by
  rw [block_taken_gdt, List.length_set]

theorem same_layout_block_taken (c : SimpleFS_Context) (g bit : Nat) :
    same_layout c (block_taken c g bit) :=
  ⟨rfl, rfl, rfl, rfl, rfl, rfl, block_taken_length c g bit,
    fun g' => ⟨(block_taken_getD c g bit g').1, (block_taken_getD c g bit g').2.1,
      (block_taken_getD c g bit g').2.2.1⟩, rfl⟩

theorem dec16_lt (x : Nat) : dec16 x < 65536 := by
  unfold dec16
  split_ifs
  · norm_num
  · exact Nat.mod_lt _ (by norm_num)

theorem dec32_lt (x : Nat) : dec32 x < 4294967296 := by
  unfold dec32
  split_ifs
  · norm_num
  · exact Nat.mod_lt _ (by norm_num)

theorem dec16_le (x : Nat) (h : 0 < x) : dec16 x ≤ x := by
  unfold dec16
  rw [if_neg (by omega)]
  exact le_trans (Nat.mod_le _ _) (by omega)

theorem block_layout_ok_block_taken (c : SimpleFS_Context) (g bit : Nat)
    (hl : block_layout_ok c) (hgd : (c.gdt.getD g default).bg_free_blocks_count > 0) :
    block_layout_ok (block_taken c g bit) := by
  obtain ⟨h1, h2, h3, h4, h5, h6⟩ := hl
  refine ⟨h1, ?_, ?_, h4, ?_, ?_⟩
  · rw [block_taken_length]; exact h2
  · rw [block_taken_length]; exact h3
  · intro a ha b hb hab
    rw [block_taken_length] at ha hb
    rw [(block_taken_getD c g bit a).1, (block_taken_getD c g bit b).1] at hab
    exact h5 a ha b hb hab
  · intro g' hg'
    rw [block_taken_length] at hg'
    rw [block_taken_gdt, getD_set]
    by_cases h : g = g' ∧ g < c.gdt.length
    · rw [if_pos h]
      obtain ⟨e, _⟩ := h
      subst e
      exact le_trans (dec16_le _ hgd) (h6 g hg')
    · rw [if_neg h]
      exact h6 g' hg'

theorem counts_in_range_block_taken (c : SimpleFS_Context) (g bit : Nat)
    (hc : counts_in_range c) : counts_in_range (block_taken c g bit) := by
  obtain ⟨h1, h2, h3⟩ := hc
  refine ⟨dec32_lt _, h2, ?_⟩
  intro g' hg'
  rw [block_taken_length] at hg'
  obtain ⟨a1, a2, a3⟩ := h3 g' hg'
  rw [block_taken_gdt, getD_set]
  by_cases h : g = g' ∧ g < c.gdt.length
  · rw [if_pos h]
    obtain ⟨e, _⟩ := h
    subst e
    exact ⟨dec16_lt _, a2, a3⟩
  · rw [if_neg h]
    exact ⟨a1, a2, a3⟩

/-- A successful `alloc_block` on a sound layout: the block returned was free,
lies inside the filesystem and is not block 0, and the state is the one with
its bit taken. -/
theorem alloc_block_fresh (c : SimpleFS_Context) (pg : Nat) (hl : block_layout_ok c)
    (h : (alloc_block c pg).1 ≠ 0) :
    ∃ g bit, g < c.gdt.length ∧ bit < c.sb.s_blocks_per_group ∧
      alloc_block c pg = (g * c.sb.s_blocks_per_group + bit, block_taken c g bit) ∧
      g * c.sb.s_blocks_per_group + bit ≠ 0 ∧
      g * c.sb.s_blocks_per_group + bit < c.sb.s_blocks_count ∧
      block_bit_set c (g * c.sb.s_blocks_per_group + bit) = false ∧
      (c.gdt.getD g default).bg_free_blocks_count > 0 := by
  rcases alloc_block_cases c pg with ⟨e, he⟩ | ⟨g, bit, hg, hbit, h0, hgd, _, _, hclr, _, hlt, he⟩
  · rw [he] at h
    exact absurd rfl h
  · obtain ⟨h1, h2, h3, h4, h5, h6⟩ := hl
    have hb : g * c.sb.s_blocks_per_group + bit < c.gdt.length * c.sb.s_blocks_per_group := by
      calc g * c.sb.s_blocks_per_group + bit
          < g * c.sb.s_blocks_per_group + c.sb.s_blocks_per_group := by omega
        _ = (g + 1) * c.sb.s_blocks_per_group := by ring
        _ ≤ c.gdt.length * c.sb.s_blocks_per_group := Nat.mul_le_mul_right _ (by omega)
    have hu : u32 (g * c.sb.s_blocks_per_group + bit) = g * c.sb.s_blocks_per_group + bit := by
      unfold u32
      exact Nat.mod_eq_of_lt (by omega)
    rw [hu] at he hlt
    rw [he] at h
    refine ⟨g, bit, hg, hbit, he, h, hlt, ?_, hgd⟩
    have hp : 0 < c.sb.s_blocks_per_group := by omega
    rw [block_bit_set_eq, Nat.mul_comm, Nat.mul_add_div hp, Nat.div_eq_of_lt hbit,
      Nat.mul_add_mod, Nat.mod_eq_of_lt hbit]
    exact hclr

theorem tree_grow_refl (c : SimpleFS_Context) (inode : Buf) (R : Nat → Prop) (s : Nat)
    (idxs : List Nat) (h : tree_ok c inode R) : tree_grow c inode R c inode s idxs :=
  { ok := h
    layout := same_layout_refl c
    keep := fun _ _ _ _ => rfl
    off_path := fun _ _ _ _ => rfl
    fresh := fun _ _ _ h0 h1 => absurd h0 h1
    data_keep := fun _ _ _ _ _ => rfl
    bits := fun _ _ hx => hx
    size := rfl }

theorem tree_grow_trans (c : SimpleFS_Context) (inode : Buf) (R : Nat → Prop)
    (c1 : SimpleFS_Context) (inode1 : Buf) (c2 : SimpleFS_Context) (inode2 : Buf)
    (s : Nat) (idxs : List Nat)
    (h1 : tree_grow c inode R c1 inode1 s idxs) (h2 : tree_grow c1 inode1 R c2 inode2 s idxs) :
    tree_grow c inode R c2 inode2 s idxs := by
  have hbc : c1.sb.s_blocks_count = c.sb.s_blocks_count := h1.layout.2.2.1
  refine
    { ok := h2.ok
      layout := same_layout_trans _ _ _ h1.layout h2.layout
      keep := ?_
      off_path := ?_
      fresh := ?_
      data_keep := ?_
      bits := ?_
      size := h2.size.trans h1.size }
  · intro s' idxs' hp hne
    have e1 := h1.keep s' idxs' hp hne
    rw [h2.keep s' idxs' hp (by rw [e1]; exact hne), e1]
  · intro s' idxs' hp hn
    rw [h2.off_path s' idxs' hp hn, h1.off_path s' idxs' hp hn]
  · intro s' idxs' hp h0 hne
    by_cases hz : tree_node c1.device_fd.data inode1 s' idxs' = 0
    · have f2 := h2.fresh s' idxs' hp hz hne
      have hlt := (h2.ok.nodes s' idxs' hp hne).1
      rw [h2.layout.2.2.1, hbc] at hlt
      cases hb : block_bit_set c (tree_node c2.device_fd.data inode2 s' idxs') with
      | false => rfl
      | true =>
        have := h1.bits _ hlt hb
        rw [f2] at this
        exact Bool.noConfusion this
    · rw [h2.keep s' idxs' hp hz]
      exact h1.fresh s' idxs' hp h0 hz
  · intro x hx hb hR hn
    have e1 := h1.data_keep x hx hb hR hn
    rw [← e1]
    apply h2.data_keep x (by rw [hbc]; exact hx) (h1.bits x hx hb) hR
    intro s' idxs' hp hlen heq
    by_cases hz : tree_node c.device_fd.data inode s' idxs' = 0
    · have hx0 : x ≠ 0 := by
        intro hx0
        exact hn s' idxs' hp hlen (by rw [hz, hx0])
      have f1 := h1.fresh s' idxs' hp hz (by rw [heq]; exact hx0)
      rw [heq, hb] at f1
      exact Bool.noConfusion f1
    · have := h1.keep s' idxs' hp hz
      rw [heq] at this
      exact hn s' idxs' hp hlen this.symm
  · intro x hx hb
    exact h2.bits x (by rw [hbc]; exact hx) (h1.bits x hx hb)

theorem block_bit_set_congr (c c' : SimpleFS_Context) (x : Nat)
    (hbpg : c'.sb.s_blocks_per_group = c.sb.s_blocks_per_group)
    (hbm : (c'.gdt.getD (x / c.sb.s_blocks_per_group) default).bg_block_bitmap =
      (c.gdt.getD (x / c.sb.s_blocks_per_group) default).bg_block_bitmap)
    (hd : c'.device_fd.data (c.gdt.getD (x / c.sb.s_blocks_per_group) default).bg_block_bitmap =
      c.device_fd.data (c.gdt.getD (x / c.sb.s_blocks_per_group) default).bg_block_bitmap) :
    block_bit_set c' x = block_bit_set c x := by
  rw [block_bit_set_eq, block_bit_set_eq, hbpg, hbm, hd]

theorem group_lt_of_block_lt (c : SimpleFS_Context) (hl : block_layout_ok c) (x : Nat)
    (hx : x < c.sb.s_blocks_count) : x / c.sb.s_blocks_per_group < c.gdt.length := by
  obtain ⟨h1, h2, h3, h4, h5, h6⟩ := hl
  have hx2 : x < c.gdt.length * c.sb.s_blocks_per_group := by omega
  exact Nat.div_lt_of_lt_mul (by rw [Nat.mul_comm]; exact hx2)

/-- One new block on the path: the state after `alloc_block` took block
`g * s_blocks_per_group + bit` and the device content became `D`, where `D`
keeps the bitmaps and the blocks in use outside the indirect blocks, and the
tree under `D` is the old one with the new block at position `(s, tgt)`. -/
theorem tree_grow_fresh (c : SimpleFS_Context) (inode : Buf) (R : Nat → Prop)
    (h : tree_ok c inode R) (g bit : Nat) (D : Device) (inode' : Buf)
    (s : Nat) (tgt idxs : List Nat)
    (hg : g < c.gdt.length) (hbit : bit < c.sb.s_blocks_per_group)
    (hb0 : g * c.sb.s_blocks_per_group + bit ≠ 0)
    (hblt : g * c.sb.s_blocks_per_group + bit < c.sb.s_blocks_count)
    (hclr : block_bit_set c (g * c.sb.s_blocks_per_group + bit) = false)
    (hgd : (c.gdt.getD g default).bg_free_blocks_count > 0)
    (hDr : D.readable = c.device_fd.readable) (hDw : D.writable = c.device_fd.writable)
    (hDR : ∀ x, R x → D.data x = (block_taken c g bit).device_fd.data x)
    (hDk : ∀ x, x < c.sb.s_blocks_count → block_bit_set c x = true → ¬ R x →
      (∀ s' idxs', tree_path_ok s' idxs' → idxs'.length < tree_depth s' →
        tree_node c.device_fd.data inode s' idxs' ≠ x) →
      D.data x = c.device_fd.data x)
    (htgt : tgt <+: idxs)
    (hnodes : ∀ s' idxs', tree_path_ok s' idxs' →
      tree_node D.data inode' s' idxs' =
        if s' = s ∧ idxs' = tgt then g * c.sb.s_blocks_per_group + bit
        else tree_node c.device_fd.data inode s' idxs')
    (hz : tree_node c.device_fd.data inode s tgt = 0)
    (hsize : i_size inode' = i_size inode) :
    tree_grow c inode R { block_taken c g bit with device_fd := D } inode' s idxs := by
  have hbits : ∀ x, x < c.sb.s_blocks_count →
      block_bit_set { block_taken c g bit with device_fd := D } x =
        (decide (x = g * c.sb.s_blocks_per_group + bit) || block_bit_set c x) := by
    intro x hx
    rw [← block_bit_set_block_taken c h.layout g bit x hg hbit hx]
    apply block_bit_set_congr (block_taken c g bit) { block_taken c g bit with device_fd := D } x rfl rfl
    apply hDR
    rw [(block_taken_getD c g bit _).1]
    exact h.bitmaps _ (group_lt_of_block_lt c h.layout x hx)
  have hnotR : ¬ R (g * c.sb.s_blocks_per_group + bit) := by
    intro hR
    have := (h.reserved _ hR).2
    rw [hclr] at this
    exact Bool.noConfusion this
  have hfresh : ∀ s' idxs', tree_path_ok s' idxs' →
      tree_node c.device_fd.data inode s' idxs' ≠ g * c.sb.s_blocks_per_group + bit := by
    intro s' idxs' hp heq
    have := (h.nodes s' idxs' hp (by rw [heq]; exact hb0)).2.1
    rw [heq, hclr] at this
    exact Bool.noConfusion this
  refine
    { ok :=
        { io := ?_
          layout := block_layout_ok_block_taken c g bit h.layout hgd
          counts := counts_in_range_block_taken c g bit h.counts
          bitmaps := ?_
          reserved := ?_
          nodes := ?_
          distinct := tree_distinct_ext _ _ inode inode' s tgt _ h.distinct hnodes hfresh }
      layout := ?_
      keep := ?_
      off_path := ?_
      fresh := ?_
      data_keep := hDk
      bits := ?_
      size := hsize }
  · intro b
    show D.readable b = true ∧ D.writable b = true
    rw [hDr, hDw]
    exact h.io b
  · intro g' hg'
    show R ((block_taken c g bit).gdt.getD g' default).bg_block_bitmap
    rw [(block_taken_getD c g bit g').1]
    exact h.bitmaps g' (by rw [block_taken_length] at hg'; exact hg')
  · intro b hR
    have := h.reserved b hR
    refine ⟨this.1, ?_⟩
    rw [hbits b this.1, this.2, Bool.or_true]
  · intro s' idxs' hp hne
    show tree_node D.data inode' s' idxs' < c.sb.s_blocks_count ∧ _ ∧ _
    have hne' : tree_node D.data inode' s' idxs' ≠ 0 := hne
    rw [hnodes s' idxs' hp] at hne' ⊢
    by_cases ht : s' = s ∧ idxs' = tgt
    · rw [if_pos ht]
      refine ⟨hblt, ?_, hnotR⟩
      rw [hbits _ hblt]
      simp
    · rw [if_neg ht] at hne' ⊢
      obtain ⟨n1, n2, n3⟩ := h.nodes s' idxs' hp hne'
      refine ⟨n1, ?_, n3⟩
      rw [hbits _ n1, n2, Bool.or_true]
  · obtain ⟨a1, a2, a3, a4, a5, a6, a7, a8, a9⟩ := same_layout_block_taken c g bit
    exact ⟨hDr, hDw, a3, a4, a5, a6, a7, a8, a9⟩
  · intro s' idxs' hp hne
    show tree_node D.data inode' s' idxs' = _
    rw [hnodes s' idxs' hp, if_neg]
    intro ht
    rw [ht.1, ht.2] at hne
    exact hne hz
  · intro s' idxs' hp hn
    show tree_node D.data inode' s' idxs' = _
    rw [hnodes s' idxs' hp, if_neg]
    intro ht
    exact hn ⟨ht.1, by rw [ht.2]; exact htgt⟩
  · intro s' idxs' hp h0 hne
    have hne' : tree_node D.data inode' s' idxs' ≠ 0 := hne
    show block_bit_set c (tree_node D.data inode' s' idxs') = false
    rw [hnodes s' idxs' hp] at hne' ⊢
    by_cases ht : s' = s ∧ idxs' = tgt
    · rw [if_pos ht]; exact hclr
    · rw [if_neg ht] at hne'
      exact absurd h0 hne'
  · intro x hx hb
    rw [hbits x hx, hb, Bool.or_true]

theorem write_block_of_writable (fd : Device) (b : Nat) (buf : Buf) (h : fd.writable b = true) :
    write_block fd b buf = some (fd.put b buf) := by
  unfold write_block Device.put
  rw [if_pos h]

theorem put_data_same (fd : Device) (b : Nat) (buf : Buf) : (fd.put b buf).data b = buf := by
  unfold Device.put
  simp

theorem put_data_ne (fd : Device) (b x : Nat) (buf : Buf) (h : x ≠ b) :
    (fd.put b buf).data x = fd.data x := by
  unfold Device.put
  simp [h]

theorem tree_grow_mono (c : SimpleFS_Context) (inode : Buf) (R : Nat → Prop)
    (c' : SimpleFS_Context) (inode' : Buf) (s : Nat) (idxs idxs2 : List Nat)
    (hp : idxs <+: idxs2) (h : tree_grow c inode R c' inode' s idxs) :
    tree_grow c inode R c' inode' s idxs2 :=
  { ok := h.ok
    layout := h.layout
    keep := h.keep
    off_path := fun s' idxs' hok hn =>
      h.off_path s' idxs' hok (fun hh => hn ⟨hh.1, List.IsPrefix.trans hh.2 hp⟩)
    fresh := h.fresh
    data_keep := h.data_keep
    bits := h.bits
    size := h.size }

/-- The shape "top-level indirect pointer" on a sound tree: a success leaves
slot `slot` non-zero; the state is unchanged when the slot was mapped, and grown
by one zero block at `(slot, [])` when it was not. -/
theorem ensure_top_indirect_spec (c : SimpleFS_Context) (inode : Buf) (R : Nat → Prop)
    (slot pg : Nat) (h : tree_ok c inode R)
    (inode' : Buf) (c' : SimpleFS_Context)
    (hres : ensure_top_indirect c inode slot pg = .ok (inode', c')) :
    tree_grow c inode R c' inode' slot [] ∧
    i_block inode' slot ≠ 0 ∧
    (i_block inode slot ≠ 0 → inode' = inode ∧ c' = c) := by
  unfold ensure_top_indirect at hres
  by_cases hz : i_block inode slot = 0
  · rw [if_pos hz] at hres
    dsimp only at hres
    by_cases hr : (alloc_block c pg).1 = 0
    · rw [if_pos hr] at hres
      exact Except.noConfusion hres
    · rw [if_neg hr] at hres
      obtain ⟨g, bit, hg, hbit, he, hb0, hblt, hclr, hgd⟩ := alloc_block_fresh c pg h.layout hr
      rw [he] at hres
      dsimp only at hres
      have hw : (block_taken c g bit).device_fd.writable
          (g * c.sb.s_blocks_per_group + bit) = true := (h.io _).2
      rw [write_block_of_writable _ _ _ hw] at hres
      dsimp only at hres
      injection hres with hres
      injection hres with e1 e2
      subst e1
      subst e2
      have hb32 : g * c.sb.s_blocks_per_group + bit < 4294967296 := by
        have := h.layout.2.2.2.1
        omega
      have hbm : ∀ x, block_bit_set c x = true →
          x ≠ g * c.sb.s_blocks_per_group + bit := by
        intro x hx heq
        rw [heq, hclr] at hx
        exact Bool.noConfusion hx
      have hD : ∀ x, x < c.sb.s_blocks_count → block_bit_set c x = true → ¬ R x →
          ((block_taken c g bit).device_fd.put (g * c.sb.s_blocks_per_group + bit) zeroBuf).data x =
            c.device_fd.data x := by
        intro x _ hx hR
        rw [put_data_ne _ _ _ _ (hbm x hx), block_taken_data, if_neg]
        intro heq
        exact hR (heq ▸ h.bitmaps g hg)
      refine ⟨?_, ?_, fun hne => absurd hz hne⟩
      · apply tree_grow_fresh c inode R h g bit
          ((block_taken c g bit).device_fd.put (g * c.sb.s_blocks_per_group + bit) zeroBuf)
          _ slot [] [] hg hbit hb0 hblt hclr hgd rfl rfl
        · intro x hR
          exact put_data_ne _ _ _ _ (hbm x (h.reserved x hR).2)
        · intro x hx hb hR _
          exact hD x hx hb hR
        · exact List.prefix_refl _
        · apply tree_node_ext_slot c.device_fd.data _ inode _ slot _ hz
          · rw [i_block_set_i_block_same _ _ _ hb32]
          · intro t ht
            rw [i_block_set_i_block_ne _ _ _ _ ht, i_block_set_i_blocks]
          · exact hb0
          · intro _
            exact put_data_same _ _ _
          · intro s' idxs' hp hne
            obtain ⟨n1, n2, n3⟩ := h.nodes s' idxs' hp hne
            exact hD _ n1 n2 n3
        · exact hz
        · rw [i_size_set_i_block, i_size_set_i_blocks]
      · rw [i_block_set_i_block_same _ _ _ hb32]
        exact hb0
  · rw [if_neg hz] at hres
    injection hres with hres
    injection hres with e1 e2
    subst e1
    subst e2
    exact ⟨tree_grow_refl c inode R slot [] h, hz, fun _ => ⟨rfl, rfl⟩⟩

/-- One new block under entry `i` of the tree block at `(s, pre)`: the state
after `alloc_block` took the block, the parent got the pointer and the device
content became `D`. -/
theorem tree_grow_entry (c : SimpleFS_Context) (inode : Buf) (R : Nat → Prop)
    (h : tree_ok c inode R) (g bit : Nat) (D : Device) (v : Nat)
    (s : Nat) (pre : List Nat) (i : Nat)
    (hg : g < c.gdt.length) (hbit : bit < c.sb.s_blocks_per_group)
    (hb0 : g * c.sb.s_blocks_per_group + bit ≠ 0)
    (hblt : g * c.sb.s_blocks_per_group + bit < c.sb.s_blocks_count)
    (hclr : block_bit_set c (g * c.sb.s_blocks_per_group + bit) = false)
    (hgd : (c.gdt.getD g default).bg_free_blocks_count > 0)
    (hp : tree_path_ok s (pre ++ [i]))
    (hp0 : tree_node c.device_fd.data inode s pre ≠ 0)
    (hz : ptrAt (c.device_fd.data (tree_node c.device_fd.data inode s pre)) i = 0)
    (hDr : D.readable = c.device_fd.readable) (hDw : D.writable = c.device_fd.writable)
    (hDp : D.data (tree_node c.device_fd.data inode s pre) =
      setPtr (c.device_fd.data (tree_node c.device_fd.data inode s pre)) i
        (g * c.sb.s_blocks_per_group + bit))
    (hDb : pre.length + 1 < tree_depth s →
      D.data (g * c.sb.s_blocks_per_group + bit) = zeroBuf)
    (hDo : ∀ x, x ≠ tree_node c.device_fd.data inode s pre →
      x ≠ g * c.sb.s_blocks_per_group + bit →
      D.data x = (block_taken c g bit).device_fd.data x) :
    tree_grow c inode R { block_taken c g bit with device_fd := D } (set_i_blocks inode v) s
      (pre ++ [i]) ∧
    tree_node D.data (set_i_blocks inode v) s (pre ++ [i]) =
      g * c.sb.s_blocks_per_group + bit := by
  have hpre : tree_path_ok s pre := tree_path_ok_prefix s pre [i] hp
  have hb32 : g * c.sb.s_blocks_per_group + bit < 4294967296 := by
    have := h.layout.2.2.2.1
    omega
  have hbm : ∀ x, block_bit_set c x = true → x ≠ g * c.sb.s_blocks_per_group + bit := by
    intro x hx heq
    rw [heq, hclr] at hx
    exact Bool.noConfusion hx
  obtain ⟨p1, p2, p3⟩ := h.nodes s pre hpre hp0
  have hD : ∀ x, x < c.sb.s_blocks_count → block_bit_set c x = true → ¬ R x →
      x ≠ tree_node c.device_fd.data inode s pre → D.data x = c.device_fd.data x := by
    intro x _ hx hR hxp
    rw [hDo x hxp (hbm x hx), block_taken_data, if_neg]
    intro heq
    exact hR (heq ▸ h.bitmaps g hg)
  have hnodes : ∀ s' idxs', tree_path_ok s' idxs' →
      tree_node D.data (set_i_blocks inode v) s' idxs' =
        if s' = s ∧ idxs' = pre ++ [i] then g * c.sb.s_blocks_per_group + bit
        else tree_node c.device_fd.data inode s' idxs' := by
    apply tree_node_ext_block c.device_fd.data D.data inode _ s pre i _ h.distinct
      (fun t => i_block_set_i_blocks inode t v) hp hp0 hz hb0 hb32 hDp hDb
    intro s' idxs' hok hne hnp
    obtain ⟨n1, n2, n3⟩ := h.nodes s' idxs' hok hne
    exact hD _ n1 n2 n3 hnp
  refine ⟨?_, ?_⟩
  · apply tree_grow_fresh c inode R h g bit D _ s (pre ++ [i]) (pre ++ [i]) hg hbit hb0 hblt
      hclr hgd hDr hDw
    · intro x hR
      apply hDo x
      · intro heq
        exact p3 (heq ▸ hR)
      · exact hbm x (h.reserved x hR).2
    · intro x hx hb hR hn
      apply hD x hx hb hR
      intro heq
      have hlen : pre.length < tree_depth s := by
        have := hp.2.1
        simp at this
        omega
      exact hn s pre hpre hlen heq.symm
    · exact List.prefix_refl _
    · exact hnodes
    · rw [tree_node_append, walk_tree_cons_ne _ _ _ _ hp0, hz]
      rfl
    · exact i_size_set_i_blocks inode v
  · rw [hnodes s (pre ++ [i]) hp, if_pos ⟨rfl, rfl⟩]

theorem tree_node_snoc (data : Nat → Buf) (inode : Buf) (s : Nat) (pre : List Nat) (i : Nat)
    (hp0 : tree_node data inode s pre ≠ 0) :
    tree_node data inode s (pre ++ [i]) = ptrAt (data (tree_node data inode s pre)) i := by
  rw [tree_node_append, walk_tree_cons_ne _ _ _ _ hp0]
  rfl

/-- The shape "indirect pointer inside an indirect block" on a sound tree,
called on the tree block at `(s, pre)` and its content. -/
theorem ensure_child_indirect_spec (c : SimpleFS_Context) (inode : Buf) (R : Nat → Prop)
    (s : Nat) (pre : List Nat) (i pg : Nat) (h : tree_ok c inode R)
    (hp : tree_path_ok s (pre ++ [i]))
    (hp0 : tree_node c.device_fd.data inode s pre ≠ 0)
    (inode' pbuf' : Buf) (c' : SimpleFS_Context)
    (hres : ensure_child_indirect c inode (tree_node c.device_fd.data inode s pre)
      (c.device_fd.data (tree_node c.device_fd.data inode s pre)) i pg =
        .ok (inode', pbuf', c')) :
    tree_grow c inode R c' inode' s (pre ++ [i]) ∧
    pbuf' = c'.device_fd.data (tree_node c.device_fd.data inode s pre) ∧
    ptrAt pbuf' i = tree_node c'.device_fd.data inode' s (pre ++ [i]) ∧
    ptrAt pbuf' i ≠ 0 ∧
    (ptrAt (c.device_fd.data (tree_node c.device_fd.data inode s pre)) i ≠ 0 →
      inode' = inode ∧ c' = c) := by
  unfold ensure_child_indirect at hres
  by_cases hz : ptrAt (c.device_fd.data (tree_node c.device_fd.data inode s pre)) i = 0
  · rw [if_pos hz] at hres
    dsimp only at hres
    by_cases hr : (alloc_block c pg).1 = 0
    · rw [if_pos hr] at hres
      exact Except.noConfusion hres
    · rw [if_neg hr] at hres
      obtain ⟨g, bit, hg, hbit, he, hb0, hblt, hclr, hgd⟩ := alloc_block_fresh c pg h.layout hr
      rw [he] at hres
      dsimp only at hres
      have hw : (block_taken c g bit).device_fd.writable
          (g * c.sb.s_blocks_per_group + bit) = true := (h.io _).2
      rw [write_block_of_writable _ _ _ hw] at hres
      dsimp only at hres
      have hw2 : ((block_taken c g bit).device_fd.put (g * c.sb.s_blocks_per_group + bit)
          zeroBuf).writable (tree_node c.device_fd.data inode s pre) = true := (h.io _).2
      rw [write_block_of_writable _ _ _ hw2] at hres
      dsimp only at hres
      injection hres with hres
      injection hres with e1 hres
      injection hres with e2 e3
      subst e1
      subst e2
      subst e3
      have hpre : tree_path_ok s pre := tree_path_ok_prefix s pre [i] hp
      obtain ⟨p1, p2, p3⟩ := h.nodes s pre hpre hp0
      have hpb : tree_node c.device_fd.data inode s pre ≠ g * c.sb.s_blocks_per_group + bit := by
        intro heq
        rw [heq, hclr] at p2
        exact Bool.noConfusion p2
      have hb32 : g * c.sb.s_blocks_per_group + bit < 4294967296 := by
        have := h.layout.2.2.2.1
        omega
      obtain ⟨t1, t2⟩ := tree_grow_entry c inode R h g bit
        (((block_taken c g bit).device_fd.put (g * c.sb.s_blocks_per_group + bit) zeroBuf).put
          (tree_node c.device_fd.data inode s pre)
          (setPtr (c.device_fd.data (tree_node c.device_fd.data inode s pre)) i
            (g * c.sb.s_blocks_per_group + bit)))
        (i_blocks inode + 8) s pre i hg hbit hb0 hblt hclr hgd hp hp0 hz rfl rfl
        (put_data_same _ _ _)
        (fun _ => by rw [put_data_ne _ _ _ _ hpb.symm, put_data_same])
        (fun x hx1 hx2 => by rw [put_data_ne _ _ _ _ hx1, put_data_ne _ _ _ _ hx2])
      refine ⟨t1, (put_data_same _ _ _).symm, ?_, ?_, fun hne => absurd hz hne⟩
      · rw [ptrAt_setPtr_same _ _ _ hb32]
        exact t2.symm
      · rw [ptrAt_setPtr_same _ _ _ hb32]
        exact hb0
  · rw [if_neg hz] at hres
    injection hres with hres
    injection hres with e1 hres
    injection hres with e2 e3
    subst e1
    subst e2
    subst e3
    exact ⟨tree_grow_refl c inode R s _ h, rfl, (tree_node_snoc _ _ _ _ _ hp0).symm, hz,
      fun _ => ⟨rfl, rfl⟩⟩

/-- The shape "leaf pointer" of `get_or_alloc_dir_block` on a sound tree,
called on the tree block at `(s, pre)` and its content: a new leaf is a zero
block. -/
theorem ensure_dir_leaf_spec (c : SimpleFS_Context) (inode : Buf) (R : Nat → Prop)
    (s : Nat) (pre : List Nat) (i pg : Nat) (h : tree_ok c inode R)
    (hp : tree_path_ok s (pre ++ [i]))
    (hp0 : tree_node c.device_fd.data inode s pre ≠ 0)
    (b : Nat) (inode' : Buf) (c' : SimpleFS_Context)
    (hres : ensure_dir_leaf c inode (tree_node c.device_fd.data inode s pre)
      (c.device_fd.data (tree_node c.device_fd.data inode s pre)) i pg =
        .ok (b, inode', c')) :
    tree_grow c inode R c' inode' s (pre ++ [i]) ∧
    b = tree_node c'.device_fd.data inode' s (pre ++ [i]) ∧
    b ≠ 0 ∧
    (ptrAt (c.device_fd.data (tree_node c.device_fd.data inode s pre)) i ≠ 0 →
      inode' = inode ∧ c' = c) ∧
    (ptrAt (c.device_fd.data (tree_node c.device_fd.data inode s pre)) i = 0 →
      c'.device_fd.data b = zeroBuf) := by
  unfold ensure_dir_leaf at hres
  by_cases hz : ptrAt (c.device_fd.data (tree_node c.device_fd.data inode s pre)) i = 0
  · rw [if_pos hz] at hres
    dsimp only at hres
    by_cases hr : (alloc_block c pg).1 = 0
    · rw [if_pos hr] at hres
      exact Except.noConfusion hres
    · rw [if_neg hr] at hres
      obtain ⟨g, bit, hg, hbit, he, hb0, hblt, hclr, hgd⟩ := alloc_block_fresh c pg h.layout hr
      rw [he] at hres
      dsimp only at hres
      have hw : (block_taken c g bit).device_fd.writable
          (g * c.sb.s_blocks_per_group + bit) = true := (h.io _).2
      rw [write_block_of_writable _ _ _ hw] at hres
      dsimp only at hres
      have hw2 : ((block_taken c g bit).device_fd.put (g * c.sb.s_blocks_per_group + bit)
          zeroBuf).writable (tree_node c.device_fd.data inode s pre) = true := (h.io _).2
      rw [write_block_of_writable _ _ _ hw2] at hres
      dsimp only at hres
      injection hres with hres
      injection hres with e1 hres
      injection hres with e2 e3
      subst e1
      subst e2
      subst e3
      have hpre : tree_path_ok s pre := tree_path_ok_prefix s pre [i] hp
      obtain ⟨p1, p2, p3⟩ := h.nodes s pre hpre hp0
      have hpb : tree_node c.device_fd.data inode s pre ≠ g * c.sb.s_blocks_per_group + bit := by
        intro heq
        rw [heq, hclr] at p2
        exact Bool.noConfusion p2
      have hb32 : g * c.sb.s_blocks_per_group + bit < 4294967296 := by
        have := h.layout.2.2.2.1
        omega
      obtain ⟨t1, t2⟩ := tree_grow_entry c inode R h g bit
        (((block_taken c g bit).device_fd.put (g * c.sb.s_blocks_per_group + bit) zeroBuf).put
          (tree_node c.device_fd.data inode s pre)
          (setPtr (c.device_fd.data (tree_node c.device_fd.data inode s pre)) i
            (g * c.sb.s_blocks_per_group + bit)))
        (i_blocks inode + 8) s pre i hg hbit hb0 hblt hclr hgd hp hp0 hz rfl rfl
        (put_data_same _ _ _)
        (fun _ => by rw [put_data_ne _ _ _ _ hpb.symm, put_data_same])
        (fun x hx1 hx2 => by rw [put_data_ne _ _ _ _ hx1, put_data_ne _ _ _ _ hx2])
      rw [ptrAt_setPtr_same _ _ _ hb32]
      refine ⟨t1, t2.symm, hb0, fun hne => absurd hz hne, fun _ => ?_⟩
      show (((block_taken c g bit).device_fd.put (g * c.sb.s_blocks_per_group + bit)
        zeroBuf).put _ _).data _ = zeroBuf
      rw [put_data_ne _ _ _ _ hpb.symm, put_data_same]
  · rw [if_neg hz] at hres
    injection hres with hres
    injection hres with e1 hres
    injection hres with e2 e3
    subst e1
    subst e2
    subst e3
    exact ⟨tree_grow_refl c inode R s _ h, (tree_node_snoc _ _ _ _ _ hp0).symm, hz,
      fun _ => ⟨rfl, rfl⟩, fun h0 => absurd h0 hz⟩

theorem read_block_io (c : SimpleFS_Context) (h : io_ok c) (b : Nat) :
    read_block c.device_fd b = some (c.device_fd.data b) :=
  read_block_of_readable _ _ (h b).1

theorem tree_node_nil (data : Nat → Buf) (inode : Buf) (s : Nat) :
    tree_node data inode s [] = i_block inode s := rfl

theorem i_block_set_i_blocks_set_i_block (inode : Buf) (s b v : Nat) (hb : b < 4294967296) :
    i_block (set_i_blocks (set_i_block inode s b) v) s = b := by
  rw [i_block_set_i_blocks, i_block_set_i_block_same _ _ _ hb]

/-- The direct range of `get_or_alloc_dir_block` on a sound tree. -/
theorem get_or_alloc_dir_block_direct (c : SimpleFS_Context) (inode : Buf) (R : Nat → Prop)
    (num k : Nat) (h : tree_ok c inode R) (hk : k < 12)
    (b : Nat) (inode' : Buf) (c' : SimpleFS_Context)
    (hres : get_or_alloc_dir_block c inode num k = (b, inode', c')) (hb : b ≠ 0) :
    tree_grow c inode R c' inode' k [] ∧
    b = tree_node c'.device_fd.data inode' k [] ∧
    (tree_node c.device_fd.data inode k [] ≠ 0 → inode' = inode ∧ c' = c) ∧
    (tree_node c.device_fd.data inode k [] = 0 → c'.device_fd.data b = zeroBuf) := by
  unfold get_or_alloc_dir_block at hres
  dsimp only at hres
  rw [if_pos (show k < SIMPLEFS_NUM_DIRECT_BLOCKS from hk)] at hres
  by_cases hz : i_block inode k = 0
  · rw [if_pos hz] at hres
    by_cases hr : (alloc_block c (dec32 num / c.sb.s_inodes_per_group)).1 = 0
    · rw [if_pos hr] at hres
      injection hres with e1 _
      exact absurd e1.symm hb
    · rw [if_neg hr] at hres
      obtain ⟨g, bit, hg, hbit, he, hb0, hblt, hclr, hgd⟩ :=
        alloc_block_fresh c _ h.layout hr
      rw [he] at hres
      dsimp only at hres
      have hw : (block_taken c g bit).device_fd.writable
          (g * c.sb.s_blocks_per_group + bit) = true := (h.io _).2
      rw [write_block_of_writable _ _ _ hw] at hres
      dsimp only at hres
      have hb32 : g * c.sb.s_blocks_per_group + bit < 4294967296 := by
        have := h.layout.2.2.2.1
        omega
      rw [i_block_set_i_blocks_set_i_block _ _ _ _ hb32] at hres
      injection hres with e1 hres
      injection hres with e2 e3
      subst e1
      subst e2
      subst e3
      have hbm : ∀ x, block_bit_set c x = true →
          x ≠ g * c.sb.s_blocks_per_group + bit := by
        intro x hx heq
        rw [heq, hclr] at hx
        exact Bool.noConfusion hx
      have hD : ∀ x, x < c.sb.s_blocks_count → block_bit_set c x = true → ¬ R x →
          ((block_taken c g bit).device_fd.put (g * c.sb.s_blocks_per_group + bit) zeroBuf).data x =
            c.device_fd.data x := by
        intro x _ hx hR
        rw [put_data_ne _ _ _ _ (hbm x hx), block_taken_data, if_neg]
        intro heq
        exact hR (heq ▸ h.bitmaps g hg)
      have hnodes := tree_node_ext_slot c.device_fd.data
        ((block_taken c g bit).device_fd.put (g * c.sb.s_blocks_per_group + bit) zeroBuf).data
        inode (set_i_blocks (set_i_block inode k (g * c.sb.s_blocks_per_group + bit))
          (i_blocks (set_i_block inode k (g * c.sb.s_blocks_per_group + bit)) + 8))
        k (g * c.sb.s_blocks_per_group + bit) hz
        (i_block_set_i_blocks_set_i_block _ _ _ _ hb32)
        (fun t ht => by rw [i_block_set_i_blocks, i_block_set_i_block_ne _ _ _ _ ht])
        hb0 (fun _ => put_data_same _ _ _)
        (fun s' idxs' hp hne => by
          obtain ⟨n1, n2, n3⟩ := h.nodes s' idxs' hp hne
          exact hD _ n1 n2 n3)
      refine ⟨?_, ?_, fun hne => absurd hz hne, fun _ => put_data_same _ _ _⟩
      · apply tree_grow_fresh c inode R h g bit
          ((block_taken c g bit).device_fd.put (g * c.sb.s_blocks_per_group + bit) zeroBuf)
          _ k [] [] hg hbit hb0 hblt hclr hgd rfl rfl
        · intro x hR
          exact put_data_ne _ _ _ _ (hbm x (h.reserved x hR).2)
        · intro x hx hb hR _
          exact hD x hx hb hR
        · exact List.prefix_refl _
        · exact hnodes
        · exact hz
        · rw [i_size_set_i_blocks, i_size_set_i_block]
      · rw [tree_node_nil]
        exact (i_block_set_i_blocks_set_i_block _ _ _ _ hb32).symm
  · rw [if_neg hz] at hres
    injection hres with e1 hres
    injection hres with e2 e3
    subst e1
    subst e2
    subst e3
    exact ⟨tree_grow_refl c inode R k [] h, rfl, fun _ => ⟨rfl, rfl⟩, fun h0 => absurd h0 hz⟩

theorem tree_path_ok_mk (s : Nat) (idxs : List Nat) (h1 : s < 15)
    (h2 : idxs.length ≤ s - 11) (h3 : ∀ i, i ∈ idxs → i < 1024) : tree_path_ok s idxs :=
  ⟨h1, h2, h3⟩

/-- The single-indirect range of `get_or_alloc_dir_block` on a sound tree. -/
theorem get_or_alloc_dir_block_single (c : SimpleFS_Context) (inode : Buf) (R : Nat → Prop)
    (num k : Nat) (h : tree_ok c inode R) (hk1 : 12 ≤ k) (hk2 : k < 12 + 1024)
    (b : Nat) (inode' : Buf) (c' : SimpleFS_Context)
    (hres : get_or_alloc_dir_block c inode num k = (b, inode', c')) (hb : b ≠ 0) :
    tree_grow c inode R c' inode' 12 [k - 12] ∧
    b = tree_node c'.device_fd.data inode' 12 [k - 12] ∧
    (tree_node c.device_fd.data inode 12 [k - 12] ≠ 0 → inode' = inode ∧ c' = c) ∧
    (tree_node c.device_fd.data inode 12 [k - 12] = 0 → c'.device_fd.data b = zeroBuf) := by
  unfold get_or_alloc_dir_block at hres
  dsimp only at hres
  rw [if_neg (show ¬ k < SIMPLEFS_NUM_DIRECT_BLOCKS from by unfold SIMPLEFS_NUM_DIRECT_BLOCKS; omega),
    if_pos (show k < SIMPLEFS_NUM_DIRECT_BLOCKS + SIMPLEFS_BLOCK_SIZE / 4 from by
      unfold SIMPLEFS_NUM_DIRECT_BLOCKS SIMPLEFS_BLOCK_SIZE; omega)] at hres
  have hpath : tree_path_ok 12 ([] ++ [k - 12]) :=
    tree_path_ok_mk 12 _ (by norm_num) (by simp) (by simp; omega)
  cases hA : ensure_top_indirect c inode SIMPLEFS_NUM_DIRECT_BLOCKS
      (dec32 num / c.sb.s_inodes_per_group) with
  | error e =>
    rw [hA] at hres
    injection hres with e1 _
    exact absurd e1.symm hb
  | ok r =>
    obtain ⟨inode1, c1⟩ := r
    rw [hA] at hres
    dsimp only at hres
    obtain ⟨g1, a1, a2⟩ := ensure_top_indirect_spec c inode R 12 _ h inode1 c1 hA
    rw [read_block_io c1 g1.ok.io] at hres
    dsimp only at hres
    cases hL : ensure_dir_leaf c1 inode1 (i_block inode1 SIMPLEFS_NUM_DIRECT_BLOCKS)
        (c1.device_fd.data (i_block inode1 SIMPLEFS_NUM_DIRECT_BLOCKS))
        (k - SIMPLEFS_NUM_DIRECT_BLOCKS) (dec32 num / c.sb.s_inodes_per_group) with
    | error e =>
      rw [hL] at hres
      injection hres with e1 _
      exact absurd e1.symm hb
    | ok r2 =>
      obtain ⟨b2, inode2, c2⟩ := r2
      rw [hL] at hres
      injection hres with e1 hres
      injection hres with e2 e3
      subst e1
      subst e2
      subst e3
      obtain ⟨g2, l1, l2, l3, l4⟩ :=
        ensure_dir_leaf_spec c1 inode1 R 12 [] (k - 12) _ g1.ok hpath a1 b2 inode2 c2 hL
      have hoff : tree_node c1.device_fd.data inode1 12 [k - 12] =
          tree_node c.device_fd.data inode 12 [k - 12] :=
        g1.off_path 12 [k - 12] hpath (fun hh => by
          have := List.IsPrefix.length_le hh.2
          simp at this)
      have hptr : ptrAt (c1.device_fd.data (tree_node c1.device_fd.data inode1 12 [])) (k - 12) =
          tree_node c.device_fd.data inode 12 [k - 12] := by
        rw [← hoff]
        exact (tree_node_snoc c1.device_fd.data inode1 12 [] (k - 12) a1).symm
      refine ⟨tree_grow_trans c inode R c1 inode1 c2 inode2 12 [k - 12]
        (tree_grow_mono c inode R c1 inode1 12 [] [k - 12] (List.nil_prefix) g1) g2, l1, ?_, ?_⟩
      · intro hne
        have hs : i_block inode 12 ≠ 0 := by
          intro h0
          apply hne
          unfold tree_node
          rw [h0, walk_tree_zero]
        obtain ⟨e1, e2⟩ := a2 hs
        subst e1
        subst e2
        exact l3 (by rw [hptr]; exact hne)
      · intro h0
        exact l4 (by rw [hptr]; exact h0)

theorem tree_grow_off (c : SimpleFS_Context) (inode : Buf) (R : Nat → Prop)
    (c' : SimpleFS_Context) (inode' : Buf) (s : Nat) (idxs full : List Nat)
    (h : tree_grow c inode R c' inode' s idxs) (hp : tree_path_ok s full)
    (hl : idxs.length < full.length) :
    tree_node c'.device_fd.data inode' s full = tree_node c.device_fd.data inode s full :=
  h.off_path s full hp (fun hh => by
    have := List.IsPrefix.length_le hh.2
    omega)

theorem tree_node_ne_zero_prefix (data : Nat → Buf) (inode : Buf) (s : Nat)
    (pre rest : List Nat) (h : tree_node data inode s (pre ++ rest) ≠ 0) :
    tree_node data inode s pre ≠ 0 := by
  intro h0
  apply h
  rw [tree_node_append, h0, walk_tree_zero]

/-- The double-indirect range of `get_or_alloc_dir_block` on a sound tree. -/
theorem get_or_alloc_dir_block_double (c : SimpleFS_Context) (inode : Buf) (R : Nat → Prop)
    (num k : Nat) (h : tree_ok c inode R) (hk1 : 1036 ≤ k) (hk2 : k < 1036 + 1024 * 1024)
    (b : Nat) (inode' : Buf) (c' : SimpleFS_Context)
    (hres : get_or_alloc_dir_block c inode num k = (b, inode', c')) (hb : b ≠ 0) :
    tree_grow c inode R c' inode' 13 [(k - 1036) / 1024, (k - 1036) % 1024] ∧
    b = tree_node c'.device_fd.data inode' 13 [(k - 1036) / 1024, (k - 1036) % 1024] ∧
    (tree_node c.device_fd.data inode 13 [(k - 1036) / 1024, (k - 1036) % 1024] ≠ 0 →
      inode' = inode ∧ c' = c) ∧
    (tree_node c.device_fd.data inode 13 [(k - 1036) / 1024, (k - 1036) % 1024] = 0 →
      c'.device_fd.data b = zeroBuf) := by
  unfold get_or_alloc_dir_block at hres
  dsimp only at hres
  have hc1 : SIMPLEFS_NUM_DIRECT_BLOCKS + SIMPLEFS_BLOCK_SIZE / 4 = 1036 := rfl
  have hc2 : SIMPLEFS_BLOCK_SIZE / 4 = 1024 := rfl
  rw [hc1, hc2] at hres
  rw [if_neg (show ¬ k < SIMPLEFS_NUM_DIRECT_BLOCKS from by unfold SIMPLEFS_NUM_DIRECT_BLOCKS; omega),
    if_neg (show ¬ k < 1036 from by omega),
    if_pos (show k < 1036 + 1024 * 1024 from hk2)] at hres
  have hi1 : (k - 1036) / 1024 < 1024 := Nat.div_lt_of_lt_mul (by omega)
  have hi2 : (k - 1036) % 1024 < 1024 := Nat.mod_lt _ (by norm_num)
  have hpath1 : tree_path_ok 13 ([] ++ [(k - 1036) / 1024]) :=
    tree_path_ok_mk 13 _ (by norm_num) (by simp) (by simp; exact hi1)
  have hpath2 : tree_path_ok 13 ([(k - 1036) / 1024] ++ [(k - 1036) % 1024]) :=
    tree_path_ok_mk 13 _ (by norm_num) (by simp) (by
      intro i hi
      simp at hi
      rcases hi with hi | hi <;> omega)
  cases hA : ensure_top_indirect c inode (SIMPLEFS_NUM_DIRECT_BLOCKS + 1)
      (dec32 num / c.sb.s_inodes_per_group) with
  | error e =>
    rw [hA] at hres
    injection hres with e1 _
    exact absurd e1.symm hb
  | ok r =>
    obtain ⟨inode1, c1⟩ := r
    rw [hA] at hres
    dsimp only at hres
    obtain ⟨g1, a1, a2⟩ := ensure_top_indirect_spec c inode R 13 _ h inode1 c1 hA
    rw [read_block_io c1 g1.ok.io] at hres
    dsimp only at hres
    cases hB : ensure_child_indirect c1 inode1 (i_block inode1 (SIMPLEFS_NUM_DIRECT_BLOCKS + 1))
        (c1.device_fd.data (i_block inode1 (SIMPLEFS_NUM_DIRECT_BLOCKS + 1)))
        ((k - 1036) / 1024) (dec32 num / c.sb.s_inodes_per_group) with
    | error e =>
      rw [hB] at hres
      injection hres with e1 _
      exact absurd e1.symm hb
    | ok r1 =>
      obtain ⟨inode2, l2buf, c2⟩ := r1
      rw [hB] at hres
      dsimp only at hres
      obtain ⟨g2, b1, b2, b3, b4⟩ :=
        ensure_child_indirect_spec c1 inode1 R 13 [] ((k - 1036) / 1024) _ g1.ok hpath1 a1
          inode2 l2buf c2 hB
      rw [read_block_io c2 g2.ok.io, b2] at hres
      dsimp only at hres
      have b3' : tree_node c2.device_fd.data inode2 13 [(k - 1036) / 1024] ≠ 0 := by
        rw [b2] at b3
        exact b3
      cases hL : ensure_dir_leaf c2 inode2
          (tree_node c2.device_fd.data inode2 13 ([] ++ [(k - 1036) / 1024]))
          (c2.device_fd.data (tree_node c2.device_fd.data inode2 13 ([] ++ [(k - 1036) / 1024])))
          ((k - 1036) % 1024) (dec32 num / c.sb.s_inodes_per_group) with
      | error e =>
        rw [hL] at hres
        injection hres with e1 _
        exact absurd e1.symm hb
      | ok r2 =>
        obtain ⟨b2', inode3, c3⟩ := r2
        rw [hL] at hres
        injection hres with e1 hres
        injection hres with e2 e3
        subst e1
        subst e2
        subst e3
        obtain ⟨g3, l1, l2, l3, l4⟩ :=
          ensure_dir_leaf_spec c2 inode2 R 13 [(k - 1036) / 1024] ((k - 1036) % 1024) _ g2.ok
            hpath2 b3' b2' inode3 c3 hL
        have hoff1 : tree_node c1.device_fd.data inode1 13 [(k - 1036) / 1024] =
            tree_node c.device_fd.data inode 13 [(k - 1036) / 1024] :=
          tree_grow_off c inode R c1 inode1 13 [] _ g1 hpath1 (by simp)
        have hoff2 : tree_node c2.device_fd.data inode2 13
              [(k - 1036) / 1024, (k - 1036) % 1024] =
            tree_node c.device_fd.data inode 13 [(k - 1036) / 1024, (k - 1036) % 1024] := by
          exact (tree_grow_off c1 inode1 R c2 inode2 13 _ _ g2 hpath2 (by simp)).trans
            (tree_grow_off c inode R c1 inode1 13 [] _ g1 hpath2 (by simp))
        have hptr1 : ptrAt (c1.device_fd.data (tree_node c1.device_fd.data inode1 13 []))
              ((k - 1036) / 1024) =
            tree_node c.device_fd.data inode 13 [(k - 1036) / 1024] := by
          rw [← hoff1]
          exact (tree_node_snoc c1.device_fd.data inode1 13 [] _ a1).symm
        have hptr2 : ptrAt (c2.device_fd.data
              (tree_node c2.device_fd.data inode2 13 [(k - 1036) / 1024])) ((k - 1036) % 1024) =
            tree_node c.device_fd.data inode 13 [(k - 1036) / 1024, (k - 1036) % 1024] := by
          rw [← hoff2]
          exact (tree_node_snoc c2.device_fd.data inode2 13 [_] _ b3').symm
        refine ⟨tree_grow_trans c inode R c1 inode1 c3 inode3 13 _
          (tree_grow_mono c inode R c1 inode1 13 [] _ (List.nil_prefix) g1)
          (tree_grow_trans c1 inode1 R c2 inode2 c3 inode3 13 _
            (tree_grow_mono c1 inode1 R c2 inode2 13 _ _ (List.prefix_append _ _) g2) g3),
          l1, ?_, ?_⟩
        · intro hne
          have hn1 : tree_node c.device_fd.data inode 13 [(k - 1036) / 1024] ≠ 0 :=
            tree_node_ne_zero_prefix _ _ 13 [(k - 1036) / 1024] [(k - 1036) % 1024] hne
          have hs : i_block inode 13 ≠ 0 :=
            tree_node_ne_zero_prefix _ _ 13 [] [(k - 1036) / 1024] hn1
          obtain ⟨e1, e2⟩ := a2 hs
          subst e1
          subst e2
          obtain ⟨e1, e2⟩ := b4 (by rw [hptr1]; exact hn1)
          subst e1
          subst e2
          exact l3 (by rw [hptr2]; exact hne)
        · intro h0
          exact l4 (by rw [hptr2]; exact h0)

/-- The triple-indirect range of `get_or_alloc_dir_block` on a sound tree. -/
theorem get_or_alloc_dir_block_triple (c : SimpleFS_Context) (inode : Buf) (R : Nat → Prop)
    (num k : Nat) (h : tree_ok c inode R) (hk1 : 1036 + 1024 * 1024 ≤ k)
    (hk2 : k < 1036 + 1024 * 1024 + 1024 * 1024 * 1024)
    (b : Nat) (inode' : Buf) (c' : SimpleFS_Context)
    (hres : get_or_alloc_dir_block c inode num k = (b, inode', c')) (hb : b ≠ 0) :
    tree_grow c inode R c' inode' 14 [(k - (1036 + 1024 * 1024)) / (1024 * 1024), (k - (1036 + 1024 * 1024)) % (1024 * 1024) / 1024, (k - (1036 + 1024 * 1024)) % (1024 * 1024) % 1024] ∧
    b = tree_node c'.device_fd.data inode' 14 [(k - (1036 + 1024 * 1024)) / (1024 * 1024), (k - (1036 + 1024 * 1024)) % (1024 * 1024) / 1024, (k - (1036 + 1024 * 1024)) % (1024 * 1024) % 1024] ∧
    (tree_node c.device_fd.data inode 14 [(k - (1036 + 1024 * 1024)) / (1024 * 1024), (k - (1036 + 1024 * 1024)) % (1024 * 1024) / 1024, (k - (1036 + 1024 * 1024)) % (1024 * 1024) % 1024] ≠ 0 →
      inode' = inode ∧ c' = c) ∧
    (tree_node c.device_fd.data inode 14 [(k - (1036 + 1024 * 1024)) / (1024 * 1024), (k - (1036 + 1024 * 1024)) % (1024 * 1024) / 1024, (k - (1036 + 1024 * 1024)) % (1024 * 1024) % 1024] = 0 →
      c'.device_fd.data b = zeroBuf) := by
  unfold get_or_alloc_dir_block at hres
  dsimp only at hres
  have hc1 : SIMPLEFS_NUM_DIRECT_BLOCKS + SIMPLEFS_BLOCK_SIZE / 4 = 1036 := rfl
  have hc2 : SIMPLEFS_BLOCK_SIZE / 4 = 1024 := rfl
  rw [hc1, hc2] at hres
  rw [if_neg (show ¬ k < SIMPLEFS_NUM_DIRECT_BLOCKS from by unfold SIMPLEFS_NUM_DIRECT_BLOCKS; omega),
    if_neg (show ¬ k < 1036 from by omega),
    if_neg (show ¬ k < 1036 + 1024 * 1024 from by omega),
    if_pos (show k < 1036 + 1024 * 1024 + 1024 * 1024 * 1024 from hk2)] at hres
  have hi1 : (k - (1036 + 1024 * 1024)) / (1024 * 1024) < 1024 := Nat.div_lt_of_lt_mul (by omega)
  have hi2 : (k - (1036 + 1024 * 1024)) % (1024 * 1024) / 1024 < 1024 :=
    Nat.div_lt_of_lt_mul (Nat.mod_lt _ (by norm_num))
  have hi3 : (k - (1036 + 1024 * 1024)) % (1024 * 1024) % 1024 < 1024 := Nat.mod_lt _ (by norm_num)
  have hpath1 : tree_path_ok 14 [(k - (1036 + 1024 * 1024)) / (1024 * 1024)] :=
    tree_path_ok_mk 14 _ (by norm_num) (by simp) (by simp; exact hi1)
  have hpath2 : tree_path_ok 14 [(k - (1036 + 1024 * 1024)) / (1024 * 1024), (k - (1036 + 1024 * 1024)) % (1024 * 1024) / 1024] :=
    tree_path_ok_mk 14 _ (by norm_num) (by simp) (by
      intro i hi
      simp only [List.mem_cons, List.mem_singleton, List.not_mem_nil, or_false] at hi
      rcases hi with hi | hi
      · rw [hi]; exact hi1
      · rw [hi]; exact hi2)
  have hpath3 : tree_path_ok 14 [(k - (1036 + 1024 * 1024)) / (1024 * 1024), (k - (1036 + 1024 * 1024)) % (1024 * 1024) / 1024, (k - (1036 + 1024 * 1024)) % (1024 * 1024) % 1024] :=
    tree_path_ok_mk 14 _ (by norm_num) (by simp) (by
      intro i hi
      simp only [List.mem_cons, List.mem_singleton, List.not_mem_nil, or_false] at hi
      rcases hi with hi | hi | hi
      · rw [hi]; exact hi1
      · rw [hi]; exact hi2
      · rw [hi]; exact hi3)
  cases hA : ensure_top_indirect c inode (SIMPLEFS_NUM_DIRECT_BLOCKS + 2)
      (dec32 num / c.sb.s_inodes_per_group) with
  | error e =>
    rw [hA] at hres
    injection hres with e1 _
    exact absurd e1.symm hb
  | ok r =>
    obtain ⟨inode1, c1⟩ := r
    rw [hA] at hres
    dsimp only at hres
    obtain ⟨g1, a1, a2⟩ := ensure_top_indirect_spec c inode R 14 _ h inode1 c1 hA
    rw [read_block_io c1 g1.ok.io] at hres
    dsimp only at hres
    cases hB : ensure_child_indirect c1 inode1 (i_block inode1 (SIMPLEFS_NUM_DIRECT_BLOCKS + 2))
        (c1.device_fd.data (i_block inode1 (SIMPLEFS_NUM_DIRECT_BLOCKS + 2)))
        ((k - (1036 + 1024 * 1024)) / (1024 * 1024)) (dec32 num / c.sb.s_inodes_per_group) with
    | error e =>
      rw [hB] at hres
      injection hres with e1 _
      exact absurd e1.symm hb
    | ok r1 =>
      obtain ⟨inode2, l3buf, c2⟩ := r1
      rw [hB] at hres
      dsimp only at hres
      obtain ⟨g2, b1, b2, b3, b4⟩ :=
        ensure_child_indirect_spec c1 inode1 R 14 [] ((k - (1036 + 1024 * 1024)) / (1024 * 1024)) _ g1.ok hpath1 a1
          inode2 l3buf c2 hB
      rw [read_block_io c2 g2.ok.io, b2] at hres
      dsimp only at hres
      have b3' : tree_node c2.device_fd.data inode2 14 [(k - (1036 + 1024 * 1024)) / (1024 * 1024)] ≠ 0 := by
        rw [b2] at b3
        exact b3
      cases hC : ensure_child_indirect c2 inode2
          (tree_node c2.device_fd.data inode2 14 ([] ++ [(k - (1036 + 1024 * 1024)) / (1024 * 1024)]))
          (c2.device_fd.data (tree_node c2.device_fd.data inode2 14 ([] ++ [(k - (1036 + 1024 * 1024)) / (1024 * 1024)])))
          ((k - (1036 + 1024 * 1024)) % (1024 * 1024) / 1024) (dec32 num / c.sb.s_inodes_per_group) with
      | error e =>
        rw [hC] at hres
        injection hres with e1 _
        exact absurd e1.symm hb
      | ok r2 =>
        obtain ⟨inode3, l2buf, c3⟩ := r2
        rw [hC] at hres
        dsimp only at hres
        obtain ⟨g3, d1, d2, d3, d4⟩ :=
          ensure_child_indirect_spec c2 inode2 R 14 [(k - (1036 + 1024 * 1024)) / (1024 * 1024)] ((k - (1036 + 1024 * 1024)) % (1024 * 1024) / 1024) _ g2.ok hpath2 b3'
            inode3 l2buf c3 hC
        rw [read_block_io c3 g3.ok.io, d2] at hres
        dsimp only at hres
        have d3' : tree_node c3.device_fd.data inode3 14 [(k - (1036 + 1024 * 1024)) / (1024 * 1024), (k - (1036 + 1024 * 1024)) % (1024 * 1024) / 1024] ≠ 0 := by
          rw [d2] at d3
          exact d3
        cases hL : ensure_dir_leaf c3 inode3
            (tree_node c3.device_fd.data inode3 14 ([(k - (1036 + 1024 * 1024)) / (1024 * 1024)] ++ [(k - (1036 + 1024 * 1024)) % (1024 * 1024) / 1024]))
            (c3.device_fd.data (tree_node c3.device_fd.data inode3 14 ([(k - (1036 + 1024 * 1024)) / (1024 * 1024)] ++ [(k - (1036 + 1024 * 1024)) % (1024 * 1024) / 1024])))
            ((k - (1036 + 1024 * 1024)) % (1024 * 1024) % 1024) (dec32 num / c.sb.s_inodes_per_group) with
        | error e =>
          rw [hL] at hres
          injection hres with e1 _
          exact absurd e1.symm hb
        | ok r3 =>
          obtain ⟨b2', inode4, c4⟩ := r3
          rw [hL] at hres
          injection hres with e1 hres
          injection hres with e2 e3
          subst e1
          subst e2
          subst e3
          obtain ⟨g4, l1, l2, l3, l4⟩ :=
            ensure_dir_leaf_spec c3 inode3 R 14 [(k - (1036 + 1024 * 1024)) / (1024 * 1024), (k - (1036 + 1024 * 1024)) % (1024 * 1024) / 1024] ((k - (1036 + 1024 * 1024)) % (1024 * 1024) % 1024) _ g3.ok hpath3 d3' b2' inode4 c4 hL
          have hoff1 : tree_node c1.device_fd.data inode1 14 [(k - (1036 + 1024 * 1024)) / (1024 * 1024)] =
              tree_node c.device_fd.data inode 14 [(k - (1036 + 1024 * 1024)) / (1024 * 1024)] :=
            tree_grow_off c inode R c1 inode1 14 [] _ g1 hpath1 (by simp)
          have hoff2 : tree_node c2.device_fd.data inode2 14 [(k - (1036 + 1024 * 1024)) / (1024 * 1024), (k - (1036 + 1024 * 1024)) % (1024 * 1024) / 1024] =
              tree_node c.device_fd.data inode 14 [(k - (1036 + 1024 * 1024)) / (1024 * 1024), (k - (1036 + 1024 * 1024)) % (1024 * 1024) / 1024] :=
            (tree_grow_off c1 inode1 R c2 inode2 14 _ _ g2 hpath2 (by simp)).trans
              (tree_grow_off c inode R c1 inode1 14 [] _ g1 hpath2 (by simp))
          have hoff3 : tree_node c3.device_fd.data inode3 14 [(k - (1036 + 1024 * 1024)) / (1024 * 1024), (k - (1036 + 1024 * 1024)) % (1024 * 1024) / 1024, (k - (1036 + 1024 * 1024)) % (1024 * 1024) % 1024] =
              tree_node c.device_fd.data inode 14 [(k - (1036 + 1024 * 1024)) / (1024 * 1024), (k - (1036 + 1024 * 1024)) % (1024 * 1024) / 1024, (k - (1036 + 1024 * 1024)) % (1024 * 1024) % 1024] :=
            (tree_grow_off c2 inode2 R c3 inode3 14 _ _ g3 hpath3 (by simp)).trans
              ((tree_grow_off c1 inode1 R c2 inode2 14 _ _ g2 hpath3 (by simp)).trans
                (tree_grow_off c inode R c1 inode1 14 [] _ g1 hpath3 (by simp)))
          have hptr1 : ptrAt (c1.device_fd.data (tree_node c1.device_fd.data inode1 14 []))
                ((k - (1036 + 1024 * 1024)) / (1024 * 1024)) = tree_node c.device_fd.data inode 14 [(k - (1036 + 1024 * 1024)) / (1024 * 1024)] := by
            rw [← hoff1]
            exact (tree_node_snoc c1.device_fd.data inode1 14 [] _ a1).symm
          have hptr2 : ptrAt (c2.device_fd.data
                (tree_node c2.device_fd.data inode2 14 [(k - (1036 + 1024 * 1024)) / (1024 * 1024)])) ((k - (1036 + 1024 * 1024)) % (1024 * 1024) / 1024) =
              tree_node c.device_fd.data inode 14 [(k - (1036 + 1024 * 1024)) / (1024 * 1024), (k - (1036 + 1024 * 1024)) % (1024 * 1024) / 1024] := by
            rw [← hoff2]
            exact (tree_node_snoc c2.device_fd.data inode2 14 [_] _ b3').symm
          have hptr3 : ptrAt (c3.device_fd.data
                (tree_node c3.device_fd.data inode3 14 [(k - (1036 + 1024 * 1024)) / (1024 * 1024), (k - (1036 + 1024 * 1024)) % (1024 * 1024) / 1024])) ((k - (1036 + 1024 * 1024)) % (1024 * 1024) % 1024) =
              tree_node c.device_fd.data inode 14 [(k - (1036 + 1024 * 1024)) / (1024 * 1024), (k - (1036 + 1024 * 1024)) % (1024 * 1024) / 1024, (k - (1036 + 1024 * 1024)) % (1024 * 1024) % 1024] := by
            rw [← hoff3]
            exact (tree_node_snoc c3.device_fd.data inode3 14 [_, _] _ d3').symm
          refine ⟨tree_grow_trans c inode R c1 inode1 c4 inode4 14 _
            (tree_grow_mono c inode R c1 inode1 14 [] _ (List.nil_prefix) g1)
            (tree_grow_trans c1 inode1 R c2 inode2 c4 inode4 14 _
              (tree_grow_mono c1 inode1 R c2 inode2 14 [(k - (1036 + 1024 * 1024)) / (1024 * 1024)] _ (List.prefix_append [(k - (1036 + 1024 * 1024)) / (1024 * 1024)] _) g2)
              (tree_grow_trans c2 inode2 R c3 inode3 c4 inode4 14 _
                (tree_grow_mono c2 inode2 R c3 inode3 14 [(k - (1036 + 1024 * 1024)) / (1024 * 1024), (k - (1036 + 1024 * 1024)) % (1024 * 1024) / 1024] _ (List.prefix_append [(k - (1036 + 1024 * 1024)) / (1024 * 1024), (k - (1036 + 1024 * 1024)) % (1024 * 1024) / 1024] [_]) g3)
                g4)),
            l1, ?_, ?_⟩
          · intro hne
            have hn2 : tree_node c.device_fd.data inode 14 [(k - (1036 + 1024 * 1024)) / (1024 * 1024), (k - (1036 + 1024 * 1024)) % (1024 * 1024) / 1024] ≠ 0 :=
              tree_node_ne_zero_prefix _ _ 14 [(k - (1036 + 1024 * 1024)) / (1024 * 1024), (k - (1036 + 1024 * 1024)) % (1024 * 1024) / 1024] [(k - (1036 + 1024 * 1024)) % (1024 * 1024) % 1024] hne
            have hn1 : tree_node c.device_fd.data inode 14 [(k - (1036 + 1024 * 1024)) / (1024 * 1024)] ≠ 0 :=
              tree_node_ne_zero_prefix _ _ 14 [(k - (1036 + 1024 * 1024)) / (1024 * 1024)] [(k - (1036 + 1024 * 1024)) % (1024 * 1024) / 1024] hn2
            have hs : i_block inode 14 ≠ 0 :=
              tree_node_ne_zero_prefix _ _ 14 [] [(k - (1036 + 1024 * 1024)) / (1024 * 1024)] hn1
            obtain ⟨e1, e2⟩ := a2 hs
            subst e1
            subst e2
            obtain ⟨e1, e2⟩ := b4 (by rw [hptr1]; exact hn1)
            subst e1
            subst e2
            obtain ⟨e1, e2⟩ := d4 (by rw [hptr2]; exact hn2)
            subst e1
            subst e2
            exact l3 (by rw [hptr3]; exact hne)
          · intro h0
            exact l4 (by rw [hptr3]; exact h0)

/-- Source function `get_or_alloc_dir_block` on a sound tree, for a logical
block the tree can address: a call that returns a block leaves the tree grown
along the path of `k` only, returns the block the tree then holds for `k`,
changes nothing when `k` was mapped, and hands out a zero block when it was
not. -/
theorem get_or_alloc_dir_block_spec (c : SimpleFS_Context) (inode : Buf) (R : Nat → Prop)
    (num k : Nat) (h : tree_ok c inode R) (hk : k < MAX_LOGICAL_BLOCKS)
    (b : Nat) (inode' : Buf) (c' : SimpleFS_Context)
    (hres : get_or_alloc_dir_block c inode num k = (b, inode', c')) (hb : b ≠ 0) :
    tree_grow c inode R c' inode' (lbn_slot k) (lbn_idxs k) ∧
    b = tree_node c'.device_fd.data inode' (lbn_slot k) (lbn_idxs k) ∧
    (tree_node c.device_fd.data inode (lbn_slot k) (lbn_idxs k) ≠ 0 →
      inode' = inode ∧ c' = c) ∧
    (tree_node c.device_fd.data inode (lbn_slot k) (lbn_idxs k) = 0 →
      c'.device_fd.data b = zeroBuf) := by
  unfold MAX_LOGICAL_BLOCKS at hk
  unfold lbn_slot lbn_idxs
  by_cases h1 : k < 12
  · rw [if_pos h1, if_pos h1]
    exact get_or_alloc_dir_block_direct c inode R num k h h1 b inode' c' hres hb
  · rw [if_neg h1, if_neg h1]
    by_cases h2 : k < 12 + 1024
    · rw [if_pos h2, if_pos h2]
      exact get_or_alloc_dir_block_single c inode R num k h (by omega) h2 b inode' c' hres hb
    · rw [if_neg h2, if_neg h2]
      by_cases h3 : k < 12 + 1024 + 1024 * 1024
      · rw [if_pos h3, if_pos h3]
        have e : k - 12 - 1024 = k - 1036 := by omega
        rw [e]
        exact get_or_alloc_dir_block_double c inode R num k h (by omega) (by omega)
          b inode' c' hres hb
      · rw [if_neg h3, if_neg h3]
        have e : k - 12 - 1024 - 1024 * 1024 = k - (1036 + 1024 * 1024) := by omega
        rw [e]
        exact get_or_alloc_dir_block_triple c inode R num k h (by omega) (by omega)
          b inode' c' hres hb

theorem record_offsets_tiles (blk : Buf) (limit : Nat) (hl : SIMPLEFS_BLOCK_SIZE ≤ limit) :
    ∀ (fuel off : Nat) (offs : List Nat), Tiles blk off offs → offs.length ≤ fuel →
      record_offsets blk limit fuel off = offs := by
  intro fuel
  induction fuel with
  | zero =>
    intro off offs _ hlen
    have : offs = [] := List.eq_nil_of_length_eq_zero (by omega)
    rw [this]
    rfl
  | succ fuel ih =>
    intro off offs ht hlen
    cases ht with
    | done =>
      unfold record_offsets
      rw [if_neg]
      intro h
      have := h.2.2.2
      have h8 := calculate_dir_entry_len_ge (de_name_len blk SIMPLEFS_BLOCK_SIZE)
      have := h.2.2.1
      omega
    | step _ offs h1 h2 h3 h4 htail =>
      have h8 := calculate_dir_entry_len_ge (de_name_len blk off)
      unfold record_offsets
      rw [if_pos ⟨by omega, by omega, h3, h4⟩]
      rw [ih _ offs htail (by simp only [List.length_cons] at hlen; omega)]

theorem record_offsets_block (blk : Buf) (limit : Nat) (hl : SIMPLEFS_BLOCK_SIZE ≤ limit)
    (offs : List Nat) (ht : Tiles blk 0 offs) :
    record_offsets blk limit SIMPLEFS_BLOCK_SIZE 0 = offs := by
  apply record_offsets_tiles blk limit hl _ _ _ ht
  have := Tiles.length_le blk 0 offs ht
  have hB : SIMPLEFS_BLOCK_SIZE = 4096 := rfl
  omega

theorem Tiles.unique (blk : Buf) (off : Nat) (offs offs' : List Nat)
    (h : Tiles blk off offs) (h' : Tiles blk off offs') : offs = offs' := by
  have hl := Tiles.length_le blk off offs h
  have hl' := Tiles.length_le blk off offs' h'
  have hB : SIMPLEFS_BLOCK_SIZE = 4096 := rfl
  rw [← record_offsets_tiles blk 4096 (by rw [hB]) 4096 off offs h (by omega),
    ← record_offsets_tiles blk 4096 (by rw [hB]) 4096 off offs' h' (by omega)]

/-- A change of one element of a family of lists, seen in the concatenation
over `range n`. -/
theorem perm_flatMap_range {α : Type} (f g : Nat → List α) (x : α) (n k : Nat) (hk : k < n)
    (hsame : ∀ j, j < n → j ≠ k → g j = f j) (hperm : List.Perm (g k) (x :: f k)) :
    List.Perm ((List.range n).flatMap g) (x :: (List.range n).flatMap f) := by
  induction n with
  | zero => omega
  | succ n ih =>
    rw [List.range_succ, List.flatMap_append, List.flatMap_append]
    simp only [List.flatMap_cons, List.flatMap_nil, List.append_nil]
    by_cases hkn : k = n
    · subst hkn
      have e : (List.range k).flatMap g = (List.range k).flatMap f := by
        apply List.flatMap_congr
        intro j hj
        rw [List.mem_range] at hj
        exact hsame j (by omega) (by omega)
      rw [e]
      exact (List.Perm.append_left _ hperm).trans List.perm_middle
    · rw [hsame n (by omega) (fun h => hkn h.symm)]
      have := ih (by omega) (fun j hj hne => hsame j (by omega) hne)
      exact List.Perm.append_right (f n) this

theorem i_block_set_i_size (inode : Buf) (t v : Nat) :
    i_block (set_i_size inode v) t = i_block inode t := by
  unfold i_block set_i_size
  exact getLE_setLE_disjoint _ _ _ _ _ _ (by omega)

theorem i_block_set_i_ctime (inode : Buf) (t v : Nat) :
    i_block (set_i_ctime inode v) t = i_block inode t := by
  unfold i_block set_i_ctime
  exact getLE_setLE_disjoint _ _ _ _ _ _ (by omega)

theorem i_block_set_i_mtime (inode : Buf) (t v : Nat) :
    i_block (set_i_mtime inode v) t = i_block inode t := by
  unfold i_block set_i_mtime
  exact getLE_setLE_disjoint _ _ _ _ _ _ (by omega)

theorem i_size_set_i_ctime (inode : Buf) (v : Nat) :
    i_size (set_i_ctime inode v) = i_size inode := by
  unfold i_size set_i_ctime
  exact getLE_setLE_disjoint _ _ _ _ _ _ (by omega)

theorem i_size_set_i_mtime (inode : Buf) (v : Nat) :
    i_size (set_i_mtime inode v) = i_size inode := by
  unfold i_size set_i_mtime
  exact getLE_setLE_disjoint _ _ _ _ _ _ (by omega)

theorem i_size_set_i_size (inode : Buf) (v : Nat) (hv : v < 4294967296) :
    i_size (set_i_size inode v) = v := by
  unfold i_size set_i_size
  rw [getLE_setLE_same]
  exact Nat.mod_eq_of_lt (by norm_num; exact hv)

theorem i_size_lt (inode : Buf) : i_size inode < 4294967296 := by
  have := getLE_lt inode 4 4
  unfold i_size
  norm_num at this
  exact this

/-- The tree does not change when no indirect block of it changes and the
slots of the inode stay. -/
theorem tree_node_frame (data data' : Nat → Buf) (inode inode' : Buf)
    (hslots : ∀ t, i_block inode' t = i_block inode t)
    (hsame : ∀ s idxs, tree_path_ok s idxs → idxs.length < tree_depth s →
      tree_node data inode s idxs ≠ 0 →
      data' (tree_node data inode s idxs) = data (tree_node data inode s idxs)) :
    ∀ s idxs, tree_path_ok s idxs →
      tree_node data' inode' s idxs = tree_node data inode s idxs := by
  intro s idxs hok
  apply tree_node_congr data data' inode inode' s idxs (hslots s)
  intro a j r e hq
  have hok_a : tree_path_ok s a := by
    rw [e] at hok
    exact tree_path_ok_prefix s a _ hok
  have hlen : a.length < tree_depth s := by
    have := hok.2.1
    rw [e] at this
    simp at this
    omega
  rw [hsame s a hok_a hlen hq]

theorem inode_location_layout (c c' : SimpleFS_Context) (n : Nat) (h : same_layout c c')
    (loc : Nat × Nat) (hl : inode_location c n = .ok loc) : inode_location c' n = .ok loc := by
  obtain ⟨_, _, a3, _, a5, a6, a7, a8, _⟩ := h
  unfold inode_location at hl ⊢
  rw [a5, a6, a7, a3]
  by_cases h1 : n = 0 ∨ n > c.sb.s_inodes_count
  · rw [if_pos h1] at hl
    exact Except.noConfusion hl
  · rw [if_neg h1] at hl ⊢
    dsimp only at hl ⊢
    by_cases h2 : (n - 1) / c.sb.s_inodes_per_group ≥ c.gdt.length
    · rw [if_pos h2] at hl
      exact Except.noConfusion hl
    · rw [if_neg h2] at hl ⊢
      rw [(a8 _).2.2]
      by_cases h3 : u32 ((c.gdt.getD ((n - 1) / c.sb.s_inodes_per_group) default).bg_inode_table +
          (n - 1) % c.sb.s_inodes_per_group / (SIMPLEFS_BLOCK_SIZE / SIMPLEFS_INODE_SIZE)) = 0 ∨
          u32 ((c.gdt.getD ((n - 1) / c.sb.s_inodes_per_group) default).bg_inode_table +
          (n - 1) % c.sb.s_inodes_per_group / (SIMPLEFS_BLOCK_SIZE / SIMPLEFS_INODE_SIZE)) ≥
            c.sb.s_blocks_count
      · rw [if_pos h3] at hl
        exact Except.noConfusion hl
      · rw [if_neg h3] at hl ⊢
        exact hl

theorem write_inode_to_disk_ok (c : SimpleFS_Context) (num : Nat) (inode : Buf) (T o : Nat)
    (hio : io_ok c) (hloc : inode_location c num = .ok (T, o)) :
    write_inode_to_disk c num inode =
      (0, { c with device_fd :=
        (c.device_fd.put T (blit (c.device_fd.data T) o inode 0 SIMPLEFS_INODE_SIZE)) }) := by
  unfold write_inode_to_disk
  rw [hloc]
  dsimp only
  rw [read_block_io c hio]
  dsimp only
  rw [write_block_of_writable _ _ _ (hio T).2]

theorem dir_block_same_device (c c1 : SimpleFS_Context) (inode : Buf) (k : Nat)
    (hd : c1.device_fd = c.device_fd) : dir_block c1 inode k = dir_block c inode k := by
  unfold dir_block map_logical_to_physical_block
  rw [hd]
  dsimp only
  split_ifs <;> (repeat' split) <;> rfl

theorem same_layout_of_eq (c c' : SimpleFS_Context)
    (hr : c'.device_fd.readable = c.device_fd.readable)
    (hw : c'.device_fd.writable = c.device_fd.writable)
    (hs : c'.sb = c.sb) (hg : c'.gdt = c.gdt) (hn : c'.now = c.now) : same_layout c c' := by
  refine ⟨hr, hw, ?_, ?_, ?_, ?_, ?_, ?_, hn⟩
  · rw [hs]
  · rw [hs]
  · rw [hs]
  · rw [hs]
  · rw [hg]
  · intro g
    rw [hg]
    exact ⟨rfl, rfl, rfl⟩

/-- A write to one data block of a directory and to the inode-table block of
its inode changes neither the block tree nor the other data blocks. -/
theorem leaf_write_frame (c : SimpleFS_Context) (inode : Buf) (num : Nat)
    (hio : io_ok c) (hd : tree_distinct c.device_fd.data inode) (T o : Nat)
    (hloc : inode_location c num = .ok (T, o))
    (hT : ∀ s idxs, tree_path_ok s idxs → tree_node c.device_fd.data inode s idxs ≠ T)
    (k : Nat) (hk : k < MAX_LOGICAL_BLOCKS)
    (blk' X inode' : Buf) (hslots : ∀ t, i_block inode' t = i_block inode t)
    (cF : SimpleFS_Context)
    (hdev : cF.device_fd = (c.device_fd.put (dir_block c inode k) blk').put T X)
    (hsb : cF.sb = c.sb) (hgdt : cF.gdt = c.gdt) (hnow : cF.now = c.now) :
    (∀ s idxs, tree_path_ok s idxs →
      tree_node cF.device_fd.data inode' s idxs = tree_node c.device_fd.data inode s idxs) ∧
    (∀ j, dir_block cF inode' j = dir_block c inode j) ∧
    cF.device_fd.data (dir_block c inode k) = blk' ∧
    (∀ j, j < MAX_LOGICAL_BLOCKS → j ≠ k → dir_block c inode j ≠ 0 →
      cF.device_fd.data (dir_block c inode j) = c.device_fd.data (dir_block c inode j)) ∧
    io_ok cF ∧ same_layout c cF ∧ inode_location cF num = .ok (T, o) := by
  have hior : ∀ b, c.device_fd.readable b = true := fun b => (hio b).1
  have hbk := dir_block_eq_node c inode k hior hk
  obtain ⟨pk1, pk2⟩ := lbn_path_ok k hk
  have hkT : dir_block c inode k ≠ T := by
    rw [hbk]
    exact hT _ _ pk1
  have hioF : io_ok cF := by
    intro b
    rw [hdev]
    exact hio b
  have hlay : same_layout c cF :=
    same_layout_of_eq c cF (by rw [hdev]; rfl) (by rw [hdev]; rfl) hsb hgdt hnow
  have hnodes : ∀ s idxs, tree_path_ok s idxs →
      tree_node cF.device_fd.data inode' s idxs = tree_node c.device_fd.data inode s idxs := by
    apply tree_node_frame c.device_fd.data cF.device_fd.data inode inode' hslots
    intro s idxs hok hlen hne
    rw [hdev, put_data_ne _ _ _ _ (hT s idxs hok), put_data_ne]
    intro heq
    rw [hbk] at heq
    have := (hd s idxs _ _ hok pk1 hne heq).2
    rw [this, pk2] at hlen
    have := (hd s idxs _ _ hok pk1 hne heq).1
    rw [this] at hlen
    omega
  have hdb : ∀ j, dir_block cF inode' j = dir_block c inode j := by
    intro j
    by_cases hj : j < MAX_LOGICAL_BLOCKS
    · rw [dir_block_eq_node cF inode' j (fun b => (hioF b).1) hj, dir_block_eq_node c inode j hior hj]
      exact hnodes _ _ (lbn_path_ok j hj).1
    · rw [dir_block_beyond cF inode' j (fun b => (hioF b).1) (by omega),
        dir_block_beyond c inode j hior (by omega)]
  refine ⟨hnodes, hdb, ?_, ?_, hioF, hlay, inode_location_layout c cF num hlay _ hloc⟩
  · rw [hdev, put_data_ne _ _ _ _ hkT, put_data_same]
  · intro j hj hjk hbj
    have hbjn := dir_block_eq_node c inode j hior hj
    obtain ⟨pj1, pj2⟩ := lbn_path_ok j hj
    have hjT : dir_block c inode j ≠ T := by
      rw [hbjn]
      exact hT _ _ pj1
    rw [hdev, put_data_ne _ _ _ _ hjT, put_data_ne]
    intro heq
    rw [hbjn, hbk] at heq
    rw [hbjn] at hbj
    obtain ⟨e1, e2⟩ := hd _ _ _ _ pj1 pk1 hbj heq
    exact hjk (lbn_path_inj j k hj hk e1 e2)

theorem dir_blocks_lt (inode : Buf) : i_size inode / SIMPLEFS_BLOCK_SIZE < 1048576 := by
  have := i_size_lt inode
  have hB : SIMPLEFS_BLOCK_SIZE = 4096 := rfl
  rw [hB]
  omega

/-- The block loop of `remove_dir_entry` on a well-formed directory, from
block `k`: either no block from `k` on holds an active record with the name and
the loop ends with `-ENOENT` on an unchanged filesystem, or the first such
record is removed from its block and the inode is written back. -/
theorem remove_dir_entry_loop_spec (c : SimpleFS_Context) (inode : Buf) (num : Nat)
    (name : List Nat) (h : dir_ok c inode num) (T o : Nat)
    (hloc : inode_location c num = .ok (T, o)) :
    ∀ (remaining k : Nat) (c1 : SimpleFS_Context), same_fs c c1 →
      k + remaining = i_size inode / SIMPLEFS_BLOCK_SIZE →
      (∃ cF, remove_dir_entry_loop num name remaining c1 inode k =
          (-(ENOENT : Int), inode, cF) ∧ same_fs c cF ∧
        ∀ j, k ≤ j → j < i_size inode / SIMPLEFS_BLOCK_SIZE → ∀ offs,
          Tiles (c.device_fd.data (dir_block c inode j)) 0 offs →
          ∀ e, e ∈ active_entries (c.device_fd.data (dir_block c inode j)) offs → e.1 ≠ name) ∨
      (∃ j before cur after cF, k ≤ j ∧ j < i_size inode / SIMPLEFS_BLOCK_SIZE ∧
        Tiles (c.device_fd.data (dir_block c inode j)) 0 (before ++ cur :: after) ∧
        (∀ j', k ≤ j' → j' < j → ∀ offs,
          Tiles (c.device_fd.data (dir_block c inode j')) 0 offs →
          ∀ e, e ∈ active_entries (c.device_fd.data (dir_block c inode j')) offs → e.1 ≠ name) ∧
        (∀ e, e ∈ active_entries (c.device_fd.data (dir_block c inode j)) before → e.1 ≠ name) ∧
        de_inode (c.device_fd.data (dir_block c inode j)) cur ≠ 0 ∧
        de_name (c.device_fd.data (dir_block c inode j)) cur = name ∧
        (∃ offs', Tiles (removed_block (c.device_fd.data (dir_block c inode j))
            before.getLast? cur) 0 offs' ∧
          active_entries (removed_block (c.device_fd.data (dir_block c inode j))
            before.getLast? cur) offs' =
            active_entries (c.device_fd.data (dir_block c inode j)) before ++
              active_entries (c.device_fd.data (dir_block c inode j)) after) ∧
        remove_dir_entry_loop num name remaining c1 inode k =
          (0, set_i_mtime (set_i_ctime inode c.now) c.now, cF) ∧
        cF.device_fd = (c.device_fd.put (dir_block c inode j)
            (removed_block (c.device_fd.data (dir_block c inode j)) before.getLast? cur)).put T
          (blit ((c.device_fd.put (dir_block c inode j)
              (removed_block (c.device_fd.data (dir_block c inode j)) before.getLast? cur)).data T)
            o (set_i_mtime (set_i_ctime inode c.now) c.now) 0 SIMPLEFS_INODE_SIZE) ∧
        cF.sb = c.sb ∧ cF.gdt = c.gdt ∧ cF.now = c.now) := by
  have hB : SIMPLEFS_BLOCK_SIZE = 4096 := rfl
  have hsz := i_size_lt inode
  have hwhole := h.size_whole
  intro remaining
  induction remaining with
  | zero =>
    intro k c1 hs hk
    left
    refine ⟨setErrno c1 ENOENT, rfl, same_fs_setErrno_right hs ENOENT, ?_⟩
    intro j h1 h2
    omega
  | succ rem ih =>
    intro k c1 hs hk
    have hkN : k < i_size inode / SIMPLEFS_BLOCK_SIZE := by omega
    obtain ⟨f1, f2, f3, f4⟩ := map_logical_to_physical_block_frame c1 inode k
    have hm1 : (map_logical_to_physical_block c1 inode k).1 = dir_block c inode k :=
      dir_block_same_device c c1 inode k hs.1
    have hbk := h.backed k hkN
    obtain ⟨offs, ht⟩ := h.tiled k hkN
    rw [remove_dir_entry_loop]
    dsimp only
    generalize map_logical_to_physical_block c1 inode k = m at f1 f2 f3 f4 hm1 ⊢
    obtain ⟨mb, mc⟩ := m
    dsimp only at f1 f2 f3 f4 hm1 ⊢
    subst hm1
    rw [if_neg hbk]
    have hmd : mc.device_fd = c.device_fd := f1.trans hs.1
    have hms : mc.sb = c.sb := f2.trans hs.2.1
    have hmg : mc.gdt = c.gdt := f3.trans hs.2.2.1
    have hmn : mc.now = c.now := f4.trans hs.2.2.2
    have hsm : same_fs c mc := ⟨hmd, hms, hmg, hmn⟩
    rw [hmd, read_block_io c h.io]
    dsimp only
    have hmax : (if add32 (u32 (k * SIMPLEFS_BLOCK_SIZE)) SIMPLEFS_BLOCK_SIZE > i_size inode then
        (if i_size inode % SIMPLEFS_BLOCK_SIZE = 0 ∧ i_size inode > 0
          then SIMPLEFS_BLOCK_SIZE else i_size inode % SIMPLEFS_BLOCK_SIZE)
        else SIMPLEFS_BLOCK_SIZE) = SIMPLEFS_BLOCK_SIZE := by
      have hpos : i_size inode > 0 := by
        rw [hB] at hkN
        omega
      split_ifs <;> first | rfl | (exfalso; simp_all)
    rw [hmax]
    rcases remove_block_spec name _ offs ht with ⟨ha, hb⟩ |
      ⟨before, cur, after, offs', e1, e2, e3, e4, e5, e6, e7, e8⟩
    · rw [ha]
      dsimp only
      rcases ih (k + 1) _ hsm (by omega) with ⟨cF, r1, r2, r3⟩ |
        ⟨j, before, cur, after, cF, r1, r2, r3, r4, r5, r6, r7, r7b, r8, r9⟩
      · left
        refine ⟨cF, r1, r2, ?_⟩
        intro j hj1 hj2 offs2 ht2
        by_cases hjk : j = k
        · subst hjk
          rw [Tiles.unique _ _ _ _ ht2 ht]
          exact hb
        · exact r3 j (by omega) hj2 offs2 ht2
      · right
        refine ⟨j, before, cur, after, cF, by omega, r2, r3, ?_, r5, r6, r7, r7b, r8, r9⟩
        intro j' hj1 hj2 offs2 ht2
        by_cases hjk : j' = k
        · subst hjk
          rw [Tiles.unique _ _ _ _ ht2 ht]
          exact hb
        · exact r4 j' (by omega) hj2 offs2 ht2
    · right
      rw [e5]
      dsimp only
      rw [write_block_of_writable _ _ _ (h.io _).2]
      dsimp only
      have hio2 : io_ok { mc with device_fd := (c.device_fd.put (dir_block c inode k)
            (removed_block (c.device_fd.data (dir_block c inode k)) before.getLast? cur)) } :=
        fun b => h.io b
      have hloc2 : inode_location { mc with device_fd := (c.device_fd.put (dir_block c inode k)
            (removed_block (c.device_fd.data (dir_block c inode k)) before.getLast? cur)) }
          num = .ok (T, o) :=
        inode_location_layout c { mc with device_fd := (c.device_fd.put (dir_block c inode k)
            (removed_block (c.device_fd.data (dir_block c inode k)) before.getLast? cur)) } num
          (same_layout_of_eq c _ rfl rfl hms hmg hmn) _ hloc
      rw [write_inode_to_disk_ok _ num _ T o hio2 hloc2]
      dsimp only
      rw [if_neg (by simp), hmn]
      subst e1
      refine ⟨k, before, cur, after, _, le_refl k, hkN, ht, ?_, e2, e3, e4, ⟨offs', e6, e7⟩,
        rfl, rfl, hms, hmg, rfl⟩
      intro j' hj1 hj2
      omega

theorem dir_block_count_whole (inode : Buf) (h : i_size inode % SIMPLEFS_BLOCK_SIZE = 0) :
    (i_size inode + SIMPLEFS_BLOCK_SIZE - 1) / SIMPLEFS_BLOCK_SIZE =
      i_size inode / SIMPLEFS_BLOCK_SIZE := by
  have hB : SIMPLEFS_BLOCK_SIZE = 4096 := rfl
  rw [hB] at h ⊢
  omega

/-- Enumeration of a block of a directory whose size covers the block, on a
tiled block: the active records of the tiling. -/
theorem dir_block_listing_tiled (c : SimpleFS_Context) (inode : Buf) (k : Nat)
    (hk : (k + 1) * SIMPLEFS_BLOCK_SIZE ≤ i_size inode) (hb : dir_block c inode k ≠ 0)
    (offs : List Nat) (ht : Tiles (c.device_fd.data (dir_block c inode k)) 0 offs) :
    dir_block_listing c inode k = active_entries (c.device_fd.data (dir_block c inode k)) offs := by
  unfold dir_block_listing
  rw [if_neg hb, record_offsets_block _ _ _ offs ht]
  have hB : SIMPLEFS_BLOCK_SIZE = 4096 := rfl
  rw [hB] at hk ⊢
  have : (k + 1) * 4096 = k * 4096 + 4096 := by ring
  omega

theorem dir_ok_block_le (c : SimpleFS_Context) (inode : Buf) (num : Nat) (h : dir_ok c inode num)
    (k : Nat) (hk : k < i_size inode / SIMPLEFS_BLOCK_SIZE) :
    (k + 1) * SIMPLEFS_BLOCK_SIZE ≤ i_size inode := by
  have hB : SIMPLEFS_BLOCK_SIZE = 4096 := rfl
  have := h.size_whole
  rw [hB] at this hk ⊢
  have : (k + 1) * 4096 = k * 4096 + 4096 := by ring
  omega

theorem dir_blocks_lt_max (inode : Buf) (k : Nat) (hk : k ≤ i_size inode / SIMPLEFS_BLOCK_SIZE) :
    k < MAX_LOGICAL_BLOCKS := by
  have := dir_blocks_lt inode
  unfold MAX_LOGICAL_BLOCKS
  omega

/-- A directory stays well formed, with the same blocks, when one of its data
blocks is replaced by a tiled block and its inode, with the same size and
slots, is written back. -/
theorem dir_ok_after_write (c : SimpleFS_Context) (inode : Buf) (num : Nat)
    (h : dir_ok c inode num) (T o : Nat) (hloc : inode_location c num = .ok (T, o))
    (k : Nat) (hk : k < i_size inode / SIMPLEFS_BLOCK_SIZE)
    (blk' X inode' : Buf) (offs' : List Nat) (ht : Tiles blk' 0 offs')
    (hslots : ∀ t, i_block inode' t = i_block inode t) (hsize : i_size inode' = i_size inode)
    (cF : SimpleFS_Context)
    (hdev : cF.device_fd = (c.device_fd.put (dir_block c inode k) blk').put T X)
    (hsb : cF.sb = c.sb) (hgdt : cF.gdt = c.gdt) (hnow : cF.now = c.now) :
    dir_ok cF inode' num ∧
    (∀ j, dir_block cF inode' j = dir_block c inode j) ∧
    cF.device_fd.data (dir_block c inode k) = blk' ∧
    (∀ j, j < i_size inode / SIMPLEFS_BLOCK_SIZE → j ≠ k →
      cF.device_fd.data (dir_block c inode j) = c.device_fd.data (dir_block c inode j)) ∧
    dir_block_listing cF inode' k = active_entries blk' offs' ∧
    (∀ j, j < i_size inode / SIMPLEFS_BLOCK_SIZE → j ≠ k →
      dir_block_listing cF inode' j = dir_block_listing c inode j) := by
  obtain ⟨T0, o0, hloc0, hT0⟩ := h.located
  rw [hloc] at hloc0
  injection hloc0 with hloc0
  injection hloc0 with eT eo
  subst eT
  subst eo
  obtain ⟨w1, w2, w3, w4, w5, w6, w7⟩ := leaf_write_frame c inode num h.io h.distinct T o hloc hT0
    k (dir_blocks_lt_max inode k (by omega)) blk' X inode' hslots cF hdev hsb hgdt hnow
  have hdata : ∀ j, j < i_size inode / SIMPLEFS_BLOCK_SIZE → j ≠ k →
      cF.device_fd.data (dir_block c inode j) = c.device_fd.data (dir_block c inode j) :=
    fun j hj hjk => w4 j (dir_blocks_lt_max inode j (by omega)) hjk (h.backed j hj)
  have hok : dir_ok cF inode' num :=
    { io := w5
      size_whole := by rw [hsize]; exact h.size_whole
      backed := fun j hj => by rw [w2 j]; exact h.backed j (by rw [hsize] at hj; exact hj)
      beyond := fun j hj => by rw [w2 j]; exact h.beyond j (by rw [hsize] at hj; exact hj)
      tiled := fun j hj => by
        rw [hsize] at hj
        rw [w2 j]
        by_cases hjk : j = k
        · subst hjk
          rw [w3]
          exact ⟨offs', ht⟩
        · rw [hdata j hj hjk]
          exact h.tiled j hj
      distinct := fun s idxs s' idxs' p1 p2 hne heq => by
        rw [w1 s idxs p1] at hne heq
        rw [w1 s' idxs' p2] at heq
        exact h.distinct s idxs s' idxs' p1 p2 hne heq
      located := ⟨T, o, w7, fun s idxs p => by rw [w1 s idxs p]; exact hT0 s idxs p⟩ }
  refine ⟨hok, w2, w3, hdata, ?_, ?_⟩
  · have hb : dir_block cF inode' k ≠ 0 := by rw [w2 k]; exact h.backed k hk
    rw [dir_block_listing_tiled cF inode' k
      (by rw [hsize]; exact dir_ok_block_le c inode num h k hk) hb offs'
      (by rw [w2 k, w3]; exact ht), w2 k, w3]
  · intro j hj hjk
    obtain ⟨offs, hto⟩ := h.tiled j hj
    have hb : dir_block cF inode' j ≠ 0 := by rw [w2 j]; exact h.backed j hj
    rw [dir_block_listing_tiled cF inode' j
      (by rw [hsize]; exact dir_ok_block_le c inode num h j hj) hb offs
      (by rw [w2 j, hdata j hj hjk]; exact hto),
      dir_block_listing_tiled c inode j (dir_ok_block_le c inode num h j hj) (h.backed j hj)
        offs hto, w2 j, hdata j hj hjk]

theorem dir_listing_whole (c : SimpleFS_Context) (inode : Buf)
    (h : i_size inode % SIMPLEFS_BLOCK_SIZE = 0) :
    dir_listing c inode =
      (List.range (i_size inode / SIMPLEFS_BLOCK_SIZE)).flatMap (dir_block_listing c inode) := by
  unfold dir_listing
  rw [dir_block_count_whole inode h]

theorem mem_dir_listing (c : SimpleFS_Context) (inode : Buf)
    (h : i_size inode % SIMPLEFS_BLOCK_SIZE = 0) (e : List Nat × Nat) :
    e ∈ dir_listing c inode ↔
      ∃ j, j < i_size inode / SIMPLEFS_BLOCK_SIZE ∧ e ∈ dir_block_listing c inode j := by
  rw [dir_listing_whole c inode h, List.mem_flatMap]
  constructor
  · rintro ⟨j, hj, he⟩
    exact ⟨j, List.mem_range.mp hj, he⟩
  · rintro ⟨j, hj, he⟩
    exact ⟨j, List.mem_range.mpr hj, he⟩

theorem remove_dir_entry_eq_loop (c : SimpleFS_Context) (inode : Buf) (num : Nat)
    (name : List Nat) (hw : i_size inode % SIMPLEFS_BLOCK_SIZE = 0)
    (h1 : name ≠ []) (h2 : name ≠ DOT) (h3 : name ≠ DOTDOT) :
    remove_dir_entry c inode num name =
      remove_dir_entry_loop num name (i_size inode / SIMPLEFS_BLOCK_SIZE) c inode 0 := by
  unfold remove_dir_entry
  rw [if_neg (by simp [h1, h2, h3])]
  dsimp only
  have hB : SIMPLEFS_BLOCK_SIZE = 4096 := rfl
  have hsz := i_size_lt inode
  have : (if i_size inode = 0 then 0
      else u32 (i_size inode + SIMPLEFS_BLOCK_SIZE - 1) / SIMPLEFS_BLOCK_SIZE) =
      i_size inode / SIMPLEFS_BLOCK_SIZE := by
    rw [hB] at hw ⊢
    split_ifs with h0
    · rw [h0]
    · unfold u32
      rw [Nat.mod_eq_of_lt (by omega)]
      omega
  rw [this]

/-- Source function `remove_dir_entry` on a well-formed directory, for a name
other than `""`, `"."` and `".."`: either no active record bears the name and
the call returns `-ENOENT` on an unchanged filesystem, or the first active
record bearing it is removed from its block, the directory stays well formed
with the same blocks, and enumeration loses exactly that record. -/
theorem remove_dir_entry_spec (c : SimpleFS_Context) (inode : Buf) (num : Nat)
    (name : List Nat) (h : dir_ok c inode num)
    (h1 : name ≠ []) (h2 : name ≠ DOT) (h3 : name ≠ DOTDOT) :
    ((∀ e, e ∈ dir_listing c inode → e.1 ≠ name) ∧
      (remove_dir_entry c inode num name).1 = -(ENOENT : Int) ∧
      (remove_dir_entry c inode num name).2.1 = inode ∧
      same_fs c (remove_dir_entry c inode num name).2.2) ∨
    (∃ k before cur after, k < i_size inode / SIMPLEFS_BLOCK_SIZE ∧
      Tiles (c.device_fd.data (dir_block c inode k)) 0 (before ++ cur :: after) ∧
      (∀ j, j < k → ∀ e, e ∈ dir_block_listing c inode j → e.1 ≠ name) ∧
      (∀ e, e ∈ active_entries (c.device_fd.data (dir_block c inode k)) before → e.1 ≠ name) ∧
      de_inode (c.device_fd.data (dir_block c inode k)) cur ≠ 0 ∧
      de_name (c.device_fd.data (dir_block c inode k)) cur = name ∧
      (remove_dir_entry c inode num name).1 = 0 ∧
      dir_ok (remove_dir_entry c inode num name).2.2 (remove_dir_entry c inode num name).2.1 num ∧
      (∀ j, dir_block (remove_dir_entry c inode num name).2.2
        (remove_dir_entry c inode num name).2.1 j = dir_block c inode j) ∧
      i_size (remove_dir_entry c inode num name).2.1 = i_size inode ∧
      (remove_dir_entry c inode num name).2.2.device_fd.data (dir_block c inode k) =
        removed_block (c.device_fd.data (dir_block c inode k)) before.getLast? cur ∧
      (∀ j, j < i_size inode / SIMPLEFS_BLOCK_SIZE → j ≠ k →
        (remove_dir_entry c inode num name).2.2.device_fd.data (dir_block c inode j) =
          c.device_fd.data (dir_block c inode j)) ∧
      List.Perm (dir_listing c inode)
        ((name, de_inode (c.device_fd.data (dir_block c inode k)) cur) ::
          dir_listing (remove_dir_entry c inode num name).2.2
            (remove_dir_entry c inode num name).2.1)) := by
  obtain ⟨T, o, hloc, hT⟩ := h.located
  rw [remove_dir_entry_eq_loop c inode num name h.size_whole h1 h2 h3]
  rcases remove_dir_entry_loop_spec c inode num name h T o hloc
      (i_size inode / SIMPLEFS_BLOCK_SIZE) 0 c (same_fs_refl c) (by omega) with
    ⟨cF, r1, r2, r3⟩ | ⟨k, before, cur, after, cF, r1, r2, r3, r4, r5, r6, r7, ⟨offs', t1, t2⟩,
      r8, r9, r10, r11, r12⟩
  · left
    rw [r1]
    refine ⟨?_, rfl, rfl, r2⟩
    intro e he
    obtain ⟨j, hj, hej⟩ := (mem_dir_listing c inode h.size_whole e).mp he
    obtain ⟨offs, ht⟩ := h.tiled j hj
    rw [dir_block_listing_tiled c inode j (dir_ok_block_le c inode num h j hj) (h.backed j hj)
      offs ht] at hej
    exact r3 j (Nat.zero_le j) hj offs ht e hej
  · right
    rw [r8]
    dsimp only
    obtain ⟨d1, d2, d3, d4, d5, d6⟩ := dir_ok_after_write c inode num h T o hloc k r2
      (removed_block (c.device_fd.data (dir_block c inode k)) before.getLast? cur) _
      (set_i_mtime (set_i_ctime inode c.now) c.now) offs' t1
      (fun t => by rw [i_block_set_i_mtime, i_block_set_i_ctime])
      (by rw [i_size_set_i_mtime, i_size_set_i_ctime]) cF r9 r10 r11 r12
    refine ⟨k, before, cur, after, r2, r3, ?_, r5, r6, r7, rfl, d1, d2,
      by rw [i_size_set_i_mtime, i_size_set_i_ctime], d3, d4, ?_⟩
    · intro j hj e he
      have hjN : j < i_size inode / SIMPLEFS_BLOCK_SIZE := by omega
      obtain ⟨offs, ht⟩ := h.tiled j hjN
      rw [dir_block_listing_tiled c inode j (dir_ok_block_le c inode num h j hjN)
        (h.backed j hjN) offs ht] at he
      exact r4 j (Nat.zero_le j) hj offs ht e he
    · rw [dir_listing_whole c inode h.size_whole, dir_listing_whole cF _ d1.size_whole,
        i_size_set_i_mtime, i_size_set_i_ctime]
      apply perm_flatMap_range _ _ _ _ k r2
      · intro j hj hjk
        exact (d6 j hj hjk).symm
      · rw [d5, t2, dir_block_listing_tiled c inode k (dir_ok_block_le c inode num h k r2)
          (h.backed k r2) _ r3, active_entries_append, active_entries_cons, if_pos r6, r7]
        exact List.perm_middle

theorem ensure_top_indirect_mapped (c : SimpleFS_Context) (inode : Buf) (slot pg : Nat)
    (h : i_block inode slot ≠ 0) : ensure_top_indirect c inode slot pg = .ok (inode, c) := by
  unfold ensure_top_indirect
  rw [if_neg h]

theorem ensure_child_indirect_mapped (c : SimpleFS_Context) (inode : Buf) (p : Nat) (pbuf : Buf)
    (i pg : Nat) (h : ptrAt pbuf i ≠ 0) :
    ensure_child_indirect c inode p pbuf i pg = .ok (inode, pbuf, c) := by
  unfold ensure_child_indirect
  rw [if_neg h]

theorem ensure_dir_leaf_mapped (c : SimpleFS_Context) (inode : Buf) (p : Nat) (pbuf : Buf)
    (i pg : Nat) (h : ptrAt pbuf i ≠ 0) :
    ensure_dir_leaf c inode p pbuf i pg = .ok (ptrAt pbuf i, inode, c) := by
  unfold ensure_dir_leaf
  rw [if_neg h]

/-- Source function `get_or_alloc_dir_block` on a logical block that is mapped,
on a device whose reads succeed: it returns the mapped block and changes
nothing. -/
theorem get_or_alloc_dir_block_mapped (c : SimpleFS_Context) (inode : Buf) (num k : Nat)
    (hio : io_ok c) (hk : k < MAX_LOGICAL_BLOCKS) (hb : dir_block c inode k ≠ 0) :
    get_or_alloc_dir_block c inode num k = (dir_block c inode k, inode, c) := by
  have hior : ∀ b, c.device_fd.readable b = true := fun b => (hio b).1
  rw [dir_block_eq_node c inode k hior hk] at hb ⊢
  unfold MAX_LOGICAL_BLOCKS at hk
  unfold lbn_slot lbn_idxs at hb ⊢
  unfold get_or_alloc_dir_block
  dsimp only
  have hc1 : SIMPLEFS_NUM_DIRECT_BLOCKS + SIMPLEFS_BLOCK_SIZE / 4 = 1036 := rfl
  have hc2 : SIMPLEFS_BLOCK_SIZE / 4 = 1024 := rfl
  have hc0 : SIMPLEFS_NUM_DIRECT_BLOCKS = 12 := rfl
  rw [hc1, hc2, hc0]
  by_cases h1 : k < 12
  · rw [if_pos h1, if_pos h1] at hb
    rw [if_pos h1, if_pos h1, if_pos h1]
    have hb' : i_block inode k ≠ 0 := hb
    rw [if_neg hb']
    rfl
  · rw [if_neg h1, if_neg h1] at hb
    rw [if_neg h1, if_neg h1, if_neg h1]
    by_cases h2 : k < 12 + 1024
    · rw [if_pos h2, if_pos h2] at hb
      rw [if_pos h2, if_pos h2, if_pos (show k < 1036 from by omega)]
      have hs : i_block inode 12 ≠ 0 := tree_node_ne_zero_prefix _ _ 12 [] [k - 12] hb
      have t1 : tree_node c.device_fd.data inode 12 [k - 12] =
          ptrAt (c.device_fd.data (i_block inode 12)) (k - 12) :=
        tree_node_snoc c.device_fd.data inode 12 [] (k - 12) hs
      rw [t1] at hb ⊢
      rw [ensure_top_indirect_mapped c inode 12 _ hs]
      dsimp only
      rw [read_block_io c hio]
      dsimp only
      rw [ensure_dir_leaf_mapped c inode _ _ _ _ hb]
    · rw [if_neg h2, if_neg h2] at hb
      rw [if_neg h2, if_neg h2, if_neg (show ¬ k < 1036 from by omega)]
      by_cases h3 : k < 12 + 1024 + 1024 * 1024
      · rw [if_pos h3, if_pos h3] at hb
        rw [if_pos h3, if_pos h3, if_pos (show k < 1036 + 1024 * 1024 from by omega)]
        have e : k - 12 - 1024 = k - 1036 := by omega
        rw [e] at hb ⊢
        have hn1 : tree_node c.device_fd.data inode 13 [(k - 1036) / 1024] ≠ 0 :=
          tree_node_ne_zero_prefix _ _ 13 [(k - 1036) / 1024] [(k - 1036) % 1024] hb
        have hs : i_block inode 13 ≠ 0 :=
          tree_node_ne_zero_prefix _ _ 13 [] [(k - 1036) / 1024] hn1
        have t1 : tree_node c.device_fd.data inode 13 [(k - 1036) / 1024] =
            ptrAt (c.device_fd.data (i_block inode 13)) ((k - 1036) / 1024) :=
          tree_node_snoc c.device_fd.data inode 13 [] _ hs
        have t2 : tree_node c.device_fd.data inode 13 [(k - 1036) / 1024, (k - 1036) % 1024] =
            ptrAt (c.device_fd.data (tree_node c.device_fd.data inode 13 [(k - 1036) / 1024]))
              ((k - 1036) % 1024) :=
          tree_node_snoc c.device_fd.data inode 13 [_] _ hn1
        rw [t2, t1] at hb ⊢
        rw [t1] at hn1
        rw [ensure_top_indirect_mapped c inode (12 + 1) _ hs]
        dsimp only
        rw [read_block_io c hio]
        dsimp only
        rw [ensure_child_indirect_mapped c inode _ _ _ _ hn1]
        dsimp only
        rw [read_block_io c hio]
        dsimp only
        rw [ensure_dir_leaf_mapped c inode _ _ _ _ hb]
      · rw [if_neg h3, if_neg h3] at hb
        rw [if_neg h3, if_neg h3, if_neg (show ¬ k < 1036 + 1024 * 1024 from by omega),
          if_pos (show k < 1036 + 1024 * 1024 + 1024 * 1024 * 1024 from by omega)]
        have e : k - 12 - 1024 - 1024 * 1024 = k - (1036 + 1024 * 1024) := by omega
        rw [e] at hb ⊢
        have hn2 : tree_node c.device_fd.data inode 14
            [(k - (1036 + 1024 * 1024)) / (1024 * 1024),
             (k - (1036 + 1024 * 1024)) % (1024 * 1024) / 1024] ≠ 0 :=
          tree_node_ne_zero_prefix _ _ 14 [_, _] [_] hb
        have hn1 : tree_node c.device_fd.data inode 14
            [(k - (1036 + 1024 * 1024)) / (1024 * 1024)] ≠ 0 :=
          tree_node_ne_zero_prefix _ _ 14 [_] [_] hn2
        have hs : i_block inode 14 ≠ 0 := tree_node_ne_zero_prefix _ _ 14 [] [_] hn1
        have t1 : tree_node c.device_fd.data inode 14
              [(k - (1036 + 1024 * 1024)) / (1024 * 1024)] =
            ptrAt (c.device_fd.data (i_block inode 14))
              ((k - (1036 + 1024 * 1024)) / (1024 * 1024)) :=
          tree_node_snoc c.device_fd.data inode 14 [] _ hs
        have t2 : tree_node c.device_fd.data inode 14
              [(k - (1036 + 1024 * 1024)) / (1024 * 1024),
               (k - (1036 + 1024 * 1024)) % (1024 * 1024) / 1024] =
            ptrAt (c.device_fd.data (tree_node c.device_fd.data inode 14
                [(k - (1036 + 1024 * 1024)) / (1024 * 1024)]))
              ((k - (1036 + 1024 * 1024)) % (1024 * 1024) / 1024) :=
          tree_node_snoc c.device_fd.data inode 14 [_] _ hn1
        have t3 : tree_node c.device_fd.data inode 14
              [(k - (1036 + 1024 * 1024)) / (1024 * 1024),
               (k - (1036 + 1024 * 1024)) % (1024 * 1024) / 1024,
               (k - (1036 + 1024 * 1024)) % (1024 * 1024) % 1024] =
            ptrAt (c.device_fd.data (tree_node c.device_fd.data inode 14
                [(k - (1036 + 1024 * 1024)) / (1024 * 1024),
                 (k - (1036 + 1024 * 1024)) % (1024 * 1024) / 1024]))
              ((k - (1036 + 1024 * 1024)) % (1024 * 1024) % 1024) :=
          tree_node_snoc c.device_fd.data inode 14 [_, _] _ hn2
        rw [t3, t2, t1] at hb ⊢
        rw [t2, t1] at hn2
        rw [t1] at hn1
        rw [ensure_top_indirect_mapped c inode (12 + 2) _ hs]
        dsimp only
        rw [read_block_io c hio]
        dsimp only
        rw [ensure_child_indirect_mapped c inode _ _ _ _ hn1]
        dsimp only
        rw [read_block_io c hio]
        dsimp only
        rw [ensure_child_indirect_mapped c inode _ _ _ _ hn2]
        dsimp only
        rw [read_block_io c hio]
        dsimp only
        rw [ensure_dir_leaf_mapped c inode _ _ _ _ hb]

/-- The record loop of `add_dir_entry` on a zero block: the new record is
placed at offset 0 and spans the block. -/
theorem add_dir_entry_scan_fresh (name : List Nat) (child ft : Nat)
    (hn : name.length ≤ 255) (hc0 : child ≠ 0) (hc : child < 4294967296) :
    add_dir_entry_scan name child ft SIMPLEFS_BLOCK_SIZE zeroBuf 0 =
      some (fill_dir_entry zeroBuf 0 child name ft SIMPLEFS_BLOCK_SIZE) ∧
    Tiles (fill_dir_entry zeroBuf 0 child name ft SIMPLEFS_BLOCK_SIZE) 0 [0] ∧
    active_entries (fill_dir_entry zeroBuf 0 child name ft SIMPLEFS_BLOCK_SIZE) [0] =
      [(name, child)] := by
  obtain ⟨n1, n2, n3⟩ := calculate_dir_entry_len_bounds name.length hn
  have hB : SIMPLEFS_BLOCK_SIZE = 4096 := rfl
  obtain ⟨g1, g2, g3, g4, g5⟩ := fill_dir_entry_spec zeroBuf 0 child name ft
    SIMPLEFS_BLOCK_SIZE hn hc (by rw [hB]; norm_num)
  refine ⟨?_, ?_, ?_⟩
  · have h1 : add_dir_entry_scan name child ft (4095 + 1) zeroBuf 0 =
        some (fill_dir_entry zeroBuf 0 child name ft SIMPLEFS_BLOCK_SIZE) := by
      rw [add_dir_entry_scan]
      dsimp only
      have hz : de_rec_len zeroBuf 0 = 0 := getLE_zeroBuf _ _
      rw [if_neg (by rw [hB]; norm_num), if_pos hz, if_pos ⟨rfl, by rw [hB]; omega⟩]
      rfl
    exact h1
  · apply Tiles.intro_len _ 0 SIMPLEFS_BLOCK_SIZE [] g2 (by rw [hB]; norm_num)
      (by rw [hB]) (by rw [g3, hB]; omega) (by omega)
    rw [Nat.zero_add]
    exact Tiles.done
  · rw [active_entries_cons, g1, if_pos hc0, g4]
    rfl

theorem neg_errno_ne_zero (e : Nat) (h : e ≠ 0) : -(e : Int) ≠ 0 := by
  intro h0
  apply h
  omega

/-- The block loop of `add_dir_entry` on a well-formed directory in a sound
allocation state, from block `k`: it fails, or it places the record in the
first backed block from `k` on whose scan finds room, or no backed block has
room and it places the record at offset 0 of the block that
`get_or_alloc_dir_block` hands out for the first unbacked index. -/
theorem add_dir_entry_loop_spec (c : SimpleFS_Context) (inode : Buf) (num : Nat)
    (name : List Nat) (child ft : Nat) (h : dir_ok c inode num)
    (ha : tree_ok c inode (fs_reserved c num))
    (hn : name.length ≤ 255) (hc0 : child ≠ 0) (hc : child < 4294967296) (T o : Nat)
    (hloc : inode_location c num = .ok (T, o)) :
    ∀ (remaining k : Nat), k ≤ i_size inode / SIMPLEFS_BLOCK_SIZE →
      i_size inode / SIMPLEFS_BLOCK_SIZE < k + remaining →
      (add_dir_entry_loop num name child ft remaining c inode k).1 ≠ 0 ∨
      (∃ j blk' offs offs' X cF, k ≤ j ∧ j < i_size inode / SIMPLEFS_BLOCK_SIZE ∧
        Tiles (c.device_fd.data (dir_block c inode j)) 0 offs ∧ Tiles blk' 0 offs' ∧
        List.Perm (active_entries blk' offs')
          ((name, child) :: active_entries (c.device_fd.data (dir_block c inode j)) offs) ∧
        add_dir_entry_loop num name child ft remaining c inode k =
          (0, set_i_mtime (set_i_ctime inode c.now) c.now, cF) ∧
        cF.device_fd = (c.device_fd.put (dir_block c inode j) blk').put T X ∧
        cF.sb = c.sb ∧ cF.gdt = c.gdt ∧ cF.now = c.now) ∨
      (∃ b inode_g c_g X cF,
        get_or_alloc_dir_block c inode num (i_size inode / SIMPLEFS_BLOCK_SIZE) =
          (b, inode_g, c_g) ∧ b ≠ 0 ∧
        add_dir_entry_loop num name child ft remaining c inode k =
          (0, add_dir_entry_inode inode_g (i_size inode / SIMPLEFS_BLOCK_SIZE) c.now, cF) ∧
        cF.device_fd = (c_g.device_fd.put b
          (fill_dir_entry zeroBuf 0 child name ft SIMPLEFS_BLOCK_SIZE)).put T X ∧
        cF.sb = c_g.sb ∧ cF.gdt = c_g.gdt ∧ cF.now = c.now) := by
  have hB : SIMPLEFS_BLOCK_SIZE = 4096 := rfl
  have hsz := i_size_lt inode
  have hwhole := h.size_whole
  have hior : ∀ b, c.device_fd.readable b = true := fun b => (h.io b).1
  intro remaining
  induction remaining with
  | zero =>
    intro k h1 h2
    omega
  | succ rem ih =>
    intro k hk1 hk2
    by_cases hkN : k < i_size inode / SIMPLEFS_BLOCK_SIZE
    · -- a backed block
      have hbk := h.backed k hkN
      obtain ⟨offs, ht⟩ := h.tiled k hkN
      have hmap := get_or_alloc_dir_block_mapped c inode num k h.io
        (dir_blocks_lt_max inode k (by omega)) hbk
      rw [add_dir_entry_loop]
      dsimp only
      rw [hmap]
      dsimp only
      rw [if_neg hbk, read_block_io c h.io]
      dsimp only
      cases hscan : add_dir_entry_scan name child ft SIMPLEFS_BLOCK_SIZE
          (c.device_fd.data (dir_block c inode k)) 0 with
      | none =>
        dsimp only
        rcases ih (k + 1) (by omega) (by omega) with r | ⟨j, blk', offs, offs', X, cF, r1, r⟩ | r
        · left; exact r
        · right; left
          exact ⟨j, blk', offs, offs', X, cF, by omega, r⟩
        · right; right; exact r
      | some blk' =>
        dsimp only
        obtain ⟨offs', t1, _, _, t4⟩ := add_dir_entry_scan_spec name child ft hn hc0 hc
          SIMPLEFS_BLOCK_SIZE _ 0 offs blk' ht hscan
        rw [write_block_of_writable _ _ _ (h.io _).2]
        dsimp only
        have hle := dir_ok_block_le c inode num h k hkN
        have hnl : ¬ i_size inode < u32 ((k + 1) * SIMPLEFS_BLOCK_SIZE) := by
          unfold u32
          rw [Nat.mod_eq_of_lt (by omega)]
          omega
        rw [if_neg hnl]
        have hio2 : io_ok { c with device_fd := (c.device_fd.put (dir_block c inode k) blk') } :=
          fun b => h.io b
        have hloc2 : inode_location
            { c with device_fd := (c.device_fd.put (dir_block c inode k) blk') } num =
              .ok (T, o) :=
          inode_location_layout c
            { c with device_fd := (c.device_fd.put (dir_block c inode k) blk') } num
            (same_layout_of_eq c _ rfl rfl rfl rfl rfl) _ hloc
        rw [write_inode_to_disk_ok _ num _ T o hio2 hloc2]
        dsimp only
        rw [if_neg (by simp)]
        right; left
        exact ⟨k, blk', offs, offs', _, _, le_refl k, hkN, ht, t1, t4, rfl, rfl, rfl, rfl, rfl⟩
    · -- the first unbacked index
      have hkeq : k = i_size inode / SIMPLEFS_BLOCK_SIZE := by omega
      subst hkeq
      rw [add_dir_entry_loop]
      dsimp only
      cases hg : get_or_alloc_dir_block c inode num (i_size inode / SIMPLEFS_BLOCK_SIZE) with
      | mk b r =>
        obtain ⟨inode_g, c_g⟩ := r
        dsimp only
        by_cases hb : b = 0
        · left
          rw [if_pos hb]
          dsimp only
          by_cases he : c_g.errno = 0
          · rw [if_pos he]
            exact neg_errno_ne_zero ENOSPC (by decide)
          · rw [if_neg he]
            exact neg_errno_ne_zero _ he
        · right; right
          rw [if_neg hb]
          have hmax := dir_blocks_lt_max inode (i_size inode / SIMPLEFS_BLOCK_SIZE) (le_refl _)
          obtain ⟨g1, g2, g3, g4⟩ := get_or_alloc_dir_block_spec c inode (fs_reserved c num) num
            _ ha hmax b inode_g c_g hg hb
          have hun : tree_node c.device_fd.data inode
              (lbn_slot (i_size inode / SIMPLEFS_BLOCK_SIZE))
              (lbn_idxs (i_size inode / SIMPLEFS_BLOCK_SIZE)) = 0 := by
            rw [← dir_block_eq_node c inode _ hior hmax]
            exact h.beyond _ (le_refl _)
          have hzero := g4 hun
          rw [read_block_io c_g g1.ok.io, hzero]
          dsimp only
          rw [(add_dir_entry_scan_fresh name child ft hn hc0 hc).1]
          dsimp only
          rw [write_block_of_writable _ _ _ (g1.ok.io _).2]
          dsimp only
          have hnow : c_g.now = c.now := g1.layout.2.2.2.2.2.2.2.2
          have hio2 : io_ok { c_g with device_fd := (c_g.device_fd.put b
              (fill_dir_entry zeroBuf 0 child name ft SIMPLEFS_BLOCK_SIZE)) } :=
            fun x => g1.ok.io x
          have hloc2 : inode_location { c_g with device_fd := (c_g.device_fd.put b
              (fill_dir_entry zeroBuf 0 child name ft SIMPLEFS_BLOCK_SIZE)) } num = .ok (T, o) :=
            inode_location_layout c_g { c_g with device_fd := (c_g.device_fd.put b
              (fill_dir_entry zeroBuf 0 child name ft SIMPLEFS_BLOCK_SIZE)) } num
              (same_layout_of_eq c_g _ rfl rfl rfl rfl rfl) _
              (inode_location_layout c c_g num g1.layout _ hloc)
          rw [write_inode_to_disk_ok _ num _ T o hio2 hloc2]
          dsimp only
          rw [if_neg (by simp), hnow]
          exact ⟨b, inode_g, c_g, _, _, rfl, hb, rfl, rfl, rfl, rfl, rfl⟩

theorem i_block_add_dir_entry_inode (inode : Buf) (k now t : Nat) :
    i_block (add_dir_entry_inode inode k now) t = i_block inode t := by
  unfold add_dir_entry_inode
  rw [i_block_set_i_mtime, i_block_set_i_ctime]
  split_ifs
  · rw [i_block_set_i_size]
  · rfl

theorem i_size_add_dir_entry_inode (inode : Buf) (k now : Nat) :
    i_size (add_dir_entry_inode inode k now) =
      if i_size inode < u32 ((k + 1) * SIMPLEFS_BLOCK_SIZE) then
        u32 ((k + 1) * SIMPLEFS_BLOCK_SIZE)
      else i_size inode := by
  unfold add_dir_entry_inode
  rw [i_size_set_i_mtime, i_size_set_i_ctime]
  split_ifs
  · rw [i_size_set_i_size]
    unfold u32
    exact Nat.mod_lt _ (by norm_num)
  · rfl

theorem add_dir_entry_eq_loop (c : SimpleFS_Context) (inode : Buf) (num : Nat)
    (name : List Nat) (child ft : Nat) (hn : name.length ≤ 255) :
    add_dir_entry c inode num name child ft =
      add_dir_entry_loop num name child ft MAX_LOGICAL_BLOCKS c inode 0 := by
  unfold add_dir_entry
  rw [if_neg (by unfold SIMPLEFS_MAX_FILENAME_LEN; omega)]
  rfl

theorem lbn_leaf_off_path (j k : Nat) (hj : j < MAX_LOGICAL_BLOCKS) (hk : k < MAX_LOGICAL_BLOCKS)
    (hjk : j ≠ k) : ¬ (lbn_slot j = lbn_slot k ∧ lbn_idxs j <+: lbn_idxs k) := by
  intro ⟨h1, h2⟩
  have l1 := (lbn_path_ok j hj).2
  have l2 := (lbn_path_ok k hk).2
  rw [h1, ← l2] at l1
  exact hjk (lbn_path_inj j k hj hk h1 (List.IsPrefix.eq_of_length h2 l1))

theorem lbn_leaf_not_inner (data : Nat → Buf) (inode : Buf) (hd : tree_distinct data inode)
    (j : Nat) (hj : j < MAX_LOGICAL_BLOCKS)
    (hb : tree_node data inode (lbn_slot j) (lbn_idxs j) ≠ 0) :
    ∀ s idxs, tree_path_ok s idxs → idxs.length < tree_depth s →
      tree_node data inode s idxs ≠ tree_node data inode (lbn_slot j) (lbn_idxs j) := by
  intro s idxs hp hlen heq
  obtain ⟨p1, p2⟩ := lbn_path_ok j hj
  obtain ⟨e1, e2⟩ := hd _ _ _ _ p1 hp hb heq.symm
  rw [← e1, ← e2, p2] at hlen
  omega

/-- Source function `add_dir_entry` on a well-formed directory in a sound
allocation state: a successful call places the record in one logical block `k`,
backed before or the first unbacked one; the other blocks of the directory keep
their place and content, block `k` is tiled and holds its former active records
and the new one, and the size is raised by the 32-bit assignment of the code. -/
theorem add_dir_entry_spec (c : SimpleFS_Context) (inode : Buf) (num : Nat)
    (name : List Nat) (child ft : Nat) (h : dir_ok c inode num)
    (ha : tree_ok c inode (fs_reserved c num))
    (hn : name.length ≤ 255) (hc0 : child ≠ 0) (hc : child < 4294967296)
    (hret : (add_dir_entry c inode num name child ft).1 = 0) :
    ∃ k, k ≤ i_size inode / SIMPLEFS_BLOCK_SIZE ∧
      (∀ j, j ≠ k → dir_block (add_dir_entry c inode num name child ft).2.2
        (add_dir_entry c inode num name child ft).2.1 j = dir_block c inode j) ∧
      dir_block (add_dir_entry c inode num name child ft).2.2
        (add_dir_entry c inode num name child ft).2.1 k ≠ 0 ∧
      (k < i_size inode / SIMPLEFS_BLOCK_SIZE →
        dir_block (add_dir_entry c inode num name child ft).2.2
          (add_dir_entry c inode num name child ft).2.1 k = dir_block c inode k) ∧
      (∀ j, j < i_size inode / SIMPLEFS_BLOCK_SIZE → j ≠ k →
        (add_dir_entry c inode num name child ft).2.2.device_fd.data (dir_block c inode j) =
          c.device_fd.data (dir_block c inode j)) ∧
      (∃ offs', Tiles ((add_dir_entry c inode num name child ft).2.2.device_fd.data
          (dir_block (add_dir_entry c inode num name child ft).2.2
            (add_dir_entry c inode num name child ft).2.1 k)) 0 offs' ∧
        List.Perm (active_entries ((add_dir_entry c inode num name child ft).2.2.device_fd.data
          (dir_block (add_dir_entry c inode num name child ft).2.2
            (add_dir_entry c inode num name child ft).2.1 k)) offs')
          ((name, child) ::
            (if k < i_size inode / SIMPLEFS_BLOCK_SIZE then dir_block_listing c inode k
              else []))) ∧
      i_size (add_dir_entry c inode num name child ft).2.1 =
        (if i_size inode < u32 ((k + 1) * SIMPLEFS_BLOCK_SIZE) then
          u32 ((k + 1) * SIMPLEFS_BLOCK_SIZE)
        else i_size inode) ∧
      io_ok (add_dir_entry c inode num name child ft).2.2 ∧
      tree_distinct (add_dir_entry c inode num name child ft).2.2.device_fd.data
        (add_dir_entry c inode num name child ft).2.1 ∧
      (∃ T o, inode_location (add_dir_entry c inode num name child ft).2.2 num = .ok (T, o) ∧
        ∀ s idxs, tree_path_ok s idxs →
          tree_node (add_dir_entry c inode num name child ft).2.2.device_fd.data
            (add_dir_entry c inode num name child ft).2.1 s idxs ≠ T) := by
  have hB : SIMPLEFS_BLOCK_SIZE = 4096 := rfl
  have hsz := i_size_lt inode
  have hior : ∀ b, c.device_fd.readable b = true := fun b => (h.io b).1
  obtain ⟨T, o, hloc, hT⟩ := h.located
  have hNmax := dir_blocks_lt_max inode (i_size inode / SIMPLEFS_BLOCK_SIZE) (le_refl _)
  rw [add_dir_entry_eq_loop c inode num name child ft hn] at hret ⊢
  rcases add_dir_entry_loop_spec c inode num name child ft h ha hn hc0 hc T o hloc
      MAX_LOGICAL_BLOCKS 0 (Nat.zero_le _) (by omega) with
    r | ⟨j, blk', offs, offs', X, cF, _, r2, r3, r4, r5, r6, r7, r8, r9, r10⟩ |
      ⟨b, inode_g, c_g, X, cF, r1, r2, r3, r4, r5, r6, r7⟩
  · exact absurd hret r
  · -- the record went into a backed block
    rw [r6]
    dsimp only
    have hs1 : i_size (set_i_mtime (set_i_ctime inode c.now) c.now) = i_size inode := by
      rw [i_size_set_i_mtime, i_size_set_i_ctime]
    obtain ⟨d1, d2, d3, d4, d5, d6⟩ := dir_ok_after_write c inode num h T o hloc j r2
      blk' X (set_i_mtime (set_i_ctime inode c.now) c.now) offs' r4
      (fun t => by rw [i_block_set_i_mtime, i_block_set_i_ctime]) hs1 cF r7 r8 r9 r10
    have hle := dir_ok_block_le c inode num h j r2
    refine ⟨j, by omega, fun i _ => d2 i, by rw [d2 j]; exact h.backed j r2, fun _ => d2 j,
      d4, ⟨offs', by rw [d2 j, d3]; exact r4, ?_⟩, ?_, d1.io, d1.distinct, d1.located⟩
    · rw [d2 j, d3, if_pos r2,
        dir_block_listing_tiled c inode j hle (h.backed j r2) offs r3]
      exact r5
    · rw [hs1, if_neg]
      unfold u32
      rw [Nat.mod_eq_of_lt (by omega)]
      omega
  · -- the record went into a new block
    rw [r3]
    dsimp only
    obtain ⟨g1, g2, g3, g4⟩ := get_or_alloc_dir_block_spec c inode (fs_reserved c num) num
      _ ha hNmax b inode_g c_g r1 r2
    have hun : tree_node c.device_fd.data inode
        (lbn_slot (i_size inode / SIMPLEFS_BLOCK_SIZE))
        (lbn_idxs (i_size inode / SIMPLEFS_BLOCK_SIZE)) = 0 := by
      rw [← dir_block_eq_node c inode _ hior hNmax]
      exact h.beyond _ (le_refl _)
    have hT0 : T ≠ 0 := by
      intro h0
      have := hT _ _ (lbn_path_ok _ hNmax).1
      rw [hun, h0] at this
      exact this rfl
    have hRT : fs_reserved c num T := Or.inr ⟨o, hloc⟩
    have hTg : ∀ s idxs, tree_path_ok s idxs →
        tree_node c_g.device_fd.data inode_g s idxs ≠ T := by
      intro s idxs hp heq
      have hne : tree_node c_g.device_fd.data inode_g s idxs ≠ 0 := by rw [heq]; exact hT0
      exact (g1.ok.nodes s idxs hp hne).2.2 (heq ▸ hRT)
    have hiorg : ∀ x, c_g.device_fd.readable x = true := fun x => (g1.ok.io x).1
    have hbg : dir_block c_g inode_g (i_size inode / SIMPLEFS_BLOCK_SIZE) = b := by
      rw [dir_block_eq_node c_g inode_g _ hiorg hNmax]
      exact g2.symm
    have hlocg := inode_location_layout c c_g num g1.layout _ hloc
    obtain ⟨w1, w2, w3, w4, w5, w6, w7⟩ := leaf_write_frame c_g inode_g num g1.ok.io
      g1.ok.distinct T o hlocg hTg (i_size inode / SIMPLEFS_BLOCK_SIZE) hNmax
      (fill_dir_entry zeroBuf 0 child name ft SIMPLEFS_BLOCK_SIZE) X
      (add_dir_entry_inode inode_g (i_size inode / SIMPLEFS_BLOCK_SIZE) c.now)
      (fun t => i_block_add_dir_entry_inode inode_g _ _ t) cF
      (by rw [hbg]; exact r4) r5 r6 (by rw [r7]; exact g1.layout.2.2.2.2.2.2.2.2.symm)
    rw [hbg] at w3
    have hother : ∀ i, i ≠ i_size inode / SIMPLEFS_BLOCK_SIZE →
        dir_block c_g inode_g i = dir_block c inode i := by
      intro i hi
      by_cases him : i < MAX_LOGICAL_BLOCKS
      · rw [dir_block_eq_node c_g inode_g i hiorg him, dir_block_eq_node c inode i hior him]
        exact g1.off_path _ _ (lbn_path_ok i him).1 (lbn_leaf_off_path i _ him hNmax hi)
      · rw [dir_block_beyond c_g inode_g i hiorg (by omega),
          dir_block_beyond c inode i hior (by omega)]
    obtain ⟨f1, f2, f3⟩ := add_dir_entry_scan_fresh name child ft hn hc0 hc
    refine ⟨i_size inode / SIMPLEFS_BLOCK_SIZE, le_refl _, ?_, ?_, fun hlt => absurd hlt (by omega),
      ?_, ⟨[0], ?_, ?_⟩, ?_, w5, ?_, ⟨T, o, w7, ?_⟩⟩
    · intro i hi
      rw [w2 i, hother i hi]
    · rw [w2, hbg]
      exact r2
    · intro i hi hik
      have hbi := h.backed i hi
      have him := dir_blocks_lt_max inode i (by omega)
      have hbn := dir_block_eq_node c inode i hior him
      have hgi : dir_block c_g inode_g i = dir_block c inode i := hother i hik
      have := w4 i him hik (by rw [hgi]; exact hbi)
      rw [hgi] at this
      rw [this]
      rw [hbn] at hbi ⊢
      obtain ⟨n1, n2, n3⟩ := ha.nodes _ _ (lbn_path_ok i him).1 hbi
      exact g1.data_keep _ n1 n2 n3 (lbn_leaf_not_inner _ _ ha.distinct i him hbi)
    · rw [w2, hbg, w3]
      exact f2
    · rw [w2, hbg, w3, if_neg (by omega), f3]
    · rw [i_size_add_dir_entry_inode, g1.size]
    · intro s idxs s' idxs' p1 p2 hne heq
      rw [w1 s idxs p1] at hne heq
      rw [w1 s' idxs' p2] at heq
      exact g1.ok.distinct s idxs s' idxs' p1 p2 hne heq
    · intro s idxs p
      rw [w1 s idxs p]
      exact hTg s idxs p

theorem dir_ok_tiled (c : SimpleFS_Context) (inode : Buf) (num : Nat) (h : dir_ok c inode num) :
    dir_tiled c inode := by
  intro k hk
  by_cases hkN : k < i_size inode / SIMPLEFS_BLOCK_SIZE
  · exact h.tiled k hkN
  · exact absurd (h.beyond k (by omega)) hk

/-- After a successful `add_dir_entry` every backed block of the directory is
tiled. -/
theorem add_dir_entry_tiled (c : SimpleFS_Context) (inode : Buf) (num : Nat)
    (name : List Nat) (child ft : Nat) (h : dir_ok c inode num)
    (ha : tree_ok c inode (fs_reserved c num))
    (hn : name.length ≤ 255) (hc0 : child ≠ 0) (hc : child < 4294967296)
    (hret : (add_dir_entry c inode num name child ft).1 = 0) :
    dir_tiled (add_dir_entry c inode num name child ft).2.2
      (add_dir_entry c inode num name child ft).2.1 := by
  obtain ⟨k, p0, p1, p2, p2b, p3, ⟨offs', p4, _⟩, _, _, _, _⟩ :=
    add_dir_entry_spec c inode num name child ft h ha hn hc0 hc hret
  intro j hj
  by_cases hjk : j = k
  · subst hjk
    exact ⟨offs', p4⟩
  · rw [p1 j hjk] at hj ⊢
    have hjN : j < i_size inode / SIMPLEFS_BLOCK_SIZE := by
      by_contra hcon
      exact hj (h.beyond j (by omega))
    rw [p3 j hjN hjk]
    exact h.tiled j hjN

/-- A successful `add_dir_entry` seen through enumeration. The record goes into
a logical block `k`. When `(k + 1) * 4096` is below `2^32` the directory stays
well formed, enumeration yields the former pairs and the new one, and the size
covers block `k`. When `(k + 1) * 4096` reaches `2^32` the 32-bit size
assignment wraps: the size stays below `(k + 1) * 4096` and enumeration yields
the former pairs only. -/
theorem add_dir_entry_listing (c : SimpleFS_Context) (inode : Buf) (num : Nat)
    (name : List Nat) (child ft : Nat) (h : dir_ok c inode num)
    (ha : tree_ok c inode (fs_reserved c num))
    (hn : name.length ≤ 255) (hc0 : child ≠ 0) (hc : child < 4294967296)
    (hret : (add_dir_entry c inode num name child ft).1 = 0) :
    ∃ k, k ≤ i_size inode / SIMPLEFS_BLOCK_SIZE ∧
      dir_block (add_dir_entry c inode num name child ft).2.2
        (add_dir_entry c inode num name child ft).2.1 k ≠ 0 ∧
      (∃ offs, Tiles ((add_dir_entry c inode num name child ft).2.2.device_fd.data
          (dir_block (add_dir_entry c inode num name child ft).2.2
            (add_dir_entry c inode num name child ft).2.1 k)) 0 offs ∧
        (name, child) ∈ active_entries
          ((add_dir_entry c inode num name child ft).2.2.device_fd.data
            (dir_block (add_dir_entry c inode num name child ft).2.2
              (add_dir_entry c inode num name child ft).2.1 k)) offs) ∧
      ((k + 1) * SIMPLEFS_BLOCK_SIZE < 4294967296 →
        dir_ok (add_dir_entry c inode num name child ft).2.2
          (add_dir_entry c inode num name child ft).2.1 num ∧
        List.Perm (dir_listing (add_dir_entry c inode num name child ft).2.2
            (add_dir_entry c inode num name child ft).2.1)
          ((name, child) :: dir_listing c inode) ∧
        (k + 1) * SIMPLEFS_BLOCK_SIZE ≤ i_size (add_dir_entry c inode num name child ft).2.1) ∧
      (4294967296 ≤ (k + 1) * SIMPLEFS_BLOCK_SIZE →
        i_size (add_dir_entry c inode num name child ft).2.1 = i_size inode ∧
        i_size (add_dir_entry c inode num name child ft).2.1 < (k + 1) * SIMPLEFS_BLOCK_SIZE ∧
        dir_listing (add_dir_entry c inode num name child ft).2.2
          (add_dir_entry c inode num name child ft).2.1 = dir_listing c inode) := by
  have hB : SIMPLEFS_BLOCK_SIZE = 4096 := rfl
  have hsz := i_size_lt inode
  have hw := h.size_whole
  obtain ⟨k, p0, p1, p2, p2b, p3, ⟨offs', p4, p5⟩, p6, p7, p8, p9⟩ :=
    add_dir_entry_spec c inode num name child ft h ha hn hc0 hc hret
  generalize add_dir_entry c inode num name child ft = r at *
  obtain ⟨rc, inode', c'⟩ := r
  dsimp only at *
  have hk1 : (k + 1) * 4096 = k * 4096 + 4096 := by ring
  -- the blocks below the old size, seen in the new state
  have hold : ∀ j, j < i_size inode / SIMPLEFS_BLOCK_SIZE → j ≠ k →
      (j + 1) * SIMPLEFS_BLOCK_SIZE ≤ i_size inode' →
      dir_block_listing c' inode' j = dir_block_listing c inode j := by
    intro j hj hjk hle
    obtain ⟨offs, hto⟩ := h.tiled j hj
    have hb : dir_block c' inode' j ≠ 0 := by rw [p1 j hjk]; exact h.backed j hj
    rw [dir_block_listing_tiled c' inode' j hle hb offs (by rw [p1 j hjk, p3 j hj hjk]; exact hto),
      dir_block_listing_tiled c inode j (dir_ok_block_le c inode num h j hj) (h.backed j hj)
        offs hto, p1 j hjk, p3 j hj hjk]
  refine ⟨k, p0, p2, ⟨offs', p4, ?_⟩, ?_, ?_⟩
  · exact (List.Perm.mem_iff p5).mpr (List.mem_cons_self _ _)
  · intro hcap
    have hu : u32 ((k + 1) * SIMPLEFS_BLOCK_SIZE) = (k + 1) * SIMPLEFS_BLOCK_SIZE := by
      unfold u32
      exact Nat.mod_eq_of_lt hcap
    rw [hu] at p6
    by_cases hkN : k < i_size inode / SIMPLEFS_BLOCK_SIZE
    · -- a backed block: the size stays
      have hle := dir_ok_block_le c inode num h k hkN
      rw [if_neg (by omega)] at p6
      have hok : dir_ok c' inode' num :=
        { io := p7
          size_whole := by rw [p6]; exact hw
          backed := fun j hj => by
            rw [p6] at hj
            by_cases hjk : j = k
            · rw [hjk]; exact p2
            · rw [p1 j hjk]; exact h.backed j hj
          beyond := fun j hj => by
            rw [p6] at hj
            rw [p1 j (by omega)]
            exact h.beyond j hj
          tiled := fun j hj => by
            rw [p6] at hj
            by_cases hjk : j = k
            · rw [hjk]; exact ⟨offs', p4⟩
            · rw [p1 j hjk, p3 j hj hjk]; exact h.tiled j hj
          distinct := p8
          located := p9 }
      refine ⟨hok, ?_, by rw [p6]; exact hle⟩
      rw [dir_listing_whole c' inode' hok.size_whole, dir_listing_whole c inode hw, p6]
      apply perm_flatMap_range _ _ _ _ k hkN
      · intro j hj hjk
        exact hold j hj hjk (by rw [p6]; exact dir_ok_block_le c inode num h j hj)
      · rw [dir_block_listing_tiled c' inode' k (by rw [p6]; exact hle) p2 offs' p4]
        rw [if_pos hkN] at p5
        exact p5
    · -- the first unbacked index: the size grows by one block
      have hkeq : k = i_size inode / SIMPLEFS_BLOCK_SIZE := by omega
      have hlt : i_size inode < (k + 1) * SIMPLEFS_BLOCK_SIZE := by
        rw [hB] at hkeq hw ⊢
        omega
      rw [if_pos hlt] at p6
      have hN' : i_size inode' / SIMPLEFS_BLOCK_SIZE = k + 1 := by
        rw [p6, hB]
        omega
      have hok : dir_ok c' inode' num :=
        { io := p7
          size_whole := by rw [p6, hB]; omega
          backed := fun j hj => by
            rw [hN'] at hj
            by_cases hjk : j = k
            · rw [hjk]; exact p2
            · rw [p1 j hjk]; exact h.backed j (by omega)
          beyond := fun j hj => by
            rw [hN'] at hj
            rw [p1 j (by omega)]
            exact h.beyond j (by omega)
          tiled := fun j hj => by
            rw [hN'] at hj
            by_cases hjk : j = k
            · rw [hjk]; exact ⟨offs', p4⟩
            · rw [p1 j hjk, p3 j (by omega) hjk]; exact h.tiled j (by omega)
          distinct := p8
          located := p9 }
      refine ⟨hok, ?_, by rw [p6]⟩
      rw [dir_listing_whole c' inode' hok.size_whole, dir_listing_whole c inode hw, hN',
        List.range_succ, List.flatMap_append]
      simp only [List.flatMap_cons, List.flatMap_nil, List.append_nil]
      have e1 : (List.range k).flatMap (dir_block_listing c' inode') =
          (List.range (i_size inode / SIMPLEFS_BLOCK_SIZE)).flatMap (dir_block_listing c inode) := by
        rw [← hkeq]
        apply List.flatMap_congr
        intro j hj
        rw [List.mem_range] at hj
        apply hold j (by omega) (by omega)
        rw [p6, hB]
        have : (j + 1) * 4096 = j * 4096 + 4096 := by ring
        omega
      rw [e1, dir_block_listing_tiled c' inode' k (by rw [p6]) p2 offs' p4]
      rw [if_neg hkN] at p5
      have : List.Perm (active_entries (c'.device_fd.data (dir_block c' inode' k)) offs')
          [(name, child)] := p5
      exact (List.Perm.append_left _ this).trans (List.perm_append_singleton _ _)
  · intro hcap
    have hkeq : k = i_size inode / SIMPLEFS_BLOCK_SIZE := by
      rw [hB] at p0 hcap ⊢
      omega
    have hk20 : (k + 1) * SIMPLEFS_BLOCK_SIZE = 4294967296 := by
      rw [hB] at hkeq hcap ⊢
      omega
    have hu : u32 ((k + 1) * SIMPLEFS_BLOCK_SIZE) = 0 := by
      rw [hk20]
      rfl
    rw [hu, if_neg (by omega)] at p6
    refine ⟨p6, by rw [p6, hk20]; exact hsz, ?_⟩
    rw [dir_listing_whole c' inode' (by rw [p6]; exact hw), dir_listing_whole c inode hw, p6]
    apply List.flatMap_congr
    intro j hj
    rw [List.mem_range] at hj
    exact hold j hj (by omega) (by rw [p6]; exact dir_ok_block_le c inode num h j hj)

theorem tiles_of_check (blk : Buf) : ∀ (offs : List Nat) (off : Nat),
    tiles_check blk off offs = true → Tiles blk off offs := by
  intro offs
  induction offs with
  | nil =>
    intro off h
    unfold tiles_check at h
    rw [decide_eq_true_eq] at h
    rw [h]
    exact Tiles.done
  | cons o rest ih =>
    intro off h
    unfold tiles_check at h
    rw [Bool.and_eq_true, decide_eq_true_eq] at h
    obtain ⟨⟨e, h1, h2, h3, h4⟩, ht⟩ := h
    subst e
    exact Tiles.step o rest h1 h2 h3 h4 (ih _ ht)

/-- The tree of an inode whose only non-zero slot is slot 0 has one block. -/
theorem one_block_tree (data : Nat → Buf) (inode : Buf)
    (hrest : ∀ s, s < 15 → s ≠ 0 → i_block inode s = 0) :
    ∀ s idxs, tree_path_ok s idxs → tree_node data inode s idxs ≠ 0 → s = 0 ∧ idxs = [] := by
  intro s idxs hp hne
  by_cases hs : s = 0
  · subst hs
    refine ⟨rfl, ?_⟩
    have := hp.2.1
    unfold tree_depth at this
    exact List.eq_nil_of_length_eq_zero (by omega)
  · exfalso
    apply hne
    unfold tree_node
    rw [hrest s hp.1 hs, walk_tree_zero]

theorem one_block_distinct (data : Nat → Buf) (inode : Buf)
    (hrest : ∀ s, s < 15 → s ≠ 0 → i_block inode s = 0) : tree_distinct data inode := by
  intro s idxs s' idxs' p1 p2 hne heq
  obtain ⟨e1, e2⟩ := one_block_tree data inode hrest s idxs p1 hne
  obtain ⟨e3, e4⟩ := one_block_tree data inode hrest s' idxs' p2 (by rw [← heq]; exact hne)
  exact ⟨e1.trans e3.symm, e2.trans e4.symm⟩

theorem one_block_beyond (c : SimpleFS_Context) (inode : Buf) (hio : io_ok c)
    (hrest : ∀ s, s < 15 → s ≠ 0 → i_block inode s = 0) (k : Nat) (hk : 1 ≤ k) :
    dir_block c inode k = 0 := by
  have hior : ∀ b, c.device_fd.readable b = true := fun b => (hio b).1
  by_cases hm : k < MAX_LOGICAL_BLOCKS
  · rw [dir_block_eq_node c inode k hior hm]
    by_contra hne
    obtain ⟨e1, _⟩ := one_block_tree c.device_fd.data inode hrest _ _ (lbn_path_ok k hm).1 hne
    unfold lbn_slot at e1
    split_ifs at e1
    all_goals omega
  · exact dir_block_beyond c inode k hior (by omega)

theorem ctxDir_io : io_ok ctxDir := fun _ => ⟨rfl, rfl⟩

theorem treeRoot_slots : ∀ s, s < 15 → s ≠ 0 → i_block treeRoot s = 0 := by decide!

theorem ctxDir_location : inode_location ctxDir 2 = .ok (3, 128) := by rfl

theorem ctxDir_root_block : dir_block ctxDir treeRoot 0 = 5 := by decide!

theorem treeRoot_size : i_size treeRoot = 4096 := by decide!

theorem ctxDir_root_node : ∀ s idxs, tree_path_ok s idxs →
    tree_node ctxDir.device_fd.data treeRoot s idxs ≠ 0 →
    tree_node ctxDir.device_fd.data treeRoot s idxs = 5 := by
  intro s idxs hp hne
  obtain ⟨e1, e2⟩ := one_block_tree _ _ treeRoot_slots s idxs hp hne
  subst e1
  subst e2
  decide!

/-- The root directory of `ctxDir` is well formed. -/
theorem ctxDir_dir_ok : dir_ok ctxDir treeRoot 2 := by
  have hN : i_size treeRoot / SIMPLEFS_BLOCK_SIZE = 1 := by rw [treeRoot_size]; rfl
  refine
    { io := ctxDir_io
      size_whole := by rw [treeRoot_size]; rfl
      backed := ?_
      beyond := ?_
      tiled := ?_
      distinct := one_block_distinct _ _ treeRoot_slots
      located := ⟨3, 128, ctxDir_location, ?_⟩ }
  · intro k hk
    rw [hN] at hk
    have : k = 0 := by omega
    subst this
    rw [ctxDir_root_block]
    decide
  · intro k hk
    rw [hN] at hk
    exact one_block_beyond ctxDir treeRoot ctxDir_io treeRoot_slots k hk
  · intro k hk
    rw [hN] at hk
    have : k = 0 := by omega
    subst this
    rw [ctxDir_root_block]
    exact ⟨[0, 12, 24, 36, 48, 60, 72], tiles_of_check _ _ _ (by decide!)⟩
  · intro s idxs hp heq
    have := ctxDir_root_node s idxs hp (by rw [heq]; decide)
    rw [heq] at this
    exact absurd this (by decide)

/-- The allocation state of `ctxDir` is sound for the root directory. -/
theorem ctxDir_tree_ok : tree_ok ctxDir treeRoot (fs_reserved ctxDir 2) := by
  have hres : ∀ b, fs_reserved ctxDir 2 b → b = 1 ∨ b = 3 := by
    intro b hb
    rcases hb with ⟨g, hg, hb⟩ | ⟨o, ho⟩
    · have hg0 : g = 0 := by
        have : ctxDir.gdt.length = 1 := rfl
        omega
      subst hg0
      left
      exact hb
    · rw [ctxDir_location] at ho
      injection ho with ho
      injection ho with e1 _
      right
      exact e1.symm
  refine
    { io := ctxDir_io
      layout := by decide!
      counts := by decide!
      bitmaps := fun g hg => Or.inl ⟨g, hg, rfl⟩
      reserved := ?_
      nodes := ?_
      distinct := one_block_distinct _ _ treeRoot_slots }
  · intro b hb
    rcases hres b hb with e | e
    · subst e
      exact ⟨by decide!, by decide!⟩
    · subst e
      exact ⟨by decide!, by decide!⟩
  · intro s idxs hp hne
    rw [ctxDir_root_node s idxs hp hne]
    refine ⟨by decide!, by decide!, ?_⟩
    intro hb
    rcases hres 5 hb with e | e <;> exact absurd e (by decide)

/-- C11 (`add_dir_entry`, `src/metadata.cpp` 272-420). On a well-formed
directory in a sound allocation state, for a child inode number `child ≠ 0`:
a name longer than 255 bytes is rejected with `-ENAMETOOLONG` and nothing but
`errno` changes. For a name of at most 255 bytes a successful call stores the
record `(name, child)` as an active record of one logical block `k`, and
* when `(k + 1) * 4096 < 2^32` the directory stays well formed, enumeration
  yields exactly the former active pairs and `(name, child)` (a permutation, so
  each pair as often as before and the new one once more), and the size is at
  least `(k + 1) * 4096`;
* when `(k + 1) * 4096` reaches `2^32` (`k = 2^20 - 1`, a directory of `2^20 - 1`
  blocks none of which had room) the 32-bit size assignment of the code wraps to
  0: the call still returns 0, the size stays below `(k + 1) * 4096`, and
  enumeration yields the former pairs only. -/
theorem C11_add_dir_entry (c : SimpleFS_Context) (inode : Buf) (num : Nat)
    (name : List Nat) (child ft : Nat) (h : dir_ok c inode num)
    (ha : tree_ok c inode (fs_reserved c num))
    (hc0 : child ≠ 0) (hc : child < 4294967296) :
    (name.length > 255 →
      add_dir_entry c inode num name child ft =
        (-(ENAMETOOLONG : Int), inode, setErrno c ENAMETOOLONG)) ∧
    (name.length ≤ 255 → (add_dir_entry c inode num name child ft).1 = 0 →
      ∃ k, k ≤ i_size inode / SIMPLEFS_BLOCK_SIZE ∧
        dir_block (add_dir_entry c inode num name child ft).2.2
          (add_dir_entry c inode num name child ft).2.1 k ≠ 0 ∧
        (∃ offs, Tiles ((add_dir_entry c inode num name child ft).2.2.device_fd.data
            (dir_block (add_dir_entry c inode num name child ft).2.2
              (add_dir_entry c inode num name child ft).2.1 k)) 0 offs ∧
          (name, child) ∈ active_entries
            ((add_dir_entry c inode num name child ft).2.2.device_fd.data
              (dir_block (add_dir_entry c inode num name child ft).2.2
                (add_dir_entry c inode num name child ft).2.1 k)) offs) ∧
        ((k + 1) * SIMPLEFS_BLOCK_SIZE < 4294967296 →
          dir_ok (add_dir_entry c inode num name child ft).2.2
            (add_dir_entry c inode num name child ft).2.1 num ∧
          List.Perm (dir_listing (add_dir_entry c inode num name child ft).2.2
              (add_dir_entry c inode num name child ft).2.1)
            ((name, child) :: dir_listing c inode) ∧
          (k + 1) * SIMPLEFS_BLOCK_SIZE ≤
            i_size (add_dir_entry c inode num name child ft).2.1) ∧
        (4294967296 ≤ (k + 1) * SIMPLEFS_BLOCK_SIZE →
          i_size (add_dir_entry c inode num name child ft).2.1 = i_size inode ∧
          i_size (add_dir_entry c inode num name child ft).2.1 <
            (k + 1) * SIMPLEFS_BLOCK_SIZE ∧
          dir_listing (add_dir_entry c inode num name child ft).2.2
            (add_dir_entry c inode num name child ft).2.1 = dir_listing c inode)) := by
  refine ⟨fun hlong => ?_, fun hn hret =>
    add_dir_entry_listing c inode num name child ft h ha hn hc0 hc hret⟩
  unfold add_dir_entry
  rw [if_pos (by unfold SIMPLEFS_MAX_FILENAME_LEN; omega)]

/-- Witness for C11 on `ctxDir`: the name `n` for inode 17 is added to the root
directory, whose one block has room; the call returns 0 and enumeration yields
the seven former pairs and `(n, 17)`. -/
theorem C11_add_dir_entry_witness :
    dir_ok ctxDir treeRoot 2 ∧ tree_ok ctxDir treeRoot (fs_reserved ctxDir 2) ∧
    (add_dir_entry ctxDir treeRoot 2 [110] 17 1).1 = 0 ∧
    ∃ k, k ≤ i_size treeRoot / SIMPLEFS_BLOCK_SIZE ∧
      dir_block (add_dir_entry ctxDir treeRoot 2 [110] 17 1).2.2
        (add_dir_entry ctxDir treeRoot 2 [110] 17 1).2.1 k ≠ 0 ∧
      (∃ offs, Tiles ((add_dir_entry ctxDir treeRoot 2 [110] 17 1).2.2.device_fd.data
          (dir_block (add_dir_entry ctxDir treeRoot 2 [110] 17 1).2.2
            (add_dir_entry ctxDir treeRoot 2 [110] 17 1).2.1 k)) 0 offs ∧
        ([110], 17) ∈ active_entries
          ((add_dir_entry ctxDir treeRoot 2 [110] 17 1).2.2.device_fd.data
            (dir_block (add_dir_entry ctxDir treeRoot 2 [110] 17 1).2.2
              (add_dir_entry ctxDir treeRoot 2 [110] 17 1).2.1 k)) offs) ∧
      ((k + 1) * SIMPLEFS_BLOCK_SIZE < 4294967296 →
        dir_ok (add_dir_entry ctxDir treeRoot 2 [110] 17 1).2.2
          (add_dir_entry ctxDir treeRoot 2 [110] 17 1).2.1 2 ∧
        List.Perm (dir_listing (add_dir_entry ctxDir treeRoot 2 [110] 17 1).2.2
            (add_dir_entry ctxDir treeRoot 2 [110] 17 1).2.1)
          (([110], 17) :: dir_listing ctxDir treeRoot) ∧
        (k + 1) * SIMPLEFS_BLOCK_SIZE ≤
          i_size (add_dir_entry ctxDir treeRoot 2 [110] 17 1).2.1) ∧
      (4294967296 ≤ (k + 1) * SIMPLEFS_BLOCK_SIZE →
        i_size (add_dir_entry ctxDir treeRoot 2 [110] 17 1).2.1 = i_size treeRoot ∧
        i_size (add_dir_entry ctxDir treeRoot 2 [110] 17 1).2.1 <
          (k + 1) * SIMPLEFS_BLOCK_SIZE ∧
        dir_listing (add_dir_entry ctxDir treeRoot 2 [110] 17 1).2.2
          (add_dir_entry ctxDir treeRoot 2 [110] 17 1).2.1 = dir_listing ctxDir treeRoot) :=
  ⟨ctxDir_dir_ok, ctxDir_tree_ok, by decide!,
    (C11_add_dir_entry ctxDir treeRoot 2 [110] 17 1 ctxDir_dir_ok ctxDir_tree_ok
      (by decide) (by decide)).2 (by decide) (by decide!)⟩

/-- C12 (`remove_dir_entry`, `src/metadata.cpp` 423-511). On a well-formed
directory: for `"."` and `".."` the call returns `-EINVAL`; for a name that no
enumerated record bears it returns `-ENOENT`; in both cases the inode is
unchanged and the filesystem differs in `errno` only, so every directory block
is unchanged. For a name that an enumerated record bears it returns 0 and
removes the first active record `cur` bearing the name, in the first block `k`
that has one: enumeration before is a permutation of that pair and enumeration
after; if `cur` is the first record of its block only its inode field becomes 0
and its `rec_len` is kept, otherwise its `rec_len` is added to the `rec_len` of
the record before it; the blocks of the directory stay where they are, every
other block keeps its content, and the directory stays well formed. -/
theorem C12_remove_dir_entry (c : SimpleFS_Context) (inode : Buf) (num : Nat)
    (name : List Nat) (h : dir_ok c inode num) :
    ((name = DOT ∨ name = DOTDOT) →
      remove_dir_entry c inode num name = (-(EINVAL : Int), inode, setErrno c EINVAL)) ∧
    (name ≠ [] → name ≠ DOT → name ≠ DOTDOT →
      ((∀ e, e ∈ dir_listing c inode → e.1 ≠ name) →
        (remove_dir_entry c inode num name).1 = -(ENOENT : Int) ∧ (remove_dir_entry c inode num name).2.1 = inode ∧ same_fs c (remove_dir_entry c inode num name).2.2) ∧
      ((∃ e, e ∈ dir_listing c inode ∧ e.1 = name) →
        (remove_dir_entry c inode num name).1 = 0 ∧ dir_ok (remove_dir_entry c inode num name).2.2 (remove_dir_entry c inode num name).2.1 num ∧
        ∃ k before cur after, k < i_size inode / SIMPLEFS_BLOCK_SIZE ∧
          Tiles (c.device_fd.data (dir_block c inode k)) 0 (before ++ cur :: after) ∧
          (∀ j, j < k → ∀ e, e ∈ dir_block_listing c inode j → e.1 ≠ name) ∧
          (∀ e, e ∈ active_entries (c.device_fd.data (dir_block c inode k)) before → e.1 ≠ name) ∧
          de_inode (c.device_fd.data (dir_block c inode k)) cur ≠ 0 ∧ de_name (c.device_fd.data (dir_block c inode k)) cur = name ∧
          List.Perm (dir_listing c inode)
            ((name, de_inode (c.device_fd.data (dir_block c inode k)) cur) :: dir_listing (remove_dir_entry c inode num name).2.2 (remove_dir_entry c inode num name).2.1) ∧
          (before = [] →
            (remove_dir_entry c inode num name).2.2.device_fd.data (dir_block c inode k) = set_de_inode (c.device_fd.data (dir_block c inode k)) cur 0 ∧
            de_rec_len ((remove_dir_entry c inode num name).2.2.device_fd.data (dir_block c inode k)) cur =
              de_rec_len (c.device_fd.data (dir_block c inode k)) cur) ∧
          (∀ p, before.getLast? = some p →
            (remove_dir_entry c inode num name).2.2.device_fd.data (dir_block c inode k) =
              set_de_rec_len (c.device_fd.data (dir_block c inode k)) p (de_rec_len (c.device_fd.data (dir_block c inode k)) p + de_rec_len (c.device_fd.data (dir_block c inode k)) cur)) ∧
          (∀ j, dir_block (remove_dir_entry c inode num name).2.2 (remove_dir_entry c inode num name).2.1 j = dir_block c inode j) ∧
          (∀ j, j < i_size inode / SIMPLEFS_BLOCK_SIZE → j ≠ k →
            (remove_dir_entry c inode num name).2.2.device_fd.data (dir_block c inode j) =
              c.device_fd.data (dir_block c inode j)))) := by
  refine ⟨fun hdot => ?_, fun h1 h2 h3 => ⟨fun habs => ?_, fun hpres => ?_⟩⟩
  · unfold remove_dir_entry
    rw [if_pos (Or.inr hdot)]
  · rcases remove_dir_entry_spec c inode num name h h1 h2 h3 with ⟨_, r1, r2, r3⟩ |
      ⟨k, before, cur, after, _, _, _, _, _, r6, _, _, _, _, _, _, r13⟩
    · exact ⟨r1, r2, r3⟩
    · exfalso
      exact habs _ ((List.Perm.mem_iff r13).mpr (List.mem_cons_self _ _)) rfl
  · rcases remove_dir_entry_spec c inode num name h h1 h2 h3 with ⟨r0, _, _, _⟩ |
      ⟨k, before, cur, after, r1, r2, r3, r4, r5, r6, r7, r8, r9, r10, r11, r12, r13⟩
    · obtain ⟨e, he, hen⟩ := hpres
      exact absurd hen (r0 e he)
    · refine ⟨r7, r8, k, before, cur, after, r1, r2, r3, r4, r5, r6, r13, ?_, ?_, r9, r12⟩
      · intro hb
        rw [r11, hb]
        exact ⟨rfl, (set_de_inode_spec _ cur 0 (by norm_num)).2.1⟩
      · intro p hp
        rw [r11, hp]
        rfl

/-- Witness for C12 on `ctxDir`: the name `f` is enumerated in the root
directory, and its removal returns 0 and leaves a well-formed directory. -/
theorem C12_remove_dir_entry_witness :
    dir_ok ctxDir treeRoot 2 ∧
    (remove_dir_entry ctxDir treeRoot 2 [102]).1 = 0 ∧
    dir_ok (remove_dir_entry ctxDir treeRoot 2 [102]).2.2
      (remove_dir_entry ctxDir treeRoot 2 [102]).2.1 2 :=
  ⟨ctxDir_dir_ok,
    (((C12_remove_dir_entry ctxDir treeRoot 2 [102] ctxDir_dir_ok).2
      (by decide) (by decide) (by decide)).2 ⟨([102], 12), by decide!, rfl⟩).1,
    (((C12_remove_dir_entry ctxDir treeRoot 2 [102] ctxDir_dir_ok).2
      (by decide) (by decide) (by decide)).2 ⟨([102], 12), by decide!, rfl⟩).2.1⟩

/-- C13 (`add_dir_entry` and `remove_dir_entry`, `src/metadata.cpp` 272-511).
Directory-block well-formedness is an invariant of the directory engine: in a
well-formed directory every backed block is tiled by its records (the records,
followed from offset 0 by `rec_len`, end exactly at 4096, every `rec_len` is a
multiple of 4 and at least `calculate_dir_entry_len name_len`), and the same
holds for every backed block after a successful `add_dir_entry` (in a sound
allocation state, for a name of at most 255 bytes and a child inode number other
than 0), blocks newly appended included, and after a successful
`remove_dir_entry`. -/
theorem C13_dir_blocks_stay_tiled (c : SimpleFS_Context) (inode : Buf) (num : Nat)
    (h : dir_ok c inode num) :
    dir_tiled c inode ∧
    (∀ (name : List Nat) (child ft : Nat), tree_ok c inode (fs_reserved c num) →
      name.length ≤ 255 → child ≠ 0 → child < 4294967296 →
      (add_dir_entry c inode num name child ft).1 = 0 →
      dir_tiled (add_dir_entry c inode num name child ft).2.2
        (add_dir_entry c inode num name child ft).2.1) ∧
    (∀ (name : List Nat), (remove_dir_entry c inode num name).1 = 0 → dir_tiled (remove_dir_entry c inode num name).2.2 (remove_dir_entry c inode num name).2.1) := by
  refine ⟨dir_ok_tiled c inode num h, fun name child ft ha hn hc0 hc hret =>
    add_dir_entry_tiled c inode num name child ft h ha hn hc0 hc hret, fun name hret => ?_⟩
  by_cases hs : name = [] ∨ name = DOT ∨ name = DOTDOT
  · exfalso
    unfold remove_dir_entry at hret
    rw [if_pos hs] at hret
    have hE : (-(EINVAL : Int)) ≠ 0 := by decide
    exact hE hret
  · have h1 : name ≠ [] := fun e => hs (Or.inl e)
    have h2 : name ≠ DOT := fun e => hs (Or.inr (Or.inl e))
    have h3 : name ≠ DOTDOT := fun e => hs (Or.inr (Or.inr e))
    rcases remove_dir_entry_spec c inode num name h h1 h2 h3 with ⟨_, r1, _, _⟩ |
      ⟨k, before, cur, after, _, _, _, _, _, _, _, r8, _, _, _, _, _⟩
    · rw [r1] at hret
      have hE : (-(ENOENT : Int)) ≠ 0 := by decide
      exact absurd hret hE
    · exact dir_ok_tiled _ _ num r8

/-- Witness for C13 on `ctxDir`: the root directory is well formed, adding the
name `n` and removing the name `f` both succeed, and each leaves every backed
block of the directory tiled. -/
theorem C13_dir_blocks_stay_tiled_witness :
    dir_ok ctxDir treeRoot 2 ∧
    dir_tiled (add_dir_entry ctxDir treeRoot 2 [110] 17 1).2.2
      (add_dir_entry ctxDir treeRoot 2 [110] 17 1).2.1 ∧
    dir_tiled (remove_dir_entry ctxDir treeRoot 2 [102]).2.2
      (remove_dir_entry ctxDir treeRoot 2 [102]).2.1 :=
  ⟨ctxDir_dir_ok,
    (C13_dir_blocks_stay_tiled ctxDir treeRoot 2 ctxDir_dir_ok).2.1 [110] 17 1 ctxDir_tree_ok
      (by decide) (by decide) (by decide) (by decide!),
    (C13_dir_blocks_stay_tiled ctxDir treeRoot 2 ctxDir_dir_ok).2.2 [102] (by decide!)⟩

/-- The shape "leaf pointer" of `allocate_block_for_write` on a sound tree,
called on the last indirect block at `(s, pre)` and its content. -/
theorem ensure_write_leaf_spec (c : SimpleFS_Context) (inode : Buf) (R : Nat → Prop)
    (s : Nat) (pre : List Nat) (i pg : Nat) (h : tree_ok c inode R)
    (hp : tree_path_ok s (pre ++ [i])) (hleaf : tree_depth s ≤ pre.length + 1)
    (hp0 : tree_node c.device_fd.data inode s pre ≠ 0)
    (b : Nat) (fl : Bool) (inode' : Buf) (c' : SimpleFS_Context)
    (hres : ensure_write_leaf c inode (tree_node c.device_fd.data inode s pre)
      (c.device_fd.data (tree_node c.device_fd.data inode s pre)) i pg =
        .ok (b, fl, inode', c')) :
    tree_grow c inode R c' inode' s (pre ++ [i]) ∧
    b = tree_node c'.device_fd.data inode' s (pre ++ [i]) ∧
    b ≠ 0 ∧
    (ptrAt (c.device_fd.data (tree_node c.device_fd.data inode s pre)) i ≠ 0 →
      fl = false ∧ inode' = inode ∧ c' = c) ∧
    (ptrAt (c.device_fd.data (tree_node c.device_fd.data inode s pre)) i = 0 →
      fl = true) := by
  unfold ensure_write_leaf at hres
  by_cases hz : ptrAt (c.device_fd.data (tree_node c.device_fd.data inode s pre)) i = 0
  · rw [if_pos hz] at hres
    dsimp only at hres
    by_cases hr : (alloc_block c pg).1 = 0
    · rw [if_pos hr] at hres
      exact Except.noConfusion hres
    · rw [if_neg hr] at hres
      obtain ⟨g, bit, hg, hbit, he, hb0, hblt, hclr, hgd⟩ := alloc_block_fresh c pg h.layout hr
      rw [he] at hres
      dsimp only at hres
      have hw : (block_taken c g bit).device_fd.writable
          (tree_node c.device_fd.data inode s pre) = true := (h.io _).2
      rw [write_block_of_writable _ _ _ hw] at hres
      dsimp only at hres
      injection hres with hres
      injection hres with e1 hres
      injection hres with e0 hres
      injection hres with e2 e3
      subst e1
      subst e0
      subst e2
      subst e3
      have hpre : tree_path_ok s pre := tree_path_ok_prefix s pre [i] hp
      obtain ⟨p1, p2, p3⟩ := h.nodes s pre hpre hp0
      have hb32 : g * c.sb.s_blocks_per_group + bit < 4294967296 := by
        have := h.layout.2.2.2.1
        omega
      obtain ⟨t1, t2⟩ := tree_grow_entry c inode R h g bit
        ((block_taken c g bit).device_fd.put
          (tree_node c.device_fd.data inode s pre)
          (setPtr (c.device_fd.data (tree_node c.device_fd.data inode s pre)) i
            (g * c.sb.s_blocks_per_group + bit)))
        (i_blocks inode + 8) s pre i hg hbit hb0 hblt hclr hgd hp hp0 hz rfl rfl
        (put_data_same _ _ _)
        (fun hlt => absurd hlt (by omega))
        (fun x hx1 _ => by rw [put_data_ne _ _ _ _ hx1])
      rw [ptrAt_setPtr_same _ _ _ hb32]
      exact ⟨t1, t2.symm, hb0, fun hne => absurd hz hne, fun _ => rfl⟩
  · rw [if_neg hz] at hres
    injection hres with hres
    injection hres with e1 hres
    injection hres with e0 hres
    injection hres with e2 e3
    subst e1
    subst e0
    subst e2
    subst e3
    exact ⟨tree_grow_refl c inode R s _ h, (tree_node_snoc _ _ _ _ _ hp0).symm, hz,
      fun _ => ⟨rfl, rfl, rfl⟩, fun h0 => absurd h0 hz⟩

/-- The direct range of `allocate_block_for_write` on a sound tree. -/
theorem allocate_block_for_write_direct (c : SimpleFS_Context) (inode : Buf) (R : Nat → Prop)
    (num k : Nat) (h : tree_ok c inode R) (hk : k < 12)
    (b : Nat) (fl : Bool) (inode' : Buf) (c' : SimpleFS_Context)
    (hres : allocate_block_for_write c inode num k = (b, fl, inode', c')) (hb : b ≠ 0) :
    tree_grow c inode R c' inode' k [] ∧
    b = tree_node c'.device_fd.data inode' k [] ∧
    (tree_node c.device_fd.data inode k [] ≠ 0 → fl = false ∧ inode' = inode ∧ c' = c) ∧
    (tree_node c.device_fd.data inode k [] = 0 → fl = true) := by
  unfold allocate_block_for_write at hres
  dsimp only at hres
  rw [if_pos (show k < SIMPLEFS_NUM_DIRECT_BLOCKS from hk)] at hres
  by_cases hz : i_block inode k = 0
  · rw [if_pos hz] at hres
    by_cases hr : (alloc_block c (dec32 num / c.sb.s_inodes_per_group)).1 = 0
    · rw [if_pos hr] at hres
      injection hres with e1 _
      exact absurd e1.symm hb
    · rw [if_neg hr] at hres
      obtain ⟨g, bit, hg, hbit, he, hb0, hblt, hclr, hgd⟩ :=
        alloc_block_fresh c _ h.layout hr
      rw [he] at hres
      dsimp only at hres
      have hb32 : g * c.sb.s_blocks_per_group + bit < 4294967296 := by
        have := h.layout.2.2.2.1
        omega
      rw [i_block_set_i_blocks_set_i_block _ _ _ _ hb32] at hres
      injection hres with e1 hres
      injection hres with e0 hres
      injection hres with e2 e3
      subst e1
      subst e0
      subst e2
      subst e3
      have hbm : ∀ x, block_bit_set c x = true →
          x ≠ g * c.sb.s_blocks_per_group + bit := by
        intro x hx heq
        rw [heq, hclr] at hx
        exact Bool.noConfusion hx
      have hD : ∀ x, x < c.sb.s_blocks_count → block_bit_set c x = true → ¬ R x →
          (block_taken c g bit).device_fd.data x = c.device_fd.data x := by
        intro x _ hx hR
        rw [block_taken_data, if_neg]
        intro heq
        exact hR (heq ▸ h.bitmaps g hg)
      have hd0 : ¬ 0 < tree_depth k := by
        unfold tree_depth
        omega
      have hnodes := tree_node_ext_slot c.device_fd.data
        (block_taken c g bit).device_fd.data
        inode (set_i_blocks (set_i_block inode k (g * c.sb.s_blocks_per_group + bit))
          (i_blocks (set_i_block inode k (g * c.sb.s_blocks_per_group + bit)) + 8))
        k (g * c.sb.s_blocks_per_group + bit) hz
        (i_block_set_i_blocks_set_i_block _ _ _ _ hb32)
        (fun t ht => by rw [i_block_set_i_blocks, i_block_set_i_block_ne _ _ _ _ ht])
        hb0 (fun hd => absurd hd hd0)
        (fun s' idxs' hp hne => by
          obtain ⟨n1, n2, n3⟩ := h.nodes s' idxs' hp hne
          exact hD _ n1 n2 n3)
      refine ⟨?_, ?_, fun hne => absurd hz hne, fun _ => rfl⟩
      · apply tree_grow_fresh c inode R h g bit (block_taken c g bit).device_fd
          _ k [] [] hg hbit hb0 hblt hclr hgd rfl rfl
        · intro x _
          rfl
        · intro x hx hb hR _
          exact hD x hx hb hR
        · exact List.prefix_refl _
        · exact hnodes
        · exact hz
        · rw [i_size_set_i_blocks, i_size_set_i_block]
      · rw [tree_node_nil]
        exact (i_block_set_i_blocks_set_i_block _ _ _ _ hb32).symm
  · rw [if_neg hz] at hres
    injection hres with e1 hres
    injection hres with e0 hres
    injection hres with e2 e3
    subst e1
    subst e0
    subst e2
    subst e3
    exact ⟨tree_grow_refl c inode R k [] h, rfl, fun _ => ⟨rfl, rfl, rfl⟩, fun h0 => absurd h0 hz⟩

/-- The single-indirect range of `allocate_block_for_write` on a sound tree. -/
theorem allocate_block_for_write_single (c : SimpleFS_Context) (inode : Buf) (R : Nat → Prop)
    (num k : Nat) (h : tree_ok c inode R) (hk1 : 12 ≤ k) (hk2 : k < 12 + 1024)
    (b : Nat) (fl : Bool) (inode' : Buf) (c' : SimpleFS_Context)
    (hres : allocate_block_for_write c inode num k = (b, fl, inode', c')) (hb : b ≠ 0) :
    tree_grow c inode R c' inode' 12 [k - 12] ∧
    b = tree_node c'.device_fd.data inode' 12 [k - 12] ∧
    (tree_node c.device_fd.data inode 12 [k - 12] ≠ 0 → fl = false ∧ inode' = inode ∧ c' = c) ∧
    (tree_node c.device_fd.data inode 12 [k - 12] = 0 → fl = true) := by
  unfold allocate_block_for_write at hres
  dsimp only at hres
  rw [if_neg (show ¬ k < SIMPLEFS_NUM_DIRECT_BLOCKS from by unfold SIMPLEFS_NUM_DIRECT_BLOCKS; omega),
    if_pos (show k < SIMPLEFS_NUM_DIRECT_BLOCKS + SIMPLEFS_BLOCK_SIZE / 4 from by
      unfold SIMPLEFS_NUM_DIRECT_BLOCKS SIMPLEFS_BLOCK_SIZE; omega)] at hres
  have hpath : tree_path_ok 12 ([] ++ [k - 12]) :=
    tree_path_ok_mk 12 _ (by norm_num) (by simp) (by simp; omega)
  cases hA : ensure_top_indirect c inode SIMPLEFS_NUM_DIRECT_BLOCKS
      (dec32 num / c.sb.s_inodes_per_group) with
  | error e =>
    rw [hA] at hres
    injection hres with e1 _
    exact absurd e1.symm hb
  | ok r =>
    obtain ⟨inode1, c1⟩ := r
    rw [hA] at hres
    dsimp only at hres
    obtain ⟨g1, a1, a2⟩ := ensure_top_indirect_spec c inode R 12 _ h inode1 c1 hA
    rw [read_block_io c1 g1.ok.io] at hres
    dsimp only at hres
    cases hL : ensure_write_leaf c1 inode1 (i_block inode1 SIMPLEFS_NUM_DIRECT_BLOCKS)
        (c1.device_fd.data (i_block inode1 SIMPLEFS_NUM_DIRECT_BLOCKS))
        (k - SIMPLEFS_NUM_DIRECT_BLOCKS) (dec32 num / c.sb.s_inodes_per_group) with
    | error e =>
      rw [hL] at hres
      injection hres with e1 _
      exact absurd e1.symm hb
    | ok r2 =>
      obtain ⟨b2, fl2, inode2, c2⟩ := r2
      rw [hL] at hres
      injection hres with e1 hres
      injection hres with e0 hres
      injection hres with e2 e3
      subst e1
      subst e0
      subst e2
      subst e3
      obtain ⟨g2, l1, l2, l3, l4⟩ :=
        ensure_write_leaf_spec c1 inode1 R 12 [] (k - 12) _ g1.ok hpath (by decide) a1 b2 fl2 inode2 c2 hL
      have hoff : tree_node c1.device_fd.data inode1 12 [k - 12] =
          tree_node c.device_fd.data inode 12 [k - 12] :=
        g1.off_path 12 [k - 12] hpath (fun hh => by
          have := List.IsPrefix.length_le hh.2
          simp at this)
      have hptr : ptrAt (c1.device_fd.data (tree_node c1.device_fd.data inode1 12 [])) (k - 12) =
          tree_node c.device_fd.data inode 12 [k - 12] := by
        rw [← hoff]
        exact (tree_node_snoc c1.device_fd.data inode1 12 [] (k - 12) a1).symm
      refine ⟨tree_grow_trans c inode R c1 inode1 c2 inode2 12 [k - 12]
        (tree_grow_mono c inode R c1 inode1 12 [] [k - 12] (List.nil_prefix) g1) g2, l1, ?_, ?_⟩
      · intro hne
        have hs : i_block inode 12 ≠ 0 := by
          intro h0
          apply hne
          unfold tree_node
          rw [h0, walk_tree_zero]
        obtain ⟨e1, e2⟩ := a2 hs
        subst e1
        subst e2
        exact l3 (by rw [hptr]; exact hne)
      · intro h0
        exact l4 (by rw [hptr]; exact h0)

/-- The double-indirect range of `allocate_block_for_write` on a sound tree. -/
theorem allocate_block_for_write_double (c : SimpleFS_Context) (inode : Buf) (R : Nat → Prop)
    (num k : Nat) (h : tree_ok c inode R) (hk1 : 1036 ≤ k) (hk2 : k < 1036 + 1024 * 1024)
    (b : Nat) (fl : Bool) (inode' : Buf) (c' : SimpleFS_Context)
    (hres : allocate_block_for_write c inode num k = (b, fl, inode', c')) (hb : b ≠ 0) :
    tree_grow c inode R c' inode' 13 [(k - 1036) / 1024, (k - 1036) % 1024] ∧
    b = tree_node c'.device_fd.data inode' 13 [(k - 1036) / 1024, (k - 1036) % 1024] ∧
    (tree_node c.device_fd.data inode 13 [(k - 1036) / 1024, (k - 1036) % 1024] ≠ 0 →
      fl = false ∧ inode' = inode ∧ c' = c) ∧
    (tree_node c.device_fd.data inode 13 [(k - 1036) / 1024, (k - 1036) % 1024] = 0 →
      fl = true) := by
  unfold allocate_block_for_write at hres
  dsimp only at hres
  have hc1 : SIMPLEFS_NUM_DIRECT_BLOCKS + SIMPLEFS_BLOCK_SIZE / 4 = 1036 := rfl
  have hc2 : SIMPLEFS_BLOCK_SIZE / 4 = 1024 := rfl
  rw [hc1, hc2] at hres
  rw [if_neg (show ¬ k < SIMPLEFS_NUM_DIRECT_BLOCKS from by unfold SIMPLEFS_NUM_DIRECT_BLOCKS; omega),
    if_neg (show ¬ k < 1036 from by omega),
    if_pos (show k < 1036 + 1024 * 1024 from hk2)] at hres
  have hi1 : (k - 1036) / 1024 < 1024 := Nat.div_lt_of_lt_mul (by omega)
  have hi2 : (k - 1036) % 1024 < 1024 := Nat.mod_lt _ (by norm_num)
  have hpath1 : tree_path_ok 13 ([] ++ [(k - 1036) / 1024]) :=
    tree_path_ok_mk 13 _ (by norm_num) (by simp) (by simp; exact hi1)
  have hpath2 : tree_path_ok 13 ([(k - 1036) / 1024] ++ [(k - 1036) % 1024]) :=
    tree_path_ok_mk 13 _ (by norm_num) (by simp) (by
      intro i hi
      simp at hi
      rcases hi with hi | hi <;> omega)
  cases hA : ensure_top_indirect c inode (SIMPLEFS_NUM_DIRECT_BLOCKS + 1)
      (dec32 num / c.sb.s_inodes_per_group) with
  | error e =>
    rw [hA] at hres
    injection hres with e1 _
    exact absurd e1.symm hb
  | ok r =>
    obtain ⟨inode1, c1⟩ := r
    rw [hA] at hres
    dsimp only at hres
    obtain ⟨g1, a1, a2⟩ := ensure_top_indirect_spec c inode R 13 _ h inode1 c1 hA
    rw [read_block_io c1 g1.ok.io] at hres
    dsimp only at hres
    cases hB : ensure_child_indirect c1 inode1 (i_block inode1 (SIMPLEFS_NUM_DIRECT_BLOCKS + 1))
        (c1.device_fd.data (i_block inode1 (SIMPLEFS_NUM_DIRECT_BLOCKS + 1)))
        ((k - 1036) / 1024) (dec32 num / c.sb.s_inodes_per_group) with
    | error e =>
      rw [hB] at hres
      injection hres with e1 _
      exact absurd e1.symm hb
    | ok r1 =>
      obtain ⟨inode2, l2buf, c2⟩ := r1
      rw [hB] at hres
      dsimp only at hres
      obtain ⟨g2, b1, b2, b3, b4⟩ :=
        ensure_child_indirect_spec c1 inode1 R 13 [] ((k - 1036) / 1024) _ g1.ok hpath1 a1
          inode2 l2buf c2 hB
      rw [read_block_io c2 g2.ok.io, b2] at hres
      dsimp only at hres
      have b3' : tree_node c2.device_fd.data inode2 13 [(k - 1036) / 1024] ≠ 0 := by
        rw [b2] at b3
        exact b3
      cases hL : ensure_write_leaf c2 inode2
          (tree_node c2.device_fd.data inode2 13 ([] ++ [(k - 1036) / 1024]))
          (c2.device_fd.data (tree_node c2.device_fd.data inode2 13 ([] ++ [(k - 1036) / 1024])))
          ((k - 1036) % 1024) (dec32 num / c.sb.s_inodes_per_group) with
      | error e =>
        rw [hL] at hres
        injection hres with e1 _
        exact absurd e1.symm hb
      | ok r2 =>
        obtain ⟨b2', fl2, inode3, c3⟩ := r2
        rw [hL] at hres
        injection hres with e1 hres
        injection hres with e0 hres
        injection hres with e2 e3
        subst e1
        subst e0
        subst e2
        subst e3
        obtain ⟨g3, l1, l2, l3, l4⟩ :=
          ensure_write_leaf_spec c2 inode2 R 13 [(k - 1036) / 1024] ((k - 1036) % 1024) _ g2.ok
            hpath2 (by unfold tree_depth; simp) b3' b2' fl2 inode3 c3 hL
        have hoff1 : tree_node c1.device_fd.data inode1 13 [(k - 1036) / 1024] =
            tree_node c.device_fd.data inode 13 [(k - 1036) / 1024] :=
          tree_grow_off c inode R c1 inode1 13 [] _ g1 hpath1 (by simp)
        have hoff2 : tree_node c2.device_fd.data inode2 13
              [(k - 1036) / 1024, (k - 1036) % 1024] =
            tree_node c.device_fd.data inode 13 [(k - 1036) / 1024, (k - 1036) % 1024] := by
          exact (tree_grow_off c1 inode1 R c2 inode2 13 _ _ g2 hpath2 (by simp)).trans
            (tree_grow_off c inode R c1 inode1 13 [] _ g1 hpath2 (by simp))
        have hptr1 : ptrAt (c1.device_fd.data (tree_node c1.device_fd.data inode1 13 []))
              ((k - 1036) / 1024) =
            tree_node c.device_fd.data inode 13 [(k - 1036) / 1024] := by
          rw [← hoff1]
          exact (tree_node_snoc c1.device_fd.data inode1 13 [] _ a1).symm
        have hptr2 : ptrAt (c2.device_fd.data
              (tree_node c2.device_fd.data inode2 13 [(k - 1036) / 1024])) ((k - 1036) % 1024) =
            tree_node c.device_fd.data inode 13 [(k - 1036) / 1024, (k - 1036) % 1024] := by
          rw [← hoff2]
          exact (tree_node_snoc c2.device_fd.data inode2 13 [_] _ b3').symm
        refine ⟨tree_grow_trans c inode R c1 inode1 c3 inode3 13 _
          (tree_grow_mono c inode R c1 inode1 13 [] _ (List.nil_prefix) g1)
          (tree_grow_trans c1 inode1 R c2 inode2 c3 inode3 13 _
            (tree_grow_mono c1 inode1 R c2 inode2 13 _ _ (List.prefix_append _ _) g2) g3),
          l1, ?_, ?_⟩
        · intro hne
          have hn1 : tree_node c.device_fd.data inode 13 [(k - 1036) / 1024] ≠ 0 :=
            tree_node_ne_zero_prefix _ _ 13 [(k - 1036) / 1024] [(k - 1036) % 1024] hne
          have hs : i_block inode 13 ≠ 0 :=
            tree_node_ne_zero_prefix _ _ 13 [] [(k - 1036) / 1024] hn1
          obtain ⟨e1, e2⟩ := a2 hs
          subst e1
          subst e2
          obtain ⟨e1, e2⟩ := b4 (by rw [hptr1]; exact hn1)
          subst e1
          subst e2
          exact l3 (by rw [hptr2]; exact hne)
        · intro h0
          exact l4 (by rw [hptr2]; exact h0)

/-- The triple-indirect range of `allocate_block_for_write` on a sound tree. -/
theorem allocate_block_for_write_triple (c : SimpleFS_Context) (inode : Buf) (R : Nat → Prop)
    (num k : Nat) (h : tree_ok c inode R) (hk1 : 1036 + 1024 * 1024 ≤ k)
    (hk2 : k < 1036 + 1024 * 1024 + 1024 * 1024 * 1024)
    (b : Nat) (fl : Bool) (inode' : Buf) (c' : SimpleFS_Context)
    (hres : allocate_block_for_write c inode num k = (b, fl, inode', c')) (hb : b ≠ 0) :
    tree_grow c inode R c' inode' 14 [(k - (1036 + 1024 * 1024)) / (1024 * 1024), (k - (1036 + 1024 * 1024)) % (1024 * 1024) / 1024, (k - (1036 + 1024 * 1024)) % (1024 * 1024) % 1024] ∧
    b = tree_node c'.device_fd.data inode' 14 [(k - (1036 + 1024 * 1024)) / (1024 * 1024), (k - (1036 + 1024 * 1024)) % (1024 * 1024) / 1024, (k - (1036 + 1024 * 1024)) % (1024 * 1024) % 1024] ∧
    (tree_node c.device_fd.data inode 14 [(k - (1036 + 1024 * 1024)) / (1024 * 1024), (k - (1036 + 1024 * 1024)) % (1024 * 1024) / 1024, (k - (1036 + 1024 * 1024)) % (1024 * 1024) % 1024] ≠ 0 →
      fl = false ∧ inode' = inode ∧ c' = c) ∧
    (tree_node c.device_fd.data inode 14 [(k - (1036 + 1024 * 1024)) / (1024 * 1024), (k - (1036 + 1024 * 1024)) % (1024 * 1024) / 1024, (k - (1036 + 1024 * 1024)) % (1024 * 1024) % 1024] = 0 →
      fl = true) := by
  unfold allocate_block_for_write at hres
  dsimp only at hres
  have hc1 : SIMPLEFS_NUM_DIRECT_BLOCKS + SIMPLEFS_BLOCK_SIZE / 4 = 1036 := rfl
  have hc2 : SIMPLEFS_BLOCK_SIZE / 4 = 1024 := rfl
  rw [hc1, hc2] at hres
  rw [if_neg (show ¬ k < SIMPLEFS_NUM_DIRECT_BLOCKS from by unfold SIMPLEFS_NUM_DIRECT_BLOCKS; omega),
    if_neg (show ¬ k < 1036 from by omega),
    if_neg (show ¬ k < 1036 + 1024 * 1024 from by omega),
    if_pos (show k < 1036 + 1024 * 1024 + 1024 * 1024 * 1024 from hk2)] at hres
  have hi1 : (k - (1036 + 1024 * 1024)) / (1024 * 1024) < 1024 := Nat.div_lt_of_lt_mul (by omega)
  have hi2 : (k - (1036 + 1024 * 1024)) % (1024 * 1024) / 1024 < 1024 :=
    Nat.div_lt_of_lt_mul (Nat.mod_lt _ (by norm_num))
  have hi3 : (k - (1036 + 1024 * 1024)) % (1024 * 1024) % 1024 < 1024 := Nat.mod_lt _ (by norm_num)
  have hpath1 : tree_path_ok 14 [(k - (1036 + 1024 * 1024)) / (1024 * 1024)] :=
    tree_path_ok_mk 14 _ (by norm_num) (by simp) (by simp; exact hi1)
  have hpath2 : tree_path_ok 14 [(k - (1036 + 1024 * 1024)) / (1024 * 1024), (k - (1036 + 1024 * 1024)) % (1024 * 1024) / 1024] :=
    tree_path_ok_mk 14 _ (by norm_num) (by simp) (by
      intro i hi
      simp only [List.mem_cons, List.mem_singleton, List.not_mem_nil, or_false] at hi
      rcases hi with hi | hi
      · rw [hi]; exact hi1
      · rw [hi]; exact hi2)
  have hpath3 : tree_path_ok 14 [(k - (1036 + 1024 * 1024)) / (1024 * 1024), (k - (1036 + 1024 * 1024)) % (1024 * 1024) / 1024, (k - (1036 + 1024 * 1024)) % (1024 * 1024) % 1024] :=
    tree_path_ok_mk 14 _ (by norm_num) (by simp) (by
      intro i hi
      simp only [List.mem_cons, List.mem_singleton, List.not_mem_nil, or_false] at hi
      rcases hi with hi | hi | hi
      · rw [hi]; exact hi1
      · rw [hi]; exact hi2
      · rw [hi]; exact hi3)
  cases hA : ensure_top_indirect c inode (SIMPLEFS_NUM_DIRECT_BLOCKS + 2)
      (dec32 num / c.sb.s_inodes_per_group) with
  | error e =>
    rw [hA] at hres
    injection hres with e1 _
    exact absurd e1.symm hb
  | ok r =>
    obtain ⟨inode1, c1⟩ := r
    rw [hA] at hres
    dsimp only at hres
    obtain ⟨g1, a1, a2⟩ := ensure_top_indirect_spec c inode R 14 _ h inode1 c1 hA
    rw [read_block_io c1 g1.ok.io] at hres
    dsimp only at hres
    cases hB : ensure_child_indirect c1 inode1 (i_block inode1 (SIMPLEFS_NUM_DIRECT_BLOCKS + 2))
        (c1.device_fd.data (i_block inode1 (SIMPLEFS_NUM_DIRECT_BLOCKS + 2)))
        ((k - (1036 + 1024 * 1024)) / (1024 * 1024)) (dec32 num / c.sb.s_inodes_per_group) with
    | error e =>
      rw [hB] at hres
      injection hres with e1 _
      exact absurd e1.symm hb
    | ok r1 =>
      obtain ⟨inode2, l3buf, c2⟩ := r1
      rw [hB] at hres
      dsimp only at hres
      obtain ⟨g2, b1, b2, b3, b4⟩ :=
        ensure_child_indirect_spec c1 inode1 R 14 [] ((k - (1036 + 1024 * 1024)) / (1024 * 1024)) _ g1.ok hpath1 a1
          inode2 l3buf c2 hB
      rw [read_block_io c2 g2.ok.io, b2] at hres
      dsimp only at hres
      have b3' : tree_node c2.device_fd.data inode2 14 [(k - (1036 + 1024 * 1024)) / (1024 * 1024)] ≠ 0 := by
        rw [b2] at b3
        exact b3
      cases hC : ensure_child_indirect c2 inode2
          (tree_node c2.device_fd.data inode2 14 ([] ++ [(k - (1036 + 1024 * 1024)) / (1024 * 1024)]))
          (c2.device_fd.data (tree_node c2.device_fd.data inode2 14 ([] ++ [(k - (1036 + 1024 * 1024)) / (1024 * 1024)])))
          ((k - (1036 + 1024 * 1024)) % (1024 * 1024) / 1024) (dec32 num / c.sb.s_inodes_per_group) with
      | error e =>
        rw [hC] at hres
        injection hres with e1 _
        exact absurd e1.symm hb
      | ok r2 =>
        obtain ⟨inode3, l2buf, c3⟩ := r2
        rw [hC] at hres
        dsimp only at hres
        obtain ⟨g3, d1, d2, d3, d4⟩ :=
          ensure_child_indirect_spec c2 inode2 R 14 [(k - (1036 + 1024 * 1024)) / (1024 * 1024)] ((k - (1036 + 1024 * 1024)) % (1024 * 1024) / 1024) _ g2.ok hpath2 b3'
            inode3 l2buf c3 hC
        rw [read_block_io c3 g3.ok.io, d2] at hres
        dsimp only at hres
        have d3' : tree_node c3.device_fd.data inode3 14 [(k - (1036 + 1024 * 1024)) / (1024 * 1024), (k - (1036 + 1024 * 1024)) % (1024 * 1024) / 1024] ≠ 0 := by
          rw [d2] at d3
          exact d3
        cases hL : ensure_write_leaf c3 inode3
            (tree_node c3.device_fd.data inode3 14 ([(k - (1036 + 1024 * 1024)) / (1024 * 1024)] ++ [(k - (1036 + 1024 * 1024)) % (1024 * 1024) / 1024]))
            (c3.device_fd.data (tree_node c3.device_fd.data inode3 14 ([(k - (1036 + 1024 * 1024)) / (1024 * 1024)] ++ [(k - (1036 + 1024 * 1024)) % (1024 * 1024) / 1024])))
            ((k - (1036 + 1024 * 1024)) % (1024 * 1024) % 1024) (dec32 num / c.sb.s_inodes_per_group) with
        | error e =>
          rw [hL] at hres
          injection hres with e1 _
          exact absurd e1.symm hb
        | ok r3 =>
          obtain ⟨b2', fl2, inode4, c4⟩ := r3
          rw [hL] at hres
          injection hres with e1 hres
          injection hres with e0 hres
          injection hres with e2 e3
          subst e1
          subst e0
          subst e2
          subst e3
          obtain ⟨g4, l1, l2, l3, l4⟩ :=
            ensure_write_leaf_spec c3 inode3 R 14 [(k - (1036 + 1024 * 1024)) / (1024 * 1024), (k - (1036 + 1024 * 1024)) % (1024 * 1024) / 1024] ((k - (1036 + 1024 * 1024)) % (1024 * 1024) % 1024) _ g3.ok hpath3 (by unfold tree_depth; simp) d3' b2' fl2 inode4 c4 hL
          have hoff1 : tree_node c1.device_fd.data inode1 14 [(k - (1036 + 1024 * 1024)) / (1024 * 1024)] =
              tree_node c.device_fd.data inode 14 [(k - (1036 + 1024 * 1024)) / (1024 * 1024)] :=
            tree_grow_off c inode R c1 inode1 14 [] _ g1 hpath1 (by simp)
          have hoff2 : tree_node c2.device_fd.data inode2 14 [(k - (1036 + 1024 * 1024)) / (1024 * 1024), (k - (1036 + 1024 * 1024)) % (1024 * 1024) / 1024] =
              tree_node c.device_fd.data inode 14 [(k - (1036 + 1024 * 1024)) / (1024 * 1024), (k - (1036 + 1024 * 1024)) % (1024 * 1024) / 1024] :=
            (tree_grow_off c1 inode1 R c2 inode2 14 _ _ g2 hpath2 (by simp)).trans
              (tree_grow_off c inode R c1 inode1 14 [] _ g1 hpath2 (by simp))
          have hoff3 : tree_node c3.device_fd.data inode3 14 [(k - (1036 + 1024 * 1024)) / (1024 * 1024), (k - (1036 + 1024 * 1024)) % (1024 * 1024) / 1024, (k - (1036 + 1024 * 1024)) % (1024 * 1024) % 1024] =
              tree_node c.device_fd.data inode 14 [(k - (1036 + 1024 * 1024)) / (1024 * 1024), (k - (1036 + 1024 * 1024)) % (1024 * 1024) / 1024, (k - (1036 + 1024 * 1024)) % (1024 * 1024) % 1024] :=
            (tree_grow_off c2 inode2 R c3 inode3 14 _ _ g3 hpath3 (by simp)).trans
              ((tree_grow_off c1 inode1 R c2 inode2 14 _ _ g2 hpath3 (by simp)).trans
                (tree_grow_off c inode R c1 inode1 14 [] _ g1 hpath3 (by simp)))
          have hptr1 : ptrAt (c1.device_fd.data (tree_node c1.device_fd.data inode1 14 []))
                ((k - (1036 + 1024 * 1024)) / (1024 * 1024)) = tree_node c.device_fd.data inode 14 [(k - (1036 + 1024 * 1024)) / (1024 * 1024)] := by
            rw [← hoff1]
            exact (tree_node_snoc c1.device_fd.data inode1 14 [] _ a1).symm
          have hptr2 : ptrAt (c2.device_fd.data
                (tree_node c2.device_fd.data inode2 14 [(k - (1036 + 1024 * 1024)) / (1024 * 1024)])) ((k - (1036 + 1024 * 1024)) % (1024 * 1024) / 1024) =
              tree_node c.device_fd.data inode 14 [(k - (1036 + 1024 * 1024)) / (1024 * 1024), (k - (1036 + 1024 * 1024)) % (1024 * 1024) / 1024] := by
            rw [← hoff2]
            exact (tree_node_snoc c2.device_fd.data inode2 14 [_] _ b3').symm
          have hptr3 : ptrAt (c3.device_fd.data
                (tree_node c3.device_fd.data inode3 14 [(k - (1036 + 1024 * 1024)) / (1024 * 1024), (k - (1036 + 1024 * 1024)) % (1024 * 1024) / 1024])) ((k - (1036 + 1024 * 1024)) % (1024 * 1024) % 1024) =
              tree_node c.device_fd.data inode 14 [(k - (1036 + 1024 * 1024)) / (1024 * 1024), (k - (1036 + 1024 * 1024)) % (1024 * 1024) / 1024, (k - (1036 + 1024 * 1024)) % (1024 * 1024) % 1024] := by
            rw [← hoff3]
            exact (tree_node_snoc c3.device_fd.data inode3 14 [_, _] _ d3').symm
          refine ⟨tree_grow_trans c inode R c1 inode1 c4 inode4 14 _
            (tree_grow_mono c inode R c1 inode1 14 [] _ (List.nil_prefix) g1)
            (tree_grow_trans c1 inode1 R c2 inode2 c4 inode4 14 _
              (tree_grow_mono c1 inode1 R c2 inode2 14 [(k - (1036 + 1024 * 1024)) / (1024 * 1024)] _ (List.prefix_append [(k - (1036 + 1024 * 1024)) / (1024 * 1024)] _) g2)
              (tree_grow_trans c2 inode2 R c3 inode3 c4 inode4 14 _
                (tree_grow_mono c2 inode2 R c3 inode3 14 [(k - (1036 + 1024 * 1024)) / (1024 * 1024), (k - (1036 + 1024 * 1024)) % (1024 * 1024) / 1024] _ (List.prefix_append [(k - (1036 + 1024 * 1024)) / (1024 * 1024), (k - (1036 + 1024 * 1024)) % (1024 * 1024) / 1024] [_]) g3)
                g4)),
            l1, ?_, ?_⟩
          · intro hne
            have hn2 : tree_node c.device_fd.data inode 14 [(k - (1036 + 1024 * 1024)) / (1024 * 1024), (k - (1036 + 1024 * 1024)) % (1024 * 1024) / 1024] ≠ 0 :=
              tree_node_ne_zero_prefix _ _ 14 [(k - (1036 + 1024 * 1024)) / (1024 * 1024), (k - (1036 + 1024 * 1024)) % (1024 * 1024) / 1024] [(k - (1036 + 1024 * 1024)) % (1024 * 1024) % 1024] hne
            have hn1 : tree_node c.device_fd.data inode 14 [(k - (1036 + 1024 * 1024)) / (1024 * 1024)] ≠ 0 :=
              tree_node_ne_zero_prefix _ _ 14 [(k - (1036 + 1024 * 1024)) / (1024 * 1024)] [(k - (1036 + 1024 * 1024)) % (1024 * 1024) / 1024] hn2
            have hs : i_block inode 14 ≠ 0 :=
              tree_node_ne_zero_prefix _ _ 14 [] [(k - (1036 + 1024 * 1024)) / (1024 * 1024)] hn1
            obtain ⟨e1, e2⟩ := a2 hs
            subst e1
            subst e2
            obtain ⟨e1, e2⟩ := b4 (by rw [hptr1]; exact hn1)
            subst e1
            subst e2
            obtain ⟨e1, e2⟩ := d4 (by rw [hptr2]; exact hn2)
            subst e1
            subst e2
            exact l3 (by rw [hptr3]; exact hne)
          · intro h0
            exact l4 (by rw [hptr3]; exact h0)

/-- Source function `allocate_block_for_write` on a sound tree, for a logical
block the tree can address: a call that returns a block leaves the tree grown
along the path of `k` only, returns the block the tree then holds for `k`,
changes nothing when `k` was mapped, and raises the newly-allocated flag
exactly when it was not. -/
theorem allocate_block_for_write_spec (c : SimpleFS_Context) (inode : Buf) (R : Nat → Prop)
    (num k : Nat) (h : tree_ok c inode R) (hk : k < MAX_LOGICAL_BLOCKS)
    (b : Nat) (fl : Bool) (inode' : Buf) (c' : SimpleFS_Context)
    (hres : allocate_block_for_write c inode num k = (b, fl, inode', c')) (hb : b ≠ 0) :
    tree_grow c inode R c' inode' (lbn_slot k) (lbn_idxs k) ∧
    b = tree_node c'.device_fd.data inode' (lbn_slot k) (lbn_idxs k) ∧
    (tree_node c.device_fd.data inode (lbn_slot k) (lbn_idxs k) ≠ 0 →
      fl = false ∧ inode' = inode ∧ c' = c) ∧
    (tree_node c.device_fd.data inode (lbn_slot k) (lbn_idxs k) = 0 →
      fl = true) := by
  unfold MAX_LOGICAL_BLOCKS at hk
  unfold lbn_slot lbn_idxs
  by_cases h1 : k < 12
  · rw [if_pos h1, if_pos h1]
    exact allocate_block_for_write_direct c inode R num k h h1 b fl inode' c' hres hb
  · rw [if_neg h1, if_neg h1]
    by_cases h2 : k < 12 + 1024
    · rw [if_pos h2, if_pos h2]
      exact allocate_block_for_write_single c inode R num k h (by omega) h2 b fl inode' c' hres hb
    · rw [if_neg h2, if_neg h2]
      by_cases h3 : k < 12 + 1024 + 1024 * 1024
      · rw [if_pos h3, if_pos h3]
        have e : k - 12 - 1024 = k - 1036 := by omega
        rw [e]
        exact allocate_block_for_write_double c inode R num k h (by omega) (by omega)
          b fl inode' c' hres hb
      · rw [if_neg h3, if_neg h3]
        have e : k - 12 - 1024 - 1024 * 1024 = k - (1036 + 1024 * 1024) := by omega
        rw [e]
        exact allocate_block_for_write_triple c inode R num k h (by omega) (by omega)
          b fl inode' c' hres hb

theorem ensure_write_leaf_mapped (c : SimpleFS_Context) (inode : Buf) (p : Nat) (pbuf : Buf)
    (i pg : Nat) (h : ptrAt pbuf i ≠ 0) :
    ensure_write_leaf c inode p pbuf i pg = .ok (ptrAt pbuf i, false, inode, c) := by
  unfold ensure_write_leaf
  rw [if_neg h]

/-- Source function `allocate_block_for_write` on a logical block that is mapped,
on a device whose reads succeed: it returns the mapped block and changes
nothing. -/
theorem allocate_block_for_write_mapped (c : SimpleFS_Context) (inode : Buf) (num k : Nat)
    (hio : io_ok c) (hk : k < MAX_LOGICAL_BLOCKS) (hb : dir_block c inode k ≠ 0) :
    allocate_block_for_write c inode num k = (dir_block c inode k, false, inode, c) := by
  have hior : ∀ b, c.device_fd.readable b = true := fun b => (hio b).1
  rw [dir_block_eq_node c inode k hior hk] at hb ⊢
  unfold MAX_LOGICAL_BLOCKS at hk
  unfold lbn_slot lbn_idxs at hb ⊢
  unfold allocate_block_for_write
  dsimp only
  have hc1 : SIMPLEFS_NUM_DIRECT_BLOCKS + SIMPLEFS_BLOCK_SIZE / 4 = 1036 := rfl
  have hc2 : SIMPLEFS_BLOCK_SIZE / 4 = 1024 := rfl
  have hc0 : SIMPLEFS_NUM_DIRECT_BLOCKS = 12 := rfl
  rw [hc1, hc2, hc0]
  by_cases h1 : k < 12
  · rw [if_pos h1, if_pos h1] at hb
    rw [if_pos h1, if_pos h1, if_pos h1]
    have hb' : i_block inode k ≠ 0 := hb
    rw [if_neg hb']
    rfl
  · rw [if_neg h1, if_neg h1] at hb
    rw [if_neg h1, if_neg h1, if_neg h1]
    by_cases h2 : k < 12 + 1024
    · rw [if_pos h2, if_pos h2] at hb
      rw [if_pos h2, if_pos h2, if_pos (show k < 1036 from by omega)]
      have hs : i_block inode 12 ≠ 0 := tree_node_ne_zero_prefix _ _ 12 [] [k - 12] hb
      have t1 : tree_node c.device_fd.data inode 12 [k - 12] =
          ptrAt (c.device_fd.data (i_block inode 12)) (k - 12) :=
        tree_node_snoc c.device_fd.data inode 12 [] (k - 12) hs
      rw [t1] at hb ⊢
      rw [ensure_top_indirect_mapped c inode 12 _ hs]
      dsimp only
      rw [read_block_io c hio]
      dsimp only
      rw [ensure_write_leaf_mapped c inode _ _ _ _ hb]
    · rw [if_neg h2, if_neg h2] at hb
      rw [if_neg h2, if_neg h2, if_neg (show ¬ k < 1036 from by omega)]
      by_cases h3 : k < 12 + 1024 + 1024 * 1024
      · rw [if_pos h3, if_pos h3] at hb
        rw [if_pos h3, if_pos h3, if_pos (show k < 1036 + 1024 * 1024 from by omega)]
        have e : k - 12 - 1024 = k - 1036 := by omega
        rw [e] at hb ⊢
        have hn1 : tree_node c.device_fd.data inode 13 [(k - 1036) / 1024] ≠ 0 :=
          tree_node_ne_zero_prefix _ _ 13 [(k - 1036) / 1024] [(k - 1036) % 1024] hb
        have hs : i_block inode 13 ≠ 0 :=
          tree_node_ne_zero_prefix _ _ 13 [] [(k - 1036) / 1024] hn1
        have t1 : tree_node c.device_fd.data inode 13 [(k - 1036) / 1024] =
            ptrAt (c.device_fd.data (i_block inode 13)) ((k - 1036) / 1024) :=
          tree_node_snoc c.device_fd.data inode 13 [] _ hs
        have t2 : tree_node c.device_fd.data inode 13 [(k - 1036) / 1024, (k - 1036) % 1024] =
            ptrAt (c.device_fd.data (tree_node c.device_fd.data inode 13 [(k - 1036) / 1024]))
              ((k - 1036) % 1024) :=
          tree_node_snoc c.device_fd.data inode 13 [_] _ hn1
        rw [t2, t1] at hb ⊢
        rw [t1] at hn1
        rw [ensure_top_indirect_mapped c inode (12 + 1) _ hs]
        dsimp only
        rw [read_block_io c hio]
        dsimp only
        rw [ensure_child_indirect_mapped c inode _ _ _ _ hn1]
        dsimp only
        rw [read_block_io c hio]
        dsimp only
        rw [ensure_write_leaf_mapped c inode _ _ _ _ hb]
      · rw [if_neg h3, if_neg h3] at hb
        rw [if_neg h3, if_neg h3, if_neg (show ¬ k < 1036 + 1024 * 1024 from by omega),
          if_pos (show k < 1036 + 1024 * 1024 + 1024 * 1024 * 1024 from by omega)]
        have e : k - 12 - 1024 - 1024 * 1024 = k - (1036 + 1024 * 1024) := by omega
        rw [e] at hb ⊢
        have hn2 : tree_node c.device_fd.data inode 14
            [(k - (1036 + 1024 * 1024)) / (1024 * 1024),
             (k - (1036 + 1024 * 1024)) % (1024 * 1024) / 1024] ≠ 0 :=
          tree_node_ne_zero_prefix _ _ 14 [_, _] [_] hb
        have hn1 : tree_node c.device_fd.data inode 14
            [(k - (1036 + 1024 * 1024)) / (1024 * 1024)] ≠ 0 :=
          tree_node_ne_zero_prefix _ _ 14 [_] [_] hn2
        have hs : i_block inode 14 ≠ 0 := tree_node_ne_zero_prefix _ _ 14 [] [_] hn1
        have t1 : tree_node c.device_fd.data inode 14
              [(k - (1036 + 1024 * 1024)) / (1024 * 1024)] =
            ptrAt (c.device_fd.data (i_block inode 14))
              ((k - (1036 + 1024 * 1024)) / (1024 * 1024)) :=
          tree_node_snoc c.device_fd.data inode 14 [] _ hs
        have t2 : tree_node c.device_fd.data inode 14
              [(k - (1036 + 1024 * 1024)) / (1024 * 1024),
               (k - (1036 + 1024 * 1024)) % (1024 * 1024) / 1024] =
            ptrAt (c.device_fd.data (tree_node c.device_fd.data inode 14
                [(k - (1036 + 1024 * 1024)) / (1024 * 1024)]))
              ((k - (1036 + 1024 * 1024)) % (1024 * 1024) / 1024) :=
          tree_node_snoc c.device_fd.data inode 14 [_] _ hn1
        have t3 : tree_node c.device_fd.data inode 14
              [(k - (1036 + 1024 * 1024)) / (1024 * 1024),
               (k - (1036 + 1024 * 1024)) % (1024 * 1024) / 1024,
               (k - (1036 + 1024 * 1024)) % (1024 * 1024) % 1024] =
            ptrAt (c.device_fd.data (tree_node c.device_fd.data inode 14
                [(k - (1036 + 1024 * 1024)) / (1024 * 1024),
                 (k - (1036 + 1024 * 1024)) % (1024 * 1024) / 1024]))
              ((k - (1036 + 1024 * 1024)) % (1024 * 1024) % 1024) :=
          tree_node_snoc c.device_fd.data inode 14 [_, _] _ hn2
        rw [t3, t2, t1] at hb ⊢
        rw [t2, t1] at hn2
        rw [t1] at hn1
        rw [ensure_top_indirect_mapped c inode (12 + 2) _ hs]
        dsimp only
        rw [read_block_io c hio]
        dsimp only
        rw [ensure_child_indirect_mapped c inode _ _ _ _ hn1]
        dsimp only
        rw [read_block_io c hio]
        dsimp only
        rw [ensure_child_indirect_mapped c inode _ _ _ _ hn2]
        dsimp only
        rw [read_block_io c hio]
        dsimp only
        rw [ensure_write_leaf_mapped c inode _ _ _ _ hb]

/-- C9 (`allocate_block_for_write`, `src/fuse_ops.cpp` 527-727, and
`map_logical_to_physical_block`, `src/metadata.cpp` 924-1005). In a sound
allocation state (no I/O failure, the blocks of the inode's tree pairwise
different, marked in use and apart from the block bitmaps), for every logical
index `k` below `12 + P + P² + P³` with `P = 1024`: if
`allocate_block_for_write` returns a block `b ≠ 0`, then in the state it leaves
the read-only walk `map_logical_to_physical_block` returns `b` for `k`, and an
immediately repeated call returns the same `b` with the newly-allocated flag
false and leaves the inode and the whole context as they are (so the free
counts, the bitmaps, `i_blocks` and every pointer are unchanged). -/
theorem C9_allocate_block_for_write_idempotent (c : SimpleFS_Context) (inode : Buf)
    (R : Nat → Prop) (num k : Nat) (h : tree_ok c inode R) (hk : k < MAX_LOGICAL_BLOCKS)
    (hb : (allocate_block_for_write c inode num k).1 ≠ 0) :
    (map_logical_to_physical_block (allocate_block_for_write c inode num k).2.2.2
      (allocate_block_for_write c inode num k).2.2.1 k).1 =
        (allocate_block_for_write c inode num k).1 ∧
    allocate_block_for_write (allocate_block_for_write c inode num k).2.2.2
      (allocate_block_for_write c inode num k).2.2.1 num k =
        ((allocate_block_for_write c inode num k).1, false,
          (allocate_block_for_write c inode num k).2.2.1,
          (allocate_block_for_write c inode num k).2.2.2) := by
  generalize hr : allocate_block_for_write c inode num k = r at hb ⊢
  obtain ⟨b, fl, inode', c'⟩ := r
  obtain ⟨g, e, _, _⟩ := allocate_block_for_write_spec c inode R num k h hk b fl inode' c' hr hb
  have hm : dir_block c' inode' k = b := by
    rw [dir_block_eq_node _ _ k (fun x => (g.ok.io x).1) hk]
    exact e.symm
  refine ⟨hm, ?_⟩
  have hne : dir_block c' inode' k ≠ 0 := by
    rw [hm]
    exact hb
  rw [allocate_block_for_write_mapped c' inode' num k g.ok.io hk hne, hm]

/-- Witness for C9 on `ctxDir`: logical block 1 of the root directory inode is
unmapped, and the call allocates a block for it. -/
theorem C9_allocate_block_for_write_idempotent_witness :
    tree_ok ctxDir treeRoot (fs_reserved ctxDir 2) ∧ 1 < MAX_LOGICAL_BLOCKS ∧
    (allocate_block_for_write ctxDir treeRoot 2 1).1 ≠ 0 ∧
    (map_logical_to_physical_block (allocate_block_for_write ctxDir treeRoot 2 1).2.2.2
      (allocate_block_for_write ctxDir treeRoot 2 1).2.2.1 1).1 =
        (allocate_block_for_write ctxDir treeRoot 2 1).1 :=
  ⟨ctxDir_tree_ok, by decide, by decide!,
    (C9_allocate_block_for_write_idempotent ctxDir treeRoot (fs_reserved ctxDir 2) 2 1
      ctxDir_tree_ok (by decide) (by decide!)).1⟩

/-- The loop `while (n % d == 0) n /= d` on a non-zero value below `d ^ fuel`:
it ends before the fuel does, and returns the cofactor of the largest power of
`d` in the value. -/
theorem strip_factor_spec (d : Nat) (hd : 2 ≤ d) (fuel n : Nat) (hn : n ≠ 0)
    (hlt : n < d ^ fuel) :
    ∃ k, n = d ^ k * strip_factor d fuel n ∧ strip_factor d fuel n % d ≠ 0 ∧
      strip_factor d fuel n ≠ 0 ∧ strip_factor d fuel n ≤ n := by
  induction fuel generalizing n with
  | zero =>
    simp at hlt
    omega
  | succ fuel ih =>
    unfold strip_factor
    by_cases hm : n % d = 0
    · rw [if_pos hm]
      have hdvd : d ∣ n := Nat.dvd_of_mod_eq_zero hm
      obtain ⟨q, hq⟩ := hdvd
      have hq0 : q ≠ 0 := by
        intro h0
        rw [h0, Nat.mul_zero] at hq
        exact hn hq
      have hdiv : n / d = q := by
        rw [hq, Nat.mul_div_cancel_left _ (by omega)]
      rw [hdiv]
      have hqlt : q < d ^ fuel := by
        rw [pow_succ, hq, Nat.mul_comm] at hlt
        exact Nat.lt_of_mul_lt_mul_right hlt
      obtain ⟨k, e1, e2, e3, e4⟩ := ih q hq0 hqlt
      refine ⟨k + 1, ?_, e2, e3, ?_⟩
      · rw [hq]
        conv_lhs => rw [e1]
        ring
      · rw [hq]
        calc strip_factor d fuel q ≤ q := e4
          _ ≤ d * q := Nat.le_mul_of_pos_left _ (by omega)
    · rw [if_neg hm]
      exact ⟨0, by simp, hm, hn, le_refl _⟩

/-- A power of a prime splits off uniquely from a cofactor it does not divide. -/
theorem pow_cofactor_unique (p : Nat) (hp : p.Prime) (a k x m : Nat)
    (hx : ¬ p ∣ x) (hm : ¬ p ∣ m) (h : p ^ a * x = p ^ k * m) : x = m := by
  induction a generalizing k with
  | zero =>
    cases k with
    | zero => simpa using h
    | succ k =>
      exfalso
      apply hx
      rw [pow_zero, Nat.one_mul] at h
      rw [h, pow_succ, Nat.mul_comm (p ^ k), Nat.mul_assoc]
      exact Nat.dvd_mul_right _ _
  | succ a ih =>
    cases k with
    | zero =>
      exfalso
      apply hm
      rw [pow_zero, Nat.one_mul] at h
      rw [← h, pow_succ, Nat.mul_comm (p ^ a), Nat.mul_assoc]
      exact Nat.dvd_mul_right _ _
    | succ k =>
      apply ih k
      rw [pow_succ, pow_succ, Nat.mul_comm (p ^ a), Nat.mul_comm (p ^ k), Nat.mul_assoc,
        Nat.mul_assoc] at h
      exact Nat.eq_of_mul_eq_mul_left hp.pos h

theorem not_dvd_pow_mul_pow (p q r : Nat) (hp : p.Prime) (hq : q.Prime) (hr : r.Prime)
    (hpq : p ≠ q) (hpr : p ≠ r) (b c : Nat) : ¬ p ∣ q ^ b * r ^ c := by
  intro h
  rcases (Nat.Prime.dvd_mul hp).mp h with h1 | h1
  · exact hpq ((Nat.prime_dvd_prime_iff_eq hp hq).mp (hp.dvd_of_dvd_pow h1))
  · exact hpr ((Nat.prime_dvd_prime_iff_eq hp hr).mp (hp.dvd_of_dvd_pow h1))

/-- C30 (`is_backup_group`, `src/utils.cpp` 92-99). For every 32-bit group index
`g`: each of the three loops `while (n % d == 0) n /= d` ends within the 32
iterations the embedding allows (the value each loop leaves is no multiple of
its divisor), and the function returns true if and only if `g` is 0 or
`g = 3^a · 5^b · 7^c` for some naturals `a`, `b`, `c` (`g = 1` is the case
`a = b = c = 0`). -/
theorem C30_is_backup_group (g : Nat) (hg : g < 4294967296) :
    (g ≠ 0 → strip_factor 3 32 g % 3 ≠ 0 ∧
      strip_factor 5 32 (strip_factor 3 32 g) % 5 ≠ 0 ∧
      strip_factor 7 32 (strip_factor 5 32 (strip_factor 3 32 g)) % 7 ≠ 0) ∧
    (is_backup_group g = true ↔ g = 0 ∨ ∃ a b c, g = 3 ^ a * 5 ^ b * 7 ^ c) := by
  have p3 : Nat.Prime 3 := by norm_num
  have p5 : Nat.Prime 5 := by norm_num
  have p7 : Nat.Prime 7 := by norm_num
  by_cases h0 : g = 0
  · subst h0
    exact ⟨fun h => absurd rfl h, by simp [is_backup_group]⟩
  obtain ⟨a, ea, ma, na, la⟩ := strip_factor_spec 3 (by norm_num) 32 g h0
    (lt_of_lt_of_le hg (by norm_num))
  obtain ⟨b, eb, mb, nb, lb⟩ := strip_factor_spec 5 (by norm_num) 32 (strip_factor 3 32 g) na
    (lt_of_lt_of_le (lt_of_le_of_lt la hg) (by norm_num))
  obtain ⟨c, ec, mc, nc, lc⟩ := strip_factor_spec 7 (by norm_num) 32
    (strip_factor 5 32 (strip_factor 3 32 g)) nb
    (lt_of_lt_of_le (lt_of_le_of_lt (le_trans lb la) hg) (by norm_num))
  refine ⟨fun _ => ⟨ma, mb, mc⟩, ?_⟩
  by_cases h1 : g = 1
  · subst h1
    constructor
    · intro _
      exact Or.inr ⟨0, 0, 0, by norm_num⟩
    · intro _
      simp [is_backup_group]
  have hdef : is_backup_group g =
      decide (strip_factor 7 32 (strip_factor 5 32 (strip_factor 3 32 g)) = 1) := by
    unfold is_backup_group
    rw [if_neg (by
      intro h
      rcases h with h | h
      · exact h0 h
      · exact h1 h)]
  rw [hdef, decide_eq_true_iff]
  constructor
  · intro h7
    refine Or.inr ⟨a, b, c, ?_⟩
    rw [h7, Nat.mul_one] at ec
    rw [ec] at eb
    rw [Nat.mul_assoc, ← eb]
    exact ea
  · intro h
    rcases h with h | ⟨a', b', c', h⟩
    · exact absurd h h0
    · have e3 : 5 ^ b' * 7 ^ c' = strip_factor 3 32 g := by
        apply pow_cofactor_unique 3 p3 a' a
        · exact not_dvd_pow_mul_pow 3 5 7 p3 p5 p7 (by norm_num) (by norm_num) b' c'
        · intro hd
          exact ma (Nat.mod_eq_zero_of_dvd hd)
        · rw [← ea, h, Nat.mul_assoc]
      have e5 : 7 ^ c' = strip_factor 5 32 (strip_factor 3 32 g) := by
        apply pow_cofactor_unique 5 p5 b' b
        · intro hd
          exact absurd ((Nat.prime_dvd_prime_iff_eq p5 p7).mp (p5.dvd_of_dvd_pow hd))
            (by norm_num)
        · intro hd
          exact mb (Nat.mod_eq_zero_of_dvd hd)
        · rw [← eb, e3]
      have e7 : 1 = strip_factor 7 32 (strip_factor 5 32 (strip_factor 3 32 g)) := by
        apply pow_cofactor_unique 7 p7 c' c
        · norm_num
        · intro hd
          exact mc (Nat.mod_eq_zero_of_dvd hd)
        · rw [← ec, e5, Nat.mul_one]
      exact e7.symm

/-- Witness for C30 at `g = 315 = 3² · 5 · 7`. -/
theorem C30_is_backup_group_witness :
    (315 : Nat) < 4294967296 ∧
    (is_backup_group 315 = true ↔ 315 = 0 ∨ ∃ a b c, 315 = 3 ^ a * 5 ^ b * 7 ^ c) :=
  ⟨by norm_num, (C30_is_backup_group 315 (by norm_num)).2⟩

/-- The opening steps of an operation on an existing object: with `errno`
cleared, the path resolves to the same inode number and the inode is read; the
filesystem is untouched. -/
theorem open_target (context : SimpleFS_Context) (caller : fuse_context) (path : List Nat)
    (follow : Bool) (n : Nat) (inode : Buf)
    (ht : (resolve_path_recursive context caller path 0 follow).1 = n)
    (hi : (read_inode_from_disk context n).1 = .ok inode) :
    ∃ c1 c2, resolve_path_recursive (setErrno context 0) caller path 0 follow = (n, c1) ∧
      read_inode_from_disk c1 n = (.ok inode, c2) ∧ same_fs context c2 := by
  have h0 : same_fs context (setErrno context 0) := same_fs_setErrno context 0
  have hr := resolve_path_recursive_same caller follow 0 context (setErrno context 0) path h0
  generalize resolve_path_recursive (setErrno context 0) caller path 0 follow = r at hr ⊢
  obtain ⟨m, c1⟩ := r
  obtain ⟨hn, hc1⟩ := hr
  dsimp only at hn hc1
  rw [ht] at hn
  subst hn
  have hq := read_inode_from_disk_same context c1 m hc1
  generalize hqe : read_inode_from_disk c1 m = q at hq
  obtain ⟨v, c2⟩ := q
  obtain ⟨hv, hc2, _⟩ := hq
  dsimp only at hv hc2
  rw [hi] at hv
  subst hv
  exact ⟨c1, c2, rfl, hqe, hc2⟩

/-- C22 (`simplefs_chown`, `src/fuse_ops.cpp` 1311-1351), with `supp` the
caller's supplementary gids. For a path that resolves to an inode that can be
read and a caller whose uid is not 0: when a uid is requested
(`uid != (uid_t)-1`) that differs from the file's uid, or a gid is requested
(`gid != (gid_t)-1`) that differs from the file's gid unless the caller owns
the file and the new gid is the caller's primary gid or one of `supp`, the call
fails and leaves the device, the superblock and the group descriptors as they
were, so the inode is unchanged. The code looks the gid up in the list of
`getgroups`, the group list of the file-system process; the statement holds at
every request at which that list does not hold the requested gid unless `supp`
does. The failure is `-EPERM`, except that it is `-EIO` when `getgroups` itself
fails (reached when no uid change is requested and the caller owns the
file). -/
theorem C22_chown_refused (context : SimpleFS_Context) (caller : fuse_context)
    (path : List Nat) (uid gid n : Nat) (inode : Buf) (supp : List Nat)
    (ht : (resolve_path_recursive context caller path 0 false).1 = n) (hn : n ≠ 0)
    (hi : (read_inode_from_disk context n).1 = .ok inode)
    (hu : caller.uid ≠ 0)
    (hsub : gid ∈ caller.process_groups → gid ∈ supp)
    (hreq : (uid ≠ NO_ID ∧ uid ≠ i_uid inode) ∨
      (gid ≠ NO_ID ∧ gid ≠ i_gid inode ∧
        ¬ (caller.uid = i_uid inode ∧ (gid = caller.gid ∨ gid ∈ supp)))) :
    (simplefs_chown context caller path uid gid).1 =
      (if ¬ (uid ≠ NO_ID ∧ uid ≠ i_uid inode) ∧ caller.uid = i_uid inode ∧
          caller.getgroups = none then -( EIO : Int) else -(EPERM : Int)) ∧
    same_fs context (simplefs_chown context caller path uid gid).2 := by
  obtain ⟨c1, c2, e1, e2, hs⟩ := open_target context caller path false n inode ht hi
  unfold simplefs_chown
  dsimp only
  rw [e1]
  dsimp only
  rw [if_neg hn, e2]
  dsimp only
  by_cases hA : caller.uid ≠ 0 ∧ decide (uid ≠ NO_ID ∧ uid ≠ i_uid inode) = true
  · have hA2 : uid ≠ NO_ID ∧ uid ≠ i_uid inode := of_decide_eq_true hA.2
    have hA3 : ¬ (¬ (uid ≠ NO_ID ∧ uid ≠ i_uid inode) ∧ caller.uid = i_uid inode ∧
        caller.getgroups = none) := fun h => h.1 hA2
    rw [if_pos hA, if_neg hA3]
    exact ⟨rfl, hs⟩
  · rw [if_neg hA]
    have hnA : ¬ (uid ≠ NO_ID ∧ uid ≠ i_uid inode) := fun h => hA ⟨hu, decide_eq_true h⟩
    by_cases hB : caller.uid ≠ 0 ∧ decide (gid ≠ NO_ID ∧ gid ≠ i_gid inode) = true ∧
        caller.uid ≠ i_uid inode
    · have hB3 : ¬ (¬ (uid ≠ NO_ID ∧ uid ≠ i_uid inode) ∧ caller.uid = i_uid inode ∧
          caller.getgroups = none) := fun h => hB.2.2 h.2.1
      rw [if_pos hB, if_neg hB3]
      exact ⟨rfl, hs⟩
    · rw [if_neg hB]
      rcases hreq with r0 | ⟨r1, r2, r3⟩
      · exact absurd r0 hnA
      · have hg : decide (gid ≠ NO_ID ∧ gid ≠ i_gid inode) = true := decide_eq_true ⟨r1, r2⟩
        have ho : caller.uid = i_uid inode := by
          by_contra ho
          exact hB ⟨hu, hg, ho⟩
        have hp : gid ≠ caller.gid := fun hp => r3 ⟨ho, Or.inl hp⟩
        have hq : gid ∉ caller.process_groups := fun hq => r3 ⟨ho, Or.inr (hsub hq)⟩
        by_cases hD : caller.getgroups = none
        · have hD1 : caller.uid ≠ 0 ∧ decide (gid ≠ NO_ID ∧ gid ≠ i_gid inode) = true ∧
              gid ≠ caller.gid ∧ caller.getgroups = none := ⟨hu, hg, hp, hD⟩
          have hD2 : ¬ (uid ≠ NO_ID ∧ uid ≠ i_uid inode) ∧ caller.uid = i_uid inode ∧
              caller.getgroups = none := ⟨hnA, ho, hD⟩
          rw [if_pos hD1, if_pos hD2]
          exact ⟨rfl, hs⟩
        · have hD1 : ¬ (caller.uid ≠ 0 ∧ decide (gid ≠ NO_ID ∧ gid ≠ i_gid inode) = true ∧
              gid ≠ caller.gid ∧ caller.getgroups = none) := fun h => hD h.2.2.2
          have hD2 : ¬ (¬ (uid ≠ NO_ID ∧ uid ≠ i_uid inode) ∧ caller.uid = i_uid inode ∧
              caller.getgroups = none) := fun h => hD h.2.2
          have hC : caller.uid ≠ 0 ∧ decide (gid ≠ NO_ID ∧ gid ≠ i_gid inode) = true ∧
              (if gid = caller.gid then true
                else caller.process_groups.any (fun supp_gid => decide (gid = supp_gid))) =
                false := by
            refine ⟨hu, hg, ?_⟩
            rw [if_neg hp, Bool.eq_false_iff]
            intro hany
            rw [List.any_eq_true] at hany
            obtain ⟨x, hx, hxe⟩ := hany
            have hxg : gid = x := of_decide_eq_true hxe
            exact hq (hxg ▸ hx)
          rw [if_neg hD1, if_pos hC, if_neg hD2]
          exact ⟨rfl, hs⟩

/-- Witness for C22. On `ctxTree` the caller with uid 1000 asks for uid 1000 on
`/f`, which is owned by uid 7: `-EPERM`. On `ctxDir` the owner of `/f` (uid 7,
gid 7, no supplementary gid, and `getgroups` delivers none) asks for gid 50:
`-EPERM`. -/
theorem C22_chown_refused_witness :
    ((simplefs_chown ctxTree callerU [47, 102] 1000 NO_ID).1 = -(EPERM : Int) ∧
      same_fs ctxTree (simplefs_chown ctxTree callerU [47, 102] 1000 NO_ID).2) ∧
    ((simplefs_chown ctxDir callerOwner [47, 102] NO_ID 50).1 = -(EPERM : Int) ∧
      same_fs ctxDir (simplefs_chown ctxDir callerOwner [47, 102] NO_ID 50).2) :=
  ⟨⟨(C22_chown_refused ctxTree callerU [47, 102] 1000 NO_ID 12 (inode_of ctxTree 12) [5]
      (by decide!) (by decide) (inode_of_spec ctxTree 12 (by decide!)) (by decide)
      (by decide!) (Or.inl ⟨by decide, by decide!⟩)).1.trans (by decide!),
    (C22_chown_refused ctxTree callerU [47, 102] 1000 NO_ID 12 (inode_of ctxTree 12) [5]
      (by decide!) (by decide) (inode_of_spec ctxTree 12 (by decide!)) (by decide)
      (by decide!) (Or.inl ⟨by decide, by decide!⟩)).2⟩,
   ⟨(C22_chown_refused ctxDir callerOwner [47, 102] NO_ID 50 12 (inode_of ctxDir 12) []
      (by decide!) (by decide) (inode_of_spec ctxDir 12 (by decide!)) (by decide)
      (by decide!) (Or.inr ⟨by decide, by decide!, by decide!⟩)).1.trans (by decide!),
    (C22_chown_refused ctxDir callerOwner [47, 102] NO_ID 50 12 (inode_of ctxDir 12) []
      (by decide!) (by decide) (inode_of_spec ctxDir 12 (by decide!)) (by decide)
      (by decide!) (Or.inr ⟨by decide, by decide!, by decide!⟩)).2⟩⟩

/-- The gid test of `simplefs_chown` does not see the caller's supplementary
gids. The owner of `/f` on `ctxDir` (uid 7, gid 7, no supplementary gid) asks
for gid 50. The claim requires a permission error; when the file-system
process is a member of group 50 the call returns 0 and the stored inode has gid
50, and when `getgroups` fails the call returns `-EIO`, an I/O error. -/
theorem chown_uses_process_groups :
    callerProcess50.uid = i_uid (inode_of ctxDir 12) ∧
    i_gid (inode_of ctxDir 12) = 7 ∧
    (simplefs_chown ctxDir callerProcess50 [47, 102] NO_ID 50).1 = 0 ∧
    i_gid (inode_of (simplefs_chown ctxDir callerProcess50 [47, 102] NO_ID 50).2 12) = 50 ∧
    (simplefs_chown ctxDir callerGroupsFail [47, 102] NO_ID 50).1 = -( EIO : Int) :=
  ⟨by decide!, by decide!, by decide!, by decide!, by decide!⟩

theorem read_inode_from_disk_ok (c : SimpleFS_Context) (n : Nat) (inode : Buf)
    (c' : SimpleFS_Context) (h : read_inode_from_disk c n = (.ok inode, c')) :
    c' = c ∧ ∃ T o, inode_location c n = .ok (T, o) ∧
      inode = blit zeroBuf 0 (c.device_fd.data T) o SIMPLEFS_INODE_SIZE := by
  unfold read_inode_from_disk at h
  cases hl : inode_location c n with
  | error e =>
    rw [hl] at h
    injection h with h1 _
    exact Except.noConfusion h1
  | ok loc =>
    obtain ⟨T, o⟩ := loc
    rw [hl] at h
    dsimp only at h
    unfold read_block at h
    by_cases hr : c.device_fd.readable T = true
    · rw [if_pos hr] at h
      dsimp only at h
      injection h with h1 h2
      injection h1 with h1
      exact ⟨h2.symm, T, o, rfl, h1.symm⟩
    · rw [if_neg hr] at h
      dsimp only at h
      injection h with h1 _
      exact Except.noConfusion h1

/-- An inode written with `write_inode_to_disk` on a device without I/O
failure is the inode `read_inode_from_disk` then delivers, byte for byte. -/
theorem read_inode_after_write (c : SimpleFS_Context) (n : Nat) (x : Buf) (T o : Nat)
    (hio : io_ok c) (hloc : inode_location c n = .ok (T, o)) :
    (write_inode_to_disk c n x).1 = 0 ∧
    same_layout c (write_inode_to_disk c n x).2 ∧
    ∃ y, read_inode_from_disk (write_inode_to_disk c n x).2 n =
        (.ok y, (write_inode_to_disk c n x).2) ∧
      ∀ i, i < SIMPLEFS_INODE_SIZE → y i = x i := by
  rw [write_inode_to_disk_ok c n x T o hio hloc]
  have hl : same_layout c { c with device_fd :=
      (c.device_fd.put T (blit (c.device_fd.data T) o x 0 SIMPLEFS_INODE_SIZE)) } :=
    same_layout_of_eq _ _ rfl rfl rfl rfl rfl
  refine ⟨rfl, hl, blit zeroBuf 0 (blit (c.device_fd.data T) o x 0 SIMPLEFS_INODE_SIZE) o
    SIMPLEFS_INODE_SIZE, ?_, ?_⟩
  · unfold read_inode_from_disk
    rw [inode_location_layout c _ n hl (T, o) hloc]
    dsimp only
    have hr : (c.device_fd.put T (blit (c.device_fd.data T) o x 0 SIMPLEFS_INODE_SIZE)).readable T
        = true := (hio T).1
    rw [read_block_of_readable _ _ hr, put_data_same]
  · intro i hi
    unfold blit
    simp only [Nat.zero_le, true_and, Nat.zero_add, Nat.sub_zero]
    rw [if_pos hi, if_pos (by omega)]
    congr 1
    omega

theorem land_clear_set_id (a : Nat) :
    Nat.land (Nat.land a (65535 - Nat.lor S_ISUID S_ISGID) % 256 ^ 2)
      (Nat.lor S_ISUID S_ISGID) = 0 := by
  have h1 : Nat.lor S_ISUID S_ISGID = 3072 := by decide
  rw [h1]
  show ((a &&& 62463) % 65536) &&& 3072 = 0
  have h2 : a &&& 62463 ≤ 62463 := Nat.and_le_right
  rw [Nat.mod_eq_of_lt (by omega), Nat.and_assoc]
  have h3 : (62463 : Nat) &&& 3072 = 0 := by decide
  rw [h3, Nat.and_zero]

/-- C23 (`simplefs_chown`, `src/fuse_ops.cpp` 1352-1366) on a device without
I/O failure, for a path that resolves to an inode that can be read and a caller
whose uid is not 0, when the call returns 0. If the call changes the uid or the
gid (a value other than `-1` and other than the current one is requested), the
inode it stores has the set-uid and set-gid bits clear, as the claim says. If
it changes neither (each argument is `-1` or equal to the current value),
nothing is written: the device is as before and the inode read back is the
inode as it was, with the set-uid and set-gid bits it had. -/
theorem C23_chown_set_id_bits (context : SimpleFS_Context) (caller : fuse_context)
    (path : List Nat) (uid gid n : Nat) (inode : Buf) (hio : io_ok context)
    (ht : (resolve_path_recursive context caller path 0 false).1 = n) (hn : n ≠ 0)
    (hi : (read_inode_from_disk context n).1 = .ok inode)
    (hu : caller.uid ≠ 0)
    (hok : (simplefs_chown context caller path uid gid).1 = 0) :
    (((uid ≠ NO_ID ∧ uid ≠ i_uid inode) ∨ (gid ≠ NO_ID ∧ gid ≠ i_gid inode)) →
      ∃ inode', (read_inode_from_disk (simplefs_chown context caller path uid gid).2 n).1 =
          .ok inode' ∧
        Nat.land (i_mode inode') (Nat.lor S_ISUID S_ISGID) = 0) ∧
    (¬ ((uid ≠ NO_ID ∧ uid ≠ i_uid inode) ∨ (gid ≠ NO_ID ∧ gid ≠ i_gid inode)) →
      same_fs context (simplefs_chown context caller path uid gid).2 ∧
      (read_inode_from_disk (simplefs_chown context caller path uid gid).2 n).1 =
        .ok inode) := by
  obtain ⟨c1, c2, e1, e2, hs⟩ := open_target context caller path false n inode ht hi
  obtain ⟨e3, T, o, hloc, _⟩ := read_inode_from_disk_ok c1 n inode c2 e2
  have hio2 : io_ok c2 := by
    unfold io_ok
    rw [hs.1]
    exact hio
  rw [← e3] at hloc
  unfold simplefs_chown at hok ⊢
  dsimp only at hok ⊢
  rw [e1] at hok ⊢
  dsimp only at hok ⊢
  rw [if_neg hn, e2] at hok ⊢
  dsimp only at hok ⊢
  have hE : (-(EPERM : Int)) ≠ 0 := by decide
  by_cases hA : caller.uid ≠ 0 ∧ decide (uid ≠ NO_ID ∧ uid ≠ i_uid inode) = true
  · rw [if_pos hA] at hok
    exact absurd hok hE
  rw [if_neg hA] at hok ⊢
  by_cases hB : caller.uid ≠ 0 ∧ decide (gid ≠ NO_ID ∧ gid ≠ i_gid inode) = true ∧
      caller.uid ≠ i_uid inode
  · rw [if_pos hB] at hok
    exact absurd hok hE
  rw [if_neg hB] at hok ⊢
  have hE2 : (-( EIO : Int)) ≠ 0 := by decide
  by_cases hD : caller.uid ≠ 0 ∧ decide (gid ≠ NO_ID ∧ gid ≠ i_gid inode) = true ∧
      gid ≠ caller.gid ∧ caller.getgroups = none
  · rw [if_pos hD] at hok
    exact absurd hok hE2
  rw [if_neg hD] at hok ⊢
  by_cases hC : caller.uid ≠ 0 ∧ decide (gid ≠ NO_ID ∧ gid ≠ i_gid inode) = true ∧
      (if gid = caller.gid then true
        else caller.process_groups.any (fun supp_gid => decide (gid = supp_gid))) = false
  · rw [if_pos hC] at hok
    exact absurd hok hE
  rw [if_neg hC] at hok ⊢
  clear hok
  have hnu : ¬ (uid ≠ NO_ID ∧ uid ≠ i_uid inode) := fun h => hA ⟨hu, decide_eq_true h⟩
  have hnu' : ¬ (uid ≠ NO_ID ∧ i_uid inode ≠ uid) := fun h => hnu ⟨h.1, fun e => h.2 e.symm⟩
  rw [decide_eq_false hnu']
  simp only [Bool.false_eq_true, if_false, false_or]
  by_cases hg : gid ≠ NO_ID ∧ i_gid inode ≠ gid
  · rw [decide_eq_true hg]
    simp only [if_true]
    rw [if_pos hu]
    obtain ⟨w1, _, y, w3, w4⟩ := read_inode_after_write c2 n
      (set_i_ctime (set_i_mode (set_i_gid inode gid)
        (Nat.land (i_mode (set_i_gid inode gid)) (65535 - Nat.lor S_ISUID S_ISGID))) c2.now)
      T o hio2 hloc
    rw [if_neg (not_not.mpr w1)]
    dsimp only
    refine ⟨fun _ => ⟨y, by rw [w3], ?_⟩, fun hno => absurd (Or.inr ⟨hg.1, fun e => hg.2 e.symm⟩) hno⟩
    have hm : i_mode y = Nat.land (i_mode (set_i_gid inode gid))
        (65535 - Nat.lor S_ISUID S_ISGID) % 256 ^ 2 := by
      unfold i_mode
      rw [getLE_congr y _ 2 0 (fun i _ h2 => w4 i (by unfold SIMPLEFS_INODE_SIZE; omega))]
      unfold set_i_ctime
      rw [getLE_setLE_disjoint _ _ _ _ _ _ (by omega)]
      unfold set_i_mode
      exact getLE_setLE_same _ _ _ _
    rw [hm]
    exact land_clear_set_id _
  · rw [decide_eq_false hg]
    simp only [Bool.false_eq_true, if_false]
    refine ⟨fun hch => ?_, fun _ => ⟨hs, ?_⟩⟩
    · rcases hch with h | h
      · exact absurd h hnu
      · exact absurd ⟨h.1, fun e => h.2 e.symm⟩ hg
    · rw [e3] at e2
      rw [e3, e2]

theorem ctxSuid_io : io_ok ctxSuid := fun _ => ⟨rfl, rfl⟩

/-- Witness for C23 on `ctxSuid`: the owner (uid 7) of `/f`, whose mode is
04555, calls `simplefs_chown` with `-1` for both ids: the call returns 0 and
the inode keeps its set-uid bit. -/
theorem C23_chown_set_id_bits_witness :
    (simplefs_chown ctxSuid callerOwner [47, 102] NO_ID NO_ID).1 = 0 ∧
    (read_inode_from_disk (simplefs_chown ctxSuid callerOwner [47, 102] NO_ID NO_ID).2 12).1 =
      .ok (inode_of ctxSuid 12) ∧
    Nat.land (i_mode (inode_of ctxSuid 12)) S_ISUID ≠ 0 :=
  ⟨by decide!,
    ((C23_chown_set_id_bits ctxSuid callerOwner [47, 102] NO_ID NO_ID 12 (inode_of ctxSuid 12)
      ctxSuid_io (by decide!) (by decide) (inode_of_spec ctxSuid 12 (by decide!)) (by decide)
      (by decide!)).2 (by decide)).2,
    by decide!⟩

/-- The grant condition of `check_access`: uid 0, or every requested bit among
read, write, execute is in the selected triad. -/
theorem check_access_iff (context : SimpleFS_Context) (caller_context : fuse_context)
    (inode : Buf) (requested_perm : Nat) :
    ((check_access context caller_context inode requested_perm).1 = 0 ↔
      (caller_context.uid = 0 ∨
        ∀ k, k < 3 → requested_perm.testBit k = true →
          (selected_triad caller_context inode).testBit k = true)) ∧
    ((check_access context caller_context inode requested_perm).1 = 0 →
      (check_access context caller_context inode requested_perm).2 = context) ∧
    ((check_access context caller_context inode requested_perm).1 ≠ 0 →
      (check_access context caller_context inode requested_perm) =
        (-(EACCES : Int), setErrno context EACCES)) := by
  have key := check_access_tests requested_perm
    (if caller_context.uid = i_uid inode then Nat.land (i_mode inode) 0o700 / 64
      else
        if (if caller_context.gid = i_gid inode then true
            else caller_context.process_groups.any (fun supp_gid => decide (supp_gid = i_gid inode)))
            = true
        then Nat.land (i_mode inode) 0o070 / 8 else Nat.land (i_mode inode) 0o007)
  have hperm := check_access_perms caller_context inode
  have hE : (-(EACCES : Int)) ≠ 0 := by decide
  unfold check_access
  by_cases hu : caller_context.uid = 0
  · rw [if_pos hu]
    exact ⟨⟨fun _ => Or.inl hu, fun _ => rfl⟩, fun _ => rfl, fun h => absurd rfl h⟩
  rw [if_neg hu]
  dsimp only
  by_cases hr : Nat.land requested_perm R_OK ≠ 0 ∧ Nat.land
      (if caller_context.uid = i_uid inode then Nat.land (i_mode inode) 0o700 / 64
      else
        if (if caller_context.gid = i_gid inode then true
            else caller_context.process_groups.any (fun supp_gid => decide (supp_gid = i_gid inode)))
            = true
        then Nat.land (i_mode inode) 0o070 / 8 else Nat.land (i_mode inode) 0o007) 4 = 0
  · rw [if_pos hr]
    refine ⟨⟨fun h => absurd h hE, ?_⟩, fun h => absurd h hE, fun _ => rfl⟩
    rintro (h | h)
    · exact absurd h hu
    · exact absurd hr (key.mpr (fun k hk hm => by rw [hperm k hk]; exact h k hk hm)).1
  rw [if_neg hr]
  by_cases hw : Nat.land requested_perm W_OK ≠ 0 ∧ Nat.land
      (if caller_context.uid = i_uid inode then Nat.land (i_mode inode) 0o700 / 64
      else
        if (if caller_context.gid = i_gid inode then true
            else caller_context.process_groups.any (fun supp_gid => decide (supp_gid = i_gid inode)))
            = true
        then Nat.land (i_mode inode) 0o070 / 8 else Nat.land (i_mode inode) 0o007) 2 = 0
  · rw [if_pos hw]
    refine ⟨⟨fun h => absurd h hE, ?_⟩, fun h => absurd h hE, fun _ => rfl⟩
    rintro (h | h)
    · exact absurd h hu
    · exact absurd hw (key.mpr (fun k hk hm => by rw [hperm k hk]; exact h k hk hm)).2.1
  rw [if_neg hw]
  by_cases hx : Nat.land requested_perm X_OK ≠ 0 ∧ Nat.land
      (if caller_context.uid = i_uid inode then Nat.land (i_mode inode) 0o700 / 64
      else
        if (if caller_context.gid = i_gid inode then true
            else caller_context.process_groups.any (fun supp_gid => decide (supp_gid = i_gid inode)))
            = true
        then Nat.land (i_mode inode) 0o070 / 8 else Nat.land (i_mode inode) 0o007) 1 = 0
  · rw [if_pos hx]
    refine ⟨⟨fun h => absurd h hE, ?_⟩, fun h => absurd h hE, fun _ => rfl⟩
    rintro (h | h)
    · exact absurd h hu
    · exact absurd hx (key.mpr (fun k hk hm => by rw [hperm k hk]; exact h k hk hm)).2.2
  rw [if_neg hx]
  refine ⟨⟨fun _ => Or.inr ?_, fun _ => rfl⟩, fun _ => rfl, fun h => absurd rfl h⟩
  intro k hk hm
  rw [← hperm k hk]
  exact (key.mp ⟨hr, hw, hx⟩) k hk hm

theorem spec_triad_eq (caller_context : fuse_context) (inode : Buf) (supp : List Nat)
    (hsupp : i_gid inode ∈ supp ↔ i_gid inode ∈ caller_context.process_groups) :
    spec_triad caller_context.uid caller_context.gid supp inode =
      selected_triad caller_context inode := by
  unfold spec_triad selected_triad
  by_cases hu : caller_context.uid = i_uid inode
  · rw [if_pos hu, if_pos hu]
  · rw [if_neg hu, if_neg hu]
    by_cases hg : caller_context.gid = i_gid inode ∨ i_gid inode ∈ supp
    · have hg2 : caller_context.gid = i_gid inode ∨
          i_gid inode ∈ caller_context.process_groups := hg.imp id hsupp.mp
      rw [if_pos hg, if_pos hg2]
    · have hg2 : ¬ (caller_context.gid = i_gid inode ∨
          i_gid inode ∈ caller_context.process_groups) := fun h => hg (h.imp id hsupp.mpr)
      rw [if_neg hg, if_neg hg2]

/-- C17 (`check_access`, `src/metadata.cpp` 578-633), with `supp` the caller's
supplementary gids. The group test of the code walks the list of `getgroups`,
which is the group list of the file-system process. Whenever that list and
`supp` agree on the inode's gid, `check_access` does what the claim says: it
grants (returns 0, context untouched) exactly when the caller's uid is 0 or
every bit of the mask among read 4, write 2, execute 1 is present in the one
triad the claim selects (`spec_triad`: owner, then group by primary or
supplementary gid, then other), and every refusal returns `-EACCES` and sets
`errno` to `EACCES`. Where the two lists differ on the inode's gid the code
follows the process list (`check_access_iff`), not the caller's. -/
theorem C17_check_access (context : SimpleFS_Context) (caller_context : fuse_context)
    (inode : Buf) (requested_perm : Nat) (supp : List Nat)
    (hsupp : i_gid inode ∈ supp ↔ i_gid inode ∈ caller_context.process_groups) :
    ((check_access context caller_context inode requested_perm).1 = 0 ↔
      (caller_context.uid = 0 ∨
        ∀ k, k < 3 → requested_perm.testBit k = true →
          (spec_triad caller_context.uid caller_context.gid supp inode).testBit k = true)) ∧
    ((check_access context caller_context inode requested_perm).1 = 0 →
      (check_access context caller_context inode requested_perm).2 = context) ∧
    ((check_access context caller_context inode requested_perm).1 ≠ 0 →
      (check_access context caller_context inode requested_perm) =
        (-(EACCES : Int), setErrno context EACCES)) := by
  rw [spec_triad_eq caller_context inode supp hsupp]
  exact check_access_iff context caller_context inode requested_perm

/-- Witness for C17, the caller's supplementary gids being `[5]` as the list of
`getgroups`: the owner of an inode of mode 0077 is refused read access with
`-EACCES` although the group and other triads allow it, and a caller whose
supplementary gid is the gid of an inode of mode 0640 is granted read access
through the group triad. -/
theorem C17_check_access_witness :
    (i_gid inodeGroupRead ∈ [5] ↔ i_gid inodeGroupRead ∈ callerU.process_groups) ∧
    check_access ctxAlloc callerU inodeOwnerNone R_OK =
      (-(EACCES : Int), setErrno ctxAlloc EACCES) ∧
    (check_access ctxAlloc callerU inodeGroupRead R_OK).1 = 0 :=
  ⟨by decide!,
   (C17_check_access ctxAlloc callerU inodeOwnerNone R_OK [5] (by decide!)).2.2 (by decide!),
   (C17_check_access ctxAlloc callerU inodeGroupRead R_OK [5] (by decide!)).1.mpr
     (Or.inr (by decide!))⟩

/-- The group test of `check_access` does not see the caller's supplementary
gids. A caller of uid 1000 and gid 100 whose supplementary gids are `[5]` asks
to read an inode of mode 0640 and gid 5, so the claim's triad has the read bit;
the file-system process has no supplementary group, and `check_access` refuses
with `-EACCES`. Conversely, when the process is in group 5 and the caller has
no supplementary gid, `check_access` grants the read although the claim's
triad (other, 0) lacks the bit. -/
theorem check_access_uses_process_groups :
    (check_access ctxAlloc callerNoGroups inodeGroupRead R_OK).1 = -(EACCES : Int) ∧
    (∀ k, k < 3 → R_OK.testBit k = true →
      (spec_triad callerNoGroups.uid callerNoGroups.gid [5] inodeGroupRead).testBit k = true) ∧
    (check_access ctxAlloc callerU inodeGroupRead R_OK).1 = 0 ∧
    ¬ (∀ k, k < 3 → R_OK.testBit k = true →
      (spec_triad callerU.uid callerU.gid [] inodeGroupRead).testBit k = true) :=
  ⟨by decide!, by decide!, by decide!, by decide!⟩

/-- The write test of `check_access`: granted to uid 0 and to a caller whose
selected triad has the write bit, refused otherwise. -/
theorem check_access_write (context : SimpleFS_Context) (caller : fuse_context) (inode : Buf) :
    ((caller.uid = 0 ∨ (selected_triad caller inode).testBit 1 = true) →
      check_access context caller inode W_OK = (0, context)) ∧
    (caller.uid ≠ 0 → (selected_triad caller inode).testBit 1 = false →
      check_access context caller inode W_OK = (-(EACCES : Int), setErrno context EACCES)) := by
  obtain ⟨h1, h2, h3⟩ := check_access_iff context caller inode W_OK
  have hbits : (∀ k, k < 3 → W_OK.testBit k = true →
      (selected_triad caller inode).testBit k = true) ↔
      (selected_triad caller inode).testBit 1 = true := by
    constructor
    · intro h
      exact h 1 (by norm_num) (by decide)
    · intro h k hk hm
      interval_cases k
      · exact absurd hm (by decide)
      · exact h
      · exact absurd hm (by decide)
  rw [hbits] at h1
  constructor
  · intro hg
    have h0 := h1.mpr hg
    exact Prod.ext h0 (h2 h0)
  · intro hu hb
    apply h3
    intro h0
    rcases h1.mp h0 with h | h
    · exact hu h
    · rw [hb] at h
      exact Bool.noConfusion h

/-- C24 (`simplefs_utimens`, `src/fuse_ops.cpp` 1562-1618) on a device without
I/O failure, for a path that resolves to an inode that can be read. The code
splits the requests by its flag `specific_times_given`, which is false for a
null `tv` and for the `tv_nsec` pairs (NOW, NOW), (NOW, OMIT) and (OMIT, NOW).
With the flag true the call is refused with `-EPERM` unless the caller is uid 0
or the owner. With the flag false the call is refused with `-EACCES` unless the
caller is uid 0 or has write permission: the owner of a file without the owner
write bit is refused the "now" forms, which the claim accepts, and a caller
who is not the owner but may write is granted (NOW, OMIT) and (OMIT, NOW),
which the claim refuses. Every refusal leaves the filesystem as it was, and
every success stores the current time in `i_ctime`. -/
theorem C24_utimens_permission (context : SimpleFS_Context) (caller : fuse_context)
    (path : List Nat) (tv : Option (timespec × timespec)) (n : Nat) (inode : Buf)
    (hio : io_ok context)
    (ht : (path_to_inode_num context caller path).1 = n) (hn : n ≠ 0)
    (hi : (read_inode_from_disk context n).1 = .ok inode) :
    (utimens_specific_times_given tv = true → caller.uid ≠ 0 → caller.uid ≠ i_uid inode →
      (simplefs_utimens context caller path tv).1 = -(EPERM : Int) ∧
      same_fs context (simplefs_utimens context caller path tv).2) ∧
    (utimens_specific_times_given tv = false → caller.uid ≠ 0 →
      (selected_triad caller inode).testBit 1 = false →
      (simplefs_utimens context caller path tv).1 = -(EACCES : Int) ∧
      same_fs context (simplefs_utimens context caller path tv).2) ∧
    (((utimens_specific_times_given tv = true ∧ (caller.uid = 0 ∨ caller.uid = i_uid inode)) ∨
      (utimens_specific_times_given tv = false ∧
        (caller.uid = 0 ∨ (selected_triad caller inode).testBit 1 = true))) →
      (simplefs_utimens context caller path tv).1 = 0 ∧
      ∃ inode', (read_inode_from_disk (simplefs_utimens context caller path tv).2 n).1 =
          .ok inode' ∧
        i_ctime inode' = context.now % 256 ^ 4) := by
  obtain ⟨c1, c2, e1, e2, hs⟩ := open_target context caller path true n inode ht hi
  obtain ⟨e3, T, o, hloc, _⟩ := read_inode_from_disk_ok c1 n inode c2 e2
  have hio2 : io_ok c2 := by
    unfold io_ok
    rw [hs.1]
    exact hio
  rw [← e3] at hloc
  have hE1 : (-(EPERM : Int)) ≠ 0 := by decide
  have hE2 : (-(EACCES : Int)) ≠ 0 := by decide
  obtain ⟨ca1, ca2⟩ := check_access_write c2 caller inode
  have hgo : ∀ chk : Int × SimpleFS_Context, chk = (0, c2) →
      (if chk.1 ≠ 0 then chk
        else
          if (write_inode_to_disk chk.2 n (utimens_stamp inode tv chk.2.now)).1 ≠ 0 then
            (-((write_inode_to_disk chk.2 n (utimens_stamp inode tv chk.2.now)).2.errno : Int),
              (write_inode_to_disk chk.2 n (utimens_stamp inode tv chk.2.now)).2)
          else (0, (write_inode_to_disk chk.2 n (utimens_stamp inode tv chk.2.now)).2)).1 = 0 ∧
      ∃ inode', (read_inode_from_disk
        (if chk.1 ≠ 0 then chk
        else
          if (write_inode_to_disk chk.2 n (utimens_stamp inode tv chk.2.now)).1 ≠ 0 then
            (-((write_inode_to_disk chk.2 n (utimens_stamp inode tv chk.2.now)).2.errno : Int),
              (write_inode_to_disk chk.2 n (utimens_stamp inode tv chk.2.now)).2)
          else (0, (write_inode_to_disk chk.2 n (utimens_stamp inode tv chk.2.now)).2)).2 n).1 =
          .ok inode' ∧
        i_ctime inode' = context.now % 256 ^ 4 := by
    intro chk hchk
    subst hchk
    dsimp only
    rw [if_neg (not_not.mpr rfl)]
    obtain ⟨w1, _, y, w3, w4⟩ := read_inode_after_write c2 n (utimens_stamp inode tv c2.now)
      T o hio2 hloc
    rw [if_neg (not_not.mpr w1)]
    dsimp only
    refine ⟨rfl, y, by rw [w3], ?_⟩
    unfold i_ctime
    rw [getLE_congr y _ 4 12 (fun i _ h2 => w4 i (by unfold SIMPLEFS_INODE_SIZE; omega))]
    unfold utimens_stamp set_i_ctime
    dsimp only
    rw [getLE_setLE_same, hs.2.2.2]
  unfold simplefs_utimens
  dsimp only
  unfold path_to_inode_num
  rw [e1]
  dsimp only
  rw [if_neg hn, e2]
  dsimp only
  refine ⟨fun hsp hu ho => ?_, fun hsp hu hb => ?_, fun hacc => ?_⟩
  · have key : (if utimens_specific_times_given tv = true then
          (if caller.uid ≠ 0 ∧ caller.uid ≠ i_uid inode then (-(EPERM : Int), c2) else (0, c2))
        else check_access c2 caller inode W_OK) = (-(EPERM : Int), c2) := by
      rw [hsp, if_pos rfl, if_pos ⟨hu, ho⟩]
    rw [key]
    dsimp only
    rw [if_pos hE1]
    exact ⟨rfl, hs⟩
  · have key : (if utimens_specific_times_given tv = true then
          (if caller.uid ≠ 0 ∧ caller.uid ≠ i_uid inode then (-(EPERM : Int), c2) else (0, c2))
        else check_access c2 caller inode W_OK) = (-(EACCES : Int), setErrno c2 EACCES) := by
      rw [hsp, if_neg (by decide), ca2 hu hb]
    rw [key]
    dsimp only
    rw [if_pos hE2]
    exact ⟨rfl, same_fs_setErrno_right hs _⟩
  · have key : (if utimens_specific_times_given tv = true then
          (if caller.uid ≠ 0 ∧ caller.uid ≠ i_uid inode then (-(EPERM : Int), c2) else (0, c2))
        else check_access c2 caller inode W_OK) = (0, c2) := by
      rcases hacc with ⟨hsp, hw⟩ | ⟨hsp, hw⟩
      · have hno : ¬ (caller.uid ≠ 0 ∧ caller.uid ≠ i_uid inode) := by
          intro h
          rcases hw with h0 | h0
          · exact h.1 h0
          · exact h.2 h0
        rw [hsp, if_pos rfl, if_neg hno]
      · rw [hsp, if_neg (by decide), ca1 hw]
    exact hgo _ key

/-- Witness for C24. On `ctxSuid` the owner (uid 7) of `/f`, whose mode 04555
has no write bit, calls `simplefs_utimens` with a null `tv` and is refused with
`-EACCES`. On `ctxDir` the caller with uid 1000, who does not own the root
directory (mode 1777, owner 0) but may write it, is granted the request
(NOW, OMIT). -/
theorem C24_utimens_permission_witness :
    (callerOwner.uid = i_uid (inode_of ctxSuid 12) ∧
      (simplefs_utimens ctxSuid callerOwner [47, 102] none).1 = -(EACCES : Int) ∧
      same_fs ctxSuid (simplefs_utimens ctxSuid callerOwner [47, 102] none).2) ∧
    (callerU.uid ≠ 0 ∧ callerU.uid ≠ i_uid (inode_of ctxDir 2) ∧
      (simplefs_utimens ctxDir callerU [47]
        (some ({ tv_sec := 0, tv_nsec := UTIME_NOW }, { tv_sec := 0, tv_nsec := UTIME_OMIT }))).1
        = 0) :=
  ⟨⟨by decide!,
    (C24_utimens_permission ctxSuid callerOwner [47, 102] none 12 (inode_of ctxSuid 12)
      ctxSuid_io (by decide!) (by decide) (inode_of_spec ctxSuid 12 (by decide!))).2.1
      rfl (by decide) (by decide!)⟩,
   ⟨by decide, by decide!,
    ((C24_utimens_permission ctxDir callerU [47]
      (some ({ tv_sec := 0, tv_nsec := UTIME_NOW }, { tv_sec := 0, tv_nsec := UTIME_OMIT }))
      2 (inode_of ctxDir 2) ctxDir_io (by decide!) (by decide)
      (inode_of_spec ctxDir 2 (by decide!))).2.2
      (Or.inr ⟨by decide, Or.inr (by decide!)⟩)).1⟩⟩

/-- C21 (`simplefs_readdir`, `src/fuse_ops.cpp` 385-450) on `ctxTree`: the
caller with uid 1000 has neither read nor execute permission on `/x` (the
selected triad is 0), yet `simplefs_readdir` returns 0 and hands both entries of
the directory, `.` and `..`, to the filler. The function has no call of
`check_access`. -/
theorem C21_readdir_without_read_permission :
    callerU.uid ≠ 0 ∧
    scenario_readdir_unreadable = some (0, 0,
      [{ name := DOT, st_ino := 14, st_mode := Nat.lor S_IFDIR 0o700 },
       { name := DOTDOT, st_ino := 2, st_mode := Nat.lor S_IFDIR 0o1777 }]) :=
  ⟨by decide, by decide!⟩

/-- A directory of one block, held in slot 0, is well formed when the block is
tiled and is not the inode-table block of the directory. -/
theorem one_block_dir_ok (c : SimpleFS_Context) (inode : Buf) (num b T o : Nat)
    (offs : List Nat) (hio : io_ok c)
    (hrest : ∀ s, s < 15 → s ≠ 0 → i_block inode s = 0)
    (hsize : i_size inode = SIMPLEFS_BLOCK_SIZE) (hb : i_block inode 0 = b) (hb0 : b ≠ 0)
    (ht : Tiles (c.device_fd.data b) 0 offs)
    (hloc : inode_location c num = .ok (T, o)) (hT : b ≠ T) (hT0 : T ≠ 0) :
    dir_ok c inode num := by
  have hN : i_size inode / SIMPLEFS_BLOCK_SIZE = 1 := by rw [hsize]; rfl
  have hior : ∀ x, c.device_fd.readable x = true := fun x => (hio x).1
  have hblock : dir_block c inode 0 = b := by
    rw [dir_block_eq_node c inode 0 hior (by decide)]
    exact hb
  refine
    { io := hio
      size_whole := by rw [hsize]; rfl
      backed := ?_
      beyond := ?_
      tiled := ?_
      distinct := one_block_distinct _ _ hrest
      located := ⟨T, o, hloc, ?_⟩ }
  · intro k hk
    rw [hN] at hk
    have : k = 0 := by omega
    subst this
    rw [hblock]
    exact hb0
  · intro k hk
    rw [hN] at hk
    exact one_block_beyond c inode hio hrest k hk
  · intro k hk
    rw [hN] at hk
    have : k = 0 := by omega
    subst this
    rw [hblock]
    exact ⟨offs, ht⟩
  · intro s idxs hp heq
    have hne : tree_node c.device_fd.data inode s idxs ≠ 0 := by
      rw [heq]
      exact hT0
    obtain ⟨e1, e2⟩ := one_block_tree _ _ hrest s idxs hp hne
    subst e1
    subst e2
    rw [tree_node_nil, hb] at heq
    exact hT heq

/-- C29 (`main` of `tools/mkfs.cpp`, 433-566) on a blank device of 32832
blocks: the formatter finishes, and the backup copies in group 1 differ from
the primaries. The backup superblock holds `s_free_blocks_count` 32759 where
the primary holds 32758, and the backup GDT holds for group 0
`bg_free_blocks_count` 32731 and `bg_used_dirs_count` 0 where the primary holds
32730 and 1: the backups are written before the root directory is created and
are not written again. -/
theorem C29_mkfs_backups_are_stale :
    scenario_mkfs_backups = some [32758, 32759, 32730, 32731, 1, 0] := by
  decide!

/-! ## The formatter: layout, bitmaps and counts -/

theorem inode_table_size_blocks_default :
    inode_table_size_blocks DEFAULT_INODES_PER_GROUP = 32 := by decide

theorem default_blocks_per_group_eq : DEFAULT_BLOCKS_PER_GROUP = 32768 := by decide

theorem sub32_of_le (a b : Nat) (h : b ≤ a) (ha : a < 4294967296) : sub32 a b = a - b := by
  unfold sub32
  rw [if_pos h, Nat.mod_eq_of_lt (by omega)]

theorem u32_of_lt (x : Nat) (h : x < 4294967296) : u32 x = x := by
  unfold u32
  exact Nat.mod_eq_of_lt h

theorem u16_of_lt (x : Nat) (h : x < 65536) : u16 x = x := by
  unfold u16
  exact Nat.mod_eq_of_lt h

theorem spec_block_bitmap_bounds (G g : Nat) (hG : G ≤ 1024) :
    g * 32768 ≤ spec_block_bitmap G g ∧ spec_block_bitmap G g ≤ g * 32768 + 1026 ∧
    (g ≠ 0 → spec_block_bitmap G g + 34 = g * 32768 + spec_group_meta G g) ∧
    (g = 0 → spec_block_bitmap G g + 34 = spec_group_meta G g + 1) := by
  unfold spec_block_bitmap spec_group_meta
  by_cases h0 : g = 0
  · subst h0
    have : is_backup_group 0 = true := by decide
    simp [this]
    omega
  · by_cases hb : is_backup_group g = true
    · simp [h0, hb]; omega
    · simp [h0, hb]

theorem sum_range_succ_shift (f : Nat → Nat) (i m : Nat) :
    ((List.range (m + 1)).map (fun j => f (i + j))).sum =
      f i + ((List.range m).map (fun j => f (i + 1 + j))).sum := by
  rw [List.range_succ_eq_map, List.map_cons, List.sum_cons, List.map_map]
  congr 2
  apply List.map_congr_left
  intro j _
  simp only [Function.comp, Nat.succ_eq_add_one]
  congr 1
  omega

theorem mkfs_layout_spec (n NG G : Nat) (hn : n < 4294967296) (hG : G ≤ 1024)
    (hNG : NG ≤ 131072) (hcov : n ≤ NG * 32768) :
    ∀ (m i : Nat) (gdt : List SimpleFS_GroupDesc) (run fdb : Nat)
      (r : List SimpleFS_GroupDesc × Nat × Nat),
      i + m ≤ NG → gdt.length = i →
      mkfs_layout n NG G m i gdt run fdb = some r →
      r.1.length = i + m ∧
      (∀ j, j < i → r.1.getD j default = gdt.getD j default) ∧
      (∀ j, i ≤ j → j < i + m →
        r.1.getD j default = spec_layout_gd n NG G j ∧ spec_block_bitmap G j + 34 ≤ n) ∧
      r.2.2 = (if i = 0 ∧ 0 < m then 2 + G + 34 else fdb) ∧
      (((List.range m).map (fun j => spec_group_dec G (i + j))).sum ≤ run →
        run < 4294967296 →
        r.2.1 = run - ((List.range m).map (fun j => spec_group_dec G (i + j))).sum) := by
  intro m
  induction m with
  | zero =>
    intro i gdt run fdb r him hlen h
    simp only [mkfs_layout, Option.some.injEq] at h
    subst h
    refine ⟨by simpa using hlen, fun j _ => rfl, fun j h1 h2 => by omega, by simp, ?_⟩
    intro _ _
    simp
  | succ m ih =>
    intro i gdt run fdb r him hlen h
    have hb := spec_block_bitmap_bounds G i hG
    have hbb : (if i = 0 then 2 + G
        else if is_backup_group i = true then u32 (u32 (i * DEFAULT_BLOCKS_PER_GROUP) + 1 + G)
        else u32 (i * DEFAULT_BLOCKS_PER_GROUP)) = spec_block_bitmap G i := by
      unfold spec_block_bitmap
      rw [default_blocks_per_group_eq, u32_of_lt (i * 32768) (by omega),
        u32_of_lt (i * 32768 + 1 + G) (by omega)]
    unfold mkfs_layout at h
    simp only [hbb, inode_table_size_blocks_default] at h
    rw [u32_of_lt (spec_block_bitmap G i + 1) (by omega),
      u32_of_lt (spec_block_bitmap G i + 1 + 1) (by omega),
      dec32_of_pos _ (by omega) (by omega)] at h
    by_cases hg : spec_block_bitmap G i + 1 + 1 + 32 - 1 ≥ n ∨ spec_block_bitmap G i ≥ n
    · rw [if_pos hg] at h
      exact Option.noConfusion h
    rw [if_neg hg] at h
    have hfit : spec_block_bitmap G i + 34 ≤ n := by omega
    have h5 := ih _ _ _ _ r (by omega) (by rw [List.length_append, List.length_singleton, hlen]) h
    obtain ⟨c1, c2, c3, c4, c5⟩ := h5
    have hb0 : is_backup_group 0 = true := by decide
    have hR : (if i = NG - 1 then u32 (n - u32 (i * DEFAULT_BLOCKS_PER_GROUP))
        else DEFAULT_BLOCKS_PER_GROUP) = spec_group_range n NG i := by
      unfold spec_group_range
      rw [default_blocks_per_group_eq, u32_of_lt (i * 32768) (by omega),
        u32_of_lt (n - i * 32768) (by omega)]
    have hRle : spec_group_range n NG i ≤ 32768 := by
      unfold spec_group_range
      split
      · omega
      · exact Nat.le_refl _
    have hmeta : spec_group_meta G i ≤ 1059 := by
      unfold spec_group_meta
      split <;> omega
    have hmeta34 : 34 ≤ spec_group_meta G i := by
      unfold spec_group_meta
      split <;> omega
    have hRge : spec_group_meta G i ≤ spec_group_range n NG i := by
      unfold spec_group_range
      split
      · by_cases h0 : i = 0
        · have := hb.2.2.2 h0
          omega
        · have := hb.2.2.1 h0
          omega
      · omega
    have hfree : (if i = 0 ∨ is_backup_group i = true then
          u16 (u16 (u16 (spec_group_range n NG i) + 65536 - 1 - 1 - 32) + 65536 - 1 - G)
        else u16 (u16 (spec_group_range n NG i) + 65536 - 1 - 1 - 32)) =
        spec_group_range n NG i - spec_group_meta G i := by
      rw [u16_of_lt (spec_group_range n NG i) (by omega)]
      have e1 : u16 (spec_group_range n NG i + 65536 - 1 - 1 - 32) =
          spec_group_range n NG i - 34 := by
        unfold u16
        have : spec_group_range n NG i + 65536 - 1 - 1 - 32 =
            (spec_group_range n NG i - 34) + 65536 := by omega
        rw [this, Nat.add_mod_right, Nat.mod_eq_of_lt (by omega)]
      rw [e1]
      by_cases hbk : is_backup_group i = true
      · have hm : spec_group_meta G i = 1 + G + 34 := by
          unfold spec_group_meta
          rw [if_pos hbk]
        rw [if_pos (Or.inr hbk)]
        unfold u16
        have : spec_group_range n NG i - 34 + 65536 - 1 - G =
            (spec_group_range n NG i - spec_group_meta G i) + 65536 := by omega
        rw [this, Nat.add_mod_right, Nat.mod_eq_of_lt (by omega)]
      · have h0 : i ≠ 0 := by
          intro h0
          rw [h0] at hbk
          exact hbk hb0
        have hm : spec_group_meta G i = 34 := by
          unfold spec_group_meta
          rw [if_neg hbk]
        rw [if_neg (by simp [h0, hbk]), hm]
    have hgd : (gdt ++
          [({ bg_block_bitmap := spec_block_bitmap G i, bg_inode_bitmap := spec_block_bitmap G i + 1,
              bg_inode_table := spec_block_bitmap G i + 1 + 1,
              bg_free_blocks_count :=
                if i = 0 ∨ is_backup_group i = true then
                  u16 (u16 (u16 (if i = NG - 1 then u32 (n - u32 (i * DEFAULT_BLOCKS_PER_GROUP))
                    else DEFAULT_BLOCKS_PER_GROUP) + 65536 - 1 - 1 - 32) + 65536 - 1 - G)
                else
                  u16 (u16 (if i = NG - 1 then u32 (n - u32 (i * DEFAULT_BLOCKS_PER_GROUP))
                    else DEFAULT_BLOCKS_PER_GROUP) + 65536 - 1 - 1 - 32),
              bg_free_inodes_count := u16 DEFAULT_INODES_PER_GROUP,
              bg_used_dirs_count := 0 } : SimpleFS_GroupDesc)]).getD i default =
        spec_layout_gd n NG G i := by
      rw [hR, hfree, List.getD_eq_getElem?_getD, List.getElem?_append_right (by omega)]
      simp only [hlen, Nat.sub_self, List.getElem?_cons_zero, Option.getD_some]
      unfold spec_layout_gd
      rfl
    refine ⟨by omega, ?_, ?_, ?_, ?_⟩
    · intro j hj
      rw [c2 j (by omega), List.getD_eq_getElem?_getD, List.getD_eq_getElem?_getD,
        List.getElem?_append_left (by omega)]
    · intro j h1 h2
      by_cases hji : j = i
      · subst hji
        rw [c2 j (by omega)]
        exact ⟨hgd, hfit⟩
      · exact c3 j (by omega) (by omega)
    · rw [c4, if_neg (by omega)]
      by_cases h0 : i = 0
      · subst h0
        rw [if_pos rfl, if_pos ⟨rfl, by omega⟩]
        have : spec_block_bitmap G 0 = 2 + G := by
          unfold spec_block_bitmap
          rw [if_pos rfl]
        rw [this, u32_of_lt _ (by omega)]
      · rw [if_neg h0, if_neg (by simp [h0])]
    · intro hs hr
      rw [sum_range_succ_shift] at hs ⊢
      have hdec : (if is_backup_group i = true ∧ i ≠ 0 then sub32 (sub32 run (2 + 32)) (1 + G)
          else sub32 run (2 + 32)) = run - spec_group_dec G i := by
        have hd : spec_group_dec G i =
            34 + (if is_backup_group i = true ∧ i ≠ 0 then 1 + G else 0) := rfl
        rw [sub32_of_le run (2 + 32) (by omega) hr]
        by_cases hc : is_backup_group i = true ∧ i ≠ 0
        · rw [if_pos hc] at hd ⊢
          rw [sub32_of_le _ _ (by omega) (by omega)]
          omega
        · rw [if_neg hc] at hd ⊢
          omega
      rw [hdec] at c5
      rw [c5 (by omega) (by omega)]
      omega

theorem write_block_data (fd : Device) (b : Nat) (buf : Buf) (d : Device)
    (h : write_block fd b buf = some d) :
    ∀ x, d.data x = if x = b then buf else fd.data x := by
  intro x
  rw [(write_block_some fd b buf d h).2]
  rfl

theorem write_zero_blocks_spec (start : Nat) :
    ∀ (count i : Nat) (fd d : Device), start + i + count ≤ 4294967296 →
      write_zero_blocks fd start count i = some d →
      ∀ x, d.data x = if start + i ≤ x ∧ x < start + i + count then zeroBuf else fd.data x := by
  intro count
  induction count with
  | zero =>
    intro i fd d _ h x
    simp only [write_zero_blocks, Option.some.injEq] at h
    subst h
    rw [if_neg (by omega)]
  | succ count ih =>
    intro i fd d hb h x
    unfold write_zero_blocks at h
    rw [u32_of_lt _ (by omega)] at h
    cases hw : write_block fd (start + i) zeroBuf with
    | none => rw [hw] at h; exact Option.noConfusion h
    | some fd1 =>
      rw [hw] at h
      rw [ih (i + 1) fd1 d (by omega) h x, write_block_data fd _ _ fd1 hw x]
      by_cases hx : x = start + i
      · subst hx
        simp
      · rw [if_neg hx]
        by_cases h2 : start + (i + 1) ≤ x ∧ x < start + (i + 1) + count
        · rw [if_pos h2, if_pos (by omega)]
        · rw [if_neg h2, if_neg (by omega)]

theorem mkfs_write_gdt_spec (gdt : List SimpleFS_GroupDesc) (first : Nat) :
    ∀ (k i : Nat) (fd d : Device), first + i + k ≤ 4294967296 →
      mkfs_write_gdt gdt first k i fd = some d →
      ∀ x, d.data x = if first + i ≤ x ∧ x < first + i + k then mkfs_gdt_block gdt (x - first)
        else fd.data x := by
  intro k
  induction k with
  | zero =>
    intro i fd d _ h x
    simp only [mkfs_write_gdt, Option.some.injEq] at h
    subst h
    rw [if_neg (by omega)]
  | succ k ih =>
    intro i fd d hb h x
    unfold mkfs_write_gdt at h
    rw [u32_of_lt _ (by omega)] at h
    cases hw : write_block fd (first + i) (mkfs_gdt_block gdt i) with
    | none => rw [hw] at h; exact Option.noConfusion h
    | some fd1 =>
      rw [hw] at h
      rw [ih (i + 1) fd1 d (by omega) h x, write_block_data fd _ _ fd1 hw x]
      by_cases hx : x = first + i
      · subst hx
        rw [if_neg (by omega), if_pos rfl, if_pos (by omega), Nat.add_sub_cancel_left]
      · rw [if_neg hx]
        by_cases h2 : first + (i + 1) ≤ x ∧ x < first + (i + 1) + k
        · rw [if_pos h2, if_pos (by omega)]
        · rw [if_neg h2, if_neg (by omega)]

theorem mkfs_gdt_buffer_pos (gdt : List SimpleFS_GroupDesc) (G : Nat) (hG1 : 1 ≤ G)
    (fs_block_buffer : Buf) :
    mkfs_gdt_buffer gdt G fs_block_buffer = mkfs_gdt_block gdt (G - 1) := by
  unfold mkfs_gdt_buffer
  rw [if_neg (by omega)]

theorem mkfs_write_backups_spec (sb : SimpleFS_SuperBlock) (gdt : List SimpleFS_GroupDesc)
    (G : Nat) (hG : G ≤ 1024) (hG1 : 1 ≤ G) (hbpg : sb.s_blocks_per_group = 32768) :
    ∀ (m grp : Nat) (fd : Device) (d : Device × Buf), grp + m ≤ 131072 →
      mkfs_write_backups sb gdt G m grp fd (mkfs_gdt_block gdt (G - 1)) = some d →
      d.2 = mkfs_gdt_block gdt (G - 1) ∧
      ∀ x, d.1.data x =
        if is_backup_group (x / 32768) = true ∧ grp ≤ x / 32768 ∧ x / 32768 < grp + m ∧
            x % 32768 ≤ G then
          (if x % 32768 = 0 then blit (mkfs_gdt_block gdt (G - 1)) 0 (encode_sb sb) 0 1024
            else mkfs_gdt_block gdt (x % 32768 - 1))
        else fd.data x := by
  intro m
  induction m with
  | zero =>
    intro grp fd d _ h
    simp only [mkfs_write_backups, Option.some.injEq] at h
    subst h
    refine ⟨rfl, fun x => ?_⟩
    rw [if_neg (by omega)]
  | succ m ih =>
    intro grp fd d hb h
    unfold mkfs_write_backups at h
    by_cases hbk : is_backup_group grp = true
    · rw [if_neg (by simp [hbk]), hbpg] at h
      simp only [] at h
      rw [u32_of_lt _ (by omega)] at h
      cases hw : write_block fd (grp * 32768)
          (blit (mkfs_gdt_block gdt (G - 1)) 0 (encode_sb sb) 0 1024) with
      | none => rw [hw] at h; exact Option.noConfusion h
      | some fd1 =>
        rw [hw] at h
        simp only [] at h
        cases hw2 : mkfs_write_gdt gdt (grp * 32768 + 1) G 0 fd1 with
        | none => rw [hw2] at h; exact Option.noConfusion h
        | some fd2 =>
          rw [hw2] at h
          simp only [] at h
          rw [mkfs_gdt_buffer_pos gdt G hG1] at h
          obtain ⟨ihb, ihx⟩ := ih (grp + 1) fd2 d (by omega) h
          refine ⟨ihb, fun x => ?_⟩
          rw [ihx x,
            mkfs_write_gdt_spec gdt _ G 0 fd1 fd2 (by omega) hw2 x,
            write_block_data fd _ _ fd1 hw x]
          have hmod := Nat.mod_lt x (by decide : 32768 > 0)
          have hdm := Nat.div_add_mod x 32768
          by_cases hq : x / 32768 = grp
          · have hA : ¬ (is_backup_group (x / 32768) = true ∧ grp + 1 ≤ x / 32768 ∧
                x / 32768 < grp + 1 + m ∧ x % 32768 ≤ G) := by
              intro h3
              have := h3.2.1
              omega
            rw [if_neg hA]
            by_cases hr : x % 32768 ≤ G
            · have hB : is_backup_group (x / 32768) = true ∧ grp ≤ x / 32768 ∧
                  x / 32768 < grp + (m + 1) ∧ x % 32768 ≤ G :=
                ⟨by rw [hq]; exact hbk, by omega, by omega, hr⟩
              rw [if_pos hB]
              by_cases h0 : x % 32768 = 0
              · have hC : ¬ (grp * 32768 + 1 + 0 ≤ x ∧ x < grp * 32768 + 1 + 0 + G) := by omega
                have hD : x = grp * 32768 := by omega
                rw [if_pos h0, if_neg hC, if_pos hD]
              · have hC : grp * 32768 + 1 + 0 ≤ x ∧ x < grp * 32768 + 1 + 0 + G := by omega
                have e : x - (grp * 32768 + 1) = x % 32768 - 1 := by omega
                rw [if_neg h0, if_pos hC, e]
            · have hB : ¬ (is_backup_group (x / 32768) = true ∧ grp ≤ x / 32768 ∧
                  x / 32768 < grp + (m + 1) ∧ x % 32768 ≤ G) := fun h3 => hr h3.2.2.2
              have hC : ¬ (grp * 32768 + 1 + 0 ≤ x ∧ x < grp * 32768 + 1 + 0 + G) := by omega
              have hD : ¬ x = grp * 32768 := by omega
              rw [if_neg hB, if_neg hC, if_neg hD]
          · have hC : ¬ (grp * 32768 + 1 + 0 ≤ x ∧ x < grp * 32768 + 1 + 0 + G) := by omega
            have hD : ¬ x = grp * 32768 := by omega
            rw [if_neg hC, if_neg hD]
            by_cases h2 : is_backup_group (x / 32768) = true ∧ grp + 1 ≤ x / 32768 ∧
                x / 32768 < grp + 1 + m ∧ x % 32768 ≤ G
            · have hB : is_backup_group (x / 32768) = true ∧ grp ≤ x / 32768 ∧
                  x / 32768 < grp + (m + 1) ∧ x % 32768 ≤ G :=
                ⟨h2.1, by omega, by omega, h2.2.2.2⟩
              rw [if_pos h2, if_pos hB]
            · have hB : ¬ (is_backup_group (x / 32768) = true ∧ grp ≤ x / 32768 ∧
                  x / 32768 < grp + (m + 1) ∧ x % 32768 ≤ G) := by
                intro h3
                exact h2 ⟨h3.1, by have := h3.2.1; omega, by have := h3.2.2.1; omega, h3.2.2.2⟩
              rw [if_neg h2, if_neg hB]
    · rw [if_pos (by simp [hbk])] at h
      obtain ⟨ihb, ihx⟩ := ih (grp + 1) fd d (by omega) h
      refine ⟨ihb, fun x => ?_⟩
      rw [ihx x]
      by_cases h2 : is_backup_group (x / 32768) = true ∧ grp + 1 ≤ x / 32768 ∧
          x / 32768 < grp + 1 + m ∧ x % 32768 ≤ G
      · have hB : is_backup_group (x / 32768) = true ∧ grp ≤ x / 32768 ∧
            x / 32768 < grp + (m + 1) ∧ x % 32768 ≤ G :=
          ⟨h2.1, by omega, by omega, h2.2.2.2⟩
        rw [if_pos h2, if_pos hB]
      · have hB : ¬ (is_backup_group (x / 32768) = true ∧ grp ≤ x / 32768 ∧
            x / 32768 < grp + (m + 1) ∧ x % 32768 ≤ G) := by
          intro h3
          by_cases hq : x / 32768 = grp
          · rw [hq] at h3
            exact hbk h3.1
          · exact h2 ⟨h3.1, by have := h3.2.1; omega, by have := h3.2.2.1; omega, h3.2.2.2⟩
        rw [if_neg h2, if_neg hB]

theorem block_size_bits : SIMPLEFS_BLOCK_SIZE * 8 = 32768 := by decide

theorem is_bitmap_bit_set_zero (x : Nat) (hx : x < 32768) :
    is_bitmap_bit_set zeroBuf SIMPLEFS_BLOCK_SIZE x = false := by
  rw [is_bitmap_bit_set_eq, block_size_bits, if_pos hx]
  simp [zeroBuf]

theorem is_bitmap_bit_set_set_iff (m : Buf) (i x : Nat) (hi : i < 32768) :
    is_bitmap_bit_set (set_bitmap_bit m SIMPLEFS_BLOCK_SIZE i) SIMPLEFS_BLOCK_SIZE x = true ↔
      x = i ∨ is_bitmap_bit_set m SIMPLEFS_BLOCK_SIZE x = true := by
  rw [is_bitmap_bit_set_set m SIMPLEFS_BLOCK_SIZE i x (by rw [block_size_bits]; exact hi)]
  simp

theorem is_bitmap_bit_set_foldl (f : Nat → Nat) (x : Nat) :
    ∀ (k : Nat) (bm : Buf), (∀ j, j < k → f j < 32768) →
      (is_bitmap_bit_set ((List.range k).foldl
          (fun m j => set_bitmap_bit m SIMPLEFS_BLOCK_SIZE (f j)) bm) SIMPLEFS_BLOCK_SIZE x = true ↔
        (∃ j, j < k ∧ x = f j) ∨ is_bitmap_bit_set bm SIMPLEFS_BLOCK_SIZE x = true) := by
  intro k
  induction k with
  | zero =>
    intro bm _
    simp
  | succ k ih =>
    intro bm hf
    rw [List.range_succ, List.foldl_append, List.foldl_cons, List.foldl_nil,
      is_bitmap_bit_set_set_iff _ _ _ (hf k (by omega)), ih bm (fun j hj => hf j (by omega))]
    constructor
    · rintro (h | ⟨j, hj, h⟩ | h)
      · exact Or.inl ⟨k, by omega, h⟩
      · exact Or.inl ⟨j, by omega, h⟩
      · exact Or.inr h
    · rintro (⟨j, hj, h⟩ | h)
      · by_cases hjk : j = k
        · subst hjk
          exact Or.inl h
        · exact Or.inr (Or.inl ⟨j, by omega, h⟩)
      · exact Or.inr (Or.inr h)

theorem mkfs_block_bitmap_bits (gd : SimpleFS_GroupDesc) (i G : Nat) (hi : i < 131072)
    (hG : G ≤ 1024) (h1 : gd.bg_block_bitmap = spec_block_bitmap G i)
    (h2 : gd.bg_inode_bitmap = spec_block_bitmap G i + 1)
    (h3 : gd.bg_inode_table = spec_block_bitmap G i + 2) (x : Nat) (hx : x < 32768) :
    is_bitmap_bit_set (mkfs_block_bitmap gd i G) SIMPLEFS_BLOCK_SIZE x = true ↔
      ((if i = 0 then 1 else 0) ≤ x ∧ x < spec_group_meta G i + (if i = 0 then 1 else 0)) := by
  have hb0 : is_backup_group 0 = true := by decide
  have hst : u32 (i * DEFAULT_BLOCKS_PER_GROUP) = i * 32768 := by
    rw [default_blocks_per_group_eq, u32_of_lt _ (by omega)]
  have hrel : ∀ b, i * 32768 ≤ b → b < 4294967296 → sub32 b (i * 32768) = b - i * 32768 :=
    fun b hb hb2 => sub32_of_le b _ hb hb2
  have hbb := spec_block_bitmap_bounds G i hG
  unfold mkfs_block_bitmap
  simp only [hst, h1, h2, h3, inode_table_size_blocks_default]
  have hz := is_bitmap_bit_set_zero x hx
  have hA : sub32 (spec_block_bitmap G i) (i * 32768) = spec_block_bitmap G i - i * 32768 :=
    hrel _ (by omega) (by omega)
  have hB : sub32 (spec_block_bitmap G i + 1) (i * 32768) =
      spec_block_bitmap G i + 1 - i * 32768 := hrel _ (by omega) (by omega)
  have hC : ∀ j, j < 32 → sub32 (u32 (spec_block_bitmap G i + 2 + j)) (i * 32768) =
      spec_block_bitmap G i + 2 + j - i * 32768 := by
    intro j hj
    rw [u32_of_lt _ (by omega)]
    exact hrel _ (by omega) (by omega)
  by_cases hbk : is_backup_group i = true
  · rw [if_pos hbk]
    have hm : spec_group_meta G i = 1 + G + 34 := by
      unfold spec_group_meta
      rw [if_pos hbk]
    have hD : sub32 (if i = 0 then 1 else i * 32768) (i * 32768) = if i = 0 then 1 else 0 := by
      by_cases h0 : i = 0
      · subst h0
        rfl
      · rw [if_neg h0, if_neg h0, hrel _ (Nat.le_refl _) (by omega), Nat.sub_self]
    have hE : ∀ j, j < G →
        sub32 (if i = 0 then 2 + j else u32 (i * 32768 + 1 + j)) (i * 32768) =
          (if i = 0 then 2 + j else 1 + j) := by
      intro j hj
      by_cases h0 : i = 0
      · subst h0
        rw [if_pos rfl, if_pos rfl]
        exact hrel _ (by omega) (by omega)
      · rw [if_neg h0, if_neg h0, u32_of_lt _ (by omega), hrel _ (by omega) (by omega)]
        omega
    have hs : spec_block_bitmap G i = if i = 0 then 2 + G else i * 32768 + 1 + G := by
      unfold spec_block_bitmap
      rw [if_pos hbk]
    rw [is_bitmap_bit_set_foldl _ x G _ ?_, is_bitmap_bit_set_set_iff _ _ _ ?_,
      is_bitmap_bit_set_foldl _ x 32 _ ?_, is_bitmap_bit_set_set_iff _ _ _ ?_,
      is_bitmap_bit_set_set_iff _ _ _ ?_, hz]
    · rw [hA, hB, hD]
      constructor
      · rintro (⟨j, hj, h⟩ | h | ⟨j, hj, h⟩ | h | h | h)
        · rw [hE j hj] at h
          split at h <;> split <;> omega
        · split at h <;> split <;> omega
        · rw [hC j hj] at h
          split at hs <;> split <;> omega
        · split at hs <;> split <;> omega
        · split at hs <;> split <;> omega
        · exact Bool.noConfusion h
      · intro h
        by_cases h0 : i = 0
        · rw [if_pos h0] at h hs
          by_cases c1 : x = 1
          · exact Or.inr (Or.inl (by rw [if_pos h0]; exact c1))
          by_cases c2 : x < 2 + G
          · refine Or.inl ⟨x - 2, by omega, ?_⟩
            rw [hE _ (by omega), if_pos h0]
            omega
          by_cases c3 : x = 2 + G
          · exact Or.inr (Or.inr (Or.inr (Or.inr (Or.inl (by omega)))))
          by_cases c4 : x = 3 + G
          · exact Or.inr (Or.inr (Or.inr (Or.inl (by omega))))
          refine Or.inr (Or.inr (Or.inl ⟨x - (4 + G), by omega, ?_⟩))
          rw [hC _ (by omega)]
          omega
        · rw [if_neg h0] at h hs
          by_cases c1 : x = 0
          · exact Or.inr (Or.inl (by rw [if_neg h0]; exact c1))
          by_cases c2 : x < 1 + G
          · refine Or.inl ⟨x - 1, by omega, ?_⟩
            rw [hE _ (by omega), if_neg h0]
            omega
          by_cases c3 : x = 1 + G
          · exact Or.inr (Or.inr (Or.inr (Or.inr (Or.inl (by omega)))))
          by_cases c4 : x = 2 + G
          · exact Or.inr (Or.inr (Or.inr (Or.inl (by omega))))
          refine Or.inr (Or.inr (Or.inl ⟨x - (3 + G), by omega, ?_⟩))
          rw [hC _ (by omega)]
          omega
    · rw [hA]
      split at hs <;> omega
    · rw [hB]
      split at hs <;> omega
    · intro j hj
      rw [hC j hj]
      split at hs <;> omega
    · rw [hD]
      split <;> omega
    · intro j hj
      rw [hE j hj]
      split <;> omega
  · rw [if_neg hbk]
    have h0 : i ≠ 0 := by
      intro h0
      rw [h0] at hbk
      exact hbk hb0
    have hm : spec_group_meta G i = 34 := by
      unfold spec_group_meta
      rw [if_neg hbk]
    have hs : spec_block_bitmap G i = i * 32768 := by
      unfold spec_block_bitmap
      rw [if_neg h0, if_neg hbk]
    rw [is_bitmap_bit_set_foldl _ x 32 _ ?_, is_bitmap_bit_set_set_iff _ _ _ ?_,
      is_bitmap_bit_set_set_iff _ _ _ ?_, hz]
    · rw [hA, hB, if_neg h0, hm]
      constructor
      · rintro (⟨j, hj, h⟩ | h | h | h)
        · rw [hC j hj] at h
          omega
        · omega
        · omega
        · exact Bool.noConfusion h
      · intro h
        by_cases c3 : x = 0
        · exact Or.inr (Or.inr (Or.inl (by omega)))
        by_cases c4 : x = 1
        · exact Or.inr (Or.inl (by omega))
        refine Or.inl ⟨x - 2, by omega, ?_⟩
        rw [hC _ (by omega)]
        omega
    · rw [hA]
      omega
    · rw [hB]
      omega
    · intro j hj
      rw [hC j hj]
      omega

theorem group_blocks_ok_congr (data data' : Nat → Buf) (G j : Nat)
    (h : ∀ x, spec_block_bitmap G j ≤ x → x < spec_block_bitmap G j + 34 → data' x = data x)
    (hok : group_blocks_ok data G j) : group_blocks_ok data' G j := by
  obtain ⟨a, b, c⟩ := hok
  refine ⟨?_, ?_, ?_⟩
  · intro x hx
    rw [h _ (Nat.le_refl _) (by omega)]
    exact a x hx
  · intro x hx
    rw [h _ (by omega) (by omega)]
    exact b x hx
  · intro t ht
    rw [h _ (by omega) (by omega)]
    exact c t ht

theorem set_getD_self {α : Type} (l : List α) (i : Nat) (d : α) (hi : i < l.length) :
    l.set i (l.getD i d) = l := by
  apply List.ext_getElem?
  intro k
  rw [List.getElem?_set]
  by_cases hk : i = k
  · subst hk
    rw [if_pos rfl, if_pos hi, List.getD_eq_getElem l d hi, List.getElem?_eq_getElem hi]
  · rw [if_neg hk]

theorem mkfs_init_groups_rest (n NG G : Nat) (hG : G ≤ 1024) (hNG : NG ≤ 131072) :
    ∀ (m i : Nat) (fd : Device) (sb : SimpleFS_SuperBlock) (gdt : List SimpleFS_GroupDesc)
      (r : Device × SimpleFS_SuperBlock × List SimpleFS_GroupDesc),
      1 ≤ i → i + m ≤ NG → gdt.length = NG →
      (∀ j, i ≤ j → j < NG → gdt.getD j default = spec_layout_gd n NG G j) →
      mkfs_init_groups G m i fd sb gdt = some r →
      r.2.1 = sb ∧ r.2.2 = gdt ∧
      (∀ j, i ≤ j → j < i + m → group_blocks_ok r.1.data G j) ∧
      (∀ x, (∀ j, i ≤ j → j < i + m →
          x < spec_block_bitmap G j ∨ spec_block_bitmap G j + 34 ≤ x) →
        r.1.data x = fd.data x) := by
  intro m
  induction m with
  | zero =>
    intro i fd sb gdt r _ _ _ _ h
    simp only [mkfs_init_groups, Option.some.injEq] at h
    subst h
    exact ⟨rfl, rfl, fun j h1 h2 => by omega, fun x _ => rfl⟩
  | succ m ih =>
    intro i fd sb gdt r hi1 him hlen hgd h
    have h0 : i ≠ 0 := by omega
    have hgi := hgd i (Nat.le_refl _) (by omega)
    unfold mkfs_init_groups at h
    simp only [if_neg h0, hgi, inode_table_size_blocks_default] at h
    have hset : gdt.set i (spec_layout_gd n NG G i) = gdt := by
      rw [← hgi]
      exact set_getD_self gdt i default (by omega)
    rw [hset] at h
    have e1 : (spec_layout_gd n NG G i).bg_block_bitmap = spec_block_bitmap G i := rfl
    have e2 : (spec_layout_gd n NG G i).bg_inode_bitmap = spec_block_bitmap G i + 1 := rfl
    have e3 : (spec_layout_gd n NG G i).bg_inode_table = spec_block_bitmap G i + 2 := rfl
    rw [e1, e2, e3] at h
    have hbb := spec_block_bitmap_bounds G i hG
    cases hw1 : write_block fd (spec_block_bitmap G i)
        (mkfs_block_bitmap (spec_layout_gd n NG G i) i G) with
    | none => rw [hw1] at h; exact Option.noConfusion h
    | some fd1 =>
      rw [hw1] at h
      simp only [] at h
      cases hw2 : write_block fd1 (spec_block_bitmap G i + 1) zeroBuf with
      | none => rw [hw2] at h; exact Option.noConfusion h
      | some fd2 =>
        rw [hw2] at h
        simp only [] at h
        cases hw3 : write_zero_blocks fd2 (spec_block_bitmap G i + 2) 32 0 with
        | none => rw [hw3] at h; exact Option.noConfusion h
        | some fd3 =>
          rw [hw3] at h
          simp only [] at h
          obtain ⟨c1, c2, c3, c4⟩ := ih (i + 1) fd3 sb gdt r (by omega) (by omega) hlen
            (fun j hj hj2 => hgd j (by omega) hj2) h
          have d1 := write_block_data fd _ _ fd1 hw1
          have d2 := write_block_data fd1 _ _ fd2 hw2
          have d3 := write_zero_blocks_spec _ 32 0 fd2 fd3 (by omega) hw3
          refine ⟨c1, c2, ?_, ?_⟩
          · intro j hj1 hj2
            by_cases hji : j = i
            · subst hji
              apply group_blocks_ok_congr fd3.data
              · intro x hx1 hx2
                apply c4
                intro j' hj'1 hj'2
                have := (spec_block_bitmap_bounds G j' hG).1
                left
                omega
              · refine ⟨?_, ?_, ?_⟩
                · intro x hx
                  rw [d3, if_neg (by omega), d2, if_neg (by omega), d1, if_pos rfl,
                    mkfs_block_bitmap_bits _ j G (by omega) hG e1 e2 e3 x hx, if_neg h0]
                  omega
                · intro x hx
                  rw [d3, if_neg (by omega), d2, if_pos rfl, is_bitmap_bit_set_zero x hx]
                  constructor
                  · intro hf
                    exact Bool.noConfusion hf
                  · intro hf
                    exact absurd hf.1 h0
                · intro t ht
                  rw [d3, if_pos (by omega)]
            · exact c3 j (by omega) (by omega)
          · intro x hx
            rw [c4 x (fun j hj1 hj2 => hx j (by omega) (by omega)), d3 x, d2 x, d1 x]
            have := hx i (Nat.le_refl _) (by omega)
            rw [if_neg (by omega), if_neg (by omega), if_neg (by omega)]

theorem mkfs_init_groups_spec (n NG G : Nat) (hG : G ≤ 1024) (hNG : NG ≤ 131072)
    (h1 : 1 ≤ NG) (fd : Device) (sb : SimpleFS_SuperBlock) (gdt : List SimpleFS_GroupDesc)
    (r : Device × SimpleFS_SuperBlock × List SimpleFS_GroupDesc)
    (hlen : gdt.length = NG)
    (hgd : ∀ j, j < NG → gdt.getD j default = spec_layout_gd n NG G j)
    (hfree : spec_group_meta G 0 < spec_group_range n NG 0)
    (hrange : spec_group_range n NG 0 ≤ 32768)
    (h : mkfs_init_groups G NG 0 fd sb gdt = some r) :
    r.2.1 = spec_init_sb sb ∧
    r.2.2.length = NG ∧
    (∀ j, j < NG → r.2.2.getD j default = spec_init_gd n NG G j) ∧
    (∀ j, j < NG → group_blocks_ok r.1.data G j) ∧
    (∀ x, (∀ j, j < NG → x < spec_block_bitmap G j ∨ spec_block_bitmap G j + 34 ≤ x) →
      r.1.data x = fd.data x) := by
  obtain ⟨k, rfl⟩ : ∃ k, NG = k + 1 := ⟨NG - 1, by omega⟩
  have hg0 := hgd 0 (by omega)
  have e1 : (spec_layout_gd n (k + 1) G 0).bg_block_bitmap = spec_block_bitmap G 0 := rfl
  have e2 : (spec_layout_gd n (k + 1) G 0).bg_inode_bitmap = spec_block_bitmap G 0 + 1 := rfl
  have e3 : (spec_layout_gd n (k + 1) G 0).bg_inode_table = spec_block_bitmap G 0 + 2 := rfl
  have e4 : (spec_layout_gd n (k + 1) G 0).bg_free_blocks_count =
      spec_group_range n (k + 1) 0 - spec_group_meta G 0 := rfl
  have e5 : (spec_layout_gd n (k + 1) G 0).bg_free_inodes_count = 1024 := rfl
  have hs0 : spec_block_bitmap G 0 = 2 + G := by
    unfold spec_block_bitmap
    rw [if_pos rfl]
  have hbit0 : ¬ is_bitmap_bit_set (mkfs_block_bitmap (spec_layout_gd n (k + 1) G 0) 0 G)
      SIMPLEFS_BLOCK_SIZE 0 = true := by
    rw [mkfs_block_bitmap_bits _ 0 G (by omega) hG e1 e2 e3 0 (by omega)]
    simp
  have hnz : ¬ ((spec_layout_gd n (k + 1) G 0).bg_block_bitmap = 0 ∨
      (spec_layout_gd n (k + 1) G 0).bg_inode_bitmap = 0 ∨
      (spec_layout_gd n (k + 1) G 0).bg_inode_table = 0) := by
    rw [e1, e2, e3, hs0]
    omega
  have hnz2 : ¬ (spec_block_bitmap G 0 = 0 ∨ spec_block_bitmap G 0 + 1 = 0 ∨
      spec_block_bitmap G 0 + 2 = 0) := by
    rw [hs0]
    omega
  have e6 : (spec_layout_gd n (k + 1) G 0).bg_used_dirs_count = 0 := rfl
  have hpos : spec_group_range n (k + 1) 0 - spec_group_meta G 0 > 0 := by omega
  have h1024 : (1024 : Nat) ≥ 2 := by decide
  unfold mkfs_init_groups at h
  simp only [if_pos, hg0, hbit0, hnz, not_false_eq_true, inode_table_size_blocks_default,
    Bool.false_eq_true, if_true, e1, e2, e3, e4, e5, e6, hpos, h1024, hnz2] at h
  have hdec : dec16 (spec_group_range n (k + 1) 0 - spec_group_meta G 0) =
      spec_group_range n (k + 1) 0 - spec_group_meta G 0 - 1 :=
    dec16_of_pos _ hpos (by omega)
  rw [hdec] at h
  cases hw1 : write_block fd (spec_block_bitmap G 0)
      (set_bitmap_bit (mkfs_block_bitmap (spec_layout_gd n (k + 1) G 0) 0 G)
        SIMPLEFS_BLOCK_SIZE 0) with
  | none => rw [hw1] at h; exact Option.noConfusion h
  | some fd1 =>
    rw [hw1] at h
    simp only [] at h
    cases hw2 : write_block fd1 (spec_block_bitmap G 0 + 1)
        (set_bitmap_bit (set_bitmap_bit zeroBuf SIMPLEFS_BLOCK_SIZE 0) SIMPLEFS_BLOCK_SIZE 1) with
    | none => rw [hw2] at h; exact Option.noConfusion h
    | some fd2 =>
      rw [hw2] at h
      simp only [] at h
      cases hw3 : write_zero_blocks fd2 (spec_block_bitmap G 0 + 2) 32 0 with
      | none => rw [hw3] at h; exact Option.noConfusion h
      | some fd3 =>
        rw [hw3] at h
        simp only [] at h
        have hgd2 : ∀ j, 0 + 1 ≤ j → j < k + 1 →
            (gdt.set 0
              { bg_block_bitmap := spec_block_bitmap G 0
                bg_inode_bitmap := spec_block_bitmap G 0 + 1
                bg_inode_table := spec_block_bitmap G 0 + 2
                bg_free_blocks_count := spec_group_range n (k + 1) 0 - spec_group_meta G 0 - 1
                bg_free_inodes_count := 1024 - 2
                bg_used_dirs_count := 0 }).getD j default = spec_layout_gd n (k + 1) G j := by
          intro j hj1 hj2
          rw [getD_set, if_neg (by omega)]
          exact hgd j hj2
        obtain ⟨c1, c2, c3, c4⟩ := mkfs_init_groups_rest n (k + 1) G hG hNG k (0 + 1) fd3 _ _ r
          (by omega) (by omega) (by rw [List.length_set]; exact hlen) hgd2 h
        have d1 := write_block_data fd _ _ fd1 hw1
        have d2 := write_block_data fd1 _ _ fd2 hw2
        have d3 := write_zero_blocks_spec _ 32 0 fd2 fd3 (by omega) hw3
        have hfr : ∀ x, spec_block_bitmap G 0 ≤ x → x < spec_block_bitmap G 0 + 34 →
            r.1.data x = fd3.data x := by
          intro x hx1 hx2
          apply c4
          intro j' hj'1 hj'2
          have := (spec_block_bitmap_bounds G j' hG).1
          left
          omega
        refine ⟨?_, ?_, ?_, ?_, ?_⟩
        · rw [c1]
          unfold spec_init_sb
          by_cases hp : sb.s_free_blocks_count > 0
          · simp only [hp, if_true]
          · simp only [hp, if_false]
        · rw [c2, List.length_set]
          exact hlen
        · intro j hj
          rw [c2, getD_set]
          unfold spec_init_gd
          by_cases hj0 : j = 0
          · subst hj0
            rw [if_pos ⟨rfl, by omega⟩, if_pos rfl]
            rfl
          · rw [if_neg (by omega), if_neg hj0]
            exact hgd j hj
        · intro j hj
          by_cases hj0 : j = 0
          · subst hj0
            apply group_blocks_ok_congr fd3.data _ G 0 hfr
            refine ⟨?_, ?_, ?_⟩
            · intro x hx
              rw [d3, if_neg (by omega), d2, if_neg (by omega), d1, if_pos rfl,
                is_bitmap_bit_set_set_iff _ _ _ (by omega),
                mkfs_block_bitmap_bits _ 0 G (by omega) hG e1 e2 e3 x hx]
              simp only [if_true]
              omega
            · intro x hx
              rw [d3, if_neg (by omega), d2, if_pos rfl,
                is_bitmap_bit_set_set_iff _ _ _ (by omega),
                is_bitmap_bit_set_set_iff _ _ _ (by omega), is_bitmap_bit_set_zero x hx]
              constructor
              · rintro (hf | hf | hf)
                · exact ⟨rfl, by omega⟩
                · exact ⟨rfl, by omega⟩
                · exact Bool.noConfusion hf
              · intro hf
                have := hf.2
                by_cases hx1 : x = 1
                · exact Or.inl hx1
                · exact Or.inr (Or.inl (by omega))
            · intro t ht
              rw [d3, if_pos (by omega)]
          · exact c3 j (by omega) (by omega)
        · intro x hx
          rw [c4 x (fun j hj1 hj2 => hx j (by omega)), d3 x, d2 x, d1 x]
          have := hx 0 (by omega)
          rw [if_neg (by omega), if_neg (by omega), if_neg (by omega)]

theorem spec_groups_facts (n : Nat) (h64 : 64 ≤ n) (hn : n < 4294967296) :
    1 ≤ spec_groups n ∧ spec_groups n ≤ 131072 ∧ n ≤ spec_groups n * 32768 ∧
    (spec_groups n - 1) * 32768 < n ∧
    1 ≤ spec_gdt_blocks n ∧ spec_gdt_blocks n ≤ 1024 ∧
    (spec_groups n = 1 → spec_gdt_blocks n = 1) := by
  unfold spec_gdt_blocks spec_groups
  omega

theorem mkfs_params (n : Nat) (h64 : 64 ≤ n) (hn : n < 4294967296) :
    (if u32 ((n + DEFAULT_BLOCKS_PER_GROUP - 1) / DEFAULT_BLOCKS_PER_GROUP) = 0 then 1
      else u32 ((n + DEFAULT_BLOCKS_PER_GROUP - 1) / DEFAULT_BLOCKS_PER_GROUP)) = spec_groups n ∧
    (u32 (spec_groups n * 32) + SIMPLEFS_BLOCK_SIZE - 1) / SIMPLEFS_BLOCK_SIZE =
      spec_gdt_blocks n ∧
    u32 (min (spec_groups n * DEFAULT_INODES_PER_GROUP) 4294967295) = spec_groups n * 1024 ∧
    u32 n = n := by
  have hf := spec_groups_facts n h64 hn
  have e : (n + DEFAULT_BLOCKS_PER_GROUP - 1) / DEFAULT_BLOCKS_PER_GROUP = spec_groups n := by
    rw [default_blocks_per_group_eq]
    rfl
  have hbs : SIMPLEFS_BLOCK_SIZE = 4096 := rfl
  have hipg : DEFAULT_INODES_PER_GROUP = 1024 := rfl
  refine ⟨?_, ?_, ?_, u32_of_lt n hn⟩
  · rw [e, u32_of_lt _ (by omega), if_neg (by omega)]
  · rw [u32_of_lt _ (by omega), hbs]
    rfl
  · rw [hipg, Nat.min_eq_left (by omega), u32_of_lt _ (by omega)]

theorem spec_group_meta_facts (G g : Nat) (hG : G ≤ 1024) :
    34 ≤ spec_group_meta G g ∧ spec_group_meta G g ≤ 1059 ∧
    (g ≠ 0 → spec_group_dec G g = spec_group_meta G g) ∧
    spec_group_dec G 0 = 34 ∧ spec_group_meta G 0 = 35 + G := by
  have hb0 : is_backup_group 0 = true := by decide
  unfold spec_group_meta spec_group_dec
  refine ⟨by split <;> omega, by split <;> omega, ?_, ?_, ?_⟩
  · intro h0
    by_cases hb : is_backup_group g = true
    · rw [if_pos hb, if_pos ⟨hb, h0⟩]
      omega
    · rw [if_neg hb, if_neg (fun h => hb h.1)]
  · rw [if_neg (fun h => h.2 rfl)]
  · rw [if_pos hb0]
    omega

theorem spec_partial_sum (n NG G : Nat) (hG : G ≤ 1024) :
    ∀ k, 1 ≤ k → k ≤ NG - 1 →
      1 + G + ((List.range k).map (spec_group_dec G)).sum +
        ((List.range k).map
          (fun j => spec_group_range n NG j - spec_group_meta G j)).sum = k * 32768 := by
  intro k
  induction k with
  | zero => intro h; omega
  | succ k ih =>
    intro _ hk
    have hm := spec_group_meta_facts G k hG
    have hr : spec_group_range n NG k = 32768 := by
      unfold spec_group_range
      rw [if_neg (by omega)]
    rw [List.sum_range_succ, List.sum_range_succ, hr]
    by_cases hk0 : k = 0
    · subst hk0
      simp only [List.range_zero, List.map_nil, List.sum_nil]
      omega
    · have := ih (by omega) (by omega)
      have := hm.2.2.1 hk0
      omega

theorem spec_counts_sum (n NG G : Nat) (hG : G ≤ 1024) (h1 : 1 ≤ NG)
    (hcov : n ≤ NG * 32768) (hlast : (NG - 1) * 32768 < n)
    (hfit : spec_block_bitmap G (NG - 1) + 34 ≤ n) (hfit0 : spec_group_meta G 0 + 2 ≤ n) :
    1 + G + ((List.range NG).map (spec_group_dec G)).sum +
      ((List.range NG).map
        (fun j => spec_group_range n NG j - spec_group_meta G j)).sum = n ∧
    spec_group_meta G 0 + 2 ≤ spec_group_range n NG 0 ∧
    spec_group_range n NG 0 ≤ 32768 := by
  obtain ⟨k, rfl⟩ : ∃ k, NG = k + 1 := ⟨NG - 1, by omega⟩
  have hm := spec_group_meta_facts G k hG
  have hm0 := spec_group_meta_facts G 0 hG
  have hbb := spec_block_bitmap_bounds G k hG
  simp only [Nat.add_sub_cancel] at hlast hfit
  have hr : spec_group_range n (k + 1) k = n - k * 32768 := by
    unfold spec_group_range
    rw [if_pos (by omega)]
  have hr0 : spec_group_meta G 0 + 2 ≤ spec_group_range n (k + 1) 0 ∧
      spec_group_range n (k + 1) 0 ≤ 32768 := by
    unfold spec_group_range
    by_cases hk0 : k = 0
    · subst hk0
      rw [if_pos rfl]
      omega
    · rw [if_neg (by omega)]
      omega
  refine ⟨?_, hr0.1, hr0.2⟩
  rw [List.sum_range_succ, List.sum_range_succ, hr]
  by_cases hk0 : k = 0
  · subst hk0
    simp only [List.range_zero, List.map_nil, List.sum_nil]
    omega
  · have := spec_partial_sum n (k + 1) G hG k (by omega) (by omega)
    have := hm.2.2.1 hk0
    have := hbb.2.2.1 hk0
    omega

theorem countP_range_add (p : Nat → Bool) (a b : Nat) :
    (List.range (a + b)).countP p =
      (List.range a).countP p + (List.range b).countP (fun x => p (a + x)) := by
  induction b with
  | zero => simp
  | succ b ih =>
    rw [← Nat.add_assoc, List.range_succ, List.countP_append, ih, List.range_succ,
      List.countP_append]
    simp only [List.countP_cons, List.countP_nil]
    omega

theorem countP_range_ge (L r : Nat) :
    (List.range r).countP (fun x => decide (L ≤ x)) = r - L := by
  induction r with
  | zero => simp
  | succ r ih =>
    rw [List.range_succ, List.countP_append, ih]
    simp only [List.countP_cons, List.countP_nil]
    by_cases h : L ≤ r
    · simp [h]
      omega
    · simp [h]
      omega

theorem countP_groups (P : Nat) (hP : 0 < P) (L : Nat → Nat) :
    ∀ k r, r ≤ P →
      (List.range (k * P + r)).countP (fun b => decide (L (b / P) ≤ b % P)) =
        ((List.range k).map (fun g => P - L g)).sum + (r - L k) := by
  have one : ∀ k r, r ≤ P →
      (List.range r).countP (fun x => decide (L ((k * P + x) / P) ≤ (k * P + x) % P)) =
        r - L k := by
    intro k r hr
    rw [← countP_range_ge (L k) r]
    apply countP_range_congr
    intro x hx
    have hx2 : x < P := by omega
    have e1 : (k * P + x) / P = k := by
      rw [Nat.mul_comm, Nat.mul_add_div hP, Nat.div_eq_of_lt hx2, Nat.add_zero]
    have e2 : (k * P + x) % P = x := by
      rw [Nat.mul_comm, Nat.mul_add_mod, Nat.mod_eq_of_lt hx2]
    rw [e1, e2]
  intro k
  induction k with
  | zero =>
    intro r hr
    have := one 0 r hr
    simp only [Nat.zero_mul, Nat.zero_add] at this
    simp only [Nat.zero_mul, Nat.zero_add, List.range_zero, List.map_nil, List.sum_nil]
    exact this
  | succ k ih =>
    intro r hr
    have e : (k + 1) * P + r = (k * P + P) + r := by rw [Nat.add_mul, Nat.one_mul]
    rw [e, countP_range_add, ih P (Nat.le_refl _), List.sum_range_succ]
    have := one (k + 1) r hr
    rw [Nat.add_mul, Nat.one_mul] at this
    rw [this]

theorem spec_free_blocks_eq (n NG G : Nat) (h1 : 1 ≤ NG)
    (h0 : spec_group_meta G 0 + 2 ≤ spec_group_range n NG 0) :
    ((List.range NG).map (fun j => spec_group_range n NG j - spec_group_used G j)).sum + 2 =
      ((List.range NG).map (fun j => spec_group_range n NG j - spec_group_meta G j)).sum := by
  obtain ⟨k, rfl⟩ : ∃ k, NG = k + 1 := ⟨NG - 1, by omega⟩
  rw [List.range_succ_eq_map, List.map_cons, List.map_cons, List.sum_cons, List.sum_cons,
    List.map_map, List.map_map]
  have e : (List.map ((fun j => spec_group_range n (k + 1) j - spec_group_used G j) ∘ Nat.succ)
      (List.range k)) =
      (List.map ((fun j => spec_group_range n (k + 1) j - spec_group_meta G j) ∘ Nat.succ)
        (List.range k)) := by
    apply List.map_congr_left
    intro j _
    simp only [Function.comp, spec_group_used, Nat.succ_ne_zero, if_false, Nat.add_zero]
  rw [e]
  have e0 : spec_group_used G 0 = spec_group_meta G 0 + 2 := by
    unfold spec_group_used
    rw [if_pos rfl]
  rw [e0]
  omega

theorem list_eq_map_range {α : Type} [Inhabited α] (l : List α) (f : Nat → α) (N : Nat)
    (hlen : l.length = N) (h : ∀ j, j < N → l.getD j default = f j) :
    l = (List.range N).map f := by
  apply List.ext_getElem
  · rw [List.length_map, List.length_range, hlen]
  · intro i h1 h2
    rw [List.getElem_map, List.getElem_range, ← h i (by omega), List.getD_eq_getElem l default h1]

theorem firstIdx_here (p : Nat → Bool) (k start : Nat) (hk : 0 < k) (hp : p start = true) :
    firstIdx p k start = some start := by
  obtain ⟨m, rfl⟩ : ∃ m, k = m + 1 := ⟨k - 1, by omega⟩
  unfold firstIdx
  rw [if_pos hp]

theorem mkfs_eq_staged (fd : Device) (n now : Nat) : mkfs fd n now = mkfs_staged fd n now := by
  rfl

theorem mkfs_root_spec (n now NG F I : Nat) (fd : Device) (gdt : List SimpleFS_GroupDesc)
    (B : Buf) (r : Device × SimpleFS_SuperBlock × List SimpleFS_GroupDesc)
    (hG : spec_gdt_blocks n ≤ 1024) (hF : F + 1 < 4294967296)
    (hg0 : gdt.getD 0 default = spec_init_gd n NG (spec_gdt_blocks n) 0)
    (hr0 : spec_group_meta (spec_gdt_blocks n) 0 + 2 ≤ spec_group_range n NG 0)
    (hr1 : spec_group_range n NG 0 ≤ 32768)
    (hbit : ∀ x, x < 32768 → (is_bitmap_bit_set (fd.data (2 + (spec_gdt_blocks n))) SIMPLEFS_BLOCK_SIZE x = true ↔
      x < spec_group_meta (spec_gdt_blocks n) 0 + 1))
    (h : mkfs_root fd (spec_sb n now (F + 1) I) gdt (spec_gdt_blocks n) now B = some r) :
    r.2.1 = spec_sb n now F I ∧
    r.2.2 = gdt.set 0 (spec_final_gd n NG (spec_gdt_blocks n) 0) ∧
    ∀ x, r.1.data x =
      if 2 ≤ x ∧ x < 2 + (spec_gdt_blocks n) then mkfs_gdt_block r.2.2 (x - 2)
      else if x = 1 then blit B 0 (encode_sb r.2.1) 0 1024
      else if x = 2 + (spec_gdt_blocks n) + 2 then
        blit (fd.data (2 + (spec_gdt_blocks n) + 2)) 128
          (set_i_block (set_i_blocks (set_i_size
            (new_inode_record (Nat.lor S_IFDIR 0o777) 0 0 2 now) SIMPLEFS_BLOCK_SIZE)
            (SIMPLEFS_BLOCK_SIZE / 512)) 0 (2 + (spec_gdt_blocks n) + 34)) 0 SIMPLEFS_INODE_SIZE
      else if x = 2 + (spec_gdt_blocks n) + 34 then mkfs_root_block
      else if x = 2 + (spec_gdt_blocks n) then set_bitmap_bit (fd.data (2 + (spec_gdt_blocks n))) SIMPLEFS_BLOCK_SIZE (2 + (spec_gdt_blocks n) + 34)
      else fd.data x := by
  have hm0 := spec_group_meta_facts (spec_gdt_blocks n) 0 hG
  have hbb0 : spec_block_bitmap (spec_gdt_blocks n) 0 = 2 + (spec_gdt_blocks n) := by
    unfold spec_block_bitmap
    rw [if_pos rfl]
  have q1 : ∀ a b, (spec_sb n now a b).s_blocks_per_group = 32768 := fun _ _ => rfl
  have q2 : ∀ a b, (spec_sb n now a b).s_first_data_block = 2 + spec_gdt_blocks n + 34 :=
    fun _ _ => rfl
  have q3 : ∀ a b, (spec_sb n now a b).s_free_blocks_count = a := fun _ _ => rfl
  have g1 : (spec_init_gd n NG (spec_gdt_blocks n) 0).bg_block_bitmap = spec_block_bitmap (spec_gdt_blocks n) 0 := rfl
  have g2 : (spec_init_gd n NG (spec_gdt_blocks n) 0).bg_inode_bitmap = spec_block_bitmap (spec_gdt_blocks n) 0 + 1 := rfl
  have g3 : (spec_init_gd n NG (spec_gdt_blocks n) 0).bg_inode_table = spec_block_bitmap (spec_gdt_blocks n) 0 + 2 := rfl
  have g4 : (spec_init_gd n NG (spec_gdt_blocks n) 0).bg_free_blocks_count =
      spec_group_range n NG 0 - spec_group_meta (spec_gdt_blocks n) 0 - 1 := rfl
  have g5 : (spec_init_gd n NG (spec_gdt_blocks n) 0).bg_free_inodes_count = 1022 := rfl
  have g6 : (spec_init_gd n NG (spec_gdt_blocks n) 0).bg_used_dirs_count = 0 := rfl
  have hlt : 2 + (spec_gdt_blocks n) + 34 < 32768 := by omega
  have c1 : (SIMPLEFS_ROOT_INODE_NUM - 1) / (SIMPLEFS_BLOCK_SIZE / SIMPLEFS_INODE_SIZE) = 0 := by
    decide
  have c2 : (SIMPLEFS_ROOT_INODE_NUM - 1) % (SIMPLEFS_BLOCK_SIZE / SIMPLEFS_INODE_SIZE) *
      SIMPLEFS_INODE_SIZE = 128 := by decide
  have hdec32 : dec32 (F + 1) = F := dec32_of_pos _ (by omega) (by omega)
  have hdec16 : dec16 (spec_group_range n NG 0 - spec_group_meta (spec_gdt_blocks n) 0 - 1) =
      spec_group_range n NG 0 - spec_group_used (spec_gdt_blocks n) 0 := by
    rw [dec16_of_pos _ (by omega) (by omega)]
    unfold spec_group_used
    rw [if_pos rfl]
    omega
  have hinc16 : inc16 0 = 1 := by decide
  unfold mkfs_root at h
  simp only [q1, q2, q3, hg0, g1, g2, g3, g4, g5, g6, hbb0, hlt, if_true, c1, c2, Nat.add_zero,
    hdec32, hdec16, hinc16] at h
  cases hR : read_block fd (2 + (spec_gdt_blocks n)) with
  | none => rw [hR] at h; exact Option.noConfusion h
  | some buf =>
  rw [hR] at h
  simp only [] at h
  have hbuf := (read_block_some fd _ buf hR).2
  have hfirst : firstIdx (fun o => !is_bitmap_bit_set buf SIMPLEFS_BLOCK_SIZE o)
      (32768 - (2 + (spec_gdt_blocks n) + 34)) (2 + (spec_gdt_blocks n) + 34) = some (2 + (spec_gdt_blocks n) + 34) := by
    apply firstIdx_here _ _ _ (by omega)
    have := hbit (2 + (spec_gdt_blocks n) + 34) (by omega)
    rw [← hbuf] at this
    cases hv : is_bitmap_bit_set buf SIMPLEFS_BLOCK_SIZE (2 + (spec_gdt_blocks n) + 34) with
    | false => rfl
    | true =>
      have := this.1 hv
      omega
  rw [hfirst] at h
  simp only [] at h
  rw [if_neg (by omega), u32_of_lt _ (by omega)] at h
  split at h
  · exact Option.noConfusion h
  rename_i fd7 hw5
  split at h
  · exact Option.noConfusion h
  rename_i fd8 hw6
  split at h
  · exact Option.noConfusion h
  rename_i itb hR2
  split at h
  · exact Option.noConfusion h
  rename_i fd9 hw7
  split at h
  · exact Option.noConfusion h
  rename_i fd10 hw8
  split at h
  · exact Option.noConfusion h
  rename_i fd11 hw9
  have hr := Option.some.inj h
  subst hr
  clear h
  have d7 := write_block_data fd _ _ fd7 hw5
  have d8 := write_block_data fd7 _ _ fd8 hw6
  have hitb := (read_block_some fd8 _ itb hR2).2
  have d9 := write_block_data fd8 _ _ fd9 hw7
  have d10 := write_block_data fd9 _ _ fd10 hw8
  have d11 := mkfs_write_gdt_spec _ (1 + 1) (spec_gdt_blocks n) 0 fd10 fd11 (by omega) hw9
  refine ⟨rfl, ?_, ?_⟩
  · show gdt.set 0 _ = gdt.set 0 _
    unfold spec_final_gd
    rw [hbb0]
    rfl
  · intro x
    show fd11.data x = _
    rw [d11 x]
    by_cases hx1 : 2 ≤ x ∧ x < 2 + (spec_gdt_blocks n)
    · have hB2 : 1 + 1 + 0 ≤ x ∧ x < 1 + 1 + 0 + (spec_gdt_blocks n) := by omega
      rw [if_pos hB2, if_pos hx1]
    · have hB2 : ¬ (1 + 1 + 0 ≤ x ∧ x < 1 + 1 + 0 + (spec_gdt_blocks n)) := by omega
      rw [if_neg hB2, if_neg hx1, d10 x]
      by_cases hx2 : x = 1
      · rw [if_pos hx2, if_pos hx2]
      · rw [if_neg hx2, if_neg hx2, d9 x]
        by_cases hx3 : x = 2 + (spec_gdt_blocks n) + 2
        · rw [if_pos hx3, if_pos hx3, hitb, d8, if_neg (by omega), d7, if_neg (by omega)]
        · rw [if_neg hx3, if_neg hx3, d8 x]
          by_cases hx4 : x = 2 + (spec_gdt_blocks n) + 34
          · rw [if_pos hx4, if_pos hx4]
          · rw [if_neg hx4, if_neg hx4, d7 x, hbuf]

theorem mkfs_flush_spec (n now F I : Nat) (fd : Device) (gdt : List SimpleFS_GroupDesc)
    (B : Buf) (r : Device × SimpleFS_SuperBlock × List SimpleFS_GroupDesc)
    (f1 : 1 ≤ spec_groups n) (f2 : spec_groups n ≤ 131072)
    (f5 : 1 ≤ spec_gdt_blocks n) (f6 : spec_gdt_blocks n ≤ 1024)
    (hF : F + 1 < 4294967296)
    (i2 : gdt.length = spec_groups n)
    (i3 : ∀ j, j < spec_groups n →
      gdt.getD j default = spec_init_gd n (spec_groups n) (spec_gdt_blocks n) j)
    (i4 : ∀ j, j < spec_groups n → group_blocks_ok fd.data (spec_gdt_blocks n) j)
    (hr0 : spec_group_meta (spec_gdt_blocks n) 0 + 2 ≤ spec_group_range n (spec_groups n) 0)
    (hr1 : spec_group_range n (spec_groups n) 0 ≤ 32768)
    (h : mkfs_flush fd (spec_sb n now (F + 1) I) gdt (spec_gdt_blocks n) (spec_groups n) now B =
      some r) :
    r.2.1 = spec_sb n now F I ∧
    r.2.2 = (List.range (spec_groups n)).map
      (spec_final_gd n (spec_groups n) (spec_gdt_blocks n)) ∧
    (∀ j, j < spec_groups n → ∀ x, x < 32768 →
      (is_bitmap_bit_set (r.1.data (spec_block_bitmap (spec_gdt_blocks n) j))
          SIMPLEFS_BLOCK_SIZE x = true ↔ x < spec_group_used (spec_gdt_blocks n) j)) ∧
    (∀ j, j < spec_groups n → ∀ x, x < 32768 →
      (is_bitmap_bit_set (r.1.data (spec_block_bitmap (spec_gdt_blocks n) j + 1))
          SIMPLEFS_BLOCK_SIZE x = true ↔ j = 0 ∧ x < 2)) ∧
    r.1.data 1 = blit (mkfs_gdt_block ((List.range (spec_groups n)).map
        (spec_init_gd n (spec_groups n) (spec_gdt_blocks n))) (spec_gdt_blocks n - 1)) 0
      (encode_sb r.2.1) 0 1024 ∧
    (∀ t, t < spec_gdt_blocks n → r.1.data (2 + t) = mkfs_gdt_block r.2.2 t) ∧
    (∀ g, 1 ≤ g → g < spec_groups n → is_backup_group g = true →
      r.1.data (g * 32768) = blit (mkfs_gdt_block ((List.range (spec_groups n)).map
          (spec_init_gd n (spec_groups n) (spec_gdt_blocks n))) (spec_gdt_blocks n - 1)) 0
        (encode_sb (spec_sb n now (F + 1) I)) 0 1024 ∧
      ∀ t, t < spec_gdt_blocks n → r.1.data (g * 32768 + 1 + t) =
        mkfs_gdt_block ((List.range (spec_groups n)).map
          (spec_init_gd n (spec_groups n) (spec_gdt_blocks n))) t) ∧
    r.1.data (2 + spec_gdt_blocks n + 34) = mkfs_root_block ∧
    r.1.data (2 + spec_gdt_blocks n + 2) =
      blit zeroBuf 128
        (set_i_block (set_i_blocks (set_i_size
          (new_inode_record (Nat.lor S_IFDIR 0o777) 0 0 2 now) SIMPLEFS_BLOCK_SIZE)
          (SIMPLEFS_BLOCK_SIZE / 512)) 0 (2 + spec_gdt_blocks n + 34)) 0 SIMPLEFS_INODE_SIZE ∧
    (∀ j, j < spec_groups n → ∀ t, t < 32 → ¬ (j = 0 ∧ t = 0) →
      r.1.data (spec_block_bitmap (spec_gdt_blocks n) j + 2 + t) = zeroBuf) := by
  have hm0 := spec_group_meta_facts (spec_gdt_blocks n) 0 f6
  have hbb0 : spec_block_bitmap (spec_gdt_blocks n) 0 = 2 + spec_gdt_blocks n := by
    unfold spec_block_bitmap
    rw [if_pos rfl]
  have q1 : ∀ a b, (spec_sb n now a b).s_blocks_per_group = 32768 := fun _ _ => rfl
  unfold mkfs_flush at h
  simp only [] at h
  rw [mkfs_gdt_buffer_pos gdt _ f5] at h
  split at h
  · exact Option.noConfusion h
  rename_i fd4 hw3
  split at h
  · exact Option.noConfusion h
  rename_i fd5 hw4
  split at h
  · exact Option.noConfusion h
  rename_i fd6 B6 hB
  have d3 := write_block_data fd 1 _ fd4 hw3
  have d4 := mkfs_write_gdt_spec gdt (1 + 1) (spec_gdt_blocks n) 0 fd4 fd5 (by omega) hw4
  obtain ⟨d5b, d5⟩ := mkfs_write_backups_spec _ gdt (spec_gdt_blocks n) f6 f5 (q1 _ _)
    (spec_groups n - 1) 1 fd5 (fd6, B6) (by omega) hB
  dsimp only at d5b d5
  subst d5b
  clear hw3 hw4 hB
  -- blocks of the group regions are not touched by the flush and the backups
  have hfr6 : ∀ j, j < spec_groups n → ∀ x, spec_block_bitmap (spec_gdt_blocks n) j ≤ x →
      x < spec_block_bitmap (spec_gdt_blocks n) j + 34 → fd6.data x = fd.data x := by
    intro j hj x hx1 hx2
    have hbj := spec_block_bitmap_bounds (spec_gdt_blocks n) j f6
    have hmod := Nat.mod_lt x (by decide : 32768 > 0)
    have hdm := Nat.div_add_mod x 32768
    have hA : ¬ (is_backup_group (x / 32768) = true ∧ 1 ≤ x / 32768 ∧
        x / 32768 < 1 + (spec_groups n - 1) ∧ x % 32768 ≤ spec_gdt_blocks n) := by
      intro hc
      have hq : x / 32768 = j := by omega
      rw [hq] at hc
      have hsj : spec_block_bitmap (spec_gdt_blocks n) j =
          j * 32768 + 1 + spec_gdt_blocks n := by
        unfold spec_block_bitmap
        rw [if_neg (by omega), if_pos hc.1]
      omega
    have hB2 : ¬ (1 + 1 + 0 ≤ x ∧ x < 1 + 1 + 0 + spec_gdt_blocks n) := by
      by_cases hj0 : j = 0
      · subst hj0
        omega
      · omega
    have hC : ¬ x = 1 := by
      by_cases hj0 : j = 0
      · subst hj0
        omega
      · omega
    rw [d5 x, if_neg hA, d4 x, if_neg hB2, d3 x, if_neg hC]
  have hbit : ∀ x, x < 32768 →
      (is_bitmap_bit_set (fd6.data (2 + spec_gdt_blocks n)) SIMPLEFS_BLOCK_SIZE x = true ↔
        x < spec_group_meta (spec_gdt_blocks n) 0 + 1) := by
    intro x hx
    have := (i4 0 (by omega)).1 x hx
    rw [if_pos rfl] at this
    rw [← hbb0, hfr6 0 (by omega) _ (Nat.le_refl _) (by omega)]
    exact this
  obtain ⟨r1, r2, r3⟩ := mkfs_root_spec n now (spec_groups n) F I fd6 gdt _ r f6 hF
    (i3 0 (by omega)) hr0 hr1 hbit h
  clear h
  have hgdt2 : gdt = (List.range (spec_groups n)).map
      (spec_init_gd n (spec_groups n) (spec_gdt_blocks n)) :=
    list_eq_map_range gdt _ _ i2 i3
  have hfr11 : ∀ x, x ≠ 2 + spec_gdt_blocks n → x ≠ 2 + spec_gdt_blocks n + 34 →
      x ≠ 2 + spec_gdt_blocks n + 2 → x ≠ 1 → ¬ (2 ≤ x ∧ x < 2 + spec_gdt_blocks n) →
      r.1.data x = fd6.data x := by
    intro x x1 x2 x3 x4 x5
    rw [r3 x, if_neg x5, if_neg x4, if_neg x3, if_neg x2, if_neg x1]
  have hfinal : ∀ j, 1 ≤ j → j < spec_groups n → ∀ x,
      spec_block_bitmap (spec_gdt_blocks n) j ≤ x →
      x < spec_block_bitmap (spec_gdt_blocks n) j + 34 → r.1.data x = fd.data x := by
    intro j hj1 hj x hx1 hx2
    have hbj := spec_block_bitmap_bounds (spec_gdt_blocks n) j f6
    rw [hfr11 x (by omega) (by omega) (by omega) (by omega) (by omega),
      hfr6 j hj x hx1 hx2]
  have hused0 : spec_group_used (spec_gdt_blocks n) 0 =
      spec_group_meta (spec_gdt_blocks n) 0 + 2 := by
    unfold spec_group_used
    rw [if_pos rfl]
  refine ⟨r1, ?_, ?_, ?_, ?_, ?_, ?_, ?_, ?_, ?_⟩
  · rw [r2]
    apply list_eq_map_range
    · rw [List.length_set]
      exact i2
    · intro j hj
      rw [getD_set]
      by_cases hj0 : j = 0
      · subst hj0
        rw [if_pos ⟨rfl, by omega⟩]
      · rw [if_neg (by omega), i3 j hj]
        unfold spec_init_gd spec_final_gd spec_layout_gd spec_group_used
        rw [if_neg hj0, if_neg hj0, if_neg hj0, if_neg hj0]
        rfl
  · intro j hj x hx
    by_cases hj0 : j = 0
    · subst hj0
      rw [hbb0, r3, if_neg (by omega), if_neg (by omega), if_neg (by omega), if_neg (by omega),
        if_pos rfl, is_bitmap_bit_set_set_iff _ _ _ (by omega), hbit x hx, hused0]
      omega
    · rw [hfinal j (by omega) hj _ (Nat.le_refl _) (by omega)]
      have := (i4 j hj).1 x hx
      rw [if_neg hj0] at this
      unfold spec_group_used
      rw [if_neg hj0]
      exact this
  · intro j hj x hx
    by_cases hj0 : j = 0
    · subst hj0
      rw [hfr11 _ (by omega) (by omega) (by omega) (by omega) (by omega),
        hfr6 0 hj _ (by omega) (by omega)]
      exact (i4 0 hj).2.1 x hx
    · rw [hfinal j (by omega) hj _ (by omega) (by omega)]
      exact (i4 j hj).2.1 x hx
  · rw [r3, if_neg (by omega), if_pos rfl, ← hgdt2]
  · intro t ht
    have e : 2 + t - 2 = t := by omega
    rw [r3, if_pos (by omega), e]
  · intro g hg1 hg hbk
    have hbg := spec_block_bitmap_bounds (spec_gdt_blocks n) g f6
    constructor
    · have e1 : g * 32768 / 32768 = g := Nat.mul_div_cancel _ (by decide)
      have e2 : g * 32768 % 32768 = 0 := Nat.mul_mod_left _ _
      rw [hfr11 _ (by omega) (by omega) (by omega) (by omega) (by omega), d5,
        if_pos ⟨by rw [e1]; exact hbk, by omega, by omega, by omega⟩, if_pos e2, ← hgdt2]
    · intro t ht
      have e1 : (g * 32768 + 1 + t) / 32768 = g := by omega
      have e2 : (g * 32768 + 1 + t) % 32768 = 1 + t := by omega
      have e3 : 1 + t - 1 = t := by omega
      rw [hfr11 _ (by omega) (by omega) (by omega) (by omega) (by omega), d5,
        if_pos ⟨by rw [e1]; exact hbk, by omega, by omega, by omega⟩,
        if_neg (by omega), e2, e3, hgdt2]
  · rw [r3, if_neg (by omega), if_neg (by omega), if_neg (by omega), if_pos rfl]
  · have hz : fd6.data (2 + spec_gdt_blocks n + 2) = zeroBuf := by
      have := hfr6 0 (by omega) (2 + spec_gdt_blocks n + 2) (by omega) (by omega)
      rw [this]
      have := (i4 0 (by omega)).2.2 0 (by omega)
      rw [hbb0] at this
      exact this
    rw [r3, if_neg (by omega), if_neg (by omega), if_pos rfl, hz]
  · intro j hj t ht hne
    by_cases hj0 : j = 0
    · subst hj0
      have ht0 : t ≠ 0 := fun h0 => hne ⟨rfl, h0⟩
      rw [hfr11 _ (by omega) (by omega) (by omega) (by omega) (by omega),
        hfr6 0 hj _ (by omega) (by omega)]
      exact (i4 0 hj).2.2 t ht
    · rw [hfinal j (by omega) hj _ (by omega) (by omega)]
      exact (i4 j hj).2.2 t ht

theorem mkfs_image (fd : Device) (n now : Nat) (hn : n < 4294967296)
    (r : Device × SimpleFS_SuperBlock × List SimpleFS_GroupDesc)
    (h : mkfs fd n now = some r) :
    64 ≤ n ∧
    r.2.1 = spec_sb n now (spec_free_blocks n) (spec_groups n * 1024 - 2) ∧
    r.2.2 = (List.range (spec_groups n)).map
      (spec_final_gd n (spec_groups n) (spec_gdt_blocks n)) ∧
    (∀ j, j < spec_groups n → spec_block_bitmap (spec_gdt_blocks n) j + 34 ≤ n) ∧
    (∀ j, j < spec_groups n → ∀ x, x < 32768 →
      (is_bitmap_bit_set (r.1.data (spec_block_bitmap (spec_gdt_blocks n) j))
          SIMPLEFS_BLOCK_SIZE x = true ↔ x < spec_group_used (spec_gdt_blocks n) j)) ∧
    (∀ j, j < spec_groups n → ∀ x, x < 32768 →
      (is_bitmap_bit_set (r.1.data (spec_block_bitmap (spec_gdt_blocks n) j + 1))
          SIMPLEFS_BLOCK_SIZE x = true ↔ j = 0 ∧ x < 2)) ∧
    r.1.data 1 = blit (mkfs_gdt_block ((List.range (spec_groups n)).map
        (spec_init_gd n (spec_groups n) (spec_gdt_blocks n))) (spec_gdt_blocks n - 1)) 0
      (encode_sb r.2.1) 0 1024 ∧
    (∀ t, t < spec_gdt_blocks n → r.1.data (2 + t) = mkfs_gdt_block r.2.2 t) ∧
    (∀ g, 1 ≤ g → g < spec_groups n → is_backup_group g = true →
      r.1.data (g * 32768) = blit (mkfs_gdt_block ((List.range (spec_groups n)).map
          (spec_init_gd n (spec_groups n) (spec_gdt_blocks n))) (spec_gdt_blocks n - 1)) 0
        (encode_sb
          (spec_sb n now (spec_free_blocks n + 1) (spec_groups n * 1024 - 2))) 0 1024 ∧
      ∀ t, t < spec_gdt_blocks n → r.1.data (g * 32768 + 1 + t) =
        mkfs_gdt_block ((List.range (spec_groups n)).map
          (spec_init_gd n (spec_groups n) (spec_gdt_blocks n))) t) ∧
    r.1.data (2 + spec_gdt_blocks n + 34) = mkfs_root_block ∧
    r.1.data (2 + spec_gdt_blocks n + 2) =
      blit zeroBuf 128
        (set_i_block (set_i_blocks (set_i_size
          (new_inode_record (Nat.lor S_IFDIR 0o777) 0 0 2 now) SIMPLEFS_BLOCK_SIZE)
          (SIMPLEFS_BLOCK_SIZE / 512)) 0 (2 + spec_gdt_blocks n + 34)) 0 SIMPLEFS_INODE_SIZE ∧
    (∀ j, j < spec_groups n → ∀ t, t < 32 → ¬ (j = 0 ∧ t = 0) →
      r.1.data (spec_block_bitmap (spec_gdt_blocks n) j + 2 + t) = zeroBuf) ∧
    spec_free_blocks n + 2 ≤ n ∧
    spec_group_meta (spec_gdt_blocks n) 0 + 2 ≤ spec_group_range n (spec_groups n) 0 := by
  have h64 : 64 ≤ n := by
    by_cases h64 : n < 64
    · unfold mkfs at h
      rw [if_pos h64] at h
      exact Option.noConfusion h
    · omega
  obtain ⟨p1, p2, p3, p4⟩ := mkfs_params n h64 hn
  obtain ⟨f1, f2, f3, f4, f5, f6, f7⟩ := spec_groups_facts n h64 hn
  rw [mkfs_eq_staged] at h
  unfold mkfs_staged at h
  rw [if_neg (by omega)] at h
  simp only [p1, p2, p3, p4] at h
  by_cases hfit1 : 1 + 1 + spec_gdt_blocks n ≤ n
  swap
  · rw [if_pos hfit1] at h
    exact Option.noConfusion h
  rw [if_neg (by omega)] at h
  cases hL : mkfs_layout n (spec_groups n) (spec_gdt_blocks n) (spec_groups n) 0 []
      (sub32 n (1 + spec_gdt_blocks n)) 0 with
  | none => rw [hL] at h; exact Option.noConfusion h
  | some v =>
    obtain ⟨gdt0, run, fdb⟩ := v
    rw [hL] at h
    simp only [] at h
    obtain ⟨l1, _, l3, l4, l5⟩ := mkfs_layout_spec n (spec_groups n) (spec_gdt_blocks n) hn f6 f2 f3
      (spec_groups n) 0 [] _ 0 _ (by omega) rfl hL
    simp only [Nat.zero_add] at l1 l3 l4 l5
    rw [if_pos ⟨trivial, by omega⟩] at l4
    have hfit : ∀ j, j < spec_groups n → spec_block_bitmap (spec_gdt_blocks n) j + 34 ≤ n :=
      fun j hj => (l3 j (Nat.zero_le _) hj).2
    have hg0 : ∀ j, j < spec_groups n →
        gdt0.getD j default = spec_layout_gd n (spec_groups n) (spec_gdt_blocks n) j :=
      fun j hj => (l3 j (Nat.zero_le _) hj).1
    have hm0 := spec_group_meta_facts (spec_gdt_blocks n) 0 f6
    obtain ⟨s1, s2, s3⟩ := spec_counts_sum n (spec_groups n) (spec_gdt_blocks n) f6 f1 f3 f4
      (hfit _ (by omega)) (by
        by_cases hng : spec_groups n = 1
        · have := f7 hng
          omega
        · omega)
    have s1e : 1 + spec_gdt_blocks n +
        ((List.range (spec_groups n)).map (fun j => spec_group_dec (spec_gdt_blocks n) j)).sum +
        ((List.range (spec_groups n)).map (fun j => spec_group_range n (spec_groups n) j -
          spec_group_meta (spec_gdt_blocks n) j)).sum = n := s1
    have hs : sub32 n (1 + spec_gdt_blocks n) = n - (1 + spec_gdt_blocks n) :=
      sub32_of_le _ _ (by omega) hn
    rw [hs] at l5
    have hrun := l5 (by omega) (by omega)
    have hfb := spec_free_blocks_eq n (spec_groups n) (spec_gdt_blocks n) f1 s2
    have hrun2 : run = spec_free_blocks n + 2 := by
      unfold spec_free_blocks
      omega
    have hF : spec_free_blocks n + 2 ≤ n := by omega
    subst l4
    rw [hrun2] at h
    clear hrun hrun2 l5 s1 s1e hfb hs
    have hbb0 : spec_block_bitmap (spec_gdt_blocks n) 0 = 2 + spec_gdt_blocks n := by
      unfold spec_block_bitmap
      rw [if_pos rfl]
    have e1 : ∀ g, (spec_layout_gd n (spec_groups n) (spec_gdt_blocks n) g).bg_block_bitmap =
        spec_block_bitmap (spec_gdt_blocks n) g := fun _ => rfl
    rw [hg0 0 (by omega), e1, hbb0, if_neg (by omega)] at h
    cases hw1 : write_block fd 1 (blit zeroBuf 0 (encode_sb
        (spec_sb n now (spec_free_blocks n + 2) (spec_groups n * 1024))) 0 1024) with
    | none =>
      unfold spec_sb at hw1
      rw [hw1] at h
      exact Option.noConfusion h
    | some fd1 =>
      unfold spec_sb at hw1
      rw [hw1] at h
      simp only [] at h
      cases hw2 : mkfs_write_gdt gdt0 (1 + 1) (spec_gdt_blocks n) 0 fd1 with
      | none => rw [hw2] at h; exact Option.noConfusion h
      | some fd2 =>
      rw [hw2] at h
      simp only [] at h
      cases hI : mkfs_init_groups (spec_gdt_blocks n) (spec_groups n) 0 fd2
          (spec_sb n now (spec_free_blocks n + 2) (spec_groups n * 1024)) gdt0 with
      | none =>
        unfold spec_sb at hI
        rw [hI] at h
        exact Option.noConfusion h
      | some v =>
      obtain ⟨i1, i2, i3, i4, i5⟩ := mkfs_init_groups_spec n (spec_groups n) (spec_gdt_blocks n)
        f6 f2 f1 fd2 _ gdt0 v l1 hg0 (by omega) s3 hI
      unfold spec_sb at hI
      rw [hI] at h
      obtain ⟨fd3, sb2, gdt2⟩ := v
      simp only [] at h i1 i2 i3 i4 i5
      have hsb2 : sb2 = spec_sb n now (spec_free_blocks n + 1) (spec_groups n * 1024 - 2) := by
        rw [i1]
        unfold spec_init_sb spec_sb
        simp only [gt_iff_lt, Nat.add_pos_iff_pos_or_pos, Nat.lt_add_one, Nat.ofNat_pos, or_true,
          if_true, ge_iff_le]
        rw [dec32_of_pos _ (by omega) (by omega), if_pos (by omega)]
        rfl
      subst hsb2
      clear i1
      obtain ⟨a1, a2, a3, a4, a5, a6, a7, a8, a9, a10⟩ := mkfs_flush_spec n now
        (spec_free_blocks n) (spec_groups n * 1024 - 2) fd3 gdt2 _ r f1 f2 f5 f6 (by omega)
        i2 i3 i4 s2 s3 h
      exact ⟨h64, a1, a2, hfit, a3, a4, a5, a6, a7, a8, a9, a10, hF, s2⟩

theorem getD_map_range {α : Type} [Inhabited α] (f : Nat → α) (N j : Nat) (hj : j < N) :
    ((List.range N).map f).getD j default = f j := by
  rw [List.getD_eq_getElem _ _ (by rw [List.length_map, List.length_range]; exact hj),
    List.getElem_map, List.getElem_range]

theorem mkfs_region_bounds (n G g k : Nat) (NG : Nat) (hG : G ≤ 1024) (hg : g < NG) (hk : k < 5)
    (hp : k < 2 → is_backup_group g = true) :
    g * 32768 ≤ (mkfs_region ((List.range NG).map (spec_final_gd n NG G)) G g k).1 ∧
    (mkfs_region ((List.range NG).map (spec_final_gd n NG G)) G g k).1 +
      (mkfs_region ((List.range NG).map (spec_final_gd n NG G)) G g k).2 ≤
        spec_block_bitmap G g + 34 ∧
    spec_block_bitmap G g + 34 ≤ g * 32768 + 1061 := by
  have hb := spec_block_bitmap_bounds G g hG
  have e1 : (spec_final_gd n NG G g).bg_block_bitmap = spec_block_bitmap G g := rfl
  have e2 : (spec_final_gd n NG G g).bg_inode_bitmap = spec_block_bitmap G g + 1 := rfl
  have e3 : (spec_final_gd n NG G g).bg_inode_table = spec_block_bitmap G g + 2 := rfl
  have hs : is_backup_group g = true →
      spec_block_bitmap G g = (if g = 0 then 2 else g * 32768 + 1) + G := by
    intro hbk
    unfold spec_block_bitmap
    by_cases h0 : g = 0
    · rw [if_pos h0, if_pos h0]
    · rw [if_neg h0, if_neg h0, if_pos hbk]
  unfold mkfs_region
  rw [getD_map_range _ _ _ hg, e1, e2, e3]
  interval_cases k
  · have := hs (hp (by omega))
    simp only []
    split at this <;> split <;> omega
  · have := hs (hp (by omega))
    simp only []
    split at this <;> split <;> omega
  · simp only []
    omega
  · simp only []
    omega
  · simp only []
    omega

theorem mkfs_region_order (n G g k k2 : Nat) (NG : Nat) (hg : g < NG)
    (hk : k < k2) (hk2 : k2 < 5) (hp : k < 2 → is_backup_group g = true) :
    (mkfs_region ((List.range NG).map (spec_final_gd n NG G)) G g k).1 +
      (mkfs_region ((List.range NG).map (spec_final_gd n NG G)) G g k).2 ≤
        (mkfs_region ((List.range NG).map (spec_final_gd n NG G)) G g k2).1 := by
  have e1 : (spec_final_gd n NG G g).bg_block_bitmap = spec_block_bitmap G g := rfl
  have e2 : (spec_final_gd n NG G g).bg_inode_bitmap = spec_block_bitmap G g + 1 := rfl
  have e3 : (spec_final_gd n NG G g).bg_inode_table = spec_block_bitmap G g + 2 := rfl
  have hs : is_backup_group g = true →
      spec_block_bitmap G g = (if g = 0 then 2 else g * 32768 + 1) + G := by
    intro hbk
    unfold spec_block_bitmap
    by_cases h0 : g = 0
    · rw [if_pos h0, if_pos h0]
    · rw [if_neg h0, if_neg h0, if_pos hbk]
  unfold mkfs_region
  rw [getD_map_range _ _ _ hg, e1, e2, e3]
  interval_cases k2 <;> interval_cases k <;> simp only [] <;>
    first
    | omega
    | (have hq := hs (hp (by omega)); split at hq <;> omega)
    | (have hq := hs (hp (by omega)); split at hq <;> split <;> omega)

theorem spec_init_eq_final (n NG G : Nat) (h1 : 1 ≤ NG)
    (h0 : spec_group_meta G 0 + 2 ≤ spec_group_range n NG 0) :
    (List.range NG).map (spec_init_gd n NG G) =
      ((List.range NG).map (spec_final_gd n NG G)).set 0
        { (((List.range NG).map (spec_final_gd n NG G)).getD 0 default) with
          bg_free_blocks_count :=
            (((List.range NG).map (spec_final_gd n NG G)).getD 0 default).bg_free_blocks_count + 1
          bg_used_dirs_count := 0 } := by
  symm
  apply list_eq_map_range
  · rw [List.length_set, List.length_map, List.length_range]
  · intro j hj
    rw [getD_set, List.length_map, List.length_range, getD_map_range _ _ _ (by omega : 0 < NG)]
    by_cases hj0 : j = 0
    · subst hj0
      rw [if_pos ⟨rfl, by omega⟩]
      have hu : spec_group_used G 0 = spec_group_meta G 0 + 2 := by
        unfold spec_group_used
        rw [if_pos rfl]
      have e : spec_group_range n NG 0 - spec_group_used G 0 + 1 =
          spec_group_range n NG 0 - spec_group_meta G 0 - 1 := by omega
      unfold spec_final_gd spec_init_gd spec_layout_gd
      simp only [if_true, e]
    · rw [if_neg (by omega), getD_map_range _ _ _ hj]
      unfold spec_init_gd spec_final_gd spec_layout_gd spec_group_used
      rw [if_neg hj0, if_neg hj0, if_neg hj0, if_neg hj0]
      rfl

/-- Claim C28. On a device of `n < 2^32` blocks that the formatter accepts
(`mkfs` returns an image), with `groups = ceil(n / 32768)` (`spec_groups n`)
and `G = ceil(groups × 32 / 4096)` (`spec_gdt_blocks n`): the table has
`groups` descriptors; the primary superblock is block 1 and the primary GDT is
blocks `2 … 1+G`; group 0 has its block bitmap at `2+G`; every backup group
`g ≥ 1` has its block bitmap at `g·32768+1+G`, and block `g·32768` holds a
superblock copy and blocks `g·32768+1 … g·32768+G` hold a GDT copy (the copies
are the state before the root directory was created: one more free block, no
directory counted); a superblock block holds the superblock in its first 1024
bytes, and after them what `fs_block_buffer` held, the bytes of the last GDT
block built before the root directory was created (all zero up to 32 groups);
every non-backup group has its block bitmap at `g·32768`;
in every group the inode bitmap is the block after the block bitmap and the
inode table is the 32 blocks after that, all on the device;
`s_first_data_block` is group 0's inode table plus 32; and any two different
metadata regions (`mkfs_region`: superblock copy, GDT copy, block bitmap, inode
bitmap, inode table of a group) are disjoint. The bound `n < 2^32` is the
range of the on-disk block count. -/
theorem C28_mkfs_layout (fd : Device) (n now : Nat)
    (r : Device × SimpleFS_SuperBlock × List SimpleFS_GroupDesc)
    (hn : n < 4294967296) (h : mkfs fd n now = some r) :
    r.2.2.length = spec_groups n ∧
    r.1.data 1 = blit (mkfs_gdt_block (r.2.2.set 0
        { (r.2.2.getD 0 default) with
          bg_free_blocks_count := (r.2.2.getD 0 default).bg_free_blocks_count + 1
          bg_used_dirs_count := 0 }) (spec_gdt_blocks n - 1)) 0 (encode_sb r.2.1) 0 1024 ∧
    (∀ t, t < spec_gdt_blocks n → r.1.data (2 + t) = mkfs_gdt_block r.2.2 t) ∧
    (r.2.2.getD 0 default).bg_block_bitmap = 2 + spec_gdt_blocks n ∧
    (∀ g, 1 ≤ g → g < spec_groups n → is_backup_group g = true →
      (r.2.2.getD g default).bg_block_bitmap = g * 32768 + 1 + spec_gdt_blocks n ∧
      r.1.data (g * 32768) = blit (mkfs_gdt_block (r.2.2.set 0
          { (r.2.2.getD 0 default) with
            bg_free_blocks_count := (r.2.2.getD 0 default).bg_free_blocks_count + 1
            bg_used_dirs_count := 0 }) (spec_gdt_blocks n - 1)) 0 (encode_sb
        { r.2.1 with s_free_blocks_count := r.2.1.s_free_blocks_count + 1 }) 0 1024 ∧
      ∀ t, t < spec_gdt_blocks n → r.1.data (g * 32768 + 1 + t) =
        mkfs_gdt_block (r.2.2.set 0
          { (r.2.2.getD 0 default) with
            bg_free_blocks_count := (r.2.2.getD 0 default).bg_free_blocks_count + 1
            bg_used_dirs_count := 0 }) t) ∧
    (∀ g, g < spec_groups n → is_backup_group g = false →
      (r.2.2.getD g default).bg_block_bitmap = g * 32768) ∧
    (∀ g, g < spec_groups n →
      (r.2.2.getD g default).bg_inode_bitmap = (r.2.2.getD g default).bg_block_bitmap + 1 ∧
      (r.2.2.getD g default).bg_inode_table = (r.2.2.getD g default).bg_block_bitmap + 2 ∧
      (r.2.2.getD g default).bg_inode_table + 32 ≤ n) ∧
    r.2.1.s_first_data_block = (r.2.2.getD 0 default).bg_inode_table + 32 ∧
    (∀ g k g2 k2, g < spec_groups n → g2 < spec_groups n → k < 5 → k2 < 5 →
      (k < 2 → is_backup_group g = true) → (k2 < 2 → is_backup_group g2 = true) →
      (g ≠ g2 ∨ k ≠ k2) →
      (mkfs_region r.2.2 (spec_gdt_blocks n) g k).1 +
          (mkfs_region r.2.2 (spec_gdt_blocks n) g k).2 ≤
        (mkfs_region r.2.2 (spec_gdt_blocks n) g2 k2).1 ∨
      (mkfs_region r.2.2 (spec_gdt_blocks n) g2 k2).1 +
          (mkfs_region r.2.2 (spec_gdt_blocks n) g2 k2).2 ≤
        (mkfs_region r.2.2 (spec_gdt_blocks n) g k).1) := by
  obtain ⟨h64, a1, a2, hfit, _, _, a5, a6, a7, _, _, _, hF, s2⟩ := mkfs_image fd n now hn r h
  obtain ⟨f1, f2, f3, f4, f5, f6, f7⟩ := spec_groups_facts n h64 hn
  have hgd : ∀ g, g < spec_groups n →
      r.2.2.getD g default = spec_final_gd n (spec_groups n) (spec_gdt_blocks n) g := by
    intro g hg
    rw [a2]
    exact getD_map_range _ _ _ hg
  have e1 : ∀ g, (spec_final_gd n (spec_groups n) (spec_gdt_blocks n) g).bg_block_bitmap =
      spec_block_bitmap (spec_gdt_blocks n) g := fun _ => rfl
  have e2 : ∀ g, (spec_final_gd n (spec_groups n) (spec_gdt_blocks n) g).bg_inode_bitmap =
      spec_block_bitmap (spec_gdt_blocks n) g + 1 := fun _ => rfl
  have e3 : ∀ g, (spec_final_gd n (spec_groups n) (spec_gdt_blocks n) g).bg_inode_table =
      spec_block_bitmap (spec_gdt_blocks n) g + 2 := fun _ => rfl
  have hbb0 : spec_block_bitmap (spec_gdt_blocks n) 0 = 2 + spec_gdt_blocks n := by
    unfold spec_block_bitmap
    rw [if_pos rfl]
  refine ⟨?_, ?_, a6, ?_, ?_, ?_, ?_, ?_, ?_⟩
  · rw [a2, List.length_map, List.length_range]
  · rw [a5, spec_init_eq_final n _ _ f1 s2, ← a2]
  · rw [hgd 0 (by omega), e1, hbb0]
  · intro g hg1 hg hbk
    obtain ⟨b1, b2⟩ := a7 g hg1 hg hbk
    refine ⟨?_, ?_, ?_⟩
    · rw [hgd g hg, e1]
      unfold spec_block_bitmap
      rw [if_neg (by omega), if_pos hbk]
    · rw [b1, spec_init_eq_final n _ _ f1 s2, ← a2, a1]
      rfl
    · intro t ht
      rw [b2 t ht, spec_init_eq_final n _ _ f1 s2, ← a2]
  · intro g hg hbk
    rw [hgd g hg, e1]
    unfold spec_block_bitmap
    have h0 : g ≠ 0 := by
      intro h0
      rw [h0] at hbk
      exact Bool.noConfusion hbk
    rw [if_neg h0, if_neg (by rw [hbk]; exact Bool.noConfusion)]
  · intro g hg
    rw [hgd g hg, e1, e2, e3]
    have := hfit g hg
    exact ⟨rfl, rfl, by omega⟩
  · rw [hgd 0 (by omega), e3, hbb0, a1]
    rfl
  · intro g k g2 k2 hg hg2 hk hk2 hp hp2 hne
    rw [a2]
    have c1 := mkfs_region_bounds n (spec_gdt_blocks n) g k (spec_groups n) f6 hg hk hp
    have c2 := mkfs_region_bounds n (spec_gdt_blocks n) g2 k2 (spec_groups n) f6 hg2 hk2 hp2
    by_cases hgg : g = g2
    · subst hgg
      have hkk : k ≠ k2 := by
        rcases hne with hne | hne
        · exact absurd rfl hne
        · exact hne
      by_cases hlt : k < k2
      · exact Or.inl (mkfs_region_order n _ g k k2 _ hg hlt hk2 hp)
      · exact Or.inr (mkfs_region_order n _ g k2 k _ hg (by omega) hk hp2)
    · by_cases hlt : g < g2
      · left
        omega
      · right
        omega

/-- Witness of C28: the blank device of 32832 blocks is accepted; the image has
two groups and one GDT block, group 0's block bitmap is block 3, the backup
group 1 has its block bitmap at 32768 + 1 + 1, its inode table ends on the
device, and the first data block is 37. -/
theorem C28_mkfs_layout_witness :
    (32832 : Nat) < 4294967296 ∧
    ∃ r, mkfs devBlank 32832 7 = some r ∧
      r.2.2.length = 2 ∧
      (r.2.2.getD 0 default).bg_block_bitmap = 3 ∧
      (r.2.2.getD 1 default).bg_block_bitmap = 32770 ∧
      (r.2.2.getD 1 default).bg_inode_table + 32 ≤ 32832 ∧
      r.2.1.s_first_data_block = (r.2.2.getD 0 default).bg_inode_table + 32 := by
  have hs : (mkfs devBlank 32832 7).isSome = true := by decide!
  obtain ⟨r, hr⟩ := Option.isSome_iff_exists.mp hs
  have h := C28_mkfs_layout devBlank 32832 7 r (by decide) hr
  have eg : spec_groups 32832 = 2 := by decide
  have eG : spec_gdt_blocks 32832 = 1 := by decide
  rw [eg, eG] at h
  obtain ⟨h1, _, _, h4, h5, _, h7, h8, _⟩ := h
  exact ⟨by decide, r, hr, h1, h4, (h5 1 (by decide) (by decide) (by decide)).1,
    (h7 1 (by decide)).2.2, h8⟩

theorem sum_inode_counts (k : Nat) :
    ((List.range (k + 1)).map (fun j => if j = 0 then 1022 else 1024)).sum = (k + 1) * 1024 - 2 := by
  induction k with
  | zero => rfl
  | succ k ih =>
    rw [List.sum_range_succ, ih, if_neg (by omega)]
    omega

theorem spec_block_in_use_iff (n G NG b : Nat) (fdb : Nat) (h64 : 64 ≤ n) (hn : n < 4294967296)
    (hG : G = spec_gdt_blocks n) (hNG : NG = spec_groups n) (hb : b < n)
    (hfdb : fdb = 2 + G + 34) :
    spec_block_in_use n ((List.range NG).map (spec_final_gd n NG G)) fdb b ↔
      b % 32768 < spec_group_used G (b / 32768) := by
  subst hG hNG hfdb
  obtain ⟨f1, f2, f3, f4, f5, f6, f7⟩ := spec_groups_facts n h64 hn
  have hmod := Nat.mod_lt b (by decide : 32768 > 0)
  have hdm := Nat.div_add_mod b 32768
  have hq : b / 32768 < spec_groups n := by omega
  have hb0 : is_backup_group 0 = true := by decide
  have e1 : ∀ g, (spec_final_gd n (spec_groups n) (spec_gdt_blocks n) g).bg_block_bitmap =
      spec_block_bitmap (spec_gdt_blocks n) g := fun _ => rfl
  have e2 : ∀ g, (spec_final_gd n (spec_groups n) (spec_gdt_blocks n) g).bg_inode_bitmap =
      spec_block_bitmap (spec_gdt_blocks n) g + 1 := fun _ => rfl
  have e3 : ∀ g, (spec_final_gd n (spec_groups n) (spec_gdt_blocks n) g).bg_inode_table =
      spec_block_bitmap (spec_gdt_blocks n) g + 2 := fun _ => rfl
  have key : ∀ g, spec_block_bitmap (spec_gdt_blocks n) g =
      if g = 0 then 2 + spec_gdt_blocks n
      else if is_backup_group g = true then g * 32768 + 1 + spec_gdt_blocks n else g * 32768 :=
    fun _ => rfl
  have used : ∀ g, spec_group_used (spec_gdt_blocks n) g =
      (if is_backup_group g = true then 1 + spec_gdt_blocks n + 34 else 34) +
        (if g = 0 then 2 else 0) := fun _ => rfl
  unfold spec_block_in_use
  constructor
  · rintro (h | h | h | ⟨g, hg, h⟩ | ⟨g, hg1, hg, hbk, h1, h2⟩ | h)
    · rw [used, if_pos (by omega : b / 32768 = 0)]
      omega
    · rw [used, if_pos (by omega : b / 32768 = 0)]
      omega
    · have : b / 32768 = 0 := by omega
      rw [this, used, if_pos hb0, if_pos rfl]
      omega
    · rw [getD_map_range _ _ _ hg, e1, e2, e3, key g] at h
      by_cases hg0 : g = 0
      · subst hg0
        rw [if_pos rfl] at h
        have : b / 32768 = 0 := by omega
        rw [this, used, if_pos hb0, if_pos rfl]
        omega
      · rw [if_neg hg0] at h
        by_cases hbk : is_backup_group g = true
        · rw [if_pos hbk] at h
          have : b / 32768 = g := by omega
          rw [this, used, if_pos hbk, if_neg hg0]
          omega
        · rw [if_neg hbk] at h
          have : b / 32768 = g := by omega
          rw [this, used, if_neg hbk, if_neg hg0]
          omega
    · have : b / 32768 = g := by omega
      rw [this, used, if_pos hbk, if_neg (by omega)]
      omega
    · have : b / 32768 = 0 := by omega
      rw [this, used, if_pos hb0, if_pos rfl]
      omega
  · intro h
    rw [used] at h
    by_cases hg0 : b / 32768 = 0
    · rw [hg0, if_pos hb0, if_pos rfl] at h
      by_cases c0 : b = 0
      · exact Or.inl c0
      by_cases c1 : b = 1
      · exact Or.inr (Or.inl c1)
      by_cases c2 : b < 2 + spec_gdt_blocks n
      · exact Or.inr (Or.inr (Or.inl ⟨by omega, c2⟩))
      by_cases c3 : b = 2 + spec_gdt_blocks n + 34
      · exact Or.inr (Or.inr (Or.inr (Or.inr (Or.inr c3))))
      refine Or.inr (Or.inr (Or.inr (Or.inl ⟨0, by omega, ?_⟩)))
      rw [getD_map_range _ _ _ (by omega), e1, e2, e3, key 0, if_pos rfl]
      omega
    · rw [if_neg hg0] at h
      by_cases hbk : is_backup_group (b / 32768) = true
      · rw [if_pos hbk] at h
        by_cases c2 : b % 32768 ≤ spec_gdt_blocks n
        · exact Or.inr (Or.inr (Or.inr (Or.inr (Or.inl
            ⟨b / 32768, by omega, hq, hbk, by omega, by omega⟩))))
        refine Or.inr (Or.inr (Or.inr (Or.inl ⟨b / 32768, hq, ?_⟩)))
        rw [getD_map_range _ _ _ hq, e1, e2, e3, key, if_neg hg0, if_pos hbk]
        omega
      · rw [if_neg hbk] at h
        refine Or.inr (Or.inr (Or.inr (Or.inl ⟨b / 32768, hq, ?_⟩)))
        rw [getD_map_range _ _ _ hq, e1, e2, e3, key, if_neg hg0, if_neg hbk]
        omega

theorem mkfs_block_bits (fd : Device) (n now : Nat)
    (r : Device × SimpleFS_SuperBlock × List SimpleFS_GroupDesc)
    (hn : n < 4294967296) (h : mkfs fd n now = some r) (b : Nat) (hb : b < n) :
    block_bit_set (mkfs_context r now) b = true ↔
      b % 32768 < spec_group_used (spec_gdt_blocks n) (b / 32768) := by
  obtain ⟨h64, a1, a2, hfit, a3, a4, a5, a6, a7, a8, a9, a10, hF, s2⟩ :=
    mkfs_image fd n now hn r h
  obtain ⟨f1, f2, f3, f4, f5, f6, f7⟩ := spec_groups_facts n h64 hn
  have hmod := Nat.mod_lt b (by decide : 32768 > 0)
  have hdm := Nat.div_add_mod b 32768
  have hq : b / 32768 < spec_groups n := by omega
  have e : block_bit_set (mkfs_context r now) b =
      is_bitmap_bit_set (r.1.data (r.2.2.getD (b / r.2.1.s_blocks_per_group) default).bg_block_bitmap)
        SIMPLEFS_BLOCK_SIZE (b % r.2.1.s_blocks_per_group) := rfl
  have hbpg : r.2.1.s_blocks_per_group = 32768 := by
    rw [a1]
    rfl
  rw [e, hbpg, a2, getD_map_range _ _ _ hq]
  exact a3 _ hq _ hmod

theorem mkfs_inode_bits (fd : Device) (n now : Nat)
    (r : Device × SimpleFS_SuperBlock × List SimpleFS_GroupDesc)
    (hn : n < 4294967296) (h : mkfs fd n now = some r) (i : Nat)
    (hi : i < spec_groups n * 1024) :
    inode_bit_set (mkfs_context r now) (i + 1) = true ↔ i / 1024 = 0 ∧ i % 1024 < 2 := by
  obtain ⟨h64, a1, a2, hfit, a3, a4, a5, a6, a7, a8, a9, a10, hF, s2⟩ :=
    mkfs_image fd n now hn r h
  have hmod := Nat.mod_lt i (by decide : 1024 > 0)
  have hdm := Nat.div_add_mod i 1024
  have hq : i / 1024 < spec_groups n := by omega
  have e : inode_bit_set (mkfs_context r now) (i + 1) =
      is_bitmap_bit_set
        (r.1.data (r.2.2.getD ((i + 1 - 1) / r.2.1.s_inodes_per_group) default).bg_inode_bitmap)
        SIMPLEFS_BLOCK_SIZE ((i + 1 - 1) % r.2.1.s_inodes_per_group) := rfl
  have hipg : r.2.1.s_inodes_per_group = 1024 := by
    rw [a1]
    rfl
  rw [e, hipg, Nat.add_sub_cancel, a2, getD_map_range _ _ _ hq]
  exact a4 _ hq _ (by omega)

/-- Claim C27. On a device of `n < 2^32` blocks that the formatter accepts, for
the context made of the device and of the superblock and table the formatter
wrote last (block 1 holds that superblock in its first 1024 bytes, followed by
what `fs_block_buffer` held, the bytes of the last GDT block built before the
root directory was created; blocks `2 … 1+G` hold that table):
`s_blocks_count = n`; `s_free_blocks_count` equals the sum of the groups'
`bg_free_blocks_count` and the number of clear block-bitmap bits over `[0, n)`
(`blocks_consistent`); a block below `n` is marked exactly when it is block 0,
the superblock, a GDT block, a group's block bitmap, inode bitmap or inode
table block, a block of a backup copy, or the root directory block
(`spec_block_in_use`); `s_free_inodes_count` equals the sum of the groups'
`bg_free_inodes_count` and the number of clear inode-bitmap bits
(`inodes_consistent`); and an inode is marked exactly when it is inode 1 or 2.
The bound `n < 2^32` is the range of the on-disk block count. -/
theorem C27_mkfs_counts (fd : Device) (n now : Nat)
    (r : Device × SimpleFS_SuperBlock × List SimpleFS_GroupDesc)
    (hn : n < 4294967296) (h : mkfs fd n now = some r) :
    r.1.data 1 = blit (mkfs_gdt_block (r.2.2.set 0
        { (r.2.2.getD 0 default) with
          bg_free_blocks_count := (r.2.2.getD 0 default).bg_free_blocks_count + 1
          bg_used_dirs_count := 0 }) (spec_gdt_blocks n - 1)) 0 (encode_sb r.2.1) 0 1024 ∧
    (∀ t, t < spec_gdt_blocks n → r.1.data (2 + t) = mkfs_gdt_block r.2.2 t) ∧
    (mkfs_context r now).sb.s_blocks_count = n ∧
    blocks_consistent (mkfs_context r now) ∧
    (∀ b, b < n → (block_bit_set (mkfs_context r now) b = true ↔
      spec_block_in_use n r.2.2 r.2.1.s_first_data_block b)) ∧
    (mkfs_context r now).sb.s_inodes_count = spec_groups n * 1024 ∧
    inodes_consistent (mkfs_context r now) ∧
    (∀ i, 1 ≤ i → i ≤ spec_groups n * 1024 →
      (inode_bit_set (mkfs_context r now) i = true ↔ i ≤ 2)) := by
  obtain ⟨h64, a1, a2, hfit, a3, a4, a5, a6, a7, a8, a9, a10, hF, s2⟩ :=
    mkfs_image fd n now hn r h
  obtain ⟨f1, f2, f3, f4, f5, f6, f7⟩ := spec_groups_facts n h64 hn
  have hsb : (mkfs_context r now).sb = r.2.1 := rfl
  have hgdt : (mkfs_context r now).gdt = r.2.2 := rfl
  have hcnt : r.2.1.s_blocks_count = n := by
    rw [a1]
    rfl
  have hicnt : r.2.1.s_inodes_count = spec_groups n * 1024 := by
    rw [a1]
    rfl
  have hfree : r.2.1.s_free_blocks_count = spec_free_blocks n := by
    rw [a1]
    rfl
  have hifree : r.2.1.s_free_inodes_count = spec_groups n * 1024 - 2 := by
    rw [a1]
    rfl
  have hfdb : r.2.1.s_first_data_block = 2 + spec_gdt_blocks n + 34 := by
    rw [a1]
    rfl
  obtain ⟨k, hk⟩ : ∃ k, spec_groups n = k + 1 := ⟨spec_groups n - 1, by omega⟩
  refine ⟨?_, a6, ?_, ⟨?_, ?_⟩, ?_, ?_, ⟨?_, ?_⟩, ?_⟩
  · rw [a5, spec_init_eq_final n _ _ f1 s2, ← a2]
  · rw [hsb, hcnt]
  · -- the sum over the groups
    unfold gdt_free_blocks
    rw [hsb, hgdt, hfree, a2, List.map_map]
    rfl
  · -- the clear bits
    unfold free_block_bits
    rw [hsb, hcnt, hfree]
    have e1 : (List.range n).countP (fun b => !block_bit_set (mkfs_context r now) b) =
        (List.range n).countP (fun b =>
          decide (spec_group_used (spec_gdt_blocks n) (b / 32768) ≤ b % 32768)) := by
      apply countP_range_congr
      intro b hb
      have := mkfs_block_bits fd n now r hn h b hb
      cases hv : block_bit_set (mkfs_context r now) b with
      | true =>
        have := this.1 hv
        exact (decide_eq_false (by omega)).symm
      | false =>
        have : ¬ b % 32768 < spec_group_used (spec_gdt_blocks n) (b / 32768) := by
          intro hc
          have := this.2 hc
          rw [hv] at this
          exact Bool.noConfusion this
        exact (decide_eq_true (by omega)).symm
    have e2 : k * 32768 + (n - k * 32768) = n := by omega
    have e5 := countP_groups 32768 (by decide)
      (fun g => spec_group_used (spec_gdt_blocks n) g) k (n - k * 32768) (by omega)
    rw [e2] at e5
    rw [e1, e5]
    unfold spec_free_blocks
    rw [hk, List.sum_range_succ]
    have e3 : spec_group_range n (k + 1) k = n - k * 32768 := by
      unfold spec_group_range
      rw [if_pos (by omega)]
    have e4 : (List.range k).map (fun j => spec_group_range n (k + 1) j -
          spec_group_used (spec_gdt_blocks n) j) =
        (List.range k).map (fun g => 32768 - spec_group_used (spec_gdt_blocks n) g) := by
      apply List.map_congr_left
      intro j hj
      have hj2 := List.mem_range.mp hj
      unfold spec_group_range
      rw [if_neg (by omega)]
    rw [e3, e4]
  · intro b hb
    rw [mkfs_block_bits fd n now r hn h b hb, a2, hfdb]
    exact (spec_block_in_use_iff n _ _ b _ h64 hn rfl rfl hb rfl).symm
  · rw [hsb, hicnt]
  · unfold gdt_free_inodes
    rw [hsb, hgdt, hifree, a2, List.map_map, hk]
    have := sum_inode_counts k
    rw [← this]
    rfl
  · unfold free_inode_bits
    rw [hsb, hicnt, hifree]
    have e1 : (List.range (spec_groups n * 1024)).countP
        (fun i => !inode_bit_set (mkfs_context r now) (i + 1)) =
        (List.range (spec_groups n * 1024)).countP (fun i =>
          decide ((if i / 1024 = 0 then 2 else 0) ≤ i % 1024)) := by
      apply countP_range_congr
      intro i hi
      have := mkfs_inode_bits fd n now r hn h i hi
      cases hv : inode_bit_set (mkfs_context r now) (i + 1) with
      | true =>
        have := this.1 hv
        rw [if_pos this.1]
        exact (decide_eq_false (by omega)).symm
      | false =>
        have hnot : ¬ (i / 1024 = 0 ∧ i % 1024 < 2) := by
          intro hc
          have := this.2 hc
          rw [hv] at this
          exact Bool.noConfusion this
        by_cases hq : i / 1024 = 0
        · rw [if_pos hq]
          exact (decide_eq_true (by omega)).symm
        · rw [if_neg hq]
          exact (decide_eq_true (by omega)).symm
    rw [e1]
    have e2 := countP_groups 1024 (by decide) (fun g => if g = 0 then 2 else 0)
      (spec_groups n) 0 (by omega)
    rw [Nat.add_zero] at e2
    rw [e2, hk, ← sum_inode_counts k, Nat.zero_sub, Nat.add_zero]
    congr 1
    apply List.map_congr_left
    intro j _
    by_cases hj0 : j = 0
    · subst hj0
      rfl
    · simp only [if_neg hj0]
  · intro i hi1 hi2
    obtain ⟨j, rfl⟩ : ∃ j, i = j + 1 := ⟨i - 1, by omega⟩
    rw [mkfs_inode_bits fd n now r hn h j (by omega)]
    have hmod := Nat.mod_lt j (by decide : 1024 > 0)
    have hdm := Nat.div_add_mod j 1024
    constructor
    · intro hc
      omega
    · intro hc
      omega

/-- Witness of C27: the blank device of 32832 blocks is accepted, and on the
image both halves of the bookkeeping invariant hold, with `s_blocks_count`
32832 and 2048 inodes. -/
theorem C27_mkfs_counts_witness :
    (32832 : Nat) < 4294967296 ∧
    ∃ r, mkfs devBlank 32832 7 = some r ∧
      (mkfs_context r 7).sb.s_blocks_count = 32832 ∧
      blocks_consistent (mkfs_context r 7) ∧
      (mkfs_context r 7).sb.s_inodes_count = 2048 ∧
      inodes_consistent (mkfs_context r 7) ∧
      (inode_bit_set (mkfs_context r 7) 2 = true ↔ 2 ≤ 2) := by
  have hs : (mkfs devBlank 32832 7).isSome = true := by decide!
  obtain ⟨r, hr⟩ := Option.isSome_iff_exists.mp hs
  have h := C27_mkfs_counts devBlank 32832 7 r (by decide) hr
  have eg : spec_groups 32832 = 2 := by decide
  rw [eg] at h
  obtain ⟨_, _, h3, h4, _, h6, h7, h8⟩ := h
  exact ⟨by decide, r, hr, h3, h4, h6, h7, h8 2 (by decide) (by decide)⟩

/-! ## Scenarios for write, mkdir and rmdir -/

/-- Claim C1, the code at an offset that crosses 4 GiB. On a fresh image `/f`
is created and the one byte `X` is written at offset `2^32`: the write returns
1, but `simplefs_write` computes the offset in the file in `uint32_t`, so the
byte lands at offset 0 and `i_size` becomes 1. The read of one byte at offset
`2^32` that follows returns 0 and stores nothing, where the claim requires it
to return `X`; the read at offset 0 returns the byte. -/
theorem C1_write_past_4g_is_lost :
    scenario_write_past_4g = some ([1, 0, 1], [], [88], some 1) := by
  decide!

/-- Claim C5, the code at the spec's own scenario E2E-1. On a fresh image
`mkdir /a`, `mkdir /a/b`, `rmdir /a/b`, `rmdir /a` all return 0 and
`s_free_blocks_count` is 26 before and after, but `s_free_inodes_count` is 1022
before and 1020 after: the two directories received inodes 3 and 4, which
`free_inode` ignores because they lie below `s_first_ino`. -/
theorem C5_mkdir_rmdir_loses_inodes :
    scenario_mkdir_rmdir = some ([0, 0, 0, 0], [26, 26, 1022, 1020]) := by
  decide!

/-- Claim C25, the code on a parent with 65535 links. `mkdir /a` returns 0 and
the new inode is a directory of mode 0755 with `i_links_count` 2, `i_size` 4096
and `i_blocks` 8, but the parent's `i_links_count` goes from 65535 to 0 where
the claim requires one more than before: `parent_inode_data.i_links_count++` is
a `uint16_t` increment without a test. -/
theorem C25_mkdir_parent_links_wrap :
    scenario_mkdir_links_wrap = some (0, [65535, 0], [16877, 2, 4096, 8]) := by
  decide!

/-! ## Truncation to zero: the release of a file's blocks -/

theorem subtree_blocks_zero (data : Nat → Buf) (level : Nat) :
    subtree_blocks data level 0 = [] := by
  cases level with
  | zero => rfl
  | succ l => rw [subtree_blocks, if_pos rfl]

theorem subtree_blocks_level0 (data : Nat → Buf) (blk : Nat) (h : blk ≠ 0) :
    subtree_blocks data 0 blk = [blk] := by
  rw [subtree_blocks, if_neg h]

theorem subtree_blocks_succ (data : Nat → Buf) (level blk : Nat) (h : blk ≠ 0) :
    subtree_blocks data (level + 1) blk =
      (List.range 1024).flatMap (fun k => subtree_blocks data level (ptrAt (data blk) k)) ++
        [blk] := by
  rw [subtree_blocks]
  rw [if_neg h]

theorem mem_subtree_blocks (data : Nat → Buf) (level : Nat) : ∀ (blk b : Nat),
    b ∈ subtree_blocks data level blk ↔
      b ≠ 0 ∧ ∃ idxs : List Nat, idxs.length ≤ level ∧ (∀ i, i ∈ idxs → i < 1024) ∧
        walk_tree data idxs blk = b := by
  induction level with
  | zero =>
    intro blk b
    by_cases h0 : blk = 0
    · subst h0
      rw [subtree_blocks_zero]
      constructor
      · intro h
        cases h
      · rintro ⟨hb, idxs, _, _, hw⟩
        rw [walk_tree_zero] at hw
        exact absurd hw.symm hb
    · rw [subtree_blocks_level0 _ _ h0, List.mem_singleton]
      constructor
      · intro h
        subst h
        exact ⟨h0, [], Nat.le_refl _, (fun i hi => by cases hi), rfl⟩
      · rintro ⟨_, idxs, hl, _, hw⟩
        have : idxs = [] := List.length_eq_zero.mp (by omega)
        subst this
        exact hw.symm
  | succ l ih =>
    intro blk b
    by_cases h0 : blk = 0
    · subst h0
      rw [subtree_blocks_zero]
      constructor
      · intro h
        cases h
      · rintro ⟨hb, idxs, _, _, hw⟩
        rw [walk_tree_zero] at hw
        exact absurd hw.symm hb
    · rw [subtree_blocks_succ _ _ _ h0, List.mem_append, List.mem_flatMap, List.mem_singleton]
      constructor
      · rintro (⟨k, hk, hm⟩ | e)
        · rw [List.mem_range] at hk
          obtain ⟨hb, idxs, hl, hr, hw⟩ := (ih _ _).mp hm
          refine ⟨hb, k :: idxs, by rw [List.length_cons]; omega, ?_, ?_⟩
          · intro i hi
            rcases List.mem_cons.mp hi with e | e
            · rw [e]; exact hk
            · exact hr i e
          · rw [walk_tree_cons_ne _ _ _ _ h0]
            exact hw
        · subst e
          exact ⟨h0, [], Nat.zero_le _, (fun i hi => by cases hi), rfl⟩
      · rintro ⟨hb, idxs, hl, hr, hw⟩
        cases idxs with
        | nil => right; exact hw.symm
        | cons k rest =>
          left
          rw [walk_tree_cons_ne _ _ _ _ h0] at hw
          rw [List.length_cons] at hl
          exact ⟨k, List.mem_range.mpr (hr k (List.mem_cons_self _ _)),
            (ih _ _).mpr ⟨hb, rest, by omega, fun i hi => hr i (List.mem_cons_of_mem _ hi), hw⟩⟩

theorem nodup_subtree_blocks (data : Nat → Buf) (level : Nat) : ∀ (blk : Nat),
    (∀ idxs idxs' : List Nat, idxs.length ≤ level → idxs'.length ≤ level →
      (∀ i, i ∈ idxs → i < 1024) → (∀ i, i ∈ idxs' → i < 1024) →
      walk_tree data idxs blk ≠ 0 → walk_tree data idxs blk = walk_tree data idxs' blk →
      idxs = idxs') →
    (subtree_blocks data level blk).Nodup := by
  induction level with
  | zero =>
    intro blk _
    by_cases h0 : blk = 0
    · subst h0
      rw [subtree_blocks_zero]
      exact List.nodup_nil
    · rw [subtree_blocks_level0 _ _ h0]
      exact List.nodup_singleton _
  | succ l ih =>
    intro blk hinj
    by_cases h0 : blk = 0
    · subst h0
      rw [subtree_blocks_zero]
      exact List.nodup_nil
    rw [subtree_blocks_succ _ _ _ h0]
    have hcons : ∀ k (r : List Nat), walk_tree data (k :: r) blk =
        walk_tree data r (ptrAt (data blk) k) := fun k r => walk_tree_cons_ne _ _ _ _ h0
    rw [List.nodup_append]
    refine ⟨?_, List.nodup_singleton _, ?_⟩
    · rw [List.nodup_flatMap]
      constructor
      · intro k hk
        rw [List.mem_range] at hk
        apply ih
        intro idxs idxs' h1 h2 h3 h4 h5 h6
        have := hinj (k :: idxs) (k :: idxs') (by rw [List.length_cons]; omega)
          (by rw [List.length_cons]; omega)
          (fun i hi => by
            rcases List.mem_cons.mp hi with e | e
            · rw [e]; exact hk
            · exact h3 i e)
          (fun i hi => by
            rcases List.mem_cons.mp hi with e | e
            · rw [e]; exact hk
            · exact h4 i e)
          (by rw [hcons]; exact h5) (by rw [hcons, hcons]; exact h6)
        exact (List.cons.inj this).2
      · apply List.Pairwise.imp_of_mem _ (List.nodup_range 1024)
        intro j k hj hk hjk
        rw [List.mem_range] at hj hk
        intro b hbj hbk
        obtain ⟨hb, r1, l1, q1, w1⟩ := (mem_subtree_blocks data l _ b).mp hbj
        obtain ⟨_, r2, l2, q2, w2⟩ := (mem_subtree_blocks data l _ b).mp hbk
        have := hinj (j :: r1) (k :: r2) (by rw [List.length_cons]; omega)
          (by rw [List.length_cons]; omega)
          (fun i hi => by
            rcases List.mem_cons.mp hi with e | e
            · rw [e]; exact hj
            · exact q1 i e)
          (fun i hi => by
            rcases List.mem_cons.mp hi with e | e
            · rw [e]; exact hk
            · exact q2 i e)
          (by rw [hcons, w1]; exact hb) (by rw [hcons, hcons, w1, w2])
        exact hjk (List.cons.inj this).1
    · intro b hb1 hb2
      rw [List.mem_singleton] at hb2
      subst hb2
      rw [List.mem_flatMap] at hb1
      obtain ⟨k, hk, hm⟩ := hb1
      rw [List.mem_range] at hk
      obtain ⟨_, r, l1, q1, w1⟩ := (mem_subtree_blocks data l _ b).mp hm
      have := hinj (k :: r) [] (by rw [List.length_cons]; omega) (Nat.zero_le _)
        (fun i hi => by
          rcases List.mem_cons.mp hi with e | e
          · rw [e]; exact hk
          · exact q1 i e)
        (fun i hi => by cases hi)
        (by rw [hcons, w1]; exact h0) (by rw [hcons, w1]; rfl)
      cases this

theorem mem_inode_blocks (data : Nat → Buf) (inode : Buf) (b : Nat) :
    b ∈ inode_blocks data inode ↔
      b ≠ 0 ∧ ∃ s idxs, tree_path_ok s idxs ∧ tree_node data inode s idxs = b := by
  unfold inode_blocks tree_path_ok tree_node
  rw [List.mem_flatMap]
  constructor
  · rintro ⟨s, hs, hm⟩
    rw [List.mem_range] at hs
    obtain ⟨hb, idxs, hl, hr, hw⟩ := (mem_subtree_blocks data _ _ b).mp hm
    exact ⟨hb, s, idxs, ⟨hs, hl, hr⟩, hw⟩
  · rintro ⟨hb, s, idxs, ⟨hs, hl, hr⟩, hw⟩
    exact ⟨s, List.mem_range.mpr hs, (mem_subtree_blocks data _ _ b).mpr ⟨hb, idxs, hl, hr, hw⟩⟩

theorem nodup_inode_blocks (data : Nat → Buf) (inode : Buf) (hd : tree_distinct data inode) :
    (inode_blocks data inode).Nodup := by
  unfold inode_blocks
  rw [List.nodup_flatMap]
  constructor
  · intro s hs
    rw [List.mem_range] at hs
    apply nodup_subtree_blocks
    intro idxs idxs' h1 h2 h3 h4 h5 h6
    exact (hd s idxs s idxs' ⟨hs, h1, h3⟩ ⟨hs, h2, h4⟩ h5 h6).2
  · apply List.Pairwise.imp_of_mem _ (List.nodup_range _)
    intro j k hj hk hjk
    rw [List.mem_range] at hj hk
    intro b hbj hbk
    obtain ⟨hb, r1, l1, q1, w1⟩ := (mem_subtree_blocks data _ _ b).mp hbj
    obtain ⟨_, r2, l2, q2, w2⟩ := (mem_subtree_blocks data _ _ b).mp hbk
    have := hd j r1 k r2 ⟨hj, l1, q1⟩ ⟨hk, l2, q2⟩
      (by unfold tree_node; rw [w1]; exact hb) (by unfold tree_node; rw [w1, w2])
    exact hjk this.1

theorem block_given_getD (c : SimpleFS_Context) (g bit g' : Nat) :
    ((block_given c g bit).gdt.getD g' default).bg_block_bitmap =
      (c.gdt.getD g' default).bg_block_bitmap ∧
    ((block_given c g bit).gdt.getD g' default).bg_inode_bitmap =
      (c.gdt.getD g' default).bg_inode_bitmap ∧
    ((block_given c g bit).gdt.getD g' default).bg_inode_table =
      (c.gdt.getD g' default).bg_inode_table := by
  rw [block_given_gdt, getD_set]
  by_cases h : g = g' ∧ g < c.gdt.length
  · rw [if_pos h]
    obtain ⟨h1, _⟩ := h
    subst h1
    exact ⟨rfl, rfl, rfl⟩
  · rw [if_neg h]
    exact ⟨rfl, rfl, rfl⟩

theorem block_given_length (c : SimpleFS_Context) (g bit : Nat) :
    (block_given c g bit).gdt.length = c.gdt.length := by
  rw [block_given_gdt, List.length_set]

theorem same_layout_block_given (c : SimpleFS_Context) (g bit : Nat) :
    same_layout c (block_given c g bit) :=
  ⟨rfl, rfl, rfl, rfl, rfl, rfl, block_given_length c g bit,
    fun g' => block_given_getD c g bit g', rfl⟩

theorem io_ok_of_layout (c c' : SimpleFS_Context) (h : same_layout c c') (hio : io_ok c) :
    io_ok c' := by
  intro b
  rw [h.1, h.2.1]
  exact hio b

theorem release_frame_refl (c0 : SimpleFS_Context) (R : Nat → Prop) : release_frame c0 c0 R :=
  ⟨same_layout_refl c0, fun _ _ => rfl⟩

theorem free_block_frame (c0 ctx : SimpleFS_Context) (R : Nat → Prop) (b : Nat)
    (hR : ∀ g, g < c0.gdt.length → R (c0.gdt.getD g default).bg_block_bitmap)
    (h : release_frame c0 ctx R) : release_frame c0 (free_block ctx b) R := by
  rcases free_block_cases ctx b with he | ⟨_, _, hg, _, _, he⟩
  · rw [he]
    exact h
  · rw [he]
    obtain ⟨hl, hd⟩ := h
    refine ⟨same_layout_trans _ _ _ hl (same_layout_block_given ctx _ _), ?_⟩
    intro x hx
    rw [block_given_data]
    have hne : x ≠ (ctx.gdt.getD (b / ctx.sb.s_blocks_per_group) default).bg_block_bitmap := by
      intro e
      apply hx
      rw [e, (hl.2.2.2.2.2.2.2.1 _).1]
      exact hR _ (by rw [← hl.2.2.2.2.2.2.1]; exact hg)
    rw [if_neg hne]
    exact hd x hx

theorem foldl_free_block_frame (c0 : SimpleFS_Context) (R : Nat → Prop)
    (hR : ∀ g, g < c0.gdt.length → R (c0.gdt.getD g default).bg_block_bitmap)
    (L : List Nat) : ∀ ctx, release_frame c0 ctx R →
      release_frame c0 (L.foldl free_block ctx) R := by
  induction L with
  | nil => intro ctx h; exact h
  | cons b L ih =>
    intro ctx h
    rw [List.foldl_cons]
    exact ih _ (free_block_frame c0 ctx R b hR h)

theorem free_block_tree_recursive_zero (level : Nat) (ctx : SimpleFS_Context) :
    free_block_tree_recursive level ctx 0 = ctx := by
  cases level <;> rw [free_block_tree_recursive, if_pos rfl]

theorem free_block_tree_recursive_level0 (ctx : SimpleFS_Context) (blk : Nat) (h : blk ≠ 0) :
    free_block_tree_recursive 0 ctx blk = free_block ctx blk := by
  rw [free_block_tree_recursive, if_neg h]

theorem free_block_tree_recursive_succ (level : Nat) (ctx : SimpleFS_Context) (blk : Nat)
    (h : blk ≠ 0) (hio : io_ok ctx) :
    free_block_tree_recursive (level + 1) ctx blk =
      free_block ((List.range 1024).foldl (fun c k =>
        if ptrAt (ctx.device_fd.data blk) k ≠ 0 then
          free_block_tree_recursive level c (ptrAt (ctx.device_fd.data blk) k)
        else c) ctx) blk := by
  rw [free_block_tree_recursive, if_neg h]
  dsimp only
  rw [read_block_io ctx hio]
  rfl

theorem foldl_children (c0 : SimpleFS_Context) (R : Nat → Prop)
    (hR : ∀ g, g < c0.gdt.length → R (c0.gdt.getD g default).bg_block_bitmap)
    (level : Nat)
    (ih : ∀ ctx blk, release_frame c0 ctx R →
      (∀ b, b ∈ subtree_blocks c0.device_fd.data level blk → ¬ R b) →
      free_block_tree_recursive level ctx blk =
        (subtree_blocks c0.device_fd.data level blk).foldl free_block ctx)
    (content : Buf) (ks : List Nat) : ∀ ctx, release_frame c0 ctx R →
      (∀ k, k ∈ ks → ∀ b, b ∈ subtree_blocks c0.device_fd.data level (ptrAt content k) → ¬ R b) →
      ks.foldl (fun c k =>
        if ptrAt content k ≠ 0 then free_block_tree_recursive level c (ptrAt content k)
        else c) ctx =
      (ks.flatMap (fun k => subtree_blocks c0.device_fd.data level (ptrAt content k))).foldl
        free_block ctx := by
  induction ks with
  | nil => intro ctx _ _; rfl
  | cons k ks ihk =>
    intro ctx hf hk
    rw [List.foldl_cons, List.flatMap_cons, List.foldl_append]
    have hstep : (if ptrAt content k ≠ 0 then
        free_block_tree_recursive level ctx (ptrAt content k) else ctx) =
        (subtree_blocks c0.device_fd.data level (ptrAt content k)).foldl free_block ctx := by
      by_cases h0 : ptrAt content k = 0
      · rw [if_neg (fun h => h h0), h0, subtree_blocks_zero]
        rfl
      · rw [if_pos h0]
        exact ih ctx _ hf (hk k (List.mem_cons_self _ _))
    rw [hstep]
    exact ihk _ (foldl_free_block_frame c0 R hR _ ctx hf)
      (fun k' hk' => hk k' (List.mem_cons_of_mem _ hk'))

/-- The recursive release frees the blocks of the subtree in the order of
`subtree_blocks`, when no block of the subtree is a block bitmap. -/
theorem free_block_tree_recursive_eq (c0 : SimpleFS_Context) (R : Nat → Prop)
    (hio : io_ok c0)
    (hR : ∀ g, g < c0.gdt.length → R (c0.gdt.getD g default).bg_block_bitmap)
    (level : Nat) : ∀ ctx blk, release_frame c0 ctx R →
      (∀ b, b ∈ subtree_blocks c0.device_fd.data level blk → ¬ R b) →
      free_block_tree_recursive level ctx blk =
        (subtree_blocks c0.device_fd.data level blk).foldl free_block ctx := by
  induction level with
  | zero =>
    intro ctx blk _ _
    by_cases h0 : blk = 0
    · rw [h0, free_block_tree_recursive_zero, subtree_blocks_zero]
      rfl
    · rw [free_block_tree_recursive_level0 _ _ h0, subtree_blocks_level0 _ _ h0]
      rfl
  | succ l ih =>
    intro ctx blk hf hnr
    by_cases h0 : blk = 0
    · rw [h0, free_block_tree_recursive_zero, subtree_blocks_zero]
      rfl
    have hblk : ¬ R blk := by
      apply hnr
      rw [subtree_blocks_succ _ _ _ h0]
      exact List.mem_append_right _ (List.mem_singleton_self _)
    rw [free_block_tree_recursive_succ _ _ _ h0 (io_ok_of_layout _ _ hf.1 hio),
      subtree_blocks_succ _ _ _ h0, List.foldl_append, hf.2 blk hblk]
    rw [foldl_children c0 R hR l ih (c0.device_fd.data blk) (List.range 1024) ctx hf]
    · rfl
    · intro k _ b hb
      apply hnr
      rw [subtree_blocks_succ _ _ _ h0]
      exact List.mem_append_left _ (List.mem_flatMap.mpr ⟨k, ‹_›, hb⟩)

theorem range_block_ptrs : List.range SIMPLEFS_INODE_BLOCK_PTRS =
    List.range SIMPLEFS_NUM_DIRECT_BLOCKS ++ [12, 13, 14] := by decide

theorem foldl_direct (data : Nat → Buf) (inode : Buf) (ks : List Nat)
    (hk : ∀ s, s ∈ ks → tree_depth s = 0) : ∀ ctx : SimpleFS_Context,
    ks.foldl (fun ctx i =>
      if i_block inode i ≠ 0 then free_block ctx (i_block inode i) else ctx) ctx =
    (ks.flatMap (fun s => subtree_blocks data (tree_depth s) (i_block inode s))).foldl
      free_block ctx := by
  induction ks with
  | nil => intro ctx; rfl
  | cons k ks ih =>
    intro ctx
    rw [List.foldl_cons, List.flatMap_cons, List.foldl_append, hk k (List.mem_cons_self _ _)]
    have hstep : (if i_block inode k ≠ 0 then free_block ctx (i_block inode k) else ctx) =
        (subtree_blocks data 0 (i_block inode k)).foldl free_block ctx := by
      by_cases h0 : i_block inode k = 0
      · rw [if_neg (fun h => h h0), h0, subtree_blocks_zero]
        rfl
      · rw [if_pos h0, subtree_blocks_level0 _ _ h0]
        rfl
    rw [hstep]
    exact ih (fun s hs => hk s (List.mem_cons_of_mem _ hs)) _

theorem inode_blocks_split (data : Nat → Buf) (inode : Buf) :
    inode_blocks data inode =
      (List.range SIMPLEFS_NUM_DIRECT_BLOCKS).flatMap
          (fun s => subtree_blocks data (tree_depth s) (i_block inode s)) ++
        (subtree_blocks data 1 (i_block inode 12) ++
          (subtree_blocks data 2 (i_block inode 13) ++
            subtree_blocks data 3 (i_block inode 14))) := by
  unfold inode_blocks
  rw [range_block_ptrs, List.flatMap_append]
  simp only [List.flatMap_cons, List.flatMap_nil, List.append_nil]
  rfl

/-- The release of a whole file frees the blocks of `inode_blocks` in order. -/
theorem free_all_inode_blocks_eq (c0 : SimpleFS_Context) (R : Nat → Prop) (inode : Buf)
    (hio : io_ok c0)
    (hR : ∀ g, g < c0.gdt.length → R (c0.gdt.getD g default).bg_block_bitmap)
    (hnr : ∀ b, b ∈ inode_blocks c0.device_fd.data inode → ¬ R b) :
    free_all_inode_blocks c0 inode =
      ((inode_blocks c0.device_fd.data inode).foldl free_block c0,
        set_i_blocks (blit inode I_BLOCK_OFF zeroBuf 0 (4 * SIMPLEFS_INODE_BLOCK_PTRS)) 0) := by
  rw [inode_blocks_split] at hnr ⊢
  have hd := foldl_direct c0.device_fd.data inode (List.range SIMPLEFS_NUM_DIRECT_BLOCKS)
    (fun s hs => by
      have : s < 12 := List.mem_range.mp hs
      unfold tree_depth
      omega) c0
  have f0 := foldl_free_block_frame c0 R hR
    ((List.range SIMPLEFS_NUM_DIRECT_BLOCKS).flatMap
      (fun s => subtree_blocks c0.device_fd.data (tree_depth s) (i_block inode s)))
    c0 (release_frame_refl c0 R)
  have e1 := free_block_tree_recursive_eq c0 R hio hR 1 _ (i_block inode 12) f0
    (fun b hb => hnr b (List.mem_append_right _ (List.mem_append_left _ hb)))
  have f1 := foldl_free_block_frame c0 R hR
    (subtree_blocks c0.device_fd.data 1 (i_block inode 12)) _ f0
  have e2 := free_block_tree_recursive_eq c0 R hio hR 2 _ (i_block inode 13) f1
    (fun b hb => hnr b (List.mem_append_right _ (List.mem_append_right _
      (List.mem_append_left _ hb))))
  have f2 := foldl_free_block_frame c0 R hR
    (subtree_blocks c0.device_fd.data 2 (i_block inode 13)) _ f1
  have e3 := free_block_tree_recursive_eq c0 R hio hR 3 _ (i_block inode 14) f2
    (fun b hb => hnr b (List.mem_append_right _ (List.mem_append_right _
      (List.mem_append_right _ hb))))
  unfold free_all_inode_blocks
  dsimp only
  rw [List.foldl_append, List.foldl_append, List.foldl_append, ← e3, ← e2, ← e1, ← hd]
  rfl

theorem free_block_given (ctx : SimpleFS_Context) (b : Nat) (hio : io_ok ctx) (h0 : b ≠ 0)
    (hb : b < ctx.sb.s_blocks_count) (hg : b / ctx.sb.s_blocks_per_group < ctx.gdt.length) :
    free_block ctx b =
      block_given ctx (b / ctx.sb.s_blocks_per_group) (b % ctx.sb.s_blocks_per_group) := by
  unfold free_block
  rw [if_neg (by omega)]
  dsimp only
  rw [if_neg (by omega), read_block_io ctx hio]
  dsimp only
  rw [write_block_of_writable _ _ _ (hio _).2]
  rfl

theorem block_bit_set_given_layout (c0 ctx : SimpleFS_Context) (hl0 : block_layout_ok c0)
    (hl : same_layout c0 ctx) (g bit b : Nat) (hg : g < ctx.gdt.length)
    (hbit : bit < ctx.sb.s_blocks_per_group) (hb : b < ctx.sb.s_blocks_count) :
    block_bit_set (block_given ctx g bit) b =
      (!decide (b = g * ctx.sb.s_blocks_per_group + bit) && block_bit_set ctx b) := by
  obtain ⟨h1, h2, _, _, h5, _⟩ := hl0
  obtain ⟨_, _, a3, a4, _, _, a7, a8, _⟩ := hl
  have := family_clear ctx.device_fd.data
    (fun a => (ctx.gdt.getD a default).bg_block_bitmap) ctx.sb.s_blocks_per_group
    ctx.sb.s_blocks_count ctx.gdt.length g bit b
    (fun x y hx hy h => h5 x (by omega) y (by omega) (by
      rw [← (a8 x).1, ← (a8 y).1]
      exact h)) (by rw [a3, a4, a7]; exact h2) hg hbit (by rw [a4]; exact h1) hb
  rw [block_bit_set_eq, block_bit_set_eq, block_given_bpg, block_given_gdt, block_given_data,
    getD_set]
  rw [← this]
  by_cases hgg : g = b / ctx.sb.s_blocks_per_group ∧ g < ctx.gdt.length
  · rw [if_pos hgg, ← hgg.1]
  · rw [if_neg hgg]

/-- Releasing a list of different blocks that are marked in use raises
`s_free_blocks_count` by the length of the list, keeps it equal to the number
of clear bits, and clears exactly the bits of the list. -/
theorem foldl_free_block_count (c0 : SimpleFS_Context) (hl0 : block_layout_ok c0)
    (hio : io_ok c0) (L : List Nat) : ∀ ctx, same_layout c0 ctx →
    ctx.sb.s_free_blocks_count = free_block_bits ctx → L.Nodup →
    (∀ b, b ∈ L → b ≠ 0 ∧ b < c0.sb.s_blocks_count ∧ block_bit_set ctx b = true) →
    (L.foldl free_block ctx).sb.s_free_blocks_count = ctx.sb.s_free_blocks_count + L.length ∧
    (L.foldl free_block ctx).sb.s_free_blocks_count = free_block_bits (L.foldl free_block ctx) ∧
    (∀ x, x < c0.sb.s_blocks_count →
      block_bit_set (L.foldl free_block ctx) x = (!decide (x ∈ L) && block_bit_set ctx x)) := by
  induction L with
  | nil =>
    intro ctx _ hc _ _
    refine ⟨rfl, hc, fun x _ => ?_⟩
    simp
  | cons b L ih =>
    intro ctx hl hc hnd hL
    obtain ⟨hb0, hbn, hbs⟩ := hL b (List.mem_cons_self _ _)
    have hl0' := hl0
    obtain ⟨h1, h2, h3, h4, h5, _⟩ := hl0
    have a3 := hl.2.2.1
    have a4 := hl.2.2.2.1
    have a7 := hl.2.2.2.2.2.2.1
    have hp : 0 < ctx.sb.s_blocks_per_group := by
      rcases Nat.eq_zero_or_pos ctx.sb.s_blocks_per_group with h | h
      · rw [a4] at h
        rw [h] at h2
        omega
      · exact h
    have hbn' : b < ctx.sb.s_blocks_count := by rw [a3]; exact hbn
    have hg : b / ctx.sb.s_blocks_per_group < ctx.gdt.length := by
      rw [Nat.div_lt_iff_lt_mul hp, a4, a7]
      omega
    have hbit : b % ctx.sb.s_blocks_per_group < ctx.sb.s_blocks_per_group := Nat.mod_lt _ hp
    have hbeq : b / ctx.sb.s_blocks_per_group * ctx.sb.s_blocks_per_group +
        b % ctx.sb.s_blocks_per_group = b := by
      rw [Nat.mul_comm]
      exact Nat.div_add_mod b _
    have hio' : io_ok ctx := io_ok_of_layout _ _ hl hio
    have he := free_block_given ctx b hio' hb0 hbn' hg
    have hbitx : ∀ x, x < c0.sb.s_blocks_count →
        block_bit_set (free_block ctx b) x = (!decide (x = b) && block_bit_set ctx x) := by
      intro x hx
      rw [he, block_bit_set_given_layout c0 ctx hl0' hl _ _ x hg hbit (by rw [a3]; exact hx),
        hbeq]
    have hbits : free_block_bits (free_block ctx b) = free_block_bits ctx + 1 := by
      unfold free_block_bits
      have e1 : (free_block ctx b).sb.s_blocks_count = ctx.sb.s_blocks_count := by
        rw [he]
        rfl
      rw [e1]
      apply countP_range_flip _ _ _ b hbn'
      · intro x hx hne
        rw [hbitx x (by rw [← a3]; exact hx)]
        simp [hne]
      · simp [hbs]
      · rw [hbitx b hbn]
        simp
    have hlt := countP_range_lt (fun b => !block_bit_set ctx b) ctx.sb.s_blocks_count b hbn'
      (by simp [hbs])
    have hfree : (free_block ctx b).sb.s_free_blocks_count = ctx.sb.s_free_blocks_count + 1 := by
      rw [he, block_given_free, inc32_of_lt]
      rw [hc]
      unfold free_block_bits
      omega
    have hl1 : same_layout c0 (free_block ctx b) := by
      rw [he]
      exact same_layout_trans _ _ _ hl (same_layout_block_given ctx _ _)
    have hnb : b ∉ L := (List.nodup_cons.mp hnd).1
    obtain ⟨r1, r2, r3⟩ := ih (free_block ctx b) hl1 (by rw [hfree, hbits, hc])
      (List.nodup_cons.mp hnd).2 (fun x hx => by
        obtain ⟨x0, xn, xs⟩ := hL x (List.mem_cons_of_mem _ hx)
        refine ⟨x0, xn, ?_⟩
        rw [hbitx x xn, xs]
        have : x ≠ b := fun e => hnb (e ▸ hx)
        simp [this])
    rw [List.foldl_cons]
    refine ⟨?_, r2, ?_⟩
    · rw [r1, hfree, List.length_cons]
      omega
    · intro x hx
      rw [r3 x hx, hbitx x hx]
      by_cases hxb : x = b
      · simp [hxb]
      · simp [hxb]

theorem write_block_ignore_frame (fd : Device) (b : Nat) (buf : Buf) :
    (write_block_ignore fd b buf).readable = fd.readable ∧
    (write_block_ignore fd b buf).writable = fd.writable ∧
    ∀ x, x ≠ b → (write_block_ignore fd b buf).data x = fd.data x := by
  unfold write_block_ignore write_block
  by_cases hw : fd.writable b = true
  · rw [if_pos hw]
    refine ⟨rfl, rfl, fun x hx => ?_⟩
    show (if x = b then buf else fd.data x) = fd.data x
    rw [if_neg hx]
  · rw [if_neg hw]
    exact ⟨rfl, rfl, fun _ _ => rfl⟩

theorem write_gdt_blocks_frame (gdt : List SimpleFS_GroupDesc) (first : Nat) (fd : Device)
    (G : Nat) :
    (write_gdt_blocks gdt first G fd).readable = fd.readable ∧
    (write_gdt_blocks gdt first G fd).writable = fd.writable ∧
    ∀ x, (∀ i, i < G → x ≠ u32 (first + i)) →
      (write_gdt_blocks gdt first G fd).data x = fd.data x := by
  unfold write_gdt_blocks
  induction G with
  | zero => exact ⟨rfl, rfl, fun _ _ => rfl⟩
  | succ G ih =>
    rw [List.range_succ, List.foldl_append, List.foldl_cons, List.foldl_nil]
    obtain ⟨i1, i2, i3⟩ := ih
    by_cases hc : u32 (G * SIMPLEFS_BLOCK_SIZE) ≥ u32 (gdt.length * 32)
    · rw [if_pos hc]
      exact ⟨i1, i2, fun x hx => i3 x (fun i hi => hx i (by omega))⟩
    · rw [if_neg hc]
      obtain ⟨w1, w2, w3⟩ := write_block_ignore_frame
        ((List.range G).foldl (fun d i =>
          if u32 (i * SIMPLEFS_BLOCK_SIZE) ≥ u32 (gdt.length * 32) then d
          else write_block_ignore d (u32 (first + i)) (gdt_block gdt i)) fd)
        (u32 (first + G)) (gdt_block gdt G)
      refine ⟨w1.trans i1, w2.trans i2, fun x hx => ?_⟩
      rw [w3 x (hx G (by omega))]
      exact i3 x (fun i hi => hx i (by omega))

theorem sync_backups_frame (gdt : List SimpleFS_GroupDesc) (bpg G : Nat) (buf : Buf)
    (fd : Device) (m : Nat) :
    ((List.range m).foldl (fun d k =>
        if (!is_backup_group (k + 1)) = true then d
        else write_gdt_blocks gdt (u32 ((k + 1) * bpg) + 1) G
          (write_block_ignore d (u32 ((k + 1) * bpg)) buf)) fd).readable = fd.readable ∧
    ((List.range m).foldl (fun d k =>
        if (!is_backup_group (k + 1)) = true then d
        else write_gdt_blocks gdt (u32 ((k + 1) * bpg) + 1) G
          (write_block_ignore d (u32 ((k + 1) * bpg)) buf)) fd).writable = fd.writable ∧
    ∀ x, (∀ k, k < m → is_backup_group (k + 1) = true →
        x ≠ u32 ((k + 1) * bpg) ∧ ∀ i, i < G → x ≠ u32 (u32 ((k + 1) * bpg) + 1 + i)) →
      ((List.range m).foldl (fun d k =>
        if (!is_backup_group (k + 1)) = true then d
        else write_gdt_blocks gdt (u32 ((k + 1) * bpg) + 1) G
          (write_block_ignore d (u32 ((k + 1) * bpg)) buf)) fd).data x = fd.data x := by
  induction m with
  | zero => exact ⟨rfl, rfl, fun _ _ => rfl⟩
  | succ m ih =>
    rw [List.range_succ, List.foldl_append, List.foldl_cons, List.foldl_nil]
    obtain ⟨i1, i2, i3⟩ := ih
    by_cases hb : is_backup_group (m + 1) = true
    · rw [hb]
      rw [if_neg (by decide)]
      obtain ⟨g1, g2, g3⟩ := write_gdt_blocks_frame gdt (u32 ((m + 1) * bpg) + 1)
        (write_block_ignore ((List.range m).foldl (fun d k =>
          if (!is_backup_group (k + 1)) = true then d
          else write_gdt_blocks gdt (u32 ((k + 1) * bpg) + 1) G
            (write_block_ignore d (u32 ((k + 1) * bpg)) buf)) fd) (u32 ((m + 1) * bpg)) buf) G
      obtain ⟨w1, w2, w3⟩ := write_block_ignore_frame ((List.range m).foldl (fun d k =>
          if (!is_backup_group (k + 1)) = true then d
          else write_gdt_blocks gdt (u32 ((k + 1) * bpg) + 1) G
            (write_block_ignore d (u32 ((k + 1) * bpg)) buf)) fd) (u32 ((m + 1) * bpg)) buf
      refine ⟨g1.trans (w1.trans i1), g2.trans (w2.trans i2), fun x hx => ?_⟩
      obtain ⟨hx1, hx2⟩ := hx m (by omega) hb
      rw [g3 x hx2, w3 x hx1]
      exact i3 x (fun k hk => hx k (by omega))
    · have hb' : is_backup_group (m + 1) = false := by
        cases h : is_backup_group (m + 1)
        · rfl
        · exact absurd h hb
      rw [hb']
      rw [if_pos (by decide)]
      exact ⟨i1, i2, fun x hx => i3 x (fun k hk => hx k (by omega))⟩

/-- The metadata flush changes the device only: the in-memory superblock and
descriptors stay, no block turns unreadable or unwritable, and a block that is
not one of its targets keeps its content. -/
theorem sync_fs_metadata_frame (c : SimpleFS_Context) :
    (sync_fs_metadata c).sb = c.sb ∧ (sync_fs_metadata c).gdt = c.gdt ∧
    (sync_fs_metadata c).now = c.now ∧ (sync_fs_metadata c).errno = c.errno ∧
    (sync_fs_metadata c).device_fd.readable = c.device_fd.readable ∧
    (sync_fs_metadata c).device_fd.writable = c.device_fd.writable ∧
    ∀ x, ¬ sync_target c x → (sync_fs_metadata c).device_fd.data x = c.device_fd.data x := by
  unfold sync_fs_metadata
  dsimp only
  cases hw : write_block c.device_fd 1 (blit zeroBuf 0 (encode_sb c.sb) 0 1024) with
  | none => exact ⟨rfl, rfl, rfl, rfl, rfl, rfl, fun _ _ => rfl⟩
  | some dev =>
    dsimp only
    obtain ⟨_, hdev⟩ := write_block_some _ _ _ _ hw
    have d1 : dev.readable = c.device_fd.readable := by rw [hdev]; rfl
    have d2 : dev.writable = c.device_fd.writable := by rw [hdev]; rfl
    have d3 : ∀ x, x ≠ 1 → dev.data x = c.device_fd.data x := by
      intro x hx
      rw [hdev]
      show (if x = 1 then _ else c.device_fd.data x) = c.device_fd.data x
      rw [if_neg hx]
    by_cases hlen : c.gdt.length = 0
    · rw [if_pos hlen]
      refine ⟨rfl, rfl, rfl, rfl, d1, d2, fun x hx => ?_⟩
      exact d3 x (fun e => hx (Or.inl e))
    · rw [if_neg hlen]
      obtain ⟨g1, g2, g3⟩ := write_gdt_blocks_frame c.gdt (1 + 1) dev
        ((u32 (c.gdt.length * 32) + SIMPLEFS_BLOCK_SIZE - 1) / SIMPLEFS_BLOCK_SIZE)
      obtain ⟨b1, b2, b3⟩ := sync_backups_frame c.gdt c.sb.s_blocks_per_group
        ((u32 (c.gdt.length * 32) + SIMPLEFS_BLOCK_SIZE - 1) / SIMPLEFS_BLOCK_SIZE)
        (blit zeroBuf 0 (encode_sb c.sb) 0 1024)
        (write_gdt_blocks c.gdt (1 + 1)
          ((u32 (c.gdt.length * 32) + SIMPLEFS_BLOCK_SIZE - 1) / SIMPLEFS_BLOCK_SIZE) dev)
        (c.gdt.length - 1)
      refine ⟨rfl, rfl, rfl, rfl, b1.trans (g1.trans d1), b2.trans (g2.trans d2), fun x hx => ?_⟩
      have hx1 : x ≠ 1 := fun e => hx (Or.inl e)
      have hx2 : ∀ i, i < (u32 (c.gdt.length * 32) + SIMPLEFS_BLOCK_SIZE - 1) /
          SIMPLEFS_BLOCK_SIZE → x ≠ u32 (1 + 1 + i) :=
        fun i hi e => hx (Or.inr (Or.inl ⟨i, hi, e⟩))
      have hx3 : ∀ k, k < c.gdt.length - 1 → is_backup_group (k + 1) = true →
          x ≠ u32 ((k + 1) * c.sb.s_blocks_per_group) ∧
          ∀ i, i < (u32 (c.gdt.length * 32) + SIMPLEFS_BLOCK_SIZE - 1) / SIMPLEFS_BLOCK_SIZE →
            x ≠ u32 (u32 ((k + 1) * c.sb.s_blocks_per_group) + 1 + i) := by
        intro k hk hb
        exact ⟨fun e => hx (Or.inr (Or.inr ⟨k + 1, by omega, by omega, hb, Or.inl e⟩)),
          fun i hi e => hx (Or.inr (Or.inr ⟨k + 1, by omega, by omega, hb, Or.inr ⟨i, hi, e⟩⟩))⟩
      have e3 := b3 x hx3
      have e2 := g3 x hx2
      exact e3.trans (e2.trans (d3 x hx1))

theorem sync_target_layout (c c' : SimpleFS_Context) (h : same_layout c c') (b : Nat) :
    sync_target c' b ↔ sync_target c b := by
  unfold sync_target
  rw [h.2.2.2.2.2.2.1, h.2.2.2.1]

theorem same_fs_eq (c c' : SimpleFS_Context) (h : same_fs c c') : c' = setErrno c c'.errno := by
  obtain ⟨a, b, d, e⟩ := h
  cases c'
  cases c
  simp only [setErrno] at *
  subst a b d e
  rfl

theorem inode_blocks_congr (data : Nat → Buf) (inode inode' : Buf)
    (h : ∀ s, i_block inode' s = i_block inode s) :
    inode_blocks data inode' = inode_blocks data inode := by
  unfold inode_blocks
  simp only [h]

theorem i_block_released (inode : Buf) (s : Nat) (hs : s < SIMPLEFS_INODE_BLOCK_PTRS) :
    i_block (set_i_blocks (blit inode I_BLOCK_OFF zeroBuf 0 (4 * SIMPLEFS_INODE_BLOCK_PTRS)) 0) s
      = 0 := by
  rw [i_block_set_i_blocks]
  unfold i_block I_BLOCK_OFF
  unfold SIMPLEFS_INODE_BLOCK_PTRS at hs ⊢
  rw [getLE_blit_inside _ _ _ _ _ _ _ (by omega)]
  exact getLE_zeroBuf _ _

theorem i_size_released (inode : Buf) :
    i_size (set_i_blocks (blit inode I_BLOCK_OFF zeroBuf 0 (4 * SIMPLEFS_INODE_BLOCK_PTRS)) 0)
      = i_size inode := by
  rw [i_size_set_i_blocks]
  unfold i_size I_BLOCK_OFF
  exact getLE_blit_outside _ _ _ _ _ _ _ (by omega)

theorem i_blocks_set_i_blocks (inode : Buf) (v : Nat) (hv : v < 4294967296) :
    i_blocks (set_i_blocks inode v) = v := by
  unfold i_blocks set_i_blocks
  rw [getLE_setLE_same]
  exact Nat.mod_eq_of_lt (by norm_num; exact hv)

theorem i_blocks_set_i_ctime (inode : Buf) (v : Nat) :
    i_blocks (set_i_ctime inode v) = i_blocks inode := by
  unfold i_blocks set_i_ctime
  exact getLE_setLE_disjoint _ _ _ _ _ _ (by omega)

theorem i_blocks_set_i_mtime (inode : Buf) (v : Nat) :
    i_blocks (set_i_mtime inode v) = i_blocks inode := by
  unfold i_blocks set_i_mtime
  exact getLE_setLE_disjoint _ _ _ _ _ _ (by omega)

/-- The release branch of `simplefs_truncate` on a well-formed block tree. -/
theorem truncate_release_spec (c : SimpleFS_Context) (n : Nat) (inode : Buf) (R : Nat → Prop)
    (T o old_size : Nat)
    (hloc : inode_location c n = .ok (T, o))
    (hok : tree_ok c inode R)
    (hcons : c.sb.s_free_blocks_count = free_block_bits c)
    (hsync : ¬ sync_target c T) :
    (truncate_finish (free_all_inode_blocks c (set_i_size inode 0)).1 n
      (free_all_inode_blocks c (set_i_size inode 0)).2 0 old_size).1 = 0 ∧
    (truncate_finish (free_all_inode_blocks c (set_i_size inode 0)).1 n
      (free_all_inode_blocks c (set_i_size inode 0)).2 0 old_size).2.sb.s_free_blocks_count =
      c.sb.s_free_blocks_count + (inode_blocks c.device_fd.data inode).length ∧
    ∃ inode', (read_inode_from_disk
        (truncate_finish (free_all_inode_blocks c (set_i_size inode 0)).1 n
          (free_all_inode_blocks c (set_i_size inode 0)).2 0 old_size).2 n).1 = .ok inode' ∧
      i_size inode' = 0 ∧ i_blocks inode' = 0 ∧
      ∀ s, s < SIMPLEFS_INODE_BLOCK_PTRS → i_block inode' s = 0 := by
  have hblocks : inode_blocks c.device_fd.data (set_i_size inode 0) =
      inode_blocks c.device_fd.data inode :=
    inode_blocks_congr _ _ _ (fun s => i_block_set_i_size inode s 0)
  have hmem : ∀ b, b ∈ inode_blocks c.device_fd.data inode →
      b ≠ 0 ∧ b < c.sb.s_blocks_count ∧ block_bit_set c b = true ∧ ¬ R b := by
    intro b hb
    obtain ⟨hb0, s, idxs, hp, hnode⟩ := (mem_inode_blocks _ _ b).mp hb
    have := hok.nodes s idxs hp (by rw [hnode]; exact hb0)
    rw [hnode] at this
    exact ⟨hb0, this⟩
  have hfree := free_all_inode_blocks_eq c R (set_i_size inode 0) hok.io hok.bitmaps
    (by rw [hblocks]; exact fun b hb => (hmem b hb).2.2.2)
  rw [hblocks] at hfree
  obtain ⟨k1, _, _⟩ := foldl_free_block_count c hok.layout hok.io
    (inode_blocks c.device_fd.data inode) c (same_layout_refl c) hcons
    (nodup_inode_blocks _ _ hok.distinct)
    (fun b hb => ⟨(hmem b hb).1, (hmem b hb).2.1, (hmem b hb).2.2.1⟩)
  have hfr := foldl_free_block_frame c R hok.bitmaps (inode_blocks c.device_fd.data inode) c
    (release_frame_refl c R)
  rw [hfree]
  dsimp only
  generalize hc3 : (inode_blocks c.device_fd.data inode).foldl free_block c = c3 at k1 hfr
  have hio3 : io_ok c3 := io_ok_of_layout _ _ hfr.1 hok.io
  have hloc3 : inode_location c3 n = .ok (T, o) := inode_location_layout c c3 n hfr.1 _ hloc
  unfold truncate_finish
  dsimp only
  generalize hx : set_i_ctime (set_i_mtime (set_i_blocks
    (blit (set_i_size inode 0) I_BLOCK_OFF zeroBuf 0 (4 * SIMPLEFS_INODE_BLOCK_PTRS)) 0)
    c3.now) c3.now = x
  have hwe := write_inode_to_disk_ok c3 n x T o hio3 hloc3
  obtain ⟨w1, w2, y, w3, w4⟩ := read_inode_after_write c3 n x T o hio3 hloc3
  rw [if_neg (not_not.mpr w1), if_pos (Or.inr rfl)]
  dsimp only
  obtain ⟨s1, s2, s3, _, s5, s6, s7⟩ := sync_fs_metadata_frame (write_inode_to_disk c3 n x).2
  have hl4 : same_layout (write_inode_to_disk c3 n x).2
      (sync_fs_metadata (write_inode_to_disk c3 n x).2) :=
    same_layout_of_eq _ _ s5 s6 s1 s2 s3
  have hl04 := same_layout_trans _ _ _ hfr.1 w2
  have hloc4 := inode_location_layout _ _ n hl4 _ (inode_location_layout _ _ n w2 _ hloc3)
  have hT : ¬ sync_target (write_inode_to_disk c3 n x).2 T := by
    rw [sync_target_layout c _ hl04]
    exact hsync
  have hread : read_inode_from_disk (sync_fs_metadata (write_inode_to_disk c3 n x).2) n =
      (.ok y, sync_fs_metadata (write_inode_to_disk c3 n x).2) := by
    obtain ⟨_, T', o', hT', hy⟩ := read_inode_from_disk_ok _ n y _ w3
    rw [inode_location_layout _ _ n w2 _ hloc3] at hT'
    injection hT' with hT'
    injection hT' with t1 t2
    subst t1 t2
    unfold read_inode_from_disk
    rw [hloc4]
    dsimp only
    rw [read_block_io _ (io_ok_of_layout _ _ hl4 (io_ok_of_layout _ _ w2 hio3))]
    dsimp only
    rw [s7 T hT, ← hy]
  refine ⟨rfl, ?_, y, by rw [hread], ?_, ?_, ?_⟩
  · rw [s1, hwe]
    exact k1
  · unfold i_size
    rw [getLE_congr y _ 4 4 (fun i _ h2 => w4 i (by unfold SIMPLEFS_INODE_SIZE; omega)), ← hx]
    show i_size _ = 0
    rw [i_size_set_i_ctime, i_size_set_i_mtime, i_size_released, i_size_set_i_size _ _ (by omega)]
  · unfold i_blocks
    rw [getLE_congr y _ 4 28 (fun i _ h2 => w4 i (by unfold SIMPLEFS_INODE_SIZE; omega)), ← hx]
    show i_blocks _ = 0
    rw [i_blocks_set_i_ctime, i_blocks_set_i_mtime, i_blocks_set_i_blocks _ _ (by omega)]
  · intro s hs
    unfold i_block
    rw [getLE_congr y _ 4 (36 + 4 * s) (fun i _ h2 => w4 i (by
      unfold SIMPLEFS_INODE_BLOCK_PTRS at hs
      unfold SIMPLEFS_INODE_SIZE
      omega)), ← hx]
    show i_block _ s = 0
    rw [i_block_set_i_ctime, i_block_set_i_mtime, i_block_released _ _ hs]

theorem tree_ok_setErrno (c : SimpleFS_Context) (inode : Buf) (R : Nat → Prop) (e : Nat)
    (h : tree_ok c inode R) : tree_ok (setErrno c e) inode R :=
  ⟨h.io, h.layout, h.counts, h.bitmaps, h.reserved, h.nodes, h.distinct⟩

theorem not_dir_of_reg (m : Nat) (h : S_ISREG m = true) : S_ISDIR m = false := by
  unfold S_ISREG at h
  unfold S_ISDIR
  have h1 := of_decide_eq_true h
  rw [h1]
  rfl

/-- C4 (`simplefs_truncate`, `src/fuse_ops.cpp` 1248-1288, with
`free_all_inode_blocks` and `free_block_tree_recursive`, `src/metadata.cpp`
636-684). For a path that resolves to a regular file of non-zero size which
the caller may write, whose block tree is well formed in a sound allocation
state (every non-zero pointer of the tree names a block below
`s_blocks_count` that is marked in use and is no block bitmap, no block occurs
twice, the device has no I/O failure, `s_free_blocks_count` equals the number
of clear bitmap bits) and whose inode-table block is none of the blocks the
metadata flush writes: `simplefs_truncate(path, 0)` returns 0, the inode read
back afterwards has `i_size` 0, `i_blocks` 0 and all fifteen block pointers 0,
and `s_free_blocks_count` has risen by exactly the number of blocks the file
held, data blocks and single, double and triple indirect blocks together (the
length of `inode_blocks`, whose members are exactly the non-zero nodes of the
tree, each once). The release is total: the recursion of
`free_block_tree_recursive` is structural in the level, which starts at 1, 2
and 3 for the three indirect slots. -/
theorem C4_truncate_to_zero (context : SimpleFS_Context) (caller : fuse_context)
    (path : List Nat) (n : Nat) (inode : Buf) (R : Nat → Prop)
    (ht : (path_to_inode_num context caller path).1 = n) (hn : n ≠ 0)
    (hi : (read_inode_from_disk context n).1 = .ok inode)
    (hreg : S_ISREG (i_mode inode) = true)
    (hacc : caller.uid = 0 ∨ (selected_triad caller inode).testBit 1 = true)
    (hsz : i_size inode ≠ 0)
    (hok : tree_ok context inode R)
    (hcons : blocks_consistent context)
    (hsync : ∀ T o, inode_location context n = .ok (T, o) → ¬ sync_target context T) :
    (simplefs_truncate context caller path 0).1 = 0 ∧
    (simplefs_truncate context caller path 0).2.sb.s_free_blocks_count =
      context.sb.s_free_blocks_count + (inode_blocks context.device_fd.data inode).length ∧
    (∃ inode', (read_inode_from_disk (simplefs_truncate context caller path 0).2 n).1 =
        .ok inode' ∧
      i_size inode' = 0 ∧ i_blocks inode' = 0 ∧
      ∀ s, s < SIMPLEFS_INODE_BLOCK_PTRS → i_block inode' s = 0) ∧
    (inode_blocks context.device_fd.data inode).Nodup ∧
    ∀ b, b ∈ inode_blocks context.device_fd.data inode ↔
      b ≠ 0 ∧ ∃ s idxs, tree_path_ok s idxs ∧
        tree_node context.device_fd.data inode s idxs = b := by
  suffices h : (simplefs_truncate context caller path 0).1 = 0 ∧
      (simplefs_truncate context caller path 0).2.sb.s_free_blocks_count =
        context.sb.s_free_blocks_count + (inode_blocks context.device_fd.data inode).length ∧
      (∃ inode', (read_inode_from_disk (simplefs_truncate context caller path 0).2 n).1 =
          .ok inode' ∧
        i_size inode' = 0 ∧ i_blocks inode' = 0 ∧
        ∀ s, s < SIMPLEFS_INODE_BLOCK_PTRS → i_block inode' s = 0) from
    ⟨h.1, h.2.1, h.2.2, nodup_inode_blocks _ _ hok.distinct, mem_inode_blocks _ _⟩
  obtain ⟨c1, c2, e1, e2, hs⟩ := open_target context caller path true n inode ht hi
  obtain ⟨e3, T, o, hloc, _⟩ := read_inode_from_disk_ok c1 n inode c2 e2
  subst e3
  have hc2 := same_fs_eq context c2 hs
  generalize c2.errno = E at hc2
  subst hc2
  have e1' : path_to_inode_num (setErrno context 0) caller path = (n, setErrno context E) := e1
  have hlocc : inode_location context n = .ok (T, o) :=
    inode_location_layout _ _ n
      (same_layout_of_eq (setErrno context E) context rfl rfl rfl rfl rfl) _ hloc
  have hcore := truncate_release_spec (setErrno context E) n inode R T o (i_size inode) hloc
    (tree_ok_setErrno _ _ _ E hok) hcons.2 (hsync T o hlocc)
  unfold simplefs_truncate
  dsimp only
  rw [e1']
  dsimp only
  rw [if_neg hn, e2]
  dsimp only
  rw [not_dir_of_reg _ hreg]
  rw [if_neg (by decide), (check_access_write (setErrno context E) caller inode).1 hacc]
  dsimp only
  rw [if_neg (not_not.mpr rfl), if_neg (by rw [show u32 0 = 0 from rfl]; exact hsz), if_pos rfl]
  exact hcore

theorem ctxFile_io : io_ok ctxFile := fun _ => ⟨rfl, rfl⟩

theorem ctxFile_location : inode_location ctxFile 12 = .ok (3, 1408) := by rfl

theorem ctxFile_slots : ∀ s, s < 15 → s ≠ 0 → s ≠ 12 → i_block (inode_of ctxFile 12) s = 0 := by
  decide!

theorem ctxFile_indirect : ctxFile.device_fd.data 9 = setPtr zeroBuf 0 10 := by rfl

/-- The block tree of `/f` in `ctxFile` has three nodes. -/
theorem ctxFile_nodes : ∀ s idxs, tree_path_ok s idxs →
    tree_node ctxFile.device_fd.data (inode_of ctxFile 12) s idxs ≠ 0 →
    (s = 0 ∧ idxs = [] ∧ tree_node ctxFile.device_fd.data (inode_of ctxFile 12) s idxs = 8) ∨
    (s = 12 ∧ idxs = [] ∧ tree_node ctxFile.device_fd.data (inode_of ctxFile 12) s idxs = 9) ∨
    (s = 12 ∧ idxs = [0] ∧
      tree_node ctxFile.device_fd.data (inode_of ctxFile 12) s idxs = 10) := by
  intro s idxs hp hne
  have h0 : i_block (inode_of ctxFile 12) 0 = 8 := by decide!
  have h12 : i_block (inode_of ctxFile 12) 12 = 9 := by decide!
  by_cases hs : s = 0
  · subst hs
    left
    have := hp.2.1
    unfold tree_depth at this
    have hnil : idxs = [] := List.eq_nil_of_length_eq_zero (by omega)
    subst hnil
    exact ⟨rfl, rfl, h0⟩
  by_cases hs12 : s = 12
  · subst hs12
    right
    have hlen := hp.2.1
    unfold tree_depth at hlen
    cases idxs with
    | nil => left; exact ⟨rfl, rfl, h12⟩
    | cons i rest =>
      right
      rw [List.length_cons] at hlen
      have hnil : rest = [] := List.eq_nil_of_length_eq_zero (by omega)
      subst hnil
      have hnode : tree_node ctxFile.device_fd.data (inode_of ctxFile 12) 12 [i] =
          ptrAt (setPtr zeroBuf 0 10) i := by
        unfold tree_node
        rw [h12, walk_tree_cons_ne _ _ _ _ (by decide), ctxFile_indirect]
        rfl
      rw [hnode] at hne ⊢
      by_cases hi : i = 0
      · subst hi
        exact ⟨rfl, rfl, ptrAt_setPtr_same _ _ _ (by decide)⟩
      · rw [ptrAt_setPtr_ne _ _ _ _ hi, ptrAt_zeroBuf] at hne
        exact absurd rfl hne
  · exfalso
    apply hne
    unfold tree_node
    rw [ctxFile_slots s hp.1 hs hs12, walk_tree_zero]

/-- The allocation state of `ctxFile` is sound for the file `/f`. -/
theorem ctxFile_tree_ok : tree_ok ctxFile (inode_of ctxFile 12) (fs_reserved ctxFile 12) := by
  have hres : ∀ b, fs_reserved ctxFile 12 b → b = 1 ∨ b = 3 := by
    intro b hb
    rcases hb with ⟨g, hg, hb⟩ | ⟨o, ho⟩
    · have hg0 : g = 0 := by
        have : ctxFile.gdt.length = 1 := rfl
        omega
      subst hg0
      left
      exact hb
    · rw [ctxFile_location] at ho
      injection ho with ho
      injection ho with e1 _
      right
      exact e1.symm
  refine
    { io := ctxFile_io
      layout := by decide!
      counts := by decide!
      bitmaps := fun g hg => Or.inl ⟨g, hg, rfl⟩
      reserved := ?_
      nodes := ?_
      distinct := ?_ }
  · intro b hb
    rcases hres b hb with e | e
    · subst e
      exact ⟨by decide!, by decide!⟩
    · subst e
      exact ⟨by decide!, by decide!⟩
  · intro s idxs hp hne
    rcases ctxFile_nodes s idxs hp hne with ⟨_, _, e⟩ | ⟨_, _, e⟩ | ⟨_, _, e⟩
    all_goals
      rw [e]
      refine ⟨by decide!, by decide!, ?_⟩
      intro hb
      rcases hres _ hb with e | e <;> exact absurd e (by decide)
  · intro s idxs s' idxs' p1 p2 hne heq
    have hne' : tree_node ctxFile.device_fd.data (inode_of ctxFile 12) s' idxs' ≠ 0 := by
      rw [← heq]
      exact hne
    rcases ctxFile_nodes s idxs p1 hne with ⟨a1, a2, a3⟩ | ⟨a1, a2, a3⟩ | ⟨a1, a2, a3⟩ <;>
    rcases ctxFile_nodes s' idxs' p2 hne' with ⟨b1, b2, b3⟩ | ⟨b1, b2, b3⟩ | ⟨b1, b2, b3⟩ <;>
    first
    | exact ⟨a1.trans b1.symm, a2.trans b2.symm⟩
    | (rw [a3, b3] at heq; exact absurd heq (by decide))

theorem ctxFile_sync : ∀ T o, inode_location ctxFile 12 = .ok (T, o) →
    ¬ sync_target ctxFile T := by
  intro T o h
  rw [ctxFile_location] at h
  injection h with h
  injection h with e1 _
  subst e1
  have hG : (u32 (ctxFile.gdt.length * 32) + SIMPLEFS_BLOCK_SIZE - 1) / SIMPLEFS_BLOCK_SIZE = 1 := by
    decide
  have hlen : ctxFile.gdt.length = 1 := rfl
  unfold sync_target
  rw [hG, hlen]
  rintro (h | ⟨i, hi, h⟩ | ⟨grp, h1, h2, _⟩)
  · exact absurd h (by decide)
  · have : i = 0 := by omega
    subst this
    exact absurd h (by decide)
  · omega

/-- Witness for C4 on `ctxFile`: `/f` (inode 12, size 53248) holds the data
block 8, the data block 10 and the single indirect block 9; after
`simplefs_truncate("/f", 0)` by uid 0 the count of free blocks is 5 + 3. -/
theorem C4_truncate_to_zero_witness :
    ((path_to_inode_num ctxFile rootCaller PATH_F).1 = 12 ∧
      S_ISREG (i_mode (inode_of ctxFile 12)) = true ∧
      i_size (inode_of ctxFile 12) = 53248 ∧
      blocks_consistent ctxFile ∧
      ctxFile.sb.s_free_blocks_count = 5 ∧
      inode_blocks ctxFile.device_fd.data (inode_of ctxFile 12) = [8, 10, 9]) ∧
    (simplefs_truncate ctxFile rootCaller PATH_F 0).1 = 0 ∧
    (simplefs_truncate ctxFile rootCaller PATH_F 0).2.sb.s_free_blocks_count =
      ctxFile.sb.s_free_blocks_count +
        (inode_blocks ctxFile.device_fd.data (inode_of ctxFile 12)).length ∧
    (∃ inode', (read_inode_from_disk (simplefs_truncate ctxFile rootCaller PATH_F 0).2 12).1 =
        .ok inode' ∧
      i_size inode' = 0 ∧ i_blocks inode' = 0 ∧
      ∀ s, s < SIMPLEFS_INODE_BLOCK_PTRS → i_block inode' s = 0) :=
  ⟨⟨by decide!, by decide!, by decide!, by decide!, rfl, by decide!⟩,
    (C4_truncate_to_zero ctxFile rootCaller PATH_F 12 (inode_of ctxFile 12)
      (fs_reserved ctxFile 12) (by decide!) (by decide)
      (inode_of_spec ctxFile 12 (by decide!)) (by decide!) (Or.inl rfl) (by decide!)
      ctxFile_tree_ok (by decide!) ctxFile_sync).1,
    (C4_truncate_to_zero ctxFile rootCaller PATH_F 12 (inode_of ctxFile 12)
      (fs_reserved ctxFile 12) (by decide!) (by decide)
      (inode_of_spec ctxFile 12 (by decide!)) (by decide!) (Or.inl rfl) (by decide!)
      ctxFile_tree_ok (by decide!) ctxFile_sync).2.1,
    (C4_truncate_to_zero ctxFile rootCaller PATH_F 12 (inode_of ctxFile 12)
      (fs_reserved ctxFile 12) (by decide!) (by decide)
      (inode_of_spec ctxFile 12 (by decide!)) (by decide!) (Or.inl rfl) (by decide!)
      ctxFile_tree_ok (by decide!) ctxFile_sync).2.2.1⟩

/-! ## Path resolution in a state that extends another -/

theorem read_inode_from_disk_eq (c : SimpleFS_Context) (n : Nat) (a : Buf)
    (h : (read_inode_from_disk c n).1 = .ok a) : read_inode_from_disk c n = (.ok a, c) := by
  generalize hr : read_inode_from_disk c n = r at h
  obtain ⟨v, k⟩ := r
  dsimp only at h
  subst h
  obtain ⟨e, _⟩ := read_inode_from_disk_ok c n a k hr
  rw [e]

theorem check_access_view (c c' : SimpleFS_Context) (caller : fuse_context) (a a' : Buf)
    (perm : Nat) (hm : i_mode a' = i_mode a) (hu : i_uid a' = i_uid a)
    (hg : i_gid a' = i_gid a) (h : (check_access c caller a perm).1 = 0) :
    check_access c caller a perm = (0, c) ∧ check_access c' caller a' perm = (0, c') := by
  have hE : (-(EACCES : Int)) ≠ 0 := by decide
  unfold check_access at h ⊢
  rw [hm, hu, hg]
  dsimp only at h ⊢
  split_ifs at h ⊢ <;> first | exact ⟨rfl, rfl⟩ | exact absurd h hE

theorem resolve_walk_extends (caller : fuse_context) (follow : Bool)
    (recurse : SimpleFS_Context → List Nat → Nat × SimpleFS_Context)
    (c c' : SimpleFS_Context) (hx : resolve_extends c c')
    (hrec : ∀ p, (recurse c p).1 ≠ 0 →
      recurse c p = ((recurse c p).1, c) ∧ recurse c' p = ((recurse c p).1, c')) :
    ∀ (comps : List (List Nat)) (cur : Nat) (path : List Nat),
      (resolve_walk caller follow recurse comps c cur path).1 ≠ 0 →
      resolve_walk caller follow recurse comps c cur path =
        ((resolve_walk caller follow recurse comps c cur path).1, c) ∧
      resolve_walk caller follow recurse comps c' cur path =
        ((resolve_walk caller follow recurse comps c cur path).1, c') := by
  intro comps
  induction comps with
  | nil => intro cur path _; exact ⟨rfl, rfl⟩
  | cons component rest ih =>
    intro cur path
    rw [resolve_walk, resolve_walk]
    dsimp only
    by_cases hskip : component = [] ∨ component = DOT
    · rw [if_pos hskip, if_pos hskip]
      exact ih cur path
    rw [if_neg hskip, if_neg hskip]
    cases hr : (read_inode_from_disk c cur).1 with
    | error e =>
      intro hne
      exfalso
      apply hne
      generalize read_inode_from_disk c cur = r at hr
      obtain ⟨v, k⟩ := r
      dsimp only at hr
      subst hr
      rfl
    | ok d =>
      obtain ⟨d', hr', hv⟩ := hx.2 cur d hr
      rw [read_inode_from_disk_eq c cur d hr, read_inode_from_disk_eq c' cur d' hr']
      dsimp only
      rw [hv.mode]
      by_cases hdir : ¬ S_ISDIR (i_mode d) = true
      · rw [if_pos hdir, if_pos hdir]
        intro hne
        exact absurd rfl hne
      rw [if_neg hdir, if_neg hdir]
      have hdir' : S_ISDIR (i_mode d) = true := not_not.mp hdir
      by_cases ha : (check_access c caller d X_OK).1 ≠ 0
      · rw [if_pos ha]
        intro hne
        exact absurd rfl hne
      rw [if_neg ha]
      obtain ⟨a1, a2⟩ := check_access_view c c' caller d d' X_OK hv.mode hv.uid hv.gid
        (not_not.mp ha)
      rw [a1, a2]
      dsimp only
      rw [if_neg (not_not.mpr rfl)]
      cases hl : lookup_component c.device_fd d component with
      | ioerr => intro hne; exact absurd rfl hne
      | absent => intro hne; exact absurd rfl hne
      | found nxt =>
        rw [hv.look hdir' component (by rw [hl]; intro h; cases h), hl]
        dsimp only
        cases hq : (read_inode_from_disk c nxt).1 with
        | error e =>
          intro hne
          exfalso
          apply hne
          generalize read_inode_from_disk c nxt = r at hq
          obtain ⟨v, k⟩ := r
          dsimp only at hq
          subst hq
          rfl
        | ok t =>
          obtain ⟨t', hq', hw⟩ := hx.2 nxt t hq
          rw [read_inode_from_disk_eq c nxt t hq, read_inode_from_disk_eq c' nxt t' hq']
          dsimp only
          rw [hw.mode]
          by_cases hlk : S_ISLNK (i_mode t) = true
          · rw [if_pos hlk, if_pos hlk]
            by_cases hlast : decide (rest = []) = true ∧ ¬ follow = true
            · rw [if_pos hlast, if_pos hlast]
              intro _
              exact ⟨rfl, rfl⟩
            rw [if_neg hlast, if_neg hlast, hw.link hlk]
            cases read_symlink_target c.device_fd t with
            | none => intro hne; exact absurd rfl hne
            | some target =>
              dsimp only
              exact hrec _
          · rw [if_neg hlk, if_neg hlk]
            by_cases hlast : decide (rest = []) = true
            · rw [if_pos hlast, if_pos hlast]
              intro _
              exact ⟨rfl, rfl⟩
            rw [if_neg hlast, if_neg hlast]
            exact ih nxt _

theorem resolve_path_budget_extends (caller : fuse_context) (follow : Bool)
    (c c' : SimpleFS_Context) (hx : resolve_extends c c') :
    ∀ (budget : Nat) (p : List Nat),
      (resolve_path_budget caller follow budget c p).1 ≠ 0 →
      resolve_path_budget caller follow budget c p =
        ((resolve_path_budget caller follow budget c p).1, c) ∧
      resolve_path_budget caller follow budget c' p =
        ((resolve_path_budget caller follow budget c p).1, c') := by
  intro budget
  induction budget with
  | zero =>
    intro p hne
    exact absurd rfl hne
  | succ b ih =>
    intro p
    rw [resolve_path_budget, resolve_path_budget]
    rw [hx.1]
    by_cases h1 : p = []
    · rw [if_pos h1, if_pos h1]
      intro hne
      exact absurd rfl hne
    rw [if_neg h1, if_neg h1]
    by_cases h2 : p = [SLASH]
    · rw [if_pos h2, if_pos h2]
      intro _
      exact ⟨rfl, rfl⟩
    rw [if_neg h2, if_neg h2]
    dsimp only
    by_cases h3 : path_components p = [] ∧ p.head? = some SLASH
    · rw [if_pos h3, if_pos h3]
      intro _
      exact ⟨rfl, rfl⟩
    rw [if_neg h3, if_neg h3]
    by_cases h4 : path_components p = []
    · rw [if_pos h4, if_pos h4]
      intro hne
      exact absurd rfl hne
    rw [if_neg h4, if_neg h4]
    exact resolve_walk_extends caller follow _ c c' hx (fun q => ih q) _ _ _

/-- A path that resolves in a state resolves to the same inode in every state
that extends it, and a successful resolution leaves the context as it was. -/
theorem resolve_path_recursive_extends (caller : fuse_context) (follow : Bool) (depth : Nat)
    (c c' : SimpleFS_Context) (p : List Nat) (hx : resolve_extends c c')
    (h : (resolve_path_recursive c caller p depth follow).1 ≠ 0) :
    resolve_path_recursive c caller p depth follow =
      ((resolve_path_recursive c caller p depth follow).1, c) ∧
    resolve_path_recursive c' caller p depth follow =
      ((resolve_path_recursive c caller p depth follow).1, c') :=
  resolve_path_budget_extends caller follow c c' hx _ p h

theorem lookup_data_block_congr (fd fd' : Device) (a : Buf) (comp : List Nat) (l p : Nat)
    (hr : fd'.readable = fd.readable) (hd : fd'.data p = fd.data p) :
    lookup_data_block fd' a comp l p = lookup_data_block fd a comp l p := by
  unfold lookup_data_block read_block
  rw [hr, hd]

theorem lookup_ptrs_congr (fd fd' : Device) (a : Buf) (comp : List Nat) (ptr lbn : Nat → Nat)
    (hr : fd'.readable = fd.readable) (n : Nat) : ∀ k,
    (∀ j, k ≤ j → j < k + n → ptr j ≠ 0 → fd'.data (ptr j) = fd.data (ptr j)) →
    lookup_ptrs fd' a comp ptr lbn n k = lookup_ptrs fd a comp ptr lbn n k := by
  induction n with
  | zero => intro k _; rfl
  | succ n ih =>
    intro k h
    rw [lookup_ptrs, lookup_ptrs]
    by_cases h0 : ptr k = 0
    · rw [if_pos h0, if_pos h0]
      exact ih (k + 1) (fun j h1 h2 => h j (by omega) (by omega))
    · rw [if_neg h0, if_neg h0,
        lookup_data_block_congr fd fd' a comp (lbn k) (ptr k) hr (h k (le_refl _) (by omega) h0),
        ih (k + 1) (fun j h1 h2 => h j (by omega) (by omega))]

theorem lookup_l1s_congr (fd fd' : Device) (a : Buf) (comp : List Nat) (content : Buf)
    (base : Nat → Nat) (hr : fd'.readable = fd.readable) (n : Nat) : ∀ k,
    (∀ j, k ≤ j → j < k + n → ptrAt content j ≠ 0 →
      fd'.data (ptrAt content j) = fd.data (ptrAt content j) ∧
      ∀ i, i < 1024 → ptrAt (fd.data (ptrAt content j)) i ≠ 0 →
        fd'.data (ptrAt (fd.data (ptrAt content j)) i) =
          fd.data (ptrAt (fd.data (ptrAt content j)) i)) →
    lookup_l1s fd' a comp content base n k = lookup_l1s fd a comp content base n k := by
  induction n with
  | zero => intro k _; rfl
  | succ n ih =>
    intro k h
    rw [lookup_l1s, lookup_l1s]
    have ihk := ih (k + 1) (fun j h1 h2 => h j (by omega) (by omega))
    by_cases h0 : ptrAt content k = 0
    · rw [if_pos h0, if_pos h0]
      exact ihk
    · rw [if_neg h0, if_neg h0]
      obtain ⟨e1, e2⟩ := h k (le_refl _) (by omega) h0
      unfold read_block
      rw [hr, e1, ihk]
      by_cases hrd : fd.readable (ptrAt content k) = true
      · rw [if_pos hrd]
        dsimp only
        rw [lookup_ptrs_congr fd fd' a comp _ _ hr (SIMPLEFS_BLOCK_SIZE / 4) 0
          (fun j _ h2 hj => e2 j (by
            have : SIMPLEFS_BLOCK_SIZE / 4 = 1024 := rfl
            omega) hj)]
      · rw [if_neg hrd]

theorem lookup_l2s_congr (fd fd' : Device) (a : Buf) (comp : List Nat) (content : Buf)
    (hr : fd'.readable = fd.readable) (n : Nat) : ∀ k,
    (∀ j, k ≤ j → j < k + n → ptrAt content j ≠ 0 →
      fd'.data (ptrAt content j) = fd.data (ptrAt content j) ∧
      ∀ i, i < 1024 → ptrAt (fd.data (ptrAt content j)) i ≠ 0 →
        fd'.data (ptrAt (fd.data (ptrAt content j)) i) =
          fd.data (ptrAt (fd.data (ptrAt content j)) i) ∧
        ∀ t, t < 1024 → ptrAt (fd.data (ptrAt (fd.data (ptrAt content j)) i)) t ≠ 0 →
          fd'.data (ptrAt (fd.data (ptrAt (fd.data (ptrAt content j)) i)) t) =
            fd.data (ptrAt (fd.data (ptrAt (fd.data (ptrAt content j)) i)) t)) →
    lookup_l2s fd' a comp content n k = lookup_l2s fd a comp content n k := by
  induction n with
  | zero => intro k _; rfl
  | succ n ih =>
    intro k h
    rw [lookup_l2s, lookup_l2s]
    have ihk := ih (k + 1) (fun j h1 h2 => h j (by omega) (by omega))
    by_cases h0 : ptrAt content k = 0
    · rw [if_pos h0, if_pos h0]
      exact ihk
    · rw [if_neg h0, if_neg h0]
      obtain ⟨e1, e2⟩ := h k (le_refl _) (by omega) h0
      unfold read_block
      rw [hr, e1, ihk]
      by_cases hrd : fd.readable (ptrAt content k) = true
      · rw [if_pos hrd]
        dsimp only
        rw [lookup_l1s_congr fd fd' a comp _ _ hr (SIMPLEFS_BLOCK_SIZE / 4) 0
          (fun j _ h2 hj => e2 j (by
            have : SIMPLEFS_BLOCK_SIZE / 4 = 1024 := rfl
            omega) hj)]
      · rw [if_neg hrd]

theorem tree_node_one (data : Nat → Buf) (a : Buf) (s i : Nat) (h : i_block a s ≠ 0) :
    tree_node data a s [i] = ptrAt (data (i_block a s)) i := by
  unfold tree_node
  rw [walk_tree_cons_ne _ _ _ _ h]
  rfl

theorem tree_node_two (data : Nat → Buf) (a : Buf) (s i j : Nat) (h : i_block a s ≠ 0)
    (h2 : ptrAt (data (i_block a s)) i ≠ 0) :
    tree_node data a s [i, j] = ptrAt (data (ptrAt (data (i_block a s)) i)) j := by
  unfold tree_node
  rw [walk_tree_cons_ne _ _ _ _ h, walk_tree_cons_ne _ _ _ _ h2]
  rfl

theorem tree_node_three (data : Nat → Buf) (a : Buf) (s i j t : Nat) (h : i_block a s ≠ 0)
    (h2 : ptrAt (data (i_block a s)) i ≠ 0)
    (h3 : ptrAt (data (ptrAt (data (i_block a s)) i)) j ≠ 0) :
    tree_node data a s [i, j, t] =
      ptrAt (data (ptrAt (data (ptrAt (data (i_block a s)) i)) j)) t := by
  unfold tree_node
  rw [walk_tree_cons_ne _ _ _ _ h, walk_tree_cons_ne _ _ _ _ h2, walk_tree_cons_ne _ _ _ _ h3]
  rfl

/-- A directory lookup reads only blocks of the directory's tree. -/
theorem lookup_component_congr (fd fd' : Device) (a : Buf) (comp : List Nat)
    (hr : fd'.readable = fd.readable)
    (hd : ∀ s idxs, tree_path_ok s idxs → tree_node fd.data a s idxs ≠ 0 →
      fd'.data (tree_node fd.data a s idxs) = fd.data (tree_node fd.data a s idxs)) :
    lookup_component fd' a comp = lookup_component fd a comp := by
  have hP : SIMPLEFS_BLOCK_SIZE / 4 = 1024 := rfl
  have hok : ∀ s (idxs : List Nat), s < 15 → idxs.length ≤ s - 11 →
      (∀ i, i ∈ idxs → i < 1024) → tree_path_ok s idxs := fun s idxs h1 h2 h3 => ⟨h1, h2, h3⟩
  have e0 : lookup_ptrs fd' a comp (i_block a) (fun i => i) SIMPLEFS_NUM_DIRECT_BLOCKS 0 =
      lookup_ptrs fd a comp (i_block a) (fun i => i) SIMPLEFS_NUM_DIRECT_BLOCKS 0 := by
    apply lookup_ptrs_congr fd fd' a comp _ _ hr
    intro j _ hj hne
    have : SIMPLEFS_NUM_DIRECT_BLOCKS = 12 := rfl
    exact hd j [] (hok j [] (by omega) (by simp) (by simp)) hne
  have e1 : (if i_block a 12 = 0 then Lookup.absent
      else match read_block fd' (i_block a 12) with
        | none => Lookup.absent
        | some indirect_block_content =>
          lookup_ptrs fd' a comp (ptrAt indirect_block_content)
            (fun k => 12 + k) (SIMPLEFS_BLOCK_SIZE / 4) 0) =
      (if i_block a 12 = 0 then Lookup.absent
      else match read_block fd (i_block a 12) with
        | none => Lookup.absent
        | some indirect_block_content =>
          lookup_ptrs fd a comp (ptrAt indirect_block_content)
            (fun k => 12 + k) (SIMPLEFS_BLOCK_SIZE / 4) 0) := by
    by_cases h0 : i_block a 12 = 0
    · rw [if_pos h0, if_pos h0]
    · rw [if_neg h0, if_neg h0]
      unfold read_block
      have q0 : fd'.data (i_block a 12) = fd.data (i_block a 12) :=
        hd 12 [] (hok 12 [] (by omega) (by simp) (by simp)) h0
      rw [hr, q0]
      by_cases hrd : fd.readable (i_block a 12) = true
      · rw [if_pos hrd]
        dsimp only
        apply lookup_ptrs_congr fd fd' a comp _ _ hr
        intro j _ hj hne
        have t1 := tree_node_one fd.data a 12 j h0
        have := hd 12 [j] (hok 12 [j] (by omega) (by simp) (by simp; omega)) (by rw [t1]; exact hne)
        rw [t1] at this
        exact this
      · rw [if_neg hrd]
  have e2 : (if i_block a 13 = 0 then Lookup.absent
      else match read_block fd' (i_block a 13) with
        | none => Lookup.absent
        | some dbl_indirect_content =>
          lookup_l1s fd' a comp dbl_indirect_content
            (fun l1_idx => 12 + 1024 + l1_idx * 1024) (SIMPLEFS_BLOCK_SIZE / 4) 0) =
      (if i_block a 13 = 0 then Lookup.absent
      else match read_block fd (i_block a 13) with
        | none => Lookup.absent
        | some dbl_indirect_content =>
          lookup_l1s fd a comp dbl_indirect_content
            (fun l1_idx => 12 + 1024 + l1_idx * 1024) (SIMPLEFS_BLOCK_SIZE / 4) 0) := by
    by_cases h0 : i_block a 13 = 0
    · rw [if_pos h0, if_pos h0]
    · rw [if_neg h0, if_neg h0]
      unfold read_block
      have q0 : fd'.data (i_block a 13) = fd.data (i_block a 13) :=
        hd 13 [] (hok 13 [] (by omega) (by simp) (by simp)) h0
      rw [hr, q0]
      by_cases hrd : fd.readable (i_block a 13) = true
      · rw [if_pos hrd]
        dsimp only
        apply lookup_l1s_congr fd fd' a comp _ _ hr
        intro j _ hj hne
        have t1 := tree_node_one fd.data a 13 j h0
        have hne' : ptrAt (fd.data (i_block a 13)) j ≠ 0 := hne
        have q1 := hd 13 [j] (hok 13 [j] (by omega) (by simp) (by simp; omega))
          (by rw [t1]; exact hne)
        rw [t1] at q1
        refine ⟨q1, fun i hi hne2 => ?_⟩
        have t2 := tree_node_two fd.data a 13 j i h0 hne'
        have q2 := hd 13 [j, i] (hok 13 [j, i] (by omega) (by simp) (by
          intro x hx
          simp at hx
          omega)) (by rw [t2]; exact hne2)
        rw [t2] at q2
        exact q2
      · rw [if_neg hrd]
  have e3 : (if i_block a 14 = 0 then Lookup.absent
      else match read_block fd' (i_block a 14) with
        | none => Lookup.absent
        | some tpl_indirect_content =>
          lookup_l2s fd' a comp tpl_indirect_content (SIMPLEFS_BLOCK_SIZE / 4) 0) =
      (if i_block a 14 = 0 then Lookup.absent
      else match read_block fd (i_block a 14) with
        | none => Lookup.absent
        | some tpl_indirect_content =>
          lookup_l2s fd a comp tpl_indirect_content (SIMPLEFS_BLOCK_SIZE / 4) 0) := by
    by_cases h0 : i_block a 14 = 0
    · rw [if_pos h0, if_pos h0]
    · rw [if_neg h0, if_neg h0]
      unfold read_block
      have q0 : fd'.data (i_block a 14) = fd.data (i_block a 14) :=
        hd 14 [] (hok 14 [] (by omega) (by simp) (by simp)) h0
      rw [hr, q0]
      by_cases hrd : fd.readable (i_block a 14) = true
      · rw [if_pos hrd]
        dsimp only
        apply lookup_l2s_congr fd fd' a comp _ hr
        intro j _ hj hne
        have t1 := tree_node_one fd.data a 14 j h0
        have hne' : ptrAt (fd.data (i_block a 14)) j ≠ 0 := hne
        have q1 := hd 14 [j] (hok 14 [j] (by omega) (by simp) (by simp; omega))
          (by rw [t1]; exact hne)
        rw [t1] at q1
        refine ⟨q1, fun i hi hne2 => ?_⟩
        have t2 := tree_node_two fd.data a 14 j i h0 hne'
        have hne2' : ptrAt (fd.data (ptrAt (fd.data (i_block a 14)) j)) i ≠ 0 := hne2
        have q2 := hd 14 [j, i] (hok 14 [j, i] (by omega) (by simp) (by
          intro x hx
          simp at hx
          omega)) (by rw [t2]; exact hne2)
        rw [t2] at q2
        refine ⟨q2, fun t ht hne3 => ?_⟩
        have t3 := tree_node_three fd.data a 14 j i t h0 hne' hne2'
        have q3 := hd 14 [j, i, t] (hok 14 [j, i, t] (by omega) (by simp) (by
          intro x hx
          simp at hx
          omega)) (by rw [t3]; exact hne3)
        rw [t3] at q3
        exact q3
      · rw [if_neg hrd]
  unfold lookup_component
  rw [e0]
  cases lookup_ptrs fd a comp (i_block a) (fun i => i) SIMPLEFS_NUM_DIRECT_BLOCKS 0 with
  | found n => rfl
  | ioerr => rfl
  | absent =>
    show (match (if i_block a 12 = 0 then Lookup.absent
        else match read_block fd' (i_block a 12) with
          | none => Lookup.absent
          | some indirect_block_content =>
            lookup_ptrs fd' a comp (ptrAt indirect_block_content)
              (fun k => 12 + k) (SIMPLEFS_BLOCK_SIZE / 4) 0) with
      | .absent =>
        (match (if i_block a 13 = 0 then Lookup.absent
          else match read_block fd' (i_block a 13) with
            | none => Lookup.absent
            | some dbl_indirect_content =>
              lookup_l1s fd' a comp dbl_indirect_content
                (fun l1_idx => 12 + 1024 + l1_idx * 1024) (SIMPLEFS_BLOCK_SIZE / 4) 0) with
        | .absent =>
          if i_block a 14 = 0 then Lookup.absent
          else match read_block fd' (i_block a 14) with
            | none => Lookup.absent
            | some tpl_indirect_content =>
              lookup_l2s fd' a comp tpl_indirect_content (SIMPLEFS_BLOCK_SIZE / 4) 0
        | r => r)
      | r => r) = _
    rw [e1, e2, e3]
    try rfl

theorem read_symlink_target_congr (fd fd' : Device) (a : Buf)
    (hr : fd'.readable = fd.readable)
    (hd : i_blocks a ≠ 0 → i_block a 0 ≠ 0 → fd'.data (i_block a 0) = fd.data (i_block a 0)) :
    read_symlink_target fd' a = read_symlink_target fd a := by
  unfold read_symlink_target
  by_cases h0 : i_blocks a = 0
  · rw [if_pos h0, if_pos h0]
  · rw [if_neg h0, if_neg h0]
    by_cases h1 : i_size a = 0 ∨ i_block a 0 = 0
    · rw [if_pos h1, if_pos h1]
    · rw [if_neg h1, if_neg h1]
      unfold read_block
      rw [hr, hd h0 (fun e => h1 (Or.inr e))]

theorem read_inode_from_disk_io (c : SimpleFS_Context) (m T o : Nat) (hio : io_ok c)
    (hloc : inode_location c m = .ok (T, o)) :
    read_inode_from_disk c m =
      (.ok (blit zeroBuf 0 (c.device_fd.data T) o SIMPLEFS_INODE_SIZE), c) := by
  unfold read_inode_from_disk
  rw [hloc]
  dsimp only
  rw [read_block_io c hio]

theorem inode_record_congr (d d' : Buf) (o : Nat)
    (h : ∀ i, i < SIMPLEFS_INODE_SIZE → d' (o + i) = d (o + i)) :
    blit zeroBuf 0 d' o SIMPLEFS_INODE_SIZE = blit zeroBuf 0 d o SIMPLEFS_INODE_SIZE := by
  funext i
  unfold blit
  by_cases hi : 0 ≤ i ∧ i < 0 + SIMPLEFS_INODE_SIZE
  · rw [if_pos hi, if_pos hi]
    exact h (i - 0) (by omega)
  · rw [if_neg hi, if_neg hi]

/-- A state that differs from `c` only outside what path resolution reads
extends `c`: the layout is the same, the records of all inodes but `n` are the
same, the blocks read on behalf of those inodes are the same, and inode `n` is
neither a directory nor a symlink and keeps its type, permission and owner
fields. -/
theorem resolve_extends_of_frame (c c' : SimpleFS_Context) (n : Nat)
    (hio : io_ok c) (hl : same_layout c c')
    (hroot : c'.sb.s_root_inode = c.sb.s_root_inode)
    (hslot : ∀ m T o, m ≠ n → inode_location c m = .ok (T, o) →
      ∀ i, i < SIMPLEFS_INODE_SIZE →
        c'.device_fd.data T (o + i) = c.device_fd.data T (o + i))
    (hself : ∀ a, (read_inode_from_disk c n).1 = .ok a →
      S_ISDIR (i_mode a) = false ∧ S_ISLNK (i_mode a) = false ∧
      ∃ a', (read_inode_from_disk c' n).1 = .ok a' ∧
        i_mode a' = i_mode a ∧ i_uid a' = i_uid a ∧ i_gid a' = i_gid a)
    (hreads : ∀ m a, m ≠ n → (read_inode_from_disk c m).1 = .ok a →
      ∀ b, resolve_reads c.device_fd.data a b →
        c'.device_fd.data b = c.device_fd.data b) :
    resolve_extends c c' := by
  refine ⟨hroot, fun m a hread => ?_⟩
  by_cases hm : m = n
  · subst hm
    obtain ⟨h1, h2, a', h3, h4, h5, h6⟩ := hself a hread
    refine ⟨a', h3, ⟨h4, h5, h6, ?_, ?_⟩⟩
    · intro hd
      rw [h1] at hd
      exact Bool.noConfusion hd
    · intro hk
      rw [h2] at hk
      exact Bool.noConfusion hk
  · obtain ⟨_, T, o, hloc, ha⟩ := read_inode_from_disk_ok c m a c
      (read_inode_from_disk_eq c m a hread)
    have hloc' := inode_location_layout c c' m hl _ hloc
    have hio' := io_ok_of_layout c c' hl hio
    have hrec := inode_record_congr (c.device_fd.data T) (c'.device_fd.data T) o
      (hslot m T o hm hloc)
    refine ⟨a, ?_, ⟨rfl, rfl, rfl, ?_, ?_⟩⟩
    · rw [read_inode_from_disk_io c' m T o hio' hloc', hrec, ← ha]
    · intro hd comp _
      apply lookup_component_congr c.device_fd c'.device_fd a comp hl.1
      intro s idxs hp hne
      exact hreads m a hm hread _ ⟨hne, Or.inl ⟨hd, s, idxs, hp, rfl⟩⟩
    · intro hk
      apply read_symlink_target_congr c.device_fd c'.device_fd a hl.1
      intro h1 h2
      exact hreads m a hm hread _ ⟨h2, Or.inr ⟨hk, h1, rfl⟩⟩

theorem inode_head_eq_refl (a : Buf) : inode_head_eq a a := fun _ _ => rfl

theorem inode_head_eq_trans {a b c : Buf} (h1 : inode_head_eq a b) (h2 : inode_head_eq b c) :
    inode_head_eq a c := fun i hi => (h1 i hi).trans (h2 i hi)

theorem inode_head_eq_set_i_blocks (a : Buf) (v : Nat) :
    inode_head_eq (set_i_blocks a v) a := by
  intro i hi
  unfold set_i_blocks
  exact setLE_outside _ _ _ _ _ (by omega)

theorem inode_head_eq_set_i_block (a : Buf) (s v : Nat) :
    inode_head_eq (set_i_block a s v) a := by
  intro i hi
  unfold set_i_block
  exact setLE_outside _ _ _ _ _ (by omega)

theorem inode_head_eq_fields (a b : Buf) (h : inode_head_eq a b) :
    i_mode a = i_mode b ∧ i_uid a = i_uid b ∧ i_gid a = i_gid b ∧ i_size a = i_size b := by
  refine ⟨?_, ?_, ?_, ?_⟩
  · exact getLE_congr _ _ _ _ (fun i _ h2 => h i (by omega))
  · exact getLE_congr _ _ _ _ (fun i _ h2 => h i (by omega))
  · unfold i_gid
    exact getLE_congr _ _ _ _ (fun i _ h2 => h i (by omega))
  · exact getLE_congr _ _ _ _ (fun i _ h2 => h i (by omega))

theorem ensure_top_indirect_head (c : SimpleFS_Context) (inode : Buf) (slot pg : Nat) :
    match ensure_top_indirect c inode slot pg with
    | .ok r => inode_head_eq r.1 inode
    | .error e => inode_head_eq e.1 inode := by
  unfold ensure_top_indirect
  by_cases h0 : i_block inode slot = 0
  · rw [if_pos h0]
    dsimp only
    by_cases h1 : (alloc_block c pg).1 = 0
    · rw [if_pos h1]
      exact inode_head_eq_refl _
    · rw [if_neg h1]
      cases write_block (alloc_block c pg).2.device_fd (alloc_block c pg).1 zeroBuf with
      | none =>
        exact inode_head_eq_trans (inode_head_eq_set_i_blocks _ _)
          (inode_head_eq_set_i_blocks _ _)
      | some dev =>
        exact inode_head_eq_trans (inode_head_eq_set_i_block _ _ _)
          (inode_head_eq_set_i_blocks _ _)
  · rw [if_neg h0]
    exact inode_head_eq_refl _

theorem ensure_child_indirect_head (c : SimpleFS_Context) (inode : Buf) (p : Nat) (pb : Buf)
    (idx pg : Nat) :
    match ensure_child_indirect c inode p pb idx pg with
    | .ok r => inode_head_eq r.1 inode
    | .error e => inode_head_eq e.1 inode := by
  unfold ensure_child_indirect
  by_cases h0 : ptrAt pb idx = 0
  · rw [if_pos h0]
    dsimp only
    by_cases h1 : (alloc_block c pg).1 = 0
    · rw [if_pos h1]
      exact inode_head_eq_refl _
    · rw [if_neg h1]
      cases write_block (alloc_block c pg).2.device_fd (alloc_block c pg).1 zeroBuf with
      | none =>
        exact inode_head_eq_trans (inode_head_eq_set_i_blocks _ _)
          (inode_head_eq_set_i_blocks _ _)
      | some dev =>
        dsimp only
        cases write_block dev p (setPtr pb idx (alloc_block c pg).1) with
        | none =>
          exact inode_head_eq_trans (inode_head_eq_set_i_blocks _ _)
            (inode_head_eq_set_i_blocks _ _)
        | some dev2 => exact inode_head_eq_set_i_blocks _ _
  · rw [if_neg h0]
    exact inode_head_eq_refl _

theorem ensure_write_leaf_head (c : SimpleFS_Context) (inode : Buf) (p : Nat) (pb : Buf)
    (idx pg : Nat) :
    match ensure_write_leaf c inode p pb idx pg with
    | .ok r => inode_head_eq r.2.2.1 inode
    | .error e => inode_head_eq e.2.1 inode := by
  unfold ensure_write_leaf
  by_cases h0 : ptrAt pb idx = 0
  · rw [if_pos h0]
    dsimp only
    by_cases h1 : (alloc_block c pg).1 = 0
    · rw [if_pos h1]
      exact inode_head_eq_refl _
    · rw [if_neg h1]
      cases write_block (alloc_block c pg).2.device_fd p
          (setPtr pb idx (alloc_block c pg).1) with
      | none =>
        exact inode_head_eq_trans (inode_head_eq_set_i_blocks _ _)
          (inode_head_eq_set_i_blocks _ _)
      | some dev => exact inode_head_eq_set_i_blocks _ _
  · rw [if_neg h0]
    exact inode_head_eq_refl _

theorem ensure_top_indirect_head_ok (c : SimpleFS_Context) (inode : Buf) (slot pg : Nat)
    (r : Buf × SimpleFS_Context) (h : ensure_top_indirect c inode slot pg = .ok r) :
    inode_head_eq r.1 inode := by
  have t := ensure_top_indirect_head c inode slot pg
  rw [h] at t
  exact t

theorem ensure_top_indirect_head_err (c : SimpleFS_Context) (inode : Buf) (slot pg : Nat)
    (e : Buf × SimpleFS_Context) (h : ensure_top_indirect c inode slot pg = .error e) :
    inode_head_eq e.1 inode := by
  have t := ensure_top_indirect_head c inode slot pg
  rw [h] at t
  exact t

theorem ensure_child_indirect_head_ok (c : SimpleFS_Context) (inode : Buf) (p : Nat) (pb : Buf)
    (idx pg : Nat) (r : Buf × Buf × SimpleFS_Context)
    (h : ensure_child_indirect c inode p pb idx pg = .ok r) : inode_head_eq r.1 inode := by
  have t := ensure_child_indirect_head c inode p pb idx pg
  rw [h] at t
  exact t

theorem ensure_child_indirect_head_err (c : SimpleFS_Context) (inode : Buf) (p : Nat) (pb : Buf)
    (idx pg : Nat) (e : Buf × SimpleFS_Context)
    (h : ensure_child_indirect c inode p pb idx pg = .error e) : inode_head_eq e.1 inode := by
  have t := ensure_child_indirect_head c inode p pb idx pg
  rw [h] at t
  exact t

theorem ensure_write_leaf_head_ok (c : SimpleFS_Context) (inode : Buf) (p : Nat) (pb : Buf)
    (idx pg : Nat) (r : Nat × Bool × Buf × SimpleFS_Context)
    (h : ensure_write_leaf c inode p pb idx pg = .ok r) : inode_head_eq r.2.2.1 inode := by
  have t := ensure_write_leaf_head c inode p pb idx pg
  rw [h] at t
  exact t

theorem ensure_write_leaf_head_err (c : SimpleFS_Context) (inode : Buf) (p : Nat) (pb : Buf)
    (idx pg : Nat) (e : Bool × Buf × SimpleFS_Context)
    (h : ensure_write_leaf c inode p pb idx pg = .error e) : inode_head_eq e.2.1 inode := by
  have t := ensure_write_leaf_head c inode p pb idx pg
  rw [h] at t
  exact t

/-- The tail shared by the indirect regions of `allocate_block_for_write`: read
the last indirect block and fill the leaf pointer. -/
theorem write_leaf_tail_head (c1 : SimpleFS_Context) (i1 inode : Buf) (p idx pg : Nat)
    (t : inode_head_eq i1 inode) :
    inode_head_eq
      (match read_block c1.device_fd p with
        | none => ((0 : Nat), false, i1, setErrno c1 EIO)
        | some b1 =>
          match ensure_write_leaf c1 i1 p b1 idx pg with
          | .error e => (0, e.1, e.2.1, e.2.2)
          | .ok r => r).2.2.1 inode := by
  cases read_block c1.device_fd p with
  | none => exact t
  | some b1 =>
    dsimp only
    cases hE : ensure_write_leaf c1 i1 p b1 idx pg with
    | error e => exact inode_head_eq_trans (ensure_write_leaf_head_err _ _ _ _ _ _ _ hE) t
    | ok r => exact inode_head_eq_trans (ensure_write_leaf_head_ok _ _ _ _ _ _ _ hE) t

/-- The middle step shared by the double and triple regions: read an indirect
block, fill the child pointer, go on with `rest`. -/
theorem write_child_step_head (c1 : SimpleFS_Context) (i1 inode : Buf) (p idx pg : Nat)
    (rest : Buf → Buf → SimpleFS_Context → Nat × Bool × Buf × SimpleFS_Context)
    (hrest : ∀ i2 b2 c2, inode_head_eq i2 inode → inode_head_eq (rest i2 b2 c2).2.2.1 inode)
    (t : inode_head_eq i1 inode) :
    inode_head_eq
      (match read_block c1.device_fd p with
        | none => ((0 : Nat), false, i1, setErrno c1 EIO)
        | some b1 =>
          match ensure_child_indirect c1 i1 p b1 idx pg with
          | .error e => (0, false, e.1, e.2)
          | .ok (i2, b2, c2) => rest i2 b2 c2).2.2.1 inode := by
  cases read_block c1.device_fd p with
  | none => exact t
  | some b1 =>
    dsimp only
    cases hE : ensure_child_indirect c1 i1 p b1 idx pg with
    | error e => exact inode_head_eq_trans (ensure_child_indirect_head_err _ _ _ _ _ _ _ hE) t
    | ok r =>
      obtain ⟨i2, b2, c2⟩ := r
      exact hrest i2 b2 c2
        (inode_head_eq_trans (ensure_child_indirect_head_ok _ _ _ _ _ _ _ hE) t)

/-- The allocating walk changes `i_blocks` and `i_block` only. -/
theorem allocate_block_for_write_head (c : SimpleFS_Context) (inode : Buf) (num k : Nat) :
    inode_head_eq (allocate_block_for_write c inode num k).2.2.1 inode := by
  unfold allocate_block_for_write
  dsimp only
  by_cases h1 : k < SIMPLEFS_NUM_DIRECT_BLOCKS
  · rw [if_pos h1]
    by_cases h0 : i_block inode k = 0
    · rw [if_pos h0]
      by_cases ha : (alloc_block c (dec32 num / c.sb.s_inodes_per_group)).1 = 0
      · rw [if_pos ha]
        exact inode_head_eq_refl _
      · rw [if_neg ha]
        exact inode_head_eq_trans (inode_head_eq_set_i_blocks _ _)
          (inode_head_eq_set_i_block _ _ _)
    · rw [if_neg h0]
      exact inode_head_eq_refl _
  rw [if_neg h1]
  by_cases h2 : k < SIMPLEFS_NUM_DIRECT_BLOCKS + SIMPLEFS_BLOCK_SIZE / 4
  · rw [if_pos h2]
    cases hE : ensure_top_indirect c inode SIMPLEFS_NUM_DIRECT_BLOCKS
        (dec32 num / c.sb.s_inodes_per_group) with
    | error e => exact ensure_top_indirect_head_err _ _ _ _ _ hE
    | ok r =>
      obtain ⟨i1, c1⟩ := r
      exact write_leaf_tail_head c1 i1 inode _ _ _ (ensure_top_indirect_head_ok _ _ _ _ _ hE)
  rw [if_neg h2]
  by_cases h3 : k < SIMPLEFS_NUM_DIRECT_BLOCKS + SIMPLEFS_BLOCK_SIZE / 4 +
      SIMPLEFS_BLOCK_SIZE / 4 * (SIMPLEFS_BLOCK_SIZE / 4)
  · rw [if_pos h3]
    cases hE : ensure_top_indirect c inode (SIMPLEFS_NUM_DIRECT_BLOCKS + 1)
        (dec32 num / c.sb.s_inodes_per_group) with
    | error e => exact ensure_top_indirect_head_err _ _ _ _ _ hE
    | ok r =>
      obtain ⟨i1, c1⟩ := r
      exact write_child_step_head c1 i1 inode _ _ _ _
        (fun i2 b2 c2 t2 => write_leaf_tail_head c2 i2 inode _ _ _ t2)
        (ensure_top_indirect_head_ok _ _ _ _ _ hE)
  rw [if_neg h3]
  by_cases h4 : k < SIMPLEFS_NUM_DIRECT_BLOCKS + SIMPLEFS_BLOCK_SIZE / 4 +
      SIMPLEFS_BLOCK_SIZE / 4 * (SIMPLEFS_BLOCK_SIZE / 4) +
      SIMPLEFS_BLOCK_SIZE / 4 * (SIMPLEFS_BLOCK_SIZE / 4) * (SIMPLEFS_BLOCK_SIZE / 4)
  · rw [if_pos h4]
    cases hE : ensure_top_indirect c inode (SIMPLEFS_NUM_DIRECT_BLOCKS + 2)
        (dec32 num / c.sb.s_inodes_per_group) with
    | error e => exact ensure_top_indirect_head_err _ _ _ _ _ hE
    | ok r =>
      obtain ⟨i1, c1⟩ := r
      exact write_child_step_head c1 i1 inode _ _ _ _
        (fun i2 b2 c2 t2 => write_child_step_head c2 i2 inode _ _ _ _
          (fun i3 b3 c3 t3 => write_leaf_tail_head c3 i3 inode _ _ _ t3) t2)
        (ensure_top_indirect_head_ok _ _ _ _ _ hE)
  rw [if_neg h4]
  exact inode_head_eq_refl _

/-! ## Write to an empty file, then read -/

/-- Writing a block that is outside `R` and is no indirect block of the tree
leaves the tree, the bitmaps and the soundness of the state as they are. -/
theorem tree_ok_put (c : SimpleFS_Context) (inode : Buf) (R : Nat → Prop) (x : Nat) (buf : Buf)
    (h : tree_ok c inode R) (hR : ¬ R x)
    (hind : ∀ s idxs, tree_path_ok s idxs → idxs.length < tree_depth s →
      tree_node c.device_fd.data inode s idxs ≠ x) :
    tree_ok { c with device_fd := c.device_fd.put x buf } inode R ∧
    (∀ s idxs, tree_path_ok s idxs →
      tree_node (c.device_fd.put x buf).data inode s idxs =
        tree_node c.device_fd.data inode s idxs) ∧
    (∀ y, y < c.sb.s_blocks_count →
      block_bit_set { c with device_fd := c.device_fd.put x buf } y = block_bit_set c y) := by
  have hnodes : ∀ s idxs, tree_path_ok s idxs →
      tree_node (c.device_fd.put x buf).data inode s idxs =
        tree_node c.device_fd.data inode s idxs := by
    apply tree_node_frame c.device_fd.data (c.device_fd.put x buf).data inode inode
      (fun _ => rfl)
    intro s idxs hp hl _
    exact put_data_ne _ _ _ _ (hind s idxs hp hl)
  have hbits : ∀ y, y < c.sb.s_blocks_count →
      block_bit_set { c with device_fd := c.device_fd.put x buf } y = block_bit_set c y := by
    intro y hy
    apply block_bit_set_congr c { c with device_fd := c.device_fd.put x buf } y rfl rfl
    apply put_data_ne
    intro e
    apply hR
    rw [← e]
    exact h.bitmaps _ (group_lt_of_block_lt c h.layout y hy)
  refine ⟨?_, hnodes, hbits⟩
  refine
    { io := h.io
      layout := h.layout
      counts := h.counts
      bitmaps := h.bitmaps
      reserved := ?_
      nodes := ?_
      distinct := ?_ }
  · intro b hb
    obtain ⟨r1, r2⟩ := h.reserved b hb
    exact ⟨r1, by rw [hbits b r1]; exact r2⟩
  · intro s idxs hp hne
    show tree_node (c.device_fd.put x buf).data inode s idxs < c.sb.s_blocks_count ∧ _
    rw [hnodes s idxs hp] at hne ⊢
    obtain ⟨n1, n2, n3⟩ := h.nodes s idxs hp hne
    exact ⟨n1, by rw [hbits _ n1]; exact n2, n3⟩
  · intro s idxs s' idxs' p1 p2 hne heq
    have hne2 : tree_node (c.device_fd.put x buf).data inode s idxs ≠ 0 := hne
    rw [hnodes s idxs p1] at hne2
    have heq' : tree_node c.device_fd.data inode s idxs =
        tree_node c.device_fd.data inode s' idxs' := by
      rw [← hnodes s idxs p1, ← hnodes s' idxs' p2]
      exact heq
    exact h.distinct s idxs s' idxs' p1 p2 hne2 heq'

theorem file_byte_zero (o : Nat) (buf : List Nat) (j : Nat) :
    file_byte o buf 0 j = 0 := by
  unfold file_byte
  rw [if_neg (by omega)]

/-- The loop invariant holds before the first iteration. -/
theorem write_inv_init (c0 : SimpleFS_Context) (inode0 : Buf) (R : Nat → Prop) (o : Nat)
    (buf : List Nat) (hio : io_ok c0) (hlay : block_layout_ok c0) (hcnt : counts_in_range c0)
    (hbm : ∀ g, g < c0.gdt.length → R (c0.gdt.getD g default).bg_block_bitmap)
    (hR : ∀ b, R b → b < c0.sb.s_blocks_count ∧ block_bit_set c0 b = true)
    (hslots : ∀ s, s < SIMPLEFS_INODE_BLOCK_PTRS → i_block inode0 s = 0) :
    write_inv c0 inode0 R o buf c0 inode0 0 := by
  have hz : ∀ s idxs, tree_path_ok s idxs → tree_node c0.device_fd.data inode0 s idxs = 0 := by
    intro s idxs hp
    unfold tree_node
    rw [hslots s hp.1, walk_tree_zero]
  refine
    { ok :=
        { io := hio
          layout := hlay
          counts := hcnt
          bitmaps := hbm
          reserved := hR
          nodes := fun s idxs hp hne => absurd (hz s idxs hp) hne
          distinct := fun s idxs _ _ hp _ hne _ => absurd (hz s idxs hp) hne }
      layout := same_layout_refl c0
      head := inode_head_eq_refl _
      keep := fun _ _ _ _ _ => rfl
      bits := fun _ _ h => h
      fresh := fun s idxs hp hne => absurd (hz s idxs hp) hne
      mapped := ?_
      content := ?_ }
  · intro k hk
    rw [hz _ _ (lbn_path_ok k hk).1]
    constructor
    · intro h
      exact absurd rfl h
    · intro h
      exact absurd rfl h.1
  · intro k hk hne
    exact absurd (hz _ _ (lbn_path_ok k hk).1) hne

theorem lbn_leaf_not_initial (k K : Nat) (hk : k < MAX_LOGICAL_BLOCKS)
    (hK : K < MAX_LOGICAL_BLOCKS) (hne : k ≠ K) :
    ¬ (lbn_slot k = lbn_slot K ∧ lbn_idxs k <+: lbn_idxs K) := by
  rintro ⟨h1, h2⟩
  have l1 := (lbn_path_ok k hk).2
  have l2 := (lbn_path_ok K hK).2
  rw [h1] at l1
  exact hne (lbn_path_inj k K hk hK h1 (h2.eq_of_length (l1.trans l2.symm)))

/-- One iteration of the block loop of `simplefs_write` on a file that was
empty: the block of the current offset is not mapped yet, the walk allocates
it, and after the block is written the invariant holds for the bytes written
so far. `P` is the buffer the bytes are copied into. -/
theorem write_step_inv (c0 : SimpleFS_Context) (inode0 : Buf) (R : Nat → Prop) (o : Nat)
    (buf : List Nat) (num : Nat) (ho : o + buf.length < 4294967296)
    (ctx : SimpleFS_Context) (inode : Buf) (total : Nat)
    (inv : write_inv c0 inode0 R o buf ctx inode total)
    (hlt : total < buf.length) (hal : total = 0 ∨ (o + total) % 4096 = 0)
    (b : Nat) (fl : Bool) (inode1 : Buf) (ctx1 : SimpleFS_Context)
    (hres : allocate_block_for_write ctx inode num ((o + total) / 4096) =
      (b, fl, inode1, ctx1))
    (hb : b ≠ 0) (P : Buf) (nb : Nat)
    (hnb : nb = min (4096 - (o + total) % 4096) (buf.length - total))
    (hP : (o + total) % 4096 ≠ 0 ∨ nb < 4096 → P = zeroBuf) :
    fl = true ∧
    write_inv c0 inode0 R o buf
      { ctx1 with device_fd := (ctx1.device_fd.put b
          (blit P ((o + total) % 4096) (fun i => buf.getD i 0) total nb)) }
      inode1 (total + nb) := by
  have hk : (o + total) / 4096 < MAX_LOGICAL_BLOCKS := by
    unfold MAX_LOGICAL_BLOCKS
    omega
  obtain ⟨g1, g2, g3, g4⟩ := allocate_block_for_write_spec ctx inode R num _ inv.ok hk b fl
    inode1 ctx1 hres hb
  obtain ⟨pK, pKlen⟩ := lbn_path_ok _ hk
  have hun : tree_node ctx.device_fd.data inode (lbn_slot ((o + total) / 4096))
      (lbn_idxs ((o + total) / 4096)) = 0 := by
    by_contra hne
    have := (inv.mapped _ hk).mp hne
    omega
  have hfl := g4 hun
  have hnode1 : tree_node ctx1.device_fd.data inode1 (lbn_slot ((o + total) / 4096))
      (lbn_idxs ((o + total) / 4096)) = b := g2.symm
  have hbne : tree_node ctx1.device_fd.data inode1 (lbn_slot ((o + total) / 4096))
      (lbn_idxs ((o + total) / 4096)) ≠ 0 := by
    rw [hnode1]
    exact hb
  obtain ⟨b1, b2, b3⟩ := g1.ok.nodes _ _ pK hbne
  rw [hnode1] at b1 b2 b3
  have hn1 : ctx1.sb.s_blocks_count = ctx.sb.s_blocks_count := g1.layout.2.2.1
  have hn0 : ctx.sb.s_blocks_count = c0.sb.s_blocks_count := inv.layout.2.2.1
  have hbclr : block_bit_set ctx b = false := by
    have := g1.fresh _ _ pK hun hbne
    rw [hnode1] at this
    exact this
  have hbclr0 : block_bit_set c0 b = false := by
    cases hh : block_bit_set c0 b with
    | false => rfl
    | true =>
      have := inv.bits b (by omega) hh
      rw [hbclr] at this
      exact Bool.noConfusion this
  have hind : ∀ s idxs, tree_path_ok s idxs → idxs.length < tree_depth s →
      tree_node ctx1.device_fd.data inode1 s idxs ≠ b := by
    intro s idxs hp hl he
    obtain ⟨e1, e2⟩ := g1.ok.distinct s idxs _ _ hp pK (by rw [he]; exact hb)
      (by rw [he, hnode1])
    rw [e1, e2] at hl
    omega
  obtain ⟨ok2, nodes2, bits2⟩ := tree_ok_put ctx1 inode1 R b
    (blit P ((o + total) % 4096) (fun i => buf.getD i 0) total nb) g1.ok b3 hind
  have hnb1 : 1 ≤ nb := by omega
  have hnb2 : nb ≤ 4096 - (o + total) % 4096 := by omega
  have hnb3 : nb ≤ buf.length - total := by omega
  have hoff : ∀ k, k < MAX_LOGICAL_BLOCKS → k ≠ (o + total) / 4096 →
      tree_node ctx1.device_fd.data inode1 (lbn_slot k) (lbn_idxs k) =
        tree_node ctx.device_fd.data inode (lbn_slot k) (lbn_idxs k) :=
    fun k hk' hne => g1.off_path _ _ (lbn_path_ok k hk').1 (lbn_leaf_not_initial k _ hk' hk hne)
  refine ⟨hfl, ?_⟩
  refine
    { ok := ok2
      layout := same_layout_trans _ _ _ (same_layout_trans _ _ _ inv.layout g1.layout)
        (same_layout_of_eq _ _ rfl rfl rfl rfl rfl)
      head := inode_head_eq_trans (by
        have := allocate_block_for_write_head ctx inode num ((o + total) / 4096)
        rw [hres] at this
        exact this) inv.head
      keep := ?_
      bits := ?_
      fresh := ?_
      mapped := ?_
      content := ?_ }
  · intro x hx0 hx hxs hxR
    show (ctx1.device_fd.put b _).data x = c0.device_fd.data x
    have hxb : x ≠ b := by
      intro e
      rw [e, hbclr0] at hxs
      exact Bool.noConfusion hxs
    rw [put_data_ne _ _ _ _ hxb, ← inv.keep x hx0 hx hxs hxR]
    apply g1.data_keep x (by omega) (inv.bits x hx hxs) hxR
    intro s' idxs' hp' _ he
    have := inv.fresh s' idxs' hp' (by rw [he]; exact hx0)
    rw [he, hxs] at this
    exact Bool.noConfusion this
  · intro x hx hxs
    rw [bits2 x (by omega)]
    exact g1.bits x (by omega) (inv.bits x hx hxs)
  · intro s idxs hp hne
    have hne1 : tree_node (ctx1.device_fd.put b
        (blit P ((o + total) % 4096) (fun i => buf.getD i 0) total nb)).data inode1 s idxs ≠ 0 :=
      hne
    show block_bit_set c0 (tree_node (ctx1.device_fd.put b
        (blit P ((o + total) % 4096) (fun i => buf.getD i 0) total nb)).data inode1 s idxs) = false
    rw [nodes2 s idxs hp] at hne1 ⊢
    by_cases hz : tree_node ctx.device_fd.data inode s idxs = 0
    · have f := g1.fresh s idxs hp hz hne1
      have hlt1 := (g1.ok.nodes s idxs hp hne1).1
      cases hh : block_bit_set c0 (tree_node ctx1.device_fd.data inode1 s idxs) with
      | false => rfl
      | true =>
        have := inv.bits _ (by omega) hh
        rw [f] at this
        exact Bool.noConfusion this
    · rw [g1.keep s idxs hp hz]
      exact inv.fresh s idxs hp hz
  · intro k hk'
    show tree_node (ctx1.device_fd.put b
        (blit P ((o + total) % 4096) (fun i => buf.getD i 0) total nb)).data inode1
        (lbn_slot k) (lbn_idxs k) ≠ 0 ↔ _
    rw [nodes2 _ _ (lbn_path_ok k hk').1]
    by_cases hkK : k = (o + total) / 4096
    · rw [hkK]
      constructor
      · intro _
        omega
      · intro _
        exact hbne
    · rw [hoff k hk' hkK]
      have := inv.mapped k hk'
      constructor
      · intro h
        have := this.mp h
        omega
      · intro h
        apply this.mpr
        omega
  · intro k hk' hne t ht
    have hne1 : tree_node (ctx1.device_fd.put b
        (blit P ((o + total) % 4096) (fun i => buf.getD i 0) total nb)).data inode1
        (lbn_slot k) (lbn_idxs k) ≠ 0 := hne
    show (ctx1.device_fd.put b _).data (tree_node (ctx1.device_fd.put b
        (blit P ((o + total) % 4096) (fun i => buf.getD i 0) total nb)).data inode1
        (lbn_slot k) (lbn_idxs k)) t = _
    rw [nodes2 _ _ (lbn_path_ok k hk').1] at hne1 ⊢
    by_cases hkK : k = (o + total) / 4096
    · rw [hkK, hnode1, put_data_same]
      unfold blit file_byte
      by_cases hin : (o + total) % 4096 ≤ t ∧ t < (o + total) % 4096 + nb
      · rw [if_pos hin, if_pos (by omega)]
        congr 1
        omega
      · rw [if_neg hin, if_neg (by omega), hP (by omega)]
        rfl
    · rw [hoff k hk' hkK] at hne1 ⊢
      obtain ⟨n1, n2, n3⟩ := inv.ok.nodes _ _ (lbn_path_ok k hk').1 hne1
      have hxb : tree_node ctx.device_fd.data inode (lbn_slot k) (lbn_idxs k) ≠ b := by
        intro e
        rw [e, hbclr] at n2
        exact Bool.noConfusion n2
      rw [put_data_ne _ _ _ _ hxb]
      have hkeep := g1.data_keep _ n1 n2 n3 (fun s' idxs' hp' hl' he => by
        obtain ⟨e1, e2⟩ := inv.ok.distinct s' idxs' _ _ hp' (lbn_path_ok k hk').1
          (by rw [he]; exact hne1) he
        rw [e1, e2] at hl'
        have := (lbn_path_ok k hk').2
        omega)
      rw [hkeep, inv.content k hk' hne1 t ht]
      have hm := (inv.mapped k hk').mp hne1
      unfold file_byte
      by_cases hc : o ≤ k * 4096 + t
      · rw [if_pos ⟨hc, by omega⟩, if_pos ⟨hc, by omega⟩]
      · rw [if_neg (fun h => hc h.1), if_neg (fun h => hc h.1)]

/-- The block loop of `simplefs_write` on a file that was empty: a run that
ends with all of `buf` written leaves the invariant for all of `buf`. -/
theorem write_loop_inv (c0 : SimpleFS_Context) (inode0 : Buf) (R : Nat → Prop) (o : Nat)
    (buf : List Nat) (num : Nat) (ho : o + buf.length < 4294967296) :
    ∀ (fuel : Nat) (ctx : SimpleFS_Context) (inode rwb : Buf) (total : Nat),
      write_inv c0 inode0 R o buf ctx inode total → total ≤ buf.length →
      (total = 0 ∨ (o + total) % 4096 = 0 ∨ total = buf.length) →
      ∀ T inode' ctx', write_loop num buf o fuel ctx inode rwb total = .done T inode' ctx' →
        T ≤ buf.length ∧ (T = buf.length → write_inv c0 inode0 R o buf ctx' inode' buf.length) := by
  intro fuel
  induction fuel with
  | zero =>
    intro ctx inode rwb total inv hle _ T inode' ctx' h
    rw [write_loop] at h
    injection h with h1 h2 h3
    subst h1 h2 h3
    exact ⟨hle, fun e => by rw [e] at inv; exact inv⟩
  | succ fuel ih =>
    intro ctx inode rwb total inv hle hal T inode' ctx' h
    rw [write_loop] at h
    dsimp only at h
    by_cases hlt : total < buf.length
    swap
    · rw [if_pos hlt] at h
      injection h with h1 h2 h3
      subst h1 h2 h3
      exact ⟨hle, fun e => by rw [e] at inv; exact inv⟩
    rw [if_neg (not_not.mpr hlt)] at h
    have hu : u32 (o + total) = o + total := Nat.mod_eq_of_lt (by omega)
    have hB : SIMPLEFS_BLOCK_SIZE = 4096 := rfl
    rw [hu, hB] at h
    generalize hres : allocate_block_for_write ctx inode num ((o + total) / 4096) = al at h
    obtain ⟨b, fl, inode1, ctx1⟩ := al
    dsimp only at h
    by_cases hb : b = 0
    · rw [if_pos hb] at h
      by_cases ht : total > 0
      · rw [if_pos ht] at h
        injection h with h1 h2 h3
        subst h1
        exact ⟨hle, fun e => by omega⟩
      · rw [if_neg ht] at h
        exact WriteLoop.noConfusion h
    rw [if_neg hb] at h
    have hal' : total = 0 ∨ (o + total) % 4096 = 0 := by omega
    have hfl : fl = true :=
      (write_step_inv c0 inode0 R o buf num ho ctx inode total inv hlt hal' b fl inode1 ctx1
        hres hb zeroBuf _ rfl (fun _ => rfl)).1
    subst hfl
    rw [if_neg (fun hc => hc.2 rfl)] at h
    have hnext : total + min (4096 - (o + total) % 4096) (buf.length - total) ≤ buf.length := by
      omega
    have hal2 : total + min (4096 - (o + total) % 4096) (buf.length - total) = 0 ∨
        (o + (total + min (4096 - (o + total) % 4096) (buf.length - total))) % 4096 = 0 ∨
        total + min (4096 - (o + total) % 4096) (buf.length - total) = buf.length := by
      omega
    by_cases hpart : decide ((o + total) % 4096 ≠ 0 ∨
        min (4096 - (o + total) % 4096) (buf.length - total) < 4096) = true
    · rw [if_pos ⟨hpart, rfl⟩] at h
      dsimp only at h
      have inv' := (write_step_inv c0 inode0 R o buf num ho ctx inode total inv hlt hal' b true
        inode1 ctx1 hres hb zeroBuf _ rfl (fun _ => rfl)).2
      have hw : ctx1.device_fd.writable b = true := (inv'.ok.io b).2
      rw [write_block_of_writable _ _ _ hw] at h
      dsimp only at h
      exact ih _ _ _ _ inv' hnext hal2 T inode' ctx' h
    · rw [if_neg (fun hc => hpart hc.1)] at h
      dsimp only at h
      have inv' := (write_step_inv c0 inode0 R o buf num ho ctx inode total inv hlt hal' b true
        inode1 ctx1 hres hb rwb _ rfl (fun hc => absurd (decide_eq_true hc) hpart)).2
      have hw : ctx1.device_fd.writable b = true := (inv'.ok.io b).2
      rw [write_block_of_writable _ _ _ hw] at h
      dsimp only at h
      exact ih _ _ _ _ inv' hnext hal2 T inode' ctx' h

theorem alloc_block_root (c : SimpleFS_Context) (g : Nat) :
    (alloc_block c g).2.sb.s_root_inode = c.sb.s_root_inode := by
  rcases alloc_block_cases c g with ⟨e, he⟩ | ⟨g', bit, _, _, _, _, _, _, _, _, _, he⟩
  · rw [he]
    rfl
  · rw [he]
    rfl

theorem free_block_root (c : SimpleFS_Context) (b : Nat) :
    (free_block c b).sb.s_root_inode = c.sb.s_root_inode := by
  rcases free_block_cases c b with he | ⟨_, _, _, _, _, he⟩
  · rw [he]
  · rw [he]
    rfl

theorem ensure_top_indirect_root (c : SimpleFS_Context) (inode : Buf) (slot pg : Nat) :
    match ensure_top_indirect c inode slot pg with
    | .ok r => r.2.sb.s_root_inode = c.sb.s_root_inode
    | .error e => e.2.sb.s_root_inode = c.sb.s_root_inode := by
  unfold ensure_top_indirect
  by_cases h0 : i_block inode slot = 0
  · rw [if_pos h0]
    dsimp only
    by_cases h1 : (alloc_block c pg).1 = 0
    · rw [if_pos h1]
      exact alloc_block_root c pg
    · rw [if_neg h1]
      cases write_block (alloc_block c pg).2.device_fd (alloc_block c pg).1 zeroBuf with
      | none => exact (free_block_root _ _).trans (alloc_block_root c pg)
      | some dev => exact alloc_block_root c pg
  · rw [if_neg h0]

theorem ensure_child_indirect_root (c : SimpleFS_Context) (inode : Buf) (p : Nat) (pb : Buf)
    (idx pg : Nat) :
    match ensure_child_indirect c inode p pb idx pg with
    | .ok r => r.2.2.sb.s_root_inode = c.sb.s_root_inode
    | .error e => e.2.sb.s_root_inode = c.sb.s_root_inode := by
  unfold ensure_child_indirect
  by_cases h0 : ptrAt pb idx = 0
  · rw [if_pos h0]
    dsimp only
    by_cases h1 : (alloc_block c pg).1 = 0
    · rw [if_pos h1]
      exact alloc_block_root c pg
    · rw [if_neg h1]
      cases write_block (alloc_block c pg).2.device_fd (alloc_block c pg).1 zeroBuf with
      | none => exact (free_block_root _ _).trans (alloc_block_root c pg)
      | some dev =>
        dsimp only
        cases write_block dev p (setPtr pb idx (alloc_block c pg).1) with
        | none =>
          exact (free_block_root { (alloc_block c pg).2 with device_fd := dev } _).trans
            (alloc_block_root c pg)
        | some dev2 => exact alloc_block_root c pg
  · rw [if_neg h0]

theorem ensure_write_leaf_root (c : SimpleFS_Context) (inode : Buf) (p : Nat) (pb : Buf)
    (idx pg : Nat) :
    match ensure_write_leaf c inode p pb idx pg with
    | .ok r => r.2.2.2.sb.s_root_inode = c.sb.s_root_inode
    | .error e => e.2.2.sb.s_root_inode = c.sb.s_root_inode := by
  unfold ensure_write_leaf
  by_cases h0 : ptrAt pb idx = 0
  · rw [if_pos h0]
    dsimp only
    by_cases h1 : (alloc_block c pg).1 = 0
    · rw [if_pos h1]
      exact alloc_block_root c pg
    · rw [if_neg h1]
      cases write_block (alloc_block c pg).2.device_fd p
          (setPtr pb idx (alloc_block c pg).1) with
      | none => exact (free_block_root _ _).trans (alloc_block_root c pg)
      | some dev => exact alloc_block_root c pg
  · rw [if_neg h0]

theorem ensure_top_indirect_root_ok (c : SimpleFS_Context) (inode : Buf) (slot pg : Nat)
    (r : Buf × SimpleFS_Context) (h : ensure_top_indirect c inode slot pg = .ok r) :
    r.2.sb.s_root_inode = c.sb.s_root_inode := by
  have t := ensure_top_indirect_root c inode slot pg
  rw [h] at t
  exact t

theorem ensure_top_indirect_root_err (c : SimpleFS_Context) (inode : Buf) (slot pg : Nat)
    (e : Buf × SimpleFS_Context) (h : ensure_top_indirect c inode slot pg = .error e) :
    e.2.sb.s_root_inode = c.sb.s_root_inode := by
  have t := ensure_top_indirect_root c inode slot pg
  rw [h] at t
  exact t

theorem ensure_child_indirect_root_ok (c : SimpleFS_Context) (inode : Buf) (p : Nat) (pb : Buf)
    (idx pg : Nat) (r : Buf × Buf × SimpleFS_Context)
    (h : ensure_child_indirect c inode p pb idx pg = .ok r) :
    r.2.2.sb.s_root_inode = c.sb.s_root_inode := by
  have t := ensure_child_indirect_root c inode p pb idx pg
  rw [h] at t
  exact t

theorem ensure_child_indirect_root_err (c : SimpleFS_Context) (inode : Buf) (p : Nat) (pb : Buf)
    (idx pg : Nat) (e : Buf × SimpleFS_Context)
    (h : ensure_child_indirect c inode p pb idx pg = .error e) :
    e.2.sb.s_root_inode = c.sb.s_root_inode := by
  have t := ensure_child_indirect_root c inode p pb idx pg
  rw [h] at t
  exact t

theorem ensure_write_leaf_root_ok (c : SimpleFS_Context) (inode : Buf) (p : Nat) (pb : Buf)
    (idx pg : Nat) (r : Nat × Bool × Buf × SimpleFS_Context)
    (h : ensure_write_leaf c inode p pb idx pg = .ok r) :
    r.2.2.2.sb.s_root_inode = c.sb.s_root_inode := by
  have t := ensure_write_leaf_root c inode p pb idx pg
  rw [h] at t
  exact t

theorem ensure_write_leaf_root_err (c : SimpleFS_Context) (inode : Buf) (p : Nat) (pb : Buf)
    (idx pg : Nat) (e : Bool × Buf × SimpleFS_Context)
    (h : ensure_write_leaf c inode p pb idx pg = .error e) :
    e.2.2.sb.s_root_inode = c.sb.s_root_inode := by
  have t := ensure_write_leaf_root c inode p pb idx pg
  rw [h] at t
  exact t

theorem write_leaf_tail_root (c1 c : SimpleFS_Context) (i1 : Buf) (p idx pg : Nat)
    (t : c1.sb.s_root_inode = c.sb.s_root_inode) :
    (match read_block c1.device_fd p with
      | none => ((0 : Nat), false, i1, setErrno c1 EIO)
      | some b1 =>
        match ensure_write_leaf c1 i1 p b1 idx pg with
        | .error e => (0, e.1, e.2.1, e.2.2)
        | .ok r => r).2.2.2.sb.s_root_inode = c.sb.s_root_inode := by
  cases read_block c1.device_fd p with
  | none => exact t
  | some b1 =>
    dsimp only
    cases hE : ensure_write_leaf c1 i1 p b1 idx pg with
    | error e => exact (ensure_write_leaf_root_err _ _ _ _ _ _ _ hE).trans t
    | ok r => exact (ensure_write_leaf_root_ok _ _ _ _ _ _ _ hE).trans t

theorem write_child_step_root (c1 c : SimpleFS_Context) (i1 : Buf) (p idx pg : Nat)
    (rest : Buf → Buf → SimpleFS_Context → Nat × Bool × Buf × SimpleFS_Context)
    (hrest : ∀ i2 b2 c2, c2.sb.s_root_inode = c.sb.s_root_inode →
      (rest i2 b2 c2).2.2.2.sb.s_root_inode = c.sb.s_root_inode)
    (t : c1.sb.s_root_inode = c.sb.s_root_inode) :
    (match read_block c1.device_fd p with
      | none => ((0 : Nat), false, i1, setErrno c1 EIO)
      | some b1 =>
        match ensure_child_indirect c1 i1 p b1 idx pg with
        | .error e => (0, false, e.1, e.2)
        | .ok (i2, b2, c2) => rest i2 b2 c2).2.2.2.sb.s_root_inode = c.sb.s_root_inode := by
  cases read_block c1.device_fd p with
  | none => exact t
  | some b1 =>
    dsimp only
    cases hE : ensure_child_indirect c1 i1 p b1 idx pg with
    | error e => exact (ensure_child_indirect_root_err _ _ _ _ _ _ _ hE).trans t
    | ok r =>
      obtain ⟨i2, b2, c2⟩ := r
      exact hrest i2 b2 c2 ((ensure_child_indirect_root_ok _ _ _ _ _ _ _ hE).trans t)

/-- The allocating walk leaves `s_root_inode` as it is. -/
theorem allocate_block_for_write_root (c : SimpleFS_Context) (inode : Buf) (num k : Nat) :
    (allocate_block_for_write c inode num k).2.2.2.sb.s_root_inode = c.sb.s_root_inode := by
  unfold allocate_block_for_write
  dsimp only
  by_cases h1 : k < SIMPLEFS_NUM_DIRECT_BLOCKS
  · rw [if_pos h1]
    by_cases h0 : i_block inode k = 0
    · rw [if_pos h0]
      by_cases ha : (alloc_block c (dec32 num / c.sb.s_inodes_per_group)).1 = 0
      · rw [if_pos ha]
        exact alloc_block_root c _
      · rw [if_neg ha]
        exact alloc_block_root c _
    · rw [if_neg h0]
  rw [if_neg h1]
  by_cases h2 : k < SIMPLEFS_NUM_DIRECT_BLOCKS + SIMPLEFS_BLOCK_SIZE / 4
  · rw [if_pos h2]
    cases hE : ensure_top_indirect c inode SIMPLEFS_NUM_DIRECT_BLOCKS
        (dec32 num / c.sb.s_inodes_per_group) with
    | error e => exact ensure_top_indirect_root_err _ _ _ _ _ hE
    | ok r =>
      obtain ⟨i1, c1⟩ := r
      exact write_leaf_tail_root c1 c i1 _ _ _ (ensure_top_indirect_root_ok _ _ _ _ _ hE)
  rw [if_neg h2]
  by_cases h3 : k < SIMPLEFS_NUM_DIRECT_BLOCKS + SIMPLEFS_BLOCK_SIZE / 4 +
      SIMPLEFS_BLOCK_SIZE / 4 * (SIMPLEFS_BLOCK_SIZE / 4)
  · rw [if_pos h3]
    cases hE : ensure_top_indirect c inode (SIMPLEFS_NUM_DIRECT_BLOCKS + 1)
        (dec32 num / c.sb.s_inodes_per_group) with
    | error e => exact ensure_top_indirect_root_err _ _ _ _ _ hE
    | ok r =>
      obtain ⟨i1, c1⟩ := r
      exact write_child_step_root c1 c i1 _ _ _ _
        (fun i2 b2 c2 t2 => write_leaf_tail_root c2 c i2 _ _ _ t2)
        (ensure_top_indirect_root_ok _ _ _ _ _ hE)
  rw [if_neg h3]
  by_cases h4 : k < SIMPLEFS_NUM_DIRECT_BLOCKS + SIMPLEFS_BLOCK_SIZE / 4 +
      SIMPLEFS_BLOCK_SIZE / 4 * (SIMPLEFS_BLOCK_SIZE / 4) +
      SIMPLEFS_BLOCK_SIZE / 4 * (SIMPLEFS_BLOCK_SIZE / 4) * (SIMPLEFS_BLOCK_SIZE / 4)
  · rw [if_pos h4]
    cases hE : ensure_top_indirect c inode (SIMPLEFS_NUM_DIRECT_BLOCKS + 2)
        (dec32 num / c.sb.s_inodes_per_group) with
    | error e => exact ensure_top_indirect_root_err _ _ _ _ _ hE
    | ok r =>
      obtain ⟨i1, c1⟩ := r
      exact write_child_step_root c1 c i1 _ _ _ _
        (fun i2 b2 c2 t2 => write_child_step_root c2 c i2 _ _ _ _
          (fun i3 b3 c3 t3 => write_leaf_tail_root c3 c i3 _ _ _ t3) t2)
        (ensure_top_indirect_root_ok _ _ _ _ _ hE)
  rw [if_neg h4]
  rfl

/-- The block loop of `simplefs_write` leaves `s_root_inode` as it is. -/
theorem write_loop_root (num : Nat) (buf : List Nat) (o : Nat) :
    ∀ (fuel : Nat) (ctx : SimpleFS_Context) (inode rwb : Buf) (total : Nat) T inode' ctx',
      write_loop num buf o fuel ctx inode rwb total = .done T inode' ctx' →
      ctx'.sb.s_root_inode = ctx.sb.s_root_inode := by
  intro fuel
  induction fuel with
  | zero =>
    intro ctx inode rwb total T inode' ctx' h
    rw [write_loop] at h
    injection h with h1 h2 h3
    rw [h3]
  | succ fuel ih =>
    intro ctx inode rwb total T inode' ctx' h
    rw [write_loop] at h
    dsimp only at h
    have hroot := allocate_block_for_write_root ctx inode num
      (u32 (o + total) / SIMPLEFS_BLOCK_SIZE)
    generalize allocate_block_for_write ctx inode num
      (u32 (o + total) / SIMPLEFS_BLOCK_SIZE) = al at h hroot
    obtain ⟨b, fl, inode1, ctx1⟩ := al
    dsimp only at h hroot
    split_ifs at h
    all_goals first
      | (injection h with h1 h2 h3; rw [← h3]; try exact hroot)
      | exact WriteLoop.noConfusion h
      | skip
    all_goals
      split at h
      · try split_ifs at h
        all_goals first
          | (injection h with h1 h2 h3; rw [← h3]; exact hroot)
          | exact WriteLoop.noConfusion h
      · split at h
        · try split_ifs at h
          all_goals first
            | (injection h with h1 h2 h3; rw [← h3]; exact hroot)
            | exact WriteLoop.noConfusion h
        · exact (ih _ _ _ _ _ _ _ h).trans hroot

theorem setErrno_self (c : SimpleFS_Context) (e : Nat) (h : c.errno = e) : setErrno c e = c := by
  cases c
  simp only [setErrno] at *
  subst h
  rfl

/-- On a device without I/O failure and with `errno` 0, the read-only walk of
a logical block below the addressable range returns the block of the tree and
leaves the context as it is. -/
theorem map_logical_to_physical_block_io (c : SimpleFS_Context) (inode : Buf) (k : Nat)
    (hio : io_ok c) (hk : k < MAX_LOGICAL_BLOCKS) (he : c.errno = 0) :
    map_logical_to_physical_block c inode k =
      (tree_node c.device_fd.data inode (lbn_slot k) (lbn_idxs k), c) := by
  have h1 : (map_logical_to_physical_block c inode k).1 =
      tree_node c.device_fd.data inode (lbn_slot k) (lbn_idxs k) :=
    dir_block_eq_node c inode k (fun b => (hio b).1) hk
  have h2 : (map_logical_to_physical_block c inode k).2 = c := by
    have hs : setErrno c 0 = c := setErrno_self c 0 he
    unfold MAX_LOGICAL_BLOCKS at hk
    unfold map_logical_to_physical_block
    simp only [read_block_io c hio, hs, SIMPLEFS_NUM_DIRECT_BLOCKS, SIMPLEFS_BLOCK_SIZE]
    split_ifs <;> rfl
  exact Prod.ext h1 h2

theorem replicate_eq_map_range (n : Nat) (g : Nat → Nat) (h : ∀ i, i < n → g i = 0) :
    List.replicate n 0 = (List.range n).map g := by
  apply List.ext_getElem
  · simp
  · intro i h1 h2
    simp only [List.getElem_replicate, List.getElem_map, List.getElem_range]
    rw [List.length_replicate] at h1
    exact (h i h1).symm

theorem map_range_congr (n : Nat) (g g' : Nat → Nat) (h : ∀ i, i < n → g i = g' i) :
    (List.range n).map g = (List.range n).map g' := by
  apply List.map_congr_left
  intro i hi
  exact h i (List.mem_range.mp hi)

theorem map_range_add (a b : Nat) (g : Nat → Nat) :
    (List.range (a + b)).map g = (List.range a).map g ++ (List.range b).map (fun i => g (a + i)) := by
  rw [List.range_add, List.map_append, List.map_map]
  rfl

/-- The block loop of `simplefs_read` on a device without I/O failure: when
the byte at every position below `off + size` is the byte `f` gives, zero in an
unmapped block and the stored byte in a mapped one, the loop delivers the
`size` bytes of `f` from `off`. -/
theorem read_loop_spec (y : Buf) (off size : Nat) (f : Nat → Nat) (c : SimpleFS_Context)
    (hio : io_ok c) (he : c.errno = 0) (hsz : off + size < 4294967296)
    (hf : ∀ k t, t < 4096 → k * 4096 + t < off + size →
      f (k * 4096 + t) =
        if tree_node c.device_fd.data y (lbn_slot k) (lbn_idxs k) = 0 then 0
        else c.device_fd.data (tree_node c.device_fd.data y (lbn_slot k) (lbn_idxs k)) t) :
    ∀ (fuel : Nat) (acc : List Nat), size ≤ acc.length + fuel → acc.length ≤ size →
      acc = (List.range acc.length).map (fun i => f (off + i)) →
      read_loop y off size fuel c acc =
        .done ((List.range size).map (fun i => f (off + i))) c := by
  intro fuel
  induction fuel with
  | zero =>
    intro acc h1 h2 h3
    have e : acc.length = size := by omega
    rw [read_loop, ← e, ← h3]
  | succ fuel ih =>
    intro acc h1 h2 h3
    rw [read_loop]
    dsimp only
    by_cases hlt : ¬ acc.length < size
    · rw [if_pos hlt]
      have e : acc.length = size := by omega
      rw [← e, ← h3]
    rw [if_neg hlt]
    have hlt' : acc.length < size := not_not.mp hlt
    have hu : u32 (off + acc.length) = off + acc.length := u32_of_lt _ (by omega)
    rw [hu]
    have hk : (off + acc.length) / SIMPLEFS_BLOCK_SIZE < MAX_LOGICAL_BLOCKS := by
      unfold SIMPLEFS_BLOCK_SIZE MAX_LOGICAL_BLOCKS
      omega
    rw [map_logical_to_physical_block_io c y _ hio hk he]
    dsimp only
    have hB : SIMPLEFS_BLOCK_SIZE = 4096 := rfl
    have hpos : (off + acc.length) / 4096 * 4096 + (off + acc.length) % 4096 = off + acc.length :=
      Nat.div_add_mod' _ _
    have hob : (off + acc.length) % 4096 < 4096 := Nat.mod_lt _ (by decide)
    have hstep : ∀ i, i < min (SIMPLEFS_BLOCK_SIZE - (off + acc.length) % SIMPLEFS_BLOCK_SIZE)
        (size - acc.length) →
        f (off + (acc.length + i)) =
          if tree_node c.device_fd.data y (lbn_slot ((off + acc.length) / SIMPLEFS_BLOCK_SIZE))
              (lbn_idxs ((off + acc.length) / SIMPLEFS_BLOCK_SIZE)) = 0 then 0
          else c.device_fd.data
            (tree_node c.device_fd.data y (lbn_slot ((off + acc.length) / SIMPLEFS_BLOCK_SIZE))
              (lbn_idxs ((off + acc.length) / SIMPLEFS_BLOCK_SIZE)))
            ((off + acc.length) % SIMPLEFS_BLOCK_SIZE + i) := by
      intro i hi
      rw [hB] at hi ⊢
      have hi1 : i < 4096 - (off + acc.length) % 4096 := lt_of_lt_of_le hi (min_le_left _ _)
      have hi2 : i < size - acc.length := lt_of_lt_of_le hi (min_le_right _ _)
      have := hf ((off + acc.length) / 4096) ((off + acc.length) % 4096 + i) (by omega) (by omega)
      rw [← this]
      congr 1
      omega
    have hlen : 1 ≤ min (SIMPLEFS_BLOCK_SIZE - (off + acc.length) % SIMPLEFS_BLOCK_SIZE)
        (size - acc.length) := by
      rw [hB]
      apply le_min <;> omega
    have hle : min (SIMPLEFS_BLOCK_SIZE - (off + acc.length) % SIMPLEFS_BLOCK_SIZE)
        (size - acc.length) ≤ size - acc.length := min_le_right _ _
    by_cases hz : tree_node c.device_fd.data y (lbn_slot ((off + acc.length) / SIMPLEFS_BLOCK_SIZE))
        (lbn_idxs ((off + acc.length) / SIMPLEFS_BLOCK_SIZE)) = 0
    · rw [if_pos hz]
      have hcond : ¬ (c.errno ≠ 0 ∧ c.errno ≠ ENOENT) := fun h => h.1 he
      rw [if_neg hcond, setErrno_self c 0 he]
      apply ih
      · rw [List.length_append, List.length_replicate]
        omega
      · rw [List.length_append, List.length_replicate]
        omega
      · rw [List.length_append, List.length_replicate, map_range_add, ← h3]
        congr 1
        apply replicate_eq_map_range
        intro i hi
        rw [hstep i hi, if_pos hz]
    · rw [if_neg hz, read_block_io c hio]
      dsimp only
      apply ih
      · rw [List.length_append]
        unfold bytesOf
        rw [List.length_map, List.length_range]
        omega
      · rw [List.length_append]
        unfold bytesOf
        rw [List.length_map, List.length_range]
        omega
      · rw [List.length_append]
        unfold bytesOf
        rw [List.length_map, List.length_range, map_range_add, ← h3]
        congr 1
        apply map_range_congr
        intro i hi
        rw [hstep i hi, if_neg hz]

/-- The end of `simplefs_write` after the block loop on a file that was empty:
the inode record is written and the metadata flushed. In the state that
results, paths resolve as before the write, inode `n` reads as the record that
was written, and the blocks that were free before the write hold what the loop
left in them. -/
theorem write_finish_frame (c0 : SimpleFS_Context) (n : Nat) (inode0 : Buf) (o : Nat)
    (buf : List Nat) (ctx1 : SimpleFS_Context) (inode1 x : Buf)
    (hr : write_ready c0 n)
    (hread : (read_inode_from_disk c0 n).1 = .ok inode0)
    (hdir : S_ISDIR (i_mode inode0) = false) (hlnk : S_ISLNK (i_mode inode0) = false)
    (inv : write_inv c0 inode0 (block_bitmaps c0) o buf ctx1 inode1 buf.length)
    (hroot : ctx1.sb.s_root_inode = c0.sb.s_root_inode)
    (hxm : i_mode x = i_mode inode0) (hxu : i_uid x = i_uid inode0)
    (hxg : i_gid x = i_gid inode0) :
    (write_inode_to_disk ctx1 n x).1 = 0 ∧
    io_ok (sync_fs_metadata (write_inode_to_disk ctx1 n x).2) ∧
    (sync_fs_metadata (write_inode_to_disk ctx1 n x).2).now = c0.now ∧
    resolve_extends c0 (sync_fs_metadata (write_inode_to_disk ctx1 n x).2) ∧
    (∃ y, (read_inode_from_disk (sync_fs_metadata (write_inode_to_disk ctx1 n x).2) n).1 =
        .ok y ∧ ∀ i, i < SIMPLEFS_INODE_SIZE → y i = x i) ∧
    (∀ b, b < c0.sb.s_blocks_count → block_bit_set c0 b = false →
      (sync_fs_metadata (write_inode_to_disk ctx1 n x).2).device_fd.data b =
        ctx1.device_fd.data b) := by
  obtain ⟨_, Tn, oN, hloc, _⟩ := read_inode_from_disk_ok c0 n inode0 c0
    (read_inode_from_disk_eq c0 n inode0 hread)
  have hio1 : io_ok ctx1 := inv.ok.io
  have hloc1 : inode_location ctx1 n = .ok (Tn, oN) :=
    inode_location_layout c0 ctx1 n inv.layout _ hloc
  have hw := write_inode_to_disk_ok ctx1 n x Tn oN hio1 hloc1
  rw [hw]
  dsimp only
  generalize hc2 : ({ ctx1 with device_fd :=
    (ctx1.device_fd.put Tn (blit (ctx1.device_fd.data Tn) oN x 0 SIMPLEFS_INODE_SIZE)) } :
      SimpleFS_Context) = ctx2
  have e2d : ctx2.device_fd =
      ctx1.device_fd.put Tn (blit (ctx1.device_fd.data Tn) oN x 0 SIMPLEFS_INODE_SIZE) := by
    rw [← hc2]
  have e2s : ctx2.sb = ctx1.sb := by rw [← hc2]
  have e2g : ctx2.gdt = ctx1.gdt := by rw [← hc2]
  have e2n : ctx2.now = ctx1.now := by rw [← hc2]
  have hl12 : same_layout ctx1 ctx2 :=
    same_layout_of_eq _ _ (by rw [e2d]; rfl) (by rw [e2d]; rfl) e2s e2g e2n
  obtain ⟨s1, s2, s3, _, s5, s6, s7⟩ := sync_fs_metadata_frame ctx2
  have hl24 : same_layout ctx2 (sync_fs_metadata ctx2) := same_layout_of_eq _ _ s5 s6 s1 s2 s3
  have hl02 : same_layout c0 ctx2 := same_layout_trans _ _ _ inv.layout hl12
  have hl04 : same_layout c0 (sync_fs_metadata ctx2) := same_layout_trans _ _ _ hl02 hl24
  have hio4 : io_ok (sync_fs_metadata ctx2) := io_ok_of_layout _ _ hl04 hr.io
  have hkT := hr.table n Tn oN hloc
  -- data of the final state
  have hdata : ∀ b, ¬ sync_target c0 b → b ≠ Tn →
      (sync_fs_metadata ctx2).device_fd.data b = ctx1.device_fd.data b := by
    intro b hb hne
    rw [s7 b (fun h => hb ((sync_target_layout c0 ctx2 hl02 b).mp h)), e2d]
    exact put_data_ne _ _ _ _ hne
  have hdataT : (sync_fs_metadata ctx2).device_fd.data Tn =
      blit (ctx1.device_fd.data Tn) oN x 0 SIMPLEFS_INODE_SIZE := by
    rw [s7 Tn (fun h => hkT.2.2.2.2 ((sync_target_layout c0 ctx2 hl02 Tn).mp h)), e2d]
    exact put_data_same _ _ _
  have hkeep : ∀ b, kept_block c0 b → ctx1.device_fd.data b = c0.device_fd.data b :=
    fun b hb => inv.keep b hb.1 hb.2.1 hb.2.2.1 hb.2.2.2.1
  have hy : read_inode_from_disk (sync_fs_metadata ctx2) n =
      (.ok (blit zeroBuf 0 ((sync_fs_metadata ctx2).device_fd.data Tn) oN SIMPLEFS_INODE_SIZE),
        sync_fs_metadata ctx2) :=
    read_inode_from_disk_io _ n Tn oN hio4 (inode_location_layout c0 _ n hl04 _ hloc)
  have hyx : ∀ i, i < SIMPLEFS_INODE_SIZE →
      blit zeroBuf 0 ((sync_fs_metadata ctx2).device_fd.data Tn) oN SIMPLEFS_INODE_SIZE i =
        x i := by
    intro i hi
    rw [hdataT]
    unfold blit
    rw [if_pos ⟨Nat.zero_le _, by omega⟩, if_pos ⟨by omega, by omega⟩]
    congr 1
    omega
  have hroot4 : (sync_fs_metadata ctx2).sb.s_root_inode = c0.sb.s_root_inode := by
    rw [s1, e2s, hroot]
  refine ⟨rfl, hio4, hl04.2.2.2.2.2.2.2.2, ?_, ⟨_, by rw [hy], hyx⟩, ?_⟩
  · apply resolve_extends_of_frame c0 (sync_fs_metadata ctx2) n hr.io hl04 hroot4
    · intro m T oT hm hlm i hi
      have hk := hr.table m T oT hlm
      by_cases hT : T = Tn
      · subst hT
        rw [hdataT, ← hkeep T hk]
        unfold blit
        rw [if_neg]
        have := hr.slots m T oT oN hm hlm hloc
        omega
      · rw [hdata T hk.2.2.2.2 hT, hkeep T hk]
    · intro a ha
      rw [hread] at ha
      injection ha with ha
      subst ha
      refine ⟨hdir, hlnk, _, by rw [hy], ?_, ?_, ?_⟩
      · rw [← hxm]
        exact getLE_congr _ _ _ _ (fun i _ h2 => hyx i (by unfold SIMPLEFS_INODE_SIZE; omega))
      · rw [← hxu]
        exact getLE_congr _ _ _ _ (fun i _ h2 => hyx i (by unfold SIMPLEFS_INODE_SIZE; omega))
      · rw [← hxg]
        unfold i_gid
        exact getLE_congr _ _ _ _ (fun i _ h2 => hyx i (by unfold SIMPLEFS_INODE_SIZE; omega))
    · intro m a hm ha b hb
      obtain ⟨hk, hne⟩ := hr.reads m a hm ha b hb
      rw [hdata b hk.2.2.2.2 (hne Tn oN hloc), hkeep b hk]
  · intro b hb hfree
    apply hdata
    · intro hs
      have := hr.flush b hs hb
      rw [hfree] at this
      exact Bool.noConfusion this
    · intro e
      subst e
      have := hkT.2.2.1
      rw [hfree] at this
      exact Bool.noConfusion this

theorem not_lnk_of_reg (m : Nat) (h : S_ISREG m = true) : S_ISLNK m = false := by
  unfold S_ISREG at h
  unfold S_ISLNK
  have h1 := of_decide_eq_true h
  rw [h1]
  rfl

/-- Setting the size and the two time stamps leaves the other fields. -/
theorem stamped_fields (a : Buf) (v t1 t2 : Nat) :
    i_mode (set_i_mtime (set_i_ctime (set_i_size a v) t1) t2) = i_mode a ∧
    i_uid (set_i_mtime (set_i_ctime (set_i_size a v) t1) t2) = i_uid a ∧
    i_gid (set_i_mtime (set_i_ctime (set_i_size a v) t1) t2) = i_gid a ∧
    (∀ t, i_block (set_i_mtime (set_i_ctime (set_i_size a v) t1) t2) t = i_block a t) ∧
    (v < 4294967296 → i_size (set_i_mtime (set_i_ctime (set_i_size a v) t1) t2) = v) := by
  have hx : ∀ i, i < 4 ∨ 20 ≤ i →
      set_i_mtime (set_i_ctime (set_i_size a v) t1) t2 i = a i := by
    intro i hi
    unfold set_i_mtime set_i_ctime set_i_size
    rw [setLE_outside _ _ _ _ _ (by omega), setLE_outside _ _ _ _ _ (by omega),
      setLE_outside _ _ _ _ _ (by omega)]
  refine ⟨?_, ?_, ?_, ?_, ?_⟩
  · exact getLE_congr _ _ _ _ (fun i _ h2 => hx i (by omega))
  · exact getLE_congr _ _ _ _ (fun i _ h2 => hx i (by omega))
  · unfold i_gid
    exact getLE_congr _ _ _ _ (fun i h1 _ => hx i (by omega))
  · intro t
    rw [i_block_set_i_mtime, i_block_set_i_ctime, i_block_set_i_size]
  · intro hv
    rw [i_size_set_i_mtime, i_size_set_i_ctime, i_size_set_i_size _ _ hv]

/-- Two inode records that agree on their 128 bytes have the same fields. -/
theorem record_fields (y x : Buf) (h : ∀ i, i < SIMPLEFS_INODE_SIZE → y i = x i) :
    i_mode y = i_mode x ∧ i_uid y = i_uid x ∧ i_gid y = i_gid x ∧ i_size y = i_size x ∧
    ∀ t, t < SIMPLEFS_INODE_BLOCK_PTRS → i_block y t = i_block x t := by
  have h' : ∀ i, i < 128 → y i = x i := h
  refine ⟨?_, ?_, ?_, ?_, ?_⟩
  · exact getLE_congr _ _ _ _ (fun i _ h2 => h' i (by omega))
  · exact getLE_congr _ _ _ _ (fun i _ h2 => h' i (by omega))
  · unfold i_gid
    exact getLE_congr _ _ _ _ (fun i _ h2 => h' i (by omega))
  · unfold i_size
    exact getLE_congr _ _ _ _ (fun i _ h2 => h' i (by omega))
  · intro t ht
    unfold SIMPLEFS_INODE_BLOCK_PTRS at ht
    unfold i_block
    exact getLE_congr _ _ _ _ (fun i _ h2 => h' i (by omega))

theorem resolve_extends_refl (c : SimpleFS_Context) : resolve_extends c c :=
  ⟨rfl, fun _ a h => ⟨a, h, ⟨rfl, rfl, rfl, fun _ _ _ => rfl, fun _ => rfl⟩⟩⟩

theorem resolve_extends_setErrno (c c' : SimpleFS_Context) (e : Nat)
    (h : resolve_extends c c') : resolve_extends c (setErrno c' e) := by
  refine ⟨h.1, fun m a ha => ?_⟩
  obtain ⟨a', h1, h2⟩ := h.2 m a ha
  refine ⟨a', ?_, h2⟩
  rw [(read_inode_from_disk_same c' (setErrno c' e) m (same_fs_setErrno c' e)).1]
  exact h1

theorem write_ready_setErrno (c : SimpleFS_Context) (n e : Nat) (h : write_ready c n) :
    write_ready (setErrno c e) n := by
  have hl : same_layout (setErrno c e) c := same_layout_of_eq _ _ rfl rfl rfl rfl rfl
  have hrd : ∀ m, (read_inode_from_disk (setErrno c e) m).1 = (read_inode_from_disk c m).1 :=
    fun m => (read_inode_from_disk_same c (setErrno c e) m (same_fs_setErrno c e)).1
  exact
    { io := h.io
      layout := h.layout
      counts := h.counts
      bitmaps := h.bitmaps
      flush := h.flush
      table := fun m T o hm => h.table m T o (inode_location_layout _ c m hl _ hm)
      slots := fun m T o o' hm h1 h2 =>
        h.slots m T o o' hm (inode_location_layout _ c m hl _ h1)
          (inode_location_layout _ c n hl _ h2)
      reads := fun m a hm ha b hb =>
        ⟨(h.reads m a hm (by rw [← hrd m]; exact ha) b hb).1,
          fun T o hT => (h.reads m a hm (by rw [← hrd m]; exact ha) b hb).2 T o
            (inode_location_layout _ c n hl _ hT)⟩ }

theorem tree_node_frame_slots (data data' : Nat → Buf) (inode inode' : Buf)
    (hslots : ∀ t, t < SIMPLEFS_INODE_BLOCK_PTRS → i_block inode' t = i_block inode t)
    (hsame : ∀ s idxs, tree_path_ok s idxs → idxs.length < tree_depth s →
      tree_node data inode s idxs ≠ 0 →
      data' (tree_node data inode s idxs) = data (tree_node data inode s idxs)) :
    ∀ s idxs, tree_path_ok s idxs →
      tree_node data' inode' s idxs = tree_node data inode s idxs := by
  intro s idxs hok
  apply tree_node_congr data data' inode inode' s idxs (hslots s hok.1)
  intro a j r e hq
  have hok_a : tree_path_ok s a := by
    rw [e] at hok
    exact tree_path_ok_prefix s a _ hok
  have hlen : a.length < tree_depth s := by
    have := hok.2.1
    rw [e] at this
    simp at this
    omega
  rw [hsame s a hok_a hlen hq]

/-- The bytes of a file that was empty before `buf` was written at offset `o`:
`o` zero bytes, then `buf`. -/
theorem file_byte_list (o : Nat) (buf : List Nat) :
    (List.range (o + buf.length)).map (fun i => file_byte o buf buf.length (0 + i)) =
      List.replicate o 0 ++ buf := by
  rw [map_range_add]
  congr 1
  · symm
    apply replicate_eq_map_range
    intro i hi
    unfold file_byte
    rw [if_neg (by omega)]
  · apply List.ext_getElem
    · simp
    · intro i h1 h2
      simp only [List.getElem_map, List.getElem_range]
      unfold file_byte
      rw [if_pos (by omega)]
      have e : 0 + (o + i) - o = i := by omega
      rw [e, List.getD_eq_getElem _ _ h2]

theorem check_access_read (context : SimpleFS_Context) (caller : fuse_context) (inode : Buf)
    (h : caller.uid = 0 ∨ (selected_triad caller inode).testBit 2 = true) :
    (check_access context caller inode R_OK).1 = 0 := by
  apply (check_access_iff context caller inode R_OK).1.mpr
  rcases h with h | h
  · exact Or.inl h
  · right
    intro k hk hb
    interval_cases k
    · exact absurd hb (by decide)
    · exact absurd hb (by decide)
    · exact h

/-- The steps that open `simplefs_write`, `simplefs_read` and the operations
like them, in a state that extends the state `c0` in which the path resolves to
`n`: the resolution and the read of the inode leave the context as it is. -/
theorem open_extends (c0 c : SimpleFS_Context) (caller : fuse_context) (path : List Nat)
    (n : Nat) (hx : resolve_extends c0 c)
    (ht : (path_to_inode_num c0 caller path).1 = n) (hn : n ≠ 0) :
    path_to_inode_num c caller path = (n, c) := by
  have h := (resolve_path_recursive_extends caller true 0 c0 c path hx
    (by
      have ht2 : (resolve_path_recursive c0 caller path 0 true).1 = n := ht
      rw [ht2]
      exact hn)).2
  have ht2 : (resolve_path_recursive c0 caller path 0 true).1 = n := ht
  rw [ht2] at h
  exact h

/-- The run of `simplefs_write` in which the block loop stores all of `buf`
in a file that was empty. -/
theorem simplefs_write_done (context : SimpleFS_Context) (caller : fuse_context)
    (path : List Nat) (buf : List Nat) (o n : Nat) (inode inode1 : Buf) (ctx1 : SimpleFS_Context)
    (ht : (path_to_inode_num (setErrno context 0) caller path).1 = n) (hn : n ≠ 0)
    (hi : (read_inode_from_disk (setErrno context 0) n).1 = .ok inode)
    (hdir : S_ISDIR (i_mode inode) = false)
    (hacc : caller.uid = 0 ∨ (selected_triad caller inode).testBit 1 = true)
    (hloop : write_loop n buf o buf.length (setErrno context 0) inode zeroBuf 0 =
      .done buf.length inode1 ctx1)
    (hsz : o + buf.length > i_size inode1)
    (hw : (write_inode_to_disk ctx1 n (set_i_mtime (set_i_ctime
      (set_i_size inode1 (o + buf.length)) ctx1.now) ctx1.now)).1 = 0) :
    simplefs_write context caller path buf o =
      (toInt32 buf.length, sync_fs_metadata (write_inode_to_disk ctx1 n (set_i_mtime
        (set_i_ctime (set_i_size inode1 (o + buf.length)) ctx1.now) ctx1.now)).2) := by
  unfold simplefs_write
  dsimp only
  rw [open_extends _ _ caller path n (resolve_extends_refl _) ht hn]
  dsimp only
  rw [if_neg hn, read_inode_from_disk_eq _ n inode hi]
  dsimp only
  rw [hdir, if_neg Bool.false_ne_true, (check_access_write _ caller inode).1 hacc]
  dsimp only
  rw [if_neg (not_not.mpr rfl), hloop]
  dsimp only
  rw [if_pos hsz, hw, if_neg (fun h => h.1 rfl)]

/-- C2 (`simplefs_write`, `src/fuse_ops.cpp` 1183-1246, and `simplefs_read`,
`src/fuse_ops.cpp` 1128-1181). For a path that resolves to a regular file `n`
that is empty (size 0, no block pointer set) and that the caller may read and
write, an offset `o` and a non-empty byte string `buf` with
`o + |buf| < 2^32`, in a state that is ready for the write (`write_ready`: no
I/O failure, sound layout, the filesystem's own blocks marked in use): when the
block loop of `simplefs_write(path, buf, o)` stores all of `buf` (no allocation
fails), the write returns `|buf|` as an `int`, and `simplefs_read(path,
o + |buf|, 0)` in the state after the write stores `o` zero bytes followed by
`buf` in the caller's buffer and returns their number as an `int`. The zero
bytes come from unmapped logical blocks (direct or under an unmapped indirect
pointer) and from the unwritten part of the mapped blocks. -/
theorem C2_write_then_read (context : SimpleFS_Context) (caller : fuse_context)
    (path : List Nat) (buf : List Nat) (o n : Nat) (inode : Buf)
    (ht : (path_to_inode_num context caller path).1 = n) (hn : n ≠ 0)
    (hi : (read_inode_from_disk context n).1 = .ok inode)
    (hreg : S_ISREG (i_mode inode) = true)
    (hsize : i_size inode = 0)
    (hslots : ∀ s, s < SIMPLEFS_INODE_BLOCK_PTRS → i_block inode s = 0)
    (haccw : caller.uid = 0 ∨ (selected_triad caller inode).testBit 1 = true)
    (haccr : caller.uid = 0 ∨ (selected_triad caller inode).testBit 2 = true)
    (hbuf : buf ≠ []) (ho : o + buf.length < 4294967296)
    (hready : write_ready context n)
    (hall : (write_loop n buf o buf.length (setErrno context 0) inode zeroBuf 0).written =
      buf.length) :
    (simplefs_write context caller path buf o).1 = toInt32 buf.length ∧
    (simplefs_read (simplefs_write context caller path buf o).2 caller path
      (o + buf.length) 0).2.1 = List.replicate o 0 ++ buf ∧
    (simplefs_read (simplefs_write context caller path buf o).2 caller path
      (o + buf.length) 0).1 = toInt32 (o + buf.length) := by
  have hlen : 0 < buf.length := List.length_pos.mpr hbuf
  have hr0 := write_ready_setErrno context n 0 hready
  have ht0 : (path_to_inode_num (setErrno context 0) caller path).1 = n := by
    rw [← ht]
    exact (resolve_path_recursive_same caller true 0 context (setErrno context 0) path
      (same_fs_setErrno context 0)).1
  have hi0 : (read_inode_from_disk (setErrno context 0) n).1 = .ok inode := by
    rw [(read_inode_from_disk_same context (setErrno context 0) n (same_fs_setErrno context 0)).1]
    exact hi
  have hdir := not_dir_of_reg _ hreg
  have hlnk := not_lnk_of_reg _ hreg
  -- the block loop
  obtain ⟨inode1, ctx1, hloop⟩ : ∃ inode1 ctx1,
      write_loop n buf o buf.length (setErrno context 0) inode zeroBuf 0 =
        .done buf.length inode1 ctx1 := by
    generalize write_loop n buf o buf.length (setErrno context 0) inode zeroBuf 0 = r at hall
    cases r with
    | done T i1 c1 =>
      have e : T = buf.length := hall
      subst e
      exact ⟨i1, c1, rfl⟩
    | fail e c1 =>
      have e0 : 0 = buf.length := hall
      omega
  have inv0 := write_inv_init (setErrno context 0) inode (block_bitmaps (setErrno context 0)) o
    buf hr0.io hr0.layout hr0.counts (fun g hg => ⟨g, hg, rfl⟩) hr0.bitmaps hslots
  have inv := (write_loop_inv (setErrno context 0) inode (block_bitmaps (setErrno context 0)) o
    buf n ho buf.length (setErrno context 0) inode zeroBuf 0 inv0 (Nat.zero_le _) (Or.inl rfl)
    _ _ _ hloop).2 rfl
  have hroot := write_loop_root n buf o buf.length (setErrno context 0) inode zeroBuf 0
    _ _ _ hloop
  obtain ⟨f1, f2, f3, f4⟩ := inode_head_eq_fields _ _ inv.head
  obtain ⟨x1, x2, x3, x4, x5⟩ := stamped_fields inode1 (o + buf.length) ctx1.now ctx1.now
  generalize hx : set_i_mtime (set_i_ctime (set_i_size inode1 (o + buf.length)) ctx1.now)
    ctx1.now = x at x1 x2 x3 x4 x5
  obtain ⟨w1, io4, _, hext, ⟨y, hy, hyx⟩, hfree⟩ := write_finish_frame (setErrno context 0) n
    inode o buf ctx1 inode1 x hr0 hi0 hdir hlnk inv hroot (x1.trans f1) (x2.trans f2)
    (x3.trans f3)
  have hwr : simplefs_write context caller path buf o =
      (toInt32 buf.length, sync_fs_metadata (write_inode_to_disk ctx1 n x).2) := by
    rw [← hx]
    apply simplefs_write_done context caller path buf o n inode inode1 ctx1 ht0 hn hi0 hdir haccw
      hloop
    · rw [f4, hsize]
      omega
    · rw [hx]
      exact w1
  rw [hwr]
  dsimp only
  generalize sync_fs_metadata (write_inode_to_disk ctx1 n x).2 = c4 at io4 hext hy hfree
  refine ⟨rfl, ?_⟩
  -- the read
  have hext5 := resolve_extends_setErrno _ c4 0 hext
  have hy5 : (read_inode_from_disk (setErrno c4 0) n).1 = .ok y := by
    rw [(read_inode_from_disk_same c4 (setErrno c4 0) n (same_fs_setErrno c4 0)).1]
    exact hy
  obtain ⟨y1, y2, y3, y4, y5⟩ := record_fields y x hyx
  have hmode : i_mode y = i_mode inode := y1.trans (x1.trans f1)
  have huid : i_uid y = i_uid inode := y2.trans (x2.trans f2)
  have hgid : i_gid y = i_gid inode := y3.trans (x3.trans f3)
  have hysz : i_size y = o + buf.length := y4.trans (x5 ho)
  have hca := (check_access_view (setErrno context 0) (setErrno c4 0) caller inode y R_OK
    hmode huid hgid (check_access_read _ caller inode haccr)).2
  have io5 : io_ok (setErrno c4 0) := io4
  -- the tree of the inode that is read is the tree the loop left
  have hnode : ∀ s idxs, tree_path_ok s idxs →
      tree_node (setErrno c4 0).device_fd.data y s idxs =
        tree_node ctx1.device_fd.data inode1 s idxs := by
    apply tree_node_frame_slots ctx1.device_fd.data (setErrno c4 0).device_fd.data inode1 y
    · intro t ht
      rw [y5 t ht, x4 t]
    · intro s idxs hp _ hne
      obtain ⟨n1, _, _⟩ := inv.ok.nodes s idxs hp hne
      rw [inv.layout.2.2.1] at n1
      exact hfree _ n1 (inv.fresh s idxs hp hne)
  have hf : ∀ k t, t < 4096 → k * 4096 + t < 0 + (o + buf.length) →
      file_byte o buf buf.length (k * 4096 + t) =
        if tree_node (setErrno c4 0).device_fd.data y (lbn_slot k) (lbn_idxs k) = 0 then 0
        else (setErrno c4 0).device_fd.data
          (tree_node (setErrno c4 0).device_fd.data y (lbn_slot k) (lbn_idxs k)) t := by
    intro k t ht hkt
    have hk : k < MAX_LOGICAL_BLOCKS := by
      unfold MAX_LOGICAL_BLOCKS
      omega
    rw [hnode _ _ (lbn_path_ok k hk).1]
    by_cases hz : tree_node ctx1.device_fd.data inode1 (lbn_slot k) (lbn_idxs k) = 0
    · rw [if_pos hz]
      have hm := (inv.mapped k hk).not.mp (not_not.mpr hz)
      unfold file_byte
      rw [if_neg]
      intro hc
      apply hm
      refine ⟨by omega, ?_, by omega⟩
      rw [Nat.div_le_iff_le_mul_add_pred (by decide)]
      omega
    · rw [if_neg hz]
      obtain ⟨n1, _, _⟩ := inv.ok.nodes _ _ (lbn_path_ok k hk).1 hz
      rw [inv.layout.2.2.1] at n1
      have hd : (setErrno c4 0).device_fd.data
          (tree_node ctx1.device_fd.data inode1 (lbn_slot k) (lbn_idxs k)) =
          ctx1.device_fd.data (tree_node ctx1.device_fd.data inode1 (lbn_slot k) (lbn_idxs k)) :=
        hfree _ n1 (inv.fresh _ _ (lbn_path_ok k hk).1 hz)
      rw [hd, inv.content k hk hz t ht]
  have hrl := read_loop_spec y 0 (o + buf.length) (file_byte o buf buf.length)
    (setErrno c4 0) io5 rfl (by omega) hf (o + buf.length) [] (by simp) (Nat.zero_le _) rfl
  rw [file_byte_list] at hrl
  have hrd : simplefs_read c4 caller path (o + buf.length) 0 =
      (toInt32 (List.replicate o 0 ++ buf).length, List.replicate o 0 ++ buf,
        (write_inode_to_disk (setErrno c4 0) n (set_i_atime y (setErrno c4 0).now)).2) := by
    unfold simplefs_read
    dsimp only
    rw [open_extends _ _ caller path n hext5 ht0 hn]
    dsimp only
    rw [if_neg hn, read_inode_from_disk_eq _ n y hy5]
    dsimp only
    rw [hmode, hdir, if_neg Bool.false_ne_true, hca]
    dsimp only
    rw [if_neg (not_not.mpr rfl), hysz, if_neg (by omega), if_neg (by omega), hrl]
  rw [hrd]
  dsimp only
  refine ⟨rfl, ?_⟩
  rw [List.length_append, List.length_replicate]

theorem ctxDir_locations (m T o : Nat) (h : inode_location ctxDir m = .ok (T, o)) :
    1 ≤ m ∧ m ≤ 32 ∧ T = 3 ∧ o = (m - 1) * 128 := by
  have hm : 1 ≤ m ∧ m ≤ 32 := by
    by_contra hc
    unfold inode_location at h
    have e : ctxDir.sb.s_inodes_count = 32 := rfl
    rw [if_pos (by rw [e]; omega)] at h
    exact Except.noConfusion h
  obtain ⟨h1, h2⟩ := hm
  have key : ∀ k, k < 33 → 1 ≤ k →
      (inode_location ctxDir k).toOption = some (3, (k - 1) * 128) := by decide!
  have hk := key m (by omega) h1
  rw [h] at hk
  injection hk with hk
  injection hk with e1 e2
  exact ⟨h1, h2, e1, e2⟩

theorem ctxDir_sync_targets (b : Nat) (h : sync_target ctxDir b) : b = 1 ∨ b = 2 := by
  have hG : (u32 (ctxDir.gdt.length * 32) + SIMPLEFS_BLOCK_SIZE - 1) / SIMPLEFS_BLOCK_SIZE = 1 := by
    decide
  have hlen : ctxDir.gdt.length = 1 := rfl
  unfold sync_target at h
  rw [hG, hlen] at h
  rcases h with h | ⟨i, hi, h⟩ | ⟨grp, h1, h2, _⟩
  · exact Or.inl h
  · have : i = 0 := by omega
    subst this
    exact Or.inr h
  · omega

theorem ctxDir_bitmaps (b : Nat) (h : block_bitmaps ctxDir b) : b = 1 := by
  obtain ⟨g, hg, hb⟩ := h
  have hlen : ctxDir.gdt.length = 1 := rfl
  have : g = 0 := by omega
  subst this
  exact hb

theorem ctxDir_kept (b : Nat) (h : b = 3 ∨ b = 5 ∨ b = 6 ∨ b = 7) : kept_block ctxDir b := by
  have h1 : b ≠ 0 := by omega
  have h2 : b < ctxDir.sb.s_blocks_count := by
    have : ctxDir.sb.s_blocks_count = 16 := rfl
    omega
  have h3 : block_bit_set ctxDir b = true := by
    rcases h with h | h | h | h <;> subst h <;> decide!
  refine ⟨h1, h2, h3, ?_, ?_⟩
  · intro hb
    have := ctxDir_bitmaps b hb
    omega
  · intro hb
    have := ctxDir_sync_targets b hb
    omega

/-- What path resolution reads for the inodes of `ctxDir`: a directory has
one block, which is block 5, 6 or 7, and a symlink has its target inline. -/
theorem ctxDir_inodes : ∀ m, m < 33 →
    (S_ISDIR (i_mode (inode_of ctxDir m)) = false ∨
      ((∀ s, s < 15 → s ≠ 0 → i_block (inode_of ctxDir m) s = 0) ∧
        (i_block (inode_of ctxDir m) 0 = 5 ∨ i_block (inode_of ctxDir m) 0 = 6 ∨
          i_block (inode_of ctxDir m) 0 = 7))) ∧
    (S_ISLNK (i_mode (inode_of ctxDir m)) = false ∨ i_blocks (inode_of ctxDir m) = 0) := by
  decide!

theorem inode_of_eq (c : SimpleFS_Context) (m : Nat) (a : Buf)
    (h : (read_inode_from_disk c m).1 = .ok a) : inode_of c m = a := by
  unfold inode_of
  rw [h]

/-- The filesystem `ctxDir` is ready for a write to the file `/f`. -/
theorem ctxDir_write_ready : write_ready ctxDir 12 := by
  refine
    { io := ctxDir_io
      layout := by decide!
      counts := by decide!
      bitmaps := ?_
      flush := ?_
      table := ?_
      slots := ?_
      reads := ?_ }
  · intro b hb
    have := ctxDir_bitmaps b hb
    subst this
    exact ⟨by decide!, by decide!⟩
  · intro b hb _
    rcases ctxDir_sync_targets b hb with e | e <;> subst e <;> decide!
  · intro m T o h
    obtain ⟨_, _, e, _⟩ := ctxDir_locations m T o h
    exact ctxDir_kept T (Or.inl e)
  · intro m T o o' hm h1 h2
    obtain ⟨_, _, _, e1⟩ := ctxDir_locations m T o h1
    obtain ⟨_, _, _, e2⟩ := ctxDir_locations 12 T o' h2
    unfold SIMPLEFS_INODE_SIZE
    omega
  · intro m a hm ha b hb
    obtain ⟨_, T, o, hloc, _⟩ := read_inode_from_disk_ok ctxDir m a ctxDir
      (read_inode_from_disk_eq ctxDir m a ha)
    obtain ⟨_, hle, _, _⟩ := ctxDir_locations m T o hloc
    obtain ⟨hd, hl⟩ := ctxDir_inodes m (by omega)
    rw [inode_of_eq ctxDir m a ha] at hd hl
    have hb567 : b = 5 ∨ b = 6 ∨ b = 7 := by
      obtain ⟨hne, hcase | hcase⟩ := hb
      · obtain ⟨hdir, s, idxs, hp, hnode⟩ := hcase
        rcases hd with hd | ⟨hrest, h0⟩
        · rw [hd] at hdir
          exact Bool.noConfusion hdir
        · rw [← hnode] at hne
          obtain ⟨e1, e2⟩ := one_block_tree ctxDir.device_fd.data a hrest s idxs hp hne
          subst e1 e2
          rw [← hnode]
          exact h0
      · obtain ⟨hlnk, hbl, _⟩ := hcase
        rcases hl with hl | hl
        · rw [hl] at hlnk
          exact Bool.noConfusion hlnk
        · exact absurd hl hbl
    refine ⟨ctxDir_kept b (Or.inr hb567), ?_⟩
    intro T' o' h12
    obtain ⟨_, _, e, _⟩ := ctxDir_locations 12 T' o' h12
    omega

/-- Witness for C2 on `ctxDir`: the empty file `/f` (inode 12), uid 0, the
byte 88 written at offset 100000 (logical block 24, under the single indirect
pointer); the read of 100001 bytes from offset 0 stores 100000 zero bytes and
the byte 88. -/
theorem C2_write_then_read_witness :
    ((path_to_inode_num ctxDir rootCaller PATH_F).1 = 12 ∧
      S_ISREG (i_mode (inode_of ctxDir 12)) = true ∧
      i_size (inode_of ctxDir 12) = 0 ∧
      write_ready ctxDir 12 ∧
      (write_loop 12 [88] 100000 [88].length (setErrno ctxDir 0) (inode_of ctxDir 12)
        zeroBuf 0).written = [88].length) ∧
    (simplefs_write ctxDir rootCaller PATH_F [88] 100000).1 = toInt32 [88].length ∧
    (simplefs_read (simplefs_write ctxDir rootCaller PATH_F [88] 100000).2 rootCaller PATH_F
      (100000 + [88].length) 0).2.1 = List.replicate 100000 0 ++ [88] ∧
    (simplefs_read (simplefs_write ctxDir rootCaller PATH_F [88] 100000).2 rootCaller PATH_F
      (100000 + [88].length) 0).1 = toInt32 (100000 + [88].length) :=
  ⟨⟨by decide!, by decide!, by decide!, ctxDir_write_ready, by decide!⟩,
    C2_write_then_read ctxDir rootCaller PATH_F [88] 100000 12 (inode_of ctxDir 12)
      (by decide!) (by decide) (inode_of_spec ctxDir 12 (by decide!)) (by decide!) (by decide!)
      (by decide!) (Or.inl rfl) (Or.inl rfl) (by decide) (by decide) ctxDir_write_ready
      (by decide!)⟩

/-- The block loop of `simplefs_write` ends with at most `|buf|` bytes
written, and an error it returns with is not positive. -/
theorem write_loop_bounds (num : Nat) (buf : List Nat) (o : Nat) :
    ∀ (fuel : Nat) (ctx : SimpleFS_Context) (inode rwb : Buf) (total : Nat),
      total ≤ buf.length →
      (∀ T inode' ctx', write_loop num buf o fuel ctx inode rwb total = .done T inode' ctx' →
        T ≤ buf.length) ∧
      (∀ e ctx', write_loop num buf o fuel ctx inode rwb total = .fail e ctx' → e ≤ 0) := by
  intro fuel
  induction fuel with
  | zero =>
    intro ctx inode rwb total hle
    constructor
    · intro T inode' ctx' h
      rw [write_loop] at h
      injection h with h1 h2 h3
      omega
    · intro e ctx' h
      rw [write_loop] at h
      exact WriteLoop.noConfusion h
  | succ fuel ih =>
    intro ctx inode rwb total hle
    have hE : (-( EIO : Int)) ≤ 0 := by decide
    have hmin : total < buf.length →
        total + min (SIMPLEFS_BLOCK_SIZE - u32 (o + total) % SIMPLEFS_BLOCK_SIZE)
          (buf.length - total) ≤ buf.length := by
      intro hlt
      have := min_le_right (SIMPLEFS_BLOCK_SIZE - u32 (o + total) % SIMPLEFS_BLOCK_SIZE)
        (buf.length - total)
      omega
    constructor
    · intro T inode' ctx' h
      rw [write_loop] at h
      dsimp only at h
      generalize allocate_block_for_write ctx inode num
        (u32 (o + total) / SIMPLEFS_BLOCK_SIZE) = al at h
      obtain ⟨b, fl, inode1, ctx1⟩ := al
      dsimp only at h
      split_ifs at h with c1
      all_goals first
        | (injection h with h1 h2 h3; omega)
        | exact WriteLoop.noConfusion h
        | skip
      all_goals
        have hlt : total < buf.length := c1
        split at h
        · try split_ifs at h
          all_goals first
            | (injection h with h1 h2 h3; omega)
            | exact WriteLoop.noConfusion h
        · split at h
          · try split_ifs at h
            all_goals first
              | (injection h with h1 h2 h3; omega)
              | exact WriteLoop.noConfusion h
          · exact (ih _ _ _ _ (hmin hlt)).1 _ _ _ h
    · intro e ctx' h
      rw [write_loop] at h
      dsimp only at h
      generalize allocate_block_for_write ctx inode num
        (u32 (o + total) / SIMPLEFS_BLOCK_SIZE) = al at h
      obtain ⟨b, fl, inode1, ctx1⟩ := al
      dsimp only at h
      split_ifs at h with c1
      all_goals first
        | (injection h with h1 h2; rw [← h1]; omega)
        | exact WriteLoop.noConfusion h
        | skip
      all_goals
        have hlt : total < buf.length := c1
        split at h
        · try split_ifs at h
          all_goals first
            | (injection h with h1 h2; rw [← h1]; exact hE)
            | exact WriteLoop.noConfusion h
        · split at h
          · try split_ifs at h
            all_goals first
              | (injection h with h1 h2; rw [← h1]; exact hE)
              | exact WriteLoop.noConfusion h
          · exact (ih _ _ _ _ (hmin hlt)).2 _ _ h

/-- A call of `simplefs_write` on a regular file the caller may write that
returns `|buf|`, for a non-empty `buf` of fewer than `2^31` bytes, is a call in
which the block loop stores all of `buf`. -/
theorem write_result_stores_all (context : SimpleFS_Context) (caller : fuse_context)
    (path : List Nat) (buf : List Nat) (o n : Nat) (inode : Buf)
    (ht : (path_to_inode_num context caller path).1 = n) (hn : n ≠ 0)
    (hi : (read_inode_from_disk context n).1 = .ok inode)
    (hreg : S_ISREG (i_mode inode) = true)
    (haccw : caller.uid = 0 ∨ (selected_triad caller inode).testBit 1 = true)
    (hbuf : buf ≠ []) (hlen : buf.length < 2147483648)
    (hres : (simplefs_write context caller path buf o).1 = (buf.length : Int)) :
    (write_loop n buf o buf.length (setErrno context 0) inode zeroBuf 0).written =
      buf.length := by
  have hpos : 0 < buf.length := List.length_pos.mpr hbuf
  have ht0 : (path_to_inode_num (setErrno context 0) caller path).1 = n := by
    rw [← ht]
    exact (resolve_path_recursive_same caller true 0 context (setErrno context 0) path
      (same_fs_setErrno context 0)).1
  have hi0 : (read_inode_from_disk (setErrno context 0) n).1 = .ok inode := by
    rw [(read_inode_from_disk_same context (setErrno context 0) n (same_fs_setErrno context 0)).1]
    exact hi
  have hb := write_loop_bounds n buf o buf.length (setErrno context 0) inode zeroBuf 0
    (Nat.zero_le _)
  unfold simplefs_write at hres
  dsimp only at hres
  rw [open_extends _ _ caller path n (resolve_extends_refl _) ht0 hn] at hres
  dsimp only at hres
  rw [if_neg hn, read_inode_from_disk_eq _ n inode hi0] at hres
  dsimp only at hres
  rw [not_dir_of_reg _ hreg, if_neg Bool.false_ne_true,
    (check_access_write _ caller inode).1 haccw] at hres
  dsimp only at hres
  rw [if_neg (not_not.mpr rfl)] at hres
  cases hl : write_loop n buf o buf.length (setErrno context 0) inode zeroBuf 0 with
  | fail e c =>
    rw [hl] at hres
    dsimp only at hres
    have := hb.2 e c hl
    omega
  | done T inode1 ctx1 =>
    rw [hl] at hres
    dsimp only at hres
    have hT := hb.1 T inode1 ctx1 hl
    show T = buf.length
    split_ifs at hres
    all_goals first
      | (dsimp only at hres
         have hE : (-( EIO : Int)) < 0 := by decide
         omega)
      | (dsimp only at hres
         unfold toInt32 at hres
         rw [Nat.mod_eq_of_lt (by omega), if_pos (by omega)] at hres
         omega)

/-! ## The bitmap primitives as a specification -/

/-- C31 (`set_bitmap_bit`, `clear_bitmap_bit`, `is_bitmap_bit_set`,
`src/utils.cpp` 5-28). For every byte vector `m` of `size` bytes and every
index `i`: the query at `i` is true iff `i ≥ 8·size` or bit `i mod 8` (counted
from the least significant bit) of byte `i / 8` is 1; for `i < 8·size`, after
`set_bitmap_bit` the query at `i` is true, after `clear_bitmap_bit` it is
false, and after either the query at every other index is what it was; for
`i ≥ 8·size` both leave `m` as it is. -/
theorem C31_bitmap_primitives (m : Buf) (size i : Nat) :
    (is_bitmap_bit_set m size i = true ↔
      (size * 8 ≤ i ∨ (m (i / 8) % 256).testBit (i % 8) = true)) ∧
    (i < size * 8 →
      is_bitmap_bit_set (set_bitmap_bit m size i) size i = true ∧
      is_bitmap_bit_set (clear_bitmap_bit m size i) size i = false ∧
      ∀ j, j ≠ i →
        is_bitmap_bit_set (set_bitmap_bit m size i) size j = is_bitmap_bit_set m size j ∧
        is_bitmap_bit_set (clear_bitmap_bit m size i) size j = is_bitmap_bit_set m size j) ∧
    (size * 8 ≤ i → set_bitmap_bit m size i = m ∧ clear_bitmap_bit m size i = m) := by
  refine ⟨?_, ?_, ?_⟩
  · rw [is_bitmap_bit_set_eq]
    by_cases h : i < size * 8
    · rw [if_pos h]
      constructor
      · intro hb
        exact Or.inr hb
      · rintro (hc | hb)
        · omega
        · exact hb
    · rw [if_neg h]
      exact ⟨fun _ => Or.inl (by omega), fun _ => rfl⟩
  · intro hi
    refine ⟨?_, ?_, ?_⟩
    · rw [is_bitmap_bit_set_set m size i i hi]
      simp
    · rw [is_bitmap_bit_set_clear m size i i hi hi]
      simp
    · intro j hj
      constructor
      · rw [is_bitmap_bit_set_set m size i j hi]
        simp [hj]
      · by_cases hjs : j < size * 8
        · rw [is_bitmap_bit_set_clear m size i j hi hjs]
          simp [hj]
        · rw [is_bitmap_bit_set_eq, is_bitmap_bit_set_eq, if_neg hjs, if_neg hjs]
  · intro hi
    unfold set_bitmap_bit clear_bitmap_bit
    dsimp only
    rw [if_neg (by omega), if_neg (by omega)]
    exact ⟨rfl, rfl⟩

/-- Witness for C31: a vector of 2 bytes with byte 0 equal to 5, at the
in-range index 9 and at the out-of-range index 16. -/
theorem C31_bitmap_primitives_witness :
    (9 < 2 * 8 ∧ 2 * 8 ≤ 16) ∧
    (is_bitmap_bit_set (set_bitmap_bit (setByte zeroBuf 0 5) 2 9) 2 9 = true ∧
      is_bitmap_bit_set (clear_bitmap_bit (setByte zeroBuf 0 5) 2 9) 2 9 = false ∧
      ∀ j, j ≠ 9 →
        is_bitmap_bit_set (set_bitmap_bit (setByte zeroBuf 0 5) 2 9) 2 j =
          is_bitmap_bit_set (setByte zeroBuf 0 5) 2 j ∧
        is_bitmap_bit_set (clear_bitmap_bit (setByte zeroBuf 0 5) 2 9) 2 j =
          is_bitmap_bit_set (setByte zeroBuf 0 5) 2 j) ∧
    (set_bitmap_bit (setByte zeroBuf 0 5) 2 16 = setByte zeroBuf 0 5 ∧
      clear_bitmap_bit (setByte zeroBuf 0 5) 2 16 = setByte zeroBuf 0 5) :=
  ⟨⟨by decide, by decide⟩,
    (C31_bitmap_primitives (setByte zeroBuf 0 5) 2 9).2.1 (by decide),
    (C31_bitmap_primitives (setByte zeroBuf 0 5) 2 16).2.2 (by decide)⟩

/-! ## The frame of the allocating walk -/

theorem allocate_block_for_write_beyond (c : SimpleFS_Context) (inode : Buf) (num l : Nat)
    (hl : MAX_LOGICAL_BLOCKS ≤ l) : (allocate_block_for_write c inode num l).1 = 0 := by
  unfold MAX_LOGICAL_BLOCKS at hl
  unfold allocate_block_for_write
  simp only [SIMPLEFS_NUM_DIRECT_BLOCKS, SIMPLEFS_BLOCK_SIZE]
  rw [if_neg (by omega), if_neg (by omega), if_neg (by omega), if_neg (by omega)]

/-- A mapped data block of a sound tree is no indirect block of the tree. -/
theorem leaf_not_indirect (c : SimpleFS_Context) (inode : Buf) (R : Nat → Prop)
    (h : tree_ok c inode R) (l : Nat) (hl : l < MAX_LOGICAL_BLOCKS)
    (hne : tree_node c.device_fd.data inode (lbn_slot l) (lbn_idxs l) ≠ 0) :
    ∀ s idxs, tree_path_ok s idxs → idxs.length < tree_depth s →
      tree_node c.device_fd.data inode s idxs ≠
        tree_node c.device_fd.data inode (lbn_slot l) (lbn_idxs l) := by
  intro s idxs hp hlen heq
  have hne' : tree_node c.device_fd.data inode s idxs ≠ 0 := by
    rw [heq]
    exact hne
  obtain ⟨e1, e2⟩ := h.distinct s idxs (lbn_slot l) (lbn_idxs l) hp (lbn_path_ok l hl).1 hne' heq
  have := (lbn_path_ok l hl).2
  rw [← e1, ← e2] at this
  omega

/-- C38 (`allocate_block_for_write`, `src/fuse_ops.cpp` 527-727, with
`alloc_block` and `map_logical_to_physical_block`). For an inode whose block
tree is well formed in a sound allocation state (`tree_ok`) and a call for the
logical index `l` that succeeds: for every other index `l'` the read-only map
gives after the call what it gave before and gives the returned block at `l`;
every data block that was mapped holds what it held; and when `l` was not
mapped, the returned block differs from every block that was reachable from
the inode. -/
theorem C38_allocate_block_for_write_frame (c : SimpleFS_Context) (inode : Buf)
    (R : Nat → Prop) (num l : Nat) (h : tree_ok c inode R)
    (hb : (allocate_block_for_write c inode num l).1 ≠ 0) :
    (∀ l', l' ≠ l →
      (map_logical_to_physical_block (allocate_block_for_write c inode num l).2.2.2
        (allocate_block_for_write c inode num l).2.2.1 l').1 =
      (map_logical_to_physical_block c inode l').1) ∧
    (map_logical_to_physical_block (allocate_block_for_write c inode num l).2.2.2
      (allocate_block_for_write c inode num l).2.2.1 l).1 =
      (allocate_block_for_write c inode num l).1 ∧
    (∀ l', (map_logical_to_physical_block c inode l').1 ≠ 0 →
      (allocate_block_for_write c inode num l).2.2.2.device_fd.data
        (map_logical_to_physical_block c inode l').1 =
      c.device_fd.data (map_logical_to_physical_block c inode l').1) ∧
    ((map_logical_to_physical_block c inode l).1 = 0 →
      ∀ s idxs, tree_path_ok s idxs →
        tree_node c.device_fd.data inode s idxs ≠ (allocate_block_for_write c inode num l).1) := by
  have hl : l < MAX_LOGICAL_BLOCKS := by
    by_contra hc
    exact hb (allocate_block_for_write_beyond c inode num l (by omega))
  generalize hres : allocate_block_for_write c inode num l = r at hb ⊢
  obtain ⟨b, fl, inode', c'⟩ := r
  dsimp only at hb ⊢
  obtain ⟨grow, hnode, _, _⟩ := allocate_block_for_write_spec c inode R num l h hl b fl inode' c'
    hres hb
  have hrd : ∀ x, c.device_fd.readable x = true := fun x => (h.io x).1
  have hrd' : ∀ x, c'.device_fd.readable x = true := fun x => (grow.ok.io x).1
  have hmap : ∀ k, k < MAX_LOGICAL_BLOCKS → (map_logical_to_physical_block c inode k).1 =
      tree_node c.device_fd.data inode (lbn_slot k) (lbn_idxs k) :=
    fun k hk => dir_block_eq_node c inode k hrd hk
  have hmap' : ∀ k, k < MAX_LOGICAL_BLOCKS → (map_logical_to_physical_block c' inode' k).1 =
      tree_node c'.device_fd.data inode' (lbn_slot k) (lbn_idxs k) :=
    fun k hk => dir_block_eq_node c' inode' k hrd' hk
  refine ⟨?_, ?_, ?_, ?_⟩
  · intro l' hne
    by_cases hl' : l' < MAX_LOGICAL_BLOCKS
    · rw [hmap l' hl', hmap' l' hl']
      exact grow.off_path _ _ (lbn_path_ok l' hl').1 (lbn_leaf_not_initial l' l hl' hl hne)
    · have e1 : (map_logical_to_physical_block c inode l').1 = 0 :=
        dir_block_beyond c inode l' hrd (by omega)
      have e2 : (map_logical_to_physical_block c' inode' l').1 = 0 :=
        dir_block_beyond c' inode' l' hrd' (by omega)
      rw [e1, e2]
  · rw [hmap' l hl]
    exact hnode.symm
  · intro l' hne
    have hl' : l' < MAX_LOGICAL_BLOCKS := by
      by_contra hc
      exact hne (dir_block_beyond c inode l' hrd (by omega))
    rw [hmap l' hl'] at hne ⊢
    obtain ⟨n1, n2, n3⟩ := h.nodes _ _ (lbn_path_ok l' hl').1 hne
    exact grow.data_keep _ n1 n2 n3 (leaf_not_indirect c inode R h l' hl' hne)
  · intro hun s idxs hp heq
    rw [hmap l hl] at hun
    have hne : tree_node c.device_fd.data inode s idxs ≠ 0 := by
      rw [heq]
      exact hb
    obtain ⟨_, n2, _⟩ := h.nodes s idxs hp hne
    have hfresh := grow.fresh _ _ (lbn_path_ok l hl).1 hun (by rw [← hnode]; exact hb)
    rw [← hnode, ← heq, n2] at hfresh
    exact Bool.noConfusion hfresh

/-- Witness for C38 on `ctxFile`: the file `/f` (inode 12) has logical block 0
in block 8 and logical block 12 in block 10 under the indirect block 9; the
call for logical block 13 succeeds. -/
theorem C38_allocate_block_for_write_frame_witness :
    (tree_ok ctxFile (inode_of ctxFile 12) (fs_reserved ctxFile 12) ∧
      (allocate_block_for_write ctxFile (inode_of ctxFile 12) 12 13).1 = 11 ∧
      (map_logical_to_physical_block ctxFile (inode_of ctxFile 12) 13).1 = 0 ∧
      (map_logical_to_physical_block ctxFile (inode_of ctxFile 12) 12).1 = 10) ∧
    (∀ l', l' ≠ 13 →
      (map_logical_to_physical_block (allocate_block_for_write ctxFile (inode_of ctxFile 12) 12
          13).2.2.2 (allocate_block_for_write ctxFile (inode_of ctxFile 12) 12 13).2.2.1 l').1 =
      (map_logical_to_physical_block ctxFile (inode_of ctxFile 12) l').1) ∧
    (∀ s idxs, tree_path_ok s idxs →
      tree_node ctxFile.device_fd.data (inode_of ctxFile 12) s idxs ≠
        (allocate_block_for_write ctxFile (inode_of ctxFile 12) 12 13).1) :=
  ⟨⟨ctxFile_tree_ok, by decide!, by decide!, by decide!⟩,
    (C38_allocate_block_for_write_frame ctxFile (inode_of ctxFile 12) (fs_reserved ctxFile 12)
      12 13 ctxFile_tree_ok (by decide!)).1,
    (C38_allocate_block_for_write_frame ctxFile (inode_of ctxFile 12) (fs_reserved ctxFile 12)
      12 13 ctxFile_tree_ok (by decide!)).2.2.2 (by decide!)⟩

/-! ## The sectors charged by the allocating walk -/

theorem i_blocks_lt (a : Buf) : i_blocks a < 4294967296 := by
  have := getLE_lt a 28 4
  unfold i_blocks
  omega

theorem i_blocks_set_i_block (a : Buf) (s v : Nat) : i_blocks (set_i_block a s v) = i_blocks a := by
  unfold i_blocks set_i_block
  exact getLE_setLE_disjoint _ _ _ _ _ _ (by omega)

theorem i_blocks_set_u32 (a : Buf) (v : Nat) : i_blocks (set_i_blocks a v) = u32 v := by
  unfold i_blocks set_i_blocks u32
  rw [getLE_setLE_same]
  norm_num

theorem blocks_charged_refl (c : SimpleFS_Context) (inode : Buf) : blocks_charged c inode c inode 0 :=
  ⟨rfl, (u32_of_lt _ (i_blocks_lt inode)).symm⟩

/-- One more block: the count drops by one and `i_blocks` is raised by 8. -/
theorem blocks_charged_step (c : SimpleFS_Context) (inode : Buf) (c1 c2 : SimpleFS_Context)
    (i1 i2 : Buf) (k : Nat) (t : blocks_charged c inode c1 i1 k)
    (h1 : c2.sb.s_free_blocks_count + 1 = c1.sb.s_free_blocks_count)
    (h2 : i_blocks i2 = u32 (i_blocks i1 + 8)) : blocks_charged c inode c2 i2 (k + 1) := by
  obtain ⟨t1, t2⟩ := t
  refine ⟨by omega, ?_⟩
  rw [h2, t2]
  unfold u32
  omega

theorem blocks_charged_same (c : SimpleFS_Context) (inode : Buf) (c1 c2 : SimpleFS_Context)
    (i1 i2 : Buf) (k : Nat) (t : blocks_charged c inode c1 i1 k)
    (h1 : c2.sb.s_free_blocks_count = c1.sb.s_free_blocks_count)
    (h2 : i_blocks i2 = i_blocks i1) : blocks_charged c inode c2 i2 k := by
  obtain ⟨t1, t2⟩ := t
  exact ⟨by omega, by rw [h2, t2]⟩

/-- A successful `alloc_block` lowers `s_free_blocks_count` by one. -/
theorem alloc_block_charge (c : SimpleFS_Context) (pg : Nat)
    (hc : c.sb.s_free_blocks_count < 4294967296) (h : (alloc_block c pg).1 ≠ 0) :
    (alloc_block c pg).2.sb.s_free_blocks_count + 1 = c.sb.s_free_blocks_count := by
  rcases alloc_block_cases c pg with ⟨e, he⟩ | ⟨g, bit, _, _, h0, _, _, _, _, _, _, he⟩
  · rw [he] at h
    exact absurd rfl h
  · rw [he]
    show (block_taken c g bit).sb.s_free_blocks_count + 1 = _
    rw [block_taken_free, dec32_of_pos _ (by omega) (by omega)]
    omega

theorem ensure_top_indirect_charge (c : SimpleFS_Context) (inode : Buf) (slot pg : Nat)
    (r : Buf × SimpleFS_Context) (hc : c.sb.s_free_blocks_count < 4294967296)
    (h : ensure_top_indirect c inode slot pg = .ok r) :
    (r.2.sb.s_free_blocks_count = c.sb.s_free_blocks_count ∧ i_blocks r.1 = i_blocks inode) ∨
    (r.2.sb.s_free_blocks_count + 1 = c.sb.s_free_blocks_count ∧
      i_blocks r.1 = u32 (i_blocks inode + 8)) := by
  unfold ensure_top_indirect at h
  by_cases h0 : i_block inode slot = 0
  · rw [if_pos h0] at h
    dsimp only at h
    by_cases h1 : (alloc_block c pg).1 = 0
    · rw [if_pos h1] at h
      exact Except.noConfusion h
    · rw [if_neg h1] at h
      cases hw : write_block (alloc_block c pg).2.device_fd (alloc_block c pg).1 zeroBuf with
      | none =>
        rw [hw] at h
        exact Except.noConfusion h
      | some dev =>
        rw [hw] at h
        injection h with h
        rw [← h]
        right
        exact ⟨alloc_block_charge c pg hc h1, by
          show i_blocks (set_i_block _ _ _) = _
          rw [i_blocks_set_i_block, i_blocks_set_u32]⟩
  · rw [if_neg h0] at h
    injection h with h
    rw [← h]
    exact Or.inl ⟨rfl, rfl⟩

theorem ensure_child_indirect_charge (c : SimpleFS_Context) (inode : Buf) (p : Nat) (pb : Buf)
    (idx pg : Nat) (r : Buf × Buf × SimpleFS_Context) (hc : c.sb.s_free_blocks_count < 4294967296)
    (h : ensure_child_indirect c inode p pb idx pg = .ok r) :
    (r.2.2.sb.s_free_blocks_count = c.sb.s_free_blocks_count ∧ i_blocks r.1 = i_blocks inode) ∨
    (r.2.2.sb.s_free_blocks_count + 1 = c.sb.s_free_blocks_count ∧
      i_blocks r.1 = u32 (i_blocks inode + 8)) := by
  unfold ensure_child_indirect at h
  by_cases h0 : ptrAt pb idx = 0
  · rw [if_pos h0] at h
    dsimp only at h
    by_cases h1 : (alloc_block c pg).1 = 0
    · rw [if_pos h1] at h
      exact Except.noConfusion h
    · rw [if_neg h1] at h
      cases hw : write_block (alloc_block c pg).2.device_fd (alloc_block c pg).1 zeroBuf with
      | none =>
        rw [hw] at h
        exact Except.noConfusion h
      | some dev =>
        rw [hw] at h
        dsimp only at h
        cases hw2 : write_block dev p (setPtr pb idx (alloc_block c pg).1) with
        | none =>
          rw [hw2] at h
          exact Except.noConfusion h
        | some dev2 =>
          rw [hw2] at h
          injection h with h
          rw [← h]
          right
          exact ⟨alloc_block_charge c pg hc h1, i_blocks_set_u32 _ _⟩
  · rw [if_neg h0] at h
    injection h with h
    rw [← h]
    exact Or.inl ⟨rfl, rfl⟩

theorem ensure_write_leaf_charge (c : SimpleFS_Context) (inode : Buf) (p : Nat) (pb : Buf)
    (idx pg : Nat) (r : Nat × Bool × Buf × SimpleFS_Context)
    (hc : c.sb.s_free_blocks_count < 4294967296)
    (h : ensure_write_leaf c inode p pb idx pg = .ok r) :
    (r.2.2.2.sb.s_free_blocks_count = c.sb.s_free_blocks_count ∧
      i_blocks r.2.2.1 = i_blocks inode) ∨
    (r.2.2.2.sb.s_free_blocks_count + 1 = c.sb.s_free_blocks_count ∧
      i_blocks r.2.2.1 = u32 (i_blocks inode + 8)) := by
  unfold ensure_write_leaf at h
  by_cases h0 : ptrAt pb idx = 0
  · rw [if_pos h0] at h
    dsimp only at h
    by_cases h1 : (alloc_block c pg).1 = 0
    · rw [if_pos h1] at h
      exact Except.noConfusion h
    · rw [if_neg h1] at h
      cases hw : write_block (alloc_block c pg).2.device_fd p
          (setPtr pb idx (alloc_block c pg).1) with
      | none =>
        rw [hw] at h
        exact Except.noConfusion h
      | some dev =>
        rw [hw] at h
        injection h with h
        rw [← h]
        right
        exact ⟨alloc_block_charge c pg hc h1, i_blocks_set_u32 _ _⟩
  · rw [if_neg h0] at h
    injection h with h
    rw [← h]
    exact Or.inl ⟨rfl, rfl⟩

theorem blocks_charged_next (c : SimpleFS_Context) (inode : Buf) (c1 c2 : SimpleFS_Context)
    (i1 i2 : Buf) (k : Nat) (t : blocks_charged c inode c1 i1 k)
    (h : (c2.sb.s_free_blocks_count = c1.sb.s_free_blocks_count ∧ i_blocks i2 = i_blocks i1) ∨
      (c2.sb.s_free_blocks_count + 1 = c1.sb.s_free_blocks_count ∧
        i_blocks i2 = u32 (i_blocks i1 + 8))) :
    ∃ k2, k ≤ k2 ∧ k2 ≤ k + 1 ∧ blocks_charged c inode c2 i2 k2 := by
  rcases h with ⟨h1, h2⟩ | ⟨h1, h2⟩
  · exact ⟨k, le_refl _, by omega, blocks_charged_same c inode c1 c2 i1 i2 k t h1 h2⟩
  · exact ⟨k + 1, by omega, le_refl _, blocks_charged_step c inode c1 c2 i1 i2 k t h1 h2⟩

theorem blocks_charged_lt (c : SimpleFS_Context) (inode : Buf) (c1 : SimpleFS_Context) (i1 : Buf)
    (k : Nat) (t : blocks_charged c inode c1 i1 k) (hc : c.sb.s_free_blocks_count < 4294967296) :
    c1.sb.s_free_blocks_count < 4294967296 := by
  have := t.1
  omega

theorem write_leaf_tail_charge (c : SimpleFS_Context) (inode : Buf) (c1 : SimpleFS_Context)
    (i1 : Buf) (p idx pg k1 : Nat) (hc : c.sb.s_free_blocks_count < 4294967296)
    (t : blocks_charged c inode c1 i1 k1) :
    (match read_block c1.device_fd p with
      | none => ((0 : Nat), false, i1, setErrno c1 EIO)
      | some b1 =>
        match ensure_write_leaf c1 i1 p b1 idx pg with
        | .error e => (0, e.1, e.2.1, e.2.2)
        | .ok r => r).1 ≠ 0 →
    ∃ k, k ≤ k1 + 1 ∧ blocks_charged c inode
      (match read_block c1.device_fd p with
        | none => ((0 : Nat), false, i1, setErrno c1 EIO)
        | some b1 =>
          match ensure_write_leaf c1 i1 p b1 idx pg with
          | .error e => (0, e.1, e.2.1, e.2.2)
          | .ok r => r).2.2.2
      (match read_block c1.device_fd p with
        | none => ((0 : Nat), false, i1, setErrno c1 EIO)
        | some b1 =>
          match ensure_write_leaf c1 i1 p b1 idx pg with
          | .error e => (0, e.1, e.2.1, e.2.2)
          | .ok r => r).2.2.1 k := by
  cases read_block c1.device_fd p with
  | none => intro h; exact absurd rfl h
  | some b1 =>
    dsimp only
    cases hE : ensure_write_leaf c1 i1 p b1 idx pg with
    | error e => intro h; exact absurd rfl h
    | ok r =>
      intro _
      obtain ⟨k2, _, h2, h3⟩ := blocks_charged_next c inode c1 r.2.2.2 i1 r.2.2.1 k1 t
        (ensure_write_leaf_charge c1 i1 p b1 idx pg r (blocks_charged_lt c inode c1 i1 k1 t hc) hE)
      exact ⟨k2, h2, h3⟩

theorem write_child_step_charge (c : SimpleFS_Context) (inode : Buf) (c1 : SimpleFS_Context)
    (i1 : Buf) (p idx pg k1 K : Nat) (hc : c.sb.s_free_blocks_count < 4294967296)
    (rest : Buf → Buf → SimpleFS_Context → Nat × Bool × Buf × SimpleFS_Context)
    (hrest : ∀ i2 b2 c2 k2, k2 ≤ k1 + 1 → blocks_charged c inode c2 i2 k2 →
      (rest i2 b2 c2).1 ≠ 0 →
      ∃ k, k ≤ K ∧ blocks_charged c inode (rest i2 b2 c2).2.2.2 (rest i2 b2 c2).2.2.1 k)
    (t : blocks_charged c inode c1 i1 k1) :
    (match read_block c1.device_fd p with
      | none => ((0 : Nat), false, i1, setErrno c1 EIO)
      | some b1 =>
        match ensure_child_indirect c1 i1 p b1 idx pg with
        | .error e => (0, false, e.1, e.2)
        | .ok (i2, b2, c2) => rest i2 b2 c2).1 ≠ 0 →
    ∃ k, k ≤ K ∧ blocks_charged c inode
      (match read_block c1.device_fd p with
        | none => ((0 : Nat), false, i1, setErrno c1 EIO)
        | some b1 =>
          match ensure_child_indirect c1 i1 p b1 idx pg with
          | .error e => (0, false, e.1, e.2)
          | .ok (i2, b2, c2) => rest i2 b2 c2).2.2.2
      (match read_block c1.device_fd p with
        | none => ((0 : Nat), false, i1, setErrno c1 EIO)
        | some b1 =>
          match ensure_child_indirect c1 i1 p b1 idx pg with
          | .error e => (0, false, e.1, e.2)
          | .ok (i2, b2, c2) => rest i2 b2 c2).2.2.1 k := by
  cases read_block c1.device_fd p with
  | none => intro h; exact absurd rfl h
  | some b1 =>
    dsimp only
    cases hE : ensure_child_indirect c1 i1 p b1 idx pg with
    | error e => intro h; exact absurd rfl h
    | ok r =>
      obtain ⟨i2, b2, c2⟩ := r
      obtain ⟨k2, _, h2, h3⟩ := blocks_charged_next c inode c1 c2 i1 i2 k1 t
        (ensure_child_indirect_charge c1 i1 p b1 idx pg (i2, b2, c2)
          (blocks_charged_lt c inode c1 i1 k1 t hc) hE)
      exact hrest i2 b2 c2 k2 h2 h3

/-- The sectors charged by a successful `allocate_block_for_write`: for some
`k` that is at most the number of blocks on the way to logical block `l`
(the levels of indirection and the data block), `s_free_blocks_count` is `k`
lower and `i_blocks` is `8·k` higher. -/
theorem allocate_block_for_write_charge (c : SimpleFS_Context) (inode : Buf) (num l : Nat)
    (hc : c.sb.s_free_blocks_count < 4294967296)
    (hb : (allocate_block_for_write c inode num l).1 ≠ 0) :
    ∃ k, k ≤ tree_depth (lbn_slot l) + 1 ∧
      blocks_charged c inode (allocate_block_for_write c inode num l).2.2.2
        (allocate_block_for_write c inode num l).2.2.1 k := by
  revert hb
  unfold allocate_block_for_write
  dsimp only
  by_cases h1 : l < SIMPLEFS_NUM_DIRECT_BLOCKS
  · rw [if_pos h1]
    by_cases h0 : i_block inode l = 0
    · rw [if_pos h0]
      by_cases ha : (alloc_block c (dec32 num / c.sb.s_inodes_per_group)).1 = 0
      · rw [if_pos ha]
        intro h
        exact absurd rfl h
      · rw [if_neg ha]
        intro _
        exact ⟨1, by omega, alloc_block_charge c _ hc ha, by
          show i_blocks (set_i_blocks _ _) = _
          rw [i_blocks_set_u32, i_blocks_set_i_block]⟩
    · rw [if_neg h0]
      intro _
      exact ⟨0, by omega, blocks_charged_refl c inode⟩
  rw [if_neg h1]
  have h1' : ¬ l < 12 := h1
  by_cases h2 : l < SIMPLEFS_NUM_DIRECT_BLOCKS + SIMPLEFS_BLOCK_SIZE / 4
  · rw [if_pos h2]
    have h2' : l < 12 + 1024 := h2
    have hd : tree_depth (lbn_slot l) = 1 := by
      unfold lbn_slot tree_depth
      rw [if_neg h1', if_pos h2']
    cases hE : ensure_top_indirect c inode SIMPLEFS_NUM_DIRECT_BLOCKS
        (dec32 num / c.sb.s_inodes_per_group) with
    | error e => intro h; exact absurd rfl h
    | ok r =>
      obtain ⟨i1, c1⟩ := r
      obtain ⟨k1, _, hk1, t1⟩ := blocks_charged_next c inode c c1 inode i1 0
        (blocks_charged_refl c inode) (ensure_top_indirect_charge c inode _ _ (i1, c1) hc hE)
      intro hb
      obtain ⟨k, hk, t⟩ := write_leaf_tail_charge c inode c1 i1 _ _ _ k1 hc t1 hb
      exact ⟨k, by omega, t⟩
  rw [if_neg h2]
  have h2' : ¬ l < 12 + 1024 := h2
  by_cases h3 : l < SIMPLEFS_NUM_DIRECT_BLOCKS + SIMPLEFS_BLOCK_SIZE / 4 +
      SIMPLEFS_BLOCK_SIZE / 4 * (SIMPLEFS_BLOCK_SIZE / 4)
  · rw [if_pos h3]
    have h3' : l < 12 + 1024 + 1024 * 1024 := h3
    have hd : tree_depth (lbn_slot l) = 2 := by
      unfold lbn_slot tree_depth
      rw [if_neg h1', if_neg h2', if_pos h3']
    cases hE : ensure_top_indirect c inode (SIMPLEFS_NUM_DIRECT_BLOCKS + 1)
        (dec32 num / c.sb.s_inodes_per_group) with
    | error e => intro h; exact absurd rfl h
    | ok r =>
      obtain ⟨i1, c1⟩ := r
      obtain ⟨k1, _, hk1, t1⟩ := blocks_charged_next c inode c c1 inode i1 0
        (blocks_charged_refl c inode) (ensure_top_indirect_charge c inode _ _ (i1, c1) hc hE)
      intro hb
      obtain ⟨k, hk, t⟩ := write_child_step_charge c inode c1 i1 _ _ _ k1 3 hc _
        (fun i2 b2 c2 k2 hk2 t2 hb2 => by
          obtain ⟨k, hk, t⟩ := write_leaf_tail_charge c inode c2 i2 _ _ _ k2 hc t2 hb2
          exact ⟨k, by omega, t⟩) t1 hb
      exact ⟨k, by omega, t⟩
  rw [if_neg h3]
  have h3' : ¬ l < 12 + 1024 + 1024 * 1024 := h3
  by_cases h4 : l < SIMPLEFS_NUM_DIRECT_BLOCKS + SIMPLEFS_BLOCK_SIZE / 4 +
      SIMPLEFS_BLOCK_SIZE / 4 * (SIMPLEFS_BLOCK_SIZE / 4) +
      SIMPLEFS_BLOCK_SIZE / 4 * (SIMPLEFS_BLOCK_SIZE / 4) * (SIMPLEFS_BLOCK_SIZE / 4)
  · rw [if_pos h4]
    have hd : tree_depth (lbn_slot l) = 3 := by
      unfold lbn_slot tree_depth
      rw [if_neg h1', if_neg h2', if_neg h3']
    cases hE : ensure_top_indirect c inode (SIMPLEFS_NUM_DIRECT_BLOCKS + 2)
        (dec32 num / c.sb.s_inodes_per_group) with
    | error e => intro h; exact absurd rfl h
    | ok r =>
      obtain ⟨i1, c1⟩ := r
      obtain ⟨k1, _, hk1, t1⟩ := blocks_charged_next c inode c c1 inode i1 0
        (blocks_charged_refl c inode) (ensure_top_indirect_charge c inode _ _ (i1, c1) hc hE)
      intro hb
      obtain ⟨k, hk, t⟩ := write_child_step_charge c inode c1 i1 _ _ _ k1 4 hc _
        (fun i2 b2 c2 k2 hk2 t2 => write_child_step_charge c inode c2 i2 _ _ _ k2 4 hc _
          (fun i3 b3 c3 k3 hk3 t3 hb3 => by
            obtain ⟨k, hk, t⟩ := write_leaf_tail_charge c inode c3 i3 _ _ _ k3 hc t3 hb3
            exact ⟨k, by omega, t⟩) t2) t1 hb
      exact ⟨k, by omega, t⟩
  rw [if_neg h4]
  intro h
  exact absurd rfl h

/-- C32 (`allocate_block_for_write`, `src/fuse_ops.cpp` 527-727). Every call
that succeeds raises `inode.i_blocks`, in `uint32_t` arithmetic, by 8 times the
number `k` by which it lowers `s_free_blocks_count`, and `k` is at most the
number of blocks on the way to the logical block (one per level of indirection
and the data block); where the sum fits 32 bits, `i_blocks` is exactly
`8·k` higher. `s_free_blocks_count` is a `uint32_t`. -/
theorem C32_allocate_block_for_write_charges (c : SimpleFS_Context) (inode : Buf) (num l : Nat)
    (hc : c.sb.s_free_blocks_count < 4294967296)
    (hb : (allocate_block_for_write c inode num l).1 ≠ 0) :
    ∃ k, k ≤ tree_depth (lbn_slot l) + 1 ∧
      (allocate_block_for_write c inode num l).2.2.2.sb.s_free_blocks_count + k =
        c.sb.s_free_blocks_count ∧
      i_blocks (allocate_block_for_write c inode num l).2.2.1 = u32 (i_blocks inode + 8 * k) ∧
      (i_blocks inode + 8 * k < 4294967296 →
        i_blocks (allocate_block_for_write c inode num l).2.2.1 = i_blocks inode + 8 * k) := by
  obtain ⟨k, hk, t1, t2⟩ := allocate_block_for_write_charge c inode num l hc hb
  exact ⟨k, hk, t1, t2, fun h => by rw [t2, u32_of_lt _ h]⟩

/-- Witness for C32 on `ctxDir`: the file `/f` (inode 12) has no blocks; the
call for logical block `12 + 1024 + 1`, in the double-indirect region,
allocates the double-indirect block, one single-indirect block and the data
block: `s_free_blocks_count` drops from 8 to 5 and `i_blocks` is 24. -/
theorem C32_allocate_block_for_write_charges_witness :
    (i_blocks (inode_of ctxDir 12) = 0 ∧
      (∀ s, s < 15 → i_block (inode_of ctxDir 12) s = 0) ∧
      ctxDir.sb.s_free_blocks_count = 8 ∧
      (allocate_block_for_write ctxDir (inode_of ctxDir 12) 12 (12 + 1024 + 1)).2.2.2.sb.s_free_blocks_count
        = 5 ∧
      i_blocks (allocate_block_for_write ctxDir (inode_of ctxDir 12) 12 (12 + 1024 + 1)).2.2.1 = 24) ∧
    ∃ k, k ≤ tree_depth (lbn_slot (12 + 1024 + 1)) + 1 ∧
      (allocate_block_for_write ctxDir (inode_of ctxDir 12) 12 (12 + 1024 + 1)).2.2.2.sb.s_free_blocks_count
        + k = ctxDir.sb.s_free_blocks_count ∧
      i_blocks (allocate_block_for_write ctxDir (inode_of ctxDir 12) 12 (12 + 1024 + 1)).2.2.1 =
        u32 (i_blocks (inode_of ctxDir 12) + 8 * k) ∧
      (i_blocks (inode_of ctxDir 12) + 8 * k < 4294967296 →
        i_blocks (allocate_block_for_write ctxDir (inode_of ctxDir 12) 12 (12 + 1024 + 1)).2.2.1 =
          i_blocks (inode_of ctxDir 12) + 8 * k) :=
  ⟨⟨by decide!, by decide!, rfl, by decide!, by decide!⟩,
    C32_allocate_block_for_write_charges ctxDir (inode_of ctxDir 12) 12 (12 + 1024 + 1)
      (by decide) (by decide!)⟩

/-! ## Failures inside the allocating walks -/

/-- C33 on `ctxLast` (one free block, block 15; the file `/f`, inode 12, has
`i_block[12] = 0`): `allocate_block_for_write` for logical block 12 takes the
last block for the single-indirect block, fails to allocate the data block and
returns 0 with `ENOSPC`, and the indirect block stays allocated:
`s_free_blocks_count` is 0, the bit of block 15 is set, `i_block[12]` is 15
and `i_blocks` is 8. `simplefs_write` of one byte at offset `12·4096` returns
`-ENOSPC` and leaves `s_free_blocks_count` at 0. -/
theorem C33_no_space_keeps_the_indirect_block :
    (blocks_consistent ctxLast ∧ ctxLast.sb.s_free_blocks_count = 1 ∧
      block_bit_set ctxLast 15 = false ∧
      i_block (inode_of ctxLast 12) 12 = 0 ∧ i_blocks (inode_of ctxLast 12) = 0) ∧
    ((allocate_block_for_write ctxLast (inode_of ctxLast 12) 12 12).1 = 0 ∧
      (allocate_block_for_write ctxLast (inode_of ctxLast 12) 12 12).2.2.2.errno = ENOSPC ∧
      (allocate_block_for_write ctxLast (inode_of ctxLast 12) 12 12).2.2.2.sb.s_free_blocks_count
        = 0 ∧
      block_bit_set (allocate_block_for_write ctxLast (inode_of ctxLast 12) 12 12).2.2.2 15 = true ∧
      i_block (allocate_block_for_write ctxLast (inode_of ctxLast 12) 12 12).2.2.1 12 = 15 ∧
      i_blocks (allocate_block_for_write ctxLast (inode_of ctxLast 12) 12 12).2.2.1 = 8) ∧
    ((simplefs_write ctxLast rootCaller PATH_F [88] (12 * 4096)).1 = -(ENOSPC : Int) ∧
      (simplefs_write ctxLast rootCaller PATH_F [88] (12 * 4096)).2.sb.s_free_blocks_count = 0 ∧
      block_bit_set (simplefs_write ctxLast rootCaller PATH_F [88] (12 * 4096)).2 15 = true) :=
  ⟨⟨by decide!, rfl, by decide!, by decide!, by decide!⟩,
    ⟨by decide!, by decide!, by decide!, by decide!, by decide!, by decide!⟩,
    ⟨by decide!, by decide!, by decide!⟩⟩

/-- C34 on `ctxWriteFail` (8 free blocks, the first of them block 8, which
cannot be written). `get_or_alloc_dir_block` for logical block 1 of the root
directory (direct pointer 1 is 0) allocates block 8, fails to zero it and
returns 0 with `EIO` without freeing it: the bit of block 8 stays set and
`s_free_blocks_count` and the group's count stay at 7. On the same device
`allocate_block_for_write` for logical block 12 of `/f` allocates block 8 for
the single-indirect block, fails to zero it, frees it and returns 0 with `EIO`:
the bit is clear and the counts are 8 again. -/
theorem C34_failed_zero_write_keeps_the_block :
    (ctxWriteFail.sb.s_free_blocks_count = 8 ∧
      (ctxWriteFail.gdt.getD 0 default).bg_free_blocks_count = 8 ∧
      block_bit_set ctxWriteFail 8 = false ∧
      i_block (inode_of ctxWriteFail 2) 1 = 0 ∧ i_block (inode_of ctxWriteFail 12) 12 = 0) ∧
    ((get_or_alloc_dir_block ctxWriteFail (inode_of ctxWriteFail 2) 2 1).1 = 0 ∧
      (get_or_alloc_dir_block ctxWriteFail (inode_of ctxWriteFail 2) 2 1).2.2.errno = EIO ∧
      block_bit_set (get_or_alloc_dir_block ctxWriteFail (inode_of ctxWriteFail 2) 2 1).2.2 8
        = true ∧
      (get_or_alloc_dir_block ctxWriteFail (inode_of ctxWriteFail 2) 2 1).2.2.sb.s_free_blocks_count
        = 7 ∧
      ((get_or_alloc_dir_block ctxWriteFail (inode_of ctxWriteFail 2) 2 1).2.2.gdt.getD 0
        default).bg_free_blocks_count = 7 ∧
      i_block (get_or_alloc_dir_block ctxWriteFail (inode_of ctxWriteFail 2) 2 1).2.1 1 = 0) ∧
    ((allocate_block_for_write ctxWriteFail (inode_of ctxWriteFail 12) 12 12).1 = 0 ∧
      (allocate_block_for_write ctxWriteFail (inode_of ctxWriteFail 12) 12 12).2.2.2.errno = EIO ∧
      block_bit_set (allocate_block_for_write ctxWriteFail (inode_of ctxWriteFail 12) 12 12).2.2.2 8
        = false ∧
      (allocate_block_for_write ctxWriteFail (inode_of ctxWriteFail 12) 12
        12).2.2.2.sb.s_free_blocks_count = 8 ∧
      i_blocks (allocate_block_for_write ctxWriteFail (inode_of ctxWriteFail 12) 12 12).2.2.1 = 0) :=
  ⟨⟨rfl, rfl, by decide!, by decide!, by decide!⟩,
    ⟨by decide!, by decide!, by decide!, by decide!, by decide!, by decide!⟩,
    ⟨by decide!, by decide!, by decide!, by decide!, by decide!⟩⟩

/-! ## Enumeration of a directory with a malformed record -/

/-- The record loop of `simplefs_readdir` on a block whose record at
`entry_offset` is malformed: the loop ends at once, and the lambda returns 0
with `total_bytes_iterated` unchanged. -/
theorem readdir_scan_malformed (dir_size room fuel : Nat) (c : SimpleFS_Context) (buf : Buf)
    (entry_offset processed total : Nat) (acc : List DirItem)
    (hbad : de_rec_len buf entry_offset = 0 ∨
      calculate_dir_entry_len (de_name_len buf entry_offset) > de_rec_len buf entry_offset ∨
      entry_offset + de_rec_len buf entry_offset > SIMPLEFS_BLOCK_SIZE) :
    readdir_scan dir_size room (fuel + 1) c buf entry_offset processed total acc =
      (0, total, acc, c) := by
  rw [readdir_scan]
  by_cases h : ¬ (total < dir_size ∧ processed < SIMPLEFS_BLOCK_SIZE)
  · rw [if_pos h]
  · rw [if_neg h, if_pos hbad]

/-- The block loop of `simplefs_readdir` on a directory of non-zero size whose
only block starts with a malformed record: from every logical block number,
with nothing enumerated yet, the loop does not end within any number of
iterations. -/
theorem readdir_loop_malformed (c : SimpleFS_Context) (inode : Buf) (room : Nat)
    (hio : io_ok c) (hrest : ∀ s, s < 15 → s ≠ 0 → i_block inode s = 0)
    (hsz : 0 < i_size inode)
    (hbad : de_rec_len (c.device_fd.data (i_block inode 0)) 0 = 0 ∨
      calculate_dir_entry_len (de_name_len (c.device_fd.data (i_block inode 0)) 0) >
        de_rec_len (c.device_fd.data (i_block inode 0)) 0 ∨
      0 + de_rec_len (c.device_fd.data (i_block inode 0)) 0 > SIMPLEFS_BLOCK_SIZE) :
    ∀ (fuel : Nat) (c' : SimpleFS_Context) (lbn : Nat), same_fs c c' →
      readdir_loop inode room fuel c' lbn 0 [] = none := by
  intro fuel
  induction fuel with
  | zero =>
    intro c' lbn _
    rw [readdir_loop]
  | succ fuel ih =>
    intro c' lbn hs
    rw [readdir_loop]
    dsimp only
    rw [if_neg (by omega)]
    obtain ⟨f1, f2, f3, f4⟩ := map_logical_to_physical_block_frame c' inode lbn
    have hs2 : same_fs c (map_logical_to_physical_block c' inode lbn).2 :=
      ⟨f1.trans hs.1, f2.trans hs.2.1, f3.trans hs.2.2.1, f4.trans hs.2.2.2⟩
    have hio' : io_ok c' := by
      intro b
      rw [hs.1]
      exact hio b
    by_cases hm : (map_logical_to_physical_block c' inode lbn).1 = 0
    · rw [if_pos hm, if_neg (by omega)]
      exact ih _ _ hs2
    · rw [if_neg hm]
      have hlbn : lbn = 0 := by
        by_contra hne
        exact hm (one_block_beyond c' inode hio' hrest lbn (by omega))
      subst hlbn
      have hb : (map_logical_to_physical_block c' inode 0).1 = i_block inode 0 :=
        (map_logical_to_physical_block_walk c' inode 0 (fun b => (hio' b).1)).1 (by omega)
      have hrd : read_block (map_logical_to_physical_block c' inode 0).2.device_fd
          (map_logical_to_physical_block c' inode 0).1 =
          some (c.device_fd.data (i_block inode 0)) := by
        rw [hb, hs2.1]
        exact read_block_io c hio _
      rw [hrd]
      dsimp only
      have hsc : readdir_scan (i_size inode) room SIMPLEFS_BLOCK_SIZE
          (map_logical_to_physical_block c' inode 0).2 (c.device_fd.data (i_block inode 0))
          0 0 0 [] = (0, 0, [], (map_logical_to_physical_block c' inode 0).2) :=
        readdir_scan_malformed (i_size inode) room 4095 _ _ 0 0 0 [] hbad
      rw [hsc]
      dsimp only
      rw [if_neg (not_not.mpr rfl), if_neg (by omega)]
      have h1 : u32 (0 + 1) = 1 := by decide
      have h2 : ¬ 1 > i_size inode / SIMPLEFS_BLOCK_SIZE +
          SIMPLEFS_INODE_BLOCK_PTRS * 1024 * 1024 := by
        have e1 : SIMPLEFS_INODE_BLOCK_PTRS * 1024 * 1024 = 15728640 := by decide
        rw [e1]
        generalize i_size inode / SIMPLEFS_BLOCK_SIZE = q
        omega
      rw [h1, if_neg h2]
      exact ih _ _ hs2

/-- C35 (`simplefs_readdir`, `src/fuse_ops.cpp` 385-450): for a path that
resolves to a directory of non-zero size with one block (direct pointer 0)
whose first record is malformed (`rec_len == 0`, `rec_len` below the length
`name_len` implies, or a record that runs past the block), on a device without
I/O failure, `simplefs_readdir` does not return within any number of
iterations of its block loop: the record loop leaves the block with result 0
and nothing counted, and the block loop goes on through the logical block
numbers, none of which ends it. In particular it never returns `-EIO`. -/
theorem C35_readdir_malformed_never_returns (context : SimpleFS_Context)
    (caller : fuse_context) (path : List Nat) (room n : Nat) (inode : Buf)
    (ht : (path_to_inode_num context caller path).1 = n) (hn : n ≠ 0)
    (hi : (read_inode_from_disk context n).1 = .ok inode)
    (hdir : S_ISDIR (i_mode inode) = true) (hio : io_ok context)
    (hrest : ∀ s, s < 15 → s ≠ 0 → i_block inode s = 0)
    (hsz : 0 < i_size inode)
    (hbad : de_rec_len (context.device_fd.data (i_block inode 0)) 0 = 0 ∨
      calculate_dir_entry_len (de_name_len (context.device_fd.data (i_block inode 0)) 0) >
        de_rec_len (context.device_fd.data (i_block inode 0)) 0 ∨
      0 + de_rec_len (context.device_fd.data (i_block inode 0)) 0 > SIMPLEFS_BLOCK_SIZE) :
    ∀ fuel, simplefs_readdir fuel context caller path room = none := by
  intro fuel
  have ht0 : (path_to_inode_num (setErrno context 0) caller path).1 = n := by
    rw [← ht]
    exact (resolve_path_recursive_same caller true 0 context (setErrno context 0) path
      (same_fs_setErrno context 0)).1
  have hi0 : (read_inode_from_disk (setErrno context 0) n).1 = .ok inode := by
    rw [(read_inode_from_disk_same context (setErrno context 0) n (same_fs_setErrno context 0)).1]
    exact hi
  unfold simplefs_readdir
  dsimp only
  rw [open_extends _ _ caller path n (resolve_extends_refl _) ht0 hn]
  dsimp only
  rw [if_neg hn, read_inode_from_disk_eq _ n inode hi0]
  dsimp only
  rw [if_neg (not_not.mpr hdir)]
  exact readdir_loop_malformed context inode room hio hrest hsz hbad fuel _ 0
    (same_fs_setErrno context 0)

/-- Witness for C35 on `ctxBadDir`: the root directory has size 4096 and its
block 5 starts with a record of `rec_len` 0. -/
theorem C35_readdir_malformed_never_returns_witness :
    (S_ISDIR (i_mode (inode_of ctxBadDir 2)) = true ∧ i_size (inode_of ctxBadDir 2) = 4096 ∧
      i_block (inode_of ctxBadDir 2) 0 = 5 ∧
      de_rec_len (ctxBadDir.device_fd.data 5) 0 = 0) ∧
    ∀ fuel, simplefs_readdir fuel ctxBadDir rootCaller [SLASH] 10 = none :=
  ⟨⟨by decide!, by decide!, by decide!, by decide!⟩,
    C35_readdir_malformed_never_returns ctxBadDir rootCaller [SLASH] 10 2 (inode_of ctxBadDir 2)
      (by decide!) (by decide) (inode_of_spec ctxBadDir 2 (by decide!)) (by decide!)
      (fun _ => ⟨rfl, rfl⟩) (by decide!) (by decide!) (Or.inl (by decide!))⟩

/-! ## Allocation of an inode, undone by freeing it -/

theorem write_block_put (fd : Device) (b : Nat) (buf : Buf) (h : fd.writable b = true) :
    write_block fd b buf = some (fd.put b buf) := by
  unfold write_block
  rw [if_pos h]
  rfl

/-- Source function `free_inode` on an inode number that passes its guards,
with the bitmap block readable and writable. -/
theorem free_inode_given (c : SimpleFS_Context) (n mode : Nat) (h0 : n ≠ 0)
    (h1 : n ≤ c.sb.s_inodes_count) (h2 : c.sb.s_first_ino ≤ n)
    (h3 : (n - 1) / c.sb.s_inodes_per_group < c.gdt.length)
    (hr : c.device_fd.readable
      (c.gdt.getD ((n - 1) / c.sb.s_inodes_per_group) default).bg_inode_bitmap = true)
    (hw : c.device_fd.writable
      (c.gdt.getD ((n - 1) / c.sb.s_inodes_per_group) default).bg_inode_bitmap = true) :
    free_inode c n mode = inode_given c mode ((n - 1) / c.sb.s_inodes_per_group)
      ((n - 1) % c.sb.s_inodes_per_group) := by
  rcases free_inode_cases c n mode with h | ⟨_, _, _, _, _, _, h⟩
  · unfold free_inode at h ⊢
    rw [if_neg (by omega), if_neg (by omega)] at h ⊢
    dsimp only at h ⊢
    rw [if_neg (by omega), read_block_of_readable _ _ hr] at h ⊢
    dsimp only at h ⊢
    rw [write_block_put _ _ _ hw] at h ⊢
    dsimp only at h ⊢
    have hcount := congrArg (fun x => x.sb.s_free_inodes_count) h
    dsimp only at hcount
    exfalso
    unfold inc32 at hcount
    have := Nat.mod_lt (c.sb.s_free_inodes_count + 1) (by decide : 4294967296 > 0)
    by_cases hx : c.sb.s_free_inodes_count + 1 < 4294967296
    · rw [Nat.mod_eq_of_lt hx] at hcount
      omega
    · omega
  · exact h

/-- The two state changes cancel: releasing the bit that was just taken gives
the descriptors and the superblock count back, and every bitmap query is what
it was. -/
theorem inode_given_taken (c : SimpleFS_Context) (mode g bit : Nat) (hg : g < c.gdt.length)
    (hf : 0 < c.sb.s_free_inodes_count) (hf2 : c.sb.s_free_inodes_count < 4294967296)
    (hgf : 0 < (c.gdt.getD g default).bg_free_inodes_count)
    (hgf2 : (c.gdt.getD g default).bg_free_inodes_count < 65536)
    (hu : (c.gdt.getD g default).bg_used_dirs_count < 65535)
    (hclr : is_bitmap_bit_set (c.device_fd.data (c.gdt.getD g default).bg_inode_bitmap)
      SIMPLEFS_BLOCK_SIZE bit = false) :
    (inode_given (inode_taken c mode g bit) mode g bit).sb = c.sb ∧
    (inode_given (inode_taken c mode g bit) mode g bit).gdt = c.gdt ∧
    ∀ x j, is_bitmap_bit_set ((inode_given (inode_taken c mode g bit) mode g bit).device_fd.data x)
        SIMPLEFS_BLOCK_SIZE j =
      is_bitmap_bit_set (c.device_fd.data x) SIMPLEFS_BLOCK_SIZE j := by
  have hgd : (inode_taken c mode g bit).gdt.getD g default =
      { c.gdt.getD g default with
        bg_free_inodes_count := dec16 (c.gdt.getD g default).bg_free_inodes_count
        bg_used_dirs_count :=
          if S_ISDIR mode then inc16 (c.gdt.getD g default).bg_used_dirs_count
          else (c.gdt.getD g default).bg_used_dirs_count } := by
    rw [inode_taken_gdt, getD_set, if_pos ⟨rfl, hg⟩]
  have hbit := is_bitmap_bit_set_false_lt _ _ _ hclr
  refine ⟨?_, ?_, ?_⟩
  · show ({ (inode_taken c mode g bit).sb with
      s_free_inodes_count := inc32 (inode_taken c mode g bit).sb.s_free_inodes_count } :
        SimpleFS_SuperBlock) = c.sb
    rw [inode_taken_free, dec32_of_pos _ hf (by omega), inc32_of_lt _ (by omega)]
    have e : c.sb.s_free_inodes_count - 1 + 1 = c.sb.s_free_inodes_count := by omega
    rw [e]
    rfl
  · rw [inode_given_gdt, hgd]
    dsimp only
    rw [inode_taken_gdt, List.set_set]
    rw [dec16_of_pos _ hgf (by omega), inc16_of_lt _ (by omega)]
    have e : (c.gdt.getD g default).bg_free_inodes_count - 1 + 1 =
        (c.gdt.getD g default).bg_free_inodes_count := by omega
    rw [e]
    by_cases hd : S_ISDIR mode = true
    · rw [if_pos hd, inc16_of_lt _ (by omega), if_pos ⟨hd, by omega⟩,
        dec16_of_pos _ (by omega) (by omega)]
      exact set_getD_self c.gdt g default hg
    · rw [if_neg hd, if_neg (fun h => hd h.1)]
      exact set_getD_self c.gdt g default hg
  · intro x j
    rw [inode_given_data, hgd]
    dsimp only
    by_cases hx : x = (c.gdt.getD g default).bg_inode_bitmap
    · rw [if_pos hx, inode_taken_data, if_pos rfl, hx]
      by_cases hj : j < SIMPLEFS_BLOCK_SIZE * 8
      · rw [is_bitmap_bit_set_clear _ _ _ _ hbit hj, is_bitmap_bit_set_set _ _ _ _ hbit]
        by_cases hjb : j = bit
        · subst hjb
          rw [hclr]
          simp
        · simp [hjb]
      · rw [is_bitmap_bit_set_eq, is_bitmap_bit_set_eq, if_neg hj, if_neg hj]
    · rw [if_neg hx, inode_taken_data, if_neg hx]

/-- C37 (`alloc_inode` and `free_inode`, `src/metadata.cpp` 18-93). In a state
whose counts are in the range of their fields, with inode numbers that fit 32
bits, let `alloc_inode(mode)` return `n ≠ 0`. When `n ≥ s_first_ino`,
`free_inode(n, mode)` gives back the superblock (with `s_free_inodes_count`),
the group descriptors (with the group's `bg_free_inodes_count` and
`bg_used_dirs_count`) and every bit of the bitmaps as they were before the
allocation. When `n < s_first_ino`, `free_inode(n, mode)` changes nothing, and
`s_free_inodes_count` stays one below its value before the allocation. -/
theorem C37_alloc_then_free_inode (context : SimpleFS_Context) (mode : Nat)
    (hr : counts_in_range context)
    (hfit : context.gdt.length * context.sb.s_inodes_per_group < 4294967296)
    (hn : (alloc_inode context mode).1 ≠ 0) :
    (context.sb.s_first_ino ≤ (alloc_inode context mode).1 →
      (free_inode (alloc_inode context mode).2 (alloc_inode context mode).1 mode).sb =
        context.sb ∧
      (free_inode (alloc_inode context mode).2 (alloc_inode context mode).1 mode).gdt =
        context.gdt ∧
      ∀ x j, is_bitmap_bit_set
          ((free_inode (alloc_inode context mode).2 (alloc_inode context mode).1
            mode).device_fd.data x) SIMPLEFS_BLOCK_SIZE j =
        is_bitmap_bit_set (context.device_fd.data x) SIMPLEFS_BLOCK_SIZE j) ∧
    ((alloc_inode context mode).1 < context.sb.s_first_ino →
      free_inode (alloc_inode context mode).2 (alloc_inode context mode).1 mode =
        (alloc_inode context mode).2 ∧
      (free_inode (alloc_inode context mode).2 (alloc_inode context mode).1
        mode).sb.s_free_inodes_count + 1 = context.sb.s_free_inodes_count) := by
  rcases alloc_inode_cases context mode with ⟨e, he⟩ |
    ⟨g, bit, hg, hbit, hf, hgf, hrd, hwr, hclr, hne, hle, he⟩
  · rw [he] at hn
    exact absurd rfl hn
  obtain ⟨r1, r2, r3⟩ := hr
  have hlt : g * context.sb.s_inodes_per_group + bit + 1 < 4294967296 := by
    have : (g + 1) * context.sb.s_inodes_per_group ≤
        context.gdt.length * context.sb.s_inodes_per_group :=
      Nat.mul_le_mul_right _ (by omega)
    rw [Nat.add_mul, Nat.one_mul] at this
    omega
  have hu : u32 (g * context.sb.s_inodes_per_group + bit + 1) =
      g * context.sb.s_inodes_per_group + bit + 1 := u32_of_lt _ hlt
  rw [hu] at hle hne
  rw [he, hu]
  dsimp only
  have hdiv : (g * context.sb.s_inodes_per_group + bit + 1 - 1) / context.sb.s_inodes_per_group
      = g := by
    rw [Nat.add_sub_cancel, Nat.mul_comm, Nat.mul_add_div (by omega), Nat.div_eq_of_lt hbit]
    rfl
  have hmod : (g * context.sb.s_inodes_per_group + bit + 1 - 1) % context.sb.s_inodes_per_group
      = bit := by
    rw [Nat.add_sub_cancel, Nat.mul_comm, Nat.mul_add_mod, Nat.mod_eq_of_lt hbit]
  constructor
  · intro hfirst
    have hgiven := free_inode_given (inode_taken context mode g bit)
      (g * context.sb.s_inodes_per_group + bit + 1) mode (by omega) hle hfirst
      (by
        rw [inode_taken_ipg, hdiv]
        show g < (inode_taken context mode g bit).gdt.length
        rw [inode_taken_gdt, List.length_set]
        exact hg)
      (by
        rw [inode_taken_ipg, hdiv, inode_taken_gdt, getD_set, if_pos ⟨rfl, hg⟩]
        exact hrd)
      (by
        rw [inode_taken_ipg, hdiv, inode_taken_gdt, getD_set, if_pos ⟨rfl, hg⟩]
        exact hwr)
    rw [inode_taken_ipg, hdiv, hmod] at hgiven
    rw [hgiven]
    exact inode_given_taken context mode g bit hg (by omega) r2 hgf (r3 g hg).2.1
      (r3 g hg).2.2 hclr
  · intro hsmall
    have hsame : free_inode (inode_taken context mode g bit)
        (g * context.sb.s_inodes_per_group + bit + 1) mode = inode_taken context mode g bit := by
      unfold free_inode
      by_cases h0 : g * context.sb.s_inodes_per_group + bit + 1 = 0 ∨
          g * context.sb.s_inodes_per_group + bit + 1 >
            (inode_taken context mode g bit).sb.s_inodes_count
      · rw [if_pos h0]
      · rw [if_neg h0, if_pos ⟨hsmall, by omega⟩]
    rw [hsame]
    refine ⟨rfl, ?_⟩
    rw [inode_taken_free, dec32_of_pos _ (by omega) (by omega)]
    omega

/-- Witness for C37. On `ctxAlloc` (inodes 1 to 11 in use, `s_first_ino = 11`)
the call for a directory returns inode 12, and freeing it restores the state.
On the freshly formatted 64-block image (inodes 1 and 2 in use,
`s_first_ino = 11`, 1022 free inodes) the call returns inode 3, `free_inode`
ignores it, and `s_free_inodes_count` stays at 1021. -/
theorem C37_alloc_then_free_inode_witness :
    ((alloc_inode ctxAlloc S_IFDIR).1 = 12 ∧ ctxAlloc.sb.s_first_ino = 11 ∧
      fresh64.isSome = true ∧ (alloc_inode ctxFresh64 S_IFREG).1 = 3 ∧
      ctxFresh64.sb.s_first_ino = 11 ∧ ctxFresh64.sb.s_free_inodes_count = 1022) ∧
    ((free_inode (alloc_inode ctxAlloc S_IFDIR).2 (alloc_inode ctxAlloc S_IFDIR).1 S_IFDIR).sb =
        ctxAlloc.sb ∧
      (free_inode (alloc_inode ctxAlloc S_IFDIR).2 (alloc_inode ctxAlloc S_IFDIR).1 S_IFDIR).gdt =
        ctxAlloc.gdt ∧
      ∀ x j, is_bitmap_bit_set
          ((free_inode (alloc_inode ctxAlloc S_IFDIR).2 (alloc_inode ctxAlloc S_IFDIR).1
            S_IFDIR).device_fd.data x) SIMPLEFS_BLOCK_SIZE j =
        is_bitmap_bit_set (ctxAlloc.device_fd.data x) SIMPLEFS_BLOCK_SIZE j) ∧
    (free_inode (alloc_inode ctxFresh64 S_IFREG).2 (alloc_inode ctxFresh64 S_IFREG).1 S_IFREG =
        (alloc_inode ctxFresh64 S_IFREG).2 ∧
      (free_inode (alloc_inode ctxFresh64 S_IFREG).2 (alloc_inode ctxFresh64 S_IFREG).1
        S_IFREG).sb.s_free_inodes_count + 1 = ctxFresh64.sb.s_free_inodes_count) :=
  ⟨⟨by decide!, rfl, by decide!, by decide!, by decide!, by decide!⟩,
    (C37_alloc_then_free_inode ctxAlloc S_IFDIR (by decide!) (by decide!) (by decide!)).1
      (by decide!),
    (C37_alloc_then_free_inode ctxFresh64 S_IFREG (by decide!) (by decide!) (by decide!)).2
      (by decide!)⟩

/-! ## Inode records on the formatter's layout -/

/-- The result of the formatter has the formatter's layout. -/
theorem mkfs_formatter_layout (fd : Device) (n now now2 : Nat) (hn : n < 4294967296)
    (r : Device × SimpleFS_SuperBlock × List SimpleFS_GroupDesc)
    (h : mkfs fd n now = some r) : formatter_layout n (mkfs_context r now2) := by
  obtain ⟨h64, hsb, hgdt, hfit, _⟩ := mkfs_image fd n now hn r h
  refine ⟨h64, hn, ?_, ?_, ?_, ?_, ?_, ?_⟩
  · show r.2.1.s_blocks_count = n
    rw [hsb]
    rfl
  · show r.2.1.s_blocks_per_group = 32768
    rw [hsb]
    rfl
  · show r.2.1.s_inodes_per_group = 1024
    rw [hsb]
    rfl
  · show r.2.1.s_inodes_count = spec_groups n * 1024
    rw [hsb]
    rfl
  · show r.2.2.length = spec_groups n
    rw [hgdt, List.length_map, List.length_range]
  · intro g hg
    have e : (mkfs_context r now2).gdt.getD g default =
        spec_final_gd n (spec_groups n) (spec_gdt_blocks n) g := by
      show r.2.2.getD g default = _
      rw [hgdt, List.getD_eq_getElem _ _ (by rw [List.length_map, List.length_range]; exact hg),
        List.getElem_map, List.getElem_range]
    rw [e]
    exact ⟨rfl, rfl, rfl, hfit g hg⟩

/-- The slot of inode `num` on the formatter's layout. -/
theorem formatter_inode_location (n : Nat) (c : SimpleFS_Context) (hl : formatter_layout n c)
    (num : Nat) (h1 : 1 ≤ num) (h2 : num ≤ c.sb.s_inodes_count) :
    inode_location c num =
      .ok ((c.gdt.getD ((num - 1) / 1024) default).bg_inode_table + (num - 1) % 1024 / 32,
        (num - 1) % 1024 % 32 * 128) ∧
    (num - 1) / 1024 < spec_groups n ∧
    ((c.gdt.getD ((num - 1) / 1024) default).bg_inode_table + (num - 1) % 1024 / 32) / 32768 =
      (num - 1) / 1024 ∧
    (c.gdt.getD ((num - 1) / 1024) default).bg_inode_table + (num - 1) % 1024 / 32 < n := by
  obtain ⟨h64, hn, l1, l2, l3, l4, l5, l6⟩ := hl
  obtain ⟨f1, f2, f3, f4, f5, f6, f7⟩ := spec_groups_facts n h64 hn
  rw [l4] at h2
  have hg : (num - 1) / 1024 < spec_groups n := by
    rw [Nat.div_lt_iff_lt_mul (by decide)]
    omega
  obtain ⟨t1, t2, t3, t4⟩ := l6 _ hg
  obtain ⟨b1, b2, _, _⟩ := spec_block_bitmap_bounds (spec_gdt_blocks n) ((num - 1) / 1024) f6
  have hb : (num - 1) % 1024 / 32 < 32 := by
    have := Nat.mod_lt (num - 1) (by decide : 1024 > 0)
    omega
  have hT : (c.gdt.getD ((num - 1) / 1024) default).bg_inode_table + (num - 1) % 1024 / 32 < n := by
    rw [t3]
    omega
  refine ⟨?_, hg, ?_, hT⟩
  · unfold inode_location
    rw [l4, l3, l5, l1]
    rw [if_neg (by omega)]
    dsimp only
    rw [if_neg (by omega)]
    have e32 : SIMPLEFS_BLOCK_SIZE / SIMPLEFS_INODE_SIZE = 32 := by decide
    have e128 : SIMPLEFS_INODE_SIZE = 128 := rfl
    rw [e32, e128, u32_of_lt _ (by omega), if_neg (by rw [t3]; omega)]
  · rw [t3]
    generalize (num - 1) / 1024 = g at b1 b2 ⊢
    generalize (num - 1) % 1024 / 32 = b at hb ⊢
    have e : spec_block_bitmap (spec_gdt_blocks n) g + 2 + b =
        (spec_block_bitmap (spec_gdt_blocks n) g + 2 + b - g * 32768) + g * 32768 := by omega
    rw [e, Nat.add_mul_div_right _ _ (by decide), Nat.div_eq_of_lt (by omega)]
    omega

/-- Source function `write_inode_to_disk` when the slot is found and its
block can be read and written. -/
theorem write_inode_to_disk_at (c : SimpleFS_Context) (num : Nat) (inode : Buf) (T o : Nat)
    (hloc : inode_location c num = .ok (T, o)) (hr : c.device_fd.readable T = true)
    (hw : c.device_fd.writable T = true) :
    write_inode_to_disk c num inode =
      (0, { c with device_fd :=
        (c.device_fd.put T (blit (c.device_fd.data T) o inode 0 SIMPLEFS_INODE_SIZE)) }) := by
  unfold write_inode_to_disk
  rw [hloc]
  dsimp only
  rw [read_block_of_readable _ _ hr]
  dsimp only
  rw [write_block_put _ _ _ hw]

theorem read_inode_from_disk_at (c : SimpleFS_Context) (num : Nat) (T o : Nat)
    (hloc : inode_location c num = .ok (T, o)) (hr : c.device_fd.readable T = true) :
    read_inode_from_disk c num =
      (.ok (blit zeroBuf 0 (c.device_fd.data T) o SIMPLEFS_INODE_SIZE), c) := by
  unfold read_inode_from_disk
  rw [hloc]
  dsimp only
  rw [read_block_of_readable _ _ hr]

/-- The two operations on an inode number outside `[1, s_inodes_count]`. -/
theorem inode_io_invalid (c : SimpleFS_Context) (num : Nat) (x : Buf)
    (h : num = 0 ∨ num > c.sb.s_inodes_count) :
    write_inode_to_disk c num x = (-(EINVAL : Int), setErrno c EINVAL) ∧
    read_inode_from_disk c num = (.error (-(EINVAL : Int)), setErrno c EINVAL) := by
  have e : inode_location c num = .error (-(EINVAL : Int), setErrno c EINVAL) := by
    unfold inode_location
    rw [if_pos h]
  unfold write_inode_to_disk read_inode_from_disk
  rw [e]
  exact ⟨rfl, rfl⟩

/-- C36 (`write_inode_to_disk` and `read_inode_from_disk`, `src/metadata.cpp`
194-268). On the formatter's layout of a device of `n` blocks whose blocks can
be read and written, for every inode number `num` and every record `x`: when
`1 ≤ num ≤ s_inodes_count`, the slot of `num` is in block
`inode_table + ((num−1) mod 1024) div 32` of group `(num−1) div 1024`, at
offset `(((num−1) mod 1024) mod 32)·128`; the write returns 0, the read of
`num` after it returns the 128 bytes of `x`, and the read of every other inode
number returns what it returned before the write. When `num = 0` or
`num > s_inodes_count`, both operations return `-EINVAL`, set `errno` to
`EINVAL` and leave the device as it is. -/
theorem C36_inode_record_io (n : Nat) (c : SimpleFS_Context) (hl : formatter_layout n c)
    (hio : ∀ b, b < n → c.device_fd.readable b = true ∧ c.device_fd.writable b = true)
    (num : Nat) (x : Buf) :
    (1 ≤ num → num ≤ c.sb.s_inodes_count →
      inode_location c num =
        .ok ((c.gdt.getD ((num - 1) / 1024) default).bg_inode_table + (num - 1) % 1024 / 32,
          (num - 1) % 1024 % 32 * 128) ∧
      (write_inode_to_disk c num x).1 = 0 ∧
      (∃ y, (read_inode_from_disk (write_inode_to_disk c num x).2 num).1 = .ok y ∧
        ∀ i, i < SIMPLEFS_INODE_SIZE → y i = x i) ∧
      ∀ m, m ≠ num → (read_inode_from_disk (write_inode_to_disk c num x).2 m).1 =
        (read_inode_from_disk c m).1) ∧
    (num = 0 ∨ num > c.sb.s_inodes_count →
      write_inode_to_disk c num x = (-(EINVAL : Int), setErrno c EINVAL) ∧
      read_inode_from_disk c num = (.error (-(EINVAL : Int)), setErrno c EINVAL)) := by
  refine ⟨?_, inode_io_invalid c num x⟩
  intro h1 h2
  obtain ⟨hloc, hg, hdiv, hT⟩ := formatter_inode_location n c hl num h1 h2
  refine ⟨hloc, ?_⟩
  generalize hTe : (c.gdt.getD ((num - 1) / 1024) default).bg_inode_table +
    (num - 1) % 1024 / 32 = T at hloc hdiv hT
  rw [write_inode_to_disk_at c num x T _ hloc (hio T hT).1 (hio T hT).2]
  dsimp only
  generalize hc' : ({ c with device_fd :=
    (c.device_fd.put T (blit (c.device_fd.data T) ((num - 1) % 1024 % 32 * 128) x 0
      SIMPLEFS_INODE_SIZE)) } : SimpleFS_Context) = c'
  have e1 : c'.device_fd = c.device_fd.put T (blit (c.device_fd.data T)
      ((num - 1) % 1024 % 32 * 128) x 0 SIMPLEFS_INODE_SIZE) := by rw [← hc']
  have e2 : c'.sb = c.sb := by rw [← hc']
  have e3 : c'.gdt = c.gdt := by rw [← hc']
  have hl' : same_layout c c' :=
    same_layout_of_eq _ _ (by rw [e1]; rfl) (by rw [e1]; rfl) e2 e3 (by rw [← hc'])
  have hrd' : ∀ b, c'.device_fd.readable b = c.device_fd.readable b := by
    intro b
    rw [hl'.1]
  refine ⟨rfl, ?_, ?_⟩
  · refine ⟨_, by
      rw [read_inode_from_disk_at c' num T _ (inode_location_layout c c' num hl' _ hloc)
        (by rw [hrd']; exact (hio T hT).1)], ?_⟩
    intro i hi
    rw [e1, put_data_same]
    unfold blit
    rw [if_pos ⟨Nat.zero_le _, by omega⟩, if_pos ⟨by omega, by omega⟩]
    congr 1
    omega
  · intro m hm
    by_cases hv : m = 0 ∨ m > c.sb.s_inodes_count
    · rw [(inode_io_invalid c m x hv).2, (inode_io_invalid c' m x (by rw [e2]; exact hv)).2]
    · obtain ⟨hlocm, _, hdivm, hTm⟩ := formatter_inode_location n c hl m (by omega) (by omega)
      generalize hTme : (c.gdt.getD ((m - 1) / 1024) default).bg_inode_table +
        (m - 1) % 1024 / 32 = Tm at hlocm hdivm hTm
      rw [read_inode_from_disk_at c m Tm _ hlocm (hio Tm hTm).1,
        read_inode_from_disk_at c' m Tm _ (inode_location_layout c c' m hl' _ hlocm)
          (by rw [hrd']; exact (hio Tm hTm).1)]
      dsimp only
      congr 1
      apply inode_record_congr
      intro i hi
      rw [e1]
      by_cases hTT : Tm = T
      · rw [hTT, put_data_same]
        unfold blit
        rw [if_neg]
        have e128 : SIMPLEFS_INODE_SIZE = 128 := rfl
        rw [e128] at hi ⊢
        intro hc
        -- the same block and overlapping slots give the same inode number
        have hgm : (m - 1) / 1024 = (num - 1) / 1024 := by
          rw [← hdivm, ← hdiv, hTT]
        have hbm : (m - 1) % 1024 / 32 = (num - 1) % 1024 / 32 := by
          rw [hgm] at hTme
          omega
        have hom : (m - 1) % 1024 % 32 = (num - 1) % 1024 % 32 := by
          have := Nat.mod_lt ((m - 1) % 1024) (by decide : 32 > 0)
          have := Nat.mod_lt ((num - 1) % 1024) (by decide : 32 > 0)
          omega
        have := Nat.div_add_mod ((m - 1) % 1024) 32
        have := Nat.div_add_mod ((num - 1) % 1024) 32
        have := Nat.div_add_mod (m - 1) 1024
        have := Nat.div_add_mod (num - 1) 1024
        omega
      · rw [put_data_ne _ _ _ _ hTT]

/-- Witness for C36 on the freshly formatted 64-block image: inode 3 with the
record `treeFile`, and the inode number 1025, which is above
`s_inodes_count = 1024`. -/
theorem C36_inode_record_io_witness :
    (formatter_layout 64 ctxFresh64 ∧ ctxFresh64.sb.s_inodes_count = 1024 ∧
      (ctxFresh64.gdt.getD 0 default).bg_inode_table = 5) ∧
    (inode_location ctxFresh64 3 =
        .ok ((ctxFresh64.gdt.getD ((3 - 1) / 1024) default).bg_inode_table + (3 - 1) % 1024 / 32,
          (3 - 1) % 1024 % 32 * 128) ∧
      (write_inode_to_disk ctxFresh64 3 treeFile).1 = 0 ∧
      (∃ y, (read_inode_from_disk (write_inode_to_disk ctxFresh64 3 treeFile).2 3).1 = .ok y ∧
        ∀ i, i < SIMPLEFS_INODE_SIZE → y i = treeFile i) ∧
      ∀ m, m ≠ 3 → (read_inode_from_disk (write_inode_to_disk ctxFresh64 3 treeFile).2 m).1 =
        (read_inode_from_disk ctxFresh64 m).1) ∧
    (write_inode_to_disk ctxFresh64 1025 treeFile =
        (-(EINVAL : Int), setErrno ctxFresh64 EINVAL) ∧
      read_inode_from_disk ctxFresh64 1025 = (.error (-(EINVAL : Int)), setErrno ctxFresh64 EINVAL)) :=
  ⟨⟨by decide!, by decide!, by decide!⟩,
    (C36_inode_record_io 64 ctxFresh64 (by decide!) (by decide!) 3 treeFile).1
      (by decide) (by decide!),
    (C36_inode_record_io 64 ctxFresh64 (by decide!) (by decide!) 1025 treeFile).2
      (Or.inr (by decide!))⟩

/-! ## The blocks written by the metadata flush -/

theorem write_block_ignore_done (fd : Device) (b : Nat) (buf : Buf) (S : Nat → Buf)
    (hw : fd.writable b = true) (hS : S b = buf) :
    (∀ x, fd.data x = S x → (write_block_ignore fd b buf).data x = S x) ∧
    (write_block_ignore fd b buf).data b = S b := by
  unfold write_block_ignore
  rw [write_block_put _ _ _ hw]
  dsimp only
  constructor
  · intro x hx
    by_cases hxb : x = b
    · rw [hxb, put_data_same, hS]
    · rw [put_data_ne _ _ _ _ hxb]
      exact hx
  · rw [put_data_same, hS]

/-- A GDT loop of the flush whose targets can be written: every target holds
its block of the table afterwards, and a block that held its image keeps it. -/
theorem write_gdt_blocks_done (gdt : List SimpleFS_GroupDesc) (first : Nat) (S : Nat → Buf)
    (G : Nat) :
    ∀ (fd : Device), (∀ i, i < G → fd.writable (u32 (first + i)) = true) →
      (∀ i, i < G → S (u32 (first + i)) = gdt_block gdt i) →
      (∀ i, i < G → ¬ u32 (i * SIMPLEFS_BLOCK_SIZE) ≥ u32 (gdt.length * 32)) →
      (∀ x, fd.data x = S x → (write_gdt_blocks gdt first G fd).data x = S x) ∧
      ∀ i, i < G → (write_gdt_blocks gdt first G fd).data (u32 (first + i)) =
        S (u32 (first + i)) := by
  unfold write_gdt_blocks
  induction G with
  | zero =>
    intro fd _ _ _
    exact ⟨fun _ h => h, fun i hi => absurd hi (Nat.not_lt_zero _)⟩
  | succ G ih =>
    intro fd hw hS hnb
    rw [List.range_succ, List.foldl_append, List.foldl_cons, List.foldl_nil]
    obtain ⟨i1, i2⟩ := ih fd (fun i hi => hw i (by omega)) (fun i hi => hS i (by omega))
      (fun i hi => hnb i (by omega))
    rw [if_neg (hnb G (by omega))]
    obtain ⟨f1, f2, _⟩ := write_gdt_blocks_frame gdt first fd G
    unfold write_gdt_blocks at f1 f2
    obtain ⟨w1, w2⟩ := write_block_ignore_done
      ((List.range G).foldl (fun d i =>
        if u32 (i * SIMPLEFS_BLOCK_SIZE) ≥ u32 (gdt.length * 32) then d
        else write_block_ignore d (u32 (first + i)) (gdt_block gdt i)) fd)
      (u32 (first + G)) (gdt_block gdt G) S
      (by rw [f2]; exact hw G (by omega)) (hS G (by omega))
    refine ⟨fun x hx => w1 x (i1 x hx), fun i hi => ?_⟩
    by_cases hiG : i = G
    · rw [hiG]
      exact w2
    · exact w1 _ (i2 i (by omega))

/-- The backup loop of the flush whose targets can be written. -/
theorem sync_backups_done (gdt : List SimpleFS_GroupDesc) (bpg G : Nat) (buf : Buf)
    (S : Nat → Buf) (m : Nat) :
    ∀ (fd : Device),
      (∀ k, k < m → is_backup_group (k + 1) = true →
        fd.writable (u32 ((k + 1) * bpg)) = true ∧
        ∀ i, i < G → fd.writable (u32 (u32 ((k + 1) * bpg) + 1 + i)) = true) →
      (∀ k, k < m → is_backup_group (k + 1) = true →
        S (u32 ((k + 1) * bpg)) = buf ∧
        ∀ i, i < G → S (u32 (u32 ((k + 1) * bpg) + 1 + i)) = gdt_block gdt i) →
      (∀ i, i < G → ¬ u32 (i * SIMPLEFS_BLOCK_SIZE) ≥ u32 (gdt.length * 32)) →
      (∀ x, fd.data x = S x →
        ((List.range m).foldl (fun d k =>
          if (!is_backup_group (k + 1)) = true then d
          else write_gdt_blocks gdt (u32 ((k + 1) * bpg) + 1) G
            (write_block_ignore d (u32 ((k + 1) * bpg)) buf)) fd).data x = S x) ∧
      ∀ k, k < m → is_backup_group (k + 1) = true →
        ((List.range m).foldl (fun d k =>
          if (!is_backup_group (k + 1)) = true then d
          else write_gdt_blocks gdt (u32 ((k + 1) * bpg) + 1) G
            (write_block_ignore d (u32 ((k + 1) * bpg)) buf)) fd).data (u32 ((k + 1) * bpg)) =
          S (u32 ((k + 1) * bpg)) ∧
        ∀ i, i < G →
          ((List.range m).foldl (fun d k =>
            if (!is_backup_group (k + 1)) = true then d
            else write_gdt_blocks gdt (u32 ((k + 1) * bpg) + 1) G
              (write_block_ignore d (u32 ((k + 1) * bpg)) buf)) fd).data
                (u32 (u32 ((k + 1) * bpg) + 1 + i)) =
            S (u32 (u32 ((k + 1) * bpg) + 1 + i)) := by
  induction m with
  | zero =>
    intro fd _ _ _
    exact ⟨fun _ h => h, fun k hk => absurd hk (Nat.not_lt_zero _)⟩
  | succ m ih =>
    intro fd hw hS hnb
    rw [List.range_succ, List.foldl_append, List.foldl_cons, List.foldl_nil]
    obtain ⟨i1, i2⟩ := ih fd (fun k hk => hw k (by omega)) (fun k hk => hS k (by omega)) hnb
    obtain ⟨f1, f2, _⟩ := sync_backups_frame gdt bpg G buf fd m
    generalize (List.range m).foldl (fun d k =>
        if (!is_backup_group (k + 1)) = true then d
        else write_gdt_blocks gdt (u32 ((k + 1) * bpg) + 1) G
          (write_block_ignore d (u32 ((k + 1) * bpg)) buf)) fd = d0 at i1 i2 f1 f2 ⊢
    by_cases hb : is_backup_group (m + 1) = true
    · rw [hb, if_neg (by decide)]
      obtain ⟨hw1, hw2⟩ := hw m (by omega) hb
      obtain ⟨hS1, hS2⟩ := hS m (by omega) hb
      obtain ⟨w1, w2⟩ := write_block_ignore_done d0 (u32 ((m + 1) * bpg)) buf S
        (by rw [f2]; exact hw1) hS1
      obtain ⟨wf1, wf2, _⟩ := write_block_ignore_frame d0 (u32 ((m + 1) * bpg)) buf
      obtain ⟨g1, g2⟩ := write_gdt_blocks_done gdt (u32 ((m + 1) * bpg) + 1) S G
        (write_block_ignore d0 (u32 ((m + 1) * bpg)) buf)
        (fun i hi => by rw [wf2, f2]; exact hw2 i hi) hS2 hnb
      refine ⟨fun x hx => g1 x (w1 x (i1 x hx)), fun k hk hbk => ?_⟩
      by_cases hkm : k = m
      · subst hkm
        exact ⟨g1 _ w2, fun i hi => g2 i hi⟩
      · obtain ⟨p1, p2⟩ := i2 k (by omega) hbk
        exact ⟨g1 _ (w1 _ p1), fun i hi => g1 _ (w1 _ (p2 i hi))⟩
    · have hb' : is_backup_group (m + 1) = false := by
        cases h : is_backup_group (m + 1)
        · rfl
        · exact absurd h hb
      rw [hb', if_pos (by decide)]
      refine ⟨i1, fun k hk hbk => ?_⟩
      have hkm : k ≠ m := by
        intro e
        rw [e, hb'] at hbk
        exact Bool.noConfusion hbk
      exact i2 k (by omega) hbk

/-- The metadata flush on a device whose targets can be written: every target
holds its image afterwards. `S` gives the image of a block. -/
theorem sync_fs_metadata_done (c : SimpleFS_Context) (S : Nat → Buf)
    (hlen : c.gdt.length ≠ 0)
    (hw1 : c.device_fd.writable 1 = true)
    (hwG : ∀ i, i < (u32 (c.gdt.length * 32) + SIMPLEFS_BLOCK_SIZE - 1) / SIMPLEFS_BLOCK_SIZE →
      c.device_fd.writable (u32 (1 + 1 + i)) = true)
    (hwB : ∀ k, k < c.gdt.length - 1 → is_backup_group (k + 1) = true →
      c.device_fd.writable (u32 ((k + 1) * c.sb.s_blocks_per_group)) = true ∧
      ∀ i, i < (u32 (c.gdt.length * 32) + SIMPLEFS_BLOCK_SIZE - 1) / SIMPLEFS_BLOCK_SIZE →
        c.device_fd.writable (u32 (u32 ((k + 1) * c.sb.s_blocks_per_group) + 1 + i)) = true)
    (hS1 : S 1 = blit zeroBuf 0 (encode_sb c.sb) 0 1024)
    (hSG : ∀ i, i < (u32 (c.gdt.length * 32) + SIMPLEFS_BLOCK_SIZE - 1) / SIMPLEFS_BLOCK_SIZE →
      S (u32 (1 + 1 + i)) = gdt_block c.gdt i)
    (hSB : ∀ k, k < c.gdt.length - 1 → is_backup_group (k + 1) = true →
      S (u32 ((k + 1) * c.sb.s_blocks_per_group)) = blit zeroBuf 0 (encode_sb c.sb) 0 1024 ∧
      ∀ i, i < (u32 (c.gdt.length * 32) + SIMPLEFS_BLOCK_SIZE - 1) / SIMPLEFS_BLOCK_SIZE →
        S (u32 (u32 ((k + 1) * c.sb.s_blocks_per_group) + 1 + i)) = gdt_block c.gdt i)
    (hnb : ∀ i, i < (u32 (c.gdt.length * 32) + SIMPLEFS_BLOCK_SIZE - 1) / SIMPLEFS_BLOCK_SIZE →
      ¬ u32 (i * SIMPLEFS_BLOCK_SIZE) ≥ u32 (c.gdt.length * 32)) :
    (sync_fs_metadata c).device_fd.data 1 = S 1 ∧
    (∀ i, i < (u32 (c.gdt.length * 32) + SIMPLEFS_BLOCK_SIZE - 1) / SIMPLEFS_BLOCK_SIZE →
      (sync_fs_metadata c).device_fd.data (u32 (1 + 1 + i)) = S (u32 (1 + 1 + i))) ∧
    ∀ k, k < c.gdt.length - 1 → is_backup_group (k + 1) = true →
      (sync_fs_metadata c).device_fd.data (u32 ((k + 1) * c.sb.s_blocks_per_group)) =
        S (u32 ((k + 1) * c.sb.s_blocks_per_group)) ∧
      ∀ i, i < (u32 (c.gdt.length * 32) + SIMPLEFS_BLOCK_SIZE - 1) / SIMPLEFS_BLOCK_SIZE →
        (sync_fs_metadata c).device_fd.data
            (u32 (u32 ((k + 1) * c.sb.s_blocks_per_group) + 1 + i)) =
          S (u32 (u32 ((k + 1) * c.sb.s_blocks_per_group) + 1 + i)) := by
  unfold sync_fs_metadata
  dsimp only
  rw [write_block_put _ _ _ hw1]
  dsimp only
  rw [if_neg hlen]
  have d1 : (c.device_fd.put 1 (blit zeroBuf 0 (encode_sb c.sb) 0 1024)).data 1 = S 1 := by
    rw [put_data_same, hS1]
  have dw : (c.device_fd.put 1 (blit zeroBuf 0 (encode_sb c.sb) 0 1024)).writable =
      c.device_fd.writable := rfl
  obtain ⟨g1, g2⟩ := write_gdt_blocks_done c.gdt (1 + 1) S
    ((u32 (c.gdt.length * 32) + SIMPLEFS_BLOCK_SIZE - 1) / SIMPLEFS_BLOCK_SIZE)
    (c.device_fd.put 1 (blit zeroBuf 0 (encode_sb c.sb) 0 1024))
    (fun i hi => by rw [dw]; exact hwG i hi) hSG hnb
  obtain ⟨gf1, gf2, _⟩ := write_gdt_blocks_frame c.gdt (1 + 1)
    (c.device_fd.put 1 (blit zeroBuf 0 (encode_sb c.sb) 0 1024))
    ((u32 (c.gdt.length * 32) + SIMPLEFS_BLOCK_SIZE - 1) / SIMPLEFS_BLOCK_SIZE)
  obtain ⟨b1, b2⟩ := sync_backups_done c.gdt c.sb.s_blocks_per_group
    ((u32 (c.gdt.length * 32) + SIMPLEFS_BLOCK_SIZE - 1) / SIMPLEFS_BLOCK_SIZE)
    (blit zeroBuf 0 (encode_sb c.sb) 0 1024) S (c.gdt.length - 1)
    (write_gdt_blocks c.gdt (1 + 1)
      ((u32 (c.gdt.length * 32) + SIMPLEFS_BLOCK_SIZE - 1) / SIMPLEFS_BLOCK_SIZE)
      (c.device_fd.put 1 (blit zeroBuf 0 (encode_sb c.sb) 0 1024)))
    (fun k hk hb => by
      rw [gf2, dw]
      exact hwB k hk hb) hSB hnb
  exact ⟨b1 1 (g1 1 d1), fun i hi => b1 _ (g2 i hi), b2⟩

/-- The flush parameters on the formatter's layout. -/
theorem formatter_gdt_blocks (n : Nat) (c : SimpleFS_Context) (hl : formatter_layout n c) :
    (u32 (c.gdt.length * 32) + SIMPLEFS_BLOCK_SIZE - 1) / SIMPLEFS_BLOCK_SIZE =
      spec_gdt_blocks n ∧
    (∀ i, i < spec_gdt_blocks n →
      ¬ u32 (i * SIMPLEFS_BLOCK_SIZE) ≥ u32 (c.gdt.length * 32)) := by
  obtain ⟨h64, hn, _, _, _, _, l5, _⟩ := hl
  obtain ⟨f1, f2, _, _, _, f6, _⟩ := spec_groups_facts n h64 hn
  have hB : SIMPLEFS_BLOCK_SIZE = 4096 := rfl
  rw [l5, (mkfs_params n h64 hn).2.1]
  refine ⟨rfl, fun i hi => ?_⟩
  rw [hB, u32_of_lt _ (by omega), u32_of_lt _ (by omega)]
  unfold spec_gdt_blocks at hi
  omega

/-- The flush targets of the model are the targets the specification lists. -/
theorem sync_target_spec (n : Nat) (c : SimpleFS_Context) (hl : formatter_layout n c) (x : Nat)
    (h : sync_target c x) : spec_flush_target n x := by
  obtain ⟨hG, _⟩ := formatter_gdt_blocks n c hl
  obtain ⟨h64, hn, _, l2, _, _, l5, _⟩ := hl
  obtain ⟨f1, f2, _, _, _, f6, _⟩ := spec_groups_facts n h64 hn
  unfold sync_target at h
  rw [hG, l5, l2] at h
  rcases h with h | ⟨i, hi, h⟩ | ⟨g, g1, g2, g3, h | ⟨i, hi, h⟩⟩
  · exact Or.inl h
  · rw [u32_of_lt _ (by omega)] at h
    exact Or.inr (Or.inl ⟨by omega, by omega⟩)
  · rw [u32_of_lt _ (by omega)] at h
    exact Or.inr (Or.inr ⟨g, g1, g2, g3, by omega, by omega⟩)
  · have e1 : u32 (g * 32768) = g * 32768 := u32_of_lt _ (by omega)
    rw [e1, u32_of_lt _ (by omega)] at h
    exact Or.inr (Or.inr ⟨g, g1, g2, g3, by omega, by omega⟩)

/-- A flush target lies in a group that holds a copy, before the block bitmap
of that group. -/
theorem spec_flush_target_group (n : Nat) (h64 : 64 ≤ n) (hn : n < 4294967296) (x : Nat)
    (h : spec_flush_target n x) :
    ∃ g, g < spec_groups n ∧ is_backup_group g = true ∧ g * 32768 ≤ x ∧
      x < spec_block_bitmap (spec_gdt_blocks n) g ∧ (g = 0 → 1 ≤ x) := by
  obtain ⟨f1, f2, _, _, _, f6, _⟩ := spec_groups_facts n h64 hn
  have hb0 : is_backup_group 0 = true := by decide
  rcases h with h | ⟨h1, h2⟩ | ⟨g, g1, g2, g3, h1, h2⟩
  · refine ⟨0, by omega, hb0, by omega, ?_, fun _ => by omega⟩
    unfold spec_block_bitmap
    rw [if_pos rfl]
    omega
  · refine ⟨0, by omega, hb0, by omega, ?_, fun _ => by omega⟩
    unfold spec_block_bitmap
    rw [if_pos rfl]
    omega
  · refine ⟨g, g2, g3, h1, ?_, fun e => by omega⟩
    unfold spec_block_bitmap
    rw [if_neg (by omega), if_pos g3]
    omega

/-- Without wrap-around of the block numbers the flush targets of the model
are blocks the specification lists. -/
theorem sync_target_flush_block (c : SimpleFS_Context) (x : Nat)
    (hlen : c.gdt.length * 32 < 4294967296)
    (hfit : (c.gdt.length - 1) * c.sb.s_blocks_per_group +
      (c.gdt.length * 32 + 4095) / 4096 < 4294967296)
    (h : sync_target c x) : spec_flush_block c x := by
  have hB : SIMPLEFS_BLOCK_SIZE = 4096 := rfl
  unfold sync_target at h
  rw [u32_of_lt _ hlen, hB] at h
  have hG : (c.gdt.length * 32 + 4096 - 1) / 4096 = (c.gdt.length * 32 + 4095) / 4096 := rfl
  rw [hG] at h
  have hGle : (c.gdt.length * 32 + 4095) / 4096 < 4294967296 := by omega
  rcases h with h | ⟨i, hi, h⟩ | ⟨g, g1, g2, g3, h | ⟨i, hi, h⟩⟩
  · exact Or.inl h
  · rw [u32_of_lt _ (by omega)] at h
    exact Or.inr (Or.inl ⟨by omega, by omega⟩)
  · have hle : g * c.sb.s_blocks_per_group ≤ (c.gdt.length - 1) * c.sb.s_blocks_per_group :=
      Nat.mul_le_mul_right _ (by omega)
    rw [u32_of_lt _ (by omega)] at h
    exact Or.inr (Or.inr ⟨g, g1, g2, g3, by omega, by omega⟩)
  · have hle : g * c.sb.s_blocks_per_group ≤ (c.gdt.length - 1) * c.sb.s_blocks_per_group :=
      Nat.mul_le_mul_right _ (by omega)
    have e1 : u32 (g * c.sb.s_blocks_per_group) = g * c.sb.s_blocks_per_group :=
      u32_of_lt _ (by omega)
    rw [e1, u32_of_lt _ (by omega)] at h
    exact Or.inr (Or.inr ⟨g, g1, g2, g3, by omega, by omega⟩)

/-- On the formatter's layout the listed blocks are the targets described in
terms of the device size. -/
theorem spec_flush_block_iff (n : Nat) (c : SimpleFS_Context) (hl : formatter_layout n c)
    (x : Nat) : spec_flush_block c x ↔ spec_flush_target n x := by
  obtain ⟨h64, hn, _, l2, _, _, l5, _⟩ := hl
  unfold spec_flush_block spec_flush_target
  rw [l5, l2]
  have e : (spec_groups n * 32 + 4095) / 4096 = spec_gdt_blocks n := rfl
  rw [e]
  constructor
  · rintro (h | ⟨h1, h2⟩ | h)
    · exact Or.inl h
    · exact Or.inr (Or.inl ⟨h1, by omega⟩)
    · exact Or.inr (Or.inr h)
  · rintro (h | ⟨h1, h2⟩ | h)
    · exact Or.inl h
    · exact Or.inr (Or.inl ⟨h1, by omega⟩)
    · exact Or.inr (Or.inr h)

/-- On the formatter's layout the block numbers of the flush do not wrap. -/
theorem formatter_no_wrap (n : Nat) (c : SimpleFS_Context) (hl : formatter_layout n c) :
    c.gdt.length * 32 < 4294967296 ∧
    (c.gdt.length - 1) * c.sb.s_blocks_per_group +
      (c.gdt.length * 32 + 4095) / 4096 < 4294967296 := by
  obtain ⟨h64, hn, _, l2, _, _, l5, hg⟩ := hl
  obtain ⟨f1, f2, _, f4, _, f6, _⟩ := spec_groups_facts n h64 hn
  rw [l5, l2]
  have e : (spec_groups n * 32 + 4095) / 4096 = spec_gdt_blocks n := rfl
  rw [e]
  refine ⟨by omega, ?_⟩
  obtain ⟨_, _, _, hfit⟩ := hg (spec_groups n - 1) (by omega)
  obtain ⟨b1, _⟩ := spec_block_bitmap_bounds (spec_gdt_blocks n) (spec_groups n - 1) f6
  omega

/-- The formatter marks the metadata blocks of every group. -/
theorem mkfs_metadata_marked (fd : Device) (n now now2 : Nat) (hn : n < 4294967296)
    (r : Device × SimpleFS_SuperBlock × List SimpleFS_GroupDesc)
    (h : mkfs fd n now = some r) : metadata_marked n (mkfs_context r now2) := by
  obtain ⟨h64, _, _, _, hbits, _⟩ := mkfs_image fd n now hn r h
  obtain ⟨_, _, _, _, _, f6, _⟩ := spec_groups_facts n h64 hn
  intro g hg x hx
  have hm : spec_group_meta (spec_gdt_blocks n) g ≤ 1 + 1024 + 34 := by
    unfold spec_group_meta
    split_ifs <;> omega
  refine (hbits g hg x (by split_ifs at hx <;> omega)).mpr ?_
  unfold spec_group_used
  split_ifs at hx ⊢ <;> omega

/-- A flush target on the formatter's layout: its group, its position before
the block bitmap, its bit, and that no group has it as a bitmap or as a block
of the inode table. -/
theorem flush_target_facts (n : Nat) (c : SimpleFS_Context) (hl : formatter_layout n c)
    (hm : metadata_marked n c) (x : Nat) (h : spec_flush_target n x) :
    x ≠ 0 ∧ x < n ∧ x / c.sb.s_blocks_per_group < c.gdt.length ∧
    x < (c.gdt.getD (x / c.sb.s_blocks_per_group) default).bg_block_bitmap ∧
    block_bit_set c x = true ∧
    ∀ g, g < c.gdt.length →
      x ≠ (c.gdt.getD g default).bg_block_bitmap ∧
      x ≠ (c.gdt.getD g default).bg_inode_bitmap ∧
      ¬ ((c.gdt.getD g default).bg_inode_table ≤ x ∧
        x < (c.gdt.getD g default).bg_inode_table +
          c.sb.s_inodes_per_group * SIMPLEFS_INODE_SIZE / SIMPLEFS_BLOCK_SIZE) := by
  obtain ⟨h64, hn, _, l2, l3, _, l5, hg⟩ := hl
  obtain ⟨f1, f2, _, f4, _, f6, _⟩ := spec_groups_facts n h64 hn
  obtain ⟨g, g1, g2, g3, g4, g5⟩ := spec_flush_target_group n h64 hn x h
  obtain ⟨b1, b2, b3, b4⟩ := spec_block_bitmap_bounds (spec_gdt_blocks n) g f6
  obtain ⟨k1, k2, k3, k4⟩ := hg g g1
  have hq : x / 32768 = g := by omega
  have hr : x % 32768 = x - g * 32768 := by omega
  rw [l2, l3, l5, hq, k1]
  refine ⟨by omega, by omega, g1, g4, ?_, ?_⟩
  · unfold block_bit_set
    dsimp only
    rw [l2, hq, k1, hr]
    apply hm g g1
    by_cases h0 : g = 0
    · rw [if_pos h0]
      have := b4 h0
      omega
    · rw [if_neg h0]
      have := b3 h0
      omega
  · intro j hj
    obtain ⟨j1, j2, j3, j4⟩ := hg j hj
    obtain ⟨c1, c2, _, _⟩ := spec_block_bitmap_bounds (spec_gdt_blocks n) j f6
    rw [j1, j2, j3]
    have hI : 1024 * SIMPLEFS_INODE_SIZE / SIMPLEFS_BLOCK_SIZE = 32 := rfl
    rw [hI]
    by_cases hjg : j = g
    · subst hjg
      omega
    · rcases Nat.lt_or_gt_of_ne hjg with hlt | hgt
      · have : (j + 1) * 32768 ≤ g * 32768 := Nat.mul_le_mul_right _ hlt
        omega
      · have : (g + 1) * 32768 ≤ j * 32768 := Nat.mul_le_mul_right _ hgt
        omega

/-- A block whose bit is set in the bitmap of its group is never the result of
the block allocator on the formatter's layout. -/
theorem alloc_block_skips_marked (n : Nat) (c : SimpleFS_Context) (hl : formatter_layout n c)
    (x : Nat) (hx : x ≠ 0) (hb : block_bit_set c x = true) (p : Nat) :
    (alloc_block c p).1 ≠ x := by
  obtain ⟨h64, hn, _, l2, _, _, l5, _⟩ := hl
  obtain ⟨f1, f2, _, _, _, _, _⟩ := spec_groups_facts n h64 hn
  rcases alloc_block_cases c p with ⟨e, he⟩ | ⟨g, bit, a1, a2, _, _, _, _, a7, _, _, he⟩
  · rw [he]
    exact fun h => hx h.symm
  · rw [he]
    show u32 (g * c.sb.s_blocks_per_group + bit) ≠ x
    rw [l2] at a2 ⊢
    rw [l5] at a1
    rw [u32_of_lt _ (by omega)]
    intro hxe
    subst hxe
    unfold block_bit_set at hb
    dsimp only at hb
    rw [l2] at hb
    have hq : (g * 32768 + bit) / 32768 = g := by omega
    have hr : (g * 32768 + bit) % 32768 = bit := by omega
    rw [hq, hr, a7] at hb
    exact Bool.noConfusion hb

/-- The metadata flush on the formatter's layout with a writable device: block
1 and the first block of every backup group hold the in-memory superblock, the
blocks behind them hold the in-memory GDT. -/
theorem sync_fs_metadata_copies (n : Nat) (c : SimpleFS_Context) (hl : formatter_layout n c)
    (hw : ∀ b, b < n → c.device_fd.writable b = true) :
    (sync_fs_metadata c).device_fd.data 1 = blit zeroBuf 0 (encode_sb c.sb) 0 1024 ∧
    (∀ i, i < (c.gdt.length * 32 + 4095) / 4096 →
      (sync_fs_metadata c).device_fd.data (2 + i) = gdt_block c.gdt i) ∧
    ∀ g, 1 ≤ g → g < c.gdt.length → is_backup_group g = true →
      (sync_fs_metadata c).device_fd.data (g * c.sb.s_blocks_per_group) =
        blit zeroBuf 0 (encode_sb c.sb) 0 1024 ∧
      ∀ i, i < (c.gdt.length * 32 + 4095) / 4096 →
        (sync_fs_metadata c).device_fd.data (g * c.sb.s_blocks_per_group + 1 + i) =
          gdt_block c.gdt i := by
  obtain ⟨hGc, hnb⟩ := formatter_gdt_blocks n c hl
  obtain ⟨h64, hn, _, l2, _, _, l5, hg⟩ := hl
  obtain ⟨f1, f2, _, f4, _, f6, _⟩ := spec_groups_facts n h64 hn
  have e : (spec_groups n * 32 + 4095) / 4096 = spec_gdt_blocks n := rfl
  have hb0 : spec_block_bitmap (spec_gdt_blocks n) 0 = 2 + spec_gdt_blocks n := by
    unfold spec_block_bitmap
    rw [if_pos rfl]
  have hbk : ∀ g, 1 ≤ g → is_backup_group g = true →
      spec_block_bitmap (spec_gdt_blocks n) g = g * 32768 + 1 + spec_gdt_blocks n := by
    intro g g1 g3
    unfold spec_block_bitmap
    rw [if_neg (by omega), if_pos g3]
  have h0 := (hg 0 (by omega)).2.2.2
  rw [hb0] at h0
  have hS1 : spec_flush_image c 1 = blit zeroBuf 0 (encode_sb c.sb) 0 1024 := by
    unfold spec_flush_image
    rw [if_pos (Or.inl rfl)]
  have hSG : ∀ i, i < spec_gdt_blocks n → spec_flush_image c (2 + i) = gdt_block c.gdt i := by
    intro i hi
    unfold spec_flush_image
    rw [if_neg (by omega), if_pos (by omega)]
    have e2 : 2 + i - 2 = i := by omega
    rw [e2]
  have hSB : ∀ g, 1 ≤ g → spec_flush_image c (g * 32768) =
      blit zeroBuf 0 (encode_sb c.sb) 0 1024 := by
    intro g g1
    unfold spec_flush_image
    rw [if_pos (Or.inr ⟨by omega, by omega⟩)]
  have hSC : ∀ g, 1 ≤ g → ∀ i, i < spec_gdt_blocks n →
      spec_flush_image c (g * 32768 + 1 + i) = gdt_block c.gdt i := by
    intro g g1 i hi
    unfold spec_flush_image
    rw [if_neg (by omega), if_neg (by omega)]
    have e2 : (g * 32768 + 1 + i) % 32768 - 1 = i := by omega
    rw [e2]
  have hfit : ∀ g, 1 ≤ g → g < spec_groups n → is_backup_group g = true →
      g * 32768 + 1 + spec_gdt_blocks n + 34 ≤ n := by
    intro g g1 g2 g3
    have := (hg g g2).2.2.2
    rw [hbk g g1 g3] at this
    exact this
  have hu2 : ∀ i, i < spec_gdt_blocks n → u32 (1 + 1 + i) = 2 + i := by
    intro i hi
    rw [u32_of_lt _ (by omega)]
    try omega
  have huB : ∀ k, k < spec_groups n - 1 → u32 ((k + 1) * 32768) = (k + 1) * 32768 := by
    intro k hk
    exact u32_of_lt _ (by omega)
  have huC : ∀ k, k < spec_groups n - 1 → ∀ i, i < spec_gdt_blocks n →
      u32 ((k + 1) * 32768 + 1 + i) = (k + 1) * 32768 + 1 + i := by
    intro k hk i hi
    exact u32_of_lt _ (by omega)
  obtain ⟨d1, d2, d3⟩ := sync_fs_metadata_done c (spec_flush_image c)
    (by rw [l5]; omega) (hw 1 (by omega))
    (by
      intro i hi
      rw [hGc] at hi
      rw [hu2 i hi]
      exact hw _ (by omega))
    (by
      intro k hk hb
      rw [l5] at hk
      rw [l2, hGc, huB k hk]
      have := hfit (k + 1) (by omega) (by omega) hb
      refine ⟨hw _ (by omega), fun i hi => ?_⟩
      rw [huC k hk i hi]
      exact hw _ (by omega))
    hS1
    (by
      intro i hi
      rw [hGc] at hi
      rw [hu2 i hi]
      exact hSG i hi)
    (by
      intro k hk hb
      rw [l5] at hk
      rw [l2, hGc, huB k hk]
      refine ⟨hSB _ (by omega), fun i hi => ?_⟩
      rw [huC k hk i hi]
      exact hSC _ (by omega) i hi)
    (by
      rw [hGc]
      exact hnb)
  rw [hGc] at d2 d3
  rw [l5, l2, e]
  refine ⟨by rw [d1, hS1], fun i hi => ?_, fun g g1 g2 g3 => ?_⟩
  · have := d2 i hi
    rw [hu2 i hi, hSG i hi] at this
    exact this
  · obtain ⟨t1, t2⟩ := d3 (g - 1) (by rw [l5]; omega)
      (by rw [Nat.sub_add_cancel g1]; exact g3)
    rw [l2, huB (g - 1) (by omega), Nat.sub_add_cancel g1] at t1 t2
    refine ⟨by rw [t1, hSB g g1], fun i hi => ?_⟩
    have := t2 i hi
    have hc := huC (g - 1) (by omega) i hi
    rw [Nat.sub_add_cancel g1] at hc
    rw [hc, hSC g g1 i hi] at this
    exact this

/-- Claim C39. `sync_fs_metadata` changes only block 1, the blocks 2 … 1+G
with G = ceil(32 · groups / 4096) and, for every backup group g ≥ 1, the blocks
g·blocks_per_group … g·blocks_per_group+G (while these numbers fit in 32
bits), and leaves the in-memory superblock and GDT as they are. On a
filesystem with the formatter's layout whose bitmaps mark the metadata blocks,
each of these blocks lies before the block bitmap of its group, has its bit
set in that bitmap, is no group's block bitmap, inode bitmap or inode-table
block, and is never the result of `alloc_block`; and when the device takes the
writes, block 1 and the first block of every backup group hold the in-memory
superblock after the flush and the G blocks behind them hold the in-memory
GDT. -/
theorem C39_sync_fs_metadata_blocks (c : SimpleFS_Context)
    (hlen : c.gdt.length * 32 < 4294967296)
    (hfit : (c.gdt.length - 1) * c.sb.s_blocks_per_group +
      (c.gdt.length * 32 + 4095) / 4096 < 4294967296) :
    (∀ x, ¬ spec_flush_block c x →
      (sync_fs_metadata c).device_fd.data x = c.device_fd.data x) ∧
    (sync_fs_metadata c).sb = c.sb ∧ (sync_fs_metadata c).gdt = c.gdt ∧
    ∀ n, formatter_layout n c → metadata_marked n c →
      (∀ x, spec_flush_block c x →
        x / c.sb.s_blocks_per_group < c.gdt.length ∧
        x < (c.gdt.getD (x / c.sb.s_blocks_per_group) default).bg_block_bitmap ∧
        block_bit_set c x = true ∧
        (∀ g, g < c.gdt.length →
          x ≠ (c.gdt.getD g default).bg_block_bitmap ∧
          x ≠ (c.gdt.getD g default).bg_inode_bitmap ∧
          ¬ ((c.gdt.getD g default).bg_inode_table ≤ x ∧
            x < (c.gdt.getD g default).bg_inode_table +
              c.sb.s_inodes_per_group * SIMPLEFS_INODE_SIZE / SIMPLEFS_BLOCK_SIZE)) ∧
        ∀ p, (alloc_block c p).1 ≠ x) ∧
      ((∀ b, b < n → c.device_fd.writable b = true) →
        (sync_fs_metadata c).device_fd.data 1 = blit zeroBuf 0 (encode_sb c.sb) 0 1024 ∧
        (∀ i, i < (c.gdt.length * 32 + 4095) / 4096 →
          (sync_fs_metadata c).device_fd.data (2 + i) = gdt_block c.gdt i) ∧
        ∀ g, 1 ≤ g → g < c.gdt.length → is_backup_group g = true →
          (sync_fs_metadata c).device_fd.data (g * c.sb.s_blocks_per_group) =
            blit zeroBuf 0 (encode_sb c.sb) 0 1024 ∧
          ∀ i, i < (c.gdt.length * 32 + 4095) / 4096 →
            (sync_fs_metadata c).device_fd.data (g * c.sb.s_blocks_per_group + 1 + i) =
              gdt_block c.gdt i) := by
  obtain ⟨s1, s2, _, _, _, _, s7⟩ := sync_fs_metadata_frame c
  refine ⟨fun x hx => s7 x (fun h => hx (sync_target_flush_block c x hlen hfit h)), s1, s2,
    fun n hl hm => ⟨fun x hx => ?_, fun hw => sync_fs_metadata_copies n c hl hw⟩⟩
  obtain ⟨t1, _, t3, t4, t5, t6⟩ :=
    flush_target_facts n c hl hm x ((spec_flush_block_iff n c hl x).mp hx)
  exact ⟨t3, t4, t5, t6, alloc_block_skips_marked n c hl x t1 t5⟩

/-- Instance of C39 on a formatted image of 32832 blocks (two groups, one GDT
block): the image has the formatter's layout and marks its metadata blocks;
the backup copy in blocks 32768 and 32769 lies before the block bitmap 32770
of group 1, both blocks are marked, no allocation returns block 32769, block
40000 keeps its content, and after the flush the two blocks hold the in-memory
superblock and GDT. -/
theorem C39_sync_fs_metadata_blocks_witness :
    ctxFresh2.gdt.length * 32 < 4294967296 ∧
    (ctxFresh2.gdt.length - 1) * ctxFresh2.sb.s_blocks_per_group +
      (ctxFresh2.gdt.length * 32 + 4095) / 4096 < 4294967296 ∧
    formatter_layout 32832 ctxFresh2 ∧ metadata_marked 32832 ctxFresh2 ∧
    (sync_fs_metadata ctxFresh2).device_fd.data 40000 = ctxFresh2.device_fd.data 40000 ∧
    (ctxFresh2.gdt.getD 1 default).bg_block_bitmap = 32770 ∧
    block_bit_set ctxFresh2 32768 = true ∧ block_bit_set ctxFresh2 32769 = true ∧
    (∀ p, (alloc_block ctxFresh2 p).1 ≠ 32769) ∧
    (sync_fs_metadata ctxFresh2).device_fd.data 32768 =
      blit zeroBuf 0 (encode_sb ctxFresh2.sb) 0 1024 ∧
    (sync_fs_metadata ctxFresh2).device_fd.data 32769 = gdt_block ctxFresh2.gdt 0 := by
  have hbpg : ctxFresh2.sb.s_blocks_per_group = 32768 := by decide!
  have hG : ctxFresh2.gdt.length = 2 := by decide!
  have hlen : ctxFresh2.gdt.length * 32 < 4294967296 := by rw [hG]; decide
  have hfit : (ctxFresh2.gdt.length - 1) * ctxFresh2.sb.s_blocks_per_group +
      (ctxFresh2.gdt.length * 32 + 4095) / 4096 < 4294967296 := by rw [hG, hbpg]; decide
  have hl : formatter_layout 32832 ctxFresh2 := by decide!
  have hm : metadata_marked 32832 ctxFresh2 := by decide!
  obtain ⟨w1, _, _, w4⟩ := C39_sync_fs_metadata_blocks ctxFresh2 hlen hfit
  obtain ⟨w5, w6⟩ := w4 32832 hl hm
  have t0 : spec_flush_block ctxFresh2 32768 :=
    Or.inr (Or.inr ⟨1, by decide, by rw [hG]; decide, by decide,
      by rw [hbpg]; try omega, by rw [hbpg]; try omega⟩)
  have t1 : spec_flush_block ctxFresh2 32769 :=
    Or.inr (Or.inr ⟨1, by decide, by rw [hG]; decide, by decide,
      by rw [hbpg]; try omega, by rw [hbpg, hG]; try omega⟩)
  have n0 : ¬ spec_flush_block ctxFresh2 40000 := by
    unfold spec_flush_block
    rw [hG, hbpg]
    rintro (h | ⟨_, h⟩ | ⟨g, g1, g2, _, g4, g5⟩)
    · omega
    · omega
    · omega
  obtain ⟨_, _, hb0, _, _⟩ := w5 32768 t0
  obtain ⟨_, _, hb1, _, ha1⟩ := w5 32769 t1
  obtain ⟨_, _, c3⟩ := w6 (fun b _ => rfl)
  obtain ⟨c4, c5⟩ := c3 1 (by decide) (by rw [hG]; decide) (by decide)
  have c6 := c5 0 (by rw [hG]; decide)
  have e1 : (1 : Nat) * 32768 = 32768 := rfl
  have e2 : (32768 : Nat) + 1 + 0 = 32769 := rfl
  rw [hbpg, e1] at c4 c6
  rw [e2] at c6
  exact ⟨hlen, hfit, hl, hm, w1 40000 n0, by decide!, hb0, hb1, ha1, c4, c6⟩

/-! ## The split of a path into directory and name -/

theorem normalize_tail_cons (prev c : Nat) (l : List Nat) :
    normalize_tail prev (c :: l) =
      if c = SLASH then (if prev ≠ SLASH then SLASH :: normalize_tail SLASH l
        else normalize_tail prev l)
      else c :: normalize_tail c l := rfl

/-- The normalising loop of `parse_path` from a non-empty result. -/
theorem parse_path_fold (l : List Nat) : ∀ (acc : List Nat) (prev : Nat),
    acc.getLast? = some prev →
    l.foldl (fun acc c =>
      if c = SLASH then
        (if acc ≠ [] ∧ acc.getLast? ≠ some SLASH then acc ++ [SLASH] else acc)
      else acc ++ [c]) acc = acc ++ normalize_tail prev l := by
  induction l with
  | nil =>
    intro acc prev _
    simp [normalize_tail]
  | cons c l ih =>
    intro acc prev hp
    have hne : acc ≠ [] := by
      intro h
      rw [h] at hp
      exact Option.noConfusion hp
    rw [List.foldl_cons]
    by_cases hc : c = SLASH
    · by_cases hs : prev = SLASH
      · have e : ¬ (acc ≠ [] ∧ acc.getLast? ≠ some SLASH) := by
          rw [hp, hs]
          exact fun h => h.2 rfl
        rw [if_pos hc, if_neg e, ih acc prev hp, normalize_tail_cons,
          if_pos hc, if_neg (fun h => h hs)]
      · have e : acc ≠ [] ∧ acc.getLast? ≠ some SLASH := by
          refine ⟨hne, ?_⟩
          rw [hp]
          exact fun h => hs (Option.some.inj h)
        rw [if_pos hc, if_pos e, ih (acc ++ [SLASH]) SLASH (by simp), normalize_tail_cons,
          if_pos hc, if_pos hs, List.append_assoc]
        rfl
    · rw [if_neg hc, ih (acc ++ [c]) c (by simp), normalize_tail_cons, if_neg hc,
        List.append_assoc]
      rfl

/-- Collapsing the runs of a path is its first character and the output of the
normalising loop behind it. -/
theorem collapse_slashes_cons (l : List Nat) : ∀ a,
    collapse_slashes (a :: l) = a :: normalize_tail a l := by
  induction l with
  | nil =>
    intro a
    rfl
  | cons b l ih =>
    intro a
    unfold collapse_slashes
    rw [ih b, normalize_tail_cons]
    by_cases hb : b = SLASH
    · by_cases ha : a = SLASH
      · rw [if_pos ⟨ha, hb⟩, if_pos hb, if_neg (fun h => h ha), ha, hb]
      · rw [if_neg (fun h => ha h.1), if_pos hb, if_pos ha, hb]
    · rw [if_neg (fun h => hb h.2), if_neg hb]

/-- The output of the normalising loop has no two `'/'` in a row. -/
theorem normalize_tail_chain (l : List Nat) : ∀ a,
    List.Chain (fun x y => ¬ (x = SLASH ∧ y = SLASH)) a (normalize_tail a l) := by
  induction l with
  | nil =>
    intro a
    exact List.Chain.nil
  | cons c l ih =>
    intro a
    rw [normalize_tail_cons]
    by_cases hc : c = SLASH
    · by_cases ha : a = SLASH
      · rw [if_pos hc, if_neg (fun h => h ha)]
        exact ih a
      · rw [if_pos hc, if_pos ha]
        exact List.Chain.cons (fun h => ha h.1) (ih SLASH)
    · rw [if_neg hc]
      exact List.Chain.cons (fun h => hc h.2) (ih c)

/-- The index `find_last_of` returns: the last index with the property. -/
theorem find_last_index (P : Nat → Bool) (k : Nat) (hP : P k = true) : ∀ n, k < n →
    (∀ j, k < j → j < n → P j = false) →
    (List.range n).reverse.find? P = some k := by
  intro n
  induction n with
  | zero =>
    intro h
    omega
  | succ n ih =>
    intro hk hl
    rw [List.range_succ, List.reverse_append, List.reverse_singleton, List.singleton_append]
    by_cases e : k = n
    · rw [← e, List.find?_cons_of_pos _ hP]
    · have hn : P n = false := hl n (by omega) (by omega)
      rw [List.find?_cons_of_neg _ (by rw [hn]; exact Bool.false_ne_true)]
      exact ih (by omega) (fun j h1 h2 => hl j h1 (by omega))

/-- The last `'/'` of a string written as `d ++ '/' :: b` with no `'/'` in `b`
is at index `|d|`. -/
theorem find_last_slash (d b : List Nat) (hb : SLASH ∉ b) :
    (List.range (d ++ SLASH :: b).length).reverse.find?
      (fun i => decide ((d ++ SLASH :: b).getD i 0 = SLASH)) = some d.length := by
  apply find_last_index
  · rw [List.getD_append_right _ _ _ _ (Nat.le_refl _), Nat.sub_self]
    simp
  · rw [List.length_append, List.length_cons]
    omega
  · intro j h1 h2
    rw [List.length_append, List.length_cons] at h2
    rw [List.getD_append_right _ _ _ _ (Nat.le_of_lt h1)]
    obtain ⟨m, hm⟩ : ∃ m, j - d.length = m + 1 := ⟨j - d.length - 1, by omega⟩
    rw [hm, List.getD_cons_succ]
    have hlt : m < b.length := by omega
    rw [List.getD_eq_getElem _ _ hlt]
    have hmem : b[m] ∈ b := List.getElem_mem hlt
    simp only [decide_eq_false_iff_not]
    intro h
    rw [h] at hmem
    exact hb hmem

/-- A string that holds a `'/'` splits at its last `'/'`. -/
theorem split_last_slash (q : List Nat) (h : SLASH ∈ q) :
    ∃ d b, q = d ++ SLASH :: b ∧ SLASH ∉ b := by
  induction q with
  | nil => exact absurd h (List.not_mem_nil _)
  | cons a q ih =>
    by_cases hq : SLASH ∈ q
    · obtain ⟨d, b, e, hb⟩ := ih hq
      exact ⟨a :: d, b, by rw [e]; rfl, hb⟩
    · rcases List.mem_cons.mp h with h1 | h1
      · exact ⟨[], q, by rw [h1]; rfl, hq⟩
      · exact absurd h1 hq

/-- The path `q` of a path that begins with `'/'`: it begins with `'/'`, has no
two `'/'` in a row, and does not end in `'/'` unless it is `"/"`. -/
theorem spec_normal_path_facts (t : List Nat) :
    (spec_normal_path (SLASH :: t)).head? = some SLASH ∧
    List.Chain' (fun x y => ¬ (x = SLASH ∧ y = SLASH)) (spec_normal_path (SLASH :: t)) ∧
    (spec_normal_path (SLASH :: t) = [SLASH] ∨
      (spec_normal_path (SLASH :: t)).getLast? ≠ some SLASH) := by
  have hch : List.Chain' (fun x y => ¬ (x = SLASH ∧ y = SLASH))
      (collapse_slashes (SLASH :: t)) := by
    rw [collapse_slashes_cons]
    exact normalize_tail_chain t SLASH
  unfold spec_normal_path
  rw [collapse_slashes_cons] at hch ⊢
  generalize normalize_tail SLASH t = r at hch ⊢
  by_cases hc : (SLASH :: r).length > 1 ∧ (SLASH :: r).getLast? = some SLASH
  · rw [if_pos hc]
    obtain ⟨h1, h2⟩ := hc
    have hr : r ≠ [] := by
      intro e
      rw [e] at h1
      exact absurd h1 (by decide)
    have hsplit : SLASH :: r = (SLASH :: r).dropLast ++ [SLASH] := by
      have hl := List.dropLast_append_getLast? SLASH h2
      exact hl.symm
    have hd : (SLASH :: r).dropLast = SLASH :: r.dropLast := by
      cases r with
      | nil => exact absurd rfl hr
      | cons x r => rfl
    rw [hsplit] at hch
    obtain ⟨c1, _, c3⟩ := List.chain'_append.mp hch
    refine ⟨by rw [hd]; rfl, c1, Or.inr ?_⟩
    intro hl
    exact c3 SLASH hl SLASH rfl ⟨rfl, rfl⟩
  · rw [if_neg hc]
    refine ⟨rfl, hch, ?_⟩
    by_cases hl : (SLASH :: r).getLast? = some SLASH
    · left
      have : ¬ (SLASH :: r).length > 1 := fun h => hc ⟨h, hl⟩
      cases r with
      | nil => rfl
      | cons x r =>
        rw [List.length_cons, List.length_cons] at this
        omega
    · exact Or.inr hl

/-- The normalised string of `parse_path` is the path `q` when the path begins
with `'/'`, and the result is read off the split of `q` at its last `'/'`. -/
theorem parse_path_split (t d b : List Nat) (hne : spec_normal_path (SLASH :: t) ≠ [SLASH])
    (hq : spec_normal_path (SLASH :: t) = d ++ SLASH :: b) (hb : SLASH ∉ b) :
    parse_path (SLASH :: t) = (if d.length = 0 then [SLASH] else d, b) := by
  have hfold : (SLASH :: t).foldl (fun acc c =>
      if c = SLASH then
        (if acc ≠ [] ∧ acc.getLast? ≠ some SLASH then acc ++ [SLASH] else acc)
      else acc ++ [c]) [SLASH] = collapse_slashes (SLASH :: t) := by
    rw [List.foldl_cons, if_pos rfl, if_neg (fun h => h.2 rfl),
      parse_path_fold t [SLASH] SLASH rfl, collapse_slashes_cons]
    rfl
  unfold parse_path
  rw [if_neg (List.cons_ne_nil _ _)]
  dsimp only
  have hh : (SLASH :: t).head? = some SLASH := rfl
  rw [if_pos hh, hfold]
  have hn : (if (collapse_slashes (SLASH :: t)).length > 1 ∧
        (collapse_slashes (SLASH :: t)).getLast? = some SLASH then
        (collapse_slashes (SLASH :: t)).dropLast
      else collapse_slashes (SLASH :: t)) = spec_normal_path (SLASH :: t) := rfl
  rw [hn]
  have hnil : ¬ (spec_normal_path (SLASH :: t) = [] ∧ (SLASH :: t).head? = some SLASH) := by
    rw [hq]
    exact fun h => absurd h.1 (by simp)
  rw [if_neg hnil, if_neg hne, hq, find_last_slash d b hb]
  dsimp only
  have e1 : (d ++ SLASH :: b).drop (d.length + 1) = b := by
    have : d ++ SLASH :: b = (d ++ [SLASH]) ++ b := by simp
    rw [this]
    exact List.drop_left' (by simp)
  have e2 : (d ++ SLASH :: b).take d.length = d := List.take_left' rfl
  rw [e1, e2]
  split_ifs <;> rfl

/-- Claim C40. For a path `p` that begins with `'/'`, with `q` the path `p`
with runs of `'/'` collapsed and a trailing `'/'` removed: if `q` is `"/"`,
`parse_path` gives dirname = basename = `"/"`; otherwise the basename is not
empty and holds no `'/'`, the dirname begins with `'/'` and does not end in
`'/'` unless it is `"/"`, and `q` is dirname + basename when the dirname is
`"/"` and dirname + `"/"` + basename otherwise. For the empty path the result
is `(".", "")`. -/
theorem C40_parse_path_splits (p : List Nat) (h : p.head? = some SLASH) :
    (spec_normal_path p = [SLASH] → parse_path p = ([SLASH], [SLASH])) ∧
    (spec_normal_path p ≠ [SLASH] →
      (parse_path p).2 ≠ [] ∧ SLASH ∉ (parse_path p).2 ∧
      (parse_path p).1.head? = some SLASH ∧
      ((parse_path p).1.getLast? = some SLASH → (parse_path p).1 = [SLASH]) ∧
      ((parse_path p).1 = [SLASH] →
        spec_normal_path p = (parse_path p).1 ++ (parse_path p).2) ∧
      ((parse_path p).1 ≠ [SLASH] →
        spec_normal_path p = (parse_path p).1 ++ [SLASH] ++ (parse_path p).2)) ∧
    parse_path [] = (DOT, []) := by
  obtain ⟨t, rfl⟩ : ∃ t, p = SLASH :: t := by
    cases p with
    | nil => exact Option.noConfusion h
    | cons a t =>
      have : a = SLASH := Option.some.inj h
      exact ⟨t, by rw [this]⟩
  obtain ⟨f1, f2, f3⟩ := spec_normal_path_facts t
  refine ⟨fun hq => ?_, fun hq => ?_, rfl⟩
  · have hfold : (SLASH :: t).foldl (fun acc c =>
        if c = SLASH then
          (if acc ≠ [] ∧ acc.getLast? ≠ some SLASH then acc ++ [SLASH] else acc)
        else acc ++ [c]) [SLASH] = collapse_slashes (SLASH :: t) := by
      rw [List.foldl_cons, if_pos rfl, if_neg (fun h => h.2 rfl),
        parse_path_fold t [SLASH] SLASH rfl, collapse_slashes_cons]
      rfl
    unfold parse_path
    rw [if_neg (List.cons_ne_nil _ _)]
    dsimp only
    have hh : (SLASH :: t).head? = some SLASH := rfl
    rw [if_pos hh, hfold]
    have hn : (if (collapse_slashes (SLASH :: t)).length > 1 ∧
          (collapse_slashes (SLASH :: t)).getLast? = some SLASH then
          (collapse_slashes (SLASH :: t)).dropLast
        else collapse_slashes (SLASH :: t)) = spec_normal_path (SLASH :: t) := rfl
    have hnil : ¬ ([SLASH] = [] ∧ (SLASH :: t).head? = some SLASH) :=
      fun h => absurd h.1 (List.cons_ne_nil _ _)
    rw [hn, hq, if_neg hnil, if_pos rfl]
  · have hlast : (spec_normal_path (SLASH :: t)).getLast? ≠ some SLASH := by
      rcases f3 with f3 | f3
      · exact absurd f3 hq
      · exact f3
    have hmem : SLASH ∈ spec_normal_path (SLASH :: t) := by
      generalize spec_normal_path (SLASH :: t) = q at f1
      cases q with
      | nil => exact Option.noConfusion f1
      | cons a q =>
        have : a = SLASH := Option.some.inj f1
        rw [this]
        exact List.mem_cons_self _ _
    obtain ⟨d, b, e, hb⟩ := split_last_slash _ hmem
    rw [parse_path_split t d b hq e hb, e]
    rw [e] at f1 f2 hlast
    have hbne : b ≠ [] := by
      intro hb0
      rw [hb0] at hlast
      exact hlast (by simp)
    cases d with
    | nil =>
      refine ⟨hbne, hb, rfl, fun _ => rfl, fun _ => rfl, fun h => absurd rfl h⟩
    | cons a d =>
      have ha : a = SLASH := Option.some.inj f1
      obtain ⟨_, _, c3⟩ := List.chain'_append.mp f2
      have hdl : (a :: d).getLast? ≠ some SLASH := by
        intro hl
        exact c3 SLASH hl SLASH rfl ⟨rfl, rfl⟩
      have hd1 : a :: d ≠ [SLASH] := by
        intro hx
        rw [hx] at hdl
        exact hdl rfl
      have hlen : ¬ (a :: d).length = 0 := by simp
      rw [if_neg hlen]
      refine ⟨hbne, hb, by rw [ha]; rfl, fun hx => absurd hx hdl, fun hx => absurd hx hd1,
        fun _ => by simp⟩

/-- Instance of C40 on the path `"//a//b/"`: `q` is `"/a/b"` and the result is
(`"/a"`, `"b"`). -/
theorem C40_parse_path_splits_witness :
    ([47, 47, 97, 47, 47, 98, 47] : List Nat).head? = some SLASH ∧
    spec_normal_path [47, 47, 97, 47, 47, 98, 47] = [47, 97, 47, 98] ∧
    parse_path [47, 47, 97, 47, 47, 98, 47] = ([47, 97], [98]) ∧
    ((parse_path [47, 47, 97, 47, 47, 98, 47]).2 ≠ [] ∧
      SLASH ∉ (parse_path [47, 47, 97, 47, 47, 98, 47]).2 ∧
      (parse_path [47, 47, 97, 47, 47, 98, 47]).1.head? = some SLASH ∧
      ((parse_path [47, 47, 97, 47, 47, 98, 47]).1.getLast? = some SLASH →
        (parse_path [47, 47, 97, 47, 47, 98, 47]).1 = [SLASH]) ∧
      ((parse_path [47, 47, 97, 47, 47, 98, 47]).1 = [SLASH] →
        spec_normal_path [47, 47, 97, 47, 47, 98, 47] =
          (parse_path [47, 47, 97, 47, 47, 98, 47]).1 ++
            (parse_path [47, 47, 97, 47, 47, 98, 47]).2) ∧
      ((parse_path [47, 47, 97, 47, 47, 98, 47]).1 ≠ [SLASH] →
        spec_normal_path [47, 47, 97, 47, 47, 98, 47] =
          (parse_path [47, 47, 97, 47, 47, 98, 47]).1 ++ [SLASH] ++
            (parse_path [47, 47, 97, 47, 47, 98, 47]).2)) :=
  ⟨by decide, by decide!, by decide!,
    (C40_parse_path_splits [47, 47, 97, 47, 47, 98, 47] (by decide)).2.1 (by decide!)⟩

/-! ## The components of a path -/

theorem splitOnP_sep_append (p : Nat → Bool) (s : Nat) (hs : p s = true) (y : List Nat) :
    ∀ x : List Nat, List.splitOnP p (x ++ s :: y) = List.splitOnP p x ++ List.splitOnP p y := by
  intro x
  induction x with
  | nil =>
    rw [List.nil_append, List.splitOnP_cons, if_pos hs, List.splitOnP_nil]
    rfl
  | cons a x ih =>
    rw [List.cons_append, List.splitOnP_cons, List.splitOnP_cons, ih]
    by_cases ha : p a = true
    · rw [if_pos ha, if_pos ha]
      rfl
    · rw [if_neg ha, if_neg ha]
      cases hx : List.splitOnP p x with
      | nil => exact absurd hx (List.splitOnP_ne_nil p x)
      | cons h T => rfl

theorem splitOnP_no_sep (p : Nat → Bool) :
    ∀ b : List Nat, (∀ a, a ∈ b → p a = false) → List.splitOnP p b = [b] := by
  intro b
  induction b with
  | nil =>
    intro _
    exact List.splitOnP_nil p
  | cons a b ih =>
    intro h
    have ha : ¬ p a = true := by
      rw [h a (List.mem_cons_self _ _)]
      exact Bool.false_ne_true
    rw [List.splitOnP_cons, if_neg ha, ih (fun x hx => h x (List.mem_cons_of_mem _ hx))]
    rfl

/-- The non-empty pieces of a string between separators. -/
theorem path_components_eq (path : List Nat) :
    path_components path =
      (List.splitOnP (fun x => x == SLASH)
        (if path.head? = some SLASH then path.drop 1 else path)).filter
        (fun c => decide (c ≠ [])) := rfl

theorem path_components_nil : path_components [] = [] := by decide

theorem path_components_root : path_components [SLASH] = [] := by decide

/-- The components of a path followed by `'/'` and a name. -/
theorem path_components_snoc (Z name : List Nat) (hne : name ≠ []) (hs : SLASH ∉ name) :
    path_components (Z ++ SLASH :: name) = path_components Z ++ [name] := by
  have hsep : (fun x : Nat => x == SLASH) SLASH = true := by simp
  have hname : List.splitOnP (fun x => x == SLASH) name = [name] := by
    apply splitOnP_no_sep
    intro a ha
    have : a ≠ SLASH := fun e => hs (e ▸ ha)
    simp [this]
  have hf : List.filter (fun c : List Nat => decide (c ≠ [])) [name] = [name] := by
    simp [hne]
  cases Z with
  | nil =>
    rw [path_components_nil, List.nil_append, path_components_eq]
    have : ((SLASH :: name).head? = some SLASH) := rfl
    rw [if_pos this]
    show List.filter _ (List.splitOnP _ name) = _
    rw [hname, hf]
    rfl
  | cons a z =>
    rw [path_components_eq, path_components_eq]
    by_cases ha : a = SLASH
    · have h1 : ((a :: z) ++ SLASH :: name).head? = some SLASH := by rw [ha]; rfl
      have h2 : (a :: z).head? = some SLASH := by rw [ha]; rfl
      rw [if_pos h1, if_pos h2]
      show List.filter _ (List.splitOnP _ (z ++ SLASH :: name)) =
        List.filter _ (List.splitOnP _ z) ++ [name]
      rw [splitOnP_sep_append (fun x => x == SLASH) SLASH hsep, List.filter_append, hname, hf]
    · have h1 : ¬ ((a :: z) ++ SLASH :: name).head? = some SLASH :=
        fun h => ha (Option.some.inj h)
      have h2 : ¬ (a :: z).head? = some SLASH := fun h => ha (Option.some.inj h)
      rw [if_neg h1, if_neg h2, splitOnP_sep_append (fun x => x == SLASH) SLASH hsep, List.filter_append, hname, hf]

/-- A trailing `'/'` adds no component. -/
theorem path_components_trailing (Z : List Nat) :
    path_components (Z ++ [SLASH]) = path_components Z := by
  have hsep : (fun x : Nat => x == SLASH) SLASH = true := by simp
  have hf : List.filter (fun c : List Nat => decide (c ≠ []))
      (List.splitOnP (fun x => x == SLASH) []) = [] := by
    rw [List.splitOnP_nil]
    rfl
  cases Z with
  | nil => decide
  | cons a z =>
    rw [path_components_eq, path_components_eq]
    by_cases ha : a = SLASH
    · have h1 : ((a :: z) ++ [SLASH]).head? = some SLASH := by rw [ha]; rfl
      have h2 : (a :: z).head? = some SLASH := by rw [ha]; rfl
      rw [if_pos h1, if_pos h2]
      show List.filter _ (List.splitOnP _ (z ++ [SLASH])) = List.filter _ (List.splitOnP _ z)
      rw [splitOnP_sep_append (fun x => x == SLASH) SLASH hsep, List.filter_append, hf, List.append_nil]
    · have h1 : ¬ ((a :: z) ++ [SLASH]).head? = some SLASH := fun h => ha (Option.some.inj h)
      have h2 : ¬ (a :: z).head? = some SLASH := fun h => ha (Option.some.inj h)
      rw [if_neg h1, if_neg h2, splitOnP_sep_append (fun x => x == SLASH) SLASH hsep, List.filter_append, hf,
        List.append_nil]

/-- Dropping a trailing `'/'` keeps the components. -/
theorem path_components_strip (Z : List Nat) :
    path_components (if Z.getLast? = some SLASH then Z.dropLast else Z) = path_components Z := by
  by_cases h : Z.getLast? = some SLASH
  · rw [if_pos h]
    have e := List.dropLast_append_getLast? SLASH h
    conv => rhs; rw [← e]
    rw [path_components_trailing]
  · rw [if_neg h]

/-- The pieces of the output of the normalising loop against the pieces of its
input. -/
theorem normalize_tail_pieces (l : List Nat) : ∀ prev,
    (prev ≠ SLASH → ∃ h T T',
      List.splitOnP (fun x => x == SLASH) l = h :: T ∧
      List.splitOnP (fun x => x == SLASH) (normalize_tail prev l) = h :: T' ∧
      T.filter (fun c => decide (c ≠ [])) = T'.filter (fun c => decide (c ≠ []))) ∧
    (prev = SLASH →
      (List.splitOnP (fun x => x == SLASH) (normalize_tail prev l)).filter
          (fun c => decide (c ≠ [])) =
        (List.splitOnP (fun x => x == SLASH) l).filter (fun c => decide (c ≠ []))) := by
  induction l with
  | nil =>
    intro prev
    exact ⟨fun _ => ⟨[], [], [], List.splitOnP_nil _, List.splitOnP_nil _, rfl⟩, fun _ => rfl⟩
  | cons c l ih =>
    intro prev
    rw [normalize_tail_cons, List.splitOnP_cons]
    by_cases hc : c = SLASH
    · have hp : (c == SLASH) = true := by simp [hc]
      rw [if_pos hc]
      simp only [hp, if_true]
      refine ⟨fun hprev => ?_, fun hprev => ?_⟩
      · rw [if_pos hprev, List.splitOnP_cons]
        have hs : (SLASH == SLASH) = true := by simp
        simp only [hs, if_true]
        exact ⟨[], _, _, rfl, rfl, ((ih SLASH).2 rfl).symm⟩
      · rw [if_neg (fun h => h hprev), hprev]
        rw [(ih SLASH).2 rfl]
        rfl
    · have hp : ¬ (c == SLASH) = true := by simp [hc]
      rw [if_neg hc, List.splitOnP_cons]
      simp only [hp, if_false]
      obtain ⟨h, T, T', e1, e2, e3⟩ := (ih c).1 hc
      rw [e1, e2]
      refine ⟨fun _ => ⟨c :: h, T, T', rfl, rfl, e3⟩, fun _ => ?_⟩
      show List.filter _ ((c :: h) :: T') = List.filter _ ((c :: h) :: T)
      rw [List.filter_cons, List.filter_cons, e3]

/-- The path `q` of the claim has the components of the path. -/
theorem path_components_normal (t : List Nat) :
    path_components (spec_normal_path (SLASH :: t)) = path_components (SLASH :: t) := by
  have hcol : path_components (collapse_slashes (SLASH :: t)) = path_components (SLASH :: t) := by
    rw [collapse_slashes_cons, path_components_eq, path_components_eq]
    have h1 : (SLASH :: normalize_tail SLASH t).head? = some SLASH := rfl
    have h2 : (SLASH :: t).head? = some SLASH := rfl
    rw [if_pos h1, if_pos h2]
    exact (normalize_tail_pieces t SLASH).2 rfl
  unfold spec_normal_path
  by_cases hc : (collapse_slashes (SLASH :: t)).length > 1 ∧
      (collapse_slashes (SLASH :: t)).getLast? = some SLASH
  · rw [if_pos hc, ← hcol]
    have e := List.dropLast_append_getLast? SLASH hc.2
    conv => rhs; rw [← e]
    rw [path_components_trailing]
  · rw [if_neg hc, hcol]

/-- The components of a path that begins with `'/'` are the components of the
dirname `parse_path` gives, followed by the basename, unless the basename is
one `bad_basename` refuses. -/
theorem path_components_parse (p : List Nat) (h : p.head? = some SLASH)
    (hb : bad_basename (parse_path p).2 = false) :
    path_components p = path_components (parse_path p).1 ++ [(parse_path p).2] ∧
    (parse_path p).2 ≠ [] ∧ (parse_path p).2 ≠ DOT ∧ SLASH ∉ (parse_path p).2 := by
  obtain ⟨t, rfl⟩ : ∃ t, p = SLASH :: t := by
    cases p with
    | nil => exact Option.noConfusion h
    | cons a t =>
      have : a = SLASH := Option.some.inj h
      exact ⟨t, by rw [this]⟩
  have hbad : ¬ ((parse_path (SLASH :: t)).2 = [] ∨ (parse_path (SLASH :: t)).2 = DOT ∨
      (parse_path (SLASH :: t)).2 = DOTDOT ∨ (parse_path (SLASH :: t)).2 = [SLASH]) := by
    unfold bad_basename at hb
    exact of_decide_eq_false hb
  obtain ⟨f1, f2, f3⟩ := spec_normal_path_facts t
  by_cases hq : spec_normal_path (SLASH :: t) = [SLASH]
  · exfalso
    have hfold : (SLASH :: t).foldl (fun acc c =>
        if c = SLASH then
          (if acc ≠ [] ∧ acc.getLast? ≠ some SLASH then acc ++ [SLASH] else acc)
        else acc ++ [c]) [SLASH] = collapse_slashes (SLASH :: t) := by
      rw [List.foldl_cons, if_pos rfl, if_neg (fun h => h.2 rfl),
        parse_path_fold t [SLASH] SLASH rfl, collapse_slashes_cons]
      rfl
    have hroot : parse_path (SLASH :: t) = ([SLASH], [SLASH]) := by
      unfold parse_path
      rw [if_neg (List.cons_ne_nil _ _)]
      dsimp only
      have hh : (SLASH :: t).head? = some SLASH := rfl
      rw [if_pos hh, hfold]
      have hn : (if (collapse_slashes (SLASH :: t)).length > 1 ∧
            (collapse_slashes (SLASH :: t)).getLast? = some SLASH then
            (collapse_slashes (SLASH :: t)).dropLast
          else collapse_slashes (SLASH :: t)) = spec_normal_path (SLASH :: t) := rfl
      have hnil : ¬ ([SLASH] = [] ∧ (SLASH :: t).head? = some SLASH) :=
        fun h => absurd h.1 (List.cons_ne_nil _ _)
      rw [hn, hq, if_neg hnil, if_pos rfl]
    rw [hroot] at hbad
    exact hbad (Or.inr (Or.inr (Or.inr rfl)))
  · have hlast : (spec_normal_path (SLASH :: t)).getLast? ≠ some SLASH := by
      rcases f3 with f3 | f3
      · exact absurd f3 hq
      · exact f3
    have hmem : SLASH ∈ spec_normal_path (SLASH :: t) := by
      generalize spec_normal_path (SLASH :: t) = q at f1
      cases q with
      | nil => exact Option.noConfusion f1
      | cons a q =>
        have : a = SLASH := Option.some.inj f1
        rw [this]
        exact List.mem_cons_self _ _
    obtain ⟨d, b, e, hbs⟩ := split_last_slash _ hmem
    have hpp := parse_path_split t d b hq e hbs
    rw [hpp] at hbad ⊢
    dsimp only at hbad ⊢
    have hbne : b ≠ [] := fun h0 => hbad (Or.inl h0)
    have hbdot : b ≠ DOT := fun h0 => hbad (Or.inr (Or.inl h0))
    refine ⟨?_, hbne, hbdot, hbs⟩
    rw [← path_components_normal, e, path_components_snoc d b hbne hbs]
    cases d with
    | nil =>
      have h0 : ([] : List Nat).length = 0 := rfl
      rw [if_pos h0, path_components_nil, path_components_root]
    | cons a d =>
      rw [if_neg (by simp)]

/-! ## Resolution of a path that ends in a new name -/

/-- The walk over one last component without following a final symlink does
not depend on the recursion or on the path walked so far. -/
theorem resolve_walk_single (caller : fuse_context)
    (recurse : SimpleFS_Context → List Nat → Nat × SimpleFS_Context)
    (c : SimpleFS_Context) (dir : Nat) (name path : List Nat) :
    resolve_walk caller false recurse [name] c dir path = final_step caller c dir name := by
  unfold final_step
  conv => lhs; rw [resolve_walk]
  conv => rhs; rw [resolve_walk]
  dsimp only
  by_cases hskip : name = [] ∨ name = DOT
  · rw [if_pos hskip, if_pos hskip]
    rfl
  rw [if_neg hskip, if_neg hskip]
  generalize read_inode_from_disk c dir = r
  obtain ⟨v, k⟩ := r
  cases v with
  | error e => rfl
  | ok d =>
    dsimp only
    by_cases hdir : ¬ S_ISDIR (i_mode d) = true
    · rw [if_pos hdir, if_pos hdir]
    rw [if_neg hdir, if_neg hdir]
    by_cases ha : (check_access k caller d X_OK).1 ≠ 0
    · rw [if_pos ha, if_pos ha]
    rw [if_neg ha, if_neg ha]
    cases lookup_component (check_access k caller d X_OK).2.device_fd d name with
    | ioerr => rfl
    | absent => rfl
    | found nxt =>
      dsimp only
      generalize read_inode_from_disk (check_access k caller d X_OK).2 nxt = q
      obtain ⟨w, k2⟩ := q
      cases w with
      | error e => rfl
      | ok t =>
        dsimp only
        have hl : (decide (([] : List (List Nat)) = []) = true ∧ ¬ false = true) :=
          ⟨by decide, by decide⟩
        have hl2 : decide (([] : List (List Nat)) = []) = true := by decide
        rw [if_pos hl, if_pos hl, if_pos hl2, if_pos hl2]

/-- The end of `next_resolve_path` when one more name is still to walk. -/
theorem next_resolve_path_tail (A : List Nat) (rest : List (List Nat))
    (name : List Nat) (hne : name ≠ []) (hs : SLASH ∉ name) :
    path_components
      (if ((rest ++ [name]).map (fun c => SLASH :: c)).flatten ≠ [] then
        (if A.getLast? = some SLASH then A.dropLast else A) ++
          ((rest ++ [name]).map (fun c => SLASH :: c)).flatten
      else A) =
    path_components
      (if (rest.map (fun c => SLASH :: c)).flatten ≠ [] then
        (if A.getLast? = some SLASH then A.dropLast else A) ++
          (rest.map (fun c => SLASH :: c)).flatten
      else A) ++ [name] := by
  have e : ((rest ++ [name]).map (fun c => SLASH :: c)).flatten =
      (rest.map (fun c => SLASH :: c)).flatten ++ SLASH :: name := by
    simp
  rw [e]
  generalize (rest.map (fun c => SLASH :: c)).flatten = R
  have hne2 : R ++ SLASH :: name ≠ [] := by simp
  rw [if_pos hne2, ← List.append_assoc, path_components_snoc _ name hne hs]
  by_cases hR : R ≠ []
  · rw [if_pos hR]
  · rw [if_neg hR, not_not.mp hR, List.append_nil, path_components_strip]

/-- The path that replaces a symlink component when one more name is still to
walk. -/
theorem next_resolve_path_snoc (cp comp T : List Nat) (rest : List (List Nat))
    (name : List Nat) (hne : name ≠ []) (hs : SLASH ∉ name) :
    path_components (next_resolve_path cp comp T (rest ++ [name])) =
      path_components (next_resolve_path cp comp T rest) ++ [name] := by
  unfold next_resolve_path
  dsimp only
  exact next_resolve_path_tail _ rest name hne hs

theorem read_inode_error_fst (c : SimpleFS_Context) (n : Nat) (e : Int)
    (h : (read_inode_from_disk c n).1 = .error e) (f : Buf → SimpleFS_Context → Nat × SimpleFS_Context) :
    (match read_inode_from_disk c n with
      | (.error _, context) => (0, context)
      | (.ok d, context) => f d context).1 = 0 := by
  generalize read_inode_from_disk c n = r at h
  obtain ⟨v, k⟩ := r
  dsimp only at h
  subst h
  rfl

/-- The walk over the components of a directory path followed by one more
name: when the walk over the directory path succeeds in `c`, the walk over the
longer list in a state that extends `c` on `I` is the lookup of the name in the
directory found. -/
theorem resolve_walk_snoc (caller : fuse_context) (I : Nat → Prop)
    (c c' : SimpleFS_Context) (hx : resolve_extends_on I c c')
    (name : List Nat) (hne : name ≠ []) (hs : SLASH ∉ name)
    (recurse recurse' : SimpleFS_Context → List Nat → Nat × SimpleFS_Context)
    (hrec : ∀ X Y, (recurse c X).1 ≠ 0 → path_components Y = path_components X ++ [name] →
      I (recurse c X).1 ∧ recurse' c' Y = final_step caller c' (recurse c X).1 name) :
    ∀ (comps : List (List Nat)) (cur : Nat) (path : List Nat), I cur →
      (resolve_walk caller true recurse comps c cur path).1 ≠ 0 →
      I (resolve_walk caller true recurse comps c cur path).1 ∧
      resolve_walk caller false recurse' (comps ++ [name]) c' cur path =
        final_step caller c' (resolve_walk caller true recurse comps c cur path).1 name := by
  intro comps
  induction comps with
  | nil =>
    intro cur path hI _
    exact ⟨hI, resolve_walk_single caller recurse' c' cur name path⟩
  | cons component rest ih =>
    intro cur path hI
    rw [List.cons_append, resolve_walk, resolve_walk]
    dsimp only
    by_cases hskip : component = [] ∨ component = DOT
    · rw [if_pos hskip, if_pos hskip]
      exact ih cur path hI
    rw [if_neg hskip, if_neg hskip]
    cases hr : (read_inode_from_disk c cur).1 with
    | error e =>
      intro hne0
      exact absurd (read_inode_error_fst c cur e hr _) hne0
    | ok d =>
      obtain ⟨d', hr', hv⟩ := hx.view cur d hI hr
      rw [read_inode_from_disk_eq c cur d hr, read_inode_from_disk_eq c' cur d' hr']
      dsimp only
      rw [hv.mode]
      by_cases hdir : ¬ S_ISDIR (i_mode d) = true
      · rw [if_pos hdir, if_pos hdir]
        intro hne0
        exact absurd rfl hne0
      rw [if_neg hdir, if_neg hdir]
      have hdir' : S_ISDIR (i_mode d) = true := not_not.mp hdir
      by_cases ha : (check_access c caller d X_OK).1 ≠ 0
      · rw [if_pos ha]
        intro hne0
        exact absurd rfl hne0
      rw [if_neg ha]
      obtain ⟨a1, a2⟩ := check_access_view c c' caller d d' X_OK hv.mode hv.uid hv.gid
        (not_not.mp ha)
      rw [a1, a2]
      dsimp only
      rw [if_neg (not_not.mpr rfl)]
      cases hl : lookup_component c.device_fd d component with
      | ioerr => intro hne0; exact absurd rfl hne0
      | absent => intro hne0; exact absurd rfl hne0
      | found nxt =>
        have hIn : I nxt := hx.closed cur d component nxt hI hr hdir' hl
        rw [hv.look hdir' component (by rw [hl]; intro h; cases h), hl]
        dsimp only
        cases hq : (read_inode_from_disk c nxt).1 with
        | error e =>
          intro hne0
          exact absurd (read_inode_error_fst c nxt e hq _) hne0
        | ok t =>
          obtain ⟨t', hq', hw⟩ := hx.view nxt t hIn hq
          rw [read_inode_from_disk_eq c nxt t hq, read_inode_from_disk_eq c' nxt t' hq']
          dsimp only
          rw [hw.mode]
          have hnl : ¬ decide (rest ++ [name] = []) = true := by simp
          by_cases hlk : S_ISLNK (i_mode t) = true
          · rw [if_pos hlk, if_pos hlk]
            have h1 : ¬ (decide (rest = []) = true ∧ ¬ true = true) := fun h => h.2 rfl
            have h2 : ¬ (decide (rest ++ [name] = []) = true ∧ ¬ false = true) :=
              fun h => hnl h.1
            rw [if_neg h1, if_neg h2, hw.link hlk]
            cases read_symlink_target c.device_fd t with
            | none => intro hne0; exact absurd rfl hne0
            | some target =>
              dsimp only
              intro hne0
              exact hrec _ _ hne0 (next_resolve_path_snoc _ _ _ rest name hne hs)
          · rw [if_neg hlk, if_neg hlk, if_neg hnl]
            by_cases hlast : decide (rest = []) = true
            · rw [if_pos hlast]
              have hrest : rest = [] := of_decide_eq_true hlast
              intro _
              rw [hrest]
              exact ⟨hIn, resolve_walk_single caller recurse' c' nxt name _⟩
            rw [if_neg hlast]
            exact ih nxt _ hIn

/-- Source function `resolve_path_recursive` on a directory path followed by
one more name. -/
theorem resolve_path_budget_snoc (caller : fuse_context) (I : Nat → Prop)
    (c c' : SimpleFS_Context) (hx : resolve_extends_on I c c')
    (name : List Nat) (hne : name ≠ []) (hs : SLASH ∉ name) :
    ∀ (budget : Nat) (X Y : List Nat),
      (resolve_path_budget caller true budget c X).1 ≠ 0 →
      path_components Y = path_components X ++ [name] →
      I (resolve_path_budget caller true budget c X).1 ∧
      resolve_path_budget caller false budget c' Y =
        final_step caller c' (resolve_path_budget caller true budget c X).1 name := by
  intro budget
  induction budget with
  | zero =>
    intro X Y hne0
    exact absurd rfl hne0
  | succ b ih =>
    intro X Y
    rw [resolve_path_budget, resolve_path_budget]
    intro hne0 hY
    have hYc : path_components Y ≠ [] := by
      rw [hY]
      simp
    have y1 : Y ≠ [] := by
      intro h
      rw [h] at hYc
      exact hYc path_components_nil
    have y2 : Y ≠ [SLASH] := by
      intro h
      rw [h] at hYc
      exact hYc path_components_root
    have y3 : ¬ (path_components Y = [] ∧ Y.head? = some SLASH) := fun h => hYc h.1
    rw [if_neg y1, if_neg y2]
    dsimp only
    rw [if_neg y3, if_neg hYc, hx.root]
    by_cases h1 : X = []
    · rw [if_pos h1] at hne0
      exact absurd rfl hne0
    rw [if_neg h1] at hne0 ⊢
    by_cases h2 : X = [SLASH]
    · rw [if_pos h2]
      rw [h2, path_components_root, List.nil_append] at hY
      rw [hY]
      exact ⟨hx.root_in, resolve_walk_single caller _ c' _ name _⟩
    rw [if_neg h2] at hne0 ⊢
    dsimp only at hne0 ⊢
    by_cases h3 : path_components X = [] ∧ X.head? = some SLASH
    · rw [if_pos h3]
      rw [h3.1, List.nil_append] at hY
      rw [hY]
      exact ⟨hx.root_in, resolve_walk_single caller _ c' _ name _⟩
    rw [if_neg h3] at hne0 ⊢
    by_cases h4 : path_components X = []
    · rw [if_pos h4] at hne0
      exact absurd rfl hne0
    rw [if_neg h4] at hne0 ⊢
    rw [hY]
    exact resolve_walk_snoc caller I c c' hx name hne hs _ _
      (fun P Q hP hQ => ih P Q hP hQ) _ _ _ hx.root_in hne0

/-! ## Directory lookup against the enumeration -/

/-- The record loop of the lookup on a tiled block that the directory's size
covers: the inode of the first active record with the name. -/
theorem lookup_scan_tiles (comp : List Nat) (blk : Buf) :
    ∀ (fuel off : Nat) (offs : List Nat), Tiles blk off offs → offs.length ≤ fuel →
      lookup_scan comp SIMPLEFS_BLOCK_SIZE fuel blk off =
        ((active_entries blk offs).find? (fun e => decide (e.1 = comp))).map (fun e => e.2) := by
  have hB : SIMPLEFS_BLOCK_SIZE = 4096 := rfl
  intro fuel
  induction fuel with
  | zero =>
    intro off offs ht hl
    have hnil : offs = [] := List.eq_nil_of_length_eq_zero (by omega)
    subst hnil
    rfl
  | succ fuel ih =>
    intro off offs ht hl
    cases offs with
    | nil =>
      cases ht
      unfold lookup_scan
      rw [if_pos (by omega)]
      rfl
    | cons o rest =>
      obtain ⟨e, h1, h2, h3, h4, h5⟩ := Tiles.inv_cons blk off o rest ht
      subst e
      have hrl : de_rec_len blk o ≠ 0 := by
        have := calculate_dir_entry_len_ge (de_name_len blk o)
        omega
      unfold lookup_scan
      rw [if_neg (by omega), if_neg (by
        intro hc
        rcases hc with hc | hc | hc
        · exact hrl hc
        · omega
        · omega)]
      have hlen : rest.length ≤ fuel := by
        simp at hl
        omega
      rw [active_entries_cons, ih _ rest h5 hlen]
      by_cases hi : de_inode blk o ≠ 0
      · rw [if_pos hi]
        by_cases hm : de_name_matches blk o comp = true
        · rw [if_pos ⟨hi, hm⟩]
          have hn := (de_name_matches_iff blk o comp).mp hm
          rw [List.singleton_append, List.find?_cons_of_pos _ (by simp [hn])]
          rfl
        · rw [if_neg (fun h => hm h.2)]
          have hn : de_name blk o ≠ comp := fun h => hm ((de_name_matches_iff blk o comp).mpr h)
          rw [List.singleton_append, List.find?_cons_of_neg _ (by simp [hn])]
      · rw [if_neg hi, if_neg (fun h => hi h.1), List.nil_append]

/-- The lookup in one data block of a well-formed directory. -/
theorem lookup_data_block_tiled (fd : Device) (a : Buf) (comp : List Nat) (k p : Nat)
    (hr : fd.readable p = true) (offs : List Nat) (ht : Tiles (fd.data p) 0 offs)
    (hk : (k + 1) * SIMPLEFS_BLOCK_SIZE ≤ i_size a) :
    lookup_data_block fd a comp k p =
      match (active_entries (fd.data p) offs).find? (fun e => decide (e.1 = comp)) with
      | some e => .found e.2
      | none => .absent := by
  have hB : SIMPLEFS_BLOCK_SIZE = 4096 := rfl
  have hsz := i_size_lt a
  have hl := Tiles.length_le (fd.data p) 0 offs ht
  unfold lookup_data_block
  rw [read_block_of_readable fd p hr]
  dsimp only
  have hk1 : (k + 1) * 4096 = k * 4096 + 4096 := by ring
  rw [hB] at hk hl ⊢
  rw [u32_of_lt _ (by omega), if_pos (by omega)]
  have hmin : min 4096 (i_size a - k * 4096) = 4096 := by omega
  rw [hmin]
  have := lookup_scan_tiles comp (fd.data p) 4096 0 offs ht (by omega)
  rw [hB] at this
  rw [this]
  cases (active_entries (fd.data p) offs).find? (fun e => decide (e.1 = comp)) with
  | none => rfl
  | some e => rfl

theorem lookup_ptrs_res (fd : Device) (a : Buf) (comp : List Nat) (ptr lbn : Nat → Nat)
    (r : Lookup) (hr : r ≠ .absent) : ∀ (n k0 : Nat),
    lookup_ptrs fd a comp ptr lbn n k0 = r →
    ∃ i, k0 ≤ i ∧ i < k0 + n ∧ ptr i ≠ 0 ∧ lookup_data_block fd a comp (lbn i) (ptr i) = r := by
  intro n
  induction n with
  | zero =>
    intro k0 h
    exact absurd h.symm hr
  | succ n ih =>
    intro k0 h
    rw [lookup_ptrs] at h
    by_cases hp : ptr k0 = 0
    · rw [if_pos hp] at h
      obtain ⟨i, i1, i2, i3⟩ := ih (k0 + 1) h
      exact ⟨i, by omega, by omega, i3⟩
    · rw [if_neg hp] at h
      cases hL : lookup_data_block fd a comp (lbn k0) (ptr k0) with
      | absent =>
        rw [hL] at h
        obtain ⟨i, i1, i2, i3⟩ := ih (k0 + 1) h
        exact ⟨i, by omega, by omega, i3⟩
      | found m =>
        rw [hL] at h
        exact ⟨k0, le_refl _, by omega, hp, by rw [hL]; exact h⟩
      | ioerr =>
        rw [hL] at h
        exact ⟨k0, le_refl _, by omega, hp, by rw [hL]; exact h⟩

theorem lookup_ptrs_absent (fd : Device) (a : Buf) (comp : List Nat) (ptr lbn : Nat → Nat) :
    ∀ (n k0 : Nat), lookup_ptrs fd a comp ptr lbn n k0 = .absent →
    ∀ i, k0 ≤ i → i < k0 + n → ptr i ≠ 0 →
      lookup_data_block fd a comp (lbn i) (ptr i) = .absent := by
  intro n
  induction n with
  | zero =>
    intro k0 _ i h1 h2
    omega
  | succ n ih =>
    intro k0 h i h1 h2 h3
    rw [lookup_ptrs] at h
    by_cases hp : ptr k0 = 0
    · rw [if_pos hp] at h
      have : i ≠ k0 := fun e => h3 (e ▸ hp)
      exact ih (k0 + 1) h i (by omega) (by omega) h3
    · rw [if_neg hp] at h
      cases hL : lookup_data_block fd a comp (lbn k0) (ptr k0) with
      | absent =>
        rw [hL] at h
        by_cases e : i = k0
        · rw [e]
          exact hL
        · exact ih (k0 + 1) h i (by omega) (by omega) h3
      | found m =>
        rw [hL] at h
        exact Lookup.noConfusion h
      | ioerr =>
        rw [hL] at h
        exact Lookup.noConfusion h

theorem lookup_l1s_res (fd : Device) (a : Buf) (comp : List Nat) (content : Buf)
    (base : Nat → Nat) (r : Lookup) (hr : r ≠ .absent) : ∀ (n k0 : Nat),
    lookup_l1s fd a comp content base n k0 = r →
    ∃ i j, k0 ≤ i ∧ i < k0 + n ∧ j < SIMPLEFS_BLOCK_SIZE / 4 ∧ ptrAt content i ≠ 0 ∧
      ptrAt (fd.data (ptrAt content i)) j ≠ 0 ∧
      lookup_data_block fd a comp (u32 (base i + j)) (ptrAt (fd.data (ptrAt content i)) j) = r := by
  intro n
  induction n with
  | zero =>
    intro k0 h
    exact absurd h.symm hr
  | succ n ih =>
    intro k0 h
    rw [lookup_l1s] at h
    by_cases hp : ptrAt content k0 = 0
    · rw [if_pos hp] at h
      obtain ⟨i, j, i1, i2, i3⟩ := ih (k0 + 1) h
      exact ⟨i, j, by omega, by omega, i3⟩
    · rw [if_neg hp] at h
      unfold read_block at h
      by_cases hrd : fd.readable (ptrAt content k0) = true
      · rw [if_pos hrd] at h
        dsimp only at h
        cases hL : lookup_ptrs fd a comp (ptrAt (fd.data (ptrAt content k0)))
            (fun l2_idx => u32 (base k0 + l2_idx)) (SIMPLEFS_BLOCK_SIZE / 4) 0 with
        | absent =>
          rw [hL] at h
          obtain ⟨i, j, i1, i2, i3⟩ := ih (k0 + 1) h
          exact ⟨i, j, by omega, by omega, i3⟩
        | found m =>
          rw [hL] at h
          dsimp only at h
          obtain ⟨j, _, j2, j3, j4⟩ := lookup_ptrs_res fd a comp _ _ (.found m)
            (fun e => Lookup.noConfusion e) _ _ hL
          exact ⟨k0, j, le_refl _, by omega, by omega, hp, j3, by rw [j4]; exact h⟩
        | ioerr =>
          rw [hL] at h
          dsimp only at h
          obtain ⟨j, _, j2, j3, j4⟩ := lookup_ptrs_res fd a comp _ _ .ioerr
            (fun e => Lookup.noConfusion e) _ _ hL
          exact ⟨k0, j, le_refl _, by omega, by omega, hp, j3, by rw [j4]; exact h⟩
      · rw [if_neg hrd] at h
        dsimp only at h
        obtain ⟨i, j, i1, i2, i3⟩ := ih (k0 + 1) h
        exact ⟨i, j, by omega, by omega, i3⟩

theorem lookup_l1s_absent (fd : Device) (a : Buf) (comp : List Nat) (content : Buf)
    (base : Nat → Nat) (hio : ∀ b, fd.readable b = true) : ∀ (n k0 : Nat),
    lookup_l1s fd a comp content base n k0 = .absent →
    ∀ i j, k0 ≤ i → i < k0 + n → j < SIMPLEFS_BLOCK_SIZE / 4 → ptrAt content i ≠ 0 →
      ptrAt (fd.data (ptrAt content i)) j ≠ 0 →
      lookup_data_block fd a comp (u32 (base i + j)) (ptrAt (fd.data (ptrAt content i)) j) =
        .absent := by
  intro n
  induction n with
  | zero =>
    intro k0 _ i j h1 h2
    omega
  | succ n ih =>
    intro k0 h i j h1 h2 hj h3 h4
    rw [lookup_l1s] at h
    by_cases hp : ptrAt content k0 = 0
    · rw [if_pos hp] at h
      have : i ≠ k0 := fun e => h3 (e ▸ hp)
      exact ih (k0 + 1) h i j (by omega) (by omega) hj h3 h4
    · rw [if_neg hp, read_block_of_readable fd _ (hio _)] at h
      dsimp only at h
      cases hL : lookup_ptrs fd a comp (ptrAt (fd.data (ptrAt content k0)))
          (fun l2_idx => u32 (base k0 + l2_idx)) (SIMPLEFS_BLOCK_SIZE / 4) 0 with
      | absent =>
        rw [hL] at h
        by_cases e : i = k0
        · rw [e] at h4 ⊢
          exact lookup_ptrs_absent fd a comp _ _ _ _ hL j (Nat.zero_le _) (by omega) h4
        · exact ih (k0 + 1) h i j (by omega) (by omega) hj h3 h4
      | found m =>
        rw [hL] at h
        exact Lookup.noConfusion h
      | ioerr =>
        rw [hL] at h
        exact Lookup.noConfusion h

theorem lookup_l2s_res (fd : Device) (a : Buf) (comp : List Nat) (content : Buf)
    (r : Lookup) (hr : r ≠ .absent) : ∀ (n k0 : Nat),
    lookup_l2s fd a comp content n k0 = r →
    ∃ i j t, k0 ≤ i ∧ i < k0 + n ∧ j < SIMPLEFS_BLOCK_SIZE / 4 ∧ t < SIMPLEFS_BLOCK_SIZE / 4 ∧
      ptrAt content i ≠ 0 ∧ ptrAt (fd.data (ptrAt content i)) j ≠ 0 ∧
      ptrAt (fd.data (ptrAt (fd.data (ptrAt content i)) j)) t ≠ 0 ∧
      lookup_data_block fd a comp
        (u32 (12 + 1024 + 1024 * 1024 + i * 1024 * 1024 + j * 1024 + t))
        (ptrAt (fd.data (ptrAt (fd.data (ptrAt content i)) j)) t) = r := by
  intro n
  induction n with
  | zero =>
    intro k0 h
    exact absurd h.symm hr
  | succ n ih =>
    intro k0 h
    rw [lookup_l2s] at h
    by_cases hp : ptrAt content k0 = 0
    · rw [if_pos hp] at h
      obtain ⟨i, j, t, i1, i2, i3⟩ := ih (k0 + 1) h
      exact ⟨i, j, t, by omega, by omega, i3⟩
    · rw [if_neg hp] at h
      unfold read_block at h
      by_cases hrd : fd.readable (ptrAt content k0) = true
      · rw [if_pos hrd] at h
        dsimp only at h
        cases hL : lookup_l1s fd a comp (fd.data (ptrAt content k0))
            (fun l1_idx => 12 + 1024 + 1024 * 1024 + k0 * 1024 * 1024 + l1_idx * 1024)
            (SIMPLEFS_BLOCK_SIZE / 4) 0 with
        | absent =>
          rw [hL] at h
          obtain ⟨i, j, t, i1, i2, i3⟩ := ih (k0 + 1) h
          exact ⟨i, j, t, by omega, by omega, i3⟩
        | found m =>
          rw [hL] at h
          dsimp only at h
          obtain ⟨j, t, _, j2, j3, j4, j5, j6⟩ := lookup_l1s_res fd a comp _ _ (.found m)
            (fun e => Lookup.noConfusion e) _ _ hL
          exact ⟨k0, j, t, le_refl _, by omega, by omega, j3, hp, j4, j5,
            by rw [j6]; exact h⟩
        | ioerr =>
          rw [hL] at h
          dsimp only at h
          obtain ⟨j, t, _, j2, j3, j4, j5, j6⟩ := lookup_l1s_res fd a comp _ _ .ioerr
            (fun e => Lookup.noConfusion e) _ _ hL
          exact ⟨k0, j, t, le_refl _, by omega, by omega, j3, hp, j4, j5,
            by rw [j6]; exact h⟩
      · rw [if_neg hrd] at h
        dsimp only at h
        obtain ⟨i, j, t, i1, i2, i3⟩ := ih (k0 + 1) h
        exact ⟨i, j, t, by omega, by omega, i3⟩

theorem lookup_l2s_absent (fd : Device) (a : Buf) (comp : List Nat) (content : Buf)
    (hio : ∀ b, fd.readable b = true) : ∀ (n k0 : Nat),
    lookup_l2s fd a comp content n k0 = .absent →
    ∀ i j t, k0 ≤ i → i < k0 + n → j < SIMPLEFS_BLOCK_SIZE / 4 → t < SIMPLEFS_BLOCK_SIZE / 4 →
      ptrAt content i ≠ 0 → ptrAt (fd.data (ptrAt content i)) j ≠ 0 →
      ptrAt (fd.data (ptrAt (fd.data (ptrAt content i)) j)) t ≠ 0 →
      lookup_data_block fd a comp
        (u32 (12 + 1024 + 1024 * 1024 + i * 1024 * 1024 + j * 1024 + t))
        (ptrAt (fd.data (ptrAt (fd.data (ptrAt content i)) j)) t) = .absent := by
  intro n
  induction n with
  | zero =>
    intro k0 _ i j t h1 h2
    omega
  | succ n ih =>
    intro k0 h i j t h1 h2 hj ht h3 h4 h5
    rw [lookup_l2s] at h
    by_cases hp : ptrAt content k0 = 0
    · rw [if_pos hp] at h
      have : i ≠ k0 := fun e => h3 (e ▸ hp)
      exact ih (k0 + 1) h i j t (by omega) (by omega) hj ht h3 h4 h5
    · rw [if_neg hp, read_block_of_readable fd _ (hio _)] at h
      dsimp only at h
      cases hL : lookup_l1s fd a comp (fd.data (ptrAt content k0))
          (fun l1_idx => 12 + 1024 + 1024 * 1024 + k0 * 1024 * 1024 + l1_idx * 1024)
          (SIMPLEFS_BLOCK_SIZE / 4) 0 with
      | absent =>
        rw [hL] at h
        by_cases e : i = k0
        · rw [e] at h4 h5 ⊢
          exact lookup_l1s_absent fd a comp _ _ hio _ _ hL j t (Nat.zero_le _) (by omega) ht
            h4 h5
        · exact ih (k0 + 1) h i j t (by omega) (by omega) hj ht h3 h4 h5
      | found m =>
        rw [hL] at h
        exact Lookup.noConfusion h
      | ioerr =>
        rw [hL] at h
        exact Lookup.noConfusion h

theorem lbn_direct (i : Nat) (hi : i < 12) : lbn_slot i = i ∧ lbn_idxs i = [] := by
  unfold lbn_slot lbn_idxs
  rw [if_pos hi, if_pos hi]
  exact ⟨rfl, rfl⟩

theorem lbn_single (i : Nat) (hi : i < 1024) :
    lbn_slot (12 + i) = 12 ∧ lbn_idxs (12 + i) = [i] := by
  unfold lbn_slot lbn_idxs
  rw [if_neg (by omega), if_pos (by omega), if_neg (by omega), if_pos (by omega)]
  refine ⟨rfl, ?_⟩
  congr 1
  omega

theorem lbn_double (i j : Nat) (hi : i < 1024) (hj : j < 1024) :
    lbn_slot (12 + 1024 + i * 1024 + j) = 13 ∧ lbn_idxs (12 + 1024 + i * 1024 + j) = [i, j] := by
  unfold lbn_slot lbn_idxs
  rw [if_neg (by omega), if_neg (by omega), if_pos (by omega), if_neg (by omega),
    if_neg (by omega), if_pos (by omega)]
  refine ⟨rfl, ?_⟩
  have e1 : (12 + 1024 + i * 1024 + j - 12 - 1024) / 1024 = i := by omega
  have e2 : (12 + 1024 + i * 1024 + j - 12 - 1024) % 1024 = j := by omega
  rw [e1, e2]

theorem lbn_triple (i j t : Nat) (hi : i < 1024) (hj : j < 1024) (ht : t < 1024) :
    lbn_slot (12 + 1024 + 1024 * 1024 + i * 1024 * 1024 + j * 1024 + t) = 14 ∧
    lbn_idxs (12 + 1024 + 1024 * 1024 + i * 1024 * 1024 + j * 1024 + t) = [i, j, t] := by
  unfold lbn_slot lbn_idxs
  rw [if_neg (by omega), if_neg (by omega), if_neg (by omega), if_neg (by omega),
    if_neg (by omega), if_neg (by omega)]
  refine ⟨rfl, ?_⟩
  have e1 : (12 + 1024 + 1024 * 1024 + i * 1024 * 1024 + j * 1024 + t - 12 - 1024 -
      1024 * 1024) / (1024 * 1024) = i := by omega
  have e2 : (12 + 1024 + 1024 * 1024 + i * 1024 * 1024 + j * 1024 + t - 12 - 1024 -
      1024 * 1024) % (1024 * 1024) / 1024 = j := by omega
  have e3 : (12 + 1024 + 1024 * 1024 + i * 1024 * 1024 + j * 1024 + t - 12 - 1024 -
      1024 * 1024) % (1024 * 1024) % 1024 = t := by omega
  rw [e1, e2, e3]

/-- A directory lookup that finds an entry or fails finds it, or fails, in one
mapped logical block of the directory. -/
theorem lookup_component_res (fd : Device) (a : Buf) (comp : List Nat) (r : Lookup)
    (hr : r ≠ .absent) (h : lookup_component fd a comp = r) :
    ∃ k, k < MAX_LOGICAL_BLOCKS ∧ tree_node fd.data a (lbn_slot k) (lbn_idxs k) ≠ 0 ∧
      lookup_data_block fd a comp k (tree_node fd.data a (lbn_slot k) (lbn_idxs k)) = r := by
  have hB : SIMPLEFS_BLOCK_SIZE / 4 = 1024 := rfl
  have hD12 : SIMPLEFS_NUM_DIRECT_BLOCKS = 12 := rfl
  have hM : MAX_LOGICAL_BLOCKS = 12 + 1024 + 1024 * 1024 + 1024 * 1024 * 1024 := rfl
  unfold lookup_component at h
  split at h
  next x hD =>
    dsimp only at h
    split at h
    next y hS =>
      split at h
      next z hT =>
        -- the triple-indirect tree
        by_cases h14 : i_block a 14 = 0
        · rw [if_pos h14] at h
          exact absurd h.symm hr
        rw [if_neg h14] at h
        unfold read_block at h
        by_cases hrd : fd.readable (i_block a 14) = true
        · rw [if_pos hrd] at h
          dsimp only at h
          obtain ⟨i, j, t, _, i2, j2, t2, p1, p2, p3, p4⟩ :=
            lookup_l2s_res fd a comp _ r hr _ _ h
          rw [hB] at i2 j2 t2
          obtain ⟨l1, l2⟩ := lbn_triple i j t (by omega) j2 t2
          refine ⟨12 + 1024 + 1024 * 1024 + i * 1024 * 1024 + j * 1024 + t, by omega, ?_, ?_⟩
          · rw [l1, l2, tree_node_three _ _ _ _ _ _ h14 p1 p2]
            exact p3
          · rw [l1, l2, tree_node_three _ _ _ _ _ _ h14 p1 p2]
            rw [u32_of_lt _ (by omega)] at p4
            exact p4
        · rw [if_neg hrd] at h
          exact absurd h.symm hr
      next z hT =>
        -- the double-indirect tree
        by_cases h13 : i_block a 13 = 0
        · rw [if_pos h13] at h
          exact absurd h.symm hr
        rw [if_neg h13] at h
        unfold read_block at h
        by_cases hrd : fd.readable (i_block a 13) = true
        · rw [if_pos hrd] at h
          dsimp only at h
          obtain ⟨i, j, _, i2, j2, p1, p2, p3⟩ := lookup_l1s_res fd a comp _ _ r hr _ _ h
          rw [hB] at i2 j2
          obtain ⟨l1, l2⟩ := lbn_double i j (by omega) j2
          refine ⟨12 + 1024 + i * 1024 + j, by omega, ?_, ?_⟩
          · rw [l1, l2, tree_node_two _ _ _ _ _ h13 p1]
            exact p2
          · rw [l1, l2, tree_node_two _ _ _ _ _ h13 p1]
            try dsimp only at p3
            rw [u32_of_lt _ (by omega)] at p3
            exact p3
        · rw [if_neg hrd] at h
          exact absurd h.symm hr
    next y hS =>
      -- the single-indirect block
      by_cases h12 : i_block a 12 = 0
      · rw [if_pos h12] at h
        exact absurd h.symm hr
      rw [if_neg h12] at h
      unfold read_block at h
      by_cases hrd : fd.readable (i_block a 12) = true
      · rw [if_pos hrd] at h
        dsimp only at h
        obtain ⟨i, _, i2, p1, p2⟩ := lookup_ptrs_res fd a comp _ _ r hr _ _ h
        rw [hB] at i2
        obtain ⟨l1, l2⟩ := lbn_single i (by omega)
        refine ⟨12 + i, by omega, ?_, ?_⟩
        · rw [l1, l2, tree_node_one _ _ _ _ h12]
          exact p1
        · rw [l1, l2, tree_node_one _ _ _ _ h12]
          exact p2
      · rw [if_neg hrd] at h
        exact absurd h.symm hr
  next x hD =>
    -- the direct blocks
    obtain ⟨i, _, i2, p1, p2⟩ := lookup_ptrs_res fd a comp _ _ r hr _ _ h
    rw [hD12] at i2
    obtain ⟨l1, l2⟩ := lbn_direct i (by omega)
    refine ⟨i, by omega, ?_, ?_⟩
    · rw [l1, l2]
      exact p1
    · rw [l1, l2]
      exact p2

/-- A directory lookup that finds no entry finds none in any mapped logical
block of the directory. -/
theorem lookup_component_absent (fd : Device) (a : Buf) (comp : List Nat)
    (hio : ∀ b, fd.readable b = true) (h : lookup_component fd a comp = .absent) :
    ∀ k, k < MAX_LOGICAL_BLOCKS → tree_node fd.data a (lbn_slot k) (lbn_idxs k) ≠ 0 →
      lookup_data_block fd a comp k (tree_node fd.data a (lbn_slot k) (lbn_idxs k)) =
        .absent := by
  have hB : SIMPLEFS_BLOCK_SIZE / 4 = 1024 := rfl
  have hD12 : SIMPLEFS_NUM_DIRECT_BLOCKS = 12 := rfl
  have hM : MAX_LOGICAL_BLOCKS = 12 + 1024 + 1024 * 1024 + 1024 * 1024 * 1024 := rfl
  unfold lookup_component at h
  split at h
  next x hD =>
    dsimp only at h
    split at h
    next y hS =>
      split at h
      next z hT =>
        intro k hk hne
        rw [hM] at hk
        by_cases k1 : k < 12
        · obtain ⟨l1, l2⟩ := lbn_direct k k1
          rw [l1, l2] at hne ⊢
          exact lookup_ptrs_absent fd a comp _ _ _ _ hD k (Nat.zero_le _) (by rw [hD12]; omega)
            hne
        by_cases k2 : k < 12 + 1024
        · obtain ⟨i, rfl⟩ : ∃ i, k = 12 + i := ⟨k - 12, by omega⟩
          obtain ⟨l1, l2⟩ := lbn_single i (by omega)
          rw [l1, l2] at hne ⊢
          have h12 : i_block a 12 ≠ 0 := by
            intro e
            apply hne
            unfold tree_node
            rw [e, walk_tree_zero]
          rw [tree_node_one _ _ _ _ h12] at hne ⊢
          rw [if_neg h12, read_block_of_readable fd _ (hio _)] at hS
          dsimp only at hS
          exact lookup_ptrs_absent fd a comp _ _ _ _ hS i (Nat.zero_le _) (by rw [hB]; omega)
            hne
        by_cases k3 : k < 12 + 1024 + 1024 * 1024
        · obtain ⟨i, j, hi, hj, rfl⟩ : ∃ i j, i < 1024 ∧ j < 1024 ∧
              k = 12 + 1024 + i * 1024 + j :=
            ⟨(k - 12 - 1024) / 1024, (k - 12 - 1024) % 1024, by omega, by omega, by omega⟩
          obtain ⟨l1, l2⟩ := lbn_double i j hi hj
          rw [l1, l2] at hne ⊢
          have h13 : i_block a 13 ≠ 0 := by
            intro e
            apply hne
            unfold tree_node
            rw [e, walk_tree_zero]
          have hp1 : ptrAt (fd.data (i_block a 13)) i ≠ 0 := by
            intro e
            apply hne
            unfold tree_node
            rw [walk_tree_cons_ne _ _ _ _ h13, e, walk_tree_zero]
          rw [tree_node_two _ _ _ _ _ h13 hp1] at hne ⊢
          rw [if_neg h13, read_block_of_readable fd _ (hio _)] at hT
          dsimp only at hT
          have := lookup_l1s_absent fd a comp _ _ hio _ _ hT i j (Nat.zero_le _)
            (by rw [hB]; omega) (by rw [hB]; exact hj) hp1 hne
          try dsimp only at this
          rw [u32_of_lt _ (by omega)] at this
          exact this
        · obtain ⟨i, j, t, hi, hj, ht, rfl⟩ : ∃ i j t, i < 1024 ∧ j < 1024 ∧ t < 1024 ∧
              k = 12 + 1024 + 1024 * 1024 + i * 1024 * 1024 + j * 1024 + t :=
            ⟨(k - 12 - 1024 - 1024 * 1024) / (1024 * 1024),
              (k - 12 - 1024 - 1024 * 1024) % (1024 * 1024) / 1024,
              (k - 12 - 1024 - 1024 * 1024) % (1024 * 1024) % 1024, by omega, by omega,
              by omega, by omega⟩
          obtain ⟨l1, l2⟩ := lbn_triple i j t hi hj ht
          rw [l1, l2] at hne ⊢
          have h14 : i_block a 14 ≠ 0 := by
            intro e
            apply hne
            unfold tree_node
            rw [e, walk_tree_zero]
          have hp1 : ptrAt (fd.data (i_block a 14)) i ≠ 0 := by
            intro e
            apply hne
            unfold tree_node
            rw [walk_tree_cons_ne _ _ _ _ h14, e, walk_tree_zero]
          have hp2 : ptrAt (fd.data (ptrAt (fd.data (i_block a 14)) i)) j ≠ 0 := by
            intro e
            apply hne
            unfold tree_node
            rw [walk_tree_cons_ne _ _ _ _ h14, walk_tree_cons_ne _ _ _ _ hp1, e, walk_tree_zero]
          rw [tree_node_three _ _ _ _ _ _ h14 hp1 hp2] at hne ⊢
          rw [if_neg h14, read_block_of_readable fd _ (hio _)] at h
          dsimp only at h
          have := lookup_l2s_absent fd a comp _ hio _ _ h i j t (Nat.zero_le _)
            (by rw [hB]; omega) (by rw [hB]; exact hj) (by rw [hB]; exact ht) hp1 hp2 hne
          rw [u32_of_lt _ (by omega)] at this
          exact this
      next z hT => exact absurd h hT
    next y hS => exact absurd h hS
  next x hD => exact absurd h hD

/-- The lookup in a mapped block of a well-formed directory, against the
enumeration of the block. -/
theorem lookup_block_listing (c : SimpleFS_Context) (a : Buf) (num : Nat) (comp : List Nat)
    (h : dir_ok c a num) (k : Nat) (hk : k < MAX_LOGICAL_BLOCKS)
    (hne : tree_node c.device_fd.data a (lbn_slot k) (lbn_idxs k) ≠ 0) :
    k < i_size a / SIMPLEFS_BLOCK_SIZE ∧
    lookup_data_block c.device_fd a comp k
        (tree_node c.device_fd.data a (lbn_slot k) (lbn_idxs k)) =
      match (dir_block_listing c a k).find? (fun e => decide (e.1 = comp)) with
      | some e => .found e.2
      | none => .absent := by
  have hior : ∀ b, c.device_fd.readable b = true := fun b => (h.io b).1
  have hb := dir_block_eq_node c a k hior hk
  rw [← hb] at hne ⊢
  have hkN : k < i_size a / SIMPLEFS_BLOCK_SIZE := by
    by_contra hge
    exact hne (h.beyond k (by omega))
  obtain ⟨offs, ht⟩ := h.tiled k hkN
  have hle := dir_ok_block_le c a num h k hkN
  rw [dir_block_listing_tiled c a k hle hne offs ht]
  exact ⟨hkN, lookup_data_block_tiled c.device_fd a comp k _ (hior _) offs ht hle⟩

/-- A lookup in a well-formed directory that finds an inode finds a pair of
the enumeration. -/
theorem lookup_found_listing (c : SimpleFS_Context) (a : Buf) (num : Nat) (comp : List Nat)
    (m : Nat) (h : dir_ok c a num) (hl : lookup_component c.device_fd a comp = .found m) :
    (comp, m) ∈ dir_listing c a := by
  obtain ⟨k, hk, hne, hr⟩ := lookup_component_res c.device_fd a comp (.found m)
    (fun e => Lookup.noConfusion e) hl
  obtain ⟨hkN, hb⟩ := lookup_block_listing c a num comp h k hk hne
  rw [hb] at hr
  rw [mem_dir_listing c a h.size_whole]
  refine ⟨k, hkN, ?_⟩
  cases hf : (dir_block_listing c a k).find? (fun e => decide (e.1 = comp)) with
  | none =>
    rw [hf] at hr
    exact Lookup.noConfusion hr
  | some e =>
    rw [hf] at hr
    dsimp only at hr
    have hm : e.2 = m := by injection hr
    have h1 := List.find?_some hf
    have h2 := List.mem_of_find?_eq_some hf
    have h3 : e.1 = comp := of_decide_eq_true h1
    have : e = (comp, m) := Prod.ext h3 hm
    rw [← this]
    exact h2

/-- A lookup in a well-formed directory does not fail. -/
theorem lookup_not_ioerr (c : SimpleFS_Context) (a : Buf) (num : Nat) (comp : List Nat)
    (h : dir_ok c a num) : lookup_component c.device_fd a comp ≠ .ioerr := by
  intro hl
  obtain ⟨k, hk, hne, hr⟩ := lookup_component_res c.device_fd a comp .ioerr
    (fun e => Lookup.noConfusion e) hl
  obtain ⟨_, hb⟩ := lookup_block_listing c a num comp h k hk hne
  rw [hb] at hr
  cases hf : (dir_block_listing c a k).find? (fun e => decide (e.1 = comp)) with
  | none =>
    rw [hf] at hr
    exact Lookup.noConfusion hr
  | some e =>
    rw [hf] at hr
    exact Lookup.noConfusion hr

/-- A lookup in a well-formed directory that finds nothing: the enumeration
has no pair with the name. -/
theorem lookup_absent_listing (c : SimpleFS_Context) (a : Buf) (num : Nat) (comp : List Nat)
    (h : dir_ok c a num) (hl : lookup_component c.device_fd a comp = .absent) (m : Nat) :
    (comp, m) ∉ dir_listing c a := by
  intro hmem
  have hior : ∀ b, c.device_fd.readable b = true := fun b => (h.io b).1
  rw [mem_dir_listing c a h.size_whole] at hmem
  obtain ⟨k, hkN, hin⟩ := hmem
  have hk := dir_blocks_lt_max a k (by omega)
  have hne : tree_node c.device_fd.data a (lbn_slot k) (lbn_idxs k) ≠ 0 := by
    rw [← dir_block_eq_node c a k hior hk]
    exact h.backed k hkN
  have habs := lookup_component_absent c.device_fd a comp hior hl k hk hne
  obtain ⟨_, hb⟩ := lookup_block_listing c a num comp h k hk hne
  rw [hb] at habs
  cases hf : (dir_block_listing c a k).find? (fun e => decide (e.1 = comp)) with
  | none =>
    have := List.find?_eq_none.mp hf (comp, m) hin
    simp at this
  | some e =>
    rw [hf] at habs
    exact Lookup.noConfusion habs

/-- In a well-formed directory without a name for two inodes the lookup of a
name is the inode the enumeration pairs with it. -/
theorem lookup_of_listing (c : SimpleFS_Context) (a : Buf) (num : Nat) (comp : List Nat)
    (m : Nat) (h : dir_ok c a num) (hu : names_unique (dir_listing c a))
    (hmem : (comp, m) ∈ dir_listing c a) : lookup_component c.device_fd a comp = .found m := by
  cases hl : lookup_component c.device_fd a comp with
  | absent => exact absurd hmem (lookup_absent_listing c a num comp h hl m)
  | ioerr => exact absurd hl (lookup_not_ioerr c a num comp h)
  | found m' =>
    have h2 := lookup_found_listing c a num comp m' h hl
    have := hu _ h2 _ hmem rfl
    dsimp only at this
    rw [this]

/-- The lookups in a well-formed directory that gained the pair `(name, n)`
for a name it did not hold: the name leads to `n`, every lookup that found an
inode finds the same one. -/
theorem lookup_after_add (c c' : SimpleFS_Context) (a a' : Buf) (num num' : Nat)
    (name : List Nat) (n : Nat) (h : dir_ok c a num) (h' : dir_ok c' a' num')
    (hu : names_unique (dir_listing c a))
    (hp : List.Perm (dir_listing c' a') ((name, n) :: dir_listing c a))
    (habs : lookup_component c.device_fd a name = .absent) :
    names_unique (dir_listing c' a') ∧
    lookup_component c'.device_fd a' name = .found n ∧
    ∀ comp, lookup_component c.device_fd a comp ≠ .absent →
      lookup_component c'.device_fd a' comp = lookup_component c.device_fd a comp := by
  have hu' : names_unique (dir_listing c' a') := by
    intro e he e' he' hee
    have q1 := hp.mem_iff.mp he
    have q2 := hp.mem_iff.mp he'
    rcases List.mem_cons.mp q1 with r1 | r1 <;> rcases List.mem_cons.mp q2 with r2 | r2
    · rw [r1, r2]
    · exfalso
      have : e' = (name, e'.2) := Prod.ext (by rw [← hee, r1]) rfl
      rw [this] at r2
      exact lookup_absent_listing c a num name h habs _ r2
    · exfalso
      have : e = (name, e.2) := Prod.ext (by rw [hee, r2]) rfl
      rw [this] at r1
      exact lookup_absent_listing c a num name h habs _ r1
    · exact hu e r1 e' r2 hee
  refine ⟨hu', ?_, fun comp hne => ?_⟩
  · exact lookup_of_listing c' a' num' name n h' hu'
      (hp.mem_iff.mpr (List.mem_cons_self _ _))
  · cases hl : lookup_component c.device_fd a comp with
    | absent => exact absurd hl hne
    | ioerr => exact absurd hl (lookup_not_ioerr c a num comp h)
    | found m =>
      exact lookup_of_listing c' a' num' comp m h' hu'
        (hp.mem_iff.mpr (List.mem_cons_of_mem _ (lookup_found_listing c a num comp m h hl)))

/-! ## The device after `add_dir_entry` -/

/-- The loop of `add_dir_entry` with the blocks it writes: the data block that
receives the record, and the inode-table block with the directory's record. -/
theorem add_dir_entry_loop_device (c : SimpleFS_Context) (inode : Buf) (num : Nat)
    (name : List Nat) (child ft : Nat) (h : dir_ok c inode num)
    (ha : tree_ok c inode (fs_reserved c num))
    (hn : name.length ≤ 255) (hc0 : child ≠ 0) (hc : child < 4294967296) (T o : Nat)
    (hloc : inode_location c num = .ok (T, o)) :
    ∀ (remaining k : Nat), k ≤ i_size inode / SIMPLEFS_BLOCK_SIZE →
      i_size inode / SIMPLEFS_BLOCK_SIZE < k + remaining →
      (add_dir_entry_loop num name child ft remaining c inode k).1 ≠ 0 ∨
      (∃ j blk' offs offs' cF, k ≤ j ∧ j < i_size inode / SIMPLEFS_BLOCK_SIZE ∧
        Tiles (c.device_fd.data (dir_block c inode j)) 0 offs ∧ Tiles blk' 0 offs' ∧
        List.Perm (active_entries blk' offs')
          ((name, child) :: active_entries (c.device_fd.data (dir_block c inode j)) offs) ∧
        add_dir_entry_loop num name child ft remaining c inode k =
          (0, set_i_mtime (set_i_ctime inode c.now) c.now, cF) ∧
        cF.device_fd = (c.device_fd.put (dir_block c inode j) blk').put T
          (blit ((c.device_fd.put (dir_block c inode j) blk').data T) o
            (set_i_mtime (set_i_ctime inode c.now) c.now) 0 SIMPLEFS_INODE_SIZE) ∧
        cF.sb = c.sb ∧ cF.gdt = c.gdt ∧ cF.now = c.now) ∨
      (∃ b inode_g c_g cF,
        get_or_alloc_dir_block c inode num (i_size inode / SIMPLEFS_BLOCK_SIZE) =
          (b, inode_g, c_g) ∧ b ≠ 0 ∧
        add_dir_entry_loop num name child ft remaining c inode k =
          (0, add_dir_entry_inode inode_g (i_size inode / SIMPLEFS_BLOCK_SIZE) c.now, cF) ∧
        cF.device_fd = (c_g.device_fd.put b
          (fill_dir_entry zeroBuf 0 child name ft SIMPLEFS_BLOCK_SIZE)).put T
          (blit ((c_g.device_fd.put b
              (fill_dir_entry zeroBuf 0 child name ft SIMPLEFS_BLOCK_SIZE)).data T) o
            (add_dir_entry_inode inode_g (i_size inode / SIMPLEFS_BLOCK_SIZE) c.now) 0
            SIMPLEFS_INODE_SIZE) ∧
        cF.sb = c_g.sb ∧ cF.gdt = c_g.gdt ∧ cF.now = c.now) := by
  have hB : SIMPLEFS_BLOCK_SIZE = 4096 := rfl
  have hsz := i_size_lt inode
  have hwhole := h.size_whole
  have hior : ∀ b, c.device_fd.readable b = true := fun b => (h.io b).1
  intro remaining
  induction remaining with
  | zero =>
    intro k h1 h2
    omega
  | succ rem ih =>
    intro k hk1 hk2
    by_cases hkN : k < i_size inode / SIMPLEFS_BLOCK_SIZE
    · -- a backed block
      have hbk := h.backed k hkN
      obtain ⟨offs, ht⟩ := h.tiled k hkN
      have hmap := get_or_alloc_dir_block_mapped c inode num k h.io
        (dir_blocks_lt_max inode k (by omega)) hbk
      rw [add_dir_entry_loop]
      dsimp only
      rw [hmap]
      dsimp only
      rw [if_neg hbk, read_block_io c h.io]
      dsimp only
      cases hscan : add_dir_entry_scan name child ft SIMPLEFS_BLOCK_SIZE
          (c.device_fd.data (dir_block c inode k)) 0 with
      | none =>
        dsimp only
        rcases ih (k + 1) (by omega) (by omega) with r | ⟨j, blk', offs, offs', cF, r1, r⟩ | r
        · left; exact r
        · right; left
          exact ⟨j, blk', offs, offs', cF, by omega, r⟩
        · right; right; exact r
      | some blk' =>
        dsimp only
        obtain ⟨offs', t1, _, _, t4⟩ := add_dir_entry_scan_spec name child ft hn hc0 hc
          SIMPLEFS_BLOCK_SIZE _ 0 offs blk' ht hscan
        rw [write_block_of_writable _ _ _ (h.io _).2]
        dsimp only
        have hle := dir_ok_block_le c inode num h k hkN
        have hnl : ¬ i_size inode < u32 ((k + 1) * SIMPLEFS_BLOCK_SIZE) := by
          unfold u32
          rw [Nat.mod_eq_of_lt (by omega)]
          omega
        rw [if_neg hnl]
        have hio2 : io_ok { c with device_fd := (c.device_fd.put (dir_block c inode k) blk') } :=
          fun b => h.io b
        have hloc2 : inode_location
            { c with device_fd := (c.device_fd.put (dir_block c inode k) blk') } num =
              .ok (T, o) :=
          inode_location_layout c
            { c with device_fd := (c.device_fd.put (dir_block c inode k) blk') } num
            (same_layout_of_eq c _ rfl rfl rfl rfl rfl) _ hloc
        rw [write_inode_to_disk_ok _ num _ T o hio2 hloc2]
        dsimp only
        rw [if_neg (by simp)]
        right; left
        exact ⟨k, blk', offs, offs', _, le_refl k, hkN, ht, t1, t4, rfl, rfl, rfl, rfl, rfl⟩
    · -- the first unbacked index
      have hkeq : k = i_size inode / SIMPLEFS_BLOCK_SIZE := by omega
      subst hkeq
      rw [add_dir_entry_loop]
      dsimp only
      cases hg : get_or_alloc_dir_block c inode num (i_size inode / SIMPLEFS_BLOCK_SIZE) with
      | mk b r =>
        obtain ⟨inode_g, c_g⟩ := r
        dsimp only
        by_cases hb : b = 0
        · left
          rw [if_pos hb]
          dsimp only
          by_cases he : c_g.errno = 0
          · rw [if_pos he]
            exact neg_errno_ne_zero ENOSPC (by decide)
          · rw [if_neg he]
            exact neg_errno_ne_zero _ he
        · right; right
          rw [if_neg hb]
          have hmax := dir_blocks_lt_max inode (i_size inode / SIMPLEFS_BLOCK_SIZE) (le_refl _)
          obtain ⟨g1, g2, g3, g4⟩ := get_or_alloc_dir_block_spec c inode (fs_reserved c num) num
            _ ha hmax b inode_g c_g hg hb
          have hun : tree_node c.device_fd.data inode
              (lbn_slot (i_size inode / SIMPLEFS_BLOCK_SIZE))
              (lbn_idxs (i_size inode / SIMPLEFS_BLOCK_SIZE)) = 0 := by
            rw [← dir_block_eq_node c inode _ hior hmax]
            exact h.beyond _ (le_refl _)
          have hzero := g4 hun
          rw [read_block_io c_g g1.ok.io, hzero]
          dsimp only
          rw [(add_dir_entry_scan_fresh name child ft hn hc0 hc).1]
          dsimp only
          rw [write_block_of_writable _ _ _ (g1.ok.io _).2]
          dsimp only
          have hnow : c_g.now = c.now := g1.layout.2.2.2.2.2.2.2.2
          have hio2 : io_ok { c_g with device_fd := (c_g.device_fd.put b
              (fill_dir_entry zeroBuf 0 child name ft SIMPLEFS_BLOCK_SIZE)) } :=
            fun x => g1.ok.io x
          have hloc2 : inode_location { c_g with device_fd := (c_g.device_fd.put b
              (fill_dir_entry zeroBuf 0 child name ft SIMPLEFS_BLOCK_SIZE)) } num = .ok (T, o) :=
            inode_location_layout c_g { c_g with device_fd := (c_g.device_fd.put b
              (fill_dir_entry zeroBuf 0 child name ft SIMPLEFS_BLOCK_SIZE)) } num
              (same_layout_of_eq c_g _ rfl rfl rfl rfl rfl) _
              (inode_location_layout c c_g num g1.layout _ hloc)
          rw [write_inode_to_disk_ok _ num _ T o hio2 hloc2]
          dsimp only
          rw [if_neg (by simp), hnow]
          exact ⟨b, inode_g, c_g, _, rfl, hb, rfl, rfl, rfl, rfl, rfl⟩

theorem tree_ok_shrink (c : SimpleFS_Context) (inode : Buf) (R R' : Nat → Prop)
    (h : tree_ok c inode R) (hsub : ∀ b, R' b → R b)
    (hbm : ∀ g, g < c.gdt.length → R' (c.gdt.getD g default).bg_block_bitmap) :
    tree_ok c inode R' :=
  { io := h.io
    layout := h.layout
    counts := h.counts
    bitmaps := hbm
    reserved := fun b hb => h.reserved b (hsub b hb)
    nodes := fun s idxs hp hne =>
      ⟨(h.nodes s idxs hp hne).1, (h.nodes s idxs hp hne).2.1,
        fun hr => (h.nodes s idxs hp hne).2.2 (hsub _ hr)⟩
    distinct := h.distinct }

/-- Source function `add_dir_entry`, the blocks it leaves alone: a successful
call keeps the layout, keeps every block in use that is no block bitmap, not
the inode-table block of the directory and no block of its tree, and changes
the inode-table block only in the record of the directory, which becomes the
inode the call returns. -/
theorem add_dir_entry_frame (c : SimpleFS_Context) (inode : Buf) (num : Nat)
    (name : List Nat) (child ft : Nat) (h : dir_ok c inode num)
    (ha : tree_ok c inode (fs_reserved c num))
    (hn : name.length ≤ 255) (hc0 : child ≠ 0) (hc : child < 4294967296) (T o : Nat)
    (hloc : inode_location c num = .ok (T, o)) (hTb : ¬ block_bitmaps c T)
    (hret : (add_dir_entry c inode num name child ft).1 = 0) :
    same_layout c (add_dir_entry c inode num name child ft).2.2 ∧
    (∀ x, x < c.sb.s_blocks_count → block_bit_set c x = true → ¬ block_bitmaps c x → x ≠ T →
      (∀ s idxs, tree_path_ok s idxs → tree_node c.device_fd.data inode s idxs ≠ x) →
      (add_dir_entry c inode num name child ft).2.2.device_fd.data x = c.device_fd.data x) ∧
    (add_dir_entry c inode num name child ft).2.2.device_fd.data T =
      blit (c.device_fd.data T) o (add_dir_entry c inode num name child ft).2.1 0
        SIMPLEFS_INODE_SIZE := by
  have hior : ∀ b, c.device_fd.readable b = true := fun b => (h.io b).1
  obtain ⟨T', o', hloc', hT⟩ := h.located
  rw [hloc] at hloc'
  injection hloc' with e
  injection e with e1 e2
  subst e1 e2
  have hNmax := dir_blocks_lt_max inode (i_size inode / SIMPLEFS_BLOCK_SIZE) (le_refl _)
  rw [add_dir_entry_eq_loop c inode num name child ft hn] at hret ⊢
  rcases add_dir_entry_loop_device c inode num name child ft h ha hn hc0 hc T o hloc
      MAX_LOGICAL_BLOCKS 0 (Nat.zero_le _) (by omega) with
    r | ⟨j, blk', offs, offs', cF, _, r2, r3, r4, r5, r6, r7, r8, r9, r10⟩ |
      ⟨b, inode_g, c_g, cF, r1, r2, r3, r4, r5, r6, r7⟩
  · exact absurd hret r
  · -- the record went into a backed block
    rw [r6]
    dsimp only
    have hjm := dir_blocks_lt_max inode j (by omega)
    have hbj := dir_block_eq_node c inode j hior hjm
    have hjT : dir_block c inode j ≠ T := by
      rw [hbj]
      exact hT _ _ (lbn_path_ok j hjm).1
    refine ⟨same_layout_of_eq c cF (by rw [r7]; rfl) (by rw [r7]; rfl) r8 r9 r10, ?_, ?_⟩
    · intro x _ _ _ hxT hx
      rw [r7, put_data_ne _ _ _ _ hxT, put_data_ne]
      rw [hbj]
      exact (hx _ _ (lbn_path_ok j hjm).1).symm
    · rw [r7, put_data_same, put_data_ne _ _ _ _ (Ne.symm hjT)]
  · -- the record went into a new block
    rw [r3]
    dsimp only
    have ha' : tree_ok c inode (block_bitmaps c) :=
      tree_ok_shrink c inode _ _ ha (fun b hb => Or.inl hb) (fun g hg => ⟨g, hg, rfl⟩)
    obtain ⟨g1, g2, g3, g4⟩ := get_or_alloc_dir_block_spec c inode (block_bitmaps c) num
      _ ha' hNmax b inode_g c_g r1 r2
    have hun : tree_node c.device_fd.data inode
        (lbn_slot (i_size inode / SIMPLEFS_BLOCK_SIZE))
        (lbn_idxs (i_size inode / SIMPLEFS_BLOCK_SIZE)) = 0 := by
      rw [← dir_block_eq_node c inode _ hior hNmax]
      exact h.beyond _ (le_refl _)
    have hbfree : block_bit_set c b = false := by
      rw [g2]
      exact g1.fresh _ _ (lbn_path_ok _ hNmax).1 hun (by rw [← g2]; exact r2)
    obtain ⟨t1, t2⟩ := ha.reserved T (Or.inr ⟨o, hloc⟩)
    have hTb2 : T ≠ b := by
      intro e
      rw [e, hbfree] at t2
      exact Bool.noConfusion t2
    have hTkeep : c_g.device_fd.data T = c.device_fd.data T :=
      g1.data_keep T t1 t2 hTb (fun s idxs hp _ => hT s idxs hp)
    refine ⟨?_, ?_, ?_⟩
    · obtain ⟨l1, l2, l3, l4, l5, l6, l7, l8, l9⟩ := g1.layout
      refine ⟨by rw [r4]; exact l1, by rw [r4]; exact l2, by rw [r5]; exact l3,
        by rw [r5]; exact l4, by rw [r5]; exact l5, by rw [r5]; exact l6, by rw [r6]; exact l7,
        fun g => by rw [r6]; exact l8 g, r7⟩
    · intro x x1 x2 x3 hxT hx
      have hxb : x ≠ b := by
        intro e
        rw [e, hbfree] at x2
        exact Bool.noConfusion x2
      rw [r4, put_data_ne _ _ _ _ hxT, put_data_ne _ _ _ _ hxb]
      exact g1.data_keep x x1 x2 x3 (fun s idxs hp _ => hx s idxs hp)
    · rw [r4, put_data_same, put_data_ne _ _ _ _ hTb2, hTkeep]

/-! ## Directories and inode views across a frame -/

theorem same_layout_symm (c c' : SimpleFS_Context) (h : same_layout c c') : same_layout c' c := by
  obtain ⟨a1, a2, a3, a4, a5, a6, a7, a8, a9⟩ := h
  exact ⟨a1.symm, a2.symm, a3.symm, a4.symm, a5.symm, a6.symm, a7.symm,
    fun g => ⟨(a8 g).1.symm, (a8 g).2.1.symm, (a8 g).2.2.symm⟩, a9.symm⟩

theorem inode_location_layout_eq (c c' : SimpleFS_Context) (n : Nat) (h : same_layout c c')
    (loc : Nat × Nat) : inode_location c' n = .ok loc ↔ inode_location c n = .ok loc :=
  ⟨inode_location_layout c' c n (same_layout_symm c c' h) loc, inode_location_layout c c' n h loc⟩

theorem fs_reserved_layout (c c' : SimpleFS_Context) (num : Nat) (h : same_layout c c')
    (b : Nat) : fs_reserved c' num b ↔ fs_reserved c num b := by
  have hlen : c'.gdt.length = c.gdt.length := h.2.2.2.2.2.2.1
  have hbm : ∀ g, (c'.gdt.getD g default).bg_block_bitmap =
      (c.gdt.getD g default).bg_block_bitmap := fun g => (h.2.2.2.2.2.2.2.1 g).1
  unfold fs_reserved
  constructor
  · rintro (⟨g, hg, e⟩ | ⟨o, e⟩)
    · exact Or.inl ⟨g, by rw [← hlen]; exact hg, by rw [e, hbm]⟩
    · exact Or.inr ⟨o, (inode_location_layout_eq c c' num h _).mp e⟩
  · rintro (⟨g, hg, e⟩ | ⟨o, e⟩)
    · exact Or.inl ⟨g, by rw [hlen]; exact hg, by rw [e, hbm]⟩
    · exact Or.inr ⟨o, (inode_location_layout_eq c c' num h _).mpr e⟩

theorem block_bitmaps_layout (c c' : SimpleFS_Context) (h : same_layout c c')
    (b : Nat) : block_bitmaps c' b ↔ block_bitmaps c b := by
  have hlen : c'.gdt.length = c.gdt.length := h.2.2.2.2.2.2.1
  have hbm : ∀ g, (c'.gdt.getD g default).bg_block_bitmap =
      (c.gdt.getD g default).bg_block_bitmap := fun g => (h.2.2.2.2.2.2.2.1 g).1
  unfold block_bitmaps
  constructor
  · rintro ⟨g, hg, e⟩
    exact ⟨g, by rw [← hlen]; exact hg, by rw [e, hbm]⟩
  · rintro ⟨g, hg, e⟩
    exact ⟨g, by rw [hlen]; exact hg, by rw [e, hbm]⟩

/-- A well-formed directory stays well formed, with the same enumeration, in a
state with the same layout in which the blocks of its tree hold what they
held, under an inode with the same size and the same block pointers. -/
theorem dir_ok_transfer (c c' : SimpleFS_Context) (x y : Buf) (num : Nat)
    (h : dir_ok c x num) (hl : same_layout c c') (hsz : i_size y = i_size x)
    (hslots : ∀ t, t < SIMPLEFS_INODE_BLOCK_PTRS → i_block y t = i_block x t)
    (hkeep : ∀ s idxs, tree_path_ok s idxs → tree_node c.device_fd.data x s idxs ≠ 0 →
      c'.device_fd.data (tree_node c.device_fd.data x s idxs) =
        c.device_fd.data (tree_node c.device_fd.data x s idxs)) :
    dir_ok c' y num ∧ dir_listing c' y = dir_listing c x ∧
    (∀ s idxs, tree_path_ok s idxs →
      tree_node c'.device_fd.data y s idxs = tree_node c.device_fd.data x s idxs) ∧
    (∀ k, dir_block c' y k = dir_block c x k) := by
  have hio' := io_ok_of_layout c c' hl h.io
  have hior : ∀ b, c.device_fd.readable b = true := fun b => (h.io b).1
  have hior' : ∀ b, c'.device_fd.readable b = true := fun b => (hio' b).1
  have hnodes : ∀ s idxs, tree_path_ok s idxs →
      tree_node c'.device_fd.data y s idxs = tree_node c.device_fd.data x s idxs :=
    tree_node_frame_slots c.device_fd.data c'.device_fd.data x y hslots
      (fun s idxs hp _ hne => hkeep s idxs hp hne)
  have hblk : ∀ k, dir_block c' y k = dir_block c x k := by
    intro k
    by_cases hk : k < MAX_LOGICAL_BLOCKS
    · rw [dir_block_eq_node c' y k hior' hk, dir_block_eq_node c x k hior hk]
      exact hnodes _ _ (lbn_path_ok k hk).1
    · rw [dir_block_beyond c' y k hior' (by omega), dir_block_beyond c x k hior (by omega)]
  have hdata : ∀ k, dir_block c x k ≠ 0 →
      c'.device_fd.data (dir_block c x k) = c.device_fd.data (dir_block c x k) := by
    intro k hne
    have hk : k < MAX_LOGICAL_BLOCKS := by
      by_contra hge
      exact hne (dir_block_beyond c x k hior (by omega))
    rw [dir_block_eq_node c x k hior hk] at hne ⊢
    exact hkeep _ _ (lbn_path_ok k hk).1 hne
  refine ⟨?_, ?_, hnodes, hblk⟩
  · refine
      { io := hio'
        size_whole := by rw [hsz]; exact h.size_whole
        backed := fun k hk => by
          rw [hsz] at hk
          rw [hblk]
          exact h.backed k hk
        beyond := fun k hk => by
          rw [hsz] at hk
          rw [hblk]
          exact h.beyond k hk
        tiled := fun k hk => by
          rw [hsz] at hk
          rw [hblk, hdata k (h.backed k hk)]
          exact h.tiled k hk
        distinct := ?_
        located := ?_ }
    · intro s idxs s' idxs' p1 p2 hne heq
      rw [hnodes s idxs p1] at hne heq
      rw [hnodes s' idxs' p2] at heq
      exact h.distinct s idxs s' idxs' p1 p2 hne heq
    · obtain ⟨T, o, hloc, hT⟩ := h.located
      refine ⟨T, o, inode_location_layout c c' num hl _ hloc, fun s idxs hp => ?_⟩
      rw [hnodes s idxs hp]
      exact hT s idxs hp
  · unfold dir_listing
    rw [hsz]
    congr 1
    funext k
    unfold dir_block_listing
    rw [hblk k, hsz]
    by_cases hb : dir_block c x k = 0
    · rw [if_pos hb, if_pos hb]
    · rw [if_neg hb, if_neg hb, hdata k hb]

/-- A sound tree stays sound in a state with the same layout in which no bit
of the block bitmaps was cleared and the blocks of the tree hold what they
held. -/
theorem tree_ok_transfer (c c' : SimpleFS_Context) (x y : Buf) (num : Nat)
    (h : tree_ok c x (fs_reserved c num)) (hl : same_layout c c')
    (hlay : block_layout_ok c') (hcnt : counts_in_range c')
    (hbits : ∀ b, b < c.sb.s_blocks_count → block_bit_set c b = true →
      block_bit_set c' b = true)
    (hslots : ∀ t, t < SIMPLEFS_INODE_BLOCK_PTRS → i_block y t = i_block x t)
    (hkeep : ∀ s idxs, tree_path_ok s idxs → tree_node c.device_fd.data x s idxs ≠ 0 →
      c'.device_fd.data (tree_node c.device_fd.data x s idxs) =
        c.device_fd.data (tree_node c.device_fd.data x s idxs)) :
    tree_ok c' y (fs_reserved c' num) := by
  have hnodes : ∀ s idxs, tree_path_ok s idxs →
      tree_node c'.device_fd.data y s idxs = tree_node c.device_fd.data x s idxs :=
    tree_node_frame_slots c.device_fd.data c'.device_fd.data x y hslots
      (fun s idxs hp _ hne => hkeep s idxs hp hne)
  have hcount : c'.sb.s_blocks_count = c.sb.s_blocks_count := hl.2.2.1
  refine
    { io := io_ok_of_layout c c' hl h.io
      layout := hlay
      counts := hcnt
      bitmaps := fun g hg => Or.inl ⟨g, hg, rfl⟩
      reserved := fun b hb => ?_
      nodes := fun s idxs hp hne => ?_
      distinct := ?_ }
  · obtain ⟨r1, r2⟩ := h.reserved b ((fs_reserved_layout c c' num hl b).mp hb)
    exact ⟨by rw [hcount]; exact r1, hbits b r1 r2⟩
  · rw [hnodes s idxs hp] at hne ⊢
    obtain ⟨n1, n2, n3⟩ := h.nodes s idxs hp hne
    exact ⟨by rw [hcount]; exact n1, hbits _ n1 n2,
      fun hr => n3 ((fs_reserved_layout c c' num hl _).mp hr)⟩
  · intro s idxs s' idxs' p1 p2 hne heq
    rw [hnodes s idxs p1] at hne heq
    rw [hnodes s' idxs' p2] at heq
    exact h.distinct s idxs s' idxs' p1 p2 hne heq

/-- The inodes of `I` other than `p` keep their view in a state with the same
layout that keeps their records and the blocks read on their behalf. -/
theorem view_of_frame (c c' : SimpleFS_Context) (m : Nat) (a : Buf)
    (hio : io_ok c) (hl : same_layout c c')
    (hread : (read_inode_from_disk c m).1 = .ok a)
    (hslot : ∀ T o, inode_location c m = .ok (T, o) → ∀ i, i < SIMPLEFS_INODE_SIZE →
      c'.device_fd.data T (o + i) = c.device_fd.data T (o + i))
    (hreads : ∀ b, resolve_reads c.device_fd.data a b →
      c'.device_fd.data b = c.device_fd.data b) :
    (read_inode_from_disk c' m).1 = .ok a ∧ inode_view_le c.device_fd c'.device_fd a a := by
  obtain ⟨_, T, o, hloc, ha⟩ := read_inode_from_disk_ok c m a c
    (read_inode_from_disk_eq c m a hread)
  have hloc' := inode_location_layout c c' m hl _ hloc
  have hio' := io_ok_of_layout c c' hl hio
  have hrec := inode_record_congr (c.device_fd.data T) (c'.device_fd.data T) o (hslot T o hloc)
  refine ⟨?_, ⟨rfl, rfl, rfl, ?_, ?_⟩⟩
  · rw [read_inode_from_disk_io c' m T o hio' hloc', hrec, ← ha]
  · intro hd comp _
    apply lookup_component_congr c.device_fd c'.device_fd a comp hl.1
    intro s idxs hp hne
    exact hreads _ ⟨hne, Or.inl ⟨hd, s, idxs, hp, rfl⟩⟩
  · intro hk
    apply read_symlink_target_congr c.device_fd c'.device_fd a hl.1
    intro h1 h2
    exact hreads _ ⟨h2, Or.inr ⟨hk, h1, rfl⟩⟩

/-! ## The steps of `simplefs_symlink` -/

theorem link_ready_setErrno (I : Nat → Prop) (c : SimpleFS_Context) (e : Nat)
    (h : link_ready I c) : link_ready I (setErrno c e) := by
  have hrd : ∀ m a, (read_inode_from_disk (setErrno c e) m).1 = .ok a →
      (read_inode_from_disk c m).1 = .ok a := by
    intro m a hr
    rw [← (read_inode_from_disk_same c (setErrno c e) m (same_fs_setErrno c e)).1]
    exact hr
  have hl : same_layout c (setErrno c e) := same_layout_setErrno c e
  have hloc : ∀ m loc, inode_location (setErrno c e) m = .ok loc → inode_location c m = .ok loc :=
    fun m loc hl' => (inode_location_layout_eq c (setErrno c e) m hl loc).1 hl'
  have hloc2 : ∀ m loc, inode_location c m = .ok loc → inode_location (setErrno c e) m = .ok loc :=
    fun m loc hl' => (inode_location_layout_eq c (setErrno c e) m hl loc).2 hl'
  have hq : ∀ b, quiet_block c b → quiet_block (setErrno c e) b := fun b hb => hb
  refine
    { io := h.io
      layout := h.layout
      counts := h.counts
      ifit := h.ifit
      bitmaps := h.bitmaps
      ibitmaps := h.ibitmaps
      located := fun m h1 h2 => by
        obtain ⟨T, o, hl'⟩ := h.located m h1 h2
        exact ⟨T, o, hloc2 m _ hl'⟩
      table := fun m T o hl' => hq T (h.table m T o (hloc m _ hl'))
      slots := fun m m' T o o' hne h1 h2 => h.slots m m' T o o' hne (hloc m _ h1) (hloc m' _ h2)
      synced := h.synced
      root_in := h.root_in
      valid := h.valid
      used := h.used
      closed := fun m a comp m' hI hr hd hlk => h.closed m a comp m' hI (hrd m a hr) hd hlk
      reads := fun m a hI hr b hb => by
        obtain ⟨r1, r2⟩ := h.reads m a hI (hrd m a hr) b hb
        exact ⟨hq b r1, fun m' T o hl' => r2 m' T o (hloc m' _ hl')⟩
      apart := fun m m' a a' h1 h2 hne hr hr' b hb =>
        h.apart m m' a a' h1 h2 hne (hrd m a hr) (hrd m' a' hr') b hb
      dirs := fun m a hI hr hd => by
        obtain ⟨d1, d2, d3⟩ := h.dirs m a hI (hrd m a hr) hd
        obtain ⟨t1, t2, _, _⟩ := dir_ok_transfer c (setErrno c e) a a m d1 hl rfl
          (fun _ _ => rfl) (fun _ _ _ _ => rfl)
        refine ⟨t1, ?_, d3⟩
        rw [t2]
        exact d2 }

theorem link_ready_same_fs (I : Nat → Prop) (c c' : SimpleFS_Context) (hs : same_fs c c')
    (h : link_ready I c) : link_ready I c' := by
  rw [same_fs_eq c c' hs]
  exact link_ready_setErrno I c _ h

/-- The tree of a directory of `I` is sound. -/
theorem link_ready_tree_ok (I : Nat → Prop) (c : SimpleFS_Context) (h : link_ready I c)
    (m : Nat) (a : Buf) (hI : I m) (hr : (read_inode_from_disk c m).1 = .ok a)
    (hd : S_ISDIR (i_mode a) = true) : tree_ok c a (fs_reserved c m) := by
  obtain ⟨d1, _, _⟩ := h.dirs m a hI hr hd
  refine
    { io := h.io
      layout := h.layout
      counts := h.counts
      bitmaps := fun g hg => Or.inl ⟨g, hg, rfl⟩
      reserved := fun b hb => ?_
      nodes := fun s idxs hp hne => ?_
      distinct := d1.distinct }
  · rcases hb with hb | ⟨o, hl⟩
    · exact h.bitmaps b hb
    · obtain ⟨⟨_, k2, k3, _, _⟩, _⟩ := h.table m b o hl
      exact ⟨k2, k3⟩
  · obtain ⟨⟨⟨_, k2, k3, k4, _⟩, _⟩, r2⟩ := h.reads m a hI hr _
      ⟨hne, Or.inl ⟨hd, s, idxs, hp, rfl⟩⟩
    refine ⟨k2, k3, fun hres => ?_⟩
    rcases hres with hb | ⟨o, hl⟩
    · exact k4 hb
    · exact r2 m _ o hl rfl

theorem alloc_inode_fail_errno (c : SimpleFS_Context) (mode : Nat)
    (h : (alloc_inode c mode).1 = 0) : (alloc_inode c mode).2.errno ≠ 0 := by
  have key : ∀ remaining start, (alloc_inode_loop c mode remaining start).1 = 0 →
      (alloc_inode_loop c mode remaining start).2.errno ≠ 0 := by
    intro remaining
    induction remaining with
    | zero =>
      intro start _
      show ENOSPC ≠ 0
      decide
    | succ n ih =>
      intro start
      rw [alloc_inode_loop]
      dsimp only
      by_cases h1 : (c.gdt.getD start default).bg_free_inodes_count > 0
      · rw [if_pos h1]
        split
        next => exact ih _
        next d hrd =>
          split
          next => exact ih _
          next bit hfi =>
            split
            next =>
              intro _
              show EIO ≠ 0
              decide
            next dev hw =>
              intro h0
              exfalso
              obtain ⟨_, _, hp, _⟩ := firstIdx_some _ _ _ _ hfi
              simp only [Bool.and_eq_true, Bool.not_eq_true', Bool.or_eq_false_iff,
                decide_eq_false_iff_not] at hp
              exact hp.2.1 h0
      · rw [if_neg h1]
        exact ih _
  unfold alloc_inode at h ⊢
  by_cases h0 : c.sb.s_free_inodes_count = 0
  · rw [if_pos h0]
    show ENOSPC ≠ 0
    decide
  · rw [if_neg h0] at h ⊢
    exact key _ _ h

theorem alloc_block_fail_errno (c : SimpleFS_Context) (pref : Nat)
    (h : (alloc_block c pref).1 = 0) (hl : block_layout_ok c) :
    (alloc_block c pref).2.errno ≠ 0 := by
  have hS : ENOSPC ≠ 0 := by decide
  have hE : EIO ≠ 0 := by decide
  rw [alloc_block_eq] at h ⊢
  by_cases h0 : c.sb.s_free_blocks_count = 0
  · rw [if_pos h0]; exact hS
  rw [if_neg h0] at h ⊢
  by_cases hN : alloc_block_target_group c pref = NO_GROUP
  · rw [if_pos hN]; exact hS
  rw [if_neg hN] at h ⊢
  by_cases hr : c.device_fd.readable
      (c.gdt.getD (alloc_block_target_group c pref) default).bg_block_bitmap ≠ true
  · rw [if_pos hr]; exact hE
  rw [if_neg hr] at h ⊢
  cases hb : alloc_block_bit c (alloc_block_target_group c pref) with
  | none => exact hS
  | some bit =>
    rw [hb] at h
    dsimp only at h ⊢
    by_cases hw : c.device_fd.writable
        (c.gdt.getD (alloc_block_target_group c pref) default).bg_block_bitmap ≠ true
    · rw [if_pos hw]; exact hE
    rw [if_neg hw] at h
    exfalso
    dsimp only at h
    have hg : alloc_block_target_group c pref < c.gdt.length :=
      (alloc_block_target_group_spec c pref hN).1
    obtain ⟨_, e, _, hne, _⟩ := alloc_block_bit_some c _ bit hl.2.2.1 hg hb
    rw [e] at h
    exact hne h

theorem free_inode_errno (c : SimpleFS_Context) (n mode : Nat) :
    (free_inode c n mode).errno = c.errno := by
  rcases free_inode_cases c n mode with h | ⟨_, _, _, _, _, _, h⟩
  · rw [h]
  · rw [h]
    rfl

/-! ## The last step of a resolution -/

theorem read_inode_error_errno (c : SimpleFS_Context) (n : Nat) (hio : io_ok c)
    (e : Int) (h : (read_inode_from_disk c n).1 = .error e) :
    (read_inode_from_disk c n).2.errno = EINVAL ∨ (read_inode_from_disk c n).2.errno = EIO := by
  unfold read_inode_from_disk at h ⊢
  unfold inode_location at h ⊢
  dsimp only at h ⊢
  split_ifs at h ⊢ with h1 h2 h3
  · left; rfl
  · right; rfl
  · right; rfl
  · exfalso
    dsimp only at h
    rw [read_block_io c hio] at h
    exact Except.noConfusion h

/-- The last step in a directory that can be read and searched. -/
theorem final_step_eval (caller : fuse_context) (c : SimpleFS_Context) (dir : Nat)
    (name : List Nat) (a : Buf) (hne : name ≠ []) (hnd : name ≠ DOT)
    (hr : (read_inode_from_disk c dir).1 = .ok a) (hd : S_ISDIR (i_mode a) = true)
    (hx : (check_access c caller a X_OK).1 = 0) :
    final_step caller c dir name =
      match lookup_component c.device_fd a name with
      | .ioerr => (0, setErrno c EIO)
      | .absent => (0, setErrno c ENOENT)
      | .found n =>
        match read_inode_from_disk c n with
        | (.error _, c') => (0, c')
        | (.ok _, c') => (n, c') := by
  unfold final_step
  rw [resolve_walk]
  dsimp only
  rw [if_neg (by rintro (h | h); exact hne h; exact hnd h),
    read_inode_from_disk_eq c dir a hr]
  dsimp only
  rw [if_neg (not_not.2 hd), (check_access_view c c caller a a X_OK rfl rfl rfl hx).1]
  dsimp only
  rw [if_neg (not_not.2 rfl)]
  cases lookup_component c.device_fd a name with
  | ioerr => rfl
  | absent => rfl
  | found n =>
    dsimp only
    generalize read_inode_from_disk c n = r
    obtain ⟨v, k⟩ := r
    cases v with
    | error e => rfl
    | ok x =>
      dsimp only
      by_cases hl : S_ISLNK (i_mode x) = true
      · rw [if_pos hl, if_pos ⟨by decide, by decide⟩]
      · rw [if_neg hl, if_pos (by decide)]

/-- A last step that fails with `errno` left at `0` or set to `ENOENT`, from a
state with `errno = 0`, found the directory searchable and the name absent. -/
theorem final_step_absent (caller : fuse_context) (c : SimpleFS_Context) (dir : Nat)
    (name : List Nat) (a : Buf) (hio : io_ok c) (hne : name ≠ []) (hnd : name ≠ DOT)
    (hr : (read_inode_from_disk c dir).1 = .ok a) (hd : S_ISDIR (i_mode a) = true)
    (h0 : (final_step caller c dir name).1 = 0)
    (he : ¬ ((final_step caller c dir name).2.errno ≠ 0 ∧
      (final_step caller c dir name).2.errno ≠ ENOENT)) :
    (check_access c caller a X_OK).1 = 0 ∧
    lookup_component c.device_fd a name = .absent ∧
    final_step caller c dir name = (0, setErrno c ENOENT) := by
  have e1 : EIO ≠ 0 := by decide
  have e2 : EIO ≠ ENOENT := by decide
  have e3 : EINVAL ≠ 0 := by decide
  have e4 : EINVAL ≠ ENOENT := by decide
  have e5 : (-(-(EACCES : Int))).toNat ≠ 0 := by decide
  have e6 : (-(-(EACCES : Int))).toNat ≠ ENOENT := by decide
  by_cases hx : (check_access c caller a X_OK).1 = 0
  · have hev := final_step_eval caller c dir name a hne hnd hr hd hx
    rw [hev] at h0 he
    cases hlk : lookup_component c.device_fd a name with
    | ioerr =>
      rw [hlk] at he
      exact absurd ⟨e1, e2⟩ he
    | absent =>
      rw [hev, hlk]
      exact ⟨hx, rfl, rfl⟩
    | found n =>
      exfalso
      rw [hlk] at h0 he
      dsimp only at h0 he
      cases hrn : (read_inode_from_disk c n).1 with
      | error e =>
        have herr := read_inode_error_errno c n hio e hrn
        generalize read_inode_from_disk c n = r at hrn herr he
        obtain ⟨v, k⟩ := r
        dsimp only at hrn
        subst hrn
        dsimp only at he herr
        rcases herr with h | h
        · rw [h] at he; exact he ⟨e3, e4⟩
        · rw [h] at he; exact he ⟨e1, e2⟩
      | ok x =>
        rw [read_inode_from_disk_eq c n x hrn] at h0
        dsimp only at h0
        obtain ⟨_, T, o, hloc, _⟩ := read_inode_from_disk_ok c n x c
          (read_inode_from_disk_eq c n x hrn)
        unfold inode_location at hloc
        subst h0
        rw [if_pos (Or.inl rfl)] at hloc
        exact Except.noConfusion hloc
  · exfalso
    unfold final_step at he
    rw [resolve_walk] at he
    dsimp only at he
    rw [if_neg (by rintro (h | h); exact hne h; exact hnd h),
      read_inode_from_disk_eq c dir a hr] at he
    dsimp only at he
    rw [if_neg (not_not.2 hd), if_pos hx,
      ((check_access_iff c caller a X_OK).2.2 hx)] at he
    exact he ⟨e5, e6⟩

/-! ## The checks of `simplefs_symlink` -/

theorem resolve_extends_on_refl (I : Nat → Prop) (c : SimpleFS_Context)
    (h : link_ready I c) : resolve_extends_on I c c :=
  { root := rfl
    root_in := h.root_in
    view := fun _ a _ hr => ⟨a, hr, ⟨rfl, rfl, rfl, fun _ _ _ => rfl, fun _ => rfl⟩⟩
    closed := h.closed }

theorem link_ready_read (I : Nat → Prop) (c : SimpleFS_Context) (h : link_ready I c)
    (m : Nat) (hI : I m) : ∃ a, (read_inode_from_disk c m).1 = .ok a := by
  obtain ⟨v1, v2⟩ := h.valid m hI
  obtain ⟨T, o, hl⟩ := h.located m v1 v2
  exact ⟨_, by rw [read_inode_from_disk_io c m T o h.io hl]⟩

/-- The parent step of the operations that change a directory, when the
directory path resolves and its inode can be read. -/
theorem open_parent_result (c : SimpleFS_Context) (caller : fuse_context)
    (d : List Nat) (pa : Buf)
    (hp0 : (path_to_inode_num c caller d).1 ≠ 0)
    (hpi : (read_inode_from_disk c (path_to_inode_num c caller d).1).1 = .ok pa) :
    (∃ e c', e ≠ 0 ∧ open_parent c caller d = .error (e, c')) ∨
    (S_ISDIR (i_mode pa) = true ∧ ∃ c', same_fs c c' ∧
      open_parent c caller d = .ok ((path_to_inode_num c caller d).1, pa, c')) := by
  by_cases hd : S_ISDIR (i_mode pa) = true
  · rcases open_parent_cases c caller d _ pa rfl hp0 hpi hd with ⟨c', _, he⟩ | ⟨c', hs, he⟩
    · exact Or.inl ⟨_, c', by decide, he⟩
    · exact Or.inr ⟨hd, c', hs, he⟩
  · left
    unfold open_parent
    dsimp only
    have h0 : same_fs c (setErrno c 0) := same_fs_setErrno c 0
    have hr := resolve_path_recursive_same caller true 0 c (setErrno c 0) d h0
    unfold path_to_inode_num at hp0 hpi ⊢
    generalize resolve_path_recursive (setErrno c 0) caller d 0 true = r at hr ⊢
    obtain ⟨n, c1⟩ := r
    obtain ⟨hn, hc1⟩ := hr
    dsimp only at hn hc1 ⊢
    rw [← hn] at hp0 hpi
    rw [if_neg hp0]
    have hq := read_inode_from_disk_same c c1 n hc1
    generalize read_inode_from_disk c1 n = q at hq ⊢
    obtain ⟨v, c2⟩ := q
    obtain ⟨hv, hc2, _⟩ := hq
    dsimp only at hv hc2
    rw [hpi] at hv
    subst hv
    dsimp only
    rw [if_pos hd]
    exact ⟨_, c2, by decide, rfl⟩

/-- The existence check, for a path whose directory part resolves to a
directory of `I`: it passes only if the name is absent from the directory. -/
theorem check_absent_result (I : Nat → Prop) (c c1 : SimpleFS_Context)
    (caller : fuse_context) (linkpath : List Nat) (pa : Buf)
    (h : link_ready I c) (hs : same_fs c c1)
    (hp : linkpath.head? = some SLASH)
    (hb : bad_basename (parse_path linkpath).2 = false)
    (hp0 : (path_to_inode_num c caller (parse_path linkpath).1).1 ≠ 0)
    (hpi : (read_inode_from_disk c
      (path_to_inode_num c caller (parse_path linkpath).1).1).1 = .ok pa)
    (hd : S_ISDIR (i_mode pa) = true) :
    I (path_to_inode_num c caller (parse_path linkpath).1).1 ∧
    ((∃ e c', e ≠ 0 ∧ check_absent c1 caller linkpath = .error (e, c')) ∨
      ((check_access c caller pa X_OK).1 = 0 ∧
        lookup_component c.device_fd pa (parse_path linkpath).2 = .absent ∧
        ∃ c2, same_fs c c2 ∧ check_absent c1 caller linkpath = .ok c2)) := by
  obtain ⟨hcomp, hne, hnd, hsl⟩ := path_components_parse linkpath hp hb
  have h1 : link_ready I (setErrno c1 0) :=
    link_ready_same_fs I c _ (same_fs_setErrno_right hs 0) h
  have hs1 : same_fs c (setErrno c1 0) := same_fs_setErrno_right hs 0
  have hP : (resolve_path_budget caller true (FUSE_SYMLINK_MAX + 1 - 0) (setErrno c1 0)
      (parse_path linkpath).1).1 = (path_to_inode_num c caller (parse_path linkpath).1).1 :=
    (resolve_path_budget_same caller true _ c (setErrno c1 0) _ hs1).1
  obtain ⟨hI, hfin⟩ := resolve_path_budget_snoc caller I (setErrno c1 0) (setErrno c1 0)
    (resolve_extends_on_refl I _ h1) (parse_path linkpath).2 hne hsl
    (FUSE_SYMLINK_MAX + 1 - 0) (parse_path linkpath).1 linkpath
    (by rw [hP]; exact hp0) hcomp
  rw [hP] at hI hfin
  refine ⟨hI, ?_⟩
  have hpi1 : (read_inode_from_disk (setErrno c1 0)
      (path_to_inode_num c caller (parse_path linkpath).1).1).1 = .ok pa := by
    rw [(read_inode_from_disk_same c (setErrno c1 0) _ hs1).1]
    exact hpi
  unfold check_absent
  dsimp only
  unfold resolve_path_recursive
  rw [hfin]
  by_cases hr : (final_step caller (setErrno c1 0)
      (path_to_inode_num c caller (parse_path linkpath).1).1 (parse_path linkpath).2).1 ≠ 0
  · left
    rw [if_pos hr]
    exact ⟨_, _, by decide, rfl⟩
  rw [if_neg hr]
  by_cases he : (final_step caller (setErrno c1 0)
      (path_to_inode_num c caller (parse_path linkpath).1).1 (parse_path linkpath).2).2.errno ≠ 0 ∧
      (final_step caller (setErrno c1 0)
      (path_to_inode_num c caller (parse_path linkpath).1).1 (parse_path linkpath).2).2.errno
        ≠ ENOENT
  · left
    rw [if_pos he]
    refine ⟨_, _, ?_, rfl⟩
    intro h0
    have := he.1
    omega
  rw [if_neg he]
  right
  obtain ⟨a1, a2, a3⟩ := final_step_absent caller (setErrno c1 0) _ _ pa h1.io hne hnd hpi1 hd
    (not_not.1 hr) he
  refine ⟨?_, ?_, _, ?_, rfl⟩
  · rw [← (check_access_same c (setErrno c1 0) caller pa X_OK hs1).1]
    exact a1
  · rw [← hs1.1]
    exact a2
  · rw [a3]
    exact same_fs_setErrno_right hs1 _

theorem link_parent_in (I : Nat → Prop) (c : SimpleFS_Context)
    (caller : fuse_context) (linkpath : List Nat)
    (h : link_ready I c) (hp : linkpath.head? = some SLASH)
    (hb : bad_basename (parse_path linkpath).2 = false)
    (hp0 : (path_to_inode_num c caller (parse_path linkpath).1).1 ≠ 0) :
    I (path_to_inode_num c caller (parse_path linkpath).1).1 := by
  obtain ⟨hcomp, hne, hnd, hsl⟩ := path_components_parse linkpath hp hb
  exact (resolve_path_budget_snoc caller I c c (resolve_extends_on_refl I _ h)
    (parse_path linkpath).2 hne hsl (FUSE_SYMLINK_MAX + 1 - 0) (parse_path linkpath).1 linkpath
    hp0 hcomp).1

/-- A successful `simplefs_symlink` on a link path whose directory part
resolves passed the checks: the target is not empty, the name is a proper
name of at most 255 bytes, the parent is a searchable directory of `I` that
does not hold the name, and the result is that of the creation steps. -/
theorem symlink_checks (I : Nat → Prop) (c : SimpleFS_Context) (caller : fuse_context)
    (t linkpath : List Nat) (h : link_ready I c) (hp : linkpath.head? = some SLASH)
    (hp0 : (path_to_inode_num c caller (parse_path linkpath).1).1 ≠ 0)
    (hret : (simplefs_symlink c caller t linkpath).1 = 0) :
    t ≠ [] ∧ bad_basename (parse_path linkpath).2 = false ∧
    (parse_path linkpath).2.length ≤ 255 ∧
    I (path_to_inode_num c caller (parse_path linkpath).1).1 ∧
    ∃ pa c2, (read_inode_from_disk c
        (path_to_inode_num c caller (parse_path linkpath).1).1).1 = .ok pa ∧
      S_ISDIR (i_mode pa) = true ∧ (check_access c caller pa X_OK).1 = 0 ∧
      lookup_component c.device_fd pa (parse_path linkpath).2 = .absent ∧
      same_fs c c2 ∧
      simplefs_symlink c caller t linkpath =
        symlink_create c2 caller t (path_to_inode_num c caller (parse_path linkpath).1).1 pa
          (parse_path linkpath).2 := by
  have hE1 : (-(EINVAL : Int)) ≠ 0 := by decide
  have hE2 : (-(ENAMETOOLONG : Int)) ≠ 0 := by decide
  unfold simplefs_symlink at hret
  by_cases ht : t = []
  · rw [if_pos ht] at hret
    exact absurd hret hE1
  rw [if_neg ht] at hret
  by_cases hb : bad_basename (parse_path linkpath).2 = true
  · exfalso
    generalize parse_path linkpath = pp at hret hb
    obtain ⟨d, b⟩ := pp
    dsimp only at hret hb
    rw [if_pos hb] at hret
    exact hE1 hret
  have hb' : bad_basename (parse_path linkpath).2 = false := by
    cases hbb : bad_basename (parse_path linkpath).2 with
    | true => exact absurd hbb hb
    | false => rfl
  by_cases hlen : (parse_path linkpath).2.length > SIMPLEFS_MAX_FILENAME_LEN
  · exfalso
    generalize parse_path linkpath = pp at hret hb hlen
    obtain ⟨d, b⟩ := pp
    dsimp only at hret hb hlen
    rw [if_neg hb, if_pos hlen] at hret
    exact hE2 hret
  have hI := link_parent_in I c caller linkpath h hp hb' hp0
  obtain ⟨pa, hpi⟩ := link_ready_read I c h _ hI
  refine ⟨ht, hb', by unfold SIMPLEFS_MAX_FILENAME_LEN at hlen; omega, hI, pa, ?_⟩
  rcases open_parent_result c caller (parse_path linkpath).1 pa hp0 hpi with
    ⟨e, c', he0, hop⟩ | ⟨hd, c1, hs1, hop⟩
  · exfalso
    generalize parse_path linkpath = pp at hret hb hlen hop
    obtain ⟨d, b⟩ := pp
    dsimp only at hret hb hlen hop
    rw [if_neg hb, if_neg hlen, hop] at hret
    exact he0 hret
  rcases (check_absent_result I c c1 caller linkpath pa h hs1 hp hb' hp0 hpi hd).2 with
    ⟨e, c', he0, hca⟩ | ⟨hx, habs, c2, hs2, hca⟩
  · exfalso
    generalize parse_path linkpath = pp at hret hb hlen hop
    obtain ⟨d, b⟩ := pp
    dsimp only at hret hb hlen hop
    rw [if_neg hb, if_neg hlen, hop] at hret
    dsimp only at hret
    rw [hca] at hret
    exact he0 hret
  refine ⟨c2, hpi, hd, hx, habs, hs2, ?_⟩
  unfold simplefs_symlink
  rw [if_neg ht]
  generalize parse_path linkpath = pp at hb hlen hop
  obtain ⟨d, b⟩ := pp
  dsimp only at hb hlen hop ⊢
  rw [if_neg hb, if_neg hlen, hop]
  dsimp only
  rw [hca]
  rfl

/-! ## Allocation of the inode of a link -/

theorem inode_taken_getD (c : SimpleFS_Context) (mode g bit g' : Nat) :
    ((inode_taken c mode g bit).gdt.getD g' default).bg_block_bitmap =
      (c.gdt.getD g' default).bg_block_bitmap ∧
    ((inode_taken c mode g bit).gdt.getD g' default).bg_inode_bitmap =
      (c.gdt.getD g' default).bg_inode_bitmap ∧
    ((inode_taken c mode g bit).gdt.getD g' default).bg_inode_table =
      (c.gdt.getD g' default).bg_inode_table ∧
    ((inode_taken c mode g bit).gdt.getD g' default).bg_free_blocks_count =
      (c.gdt.getD g' default).bg_free_blocks_count ∧
    (((inode_taken c mode g bit).gdt.getD g' default).bg_free_inodes_count < 65536 ∨
      ((inode_taken c mode g bit).gdt.getD g' default).bg_free_inodes_count =
        (c.gdt.getD g' default).bg_free_inodes_count) ∧
    (S_ISDIR mode = false →
      ((inode_taken c mode g bit).gdt.getD g' default).bg_used_dirs_count =
        (c.gdt.getD g' default).bg_used_dirs_count) := by
  rw [inode_taken_gdt, getD_set]
  by_cases h : g = g' ∧ g < c.gdt.length
  · rw [if_pos h]
    obtain ⟨h1, _⟩ := h
    subst h1
    refine ⟨rfl, rfl, rfl, rfl, Or.inl (dec16_lt _), fun hm => ?_⟩
    show (if S_ISDIR mode = true then _ else _) = _
    rw [if_neg (by rw [hm]; decide)]
  · rw [if_neg h]
    exact ⟨rfl, rfl, rfl, rfl, Or.inr rfl, fun _ => rfl⟩

theorem inode_taken_length (c : SimpleFS_Context) (mode g bit : Nat) :
    (inode_taken c mode g bit).gdt.length = c.gdt.length := by
  rw [inode_taken_gdt, List.length_set]

theorem same_layout_inode_taken (c : SimpleFS_Context) (mode g bit : Nat) :
    same_layout c (inode_taken c mode g bit) :=
  ⟨rfl, rfl, rfl, rfl, rfl, rfl, inode_taken_length c mode g bit,
    fun g' => ⟨(inode_taken_getD c mode g bit g').1, (inode_taken_getD c mode g bit g').2.1,
      (inode_taken_getD c mode g bit g').2.2.1⟩, rfl⟩

theorem block_layout_ok_inode_taken (c : SimpleFS_Context) (mode g bit : Nat)
    (hl : block_layout_ok c) : block_layout_ok (inode_taken c mode g bit) := by
  obtain ⟨h1, h2, h3, h4, h5, h6⟩ := hl
  refine ⟨h1, ?_, ?_, h4, ?_, ?_⟩
  · rw [inode_taken_length]; exact h2
  · rw [inode_taken_length]; exact h3
  · intro a ha b hb hab
    rw [inode_taken_length] at ha hb
    rw [(inode_taken_getD c mode g bit a).1, (inode_taken_getD c mode g bit b).1] at hab
    exact h5 a ha b hb hab
  · intro g' hg'
    rw [inode_taken_length] at hg'
    rw [(inode_taken_getD c mode g bit g').2.2.2.1]
    exact h6 g' hg'

theorem counts_in_range_inode_taken (c : SimpleFS_Context) (mode g bit : Nat)
    (hm : S_ISDIR mode = false) (hc : counts_in_range c) :
    counts_in_range (inode_taken c mode g bit) := by
  obtain ⟨h1, h2, h3⟩ := hc
  refine ⟨h1, dec32_lt _, ?_⟩
  intro g' hg'
  rw [inode_taken_length] at hg'
  obtain ⟨a1, a2, a3⟩ := h3 g' hg'
  obtain ⟨_, _, _, e1, e2, e3⟩ := inode_taken_getD c mode g bit g'
  rw [e1, e3 hm]
  refine ⟨a1, ?_, a3⟩
  rcases e2 with e2 | e2
  · exact e2
  · rw [e2]; exact a2

/-- The block bitmap bits depend on the block bitmaps only. -/
theorem block_bit_set_frame (c c' : SimpleFS_Context) (hlay : block_layout_ok c)
    (hl : same_layout c c')
    (hd : ∀ b, block_bitmaps c b → c'.device_fd.data b = c.device_fd.data b)
    (x : Nat) (hx : x < c.sb.s_blocks_count) : block_bit_set c' x = block_bit_set c x := by
  obtain ⟨_, _, _, l4, _, _, l7, l8, _⟩ := hl
  rw [block_bit_set_eq, block_bit_set_eq, l4, (l8 _).1]
  have hg : x / c.sb.s_blocks_per_group < c.gdt.length := by
    have h2 := hlay.2.1
    have hpos : 0 < c.sb.s_blocks_per_group := by
      rcases Nat.eq_zero_or_pos c.sb.s_blocks_per_group with h0 | h0
      · rw [h0, Nat.mul_zero] at h2; omega
      · exact h0
    exact (Nat.div_lt_iff_lt_mul hpos).2 (lt_of_lt_of_le hx h2)
  rw [hd _ ⟨_, hg, rfl⟩]

/-- A successful `alloc_inode` for a link in a state that is ready: the number
is a valid inode number whose bit was clear, the layout, the block bitmap bits
and every block that is no inode bitmap are as before. -/
theorem alloc_inode_step (I : Nat → Prop) (c : SimpleFS_Context) (mode : Nat)
    (h : link_ready I c) (hm : S_ISDIR mode = false) (hN : (alloc_inode c mode).1 ≠ 0) :
    (alloc_inode c mode).1 ≤ c.sb.s_inodes_count ∧
    (alloc_inode c mode).1 < 4294967296 ∧
    inode_bit_set c (alloc_inode c mode).1 = false ∧
    same_layout c (alloc_inode c mode).2 ∧
    io_ok (alloc_inode c mode).2 ∧
    block_layout_ok (alloc_inode c mode).2 ∧
    counts_in_range (alloc_inode c mode).2 ∧
    (∀ x, ¬ inode_bitmaps c x →
      (alloc_inode c mode).2.device_fd.data x = c.device_fd.data x) ∧
    (∀ x, x < c.sb.s_blocks_count →
      block_bit_set (alloc_inode c mode).2 x = block_bit_set c x) := by
  rcases alloc_inode_cases c mode with ⟨e, he⟩ | ⟨g, bit, hg, hbit, h0, hgd, _, _, hclr, hne, hle, he⟩
  · rw [he] at hN
    exact absurd rfl hN
  rw [he]
  dsimp only
  have hlt : g * c.sb.s_inodes_per_group + bit + 1 < 4294967296 := by
    have h1 : (g + 1) * c.sb.s_inodes_per_group ≤ c.gdt.length * c.sb.s_inodes_per_group :=
      Nat.mul_le_mul_right _ hg
    have h2 := h.ifit
    rw [Nat.add_mul, Nat.one_mul] at h1
    omega
  have hu : u32 (g * c.sb.s_inodes_per_group + bit + 1) =
      g * c.sb.s_inodes_per_group + bit + 1 := u32_of_lt _ hlt
  rw [hu] at hle ⊢
  have hl := same_layout_inode_taken c mode g bit
  have hdata : ∀ x, ¬ inode_bitmaps c x →
      (inode_taken c mode g bit).device_fd.data x = c.device_fd.data x := by
    intro x hx
    rw [inode_taken_data, if_neg (fun e => hx ⟨g, hg, e⟩)]
  refine ⟨hle, hlt, ?_, hl, ?_, block_layout_ok_inode_taken c mode g bit h.layout,
    counts_in_range_inode_taken c mode g bit hm h.counts, hdata, ?_⟩
  · unfold inode_bit_set
    dsimp only
    have e1 : g * c.sb.s_inodes_per_group + bit + 1 - 1 =
        bit + c.sb.s_inodes_per_group * g := by rw [Nat.mul_comm]; omega
    have hpos : 0 < c.sb.s_inodes_per_group := by omega
    rw [e1, Nat.add_mul_div_left _ _ hpos, Nat.add_mul_mod_self_left,
      Nat.div_eq_of_lt hbit, Nat.mod_eq_of_lt hbit, Nat.zero_add]
    exact hclr
  · intro b
    exact ⟨(h.io b).1, (h.io b).2⟩
  · intro x hx
    exact block_bit_set_frame c _ h.layout hl
      (fun b hb => hdata b (fun hib => h.ibitmaps b hib hb)) x hx

/-! ## The inode record and the data block of a link -/

theorem link_mode_facts : S_ISLNK (Nat.lor S_IFLNK 0o777) = true ∧
    S_ISDIR (Nat.lor S_IFLNK 0o777) = false ∧ Nat.lor S_IFLNK 0o777 < 65536 := by decide

theorem link_inode_base (mode uid gid now len : Nat) (hm : mode < 65536)
    (hlen : len < 4294967296) :
    i_mode (set_i_size (new_inode_record mode uid gid 1 now) len) = mode ∧
    i_size (set_i_size (new_inode_record mode uid gid 1 now) len) = len := by
  constructor
  · unfold i_mode set_i_size new_inode_record set_i_blocks set_i_atime set_i_mtime set_i_ctime
      set_i_size set_i_links_count set_i_gid set_i_uid set_i_mode
    dsimp only
    repeat rw [getLE_setLE_disjoint _ _ _ _ _ _ (by decide)]
    rw [getLE_setLE_same]
    exact Nat.mod_eq_of_lt (by norm_num; exact hm)
  · exact i_size_set_i_size _ _ hlen

/-- The record of a link whose target is stored in the inode. -/
theorem link_inode_fast (base : Buf) (t : List Nat) :
    i_mode (set_i_blocks (blitList base I_BLOCK_OFF t) 0) = i_mode base ∧
    i_size (set_i_blocks (blitList base I_BLOCK_OFF t) 0) = i_size base ∧
    i_blocks (set_i_blocks (blitList base I_BLOCK_OFF t) 0) = 0 ∧
    bytesOf (set_i_blocks (blitList base I_BLOCK_OFF t) 0) I_BLOCK_OFF t.length = t := by
  refine ⟨?_, ?_, i_blocks_set_i_blocks _ _ (by norm_num), ?_⟩
  · unfold i_mode set_i_blocks
    rw [getLE_setLE_disjoint _ _ _ _ _ _ (by decide)]
    exact getLE_congr _ _ _ _ (fun i _ h2 => blitList_outside _ _ _ _
      (by unfold I_BLOCK_OFF; omega))
  · rw [i_size_set_i_blocks]
    unfold i_size
    exact getLE_congr _ _ _ _ (fun i _ h2 => blitList_outside _ _ _ _
      (by unfold I_BLOCK_OFF; omega))
  · rw [bytesOf_congr _ (blitList base I_BLOCK_OFF t) _ _ (fun i h1 _ => by
      unfold set_i_blocks
      exact setLE_outside _ _ _ _ _ (by unfold I_BLOCK_OFF at h1; omega))]
    exact bytesOf_blitList _ _ _

/-- The record of a link whose target is stored in the data block `B`. -/
theorem link_inode_slow (base : Buf) (B : Nat) (hB : B < 4294967296) :
    i_mode (set_i_blocks (set_i_block base 0 B) (SIMPLEFS_BLOCK_SIZE / 512)) = i_mode base ∧
    i_size (set_i_blocks (set_i_block base 0 B) (SIMPLEFS_BLOCK_SIZE / 512)) = i_size base ∧
    i_blocks (set_i_blocks (set_i_block base 0 B) (SIMPLEFS_BLOCK_SIZE / 512)) = 8 ∧
    i_block (set_i_blocks (set_i_block base 0 B) (SIMPLEFS_BLOCK_SIZE / 512)) 0 = B := by
  refine ⟨?_, ?_, i_blocks_set_i_blocks _ _ (by decide), ?_⟩
  · unfold i_mode set_i_blocks set_i_block
    rw [getLE_setLE_disjoint _ _ _ _ _ _ (by decide),
      getLE_setLE_disjoint _ _ _ _ _ _ (by decide)]
  · rw [i_size_set_i_blocks, i_size_set_i_block]
  · exact i_block_set_i_blocks_set_i_block _ _ _ _ hB

/-- A successful `alloc_block` on a sound layout, as a step: the block was
free and lies inside the filesystem, the layout stays sound, only the bit of
the block is added and only block bitmaps are written. -/
theorem alloc_block_step (c : SimpleFS_Context) (pg : Nat) (hio : io_ok c)
    (hl : block_layout_ok c) (hc : counts_in_range c) (h : (alloc_block c pg).1 ≠ 0) :
    (alloc_block c pg).1 < c.sb.s_blocks_count ∧
    block_bit_set c (alloc_block c pg).1 = false ∧
    same_layout c (alloc_block c pg).2 ∧
    io_ok (alloc_block c pg).2 ∧
    block_layout_ok (alloc_block c pg).2 ∧
    counts_in_range (alloc_block c pg).2 ∧
    (∀ x, ¬ block_bitmaps c x →
      (alloc_block c pg).2.device_fd.data x = c.device_fd.data x) ∧
    (∀ x, x < c.sb.s_blocks_count →
      block_bit_set (alloc_block c pg).2 x =
        (decide (x = (alloc_block c pg).1) || block_bit_set c x)) := by
  obtain ⟨g, bit, hg, hbit, he, hne, hlt, hclr, hgd⟩ := alloc_block_fresh c pg hl h
  rw [he]
  dsimp only
  refine ⟨hlt, hclr, same_layout_block_taken c g bit, fun b => ⟨(hio b).1, (hio b).2⟩,
    block_layout_ok_block_taken c g bit hl hgd, counts_in_range_block_taken c g bit hc,
    fun x hx => ?_, fun x hx => block_bit_set_block_taken c hl g bit x hg hbit hx⟩
  rw [block_taken_data, if_neg (fun e => hx ⟨g, hg, e⟩)]

/-! ## The state before the directory entry of a link is added -/

theorem quiet_not_bitmap (c : SimpleFS_Context) (x : Nat) (h : quiet_block c x) :
    ¬ block_bitmaps c x ∧ ¬ inode_bitmaps c x ∧ x < c.sb.s_blocks_count ∧
    block_bit_set c x = true ∧ ¬ sync_target c x :=
  ⟨h.1.2.2.2.1, h.2, h.1.2.1, h.1.2.2.1, h.1.2.2.2.2⟩

theorem alloc_inode_root (c : SimpleFS_Context) (mode : Nat) :
    (alloc_inode c mode).2.sb.s_root_inode = c.sb.s_root_inode := by
  rcases alloc_inode_cases c mode with ⟨e, he⟩ | ⟨g, bit, _, _, _, _, _, _, _, _, _, he⟩
  · rw [he]
    rfl
  · rw [he]
    rfl

/-- The frame of a successful `alloc_inode`. -/
theorem link_frame_alloc_inode (I : Nat → Prop) (c : SimpleFS_Context) (mode : Nat)
    (h : link_ready I c) (hm : S_ISDIR mode = false) (hN : (alloc_inode c mode).1 ≠ 0) :
    link_frame c (alloc_inode c mode).2 (fun _ => False) := by
  obtain ⟨_, _, _, a4, a5, a6, a7, a8, a9⟩ := alloc_inode_step I c mode h hm hN
  exact
    { layout := a4
      root := alloc_inode_root c mode
      io := a5
      blocks := a6
      counts := a7
      bits := fun x hx hb => by rw [a9 x hx]; exact hb
      keep := fun x hq _ => a8 x (quiet_not_bitmap c x hq).2.1 }

/-- The frame of a write to a block `B` that was free. -/
theorem link_frame_put_free (I : Nat → Prop) (c c' : SimpleFS_Context) (W : Nat → Prop)
    (h : link_ready I c) (hf : link_frame c c' W) (B : Nat) (buf : Buf)
    (hfree : block_bit_set c B = false) :
    link_frame c { c' with device_fd := c'.device_fd.put B buf } W := by
  have hl2 : same_layout c' { c' with device_fd := c'.device_fd.put B buf } :=
    same_layout_of_eq _ _ rfl rfl rfl rfl rfl
  have hnb : ¬ block_bitmaps c' B := by
    intro hb
    have := (h.bitmaps B ((block_bitmaps_layout c c' hf.layout B).1 hb)).2
    rw [hfree] at this
    exact Bool.noConfusion this
  exact
    { layout := same_layout_trans c c' _ hf.layout hl2
      root := hf.root
      io := fun b => hf.io b
      blocks := hf.blocks
      counts := hf.counts
      bits := fun x hx hb => by
        rw [block_bit_set_frame c' _ hf.blocks hl2 (fun b hbm => by
          show (c'.device_fd.put B buf).data b = c'.device_fd.data b
          unfold Device.put
          dsimp only
          rw [if_neg (fun (e : b = B) => hnb (by rw [← e]; exact hbm))]) x (by rw [hf.layout.2.2.1]; exact hx)]
        exact hf.bits x hx hb
      keep := fun x hq hW => by
        have hx : x ≠ B := by
          intro e
          have hb := (quiet_not_bitmap c x hq).2.2.2.1
          rw [e, hfree] at hb
          exact Bool.noConfusion hb
        show (c'.device_fd.put B buf).data x = c.device_fd.data x
        unfold Device.put
        dsimp only
        rw [if_neg hx]
        exact hf.keep x hq hW }

/-- The frame of a successful `alloc_block`. -/
theorem link_frame_alloc_block (c c' : SimpleFS_Context) (W : Nat → Prop)
    (hf : link_frame c c' W) (pg : Nat)
    (hB : (alloc_block c' pg).1 ≠ 0) :
    link_frame c (alloc_block c' pg).2 W := by
  obtain ⟨b1, b2, b3, b4, b5, b6, b7, b8⟩ := alloc_block_step c' pg hf.io hf.blocks hf.counts hB
  exact
    { layout := same_layout_trans c c' _ hf.layout b3
      root := (alloc_block_root c' pg).trans hf.root
      io := b4
      blocks := b5
      counts := b6
      bits := fun x hx hb => by
        rw [b8 x (by rw [hf.layout.2.2.1]; exact hx), hf.bits x hx hb, Bool.or_true]
      keep := fun x hq hW => by
        rw [b7 x (fun hb => (quiet_not_bitmap c x hq).1
          ((block_bitmaps_layout c c' hf.layout x).1 hb))]
        exact hf.keep x hq hW }

/-- The frame of the write of an inode record into the table block `T`. -/
theorem link_frame_put_table (I : Nat → Prop) (c c' : SimpleFS_Context)
    (h : link_ready I c) (hf : link_frame c c' (fun _ => False)) (m T o : Nat) (buf : Buf)
    (hloc : inode_location c m = .ok (T, o)) :
    link_frame c { c' with device_fd := c'.device_fd.put T buf } (fun x => x = T) := by
  have hl2 : same_layout c' { c' with device_fd := c'.device_fd.put T buf } :=
    same_layout_of_eq _ _ rfl rfl rfl rfl rfl
  have hq := quiet_not_bitmap c T (h.table m T o hloc)
  have hnb : ¬ block_bitmaps c' T :=
    fun hb => hq.1 ((block_bitmaps_layout c c' hf.layout T).1 hb)
  exact
    { layout := same_layout_trans c c' _ hf.layout hl2
      root := hf.root
      io := fun b => hf.io b
      blocks := hf.blocks
      counts := hf.counts
      bits := fun x hx hb => by
        rw [block_bit_set_frame c' _ hf.blocks hl2 (fun b hbm => by
          show (c'.device_fd.put T buf).data b = c'.device_fd.data b
          unfold Device.put
          dsimp only
          rw [if_neg (fun (e : b = T) => hnb (by rw [← e]; exact hbm))]) x (by rw [hf.layout.2.2.1]; exact hx)]
        exact hf.bits x hx hb
      keep := fun x hq hW => by
        show (c'.device_fd.put T buf).data x = c.device_fd.data x
        unfold Device.put
        dsimp only
        rw [if_neg hW]
        exact hf.keep x hq (fun hF => hF) }

/-- A successful run of the creation steps of `simplefs_symlink`, up to the
directory entry: the inode number `N` was free, its record `ino` is in its
slot of the inode table, the target is in the record or in a block that was
free, everything else that was in use is as before, and `add_dir_entry`
succeeded on that state; the result is the metadata flush of its state. -/
theorem symlink_create_prepared (I : Nat → Prop) (c : SimpleFS_Context)
    (caller : fuse_context) (t : List Nat) (P : Nat) (pa : Buf) (b : List Nat)
    (h : link_ready I c) (hret : (symlink_create c caller t P pa b).1 = 0) :
    ∃ N ino c6 T o,
      N ≠ 0 ∧ N < 4294967296 ∧ N ≤ c.sb.s_inodes_count ∧ inode_bit_set c N = false ∧
      inode_location c N = .ok (T, o) ∧
      link_frame c c6 (fun x => x = T) ∧
      c6.device_fd.data T = blit (c.device_fd.data T) o ino 0 SIMPLEFS_INODE_SIZE ∧
      i_mode ino = Nat.lor S_IFLNK 0o777 ∧ i_size ino = t.length ∧
      t.length < SIMPLEFS_BLOCK_SIZE ∧
      ((t.length < I_BLOCK_BYTES ∧ i_blocks ino = 0 ∧
          bytesOf ino I_BLOCK_OFF t.length = t) ∨
        (I_BLOCK_BYTES ≤ t.length ∧ i_blocks ino = 8 ∧ i_block ino 0 ≠ 0 ∧
          i_block ino 0 < c.sb.s_blocks_count ∧
          block_bit_set c (i_block ino 0) = false ∧
          block_bit_set c6 (i_block ino 0) = true ∧
          i_block ino 0 ≠ T ∧
          bytesOf (c6.device_fd.data (i_block ino 0)) 0 t.length = t)) ∧
      (add_dir_entry c6 pa P b N (Nat.land S_IFLNK S_IFMT / 4096)).1 = 0 ∧
      (symlink_create c caller t P pa b).2 =
        sync_fs_metadata (add_dir_entry c6 pa P b N (Nat.land S_IFLNK S_IFMT / 4096)).2.2 := by
  obtain ⟨hmL, hmD, hm16⟩ := link_mode_facts
  have hE : (-(ENAMETOOLONG : Int)) ≠ 0 := by decide
  unfold symlink_create at hret ⊢
  dsimp only at hret ⊢
  by_cases hN : (alloc_inode c (Nat.lor S_IFLNK 0o777)).1 = 0
  · exfalso
    rw [if_pos hN] at hret
    have := alloc_inode_fail_errno c _ hN
    dsimp only at hret
    omega
  rw [if_neg hN] at hret ⊢
  obtain ⟨a1, a2, a3, _⟩ := alloc_inode_step I c _ h hmD hN
  have hf3 := link_frame_alloc_inode I c _ h hmD hN
  obtain ⟨T, o, hloc⟩ := h.located _ hN a1
  have hqT := quiet_not_bitmap c T (h.table _ T o hloc)
  generalize hN' : (alloc_inode c (Nat.lor S_IFLNK 0o777)).1 = N at *
  generalize hc3 : (alloc_inode c (Nat.lor S_IFLNK 0o777)).2 = c3 at *
  have hbase := link_inode_base (Nat.lor S_IFLNK 0o777) caller.uid caller.gid c3.now t.length
    hm16
  generalize hb0 : set_i_size (new_inode_record (Nat.lor S_IFLNK 0o777) caller.uid caller.gid 1
    c3.now) t.length = base at *
  by_cases hfast : t.length < I_BLOCK_BYTES
  · rw [if_pos hfast] at hret ⊢
    dsimp only at hret ⊢
    have hlen : t.length < 4294967296 := by unfold I_BLOCK_BYTES at hfast; omega
    obtain ⟨hb1, hb2⟩ := hbase hlen
    obtain ⟨f1, f2, f3, f4⟩ := link_inode_fast base t
    have hloc3 : inode_location c3 N = .ok (T, o) :=
      (inode_location_layout_eq c c3 N hf3.layout _).2 hloc
    rw [write_inode_to_disk_ok c3 N _ T o hf3.io hloc3] at hret ⊢
    dsimp only at hret ⊢
    rw [if_neg (fun hx => hx rfl)] at hret ⊢
    by_cases ha : (add_dir_entry { c3 with device_fd := (c3.device_fd.put T
        (blit (c3.device_fd.data T) o (set_i_blocks (blitList base I_BLOCK_OFF t) 0) 0
          SIMPLEFS_INODE_SIZE)) } pa P b N (Nat.land S_IFLNK S_IFMT / 4096)).1 ≠ 0
    · exfalso
      rw [if_pos ha] at hret
      exact ha hret
    rw [if_neg ha]
    refine ⟨N, _, _, T, o, hN, a2, a1, a3, hloc,
      link_frame_put_table I c c3 h hf3 N T o _ hloc, ?_, by rw [f1, hb1], by rw [f2, hb2],
      by unfold I_BLOCK_BYTES at hfast; unfold SIMPLEFS_BLOCK_SIZE; omega,
      Or.inl ⟨hfast, f3, f4⟩, not_not.1 ha, rfl⟩
    show (c3.device_fd.put T _).data T = _
    rw [put_data_same, hf3.keep T (h.table _ T o hloc) (fun hF => hF)]
  rw [if_neg hfast] at hret ⊢
  by_cases hbig : t.length ≥ SIMPLEFS_BLOCK_SIZE
  · exfalso
    rw [if_pos hbig] at hret
    exact hE hret
  rw [if_neg hbig] at hret ⊢
  try dsimp only at hret ⊢
  have hlen : t.length < 4294967296 := by unfold SIMPLEFS_BLOCK_SIZE at hbig; omega
  obtain ⟨hb1, hb2⟩ := hbase hlen
  by_cases hB : (alloc_block c3 (dec32 N / c3.sb.s_inodes_per_group)).1 = 0
  · exfalso
    rw [if_pos hB] at hret
    dsimp only at hret
    rw [free_inode_errno] at hret
    have := alloc_block_fail_errno c3 _ hB hf3.blocks
    omega
  rw [if_neg hB] at hret ⊢
  obtain ⟨s1, s2, _⟩ := alloc_block_step c3 _ hf3.io hf3.blocks hf3.counts hB
  have hs8 := (alloc_block_step c3 _ hf3.io hf3.blocks hf3.counts hB).2.2.2.2.2.2.2
  have hf4 := link_frame_alloc_block c c3 _ hf3 _ hB
  generalize hB' : (alloc_block c3 (dec32 N / c3.sb.s_inodes_per_group)).1 = B at *
  generalize hc4 : (alloc_block c3 (dec32 N / c3.sb.s_inodes_per_group)).2 = c4 at *
  have hBc : B < c.sb.s_blocks_count := by rw [← hf3.layout.2.2.1]; exact s1
  have hBfree : block_bit_set c B = false := by
    cases hbb : block_bit_set c B with
    | false => rfl
    | true =>
      rw [hf3.bits B hBc hbb] at s2
      exact Bool.noConfusion s2
  have hB32 : B < 4294967296 := lt_trans hBc h.layout.2.2.2.1
  rw [write_block_of_writable _ _ _ (hf4.io B).2] at hret ⊢
  dsimp only at hret ⊢
  have hf5 := link_frame_put_free I c c4 _ h hf4 B (blitList zeroBuf 0 t) hBfree
  obtain ⟨g1, g2, g3, g4⟩ := link_inode_slow base B hB32
  have hloc5 : inode_location { c4 with device_fd := c4.device_fd.put B (blitList zeroBuf 0 t) }
      N = .ok (T, o) := (inode_location_layout_eq c _ N hf5.layout _).2 hloc
  rw [write_inode_to_disk_ok _ N _ T o hf5.io hloc5] at hret ⊢
  dsimp only at hret ⊢
  rw [if_neg (fun hx => hx rfl)] at hret ⊢
  have hBT : B ≠ T := by
    intro e
    rw [e, hqT.2.2.2.1] at hBfree
    exact Bool.noConfusion hBfree
  by_cases ha : (add_dir_entry { c4 with device_fd :=
      ((c4.device_fd.put B (blitList zeroBuf 0 t)).put T
        (blit ((c4.device_fd.put B (blitList zeroBuf 0 t)).data T) o
          (set_i_blocks (set_i_block base 0 B) (SIMPLEFS_BLOCK_SIZE / 512)) 0
          SIMPLEFS_INODE_SIZE)) } pa P b N (Nat.land S_IFLNK S_IFMT / 4096)).1 ≠ 0
  · exfalso
    rw [if_pos ha] at hret
    exact ha hret
  rw [if_neg ha]
  have hf6 := link_frame_put_table I c _ h hf5 N T o
    (blit ((c4.device_fd.put B (blitList zeroBuf 0 t)).data T) o
      (set_i_blocks (set_i_block base 0 B) (SIMPLEFS_BLOCK_SIZE / 512)) 0
      SIMPLEFS_INODE_SIZE) hloc
  refine ⟨N, _, _, T, o, hN, a2, a1, a3, hloc, hf6, ?_, by rw [g1, hb1], by rw [g2, hb2],
    by omega, Or.inr ⟨by omega, g3, ?_, ?_, ?_, ?_, ?_, ?_⟩, not_not.1 ha, rfl⟩
  · show ((c4.device_fd.put B (blitList zeroBuf 0 t)).put T _).data T = _
    rw [put_data_same]
    have := hf5.keep T (h.table _ T o hloc) (fun hF => hF)
    rw [show ({ c4 with device_fd := c4.device_fd.put B (blitList zeroBuf 0 t) } :
      SimpleFS_Context).device_fd.data T = (c4.device_fd.put B (blitList zeroBuf 0 t)).data T
      from rfl] at this
    rw [this]
  · rw [g4]
    intro e
    exact hB e
  · rw [g4]; exact hBc
  · rw [g4]; exact hBfree
  · rw [g4]
    have e1 : block_bit_set c4 B = true := by
      rw [hs8 B s1]
      simp
    have hl45 : same_layout c4 { c4 with device_fd :=
        ((c4.device_fd.put B (blitList zeroBuf 0 t)).put T
          (blit ((c4.device_fd.put B (blitList zeroBuf 0 t)).data T) o
            (set_i_blocks (set_i_block base 0 B) (SIMPLEFS_BLOCK_SIZE / 512)) 0
            SIMPLEFS_INODE_SIZE)) } := same_layout_of_eq _ _ rfl rfl rfl rfl rfl
    rw [block_bit_set_frame c4 _ hf4.blocks hl45 (fun x hx => by
      have hxc : block_bitmaps c x := (block_bitmaps_layout c c4 hf4.layout x).1 hx
      have hx1 : x ≠ T := fun e => hqT.1 (by rw [← e]; exact hxc)
      have hx2 : x ≠ B := by
        intro e
        have := (h.bitmaps x hxc).2
        rw [e, hBfree] at this
        exact Bool.noConfusion this
      show ((c4.device_fd.put B (blitList zeroBuf 0 t)).put T _).data x = _
      unfold Device.put
      dsimp only
      rw [if_neg hx1, if_neg hx2]) B (by rw [hf4.layout.2.2.1]; exact hBc)]
    exact e1
  · rw [g4]; exact hBT
  · rw [g4]
    show bytesOf (((c4.device_fd.put B (blitList zeroBuf 0 t)).put T _).data B) 0 t.length = t
    have : ((c4.device_fd.put B (blitList zeroBuf 0 t)).put T
        (blit ((c4.device_fd.put B (blitList zeroBuf 0 t)).data T) o
          (set_i_blocks (set_i_block base 0 B) (SIMPLEFS_BLOCK_SIZE / 512)) 0
          SIMPLEFS_INODE_SIZE)).data B = blitList zeroBuf 0 t := by
      unfold Device.put
      dsimp only
      rw [if_neg hBT, if_pos rfl]
    rw [this]
    exact bytesOf_blitList _ _ _

/-! ## The owner fields of a directory across `add_dir_entry` -/

theorem ensure_dir_leaf_head (c : SimpleFS_Context) (inode : Buf) (p : Nat) (pb : Buf)
    (idx pg : Nat) :
    match ensure_dir_leaf c inode p pb idx pg with
    | .ok r => inode_head_eq r.2.1 inode
    | .error e => inode_head_eq e.1 inode := by
  unfold ensure_dir_leaf
  by_cases h0 : ptrAt pb idx = 0
  · rw [if_pos h0]
    dsimp only
    by_cases h1 : (alloc_block c pg).1 = 0
    · rw [if_pos h1]
      exact inode_head_eq_refl _
    · rw [if_neg h1]
      cases write_block (alloc_block c pg).2.device_fd (alloc_block c pg).1 zeroBuf with
      | none => exact inode_head_eq_refl _
      | some dev =>
        dsimp only
        cases write_block dev p (setPtr pb idx (alloc_block c pg).1) with
        | none =>
          exact inode_head_eq_trans (inode_head_eq_set_i_blocks _ _)
            (inode_head_eq_set_i_blocks _ _)
        | some dev2 => exact inode_head_eq_set_i_blocks _ _
  · rw [if_neg h0]
    exact inode_head_eq_refl _

theorem dir_leaf_tail_head (c1 : SimpleFS_Context) (i1 inode : Buf) (p idx pg : Nat)
    (t : inode_head_eq i1 inode) :
    inode_head_eq
      (match read_block c1.device_fd p with
        | none => ((0 : Nat), i1, setErrno c1 EIO)
        | some b1 =>
          match ensure_dir_leaf c1 i1 p b1 idx pg with
          | .error e => (0, e.1, e.2)
          | .ok r => r).2.1 inode := by
  cases read_block c1.device_fd p with
  | none => exact t
  | some b1 =>
    dsimp only
    have hh := ensure_dir_leaf_head c1 i1 p b1 idx pg
    cases hE : ensure_dir_leaf c1 i1 p b1 idx pg with
    | error e =>
      rw [hE] at hh
      exact inode_head_eq_trans hh t
    | ok r =>
      rw [hE] at hh
      exact inode_head_eq_trans hh t

theorem dir_child_step_head (c1 : SimpleFS_Context) (i1 inode : Buf) (p idx pg : Nat)
    (rest : Buf → Buf → SimpleFS_Context → Nat × Buf × SimpleFS_Context)
    (hrest : ∀ i2 b2 c2, inode_head_eq i2 inode → inode_head_eq (rest i2 b2 c2).2.1 inode)
    (t : inode_head_eq i1 inode) :
    inode_head_eq
      (match read_block c1.device_fd p with
        | none => ((0 : Nat), i1, setErrno c1 EIO)
        | some b1 =>
          match ensure_child_indirect c1 i1 p b1 idx pg with
          | .error e => (0, e.1, e.2)
          | .ok (i2, b2, c2) => rest i2 b2 c2).2.1 inode := by
  cases read_block c1.device_fd p with
  | none => exact t
  | some b1 =>
    dsimp only
    cases hE : ensure_child_indirect c1 i1 p b1 idx pg with
    | error e => exact inode_head_eq_trans (ensure_child_indirect_head_err _ _ _ _ _ _ _ hE) t
    | ok r =>
      obtain ⟨i2, b2, c2⟩ := r
      exact hrest i2 b2 c2
        (inode_head_eq_trans (ensure_child_indirect_head_ok _ _ _ _ _ _ _ hE) t)

/-- The walk of `get_or_alloc_dir_block` changes `i_blocks` and `i_block` only. -/
theorem get_or_alloc_dir_block_head (c : SimpleFS_Context) (inode : Buf) (num k : Nat) :
    inode_head_eq (get_or_alloc_dir_block c inode num k).2.1 inode := by
  unfold get_or_alloc_dir_block
  dsimp only
  by_cases h1 : k < SIMPLEFS_NUM_DIRECT_BLOCKS
  · rw [if_pos h1]
    by_cases h0 : i_block inode k = 0
    · rw [if_pos h0]
      by_cases ha : (alloc_block c (dec32 num / c.sb.s_inodes_per_group)).1 = 0
      · rw [if_pos ha]
        exact inode_head_eq_refl _
      · rw [if_neg ha]
        cases write_block (alloc_block c (dec32 num / c.sb.s_inodes_per_group)).2.device_fd
            (alloc_block c (dec32 num / c.sb.s_inodes_per_group)).1 zeroBuf with
        | none => exact inode_head_eq_refl _
        | some dev =>
          exact inode_head_eq_trans (inode_head_eq_set_i_blocks _ _)
            (inode_head_eq_set_i_block _ _ _)
    · rw [if_neg h0]
      exact inode_head_eq_refl _
  rw [if_neg h1]
  by_cases h2 : k < SIMPLEFS_NUM_DIRECT_BLOCKS + SIMPLEFS_BLOCK_SIZE / 4
  · rw [if_pos h2]
    cases hE : ensure_top_indirect c inode SIMPLEFS_NUM_DIRECT_BLOCKS
        (dec32 num / c.sb.s_inodes_per_group) with
    | error e => exact ensure_top_indirect_head_err _ _ _ _ _ hE
    | ok r =>
      obtain ⟨i1, c1⟩ := r
      exact dir_leaf_tail_head c1 i1 inode _ _ _ (ensure_top_indirect_head_ok _ _ _ _ _ hE)
  rw [if_neg h2]
  by_cases h3 : k < SIMPLEFS_NUM_DIRECT_BLOCKS + SIMPLEFS_BLOCK_SIZE / 4 +
      SIMPLEFS_BLOCK_SIZE / 4 * (SIMPLEFS_BLOCK_SIZE / 4)
  · rw [if_pos h3]
    cases hE : ensure_top_indirect c inode (SIMPLEFS_NUM_DIRECT_BLOCKS + 1)
        (dec32 num / c.sb.s_inodes_per_group) with
    | error e => exact ensure_top_indirect_head_err _ _ _ _ _ hE
    | ok r =>
      obtain ⟨i1, c1⟩ := r
      exact dir_child_step_head c1 i1 inode _ _ _ _
        (fun i2 b2 c2 t2 => dir_leaf_tail_head c2 i2 inode _ _ _ t2)
        (ensure_top_indirect_head_ok _ _ _ _ _ hE)
  rw [if_neg h3]
  by_cases h4 : k < SIMPLEFS_NUM_DIRECT_BLOCKS + SIMPLEFS_BLOCK_SIZE / 4 +
      SIMPLEFS_BLOCK_SIZE / 4 * (SIMPLEFS_BLOCK_SIZE / 4) +
      SIMPLEFS_BLOCK_SIZE / 4 * (SIMPLEFS_BLOCK_SIZE / 4) * (SIMPLEFS_BLOCK_SIZE / 4)
  · rw [if_pos h4]
    cases hE : ensure_top_indirect c inode (SIMPLEFS_NUM_DIRECT_BLOCKS + 2)
        (dec32 num / c.sb.s_inodes_per_group) with
    | error e => exact ensure_top_indirect_head_err _ _ _ _ _ hE
    | ok r =>
      obtain ⟨i1, c1⟩ := r
      exact dir_child_step_head c1 i1 inode _ _ _ _
        (fun i2 b2 c2 t2 => dir_child_step_head c2 i2 inode _ _ _ _
          (fun i3 b3 c3 t3 => dir_leaf_tail_head c3 i3 inode _ _ _ t3) t2)
        (ensure_top_indirect_head_ok _ _ _ _ _ hE)
  rw [if_neg h4]
  exact inode_head_eq_refl _

theorem ensure_dir_leaf_root (c : SimpleFS_Context) (inode : Buf) (p : Nat) (pb : Buf)
    (idx pg : Nat) :
    match ensure_dir_leaf c inode p pb idx pg with
    | .ok r => r.2.2.sb.s_root_inode = c.sb.s_root_inode
    | .error e => e.2.sb.s_root_inode = c.sb.s_root_inode := by
  unfold ensure_dir_leaf
  by_cases h0 : ptrAt pb idx = 0
  · rw [if_pos h0]
    dsimp only
    by_cases h1 : (alloc_block c pg).1 = 0
    · rw [if_pos h1]
      exact alloc_block_root c pg
    · rw [if_neg h1]
      cases write_block (alloc_block c pg).2.device_fd (alloc_block c pg).1 zeroBuf with
      | none => exact (free_block_root _ _).trans (alloc_block_root c pg)
      | some dev =>
        dsimp only
        cases write_block dev p (setPtr pb idx (alloc_block c pg).1) with
        | none =>
          exact (free_block_root { (alloc_block c pg).2 with device_fd := dev } _).trans
            (alloc_block_root c pg)
        | some dev2 => exact alloc_block_root c pg
  · rw [if_neg h0]

theorem dir_leaf_tail_root (c1 c : SimpleFS_Context) (i1 : Buf) (p idx pg : Nat)
    (t : c1.sb.s_root_inode = c.sb.s_root_inode) :
    (match read_block c1.device_fd p with
      | none => ((0 : Nat), i1, setErrno c1 EIO)
      | some b1 =>
        match ensure_dir_leaf c1 i1 p b1 idx pg with
        | .error e => (0, e.1, e.2)
        | .ok r => r).2.2.sb.s_root_inode = c.sb.s_root_inode := by
  cases read_block c1.device_fd p with
  | none => exact t
  | some b1 =>
    dsimp only
    have hh := ensure_dir_leaf_root c1 i1 p b1 idx pg
    cases hE : ensure_dir_leaf c1 i1 p b1 idx pg with
    | error e =>
      rw [hE] at hh
      exact hh.trans t
    | ok r =>
      rw [hE] at hh
      exact hh.trans t

theorem dir_child_step_root (c1 c : SimpleFS_Context) (i1 : Buf) (p idx pg : Nat)
    (rest : Buf → Buf → SimpleFS_Context → Nat × Buf × SimpleFS_Context)
    (hrest : ∀ i2 b2 c2, c2.sb.s_root_inode = c.sb.s_root_inode →
      (rest i2 b2 c2).2.2.sb.s_root_inode = c.sb.s_root_inode)
    (t : c1.sb.s_root_inode = c.sb.s_root_inode) :
    (match read_block c1.device_fd p with
      | none => ((0 : Nat), i1, setErrno c1 EIO)
      | some b1 =>
        match ensure_child_indirect c1 i1 p b1 idx pg with
        | .error e => (0, e.1, e.2)
        | .ok (i2, b2, c2) => rest i2 b2 c2).2.2.sb.s_root_inode = c.sb.s_root_inode := by
  cases read_block c1.device_fd p with
  | none => exact t
  | some b1 =>
    dsimp only
    cases hE : ensure_child_indirect c1 i1 p b1 idx pg with
    | error e => exact (ensure_child_indirect_root_err _ _ _ _ _ _ _ hE).trans t
    | ok r =>
      obtain ⟨i2, b2, c2⟩ := r
      exact hrest i2 b2 c2 ((ensure_child_indirect_root_ok _ _ _ _ _ _ _ hE).trans t)

/-- The walk of `get_or_alloc_dir_block` leaves `s_root_inode` as it is. -/
theorem get_or_alloc_dir_block_root (c : SimpleFS_Context) (inode : Buf) (num k : Nat) :
    (get_or_alloc_dir_block c inode num k).2.2.sb.s_root_inode = c.sb.s_root_inode := by
  unfold get_or_alloc_dir_block
  dsimp only
  by_cases h1 : k < SIMPLEFS_NUM_DIRECT_BLOCKS
  · rw [if_pos h1]
    by_cases h0 : i_block inode k = 0
    · rw [if_pos h0]
      by_cases ha : (alloc_block c (dec32 num / c.sb.s_inodes_per_group)).1 = 0
      · rw [if_pos ha]
        exact alloc_block_root c _
      · rw [if_neg ha]
        cases write_block (alloc_block c (dec32 num / c.sb.s_inodes_per_group)).2.device_fd
            (alloc_block c (dec32 num / c.sb.s_inodes_per_group)).1 zeroBuf with
        | none => exact alloc_block_root c _
        | some dev => exact alloc_block_root c _
    · rw [if_neg h0]
  rw [if_neg h1]
  by_cases h2 : k < SIMPLEFS_NUM_DIRECT_BLOCKS + SIMPLEFS_BLOCK_SIZE / 4
  · rw [if_pos h2]
    cases hE : ensure_top_indirect c inode SIMPLEFS_NUM_DIRECT_BLOCKS
        (dec32 num / c.sb.s_inodes_per_group) with
    | error e => exact ensure_top_indirect_root_err _ _ _ _ _ hE
    | ok r =>
      obtain ⟨i1, c1⟩ := r
      exact dir_leaf_tail_root c1 c i1 _ _ _ (ensure_top_indirect_root_ok _ _ _ _ _ hE)
  rw [if_neg h2]
  by_cases h3 : k < SIMPLEFS_NUM_DIRECT_BLOCKS + SIMPLEFS_BLOCK_SIZE / 4 +
      SIMPLEFS_BLOCK_SIZE / 4 * (SIMPLEFS_BLOCK_SIZE / 4)
  · rw [if_pos h3]
    cases hE : ensure_top_indirect c inode (SIMPLEFS_NUM_DIRECT_BLOCKS + 1)
        (dec32 num / c.sb.s_inodes_per_group) with
    | error e => exact ensure_top_indirect_root_err _ _ _ _ _ hE
    | ok r =>
      obtain ⟨i1, c1⟩ := r
      exact dir_child_step_root c1 c i1 _ _ _ _
        (fun i2 b2 c2 t2 => dir_leaf_tail_root c2 c i2 _ _ _ t2)
        (ensure_top_indirect_root_ok _ _ _ _ _ hE)
  rw [if_neg h3]
  by_cases h4 : k < SIMPLEFS_NUM_DIRECT_BLOCKS + SIMPLEFS_BLOCK_SIZE / 4 +
      SIMPLEFS_BLOCK_SIZE / 4 * (SIMPLEFS_BLOCK_SIZE / 4) +
      SIMPLEFS_BLOCK_SIZE / 4 * (SIMPLEFS_BLOCK_SIZE / 4) * (SIMPLEFS_BLOCK_SIZE / 4)
  · rw [if_pos h4]
    cases hE : ensure_top_indirect c inode (SIMPLEFS_NUM_DIRECT_BLOCKS + 2)
        (dec32 num / c.sb.s_inodes_per_group) with
    | error e => exact ensure_top_indirect_root_err _ _ _ _ _ hE
    | ok r =>
      obtain ⟨i1, c1⟩ := r
      exact dir_child_step_root c1 c i1 _ _ _ _
        (fun i2 b2 c2 t2 => dir_child_step_root c2 c i2 _ _ _ _
          (fun i3 b3 c3 t3 => dir_leaf_tail_root c3 c i3 _ _ _ t3) t2)
        (ensure_top_indirect_root_ok _ _ _ _ _ hE)
  rw [if_neg h4]
  rfl

theorem stamped_owner (a : Buf) (t1 t2 : Nat) :
    i_mode (set_i_mtime (set_i_ctime a t1) t2) = i_mode a ∧
    i_uid (set_i_mtime (set_i_ctime a t1) t2) = i_uid a ∧
    i_gid (set_i_mtime (set_i_ctime a t1) t2) = i_gid a := by
  have hx : ∀ i, i < 4 ∨ 20 ≤ i → set_i_mtime (set_i_ctime a t1) t2 i = a i := by
    intro i hi
    unfold set_i_mtime set_i_ctime
    rw [setLE_outside _ _ _ _ _ (by omega), setLE_outside _ _ _ _ _ (by omega)]
  refine ⟨?_, ?_, ?_⟩
  · exact getLE_congr _ _ _ _ (fun i _ h2 => hx i (by omega))
  · exact getLE_congr _ _ _ _ (fun i _ h2 => hx i (by omega))
  · unfold i_gid
    exact getLE_congr _ _ _ _ (fun i h1 _ => hx i (by omega))

/-- A successful `add_dir_entry` leaves the mode and the owner of the
directory as they are. -/
theorem add_dir_entry_owner (c : SimpleFS_Context) (inode : Buf) (num : Nat)
    (name : List Nat) (child ft : Nat) (h : dir_ok c inode num)
    (ha : tree_ok c inode (fs_reserved c num))
    (hn : name.length ≤ 255) (hc0 : child ≠ 0) (hc : child < 4294967296)
    (hret : (add_dir_entry c inode num name child ft).1 = 0) :
    i_mode (add_dir_entry c inode num name child ft).2.1 = i_mode inode ∧
    i_uid (add_dir_entry c inode num name child ft).2.1 = i_uid inode ∧
    i_gid (add_dir_entry c inode num name child ft).2.1 = i_gid inode ∧
    (add_dir_entry c inode num name child ft).2.2.sb.s_root_inode = c.sb.s_root_inode := by
  obtain ⟨T, o, hloc, _⟩ := h.located
  have hNmax := dir_blocks_lt_max inode (i_size inode / SIMPLEFS_BLOCK_SIZE) (le_refl _)
  rw [add_dir_entry_eq_loop c inode num name child ft hn] at hret ⊢
  rcases add_dir_entry_loop_device c inode num name child ft h ha hn hc0 hc T o hloc
      MAX_LOGICAL_BLOCKS 0 (Nat.zero_le _) (by omega) with
    r | ⟨j, blk', offs, offs', cF, _, _, _, _, _, r6, _, r8, _⟩ |
      ⟨b, inode_g, c_g, cF, r1, _, r3, _, r5, _⟩
  · exact absurd hret r
  · rw [r6]
    obtain ⟨s1, s2, s3⟩ := stamped_owner inode c.now c.now
    exact ⟨s1, s2, s3, by dsimp only; rw [r8]⟩
  · rw [r3]
    dsimp only
    have hroot : cF.sb.s_root_inode = c.sb.s_root_inode := by
      have := get_or_alloc_dir_block_root c inode num (i_size inode / SIMPLEFS_BLOCK_SIZE)
      rw [r1] at this
      rw [r5]
      exact this
    have hh := get_or_alloc_dir_block_head c inode num (i_size inode / SIMPLEFS_BLOCK_SIZE)
    rw [r1] at hh
    obtain ⟨f1, f2, f3, _⟩ := inode_head_eq_fields _ _ hh
    unfold add_dir_entry_inode
    by_cases hs : i_size inode_g <
        u32 ((i_size inode / SIMPLEFS_BLOCK_SIZE + 1) * SIMPLEFS_BLOCK_SIZE)
    · rw [if_pos hs]
      obtain ⟨s1, s2, s3, _⟩ := stamped_fields inode_g
        (u32 ((i_size inode / SIMPLEFS_BLOCK_SIZE + 1) * SIMPLEFS_BLOCK_SIZE)) c.now c.now
      exact ⟨s1.trans f1, s2.trans f2, s3.trans f3, hroot⟩
    · rw [if_neg hs]
      obtain ⟨s1, s2, s3⟩ := stamped_owner inode_g c.now c.now
      exact ⟨s1.trans f1, s2.trans f2, s3.trans f3, hroot⟩

/-! ## The tree of a directory after `add_dir_entry` -/

/-- Source function `add_dir_entry`, the blocks of the directory afterwards:
every block of the tree of the returned inode lies inside the filesystem and
was a block of the tree before, at the same position, or was free. -/
theorem add_dir_entry_nodes (c : SimpleFS_Context) (inode : Buf) (num : Nat)
    (name : List Nat) (child ft : Nat) (h : dir_ok c inode num)
    (ha : tree_ok c inode (fs_reserved c num))
    (hn : name.length ≤ 255) (hc0 : child ≠ 0) (hc : child < 4294967296)
    (hret : (add_dir_entry c inode num name child ft).1 = 0) :
    ∀ s idxs, tree_path_ok s idxs →
      tree_node (add_dir_entry c inode num name child ft).2.2.device_fd.data
        (add_dir_entry c inode num name child ft).2.1 s idxs ≠ 0 →
      tree_node (add_dir_entry c inode num name child ft).2.2.device_fd.data
        (add_dir_entry c inode num name child ft).2.1 s idxs < c.sb.s_blocks_count ∧
      (tree_node (add_dir_entry c inode num name child ft).2.2.device_fd.data
          (add_dir_entry c inode num name child ft).2.1 s idxs =
          tree_node c.device_fd.data inode s idxs ∨
        block_bit_set c (tree_node (add_dir_entry c inode num name child ft).2.2.device_fd.data
          (add_dir_entry c inode num name child ft).2.1 s idxs) = false) := by
  have hior : ∀ b, c.device_fd.readable b = true := fun b => (h.io b).1
  obtain ⟨T, o, hloc, hT⟩ := h.located
  have hNmax := dir_blocks_lt_max inode (i_size inode / SIMPLEFS_BLOCK_SIZE) (le_refl _)
  rw [add_dir_entry_eq_loop c inode num name child ft hn] at hret ⊢
  rcases add_dir_entry_loop_device c inode num name child ft h ha hn hc0 hc T o hloc
      MAX_LOGICAL_BLOCKS 0 (Nat.zero_le _) (by omega) with
    r | ⟨j, blk', offs, offs', cF, _, r2, r3, r4, r5, r6, r7, r8, r9, r10⟩ |
      ⟨b, inode_g, c_g, cF, r1, r2, r3, r4, r5, r6, r7⟩
  · exact absurd hret r
  · -- the record went into a backed block
    rw [r6]
    dsimp only
    have hjm := dir_blocks_lt_max inode j (by omega)
    have hbj := dir_block_eq_node c inode j hior hjm
    have hbk : tree_node c.device_fd.data inode (lbn_slot j) (lbn_idxs j) ≠ 0 := by
      rw [← hbj]
      exact h.backed j r2
    have hinner := lbn_leaf_not_inner c.device_fd.data inode h.distinct j hjm hbk
    have hnodes : ∀ s idxs, tree_path_ok s idxs →
        tree_node cF.device_fd.data (set_i_mtime (set_i_ctime inode c.now) c.now) s idxs =
          tree_node c.device_fd.data inode s idxs := by
      apply tree_node_frame
      · intro t
        rw [i_block_set_i_mtime, i_block_set_i_ctime]
      · intro s idxs hp hlen hne
        rw [r7, put_data_ne _ _ _ _ (hT s idxs hp), put_data_ne]
        rw [hbj]
        exact hinner s idxs hp hlen
    intro s idxs hp hne
    rw [hnodes s idxs hp] at hne ⊢
    exact ⟨(ha.nodes s idxs hp hne).1, Or.inl rfl⟩
  · -- the record went into a new block
    rw [r3]
    dsimp only
    have ha' : tree_ok c inode (block_bitmaps c) :=
      tree_ok_shrink c inode _ _ ha (fun b hb => Or.inl hb) (fun g hg => ⟨g, hg, rfl⟩)
    obtain ⟨g1, g2, g3, g4⟩ := get_or_alloc_dir_block_spec c inode (block_bitmaps c) num
      _ ha' hNmax b inode_g c_g r1 r2
    obtain ⟨t1, t2⟩ := ha.reserved T (Or.inr ⟨o, hloc⟩)
    have hcase : ∀ s idxs, tree_path_ok s idxs →
        tree_node c_g.device_fd.data inode_g s idxs ≠ 0 →
        tree_node c_g.device_fd.data inode_g s idxs = tree_node c.device_fd.data inode s idxs ∨
        block_bit_set c (tree_node c_g.device_fd.data inode_g s idxs) = false := by
      intro s idxs hp hne
      by_cases h0 : tree_node c.device_fd.data inode s idxs = 0
      · exact Or.inr (g1.fresh s idxs hp h0 hne)
      · exact Or.inl (g1.keep s idxs hp h0)
    have hnT : ∀ s idxs, tree_path_ok s idxs →
        tree_node c_g.device_fd.data inode_g s idxs ≠ 0 →
        tree_node c_g.device_fd.data inode_g s idxs ≠ T := by
      intro s idxs hp hne
      rcases hcase s idxs hp hne with e | e
      · rw [e]
        exact hT s idxs hp
      · intro e2
        rw [e2, t2] at e
        exact Bool.noConfusion e
    have hinner := lbn_leaf_not_inner c_g.device_fd.data inode_g g1.ok.distinct
      (i_size inode / SIMPLEFS_BLOCK_SIZE) hNmax (by rw [← g2]; exact r2)
    have hnodes : ∀ s idxs, tree_path_ok s idxs →
        tree_node cF.device_fd.data
          (add_dir_entry_inode inode_g (i_size inode / SIMPLEFS_BLOCK_SIZE) c.now) s idxs =
          tree_node c_g.device_fd.data inode_g s idxs := by
      apply tree_node_frame
      · intro t
        unfold add_dir_entry_inode
        split_ifs
        · exact (stamped_fields inode_g _ c.now c.now).2.2.2.1 t
        · rw [i_block_set_i_mtime, i_block_set_i_ctime]
      · intro s idxs hp hlen hne
        rw [r4, put_data_ne _ _ _ _ (hnT s idxs hp hne), put_data_ne]
        rw [g2]
        exact hinner s idxs hp hlen
    intro s idxs hp hne
    rw [hnodes s idxs hp] at hne ⊢
    refine ⟨?_, hcase s idxs hp hne⟩
    have := (g1.ok.nodes s idxs hp hne).1
    rw [g1.layout.2.2.1] at this
    exact this

/-! ## The state after the directory entry of a link was added -/

theorem dir_not_lnk (m : Nat) (h : S_ISDIR m = true) : S_ISLNK m = false := by
  unfold S_ISDIR at h
  unfold S_ISLNK
  have h1 := of_decide_eq_true h
  rw [h1]
  rfl

theorem blit_outside (dst src : Buf) (doff soff len i : Nat)
    (h : i < doff ∨ doff + len ≤ i) : blit dst doff src soff len i = dst i := by
  unfold blit
  rw [if_neg (by omega)]

theorem blit_inside (dst src : Buf) (doff len i : Nat) (h : i < len) :
    blit dst doff src 0 len (doff + i) = src i := by
  unfold blit
  rw [if_pos (by omega), Nat.zero_add, Nat.add_sub_cancel_left]

/-- The state after the entry of a new link was added and the metadata were
flushed, seen from the state `c` before the creation: path resolution over the
inodes of `I` goes as in `c`, the name leads to the new inode in the parent
directory, the record of the new inode is in its slot, and a block that was
free in `c` and is in use keeps the content it was given. -/
theorem link_entered (I : Nat → Prop) (c c6 cF : SimpleFS_Context) (P N T o : Nat)
    (pa ino : Buf) (b : List Nat) (ft : Nat)
    (h : link_ready I c) (hI : I P) (hr : (read_inode_from_disk c P).1 = .ok pa)
    (hd : S_ISDIR (i_mode pa) = true)
    (habs : lookup_component c.device_fd pa b = .absent) (hn : b.length ≤ 255)
    (hN0 : N ≠ 0) (hN32 : N < 4294967296) (hNfree : inode_bit_set c N = false)
    (hloc : inode_location c N = .ok (T, o))
    (hf : link_frame c c6 (fun x => x = T))
    (hrec : c6.device_fd.data T = blit (c.device_fd.data T) o ino 0 SIMPLEFS_INODE_SIZE)
    (hadd : (add_dir_entry c6 pa P b N ft).1 = 0)
    (hcF : cF = sync_fs_metadata (add_dir_entry c6 pa P b N ft).2.2) :
    io_ok cF ∧ same_layout c cF ∧ resolve_extends_on I c cF ∧
    (∃ paF, (read_inode_from_disk cF P).1 = .ok paF ∧ i_mode paF = i_mode pa ∧
      i_uid paF = i_uid pa ∧ i_gid paF = i_gid pa ∧
      lookup_component cF.device_fd paF b = .found N) ∧
    (∃ inoF, (read_inode_from_disk cF N).1 = .ok inoF ∧
      ∀ i, i < SIMPLEFS_INODE_SIZE → inoF i = ino i) ∧
    (∀ B, B ≠ 0 → B < c.sb.s_blocks_count → block_bit_set c B = false →
      block_bit_set c6 B = true → cF.device_fd.data B = c6.device_fd.data B) := by
  have hS : SIMPLEFS_INODE_SIZE = 128 := rfl
  obtain ⟨d1, d2, d3⟩ := h.dirs P pa hI hr hd
  have ta := link_ready_tree_ok I c h P pa hI hr hd
  obtain ⟨TP, oP, hlocP, hTP⟩ := d1.located
  have hqTP := quiet_not_bitmap c TP (h.table P TP oP hlocP)
  have hqT := quiet_not_bitmap c T (h.table N T o hloc)
  have hPN : P ≠ N := by
    intro e
    have := h.used P hI
    rw [e, hNfree] at this
    exact Bool.noConfusion this
  -- the blocks of the parent's tree
  have hnodes : ∀ s idxs, tree_path_ok s idxs → tree_node c.device_fd.data pa s idxs ≠ 0 →
      quiet_block c (tree_node c.device_fd.data pa s idxs) ∧
      ∀ m' T' o', inode_location c m' = .ok (T', o') →
        tree_node c.device_fd.data pa s idxs ≠ T' :=
    fun s idxs hp hne => h.reads P pa hI hr _ ⟨hne, Or.inl ⟨hd, s, idxs, hp, rfl⟩⟩
  have hkeep6 : ∀ s idxs, tree_path_ok s idxs → tree_node c.device_fd.data pa s idxs ≠ 0 →
      c6.device_fd.data (tree_node c.device_fd.data pa s idxs) =
        c.device_fd.data (tree_node c.device_fd.data pa s idxs) :=
    fun s idxs hp hne => hf.keep _ (hnodes s idxs hp hne).1
      ((hnodes s idxs hp hne).2 N T o hloc)
  obtain ⟨d6, l6, n6, _⟩ := dir_ok_transfer c c6 pa pa P d1 hf.layout rfl (fun _ _ => rfl) hkeep6
  have t6 := tree_ok_transfer c c6 pa pa P ta hf.layout hf.blocks hf.counts hf.bits
    (fun _ _ => rfl) hkeep6
  have hlocP6 : inode_location c6 P = .ok (TP, oP) :=
    (inode_location_layout_eq c c6 P hf.layout _).2 hlocP
  have hTb6 : ¬ block_bitmaps c6 TP :=
    fun hb => hqTP.1 ((block_bitmaps_layout c c6 hf.layout TP).1 hb)
  -- the entry
  obtain ⟨k, hk, _, _, hgood, _⟩ := add_dir_entry_listing c6 pa P b N ft d6 t6 hn hN0 hN32 hadd
  have hkb : (k + 1) * SIMPLEFS_BLOCK_SIZE < 4294967296 :=
    lt_of_le_of_lt (Nat.mul_le_mul_right _ (by omega)) d3
  obtain ⟨d7, hperm, _⟩ := hgood hkb
  obtain ⟨l67, fr7, rec7⟩ := add_dir_entry_frame c6 pa P b N ft d6 t6 hn hN0 hN32 TP oP hlocP6
    hTb6 hadd
  obtain ⟨o1, o2, o3, o4⟩ := add_dir_entry_owner c6 pa P b N ft d6 t6 hn hN0 hN32 hadd
  have nd7 := add_dir_entry_nodes c6 pa P b N ft d6 t6 hn hN0 hN32 hadd
  generalize hA : add_dir_entry c6 pa P b N ft = A at *
  obtain ⟨r, pa7, c7⟩ := A
  dsimp only at hadd d7 hperm l67 fr7 rec7 o1 o2 o3 o4 nd7 hcF
  -- the flush
  obtain ⟨s1, s2, s3, _, s5, s6, s7⟩ := sync_fs_metadata_frame c7
  rw [← hcF] at s1 s2 s3 s5 s6 s7
  have l7F : same_layout c7 cF := same_layout_of_eq c7 cF s5 s6 s1 s2 s3
  have l6F : same_layout c6 cF := same_layout_trans c6 c7 cF l67 l7F
  have lF : same_layout c cF := same_layout_trans c c6 cF hf.layout l6F
  have ioF : io_ok cF := io_ok_of_layout c cF lF h.io
  have hcnt6 : c6.sb.s_blocks_count = c.sb.s_blocks_count := hf.layout.2.2.1
  have hnosync : ∀ x, ¬ sync_target c x → cF.device_fd.data x = c7.device_fd.data x :=
    fun x hx => s7 x (fun hs => hx ((sync_target_layout c c7
      (same_layout_trans c c6 c7 hf.layout l67) x).1 hs))
  -- blocks kept from `c6` on
  have hthru : ∀ x, x < c.sb.s_blocks_count → block_bit_set c6 x = true →
      ¬ block_bitmaps c x → x ≠ TP → ¬ sync_target c x →
      (∀ s idxs, tree_path_ok s idxs → tree_node c.device_fd.data pa s idxs ≠ x) →
      cF.device_fd.data x = c6.device_fd.data x := by
    intro x x1 x2 x3 x4 x5 x6
    rw [hnosync x x5]
    exact fr7 x (by rw [hcnt6]; exact x1) x2
      (fun hb => x3 ((block_bitmaps_layout c c6 hf.layout x).1 hb)) x4
      (fun s idxs hp => by rw [n6 s idxs hp]; exact x6 s idxs hp)
  have hthruq : ∀ x, quiet_block c x → x ≠ TP →
      (∀ s idxs, tree_path_ok s idxs → tree_node c.device_fd.data pa s idxs ≠ x) →
      cF.device_fd.data x = c6.device_fd.data x := by
    intro x hq x4 x6
    obtain ⟨q1, _, q3, q4, q5⟩ := quiet_not_bitmap c x hq
    exact hthru x q3 (hf.bits x q3 q4) q1 x4 q5 x6
  -- a nonzero block of the parent's tree is no inode-table block
  have htreeT : ∀ m' T' o', inode_location c m' = .ok (T', o') →
      ∀ s idxs, tree_path_ok s idxs → tree_node c.device_fd.data pa s idxs ≠ T' := by
    intro m' T' o' hl' s idxs hp e
    have hq' := quiet_not_bitmap c T' (h.table m' T' o' hl')
    have hne : tree_node c.device_fd.data pa s idxs ≠ 0 := by
      rw [e]
      intro e0
      have := h.table m' T' o' hl'
      exact this.1.1 e0
    exact (hnodes s idxs hp hne).2 m' T' o' hl' e
  -- the slot of an inode other than the parent and the new inode
  have hslotF : ∀ m T' o', m ≠ P → inode_location c m = .ok (T', o') →
      ∀ i, i < SIMPLEFS_INODE_SIZE →
        cF.device_fd.data T' (o' + i) = c6.device_fd.data T' (o' + i) := by
    intro m T' o' hmP hl' i hi
    have hq' := h.table m T' o' hl'
    rw [hnosync T' (quiet_not_bitmap c T' hq').2.2.2.2]
    by_cases e : T' = TP
    · subst e
      rw [rec7]
      have := h.slots m P T' o' oP hmP hl' hlocP
      exact blit_outside _ _ _ _ _ _ (by omega)
    · have := hthruq T' hq' e (htreeT m T' o' hl')
      rw [hnosync T' (quiet_not_bitmap c T' hq').2.2.2.2] at this
      rw [this]
  have hslot6 : ∀ m T' o', m ≠ N → inode_location c m = .ok (T', o') →
      ∀ i, i < SIMPLEFS_INODE_SIZE →
        c6.device_fd.data T' (o' + i) = c.device_fd.data T' (o' + i) := by
    intro m T' o' hmN hl' i hi
    by_cases e : T' = T
    · subst e
      rw [hrec]
      have := h.slots m N T' o' o hmN hl' hloc
      exact blit_outside _ _ _ _ _ _ (by omega)
    · rw [hf.keep T' (h.table m T' o' hl') e]
  -- the parent after the flush
  have hrecF : cF.device_fd.data TP =
      blit (c6.device_fd.data TP) oP pa7 0 SIMPLEFS_INODE_SIZE := by
    rw [hnosync TP hqTP.2.2.2.2, rec7]
  have hlocPF : inode_location cF P = .ok (TP, oP) :=
    (inode_location_layout_eq c cF P lF _).2 hlocP
  have hreadPF := read_inode_from_disk_io cF P TP oP ioF hlocPF
  have hpaF : ∀ i, i < SIMPLEFS_INODE_SIZE →
      blit zeroBuf 0 (cF.device_fd.data TP) oP SIMPLEFS_INODE_SIZE i = pa7 i := by
    intro i hi
    unfold blit
    rw [if_pos ⟨Nat.zero_le _, by omega⟩, Nat.sub_zero, hrecF]
    exact blit_inside _ _ _ _ _ hi
  obtain ⟨f1, f2, f3, f4, f5⟩ := record_fields _ _ hpaF
  have hkeep7 : ∀ s idxs, tree_path_ok s idxs → tree_node c7.device_fd.data pa7 s idxs ≠ 0 →
      cF.device_fd.data (tree_node c7.device_fd.data pa7 s idxs) =
        c7.device_fd.data (tree_node c7.device_fd.data pa7 s idxs) := by
    intro s idxs hp hne
    apply hnosync
    intro hs
    obtain ⟨n1, n2⟩ := nd7 s idxs hp hne
    rw [hcnt6] at n1
    have hin := h.synced _ hs n1
    rcases n2 with e | e
    · rw [e, n6 s idxs hp] at hs hne
      exact (quiet_not_bitmap c _ (hnodes s idxs hp hne).1).2.2.2.2 hs
    · cases hbb : block_bit_set c6 (tree_node c7.device_fd.data pa7 s idxs) with
      | true => rw [hbb] at e; exact Bool.noConfusion e
      | false =>
        rw [hf.bits _ n1 hin] at hbb
        exact Bool.noConfusion hbb
  obtain ⟨dF, lFl, _, _⟩ := dir_ok_transfer c7 cF pa7
    (blit zeroBuf 0 (cF.device_fd.data TP) oP SIMPLEFS_INODE_SIZE) P d7 l7F f4 f5 hkeep7
  have hpermF : List.Perm
      (dir_listing cF (blit zeroBuf 0 (cF.device_fd.data TP) oP SIMPLEFS_INODE_SIZE))
      ((b, N) :: dir_listing c pa) := by
    rw [lFl, ← l6]
    exact hperm
  obtain ⟨_, hfound, hlook⟩ := lookup_after_add c cF pa
    (blit zeroBuf 0 (cF.device_fd.data TP) oP SIMPLEFS_INODE_SIZE) P P b N d1 dF d2 hpermF habs
  have hPview : inode_view_le c.device_fd cF.device_fd pa
      (blit zeroBuf 0 (cF.device_fd.data TP) oP SIMPLEFS_INODE_SIZE) :=
    { mode := f1.trans o1
      uid := f2.trans o2
      gid := f3.trans o3
      look := fun _ comp hc => hlook comp hc
      link := fun hk => by
        rw [dir_not_lnk _ hd] at hk
        exact Bool.noConfusion hk }
  refine ⟨ioF, lF, ?_, ?_, ?_, ?_⟩
  · -- path resolution
    refine
      { root := ?_
        root_in := h.root_in
        view := ?_
        closed := h.closed }
    · rw [s1, o4]
      exact hf.root
    · intro m a hm hra
      by_cases hmP : m = P
      · subst hmP
        rw [hr] at hra
        injection hra with e
        subst e
        exact ⟨_, by rw [hreadPF], hPview⟩
      · have hmN : m ≠ N := by
          intro e
          have := h.used m hm
          rw [e, hNfree] at this
          exact Bool.noConfusion this
        refine ⟨a, view_of_frame c cF m a h.io lF hra ?_ ?_⟩
        · intro T' o' hl' i hi
          rw [hslotF m T' o' hmP hl' i hi, hslot6 m T' o' hmN hl' i hi]
        · intro x hx
          obtain ⟨q1, q2⟩ := h.reads m a hm hra x hx
          have hxP : ∀ s idxs, tree_path_ok s idxs →
              tree_node c.device_fd.data pa s idxs ≠ x := by
            intro s idxs hp e
            exact h.apart m P a pa hm hI hmP hra hr x hx
              ⟨hx.1, Or.inl ⟨hd, s, idxs, hp, e⟩⟩
          rw [hthruq x q1 (q2 P TP oP hlocP) hxP, hf.keep x q1 (q2 N T o hloc)]
  · exact ⟨_, by rw [hreadPF], f1.trans o1, f2.trans o2, f3.trans o3, hfound⟩
  · have hlocNF : inode_location cF N = .ok (T, o) :=
      (inode_location_layout_eq c cF N lF _).2 hloc
    refine ⟨_, by rw [read_inode_from_disk_io cF N T o ioF hlocNF], ?_⟩
    intro i hi
    unfold blit
    rw [if_pos ⟨Nat.zero_le _, by omega⟩, Nat.sub_zero, hslotF N T o (Ne.symm hPN) hloc i hi,
      hrec]
    exact blit_inside _ _ _ _ _ hi
  · intro B hB0 hB hBfree hB6
    have hBuse : ∀ x, block_bit_set c x = true → x ≠ B := by
      intro x hx e
      rw [e, hBfree] at hx
      exact Bool.noConfusion hx
    refine hthru B hB hB6 (fun hb => hBuse B (h.bitmaps B hb).2 rfl)
      (Ne.symm (hBuse TP hqTP.2.2.2.1)) (fun hs => hBuse B (h.synced B hs hB) rfl) ?_
    intro s idxs hp e
    have hne : tree_node c.device_fd.data pa s idxs ≠ 0 := by
      intro e0
      rw [e0] at e
      exact hB0 e.symm
    exact hBuse _ (quiet_not_bitmap c _ (hnodes s idxs hp hne).1).2.2.2.1 e

/-! ## Reading a link that was just created -/

theorem resolve_extends_on_same_fs (I : Nat → Prop) (c c2 c' c'' : SimpleFS_Context)
    (hs : same_fs c c2) (hs' : same_fs c' c'') (h : resolve_extends_on I c2 c') :
    resolve_extends_on I c c'' := by
  have hrd : ∀ m, (read_inode_from_disk c2 m).1 = (read_inode_from_disk c m).1 :=
    fun m => (read_inode_from_disk_same c c2 m hs).1
  have hrd' : ∀ m, (read_inode_from_disk c'' m).1 = (read_inode_from_disk c' m).1 :=
    fun m => (read_inode_from_disk_same c' c'' m hs').1
  have e1 : c2.device_fd = c.device_fd := hs.1
  have e2 : c''.device_fd = c'.device_fd := hs'.1
  refine
    { root := ?_
      root_in := ?_
      view := ?_
      closed := ?_ }
  · rw [hs'.2.1, h.root, hs.2.1]
  · have := h.root_in
    rw [hs.2.1] at this
    exact this
  · intro m a hm hr
    rw [← hrd] at hr
    obtain ⟨a', h1, h2⟩ := h.view m a hm hr
    refine ⟨a', by rw [hrd']; exact h1, ?_⟩
    rw [e2, ← e1]
    exact h2
  · intro m a comp m' hm hr hd hl
    rw [← hrd] at hr
    rw [← e1] at hl
    exact h.closed m a comp m' hm hr hd hl

/-- Source function `simplefs_readlink` on a state in which the path resolves,
without following a final symlink, to a link whose record holds the length of
`t` and whose target bytes are `t`: the call returns 0 and stores `t` and a
terminating NUL. -/
theorem readlink_of_link (c : SimpleFS_Context) (caller : fuse_context) (path t : List Nat)
    (size N : Nat) (ino : Buf) (hio : io_ok c)
    (hres : resolve_path_recursive (setErrno c 0) caller path 0 false = (N, setErrno c 0))
    (hN : N ≠ 0) (hr : (read_inode_from_disk c N).1 = .ok ino)
    (hm : S_ISLNK (i_mode ino) = true) (hs : i_size ino = t.length) (ht : t ≠ [])
    (hsize : t.length < size)
    (hbytes : (i_blocks ino = 0 ∧ bytesOf ino I_BLOCK_OFF t.length = t) ∨
      (i_blocks ino ≠ 0 ∧ i_block ino 0 ≠ 0 ∧
        bytesOf (c.device_fd.data (i_block ino 0)) 0 t.length = t)) :
    (simplefs_readlink c caller path size).1 = 0 ∧
    (simplefs_readlink c caller path size).2.1 = t ++ [0] := by
  have hr0 : read_inode_from_disk (setErrno c 0) N = (.ok ino, setErrno c 0) := by
    apply read_inode_from_disk_eq
    rw [(read_inode_from_disk_same c (setErrno c 0) N (same_fs_setErrno c 0)).1]
    exact hr
  have hlen : t.length ≠ 0 := fun e => ht (List.length_eq_zero.1 e)
  have hmin : min (size - 1) (i_size ino) = t.length := by
    rw [hs]
    omega
  unfold simplefs_readlink
  dsimp only
  rw [hres]
  dsimp only
  rw [if_neg hN, hr0]
  dsimp only
  rw [if_neg (not_not.2 hm), if_neg (by rw [hs]; exact hlen), hmin]
  rcases hbytes with ⟨b1, b2⟩ | ⟨b1, b2, b3⟩
  · rw [if_pos b1]
    dsimp only
    rw [b2]
    exact ⟨rfl, rfl⟩
  · rw [if_neg b1, if_neg b2]
    have : read_block (setErrno c 0).device_fd (i_block ino 0) =
        some (c.device_fd.data (i_block ino 0)) := read_block_io c hio _
    rw [this]
    dsimp only
    rw [b3]
    exact ⟨rfl, rfl⟩

/-- C7: in a state that is ready for the creation of a link below the inodes
`I`, where no directory of `I` is within one block of the 4 GiB a 32-bit size
can hold, a `simplefs_symlink(t, linkpath)` that returns 0 for a link path
whose directory part resolves has `1 ≤ |t| < 4096`, and
`simplefs_readlink(linkpath, buf, size)` with `size > |t|` on the resulting
state returns 0 and stores exactly the bytes of `t` followed by a NUL; the path
then resolves to a link inode of size `|t|` that holds `t` inline with
`i_blocks == 0` when `|t| < 60`, and in one data block with `i_blocks == 8`
otherwise. -/
theorem C7_symlink_then_readlink (I : Nat → Prop) (c : SimpleFS_Context)
    (caller : fuse_context) (t linkpath : List Nat) (size : Nat)
    (hready : link_ready I c) (hp : linkpath.head? = some SLASH)
    (hdir : (path_to_inode_num c caller (parse_path linkpath).1).1 ≠ 0)
    (hsize : t.length < size)
    (hret : (simplefs_symlink c caller t linkpath).1 = 0) :
    1 ≤ t.length ∧ t.length < SIMPLEFS_BLOCK_SIZE ∧
    (simplefs_readlink (simplefs_symlink c caller t linkpath).2 caller linkpath size).1 = 0 ∧
    (simplefs_readlink (simplefs_symlink c caller t linkpath).2 caller linkpath size).2.1 =
      t ++ [0] ∧
    ∃ N ino, N ≠ 0 ∧
      (resolve_path_recursive (simplefs_symlink c caller t linkpath).2 caller linkpath 0
        false).1 = N ∧
      (read_inode_from_disk (simplefs_symlink c caller t linkpath).2 N).1 = .ok ino ∧
      S_ISLNK (i_mode ino) = true ∧ i_size ino = t.length ∧
      (t.length < I_BLOCK_BYTES → i_blocks ino = 0 ∧ bytesOf ino I_BLOCK_OFF t.length = t) ∧
      (I_BLOCK_BYTES ≤ t.length → i_blocks ino = 8 ∧ i_block ino 0 ≠ 0 ∧
        bytesOf ((simplefs_symlink c caller t linkpath).2.device_fd.data (i_block ino 0)) 0
          t.length = t) := by
  obtain ⟨ht, hb, hblen, hI, pa, c2, hpi, hd, hx, habs, hs2, hsym⟩ :=
    symlink_checks I c caller t linkpath hready hp hdir hret
  rw [hsym] at hret ⊢
  have h2 : link_ready I c2 := link_ready_same_fs I c c2 hs2 hready
  obtain ⟨N, ino, c6, T, o, hN0, hN32, hNle, hNfree, hloc, hf, hrec, hmode, hsz, htl, hstore,
    hadd, hfin⟩ := symlink_create_prepared I c2 caller t _ pa _ h2 hret
  rw [hfin]
  have hpi2 : (read_inode_from_disk c2
      (path_to_inode_num c caller (parse_path linkpath).1).1).1 = .ok pa := by
    rw [(read_inode_from_disk_same c c2 _ hs2).1]
    exact hpi
  have habs2 : lookup_component c2.device_fd pa (parse_path linkpath).2 = .absent := by
    rw [hs2.1]
    exact habs
  obtain ⟨ioF, lF, hext, ⟨paF, hrPF, m1, m2, m3, hfound⟩, ⟨inoF, hrNF, hino⟩, hBk⟩ :=
    link_entered I c2 c6 _ _ N T o pa ino _ _ h2 hI hpi2 hd habs2 hblen hN0 hN32 hNfree hloc
      hf hrec hadd rfl
  generalize hcF : sync_fs_metadata (add_dir_entry c6 pa
    (path_to_inode_num c caller (parse_path linkpath).1).1 (parse_path linkpath).2 N
    (Nat.land S_IFLNK S_IFMT / 4096)).2.2 = cF at *
  have hext0 : resolve_extends_on I c (setErrno cF 0) :=
    resolve_extends_on_same_fs I c c2 cF (setErrno cF 0) hs2 (same_fs_setErrno cF 0) hext
  obtain ⟨hcomp, hne, hnd, hsl⟩ := path_components_parse linkpath hp hb
  obtain ⟨_, hwalk⟩ := resolve_path_budget_snoc caller I c (setErrno cF 0) hext0
    (parse_path linkpath).2 hne hsl (FUSE_SYMLINK_MAX + 1 - 0) (parse_path linkpath).1 linkpath
    hdir hcomp
  have hwalk' : resolve_path_budget caller false (FUSE_SYMLINK_MAX + 1 - 0) (setErrno cF 0)
      linkpath = final_step caller (setErrno cF 0)
        (path_to_inode_num c caller (parse_path linkpath).1).1 (parse_path linkpath).2 := hwalk
  have hs0 : same_fs cF (setErrno cF 0) := same_fs_setErrno cF 0
  have hrP0 : (read_inode_from_disk (setErrno cF 0)
      (path_to_inode_num c caller (parse_path linkpath).1).1).1 = .ok paF := by
    rw [(read_inode_from_disk_same cF _ _ hs0).1]
    exact hrPF
  have hrN0 : read_inode_from_disk (setErrno cF 0) N = (.ok inoF, setErrno cF 0) := by
    apply read_inode_from_disk_eq
    rw [(read_inode_from_disk_same cF _ _ hs0).1]
    exact hrNF
  have hres : resolve_path_recursive (setErrno cF 0) caller linkpath 0 false =
      (N, setErrno cF 0) := by
    unfold resolve_path_recursive
    rw [hwalk']
    have hev := final_step_eval caller (setErrno cF 0)
      (path_to_inode_num c caller (parse_path linkpath).1).1 (parse_path linkpath).2 paF hne hnd
      hrP0 (by rw [m1]; exact hd)
      (by rw [(check_access_view c (setErrno cF 0) caller pa paF X_OK m1 m2 m3 hx).2])
    have hfound0 : lookup_component (setErrno cF 0).device_fd paF (parse_path linkpath).2 =
        .found N := hfound
    rw [hev, hfound0]
    dsimp only
    rw [hrN0]
  obtain ⟨f1, _, _, f4, f5⟩ := record_fields inoF ino hino
  have fblocks : i_blocks inoF = i_blocks ino := by
    unfold i_blocks
    exact getLE_congr _ _ _ _ (fun i _ h2 => hino i (by unfold SIMPLEFS_INODE_SIZE; omega))
  have fb0 : i_block inoF 0 = i_block ino 0 := f5 0 (by decide)
  have hmL : S_ISLNK (i_mode inoF) = true := by
    rw [f1, hmode]
    exact link_mode_facts.1
  have hstoreF : (t.length < I_BLOCK_BYTES ∧ i_blocks inoF = 0 ∧
        bytesOf inoF I_BLOCK_OFF t.length = t) ∨
      (I_BLOCK_BYTES ≤ t.length ∧ i_blocks inoF = 8 ∧ i_block inoF 0 ≠ 0 ∧
        bytesOf (cF.device_fd.data (i_block inoF 0)) 0 t.length = t) := by
    rcases hstore with ⟨s1, s2, s3⟩ | ⟨s1, s2, s3, s4, s5, s6, s7, s8⟩
    · left
      refine ⟨s1, by rw [fblocks]; exact s2, ?_⟩
      rw [bytesOf_congr inoF ino _ _ (fun i h1 h2 => hino i (by
        unfold I_BLOCK_OFF at h2
        unfold I_BLOCK_BYTES at s1
        unfold SIMPLEFS_INODE_SIZE
        omega))]
      exact s3
    · right
      refine ⟨s1, by rw [fblocks]; exact s2, by rw [fb0]; exact s3, ?_⟩
      rw [fb0, hBk _ s3 s4 s5 s6]
      exact s8
  obtain ⟨q1, q2⟩ := readlink_of_link cF caller linkpath t size N inoF ioF hres hN0 hrNF hmL
    (by rw [f4]; exact hsz) ht hsize
    (by
      rcases hstoreF with ⟨_, s2, s3⟩ | ⟨_, s2, s3, s4⟩
      · exact Or.inl ⟨s2, s3⟩
      · exact Or.inr ⟨by rw [s2]; decide, s3, s4⟩)
  refine ⟨?_, htl, q1, q2, N, inoF, hN0, ?_, hrNF, hmL, by rw [f4]; exact hsz, ?_, ?_⟩
  · cases t with
    | nil => exact absurd rfl ht
    | cons x xs => simp
  · rw [← (resolve_path_recursive_same caller false 0 cF (setErrno cF 0) linkpath hs0).1, hres]
  · intro hlt
    rcases hstoreF with ⟨_, s2, s3⟩ | ⟨s1, _⟩
    · exact ⟨s2, s3⟩
    · omega
  · intro hge
    rcases hstoreF with ⟨s1, _⟩ | ⟨_, s2, s3, s4⟩
    · omega
    · exact ⟨s2, s3, s4⟩

/-! ## A freshly formatted filesystem is ready for the creation of a link -/

theorem inode_location_valid (c : SimpleFS_Context) (m : Nat) (loc : Nat × Nat)
    (h : inode_location c m = .ok loc) : 1 ≤ m ∧ m ≤ c.sb.s_inodes_count := by
  unfold inode_location at h
  by_cases h0 : m = 0 ∨ m > c.sb.s_inodes_count
  · rw [if_pos h0] at h
    exact Except.noConfusion h
  · omega

/-- A block among the metadata blocks of its group, on the formatter's layout:
it lies on the device, in the group, and its bit is set. -/
theorem formatter_meta_bit (n : Nat) (c : SimpleFS_Context) (hl : formatter_layout n c)
    (hm : metadata_marked n c) (g x : Nat) (hg : g < spec_groups n)
    (h1 : g * 32768 ≤ x) (h2 : x < spec_block_bitmap (spec_gdt_blocks n) g + 34) :
    x < n ∧ x / 32768 = g ∧ block_bit_set c x = true := by
  obtain ⟨h64, hn, _, l2, l3, _, l5, hgd⟩ := hl
  obtain ⟨f1, f2, _, f4, _, f6, _⟩ := spec_groups_facts n h64 hn
  obtain ⟨b1, b2, b3, b4⟩ := spec_block_bitmap_bounds (spec_gdt_blocks n) g f6
  obtain ⟨k1, k2, k3, k4⟩ := hgd g hg
  have hq : x / 32768 = g := by omega
  have hr : x % 32768 = x - g * 32768 := by omega
  refine ⟨by omega, hq, ?_⟩
  unfold block_bit_set
  dsimp only
  rw [l2, hq, k1, hr]
  apply hm g hg
  by_cases h0 : g = 0
  · rw [if_pos h0]
    have := b4 h0
    omega
  · rw [if_neg h0]
    have := b3 h0
    omega

/-- The state after formatting, with the root directory in one block `b` that
is in use and lies behind the metadata of group 0: it is ready for the
creation of a link below the root inode. -/
theorem link_ready_fresh (n : Nat) (c : SimpleFS_Context) (a : Buf) (b : Nat)
    (offs : List Nat)
    (hl : formatter_layout n c) (hm : metadata_marked n c) (hio : io_ok c)
    (hlay : block_layout_ok c) (hcnt : counts_in_range c)
    (hroot : c.sb.s_root_inode = 2) (hused : inode_bit_set c 2 = true)
    (hr : (read_inode_from_disk c 2).1 = .ok a) (hd : S_ISDIR (i_mode a) = true)
    (hrest : ∀ s, s < 15 → s ≠ 0 → i_block a s = 0) (hsize : i_size a = SIMPLEFS_BLOCK_SIZE)
    (hb : i_block a 0 = b) (hb1 : spec_block_bitmap (spec_gdt_blocks n) 0 + 34 ≤ b)
    (hb2 : b < 32768) (hbn : b < n) (hbit : block_bit_set c b = true)
    (ht : Tiles (c.device_fd.data b) 0 offs)
    (hlist : dir_listing c a = [(DOT, 2), (DOTDOT, 2)]) :
    link_ready (fun m => m = 2) c := by
  have hl' := hl
  obtain ⟨h64, hn, l1, l2, l3, l4, l5, hgd⟩ := hl
  obtain ⟨f1, f2, f3, f4, f5, f6, f7⟩ := spec_groups_facts n h64 hn
  have hB : SIMPLEFS_BLOCK_SIZE = 4096 := rfl
  -- the blocks of the groups
  have hbm : ∀ x, block_bitmaps c x → ∃ g, g < spec_groups n ∧
      x = spec_block_bitmap (spec_gdt_blocks n) g := by
    rintro x ⟨g, hg, e⟩
    rw [l5] at hg
    exact ⟨g, hg, by rw [e, (hgd g hg).1]⟩
  have hibm : ∀ x, inode_bitmaps c x → ∃ g, g < spec_groups n ∧
      x = spec_block_bitmap (spec_gdt_blocks n) g + 1 := by
    rintro x ⟨g, hg, e⟩
    rw [l5] at hg
    exact ⟨g, hg, by rw [e, (hgd g hg).2.1]⟩
  have htab : ∀ m T o, inode_location c m = .ok (T, o) →
      1 ≤ m ∧ m ≤ c.sb.s_inodes_count ∧ (m - 1) / 1024 < spec_groups n ∧
      T = spec_block_bitmap (spec_gdt_blocks n) ((m - 1) / 1024) + 2 + (m - 1) % 1024 / 32 ∧
      o = (m - 1) % 1024 % 32 * 128 := by
    intro m T o hloc
    obtain ⟨v1, v2⟩ := inode_location_valid c m _ hloc
    obtain ⟨e, hg, _, _⟩ := formatter_inode_location n c hl' m v1 v2
    rw [e] at hloc
    injection hloc with hloc
    injection hloc with e1 e2
    rw [(hgd _ hg).2.2.1] at e1
    exact ⟨v1, v2, hg, e1.symm, e2.symm⟩
  have hsync : ∀ x, sync_target c x → x < spec_block_bitmap (spec_gdt_blocks n) (x / 32768) ∧
      x / 32768 < spec_groups n ∧ block_bit_set c x = true := by
    intro x hx
    obtain ⟨_, _, s3, s4, s5, _⟩ := flush_target_facts n c hl' hm x (sync_target_spec n c hl' x hx)
    rw [l2] at s3 s4
    rw [l5] at s3
    rw [(hgd _ s3).1] at s4
    exact ⟨s4, s3, s5⟩
  have bnd := fun g => spec_block_bitmap_bounds (spec_gdt_blocks n) g f6
  have hquiet : ∀ g x, g < spec_groups n →
      spec_block_bitmap (spec_gdt_blocks n) g + 2 ≤ x →
      (x < spec_block_bitmap (spec_gdt_blocks n) g + 34 ∨
        (g = 0 ∧ x < 32768 ∧ x < n ∧ block_bit_set c x = true)) →
      quiet_block c x := by
    intro g x hg x1 x2
    obtain ⟨b1, b2, _, _⟩ := bnd g
    have hxg : x / 32768 = g := by
      rcases x2 with x2 | ⟨x2, x3, _, _⟩
      · omega
      · subst x2
        omega
    have hxn : x < n ∧ block_bit_set c x = true := by
      rcases x2 with x2 | ⟨_, _, x4, x5⟩
      · obtain ⟨m1, _, m3⟩ := formatter_meta_bit n c hl' hm g x hg (by omega) x2
        exact ⟨m1, m3⟩
      · exact ⟨x4, x5⟩
    refine ⟨⟨by omega, by rw [l1]; exact hxn.1, hxn.2, ?_, ?_⟩, ?_⟩
    · intro hx
      obtain ⟨g', hg', e⟩ := hbm x hx
      obtain ⟨c1, c2, _, _⟩ := bnd g'
      have : g' = g := by omega
      subst this
      omega
    · intro hx
      obtain ⟨s1, _, _⟩ := hsync x hx
      rw [hxg] at s1
      omega
    · intro hx
      obtain ⟨g', hg', e⟩ := hibm x hx
      obtain ⟨c1, c2, _, _⟩ := bnd g'
      have : g' = g := by omega
      subst this
      omega
  have hg0 : 0 < spec_groups n := by omega
  have hqb : quiet_block c b :=
    hquiet 0 b hg0 (by omega) (Or.inr ⟨rfl, hb2, hbn, hbit⟩)
  have hbT : ∀ m T o, inode_location c m = .ok (T, o) → b ≠ T := by
    intro m T o hloc e
    obtain ⟨_, _, t3, t4, _⟩ := htab m T o hloc
    obtain ⟨c1, c2, _, _⟩ := bnd ((m - 1) / 1024)
    have hk : (m - 1) % 1024 / 32 < 32 := by omega
    by_cases hz : (m - 1) / 1024 = 0
    · rw [hz] at t4
      omega
    · omega
  have v2 : 2 ≤ c.sb.s_inodes_count := by rw [l4]; omega
  obtain ⟨eloc, _, _, _⟩ := formatter_inode_location n c hl' 2 (by omega) v2
  have hnodes : ∀ x, resolve_reads c.device_fd.data a x → x = b := by
    rintro x ⟨hx0, ⟨_, s, idxs, hp, e⟩ | ⟨hk, _⟩⟩
    · obtain ⟨e1, e2⟩ := one_block_tree c.device_fd.data a hrest s idxs hp (by rw [e]; exact hx0)
      subst e1
      subst e2
      rw [tree_node_nil, hb] at e
      exact e.symm
    · rw [dir_not_lnk _ hd] at hk
      exact Bool.noConfusion hk
  have htq : ∀ m T o, inode_location c m = .ok (T, o) → quiet_block c T := by
    intro m T o hloc
    obtain ⟨_, _, t3, t4, _⟩ := htab m T o hloc
    have hk : (m - 1) % 1024 / 32 < 32 := by omega
    exact hquiet _ T t3 (by omega) (Or.inl (by omega))
  have hdir : dir_ok c a 2 :=
    one_block_dir_ok c a 2 b _ _ offs hio hrest hsize hb hqb.1.1 ht eloc
      (hbT 2 _ _ eloc) (htq 2 _ _ eloc).1.1
  refine
    { io := hio
      layout := hlay
      counts := hcnt
      ifit := by rw [l5, l3]; omega
      bitmaps := ?_
      ibitmaps := ?_
      located := ?_
      table := htq
      slots := ?_
      synced := fun x hx _ => (hsync x hx).2.2
      root_in := hroot
      valid := ?_
      used := ?_
      closed := ?_
      reads := ?_
      apart := ?_
      dirs := ?_ }
  · intro x hx
    obtain ⟨g, hg, e⟩ := hbm x hx
    obtain ⟨c1, c2, _, _⟩ := bnd g
    obtain ⟨m1, _, m3⟩ := formatter_meta_bit n c hl' hm g x hg (by omega) (by omega)
    exact ⟨by rw [l1]; exact m1, m3⟩
  · intro x hx hx2
    obtain ⟨g, hg, e⟩ := hibm x hx
    obtain ⟨g', hg', e'⟩ := hbm x hx2
    obtain ⟨c1, c2, _, _⟩ := bnd g
    obtain ⟨c3, c4, _, _⟩ := bnd g'
    have : g' = g := by omega
    subst this
    omega
  · intro m m0 mle
    obtain ⟨e, _, _, _⟩ := formatter_inode_location n c hl' m (by omega) mle
    exact ⟨_, _, e⟩
  · intro m m' T o o' hne h1 h2
    obtain ⟨a1, _, a3, a4, a5⟩ := htab m T o h1
    obtain ⟨b1, _, b3, b4, b5⟩ := htab m' T o' h2
    obtain ⟨c1, c2, _, _⟩ := bnd ((m - 1) / 1024)
    obtain ⟨c3, c4, _, _⟩ := bnd ((m' - 1) / 1024)
    have hS : SIMPLEFS_INODE_SIZE = 128 := rfl
    have hgg : (m - 1) / 1024 = (m' - 1) / 1024 := by omega
    rw [hgg] at a4
    rw [hS]
    omega
  · intro m hm2
    subst hm2
    exact ⟨by omega, v2⟩
  · intro m hm2
    subst hm2
    exact hused
  · intro m a' comp m' hm2 hr' _ hlk
    subst hm2
    rw [hr] at hr'
    injection hr' with e
    subst e
    have hmem := lookup_found_listing c a 2 comp m' hdir hlk
    rw [hlist] at hmem
    simp only [List.mem_cons, Prod.mk.injEq, List.mem_singleton, List.not_mem_nil,
      or_false] at hmem
    rcases hmem with ⟨_, e⟩ | ⟨_, e⟩
    · exact e
    · exact e
  · intro m a' hm2 hr' x hx
    subst hm2
    rw [hr] at hr'
    injection hr' with e
    subst e
    have := hnodes x hx
    subst this
    exact ⟨hqb, fun m' T o hloc => hbT m' T o hloc⟩
  · intro m m' _ _ h1 h2 hne
    subst h1
    subst h2
    exact absurd rfl hne
  · intro m a' hm2 hr' _
    subst hm2
    rw [hr] at hr'
    injection hr' with e
    subst e
    refine ⟨hdir, ?_, ?_⟩
    · rw [hlist]
      decide
    · rw [hsize, hB]
      decide

/-- The two-group image after formatting is ready for the creation of a link
below its root directory. -/
theorem ctxFresh2_link_ready : link_ready (fun m => m = 2) ctxFresh2 :=
  link_ready_fresh 32832 ctxFresh2 (inode_of ctxFresh2 2) 37 [0, 12] (by decide!) (by decide!)
    (fun _ => ⟨rfl, rfl⟩) (by decide!) (by decide!) (by decide!) (by decide!)
    (inode_of_spec ctxFresh2 2 (by decide!)) (by decide!) (by decide!) (by decide!)
    (by decide!) (by decide!) (by decide) (by decide) (by decide!)
    (tiles_of_check _ _ _ (by decide!)) (by decide!)

/-- Witness for C7 on the two-group image after formatting, caller uid 0: the
link `/b` with the two-byte target `"xy"` is stored inline (`i_blocks == 0`),
the link `/b` with the target `"x" * 200` is stored in one data block
(`i_blocks == 8`), and `simplefs_readlink` with a buffer of 4096 bytes returns
the target followed by a NUL in both cases. -/
theorem C7_symlink_then_readlink_witness :
    link_ready (fun m => m = 2) ctxFresh2 ∧
    ((path_to_inode_num ctxFresh2 rootCaller (parse_path PATH_B).1).1 ≠ 0 ∧
      (simplefs_symlink ctxFresh2 rootCaller [120, 121] PATH_B).1 = 0 ∧
      (simplefs_readlink (simplefs_symlink ctxFresh2 rootCaller [120, 121] PATH_B).2
        rootCaller PATH_B 4096).1 = 0 ∧
      (simplefs_readlink (simplefs_symlink ctxFresh2 rootCaller [120, 121] PATH_B).2
        rootCaller PATH_B 4096).2.1 = [120, 121, 0]) ∧
    ((simplefs_symlink ctxFresh2 rootCaller TARGET_200 PATH_B).1 = 0 ∧
      (simplefs_readlink (simplefs_symlink ctxFresh2 rootCaller TARGET_200 PATH_B).2
        rootCaller PATH_B 4096).1 = 0 ∧
      (simplefs_readlink (simplefs_symlink ctxFresh2 rootCaller TARGET_200 PATH_B).2
        rootCaller PATH_B 4096).2.1 = TARGET_200 ++ [0] ∧
      ∃ N ino, N ≠ 0 ∧
        (resolve_path_recursive (simplefs_symlink ctxFresh2 rootCaller TARGET_200 PATH_B).2
          rootCaller PATH_B 0 false).1 = N ∧
        (read_inode_from_disk (simplefs_symlink ctxFresh2 rootCaller TARGET_200 PATH_B).2
          N).1 = .ok ino ∧
        i_blocks ino = 8 ∧ i_block ino 0 ≠ 0) := by
  have hready := ctxFresh2_link_ready
  have hp : PATH_B.head? = some SLASH := by decide
  have hdir : (path_to_inode_num ctxFresh2 rootCaller (parse_path PATH_B).1).1 ≠ 0 := by decide!
  have h1 : (simplefs_symlink ctxFresh2 rootCaller [120, 121] PATH_B).1 = 0 := by decide!
  have h2 : (simplefs_symlink ctxFresh2 rootCaller TARGET_200 PATH_B).1 = 0 := by decide!
  obtain ⟨_, _, a3, a4, _⟩ := C7_symlink_then_readlink (fun m => m = 2) ctxFresh2 rootCaller
    [120, 121] PATH_B 4096 hready hp hdir (by decide) h1
  have hlen : TARGET_200.length = 200 := by
    unfold TARGET_200
    exact List.length_replicate _ _
  have hge : I_BLOCK_BYTES ≤ TARGET_200.length := by
    rw [hlen]
    decide
  obtain ⟨_, _, b3, b4, N, ino, b5, b6, b7, _, _, _, b8⟩ :=
    C7_symlink_then_readlink (fun m => m = 2) ctxFresh2 rootCaller
      TARGET_200 PATH_B 4096 hready hp hdir (by rw [hlen]; decide) h2
  exact ⟨hready, ⟨hdir, h1, a3, a4⟩, ⟨h2, b3, b4, N, ino, b5, b6, b7,
    (b8 hge).1, (b8 hge).2.1⟩⟩

/-! ## free_inode and the reserved inodes -/

theorem free_inode_reserved (context : SimpleFS_Context) (inode_num mode : Nat)
    (h : inode_num = 0 ∨ inode_num > context.sb.s_inodes_count ∨
      inode_num < context.sb.s_first_ino) :
    free_inode context inode_num mode = context := by
  unfold free_inode
  by_cases h0 : inode_num = 0 ∨ inode_num > context.sb.s_inodes_count
  · rw [if_pos h0]
  · have h1 : inode_num < context.sb.s_first_ino := by
      rcases h with h | h | h
      · exact absurd (Or.inl h) h0
      · exact absurd (Or.inr h) h0
      · exact h
    rw [if_neg h0, if_pos ⟨h1, fun h2 => h0 (Or.inl h2)⟩]

theorem inode_given_ne (context : SimpleFS_Context) (mode g bit : Nat) :
    inode_given context mode g bit ≠ context := by
  intro h
  have hcount : inc32 context.sb.s_free_inodes_count = context.sb.s_free_inodes_count :=
    congrArg (fun x => x.sb.s_free_inodes_count) h
  unfold inc32 at hcount
  omega

/-- C16 (`free_inode`, `src/metadata.cpp` 62-93). The call changes nothing when
the inode number is 0, above `s_inodes_count`, or below `s_first_ino`; the root
inode 2 is below `s_first_ino` and is not excepted, the second guard of the
source being `inode_num < s_first_ino && inode_num != 0`. For every other
inode number whose group has a descriptor and whose inode bitmap block can be
read and written, the call changes the state: the bit
`(inode_num - 1) % s_inodes_per_group` of the inode bitmap of group
`(inode_num - 1) / s_inodes_per_group` is cleared on the device, the group's
`bg_free_inodes_count` is raised by one as a `uint16_t` and the superblock's
`s_free_inodes_count` by one as a `uint32_t`, and the group's
`bg_used_dirs_count` is lowered by one exactly when the mode is a directory
mode and the count is above 0. -/
theorem C16_free_inode (context : SimpleFS_Context) (inode_num mode : Nat) :
    ((inode_num = 0 ∨ inode_num > context.sb.s_inodes_count ∨
        inode_num < context.sb.s_first_ino) →
      free_inode context inode_num mode = context) ∧
    (¬ (inode_num = 0 ∨ inode_num > context.sb.s_inodes_count ∨
        inode_num < context.sb.s_first_ino) →
      (inode_num - 1) / context.sb.s_inodes_per_group < context.gdt.length →
      context.device_fd.readable (context.gdt.getD
        ((inode_num - 1) / context.sb.s_inodes_per_group) default).bg_inode_bitmap = true →
      context.device_fd.writable (context.gdt.getD
        ((inode_num - 1) / context.sb.s_inodes_per_group) default).bg_inode_bitmap = true →
      free_inode context inode_num mode ≠ context ∧
      free_inode context inode_num mode =
        { context with
          device_fd := context.device_fd.put
            (context.gdt.getD ((inode_num - 1) / context.sb.s_inodes_per_group)
              default).bg_inode_bitmap
            (clear_bitmap_bit
              (context.device_fd.data (context.gdt.getD
                ((inode_num - 1) / context.sb.s_inodes_per_group) default).bg_inode_bitmap)
              SIMPLEFS_BLOCK_SIZE ((inode_num - 1) % context.sb.s_inodes_per_group))
          gdt := context.gdt.set ((inode_num - 1) / context.sb.s_inodes_per_group)
            { (context.gdt.getD ((inode_num - 1) / context.sb.s_inodes_per_group) default) with
              bg_free_inodes_count := inc16 (context.gdt.getD
                ((inode_num - 1) / context.sb.s_inodes_per_group) default).bg_free_inodes_count
              bg_used_dirs_count :=
                if S_ISDIR mode ∧ (context.gdt.getD
                    ((inode_num - 1) / context.sb.s_inodes_per_group)
                    default).bg_used_dirs_count > 0 then
                  dec16 (context.gdt.getD ((inode_num - 1) / context.sb.s_inodes_per_group)
                    default).bg_used_dirs_count
                else (context.gdt.getD ((inode_num - 1) / context.sb.s_inodes_per_group)
                  default).bg_used_dirs_count }
          sb := { context.sb with
            s_free_inodes_count := inc32 context.sb.s_free_inodes_count } }) := by
  refine ⟨free_inode_reserved context inode_num mode, fun hn hg hr hw => ?_⟩
  have e := free_inode_given context inode_num mode (fun h => hn (Or.inl h))
    (by
      by_contra hc
      exact hn (Or.inr (Or.inl (by omega))))
    (by
      by_contra hc
      exact hn (Or.inr (Or.inr (by omega)))) hg hr hw
  refine ⟨?_, ?_⟩
  · rw [e]
    exact inode_given_ne _ _ _ _
  · rw [e]
    rfl

/-- Witness for C16 on `ctxAlloc` (`s_first_ino = 11`): freeing the root inode
2 as a directory leaves the state as it was; freeing inode 11 changes the
state, clears its bit and raises the superblock count by one. -/
theorem C16_free_inode_witness :
    free_inode ctxAlloc 2 S_IFDIR = ctxAlloc ∧
    free_inode ctxAlloc 11 S_IFREG ≠ ctxAlloc ∧
    inode_bit_set ctxAlloc 11 = true ∧
    inode_bit_set (free_inode ctxAlloc 11 S_IFREG) 11 = false ∧
    (free_inode ctxAlloc 11 S_IFREG).sb.s_free_inodes_count =
      ctxAlloc.sb.s_free_inodes_count + 1 :=
  ⟨(C16_free_inode ctxAlloc 2 S_IFDIR).1 (Or.inr (Or.inr (by decide))),
   ((C16_free_inode ctxAlloc 11 S_IFREG).2 (by decide!) (by decide!) (by decide!)
     (by decide!)).1,
   by decide!, by decide!, by decide!⟩

/-- C16, the claim as stated fails at the root inode. On `ctxAlloc` inode 2 is
none of the numbers for which the claim lets `free_inode` change nothing (it is
not 0, not above `s_inodes_count`, and it is excepted from the numbers below
`s_first_ino`), its bit is set, and its inode bitmap block can be read and
written; the claim requires the bit to be cleared and the counts to be raised,
and `free_inode` leaves the state as it was. -/
theorem C16_root_inode_is_not_released :
    ¬ ((2 : Nat) = 0 ∨ 2 > ctxAlloc.sb.s_inodes_count ∨
      (2 < ctxAlloc.sb.s_first_ino ∧ (2 : Nat) ≠ 2)) ∧
    ctxAlloc.device_fd.readable (ctxAlloc.gdt.getD 0 default).bg_inode_bitmap = true ∧
    ctxAlloc.device_fd.writable (ctxAlloc.gdt.getD 0 default).bg_inode_bitmap = true ∧
    inode_bit_set ctxAlloc 2 = true ∧
    free_inode ctxAlloc 2 S_IFDIR = ctxAlloc :=
  ⟨by decide, by decide!, by decide!, by decide!,
   free_inode_reserved ctxAlloc 2 S_IFDIR (Or.inr (Or.inr (by decide)))⟩

end SimpleFS
